import Mathlib

/-!
# A verification development for the SPChess engine

Shallow embedding of the rules engine (`SPChessGame.c`, `SPChessGameAux.c`), the move
buffer (`SPChessArrayList.c`), the move record (`SPChessMove.c`) and the search
(`SPChessMinimax.c`).

Conventions of the embedding:

* C `int` coordinates and counters are `Int`.  No counter comes near the 32-bit range, so
  no wrap-around is modelled.
* The board `char board[8][8]` is a total function `Int → Int → Piece`.  Every write of the
  C code is on the board; the cells outside `0..7 × 0..7` are never read on a path the C
  code can take without undefined behaviour.
* Functions that write to the game (even temporarily, as the legality checks do) return the
  game they leave behind.
* `malloc` never fails: the `SP_CHESS_GAME_MEMORY_FAILURE` / `MEMORY_FAILURE` paths that
  only an allocation failure can take are not modelled.
* The header files are not part of the sources under study; the constants they define are
  modelled from the specification (standard chess layout) and marked as such.
-/

namespace SPChess

/-! ## Constants of the missing headers -/

/-- Modelled from the spec: `BOARD_LENGTH` of `SPChessGame.h`, the 8×8 board of §3. -/
def BOARD_LENGTH : Int := 8
/-- Modelled from the spec: `FIRST_ROW_AND_COL` of the header, the index of the first rank and file. -/
def FIRST_ROW_AND_COL : Int := 0
/-- Modelled from the spec: `WHITE_FIRST_ROW`, "Row 0 is White's first rank". -/
def WHITE_FIRST_ROW : Int := 0
/-- Modelled from the spec: `BLACK_FIRST_ROW`, "row 7 is Black's first rank". -/
def BLACK_FIRST_ROW : Int := 7
/-- Modelled from the spec: `WHITE_PAWNS_ROW`, the white pawns' starting rank. -/
def WHITE_PAWNS_ROW : Int := 1
/-- Modelled from the spec: `BLACK_PAWNS_ROW`, the black pawns' starting rank. -/
def BLACK_PAWNS_ROW : Int := 6
/-- Modelled from the spec: `LEFT_ROOK_COL`, the column of the left rook corner. -/
def LEFT_ROOK_COL : Int := 0
/-- Modelled from the spec: `RIGHT_ROOK_COL`, the column of the right rook corner. -/
def RIGHT_ROOK_COL : Int := 7
/-- Modelled from the spec: `KING_COL`, the king's home column in the standard layout. -/
def KING_COL : Int := 4
/-- Modelled from the spec: `GOING_DOWNWARDS`, a step of one row towards row 0. -/
def GOING_DOWNWARDS : Int := -1
/-- Modelled from the spec: `GOING_UPWARDS`, a step of one row towards row 7. -/
def GOING_UPWARDS : Int := 1
/-- Modelled from the spec: `GOING_LEFT`, a step of one column towards column 0. -/
def GOING_LEFT : Int := -1
/-- Modelled from the spec: `GOING_RIGHT`, a step of one column towards column 7. -/
def GOING_RIGHT : Int := 1
/-- Modelled from the spec: `SAME_ROW`, no change of row. -/
def SAME_ROW : Int := 0
/-- Modelled from the spec: `SAME_COL`, no change of column. -/
def SAME_COL : Int := 0
/-- Modelled from the spec: `DUMMY_COORDINATE`, the invalid coordinate ("aka -1" in the parser). -/
def DUMMY_COORDINATE : Int := -1
/-- Modelled from the spec: `MIN_MOVES_AMOUNT_TO_SORT`, "at least two candidates exist". -/
def MIN_MOVES_AMOUNT_TO_SORT : Int := 2
/-- Modelled from the spec: `ONLY_ONE_MOVE`, "only one (engine) move exists". -/
def ONLY_ONE_MOVE : Int := 1
/-- Modelled from the spec: `ROOT_DEPTH`, the depth of the root of the search tree. -/
def ROOT_DEPTH : Int := 0
/-- The C constant `INT_MAX` for 32-bit `int`. -/
def INT_MAX : Int := 2147483647
/-- The C constant `INT_MIN` for 32-bit `int`. -/
def INT_MIN : Int := -2147483648

/-! ## Data model -/

/-- Modelled from the spec: the 13 cell symbols of §3 (the `char` constants of the header). -/
inductive Piece where
  | EMPTY_POSITION
  | WHITE_PAWN | WHITE_KNIGHT | WHITE_BISHOP | WHITE_ROOK | WHITE_QUEEN | WHITE_KING
  | BLACK_PAWN | BLACK_KNIGHT | BLACK_BISHOP | BLACK_ROOK | BLACK_QUEEN | BLACK_KING
deriving DecidableEq, Repr

/-- Modelled from the spec: the side to move, `WHITE_PLAYER` (1 in C) or `BLACK_PLAYER` (0). -/
inductive Player where
  | BLACK_PLAYER
  | WHITE_PLAYER
deriving DecidableEq, Repr

/-- The C negation `!(game->currentPlayer)` on the 1/0 encoding of the players. -/
def Player.not : Player → Player
  | .WHITE_PLAYER => .BLACK_PLAYER
  | .BLACK_PLAYER => .WHITE_PLAYER

/-- Modelled from the spec: the `GAME_STATUS` enumeration of §3. -/
inductive GAME_STATUS where
  | GAME_NOT_FINISHED_NO_CHECK
  | GAME_NOT_FINISHED_CHECK
  | WHITE_PLAYER_WINS
  | BLACK_PLAYER_WINS
  | TIED_GAME
  | MEMORY_FAILURE
deriving DecidableEq, Repr

/-- Modelled from the spec: the `SP_CHESS_GAME_MESSAGE` enumeration (result codes of §4.1). -/
inductive SP_CHESS_GAME_MESSAGE where
  | SP_CHESS_GAME_SUCCESS
  | SP_CHESS_GAME_INVALID_ARGUMENT
  | SP_CHESS_GAME_INVALID_POSITION
  | SP_CHESS_GAME_CASTLE_NO_ROOK
  | SP_CHESS_GAME_ILLEGAL_CASTLE_MOVE
  | SP_CHESS_GAME_ILLEGAL_MOVE
  | SP_CHESS_GAME_MEMORY_FAILURE
deriving DecidableEq, Repr

/-- Modelled from the spec: the `SP_ARRAY_LIST_MESSAGE` enumeration of the move buffer. -/
inductive SP_ARRAY_LIST_MESSAGE where
  | SP_ARRAY_LIST_SUCCESS
  | SP_ARRAY_LIST_INVALID_ARGUMENT
  | SP_ARRAY_LIST_FULL
  | SP_ARRAY_LIST_EMPTY
deriving DecidableEq, Repr

open Piece Player GAME_STATUS SP_CHESS_GAME_MESSAGE SP_ARRAY_LIST_MESSAGE

/-- The `Move` record of `SPChessMove.h`, with the fields `spMoveCopyData` copies. -/
structure Move where
  srcRow : Int
  srcCol : Int
  dstRow : Int
  dstCol : Int
  srcPiece : Piece
  dstPiece : Piece
  whiteLeftCastle : Bool
  whiteRightCastle : Bool
  blackLeftCastle : Bool
  blackRightCastle : Bool
  castleMove : Bool
  pawnPromotion : Bool
  dstPieceCaptured : Bool
  threatenedAfterMove : Bool
deriving DecidableEq, Repr

/-- The `Army` record: five counters per side. -/
structure Army where
  numOfPawns : Int
  numOfKnights : Int
  numOfBishops : Int
  numOfRooks : Int
  numOfQueens : Int
deriving DecidableEq, Repr

/-- The move buffer `SPArrayList`: `elements` holds the `actualSize` live entries. -/
structure SPArrayList where
  elements : List Move
  maxSize : Int
deriving DecidableEq, Repr

/-- The board `char board[BOARD_LENGTH][BOARD_LENGTH]`, indexed `board row col`. -/
abbrev Board := Int → Int → Piece

/-- The assignment `board[row][col] = piece`. -/
def Board.set (board : Board) (row col : Int) (piece : Piece) : Board :=
  fun r c => if r = row ∧ c = col then piece else board r c

/-- The `SPChessGame` record. -/
structure SPChessGame where
  board : Board
  currentPlayer : Player
  whiteLeftCastle : Bool
  whiteRightCastle : Bool
  blackLeftCastle : Bool
  blackRightCastle : Bool
  whiteKingRow : Int
  whiteKingCol : Int
  blackKingRow : Int
  blackKingCol : Int
  whiteArmy : Army
  blackArmy : Army
  history : SPArrayList
  status : GAME_STATUS

/-- The assignment `game->board[row][col] = piece`. -/
def SPChessGame.setBoard (game : SPChessGame) (row col : Int) (piece : Piece) : SPChessGame :=
  { game with board := game.board.set row col piece }

/-! ## `SPChessMove.c` -/

/-- `spCreateMove`: the four flags are cleared; the other fields are whatever the
allocation held, given here by `junk`. -/
def spCreateMove (junk : Move) : Move :=
  { junk with dstPieceCaptured := false, pawnPromotion := false,
              threatenedAfterMove := false, castleMove := false }

/-! ## `SPChessArrayList.c` -/

/-- `spArrayListSize` on a non-null list. -/
def spArrayListSize (src : SPArrayList) : Int := src.elements.length

/-- `spArrayListIsFull` on a non-null list. -/
def spArrayListIsFull (src : SPArrayList) : Bool := spArrayListSize src == src.maxSize

/-- `spArrayListIsEmpty` on a non-null list. -/
def spArrayListIsEmpty (src : SPArrayList) : Bool := spArrayListSize src == 0

/-- `spArrayListClear` on a non-null list. -/
def spArrayListClear (src : SPArrayList) : SPArrayList := { src with elements := [] }

/-- `spArrayListAddAt` on a non-null list: the list afterwards and the message. -/
def spArrayListAddAt (src : SPArrayList) (elem : Move) (index : Int) :
    SPArrayList × SP_ARRAY_LIST_MESSAGE :=
  if index < 0 ∨ index > spArrayListSize src then (src, SP_ARRAY_LIST_INVALID_ARGUMENT)
  else if spArrayListIsFull src then (src, SP_ARRAY_LIST_FULL)
  else
    ({ src with elements :=
        src.elements.take index.toNat ++ elem :: src.elements.drop index.toNat },
      SP_ARRAY_LIST_SUCCESS)

/-- `spArrayListAddLast` on a non-null list. -/
def spArrayListAddLast (src : SPArrayList) (elem : Move) : SPArrayList × SP_ARRAY_LIST_MESSAGE :=
  spArrayListAddAt src elem (spArrayListSize src)

/-- `spArrayListRemoveAt` on a non-null list. -/
def spArrayListRemoveAt (src : SPArrayList) (index : Int) :
    SPArrayList × SP_ARRAY_LIST_MESSAGE :=
  if index < 0 ∨ index ≥ spArrayListSize src then (src, SP_ARRAY_LIST_INVALID_ARGUMENT)
  else if spArrayListIsEmpty src then (src, SP_ARRAY_LIST_EMPTY)
  else
    ({ src with elements :=
        src.elements.take index.toNat ++ src.elements.drop (index.toNat + 1) },
      SP_ARRAY_LIST_SUCCESS)

/-- `spArrayListRemoveFirst` on a non-null list. -/
def spArrayListRemoveFirst (src : SPArrayList) : SPArrayList × SP_ARRAY_LIST_MESSAGE :=
  spArrayListRemoveAt src 0

/-- `spArrayListRemoveLast` on a non-null list. -/
def spArrayListRemoveLast (src : SPArrayList) : SPArrayList × SP_ARRAY_LIST_MESSAGE :=
  spArrayListRemoveAt src (spArrayListSize src - 1)

/-- `spArrayListGetAt` on a non-null list; `none` is the C `NULL`. -/
def spArrayListGetAt (src : SPArrayList) (index : Int) : Option Move :=
  if index < 0 ∨ index ≥ spArrayListSize src then none
  else src.elements.get? index.toNat

/-- `spArrayListGetLast` on a non-null list. -/
def spArrayListGetLast (src : SPArrayList) : Option Move :=
  spArrayListGetAt src (spArrayListSize src - 1)

/-! ## `SPChessGameAux.c`: positions and piece ownership -/

/-- `validPosition`. -/
def validPosition (row col : Int) : Bool :=
  decide (row ≥ FIRST_ROW_AND_COL) && decide (row < BOARD_LENGTH) &&
    decide (col ≥ FIRST_ROW_AND_COL) && decide (col < BOARD_LENGTH)

/-- `pieceOccupyingPosition`. -/
def pieceOccupyingPosition (board : Board) (row col : Int) (piece : Piece) : Bool :=
  validPosition row col && decide (board row col = piece)

/-- `currentPlayerPiece`. -/
def currentPlayerPiece (currPlayer : Player) (piece : Piece) : Bool :=
  let whitePlayerWhitePiece :=
    decide (currPlayer = WHITE_PLAYER) &&
      (decide (piece = WHITE_PAWN) || decide (piece = WHITE_KNIGHT) ||
        decide (piece = WHITE_BISHOP) || decide (piece = WHITE_ROOK) ||
        decide (piece = WHITE_QUEEN) || decide (piece = WHITE_KING))
  let blackPlayerBlackPiece :=
    decide (currPlayer = BLACK_PLAYER) &&
      (decide (piece = BLACK_PAWN) || decide (piece = BLACK_KNIGHT) ||
        decide (piece = BLACK_BISHOP) || decide (piece = BLACK_ROOK) ||
        decide (piece = BLACK_QUEEN) || decide (piece = BLACK_KING))
  whitePlayerWhitePiece || blackPlayerBlackPiece

/-- `rivalPiece`. -/
def rivalPiece (currPlayer : Player) (piece : Piece) : Bool :=
  let whitePlayerBlackPiece :=
    decide (currPlayer = WHITE_PLAYER) &&
      (decide (piece = BLACK_PAWN) || decide (piece = BLACK_KNIGHT) ||
        decide (piece = BLACK_BISHOP) || decide (piece = BLACK_ROOK) ||
        decide (piece = BLACK_QUEEN) || decide (piece = BLACK_KING))
  let blackPlayerWhitePiece :=
    decide (currPlayer = BLACK_PLAYER) &&
      (decide (piece = WHITE_PAWN) || decide (piece = WHITE_KNIGHT) ||
        decide (piece = WHITE_BISHOP) || decide (piece = WHITE_ROOK) ||
        decide (piece = WHITE_QUEEN) || decide (piece = WHITE_KING))
  whitePlayerBlackPiece || blackPlayerWhitePiece

/-! ## Threat detection -/

/-- The `do … while` loop of `directionalThreat`: one iteration per unit of `fuel`.
The loop leaves the board after at most `BOARD_LENGTH` steps, so `directionalThreat`
runs it with enough fuel; running out of fuel reports no threat. -/
def directionalThreatLoop (board : Board) (deltaRow deltaCol : Int) (pieceType : Piece) :
    Nat → Int → Int → Bool
  | 0, _, _ => false
  | fuel + 1, currRowToCheck, currColToCheck =>
    let currRowToCheck := currRowToCheck + deltaRow
    let currColToCheck := currColToCheck + deltaCol
    let validPos := validPosition currRowToCheck currColToCheck
    if validPos && decide (board currRowToCheck currColToCheck = EMPTY_POSITION) then
      directionalThreatLoop board deltaRow deltaCol pieceType fuel currRowToCheck currColToCheck
    else
      validPos && pieceOccupyingPosition board currRowToCheck currColToCheck pieceType

/-- `directionalThreat`. -/
def directionalThreat (board : Board) (srcRow srcCol deltaRow deltaCol : Int)
    (pieceType : Piece) : Bool :=
  directionalThreatLoop board deltaRow deltaCol pieceType 9 srcRow srcCol

/-- `bishopOrQueenThreat`. -/
def bishopOrQueenThreat (board : Board) (srcRow srcCol : Int) (pieceType : Piece) : Bool :=
  directionalThreat board srcRow srcCol GOING_DOWNWARDS GOING_LEFT pieceType ||
  directionalThreat board srcRow srcCol GOING_DOWNWARDS GOING_RIGHT pieceType ||
  directionalThreat board srcRow srcCol GOING_UPWARDS GOING_LEFT pieceType ||
  directionalThreat board srcRow srcCol GOING_UPWARDS GOING_RIGHT pieceType

/-- `rookOrQueenThreat`. -/
def rookOrQueenThreat (board : Board) (srcRow srcCol : Int) (pieceType : Piece) : Bool :=
  directionalThreat board srcRow srcCol GOING_DOWNWARDS SAME_COL pieceType ||
  directionalThreat board srcRow srcCol SAME_ROW GOING_LEFT pieceType ||
  directionalThreat board srcRow srcCol SAME_ROW GOING_RIGHT pieceType ||
  directionalThreat board srcRow srcCol GOING_UPWARDS SAME_COL pieceType

/-- `rivalPieceThreateningPosition`. -/
def rivalPieceThreateningPosition (board : Board) (srcRow srcCol : Int) (pieceType : Piece) :
    Bool :=
  match pieceType with
  | WHITE_PAWN =>
    pieceOccupyingPosition board (srcRow - 1) (srcCol - 1) pieceType ||
    pieceOccupyingPosition board (srcRow - 1) (srcCol + 1) pieceType
  | BLACK_PAWN =>
    pieceOccupyingPosition board (srcRow + 1) (srcCol - 1) pieceType ||
    pieceOccupyingPosition board (srcRow + 1) (srcCol + 1) pieceType
  | WHITE_KNIGHT | BLACK_KNIGHT =>
    pieceOccupyingPosition board (srcRow - 2) (srcCol - 1) pieceType ||
    pieceOccupyingPosition board (srcRow - 2) (srcCol + 1) pieceType ||
    pieceOccupyingPosition board (srcRow - 1) (srcCol - 2) pieceType ||
    pieceOccupyingPosition board (srcRow - 1) (srcCol + 2) pieceType ||
    pieceOccupyingPosition board (srcRow + 1) (srcCol - 2) pieceType ||
    pieceOccupyingPosition board (srcRow + 1) (srcCol + 2) pieceType ||
    pieceOccupyingPosition board (srcRow + 2) (srcCol - 1) pieceType ||
    pieceOccupyingPosition board (srcRow + 2) (srcCol + 1) pieceType
  | WHITE_BISHOP | BLACK_BISHOP => bishopOrQueenThreat board srcRow srcCol pieceType
  | WHITE_ROOK | BLACK_ROOK => rookOrQueenThreat board srcRow srcCol pieceType
  | WHITE_QUEEN | BLACK_QUEEN =>
    bishopOrQueenThreat board srcRow srcCol pieceType ||
    rookOrQueenThreat board srcRow srcCol pieceType
  | WHITE_KING | BLACK_KING =>
    pieceOccupyingPosition board (srcRow - 1) (srcCol - 1) pieceType ||
    pieceOccupyingPosition board (srcRow - 1) srcCol pieceType ||
    pieceOccupyingPosition board (srcRow - 1) (srcCol + 1) pieceType ||
    pieceOccupyingPosition board srcRow (srcCol - 1) pieceType ||
    pieceOccupyingPosition board srcRow (srcCol + 1) pieceType ||
    pieceOccupyingPosition board (srcRow + 1) (srcCol - 1) pieceType ||
    pieceOccupyingPosition board (srcRow + 1) srcCol pieceType ||
    pieceOccupyingPosition board (srcRow + 1) (srcCol + 1) pieceType
  | EMPTY_POSITION => false

/-- `rivalPlayerThreateningPosition`; it reads the board and the current player only. -/
def rivalPlayerThreateningPosition (game : SPChessGame) (positionRow positionCol : Int) : Bool :=
  let currPlayer := game.currentPlayer
  let pawnToCheck := if currPlayer = WHITE_PLAYER then BLACK_PAWN else WHITE_PAWN
  let knightToCheck := if currPlayer = WHITE_PLAYER then BLACK_KNIGHT else WHITE_KNIGHT
  let bishopToCheck := if currPlayer = WHITE_PLAYER then BLACK_BISHOP else WHITE_BISHOP
  let rookToCheck := if currPlayer = WHITE_PLAYER then BLACK_ROOK else WHITE_ROOK
  let queenToCheck := if currPlayer = WHITE_PLAYER then BLACK_QUEEN else WHITE_QUEEN
  let kingToCheck := if currPlayer = WHITE_PLAYER then BLACK_KING else WHITE_KING
  rivalPieceThreateningPosition game.board positionRow positionCol pawnToCheck ||
  rivalPieceThreateningPosition game.board positionRow positionCol knightToCheck ||
  rivalPieceThreateningPosition game.board positionRow positionCol bishopToCheck ||
  rivalPieceThreateningPosition game.board positionRow positionCol rookToCheck ||
  rivalPieceThreateningPosition game.board positionRow positionCol queenToCheck ||
  rivalPieceThreateningPosition game.board positionRow positionCol kingToCheck

/-! ## Movement rules per piece kind -/

/-- The C library function `abs` on `int`. -/
def cAbs (x : Int) : Int := if x < 0 then -x else x

/-- `legalMovementByPawn`. -/
def legalMovementByPawn (board : Board) (move : Move) (currPlayer : Player) : Bool :=
  let srcRow := move.srcRow
  let dstRow := move.dstRow
  let srcCol := move.srcCol
  let dstCol := move.dstCol
  let dstPiece := move.dstPiece
  !(   (decide (currPlayer = WHITE_PLAYER)
        && decide (dstRow ≠ srcRow + 1)
        && !(decide (dstRow = srcRow + 2) && decide (srcRow = WHITE_PAWNS_ROW)
              && decide (dstCol = srcCol) && decide (board (srcRow + 1) dstCol = EMPTY_POSITION)))
    || (decide (currPlayer = BLACK_PLAYER)
        && decide (dstRow ≠ srcRow - 1)
        && !(decide (dstRow = srcRow - 2) && decide (srcRow = BLACK_PAWNS_ROW)
              && decide (dstCol = srcCol) && decide (board (srcRow - 1) dstCol = EMPTY_POSITION)))
    || (decide (dstCol < srcCol - 1) || decide (dstCol > srcCol + 1))
    || (decide (dstCol = srcCol) && decide (dstPiece ≠ EMPTY_POSITION))
    || (decide (dstCol ≠ srcCol) && !rivalPiece currPlayer dstPiece))

/-- `legalMovementByKnight`. -/
def legalMovementByKnight (move : Move) : Bool :=
  let rowDifference := cAbs (move.dstRow - move.srcRow)
  let colDifference := cAbs (move.dstCol - move.srcCol)
  !(   (decide (rowDifference ≠ 1) && decide (rowDifference ≠ 2))
    || (decide (colDifference ≠ 1) && decide (colDifference ≠ 2))
    || (decide (rowDifference = 1) && decide (colDifference ≠ 2))
    || (decide (rowDifference = 2) && decide (colDifference ≠ 1)))

/-- The `do … while` loop of `vacantRouteToDst`: one iteration per unit of `fuel`.
For two distinct squares of the board and a direction that leads from the source to the
destination the loop reaches the destination within 7 steps; running out of fuel (where the
C loop would walk off the board) reports a route that is not vacant. -/
def vacantRouteToDstLoop (board : Board) (dstRow dstCol deltaRow deltaCol : Int) :
    Nat → Int → Int → Bool
  | 0, _, _ => false
  | fuel + 1, rowToCheck, colToCheck =>
    let rowToCheck := rowToCheck + deltaRow
    let colToCheck := colToCheck + deltaCol
    let reachedDest := decide (rowToCheck = dstRow) && decide (colToCheck = dstCol)
    if !reachedDest && decide (board rowToCheck colToCheck = EMPTY_POSITION) then
      vacantRouteToDstLoop board dstRow dstCol deltaRow deltaCol fuel rowToCheck colToCheck
    else
      reachedDest

/-- `vacantRouteToDst`. -/
def vacantRouteToDst (board : Board) (move : Move) (deltaRow deltaCol : Int) : Bool :=
  vacantRouteToDstLoop board move.dstRow move.dstCol deltaRow deltaCol 8 move.srcRow move.srcCol

/-- `legalMovementByBishopRookQueen`; the piece is read from the board, as in the C code. -/
def legalMovementByBishopRookQueen (board : Board) (move : Move) : Bool :=
  let srcRow := move.srcRow
  let srcCol := move.srcCol
  let dstRow := move.dstRow
  let dstCol := move.dstCol
  let srcPiece := board srcRow srcCol
  let rowDifference := cAbs (dstRow - srcRow)
  let colDifference := cAbs (dstCol - srcCol)
  match srcPiece with
  | WHITE_BISHOP | BLACK_BISHOP =>
    if rowDifference ≠ colDifference then false
    else
      let deltaRow : Int := if dstRow > srcRow then 1 else -1
      let deltaCol : Int := if dstCol > srcCol then 1 else -1
      vacantRouteToDst board move deltaRow deltaCol
  | WHITE_ROOK | BLACK_ROOK =>
    if srcRow ≠ dstRow ∧ srcCol ≠ dstCol then false
    else if dstRow = srcRow then
      let deltaRow : Int := 0
      let deltaCol : Int := if dstCol > srcCol then 1 else -1
      vacantRouteToDst board move deltaRow deltaCol
    else
      let deltaCol : Int := 0
      let deltaRow : Int := if dstRow > srcRow then 1 else -1
      vacantRouteToDst board move deltaRow deltaCol
  | WHITE_QUEEN | BLACK_QUEEN =>
    if rowDifference = colDifference then
      let deltaRow : Int := if dstRow > srcRow then 1 else -1
      let deltaCol : Int := if dstCol > srcCol then 1 else -1
      vacantRouteToDst board move deltaRow deltaCol
    else if srcRow ≠ dstRow ∧ srcCol ≠ dstCol then false
    else if dstRow = srcRow then
      let deltaRow : Int := 0
      let deltaCol : Int := if dstCol > srcCol then 1 else -1
      vacantRouteToDst board move deltaRow deltaCol
    else
      let deltaCol : Int := 0
      let deltaRow : Int := if dstRow > srcRow then 1 else -1
      vacantRouteToDst board move deltaRow deltaCol
  | _ => false

/-- `legalMovementByKing`. -/
def legalMovementByKing (move : Move) : Bool :=
  let rowDifference := cAbs (move.dstRow - move.srcRow)
  let colDifference := cAbs (move.dstCol - move.srcCol)
  decide (rowDifference ≤ 1) && decide (colDifference ≤ 1)

/-- `legalMovementByPieceType`. -/
def legalMovementByPieceType (game : SPChessGame) (move : Move) : Bool :=
  match move.srcPiece with
  | WHITE_PAWN | BLACK_PAWN => legalMovementByPawn game.board move game.currentPlayer
  | WHITE_KNIGHT | BLACK_KNIGHT => legalMovementByKnight move
  | WHITE_BISHOP | BLACK_BISHOP | WHITE_ROOK | BLACK_ROOK | WHITE_QUEEN | BLACK_QUEEN =>
    legalMovementByBishopRookQueen game.board move
  | WHITE_KING | BLACK_KING => legalMovementByKing move
  | EMPTY_POSITION => false

/-! ## Legality of a regular move and of a castle -/

/-- `legalRegularMove`: the verdict, the game the function leaves behind (the board is
written to for the simulation and written back) and the move with the fields it fills in. -/
def legalRegularMove (game : SPChessGame) (move : Move) : Bool × SPChessGame × Move :=
  let srcPiece := move.srcPiece
  let currPlayer := game.currentPlayer
  let dstPiece := game.board move.dstRow move.dstCol
  let move := { move with dstPiece := dstPiece }
  if currentPlayerPiece currPlayer dstPiece then (false, game, move)
  else if !legalMovementByPieceType game move then (false, game, move)
  else
    let move := if dstPiece ≠ EMPTY_POSITION then { move with dstPieceCaptured := true } else move
    let game := game.setBoard move.srcRow move.srcCol EMPTY_POSITION
    let game := game.setBoard move.dstRow move.dstCol srcPiece
    let res : Bool × Move :=
      if srcPiece = WHITE_KING ∨ srcPiece = BLACK_KING then
        (!rivalPlayerThreateningPosition game move.dstRow move.dstCol, move)
      else
        let kingRow := if currPlayer = WHITE_PLAYER then game.whiteKingRow else game.blackKingRow
        let kingCol := if currPlayer = WHITE_PLAYER then game.whiteKingCol else game.blackKingCol
        let isLegal := !rivalPlayerThreateningPosition game kingRow kingCol
        if isLegal then
          let move :=
            { move with
              threatenedAfterMove := rivalPlayerThreateningPosition game move.dstRow move.dstCol }
          let move :=
            if (currPlayer = WHITE_PLAYER ∧ move.srcPiece = WHITE_PAWN ∧ move.dstRow = BLACK_FIRST_ROW)
                ∨ (currPlayer = BLACK_PLAYER ∧ move.srcPiece = BLACK_PAWN ∧ move.dstRow = WHITE_FIRST_ROW)
            then { move with pawnPromotion := true } else move
          (isLegal, move)
        else (isLegal, move)
    let isLegal := res.1
    let move := res.2
    let game := game.setBoard move.srcRow move.srcCol srcPiece
    let game := game.setBoard move.dstRow move.dstCol dstPiece
    (isLegal, game, move)

/-- The `for` loop of `legalCastleRoute`, `remaining` iterations from column `colOfPath` on:
the verdict and the game it leaves behind. -/
def legalCastleRouteLoop (rowOfCastle kingCol : Int) (kingType : Piece) :
    Nat → Int → SPChessGame → Bool → Bool × SPChessGame
  | 0, _, game, isLegal => (isLegal, game)
  | remaining + 1, colOfPath, game, _ =>
    if game.board rowOfCastle colOfPath ≠ EMPTY_POSITION then (false, game)
    else
      let game := game.setBoard rowOfCastle kingCol EMPTY_POSITION
      let game := game.setBoard rowOfCastle colOfPath kingType
      let isLegal := !rivalPlayerThreateningPosition game rowOfCastle colOfPath
      let game := game.setBoard rowOfCastle kingCol kingType
      let game := game.setBoard rowOfCastle colOfPath EMPTY_POSITION
      if !isLegal then (false, game)
      else legalCastleRouteLoop rowOfCastle kingCol kingType remaining (colOfPath + 1) game isLegal

/-- `legalCastleRoute`: the loop runs for the columns
`startOfKingCheckPath .. endOfKingCheckPath`. -/
def legalCastleRoute (game : SPChessGame) (rookType : Piece) (rookCol : Int) (kingType : Piece) :
    Bool × SPChessGame :=
  let rowOfCastle := if rookType = WHITE_ROOK then WHITE_FIRST_ROW else BLACK_FIRST_ROW
  let kingCol := if rookType = WHITE_ROOK then game.whiteKingCol else game.blackKingCol
  let startOfKingCheckPath := if rookCol < kingCol then rookCol + 1 else kingCol + 1
  let endOfKingCheckPath := if rookCol < kingCol then kingCol - 1 else rookCol - 1
  legalCastleRouteLoop rowOfCastle kingCol kingType
    (endOfKingCheckPath + 1 - startOfKingCheckPath).toNat startOfKingCheckPath game false

/-- `legalCastle`: the verdict and the game the function leaves behind. -/
def legalCastle (game : SPChessGame) (move : Move) : Bool × SPChessGame :=
  if game.status = GAME_NOT_FINISHED_CHECK then (false, game)
  else
    let srcRow := move.srcRow
    let srcCol := move.srcCol
    let rookType := move.srcPiece
    let rowToCheck := if rookType = WHITE_ROOK then WHITE_FIRST_ROW else BLACK_FIRST_ROW
    let kingType := if rookType = WHITE_ROOK then WHITE_KING else BLACK_KING
    let leftCastle := if rookType = WHITE_ROOK then game.whiteLeftCastle else game.blackLeftCastle
    let rightCastle := if rookType = WHITE_ROOK then game.whiteRightCastle else game.blackRightCastle
    if !(decide (srcRow = rowToCheck) && decide (srcCol = LEFT_ROOK_COL) && leftCastle)
        && !(decide (srcRow = rowToCheck) && decide (srcCol = RIGHT_ROOK_COL) && rightCastle) then
      (false, game)
    else legalCastleRoute game rookType srcCol kingType

/-! ## Applying a move to the board -/

/-- `updateCastlingIndicators`: the values of `*leftCastle` and `*rightCastle` afterwards. -/
def updateCastlingIndicators (move : Move) (pieceToCheck : Piece) (leftCastle rightCastle : Bool) :
    Bool × Bool :=
  if move.castleMove then (false, false)
  else
    let srcRow := move.srcRow
    let srcCol := move.srcCol
    let dstRow := move.dstRow
    let dstCol := move.dstCol
    let srcPiece := move.srcPiece
    let dstPiece := move.dstPiece
    let rowToCheck := if pieceToCheck = WHITE_ROOK then WHITE_FIRST_ROW else BLACK_FIRST_ROW
    if leftCastle
        && ((decide (pieceToCheck = srcPiece) && decide (srcRow = rowToCheck) && decide (srcCol = LEFT_ROOK_COL))
          || (decide (pieceToCheck = dstPiece) && decide (dstRow = rowToCheck) && decide (dstCol = LEFT_ROOK_COL)))
    then (false, rightCastle)
    else if rightCastle
        && ((decide (pieceToCheck = srcPiece) && decide (srcRow = rowToCheck) && decide (srcCol = RIGHT_ROOK_COL))
          || (decide (pieceToCheck = dstPiece) && decide (dstRow = rowToCheck) && decide (dstCol = RIGHT_ROOK_COL)))
    then (leftCastle, false)
    else (leftCastle, rightCastle)

/-- `setRegularMove`. -/
def setRegularMove (game : SPChessGame) (move : Move) : SPChessGame :=
  let game := game.setBoard move.srcRow move.srcCol EMPTY_POSITION
  let game := game.setBoard move.dstRow move.dstCol move.srcPiece
  let srcPiece := move.srcPiece
  match srcPiece with
  | WHITE_ROOK =>
    let ind := updateCastlingIndicators move srcPiece game.whiteLeftCastle game.whiteRightCastle
    { game with whiteLeftCastle := ind.1, whiteRightCastle := ind.2 }
  | BLACK_ROOK =>
    let ind := updateCastlingIndicators move srcPiece game.blackLeftCastle game.blackRightCastle
    { game with blackLeftCastle := ind.1, blackRightCastle := ind.2 }
  | WHITE_KING =>
    { game with whiteKingRow := move.dstRow, whiteKingCol := move.dstCol,
                whiteRightCastle := false, whiteLeftCastle := false }
  | BLACK_KING =>
    { game with blackKingRow := move.dstRow, blackKingCol := move.dstCol,
                blackRightCastle := false, blackLeftCastle := false }
  | _ => game

/-- `setCastleMove`: the game afterwards and the move, whose `dstCol` the function sets. -/
def setCastleMove (game : SPChessGame) (move : Move) : SPChessGame × Move :=
  let rookType := move.srcPiece
  let kingType := if rookType = WHITE_ROOK then WHITE_KING else BLACK_KING
  let castleRow := move.srcRow
  let dstKingCol := if move.srcCol = LEFT_ROOK_COL then KING_COL - 2 else KING_COL + 2
  let dstRookCol := if move.srcCol = LEFT_ROOK_COL then KING_COL - 1 else KING_COL + 1
  let game := game.setBoard castleRow dstKingCol kingType
  let game := game.setBoard castleRow move.srcCol EMPTY_POSITION
  let game := game.setBoard castleRow dstRookCol rookType
  let game := game.setBoard castleRow KING_COL EMPTY_POSITION
  let move := { move with dstCol := dstRookCol }
  if rookType = WHITE_ROOK then
    let game := { game with whiteKingCol := dstKingCol }
    let ind := updateCastlingIndicators move rookType game.whiteLeftCastle game.whiteRightCastle
    ({ game with whiteLeftCastle := ind.1, whiteRightCastle := ind.2 }, move)
  else
    let game := { game with blackKingCol := dstKingCol }
    let ind := updateCastlingIndicators move rookType game.blackLeftCastle game.blackRightCastle
    ({ game with blackLeftCastle := ind.1, blackRightCastle := ind.2 }, move)

/-- The C expression `(isIncreaseAmount) ? counter++ : counter--` as the new counter. -/
def bump (isIncreaseAmount : Bool) (counter : Int) : Int :=
  if isIncreaseAmount then counter + 1 else counter - 1

/-- `updatePiecesAmount`. -/
def updatePiecesAmount (game : SPChessGame) (pieceType : Piece) (isIncreaseAmount : Bool) :
    SPChessGame :=
  match pieceType with
  | WHITE_PAWN =>
    { game with whiteArmy := { game.whiteArmy with
        numOfPawns := bump isIncreaseAmount game.whiteArmy.numOfPawns } }
  | BLACK_PAWN =>
    { game with blackArmy := { game.blackArmy with
        numOfPawns := bump isIncreaseAmount game.blackArmy.numOfPawns } }
  | WHITE_KNIGHT =>
    { game with whiteArmy := { game.whiteArmy with
        numOfKnights := bump isIncreaseAmount game.whiteArmy.numOfKnights } }
  | BLACK_KNIGHT =>
    { game with blackArmy := { game.blackArmy with
        numOfKnights := bump isIncreaseAmount game.blackArmy.numOfKnights } }
  | WHITE_BISHOP =>
    { game with whiteArmy := { game.whiteArmy with
        numOfBishops := bump isIncreaseAmount game.whiteArmy.numOfBishops } }
  | BLACK_BISHOP =>
    { game with blackArmy := { game.blackArmy with
        numOfBishops := bump isIncreaseAmount game.blackArmy.numOfBishops } }
  | WHITE_ROOK =>
    { game with whiteArmy := { game.whiteArmy with
        numOfRooks := bump isIncreaseAmount game.whiteArmy.numOfRooks } }
  | BLACK_ROOK =>
    { game with blackArmy := { game.blackArmy with
        numOfRooks := bump isIncreaseAmount game.blackArmy.numOfRooks } }
  | WHITE_QUEEN =>
    { game with whiteArmy := { game.whiteArmy with
        numOfQueens := bump isIncreaseAmount game.whiteArmy.numOfQueens } }
  | BLACK_QUEEN =>
    { game with blackArmy := { game.blackArmy with
        numOfQueens := bump isIncreaseAmount game.blackArmy.numOfQueens } }
  | _ => game

/-- `undoCastleMove`. -/
def undoCastleMove (game : SPChessGame) (move : Move) : SPChessGame :=
  let srcRookCol := move.srcCol
  let currRookCol := move.dstCol
  let kingType := if move.srcPiece = WHITE_ROOK then WHITE_KING else BLACK_KING
  let rookType := if move.srcPiece = WHITE_ROOK then WHITE_ROOK else BLACK_ROOK
  let castleRow := if move.srcPiece = WHITE_ROOK then WHITE_FIRST_ROW else BLACK_FIRST_ROW
  let currKingCol := if move.srcPiece = WHITE_ROOK then game.whiteKingCol else game.blackKingCol
  let game := game.setBoard castleRow KING_COL kingType
  let game := game.setBoard castleRow currKingCol EMPTY_POSITION
  let game := game.setBoard castleRow srcRookCol rookType
  let game := game.setBoard castleRow currRookCol EMPTY_POSITION
  if kingType = WHITE_KING then { game with whiteKingCol := KING_COL }
  else { game with blackKingCol := KING_COL }

/-! ## The move generator -/

/-- What the sources under study leave open: the header constant `MAX_MOVES_FOR_PIECE`
(the capacity of a per-piece move list), the contents of a freshly allocated `Move`
before `spCreateMove` clears its flags, and the header constants of the scoring function
(the piece weights and `TIE_SCORE`). -/
structure Env where
  MAX_MOVES_FOR_PIECE : Int
  junk : Move
  PAWN_SCORE : Int
  KNIGHT_SCORE : Int
  BISHOP_SCORE : Int
  ROOK_SCORE : Int
  QUEEN_SCORE : Int
  TIE_SCORE : Int

/-- `spArrayListCreate`; `none` is the C `NULL` (only `maxSize <= 0` is modelled). -/
def spArrayListCreate (maxSize : Int) : Option SPArrayList :=
  if maxSize ≤ 0 then none else some { elements := [], maxSize := maxSize }

/-- `addPawnPromotionsMoves`: the list after the four copies have been added. -/
def addPawnPromotionsMoves (moves : SPArrayList) (move : Move) (currPlayer : Player) :
    SPArrayList :=
  let queenType := if currPlayer = WHITE_PLAYER then WHITE_QUEEN else BLACK_QUEEN
  let rookType := if currPlayer = WHITE_PLAYER then WHITE_ROOK else BLACK_ROOK
  let bishopType := if currPlayer = WHITE_PLAYER then WHITE_BISHOP else BLACK_BISHOP
  let knightType := if currPlayer = WHITE_PLAYER then WHITE_KNIGHT else BLACK_KNIGHT
  let moves := (spArrayListAddLast moves { move with srcPiece := queenType }).1
  let moves := (spArrayListAddLast moves { move with srcPiece := rookType }).1
  let moves := (spArrayListAddLast moves { move with srcPiece := bishopType }).1
  let moves := (spArrayListAddLast moves { move with srcPiece := knightType }).1
  moves

/-- `addPieceMove`: the game the legality check leaves behind and the list afterwards. -/
def addPieceMove (env : Env) (game : SPChessGame) (moves : SPArrayList)
    (srcRow srcCol dstRow dstCol : Int) (castle minimax : Bool) : SPChessGame × SPArrayList :=
  if !castle && !validPosition dstRow dstCol then (game, moves)
  else
    let move := spCreateMove env.junk
    let move := { move with srcRow := srcRow, srcCol := srcCol,
                            srcPiece := game.board srcRow srcCol }
    if castle then
      let res := legalCastle game move
      if !res.1 then (res.2, moves)
      else
        let move := { move with castleMove := true }
        (res.2, (spArrayListAddLast moves move).1)
    else
      let move := { move with dstRow := dstRow, dstCol := dstCol }
      let res := legalRegularMove game move
      if !res.1 then (res.2.1, moves)
      else
        let game := res.2.1
        let move := res.2.2
        if minimax && move.pawnPromotion then
          (game, addPawnPromotionsMoves moves move game.currentPlayer)
        else (game, (spArrayListAddLast moves move).1)

/-- `getPossiblePawnMoves`. -/
def getPossiblePawnMoves (env : Env) (game : SPChessGame) (moves : SPArrayList)
    (srcRow srcCol : Int) (minimax : Bool) : SPChessGame × SPArrayList :=
  let res :=
    if game.currentPlayer = BLACK_PLAYER then
      addPieceMove env game moves srcRow srcCol (srcRow - 2) srcCol false false
    else (game, moves)
  let dstRow := if res.1.currentPlayer = WHITE_PLAYER then srcRow + 1 else srcRow - 1
  let res := addPieceMove env res.1 res.2 srcRow srcCol dstRow (srcCol - 1) false minimax
  let res := addPieceMove env res.1 res.2 srcRow srcCol dstRow srcCol false minimax
  let res := addPieceMove env res.1 res.2 srcRow srcCol dstRow (srcCol + 1) false minimax
  if res.1.currentPlayer = WHITE_PLAYER then
    addPieceMove env res.1 res.2 srcRow srcCol (srcRow + 2) srcCol false false
  else res

/-- `getPossibleKnightMoves`. -/
def getPossibleKnightMoves (env : Env) (game : SPChessGame) (moves : SPArrayList)
    (srcRow srcCol : Int) : SPChessGame × SPArrayList :=
  let res := addPieceMove env game moves srcRow srcCol (srcRow - 2) (srcCol - 1) false false
  let res := addPieceMove env res.1 res.2 srcRow srcCol (srcRow - 2) (srcCol + 1) false false
  let res := addPieceMove env res.1 res.2 srcRow srcCol (srcRow - 1) (srcCol - 2) false false
  let res := addPieceMove env res.1 res.2 srcRow srcCol (srcRow - 1) (srcCol + 2) false false
  let res := addPieceMove env res.1 res.2 srcRow srcCol (srcRow + 1) (srcCol - 2) false false
  let res := addPieceMove env res.1 res.2 srcRow srcCol (srcRow + 1) (srcCol + 2) false false
  let res := addPieceMove env res.1 res.2 srcRow srcCol (srcRow + 2) (srcCol - 1) false false
  addPieceMove env res.1 res.2 srcRow srcCol (srcRow + 2) (srcCol + 1) false false

/-- The `while (keepGoing)` loop of `getDirectionalMoves`, one iteration per unit of `fuel`
(the walk leaves the board after at most `BOARD_LENGTH` squares): the game, the list, the
square the walk stopped on and the last `dstPiece` read. -/
def getDirectionalMovesLoop (env : Env) (srcRow srcCol deltaRow deltaCol : Int) :
    Nat → SPChessGame → SPArrayList → Int → Int → Piece →
      SPChessGame × SPArrayList × Int × Int × Piece
  | 0, game, moves, currRowToCheck, currColToCheck, dstPiece =>
    (game, moves, currRowToCheck, currColToCheck, dstPiece)
  | fuel + 1, game, moves, currRowToCheck, currColToCheck, dstPiece =>
    if !validPosition currRowToCheck currColToCheck then
      (game, moves, currRowToCheck, currColToCheck, dstPiece)
    else
      let dstPiece := game.board currRowToCheck currColToCheck
      if dstPiece ≠ EMPTY_POSITION then (game, moves, currRowToCheck, currColToCheck, dstPiece)
      else
        let res := addPieceMove env game moves srcRow srcCol currRowToCheck currColToCheck false false
        getDirectionalMovesLoop env srcRow srcCol deltaRow deltaCol fuel res.1 res.2
          (currRowToCheck + deltaRow) (currColToCheck + deltaCol) dstPiece

/-- `getDirectionalMoves`. -/
def getDirectionalMoves (env : Env) (game : SPChessGame) (moves : SPArrayList)
    (srcRow srcCol deltaRow deltaCol : Int) : SPChessGame × SPArrayList :=
  let st := getDirectionalMovesLoop env srcRow srcCol deltaRow deltaCol 8 game moves
    (srcRow + deltaRow) (srcCol + deltaCol) EMPTY_POSITION
  let game := st.1
  let moves := st.2.1
  let currRowToCheck := st.2.2.1
  let currColToCheck := st.2.2.2.1
  let dstPiece := st.2.2.2.2
  if dstPiece ≠ EMPTY_POSITION ∧ rivalPiece game.currentPlayer dstPiece = true then
    addPieceMove env game moves srcRow srcCol currRowToCheck currColToCheck false false
  else (game, moves)

/-- The inner `for` loop of `sortMoves` (one bubble pass), `remaining` iterations from
index `j` on: the list afterwards and the flag `swaped`. -/
def sortMovesPass : Nat → SPArrayList → Int → Bool → SPArrayList × Bool
  | 0, moves, _, swaped => (moves, swaped)
  | remaining + 1, moves, j, swaped =>
    match spArrayListGetAt moves j, spArrayListGetAt moves (j + 1) with
    | some moveA, some moveB =>
      if moveA.dstRow > moveB.dstRow ∨ (moveA.dstRow = moveB.dstRow ∧ moveA.dstCol > moveB.dstCol) then
        let moves := (spArrayListRemoveAt moves j).1
        let moves := (spArrayListAddAt moves moveA (j + 1)).1
        sortMovesPass remaining moves (j + 1) true
      else sortMovesPass remaining moves (j + 1) swaped
    | _, _ => (moves, swaped)

/-- The outer `for` loop of `sortMoves`, `remaining` passes to go. -/
def sortMovesLoop (movesAmount : Int) : Nat → SPArrayList → SPArrayList
  | 0, moves => moves
  | remaining + 1, moves =>
    let res := sortMovesPass (movesAmount - 1).toNat moves 0 false
    if !res.2 then res.1 else sortMovesLoop movesAmount remaining res.1

/-- `sortMoves`. -/
def sortMoves (moves : SPArrayList) (movesAmount : Int) : SPArrayList :=
  sortMovesLoop movesAmount (movesAmount - 1).toNat moves

/-- `getPossibleBishopOrQueenMoves`. -/
def getPossibleBishopOrQueenMoves (env : Env) (game : SPChessGame) (moves : SPArrayList)
    (srcRow srcCol : Int) (sort : Bool) : SPChessGame × SPArrayList :=
  let res := getDirectionalMoves env game moves srcRow srcCol GOING_DOWNWARDS GOING_LEFT
  let res := getDirectionalMoves env res.1 res.2 srcRow srcCol GOING_DOWNWARDS GOING_RIGHT
  let res := getDirectionalMoves env res.1 res.2 srcRow srcCol GOING_UPWARDS GOING_LEFT
  let res := getDirectionalMoves env res.1 res.2 srcRow srcCol GOING_UPWARDS GOING_RIGHT
  if sort then
    let movesAmount := spArrayListSize res.2
    if movesAmount ≥ MIN_MOVES_AMOUNT_TO_SORT then (res.1, sortMoves res.2 movesAmount) else res
  else res

/-- `getPossibleRookOrQueenMoves`. -/
def getPossibleRookOrQueenMoves (env : Env) (game : SPChessGame) (moves : SPArrayList)
    (srcRow srcCol : Int) (sort : Bool) : SPChessGame × SPArrayList :=
  let res := getDirectionalMoves env game moves srcRow srcCol GOING_DOWNWARDS SAME_COL
  let res := getDirectionalMoves env res.1 res.2 srcRow srcCol SAME_ROW GOING_LEFT
  let res := getDirectionalMoves env res.1 res.2 srcRow srcCol SAME_ROW GOING_RIGHT
  let res := getDirectionalMoves env res.1 res.2 srcRow srcCol GOING_UPWARDS SAME_COL
  let res :=
    if sort then
      let movesAmount := spArrayListSize res.2
      if movesAmount ≥ MIN_MOVES_AMOUNT_TO_SORT then (res.1, sortMoves res.2 movesAmount) else res
    else res
  let piece := res.1.board srcRow srcCol
  if piece = WHITE_ROOK ∨ piece = BLACK_ROOK then
    addPieceMove env res.1 res.2 srcRow srcCol DUMMY_COORDINATE DUMMY_COORDINATE true false
  else res

/-- `getPossibleKingCastleMoves`. -/
def getPossibleKingCastleMoves (env : Env) (game : SPChessGame) (moves : SPArrayList)
    (pieceType : Piece) (playerFirstRow : Int) : SPChessGame × SPArrayList :=
  let res :=
    if game.board playerFirstRow LEFT_ROOK_COL = pieceType then
      addPieceMove env game moves playerFirstRow LEFT_ROOK_COL DUMMY_COORDINATE DUMMY_COORDINATE
        true false
    else (game, moves)
  if res.1.board playerFirstRow RIGHT_ROOK_COL = pieceType then
    addPieceMove env res.1 res.2 playerFirstRow RIGHT_ROOK_COL DUMMY_COORDINATE DUMMY_COORDINATE
      true false
  else res

/-- `getPossibleKingMoves`. -/
def getPossibleKingMoves (env : Env) (game : SPChessGame) (moves : SPArrayList)
    (srcRow srcCol : Int) : SPChessGame × SPArrayList :=
  let res := addPieceMove env game moves srcRow srcCol (srcRow - 1) (srcCol - 1) false false
  let res := addPieceMove env res.1 res.2 srcRow srcCol (srcRow - 1) srcCol false false
  let res := addPieceMove env res.1 res.2 srcRow srcCol (srcRow - 1) (srcCol + 1) false false
  let res := addPieceMove env res.1 res.2 srcRow srcCol srcRow (srcCol - 1) false false
  let res := addPieceMove env res.1 res.2 srcRow srcCol srcRow (srcCol + 1) false false
  let res := addPieceMove env res.1 res.2 srcRow srcCol (srcRow + 1) (srcCol - 1) false false
  let res := addPieceMove env res.1 res.2 srcRow srcCol (srcRow + 1) srcCol false false
  let res := addPieceMove env res.1 res.2 srcRow srcCol (srcRow + 1) (srcCol + 1) false false
  if res.1.currentPlayer = WHITE_PLAYER then
    getPossibleKingCastleMoves env res.1 res.2 WHITE_ROOK WHITE_FIRST_ROW
  else getPossibleKingCastleMoves env res.1 res.2 BLACK_ROOK BLACK_FIRST_ROW

/-- `getPossiblePieceMoves`: the message, the game left behind and the list afterwards. -/
def getPossiblePieceMoves (env : Env) (game : SPChessGame) (moves : SPArrayList)
    (srcRow srcCol : Int) (pieceType : Piece) (sort minimax : Bool) :
    SP_CHESS_GAME_MESSAGE × SPChessGame × SPArrayList :=
  match pieceType with
  | WHITE_PAWN | BLACK_PAWN =>
    (SP_CHESS_GAME_SUCCESS, getPossiblePawnMoves env game moves srcRow srcCol minimax)
  | WHITE_KNIGHT | BLACK_KNIGHT =>
    (SP_CHESS_GAME_SUCCESS, getPossibleKnightMoves env game moves srcRow srcCol)
  | WHITE_BISHOP | BLACK_BISHOP =>
    (SP_CHESS_GAME_SUCCESS, getPossibleBishopOrQueenMoves env game moves srcRow srcCol sort)
  | WHITE_ROOK | BLACK_ROOK =>
    (SP_CHESS_GAME_SUCCESS, getPossibleRookOrQueenMoves env game moves srcRow srcCol sort)
  | WHITE_QUEEN | BLACK_QUEEN =>
    let res := getPossibleBishopOrQueenMoves env game moves srcRow srcCol sort
    (SP_CHESS_GAME_SUCCESS, getPossibleRookOrQueenMoves env res.1 res.2 srcRow srcCol sort)
  | WHITE_KING | BLACK_KING =>
    (SP_CHESS_GAME_SUCCESS, getPossibleKingMoves env game moves srcRow srcCol)
  | EMPTY_POSITION => (SP_CHESS_GAME_INVALID_ARGUMENT, game, moves)

/-- `spChessGetPossibleMoves` on non-null arguments. -/
def spChessGetPossibleMoves (env : Env) (game : SPChessGame) (piecePossibleMoves : SPArrayList)
    (row col : Int) : SP_CHESS_GAME_MESSAGE × SPChessGame × SPArrayList :=
  if !validPosition row col then (SP_CHESS_GAME_INVALID_POSITION, game, piecePossibleMoves)
  else
    let pieceType := game.board row col
    if !currentPlayerPiece game.currentPlayer pieceType then
      (SP_CHESS_GAME_INVALID_ARGUMENT, game, piecePossibleMoves)
    else getPossiblePieceMoves env game piecePossibleMoves row col pieceType true false

/-! ## Game status -/

/-- The inner `for` loop of `getGameStatus` over the columns `cols` of `row`: the game, the
list and the flag `thereIsPossibleMove` afterwards. -/
def getGameStatusCols (env : Env) (row : Int) :
    List Int → SPChessGame → SPArrayList → Bool → SPChessGame × SPArrayList × Bool
  | [], game, pieceMoves, thereIsPossibleMove => (game, pieceMoves, thereIsPossibleMove)
  | col :: cols, game, pieceMoves, thereIsPossibleMove =>
    if thereIsPossibleMove then (game, pieceMoves, thereIsPossibleMove)
    else
      let pieceType := game.board row col
      if !currentPlayerPiece game.currentPlayer pieceType then
        getGameStatusCols env row cols game pieceMoves thereIsPossibleMove
      else
        let res := getPossiblePieceMoves env game pieceMoves row col pieceType false false
        getGameStatusCols env row cols res.2.1 res.2.2 (!spArrayListIsEmpty res.2.2)

/-- The outer `for` loop of `getGameStatus` over the rows `rows`. -/
def getGameStatusRows (env : Env) :
    List Int → SPChessGame → SPArrayList → Bool → SPChessGame × SPArrayList × Bool
  | [], game, pieceMoves, thereIsPossibleMove => (game, pieceMoves, thereIsPossibleMove)
  | row :: rows, game, pieceMoves, thereIsPossibleMove =>
    if thereIsPossibleMove then (game, pieceMoves, thereIsPossibleMove)
    else
      let res := getGameStatusCols env row [0, 1, 2, 3, 4, 5, 6, 7] game pieceMoves
        thereIsPossibleMove
      getGameStatusRows env rows res.1 (spArrayListClear res.2.1) res.2.2

/-- `getGameStatus`: the status and the game the move generation leaves behind. -/
def getGameStatus (env : Env) (game : SPChessGame) (kingRow kingCol : Int) :
    GAME_STATUS × SPChessGame :=
  let isCheck := rivalPlayerThreateningPosition game kingRow kingCol
  match spArrayListCreate env.MAX_MOVES_FOR_PIECE with
  | none => (MEMORY_FAILURE, game)
  | some pieceMoves =>
    let res := getGameStatusRows env [0, 1, 2, 3, 4, 5, 6, 7] game pieceMoves false
    let game := res.1
    let thereIsPossibleMove := res.2.2
    if thereIsPossibleMove then
      if isCheck then (GAME_NOT_FINISHED_CHECK, game) else (GAME_NOT_FINISHED_NO_CHECK, game)
    else if isCheck then
      if game.currentPlayer = WHITE_PLAYER then (BLACK_PLAYER_WINS, game)
      else (WHITE_PLAYER_WINS, game)
    else (TIED_GAME, game)

/-- `changePlayerAndUpdateStatus`. -/
def changePlayerAndUpdateStatus (env : Env) (game : SPChessGame) :
    SP_CHESS_GAME_MESSAGE × SPChessGame :=
  let game := { game with currentPlayer := game.currentPlayer.not }
  let res :=
    if game.currentPlayer = WHITE_PLAYER then getGameStatus env game game.whiteKingRow game.whiteKingCol
    else getGameStatus env game game.blackKingRow game.blackKingCol
  let game := { res.2 with status := res.1 }
  if game.status = MEMORY_FAILURE then (SP_CHESS_GAME_MEMORY_FAILURE, game)
  else (SP_CHESS_GAME_SUCCESS, game)

/-! ## `SPChessGame.c`: applying and undoing a move -/

/-- `updatesAfterSettingMove`; the parameter `history` of the C function is always
`game->history` and is read from the game here. -/
def updatesAfterSettingMove (env : Env) (game : SPChessGame) (move : Move) (minimaxMove : Bool) :
    SP_CHESS_GAME_MESSAGE × SPChessGame :=
  let game :=
    if move.dstPieceCaptured then
      let game := updatePiecesAmount game move.dstPiece false
      let dstPiece := move.dstPiece
      if dstPiece = WHITE_ROOK then
        let ind := updateCastlingIndicators move dstPiece game.whiteLeftCastle game.whiteRightCastle
        { game with whiteLeftCastle := ind.1, whiteRightCastle := ind.2 }
      else if dstPiece = BLACK_ROOK then
        let ind := updateCastlingIndicators move dstPiece game.blackLeftCastle game.blackRightCastle
        { game with blackLeftCastle := ind.1, blackRightCastle := ind.2 }
      else game
    else game
  let game :=
    if !minimaxMove then
      let history :=
        if spArrayListIsFull game.history then (spArrayListRemoveFirst game.history).1
        else game.history
      { game with history := (spArrayListAddLast history move).1 }
    else game
  if !move.pawnPromotion then changePlayerAndUpdateStatus env game
  else (SP_CHESS_GAME_SUCCESS, game)

/-- `spChessGameSetPawnPromotion`. -/
def spChessGameSetPawnPromotion (env : Env) (game : SPChessGame) (move : Move)
    (computerMove : Bool) : SP_CHESS_GAME_MESSAGE × SPChessGame :=
  let piece := move.srcPiece
  let game := if computerMove then game.setBoard move.srcRow move.srcCol EMPTY_POSITION else game
  let pawnType := if game.currentPlayer = WHITE_PLAYER then WHITE_PAWN else BLACK_PAWN
  let game := game.setBoard move.dstRow move.dstCol piece
  let game := updatePiecesAmount game move.srcPiece true
  let game := updatePiecesAmount game pawnType false
  changePlayerAndUpdateStatus env game

/-- `spChessGameSetMove` on non-null arguments: the message, the game afterwards and the
move with the fields the call writes to it. -/
def spChessGameSetMove (env : Env) (game : SPChessGame) (move : Move)
    (minimaxMove computerMove : Bool) : SP_CHESS_GAME_MESSAGE × SPChessGame × Move :=
  if !validPosition move.srcRow move.srcCol
      || (!move.castleMove && !validPosition move.dstRow move.dstCol) then
    (SP_CHESS_GAME_INVALID_POSITION, game, move)
  else
    let move :=
      if !move.pawnPromotion then { move with srcPiece := game.board move.srcRow move.srcCol }
      else move
    if !currentPlayerPiece game.currentPlayer move.srcPiece then
      (SP_CHESS_GAME_INVALID_ARGUMENT, game, move)
    else
      let move := { move with whiteLeftCastle := game.whiteLeftCastle,
                              whiteRightCastle := game.whiteRightCastle,
                              blackLeftCastle := game.blackLeftCastle,
                              blackRightCastle := game.blackRightCastle }
      if move.castleMove then
        if move.srcPiece ≠ WHITE_ROOK ∧ move.srcPiece ≠ BLACK_ROOK then
          (SP_CHESS_GAME_CASTLE_NO_ROOK, game, move)
        else
          let res := if !computerMove then legalCastle game move else (true, game)
          if !computerMove && !res.1 then (SP_CHESS_GAME_ILLEGAL_CASTLE_MOVE, res.2, move)
          else
            let set := setCastleMove res.2 move
            let upd := updatesAfterSettingMove env set.1 set.2 minimaxMove
            (upd.1, upd.2, set.2)
      else if move.pawnPromotion then
        let promo := spChessGameSetPawnPromotion env game move true
        if promo.1 ≠ SP_CHESS_GAME_SUCCESS then (SP_CHESS_GAME_MEMORY_FAILURE, promo.2, move)
        else
          let upd := updatesAfterSettingMove env promo.2 move minimaxMove
          (upd.1, upd.2, move)
      else
        let res := if !computerMove then legalRegularMove game move else (true, game, move)
        if !computerMove && !res.1 then (SP_CHESS_GAME_ILLEGAL_MOVE, res.2.1, res.2.2)
        else
          let game := setRegularMove res.2.1 res.2.2
          let upd := updatesAfterSettingMove env game res.2.2 minimaxMove
          (upd.1, upd.2, res.2.2)

/-- `spChessGameIsUndoPossible`. -/
def spChessGameIsUndoPossible (game : SPChessGame) (userColor : Player) : Bool :=
  !(spArrayListIsEmpty game.history
    || (decide (userColor = BLACK_PLAYER) && decide (spArrayListSize game.history = ONLY_ONE_MOVE)))

/-- `spChessGameUndoPrevMove` on non-null arguments. -/
def spChessGameUndoPrevMove (game : SPChessGame) (move : Move) :
    SP_CHESS_GAME_MESSAGE × SPChessGame :=
  let game :=
    if move.castleMove then undoCastleMove game move
    else
      let originalSrcPiece :=
        if move.pawnPromotion then
          (if game.currentPlayer.not = WHITE_PLAYER then WHITE_PAWN else BLACK_PAWN)
        else move.srcPiece
      let game := game.setBoard move.srcRow move.srcCol originalSrcPiece
      game.setBoard move.dstRow move.dstCol move.dstPiece
  let game := { game with whiteLeftCastle := move.whiteLeftCastle,
                          whiteRightCastle := move.whiteRightCastle,
                          blackLeftCastle := move.blackLeftCastle,
                          blackRightCastle := move.blackRightCastle }
  let game :=
    if move.srcPiece = WHITE_KING then
      { game with whiteKingRow := move.srcRow, whiteKingCol := move.srcCol }
    else if move.srcPiece = BLACK_KING then
      { game with blackKingRow := move.srcRow, blackKingCol := move.srcCol }
    else game
  let game := { game with history := (spArrayListRemoveLast game.history).1 }
  let game :=
    if !move.castleMove then
      let game := if move.dstPieceCaptured then updatePiecesAmount game move.dstPiece true else game
      if move.pawnPromotion then
        let game := updatePiecesAmount game move.srcPiece false
        let pawnType := if game.currentPlayer = WHITE_PLAYER then WHITE_PAWN else BLACK_PAWN
        updatePiecesAmount game pawnType true
      else game
    else game
  let game := { game with currentPlayer := game.currentPlayer.not }
  let currPlayer := game.currentPlayer
  let kingRow := if currPlayer = WHITE_PLAYER then game.whiteKingRow else game.blackKingRow
  let kingCol := if currPlayer = WHITE_PLAYER then game.whiteKingCol else game.blackKingCol
  let game :=
    { game with status :=
        if rivalPlayerThreateningPosition game kingRow kingCol then GAME_NOT_FINISHED_CHECK
        else GAME_NOT_FINISHED_NO_CHECK }
  (SP_CHESS_GAME_SUCCESS, game)

/-- `spChessGameCopy` on a non-null game: every cell of the board array and every field but
the history are copied; the copy gets a fresh, empty history of the same capacity (from
`spChessGameCreate (src->history->maxSize)`; `none` when that capacity is not positive). -/
def spChessGameCopy (src : SPChessGame) : Option SPChessGame :=
  match spArrayListCreate src.history.maxSize with
  | none => none
  | some history => some { src with history := history }

/-! ## `SPChessMinimax.c` -/

/-- `scoringFunction`. -/
def scoringFunction (env : Env) (game : SPChessGame) (maximizingPlayer : Player) : Int :=
  let whiteArmy := game.whiteArmy
  let blackArmy := game.blackArmy
  let whiteScore := whiteArmy.numOfPawns * env.PAWN_SCORE + whiteArmy.numOfKnights * env.KNIGHT_SCORE
    + whiteArmy.numOfBishops * env.BISHOP_SCORE + whiteArmy.numOfRooks * env.ROOK_SCORE
    + whiteArmy.numOfQueens * env.QUEEN_SCORE
  let blackScore := blackArmy.numOfPawns * env.PAWN_SCORE + blackArmy.numOfKnights * env.KNIGHT_SCORE
    + blackArmy.numOfBishops * env.BISHOP_SCORE + blackArmy.numOfRooks * env.ROOK_SCORE
    + blackArmy.numOfQueens * env.QUEEN_SCORE
  if maximizingPlayer = WHITE_PLAYER then whiteScore - blackScore else blackScore - whiteScore

/-- `leafNodeResult`. -/
def leafNodeResult (env : Env) (game : SPChessGame) (maximizingPlayer : Player) : Int :=
  match game.status with
  | WHITE_PLAYER_WINS => if maximizingPlayer = WHITE_PLAYER then INT_MAX else INT_MIN
  | BLACK_PLAYER_WINS => if maximizingPlayer = BLACK_PLAYER then INT_MAX else INT_MIN
  | TIED_GAME => env.TIE_SCORE
  | _ => scoringFunction env game maximizingPlayer

/-- `freeMemory`: the value the search returns when it gives up. -/
def freeMemory (currDepth : Int) (maximize : Bool) : Int :=
  if currDepth = ROOT_DEPTH then INT_MIN else if maximize then INT_MIN else INT_MAX

/-- The local variables of `alphaBetaPruning` that its loops update, the move
`*minimaxMove`, the node's game (which the move generation writes to and restores), and
`gaveUp`, set when the function leaves through `return freeMemory(...)`. -/
structure SearchState where
  currentGame : SPChessGame
  alpha : Int
  beta : Int
  minimaxMove : Move
  choseMove : Bool
  gaveUp : Bool

/-- `updateBoundsAndMove`. -/
def updateBoundsAndMove (currMove : Move) (st : SearchState) (maximize : Bool)
    (subtreeValue currDepth : Int) : SearchState :=
  if maximize && (decide (subtreeValue > st.alpha)
      || (decide (currDepth = ROOT_DEPTH) && !st.choseMove)) then
    let st := { st with alpha := subtreeValue }
    if currDepth = ROOT_DEPTH then { st with minimaxMove := currMove, choseMove := true }
    else st
  else if !maximize && decide (subtreeValue < st.beta) then { st with beta := subtreeValue }
  else st

/-- The `while` loop of `alphaBetaPruning` over the moves of one piece, from index `moveNum`
on; `recurse` is the recursive call on the descendant game (with the current `*minimaxMove`,
`alpha` and `beta`), returning the subtree value and `*minimaxMove` afterwards.  The move
handed to `updateBoundsAndMove` is the list element as `spChessGameSetMove` left it. -/
def searchMovesLoop (env : Env) (recurse : SPChessGame → Move → Int → Int → Int × Move)
    (pieceMoves : SPArrayList) (maximize : Bool) (currDepth : Int) :
    Nat → Int → SearchState → SearchState
  | 0, _, st => st
  | remaining + 1, moveNum, st =>
    if st.gaveUp then st
    else if ¬ (st.alpha < st.beta ∧ moveNum < spArrayListSize pieceMoves) then st
    else
      match spChessGameCopy st.currentGame, spArrayListGetAt pieceMoves moveNum with
      | some descendantGame, some currMove =>
        let set := spChessGameSetMove env descendantGame currMove true true
        if set.1 ≠ SP_CHESS_GAME_SUCCESS then { st with gaveUp := true }
        else
          let sub := recurse set.2.1 st.minimaxMove st.alpha st.beta
          let st := { st with minimaxMove := sub.2 }
          let st := updateBoundsAndMove set.2.2 st maximize sub.1 currDepth
          searchMovesLoop env recurse pieceMoves maximize currDepth remaining (moveNum + 1) st
      | _, _ => { st with gaveUp := true }

/-- The inner `for` loop of `alphaBetaPruning` over the columns `cols` of `row`. -/
def searchColsLoop (env : Env) (recurse : SPChessGame → Move → Int → Int → Int × Move)
    (pieceMoves : SPArrayList) (maximize : Bool) (currDepth row : Int) :
    List Int → SearchState → SearchState
  | [], st => st
  | col :: cols, st =>
    if st.gaveUp then st
    else if ¬ (st.alpha < st.beta) then st
    else
      let pieceType := st.currentGame.board row col
      if !currentPlayerPiece st.currentGame.currentPlayer pieceType then
        searchColsLoop env recurse pieceMoves maximize currDepth row cols st
      else
        let gen := getPossiblePieceMoves env st.currentGame pieceMoves row col pieceType true true
        let st := { st with currentGame := gen.2.1 }
        if gen.1 ≠ SP_CHESS_GAME_SUCCESS then { st with gaveUp := true }
        else
          let numOfMoves := spArrayListSize gen.2.2
          let st := searchMovesLoop env recurse gen.2.2 maximize currDepth numOfMoves.toNat 0 st
          searchColsLoop env recurse pieceMoves maximize currDepth row cols st

/-- The outer `for` loop of `alphaBetaPruning` over the rows `rows`. -/
def searchRowsLoop (env : Env) (recurse : SPChessGame → Move → Int → Int → Int × Move)
    (pieceMoves : SPArrayList) (maximize : Bool) (currDepth : Int) :
    List Int → SearchState → SearchState
  | [], st => st
  | row :: rows, st =>
    if st.gaveUp then st
    else if ¬ (st.alpha < st.beta) then st
    else
      let st := searchColsLoop env recurse pieceMoves maximize currDepth row
        [0, 1, 2, 3, 4, 5, 6, 7] st
      searchRowsLoop env recurse pieceMoves maximize currDepth rows st

/-- `alphaBetaPruning`: the returned value, `*minimaxMove` afterwards and the node's game
afterwards.  The recursion descends one level per unit of `fuel`; `spChessMinimaxMove`
starts it with `maxDepth + 1`, which a search of depth `maxDepth` never uses up. -/
def alphaBetaPruning (env : Env) (maxDepth : Int) (maximizingPlayer : Player) :
    Nat → SPChessGame → Move → Int → Int → Int → Int × Move × SPChessGame
  | 0, currentGame, minimaxMove, _, _, _ => (0, minimaxMove, currentGame)
  | fuel + 1, currentGame, minimaxMove, currDepth, alpha, beta =>
    let currStatus := currentGame.status
    if currDepth > ROOT_DEPTH ∧ (currStatus = WHITE_PLAYER_WINS ∨ currStatus = BLACK_PLAYER_WINS
        ∨ currStatus = TIED_GAME ∨ currDepth = maxDepth) then
      (leafNodeResult env currentGame maximizingPlayer, minimaxMove, currentGame)
    else
      let maximize := decide (currDepth % 2 = 0)
      match spArrayListCreate env.MAX_MOVES_FOR_PIECE with
      | none => (freeMemory currDepth maximize, minimaxMove, currentGame)
      | some pieceMoves =>
        let recurse : SPChessGame → Move → Int → Int → Int × Move :=
          fun descendantGame mv a b =>
            let sub := alphaBetaPruning env maxDepth maximizingPlayer fuel descendantGame mv
              (currDepth + 1) a b
            (sub.1, sub.2.1)
        let st : SearchState :=
          { currentGame := currentGame, alpha := alpha, beta := beta,
            minimaxMove := minimaxMove, choseMove := false, gaveUp := false }
        let st := searchRowsLoop env recurse pieceMoves maximize currDepth
          [0, 1, 2, 3, 4, 5, 6, 7] st
        if st.gaveUp then (freeMemory currDepth maximize, st.minimaxMove, st.currentGame)
        else if currDepth = ROOT_DEPTH then (INT_MAX, st.minimaxMove, st.currentGame)
        else ((if maximize then st.alpha else st.beta), st.minimaxMove, st.currentGame)

/-- `spChessMinimaxMove` on a non-null game: the returned move (`none` is `NULL`) and the
game afterwards. -/
def spChessMinimaxMove (env : Env) (game : SPChessGame) (maxDepth : Int) :
    Option Move × SPChessGame :=
  if maxDepth ≤ 0 then (none, game)
  else
    let minimaxMove := spCreateMove env.junk
    let res := alphaBetaPruning env maxDepth game.currentPlayer (maxDepth.toNat + 1) game
      minimaxMove ROOT_DEPTH INT_MIN INT_MAX
    let memoryOccured := decide (res.1 = INT_MIN)
    if memoryOccured then (none, res.2.2) else (some res.2.1, res.2.2)

/-! ## Invariants of a game state -/

/-- The invariant the castle simulation relies on: while a side may still castle, its king
stands on its first rank in the recorded king column. -/
def castleConsistent (g : SPChessGame) : Prop :=
  ((g.whiteLeftCastle = true ∨ g.whiteRightCastle = true) →
      g.board WHITE_FIRST_ROW g.whiteKingCol = WHITE_KING) ∧
  ((g.blackLeftCastle = true ∨ g.blackRightCastle = true) →
      g.board BLACK_FIRST_ROW g.blackKingCol = BLACK_KING)

/-- The king-position fields agree with the board: each recorded king square is on the board
and is the one square of the board that holds that king. -/
def kingFieldsAgree (g : SPChessGame) : Prop :=
  validPosition g.whiteKingRow g.whiteKingCol = true ∧
  validPosition g.blackKingRow g.blackKingCol = true ∧
  (∀ r c : Int, validPosition r c = true →
    (g.board r c = WHITE_KING ↔ r = g.whiteKingRow ∧ c = g.whiteKingCol)) ∧
  (∀ r c : Int, validPosition r c = true →
    (g.board r c = BLACK_KING ↔ r = g.blackKingRow ∧ c = g.blackKingCol))

/-- The game with the board `legalRegularMove` simulates: the source square emptied and the
moved piece put on the destination. -/
def boardAfterMove (g : SPChessGame) (m : Move) : SPChessGame :=
  (g.setBoard m.srcRow m.srcCol EMPTY_POSITION).setBoard m.dstRow m.dstCol m.srcPiece

/-- The row of the square `legalRegularMove` tests for a threat: the destination when a king
moves, the recorded king square of the side to move otherwise. -/
def ownKingRowAfter (g : SPChessGame) (m : Move) : Int :=
  if m.srcPiece = WHITE_KING ∨ m.srcPiece = BLACK_KING then m.dstRow
  else if g.currentPlayer = WHITE_PLAYER then g.whiteKingRow else g.blackKingRow

/-- The column of the square `legalRegularMove` tests for a threat. -/
def ownKingColAfter (g : SPChessGame) (m : Move) : Int :=
  if m.srcPiece = WHITE_KING ∨ m.srcPiece = BLACK_KING then m.dstCol
  else if g.currentPlayer = WHITE_PLAYER then g.whiteKingCol else g.blackKingCol

/-- The king of the side to move. -/
def ownKing (p : Player) : Piece := if p = WHITE_PLAYER then WHITE_KING else BLACK_KING

/-- The 64 squares of the board in row-major order. -/
def boardSquares : List (Int × Int) :=
  [0, 1, 2, 3, 4, 5, 6, 7].flatMap fun r => [0, 1, 2, 3, 4, 5, 6, 7].map fun c => (r, c)

/-- A board with no piece on it. -/
def emptyBoard : Board := fun _ _ => EMPTY_POSITION

/-- The board obtained from `board` by putting each listed piece on its square. -/
def placePieces (board : Board) : List (Int × Int × Piece) → Board
  | [] => board
  | (r, c, p) :: rest => placePieces (board.set r c p) rest

/-- A move as `createMoveFromCommand` builds it for `move <src> to <dst>`: the four flags
cleared by `spCreateMove`, the coordinates of the command, and nothing else set. -/
def userMove (srcRow srcCol dstRow dstCol : Int) : Move :=
  { srcRow := srcRow, srcCol := srcCol, dstRow := dstRow, dstCol := dstCol,
    srcPiece := EMPTY_POSITION, dstPiece := EMPTY_POSITION,
    whiteLeftCastle := false, whiteRightCastle := false,
    blackLeftCastle := false, blackRightCastle := false,
    castleMove := false, pawnPromotion := false, dstPieceCaptured := false,
    threatenedAfterMove := false }

/-- A sample environment: per-piece lists of capacity 28, the usual piece weights. -/
def sampleEnv : Env :=
  { MAX_MOVES_FOR_PIECE := 28, junk := userMove (-1) (-1) (-1) (-1),
    PAWN_SCORE := 1, KNIGHT_SCORE := 3, BISHOP_SCORE := 3, ROOK_SCORE := 5, QUEEN_SCORE := 9,
    TIE_SCORE := 0 }

/-- A sample position, White to move: white king e1, knight b1, pawn a7; black king h5. -/
def sampleGame : SPChessGame :=
  { board := placePieces emptyBoard
      [(0, 4, WHITE_KING), (0, 1, WHITE_KNIGHT), (6, 0, WHITE_PAWN), (4, 7, BLACK_KING)],
    currentPlayer := WHITE_PLAYER,
    whiteLeftCastle := false, whiteRightCastle := false,
    blackLeftCastle := false, blackRightCastle := false,
    whiteKingRow := 0, whiteKingCol := 4, blackKingRow := 4, blackKingCol := 7,
    whiteArmy := { numOfPawns := 1, numOfKnights := 1, numOfBishops := 0, numOfRooks := 0,
                   numOfQueens := 0 },
    blackArmy := { numOfPawns := 0, numOfKnights := 0, numOfBishops := 0, numOfRooks := 0,
                   numOfQueens := 0 },
    history := { elements := [], maxSize := 6 },
    status := GAME_NOT_FINISHED_NO_CHECK }

/-- The knight move b1-c3 of `sampleGame`, with `srcPiece` read from the board. -/
def sampleKnightMove : Move := { userMove 0 1 2 2 with srcPiece := WHITE_KNIGHT }

/-- A true castling flag implies that the owner's king and the rook of that side stand on
their home squares. -/
def castleHome (g : SPChessGame) : Prop :=
  (g.whiteLeftCastle = true →
    g.board WHITE_FIRST_ROW KING_COL = WHITE_KING ∧ g.board WHITE_FIRST_ROW LEFT_ROOK_COL = WHITE_ROOK) ∧
  (g.whiteRightCastle = true →
    g.board WHITE_FIRST_ROW KING_COL = WHITE_KING ∧ g.board WHITE_FIRST_ROW RIGHT_ROOK_COL = WHITE_ROOK) ∧
  (g.blackLeftCastle = true →
    g.board BLACK_FIRST_ROW KING_COL = BLACK_KING ∧ g.board BLACK_FIRST_ROW LEFT_ROOK_COL = BLACK_ROOK) ∧
  (g.blackRightCastle = true →
    g.board BLACK_FIRST_ROW KING_COL = BLACK_KING ∧ g.board BLACK_FIRST_ROW RIGHT_ROOK_COL = BLACK_ROOK)

instance (g : SPChessGame) : Decidable (castleHome g) := by
  unfold castleHome; infer_instance

instance (g : SPChessGame) : Decidable (castleConsistent g) := by
  unfold castleConsistent; infer_instance

/-- The rook of the side to move. -/
def ownRook (p : Player) : Piece := if p = WHITE_PLAYER then WHITE_ROOK else BLACK_ROOK

/-- The first rank of the side to move. -/
def ownFirstRow (p : Player) : Int := if p = WHITE_PLAYER then WHITE_FIRST_ROW else BLACK_FIRST_ROW

/-- The recorded king column of the side to move. -/
def ownKingCol (g : SPChessGame) : Int :=
  if g.currentPlayer = WHITE_PLAYER then g.whiteKingCol else g.blackKingCol

/-- The left castling flag of the side to move. -/
def ownLeftCastle (g : SPChessGame) : Bool :=
  if g.currentPlayer = WHITE_PLAYER then g.whiteLeftCastle else g.blackLeftCastle

/-- The right castling flag of the side to move. -/
def ownRightCastle (g : SPChessGame) : Bool :=
  if g.currentPlayer = WHITE_PLAYER then g.whiteRightCastle else g.blackRightCastle

/-- The game with the board `legalCastleRoute` simulates for column `col`: the king of the
side to move taken from its recorded column on its first rank and placed on column `col`. -/
def kingPlacedOn (g : SPChessGame) (col : Int) : SPChessGame :=
  ((g.setBoard (ownFirstRow g.currentPlayer) (ownKingCol g) EMPTY_POSITION).setBoard
    (ownFirstRow g.currentPlayer) col (ownKing g.currentPlayer))

/-- Column `col` lies strictly between the rook's column and the king's column. -/
def strictlyBetween (rookCol kingCol col : Int) : Prop :=
  (rookCol < col ∧ col < kingCol) ∨ (kingCol < col ∧ col < rookCol)

/-- A square of the castle route is passable: empty, and not threatened by the opponent once
the king is placed on it. -/
def routeSquareSafe (g : SPChessGame) (col : Int) : Prop :=
  g.board (ownFirstRow g.currentPlayer) col = EMPTY_POSITION ∧
  rivalPlayerThreateningPosition (kingPlacedOn g col) (ownFirstRow g.currentPlayer) col = false

/-- A castling position, White to move: white king e1 with both rooks on their corners and
both white flags true; black king e8 and a black rook on f8 that attacks f1. -/
def castleGame : SPChessGame :=
  { board := placePieces emptyBoard
      [(0, 4, WHITE_KING), (0, 0, WHITE_ROOK), (0, 7, WHITE_ROOK), (7, 4, BLACK_KING),
       (7, 5, BLACK_ROOK)],
    currentPlayer := WHITE_PLAYER,
    whiteLeftCastle := true, whiteRightCastle := true,
    blackLeftCastle := false, blackRightCastle := false,
    whiteKingRow := 0, whiteKingCol := 4, blackKingRow := 7, blackKingCol := 4,
    whiteArmy := { numOfPawns := 0, numOfKnights := 0, numOfBishops := 0, numOfRooks := 2,
                   numOfQueens := 0 },
    blackArmy := { numOfPawns := 0, numOfKnights := 0, numOfBishops := 0, numOfRooks := 1,
                   numOfQueens := 0 },
    history := { elements := [], maxSize := 6 },
    status := GAME_NOT_FINISHED_NO_CHECK }

/-- The castle with the right (h1) rook in `castleGame`, `srcPiece` read from the board. -/
def castleRightMove : Move :=
  { userMove 0 7 (-1) (-1) with castleMove := true, srcPiece := WHITE_ROOK }

/-- The castle with the left (a1) rook in `castleGame`, `srcPiece` read from the board. -/
def castleLeftMove : Move :=
  { userMove 0 0 (-1) (-1) with castleMove := true, srcPiece := WHITE_ROOK }

/-- The result codes with which `spChessGameSetMove` refuses a move. -/
def isRejection (msg : SP_CHESS_GAME_MESSAGE) : Prop :=
  msg = SP_CHESS_GAME_INVALID_ARGUMENT ∨ msg = SP_CHESS_GAME_INVALID_POSITION
    ∨ msg = SP_CHESS_GAME_CASTLE_NO_ROOK ∨ msg = SP_CHESS_GAME_ILLEGAL_CASTLE_MOVE
    ∨ msg = SP_CHESS_GAME_ILLEGAL_MOVE

/-- The command `castle <1,H>` in `castleGame`, as `createMoveFromCommand` builds it. -/
def castleRightCommand : Move := { userMove 0 7 (-1) (-1) with castleMove := true }

/-- The empty per-piece move list `spArrayListCreate(MAX_MOVES_FOR_PIECE)` returns. -/
def emptyMoveList (env : Env) : SPArrayList :=
  { elements := [], maxSize := env.MAX_MOVES_FOR_PIECE }

/-- The move list `getPossiblePieceMoves` fills for the piece on `(row, col)`, unsorted and
without promotion expansion, as `getGameStatus` asks for it. -/
def pieceMoveList (env : Env) (g : SPChessGame) (row col : Int) : SPArrayList :=
  (getPossiblePieceMoves env g (emptyMoveList env) row col (g.board row col) false false).2.2

/-- Some piece of the side to move has a non-empty list of legal moves. -/
def hasLegalMove (env : Env) (g : SPChessGame) : Prop :=
  ∃ p ∈ boardSquares, currentPlayerPiece g.currentPlayer (g.board p.1 p.2) = true
    ∧ spArrayListIsEmpty (pieceMoveList env g p.1 p.2) = false

instance (env : Env) (g : SPChessGame) : Decidable (hasLegalMove env g) := by
  unfold hasLegalMove; infer_instance

/-- The four-way classification of the specification (§4.1, `computeStatus`). -/
def classifyStatus (currentPlayer : Player) (threatened hasMove : Bool) : GAME_STATUS :=
  if hasMove then
    (if threatened then GAME_NOT_FINISHED_CHECK else GAME_NOT_FINISHED_NO_CHECK)
  else if threatened then
    (if currentPlayer = WHITE_PLAYER then BLACK_PLAYER_WINS else WHITE_PLAYER_WINS)
  else TIED_GAME

/-- A state with a stale castling flag, White to move: the white king stands on e2 (and is
recorded there) although `whiteLeftCastle` is still true; white rook a1; black rooks h1,
h2, h3 and black king h8.  The white king is attacked by the rook h2 and has no flight
square, and no move of the rook a1 ends the check. -/
def staleFlagGame : SPChessGame :=
  { board := placePieces emptyBoard
      [(1, 4, WHITE_KING), (0, 0, WHITE_ROOK), (0, 7, BLACK_ROOK), (1, 7, BLACK_ROOK),
       (2, 7, BLACK_ROOK), (7, 7, BLACK_KING)],
    currentPlayer := WHITE_PLAYER,
    whiteLeftCastle := true, whiteRightCastle := false,
    blackLeftCastle := false, blackRightCastle := false,
    whiteKingRow := 1, whiteKingCol := 4, blackKingRow := 7, blackKingCol := 7,
    whiteArmy := { numOfPawns := 0, numOfKnights := 0, numOfBishops := 0, numOfRooks := 1,
                   numOfQueens := 0 },
    blackArmy := { numOfPawns := 0, numOfKnights := 0, numOfBishops := 0, numOfRooks := 3,
                   numOfQueens := 0 },
    history := { elements := [], maxSize := 6 },
    status := GAME_NOT_FINISHED_NO_CHECK }

/-- A stalemate with only kings and one pawn each, Black to move: black king a8 and pawn
b7; white king c7 and pawn b6. -/
def stalemateGame : SPChessGame :=
  { board := placePieces emptyBoard
      [(7, 0, BLACK_KING), (6, 1, BLACK_PAWN), (6, 2, WHITE_KING), (5, 1, WHITE_PAWN)],
    currentPlayer := BLACK_PLAYER,
    whiteLeftCastle := false, whiteRightCastle := false,
    blackLeftCastle := false, blackRightCastle := false,
    whiteKingRow := 6, whiteKingCol := 2, blackKingRow := 7, blackKingCol := 0,
    whiteArmy := { numOfPawns := 1, numOfKnights := 0, numOfBishops := 0, numOfRooks := 0,
                   numOfQueens := 0 },
    blackArmy := { numOfPawns := 1, numOfKnights := 0, numOfBishops := 0, numOfRooks := 0,
                   numOfQueens := 0 },
    history := { elements := [], maxSize := 6 },
    status := GAME_NOT_FINISHED_NO_CHECK }

/-- The number of squares of the board that hold `piece`. -/
def countPiece (board : Board) (piece : Piece) : Int :=
  (boardSquares.map fun p => if board p.1 p.2 = piece then (1 : Int) else 0).sum

/-- The pieces `updatePiecesAmount` keeps a counter for: all but the kings. -/
def counted : Piece → Bool
  | EMPTY_POSITION | WHITE_KING | BLACK_KING => false
  | _ => true

/-- The army counter that `updatePiecesAmount` keeps for `piece` (0 for the kings and the
empty square, which have none). -/
def counterOf (g : SPChessGame) : Piece → Int
  | WHITE_PAWN => g.whiteArmy.numOfPawns
  | WHITE_KNIGHT => g.whiteArmy.numOfKnights
  | WHITE_BISHOP => g.whiteArmy.numOfBishops
  | WHITE_ROOK => g.whiteArmy.numOfRooks
  | WHITE_QUEEN => g.whiteArmy.numOfQueens
  | BLACK_PAWN => g.blackArmy.numOfPawns
  | BLACK_KNIGHT => g.blackArmy.numOfKnights
  | BLACK_BISHOP => g.blackArmy.numOfBishops
  | BLACK_ROOK => g.blackArmy.numOfRooks
  | BLACK_QUEEN => g.blackArmy.numOfQueens
  | _ => 0

/-- Each of the ten army counters equals the number of pieces of its kind and colour on the
board. -/
def armiesAgree (g : SPChessGame) : Prop :=
  g.whiteArmy.numOfPawns = countPiece g.board WHITE_PAWN
  ∧ g.whiteArmy.numOfKnights = countPiece g.board WHITE_KNIGHT
  ∧ g.whiteArmy.numOfBishops = countPiece g.board WHITE_BISHOP
  ∧ g.whiteArmy.numOfRooks = countPiece g.board WHITE_ROOK
  ∧ g.whiteArmy.numOfQueens = countPiece g.board WHITE_QUEEN
  ∧ g.blackArmy.numOfPawns = countPiece g.board BLACK_PAWN
  ∧ g.blackArmy.numOfKnights = countPiece g.board BLACK_KNIGHT
  ∧ g.blackArmy.numOfBishops = countPiece g.board BLACK_BISHOP
  ∧ g.blackArmy.numOfRooks = countPiece g.board BLACK_ROOK
  ∧ g.blackArmy.numOfQueens = countPiece g.board BLACK_QUEEN

instance (g : SPChessGame) : Decidable (armiesAgree g) := by
  unfold armiesAgree; infer_instance

/-- The game with the side to move changed, as `changePlayerAndUpdateStatus` does first. -/
def flipPlayer (g : SPChessGame) : SPChessGame :=
  { g with currentPlayer := g.currentPlayer.not }

/-- The status `getGameStatus` computes for the side to move and its recorded king square. -/
def statusOf (env : Env) (g : SPChessGame) : GAME_STATUS :=
  if g.currentPlayer = WHITE_PLAYER then (getGameStatus env g g.whiteKingRow g.whiteKingCol).1
  else (getGameStatus env g g.blackKingRow g.blackKingCol).1

/-- The part of `updatesAfterSettingMove` before the change of player: the capture is
accounted for in the armies and the castling flags, and the move is stored in the history. -/
def updatesPrefix (game : SPChessGame) (move : Move) (minimaxMove : Bool) : SPChessGame :=
  let game :=
    if move.dstPieceCaptured then
      let game := updatePiecesAmount game move.dstPiece false
      let dstPiece := move.dstPiece
      if dstPiece = WHITE_ROOK then
        let ind := updateCastlingIndicators move dstPiece game.whiteLeftCastle game.whiteRightCastle
        { game with whiteLeftCastle := ind.1, whiteRightCastle := ind.2 }
      else if dstPiece = BLACK_ROOK then
        let ind := updateCastlingIndicators move dstPiece game.blackLeftCastle game.blackRightCastle
        { game with blackLeftCastle := ind.1, blackRightCastle := ind.2 }
      else game
    else game
  if !minimaxMove then
    let history :=
      if spArrayListIsFull game.history then (spArrayListRemoveFirst game.history).1
      else game.history
    { game with history := (spArrayListAddLast history move).1 }
  else game

/-- The sequence of `moveOrCastleCommandHandler`: `spChessGameSetMove` for a user, and when
it succeeds with the move flagged as a promotion, `performPawnPromotion`, which writes the
chosen piece to `move->srcPiece` and calls `spChessGameSetPawnPromotion`. -/
def applyUserMove (env : Env) (game : SPChessGame) (move : Move) (chosenPiece : Piece) :
    SP_CHESS_GAME_MESSAGE × SPChessGame × Move :=
  let res := spChessGameSetMove env game move false false
  if res.1 ≠ SP_CHESS_GAME_SUCCESS then res
  else if res.2.2.pawnPromotion then
    let move := { res.2.2 with srcPiece := chosenPiece }
    let promo := spChessGameSetPawnPromotion env res.2.1 move false
    (promo.1, promo.2, move)
  else res

/-- The undo of `undoCommandHandler` for one move: `spChessGameUndoPrevMove` with the last
element of the history (the game itself when the history is empty). -/
def undoLastMove (game : SPChessGame) : SPChessGame :=
  match spArrayListGetLast game.history with
  | some lastMove => (spChessGameUndoPrevMove game lastMove).2
  | none => game

/-- The user's command for the promotion of the pawn of `sampleGame`: a7 to a8. -/
def samplePromotionMove : Move := userMove 6 0 7 0

/-- The engine's form of the same promotion, as `addPawnPromotionsMoves` stores it: the
flag set and the queen in `srcPiece`. -/
def sampleEnginePromotion : Move :=
  { userMove 6 0 7 0 with srcPiece := WHITE_QUEEN, pawnPromotion := true }

/-- Two boards agree on the 64 squares. -/
def sameSquares (a b : Board) : Prop := ∀ p ∈ boardSquares, a p.1 p.2 = b p.1 p.2

instance (a b : Board) : Decidable (sameSquares a b) := by
  unfold sameSquares; infer_instance

/-- The move after `spChessGameSetMove` has read the moved piece from the board and stored
the four castling flags of the game in it. -/
def stampMove (g : SPChessGame) (m : Move) : Move :=
  { m with srcPiece := g.board m.srcRow m.srcCol,
           whiteLeftCastle := g.whiteLeftCastle, whiteRightCastle := g.whiteRightCastle,
           blackLeftCastle := g.blackLeftCastle, blackRightCastle := g.blackRightCastle }

/-- The condition under which `legalRegularMove` flags a move as a pawn promotion. -/
def reachesLastRow (g : SPChessGame) (m : Move) : Prop :=
  (g.currentPlayer = WHITE_PLAYER ∧ m.srcPiece = WHITE_PAWN ∧ m.dstRow = BLACK_FIRST_ROW)
    ∨ (g.currentPlayer = BLACK_PLAYER ∧ m.srcPiece = BLACK_PAWN ∧ m.dstRow = WHITE_FIRST_ROW)

instance (g : SPChessGame) (m : Move) : Decidable (reachesLastRow g m) := by
  unfold reachesLastRow; infer_instance

/-- The move as an accepting run of `legalRegularMove` leaves it: the captured piece read
from the board, the capture flag, the promotion flag and, for a piece other than the king,
whether the destination is attacked afterwards. -/
def filledMove (g : SPChessGame) (m : Move) : Move :=
  { m with
    dstPiece := g.board m.dstRow m.dstCol,
    dstPieceCaptured := m.dstPieceCaptured || decide (g.board m.dstRow m.dstCol ≠ EMPTY_POSITION),
    threatenedAfterMove :=
      if m.srcPiece = WHITE_KING ∨ m.srcPiece = BLACK_KING then m.threatenedAfterMove
      else rivalPlayerThreateningPosition (boardAfterMove g m) m.dstRow m.dstCol,
    pawnPromotion := m.pawnPromotion || decide (reachesLastRow g m) }

/-- The game after the board writes and the accounting of an accepted regular move of a
user, before the change of player. -/
def regularPrefix (g : SPChessGame) (m : Move) (mm : Bool) : SPChessGame :=
  updatesPrefix (setRegularMove g (filledMove g (stampMove g m))) (filledMove g (stampMove g m)) mm

/-- The game with the player changed and the status recomputed, as
`changePlayerAndUpdateStatus` leaves it when the castle simulation restores the board. -/
def flipAndStatus (env : Env) (g : SPChessGame) : SPChessGame :=
  { flipPlayer g with status := statusOf env (flipPlayer g) }

/-- The part of `spChessGameSetPawnPromotion` before the change of player: the promoted
piece is put on the destination (for the engine the source is emptied first), its counter
is increased and the pawn counter of the side to move is decreased. -/
def promotionPrefix (game : SPChessGame) (move : Move) (computerMove : Bool) : SPChessGame :=
  let game := if computerMove then game.setBoard move.srcRow move.srcCol EMPTY_POSITION else game
  let pawnType := if game.currentPlayer = WHITE_PLAYER then WHITE_PAWN else BLACK_PAWN
  let game := game.setBoard move.dstRow move.dstCol move.srcPiece
  let game := updatePiecesAmount game move.srcPiece true
  updatePiecesAmount game pawnType false

/-- The pawn of the side to move. -/
def ownPawn (p : Player) : Piece := if p = WHITE_PLAYER then WHITE_PAWN else BLACK_PAWN

/-- The game with the king of the side to move written on its first rank in the recorded
king column, as the castle simulation of `legalCastleRoute` leaves the board. -/
def phantomKing (g : SPChessGame) : SPChessGame :=
  g.setBoard (ownFirstRow g.currentPlayer) (ownKingCol g) (ownKing g.currentPlayer)

/-- The game `g2` is `g1`, or the side to move may still castle and `g2` is `g1` with its
king written on the first rank in the recorded column. -/
def upToPhantom (g1 g2 : SPChessGame) : Prop :=
  g2 = g1 ∨ ((ownLeftCastle g1 = true ∨ ownRightCastle g1 = true) ∧ g2 = phantomKing g1)

/-- The recorded king row of the side to move. -/
def ownKingRow (g : SPChessGame) : Int :=
  if g.currentPlayer = WHITE_PLAYER then g.whiteKingRow else g.blackKingRow

/-- The status agrees with the position: it is what `getGameStatus` computes for the side
to move. -/
def statusAgrees (env : Env) (g : SPChessGame) : Prop := g.status = statusOf env g

instance (env : Env) (g : SPChessGame) : Decidable (statusAgrees env g) := by
  unfold statusAgrees; infer_instance

/-- The game is not over: the status is no-check or in-check. -/
def nonTerminal (g : SPChessGame) : Prop :=
  g.status = GAME_NOT_FINISHED_NO_CHECK ∨ g.status = GAME_NOT_FINISHED_CHECK

instance (g : SPChessGame) : Decidable (nonTerminal g) := by
  unfold nonTerminal; infer_instance

/-- The two games agree on everything the round trip is about: board, castling flags, king
positions, armies, side to move and status (the history is not compared). -/
def sameState (a b : SPChessGame) : Prop :=
  a.board = b.board
  ∧ a.whiteLeftCastle = b.whiteLeftCastle ∧ a.whiteRightCastle = b.whiteRightCastle
  ∧ a.blackLeftCastle = b.blackLeftCastle ∧ a.blackRightCastle = b.blackRightCastle
  ∧ a.whiteKingRow = b.whiteKingRow ∧ a.whiteKingCol = b.whiteKingCol
  ∧ a.blackKingRow = b.blackKingRow ∧ a.blackKingCol = b.blackKingCol
  ∧ a.whiteArmy = b.whiteArmy ∧ a.blackArmy = b.blackArmy
  ∧ a.currentPlayer = b.currentPlayer ∧ a.status = b.status

/-- First step of `spChessGameUndoPrevMove`: the board is put back. -/
def undoBoard (game : SPChessGame) (move : Move) : SPChessGame :=
  if move.castleMove then undoCastleMove game move
  else
    let originalSrcPiece :=
      if move.pawnPromotion then
        (if game.currentPlayer.not = WHITE_PLAYER then WHITE_PAWN else BLACK_PAWN)
      else move.srcPiece
    let game := game.setBoard move.srcRow move.srcCol originalSrcPiece
    game.setBoard move.dstRow move.dstCol move.dstPiece

/-- Second step of `spChessGameUndoPrevMove`: the castling flags stored in the move are
written back, the king position is recovered when a king moved, and the last element of
the history is removed. -/
def undoFields (game : SPChessGame) (move : Move) : SPChessGame :=
  let game := { game with whiteLeftCastle := move.whiteLeftCastle,
                          whiteRightCastle := move.whiteRightCastle,
                          blackLeftCastle := move.blackLeftCastle,
                          blackRightCastle := move.blackRightCastle }
  let game :=
    if move.srcPiece = WHITE_KING then
      { game with whiteKingRow := move.srcRow, whiteKingCol := move.srcCol }
    else if move.srcPiece = BLACK_KING then
      { game with blackKingRow := move.srcRow, blackKingCol := move.srcCol }
    else game
  { game with history := (spArrayListRemoveLast game.history).1 }

/-- Third step of `spChessGameUndoPrevMove`: the armies are recounted. -/
def undoArmies (game : SPChessGame) (move : Move) : SPChessGame :=
  if !move.castleMove then
    let game := if move.dstPieceCaptured then updatePiecesAmount game move.dstPiece true else game
    if move.pawnPromotion then
      let game := updatePiecesAmount game move.srcPiece false
      let pawnType := if game.currentPlayer = WHITE_PLAYER then WHITE_PAWN else BLACK_PAWN
      updatePiecesAmount game pawnType true
    else game
  else game

/-- Last step of `spChessGameUndoPrevMove`: the player is changed and the status set from
the threat to the king of the new side to move. -/
def undoFinish (game : SPChessGame) : SPChessGame :=
  let game := { game with currentPlayer := game.currentPlayer.not }
  let currPlayer := game.currentPlayer
  let kingRow := if currPlayer = WHITE_PLAYER then game.whiteKingRow else game.blackKingRow
  let kingCol := if currPlayer = WHITE_PLAYER then game.whiteKingCol else game.blackKingCol
  { game with status :=
      if rivalPlayerThreateningPosition game kingRow kingCol then GAME_NOT_FINISHED_CHECK
      else GAME_NOT_FINISHED_NO_CHECK }

/-- The command `castle <1,A>` in `castleGame`, as `createMoveFromCommand` builds it. -/
def castleLeftCommand : Move := { userMove 0 0 (-1) (-1) with castleMove := true }

/-- A state with a stale castling flag, Black to move: the white king stands on e2 (and is
recorded there) although `whiteLeftCastle` is still true; white rook a1 and white queen e1;
black king h8.  The king fields and the ten counters agree with the board, and the status
(no check, Black has moves) agrees with the position. -/
def staleQueenGame : SPChessGame :=
  { board := placePieces emptyBoard
      [(1, 4, WHITE_KING), (0, 0, WHITE_ROOK), (0, 4, WHITE_QUEEN), (7, 7, BLACK_KING)],
    currentPlayer := BLACK_PLAYER,
    whiteLeftCastle := true, whiteRightCastle := false,
    blackLeftCastle := false, blackRightCastle := false,
    whiteKingRow := 1, whiteKingCol := 4, blackKingRow := 7, blackKingCol := 7,
    whiteArmy := { numOfPawns := 0, numOfKnights := 0, numOfBishops := 0, numOfRooks := 1,
                   numOfQueens := 1 },
    blackArmy := { numOfPawns := 0, numOfKnights := 0, numOfBishops := 0, numOfRooks := 0,
                   numOfQueens := 0 },
    history := { elements := [], maxSize := 6 },
    status := GAME_NOT_FINISHED_NO_CHECK }

/-- The user's command for the king move h8-g8 in `staleQueenGame`. -/
def staleQueenMove : Move := userMove 7 7 7 6

/-! ### `spChessGameCreate` -/

/-- Modelled from the spec: `FIRST_EMPTY_ROW_AT_INIT`, "rows 2-5 empty" at the start. -/
def FIRST_EMPTY_ROW_AT_INIT : Int := 2
/-- Modelled from the spec: `LEFT_KNIGHT_COL`, the left knight's column of the standard layout. -/
def LEFT_KNIGHT_COL : Int := 1
/-- Modelled from the spec: `RIGHT_KNIGHT_COL`, the right knight's column of the standard layout. -/
def RIGHT_KNIGHT_COL : Int := 6
/-- Modelled from the spec: `LEFT_BISHOP_COL`, the left bishop's column of the standard layout. -/
def LEFT_BISHOP_COL : Int := 2
/-- Modelled from the spec: `RIGHT_BISHOP_COL`, the right bishop's column of the standard layout. -/
def RIGHT_BISHOP_COL : Int := 5
/-- Modelled from the spec: `QUEEN_COL`, the queen's column of the standard layout. -/
def QUEEN_COL : Int := 3
/-- Modelled from the spec: `INIT_PAWNS`, eight pawns per side at the start. -/
def INIT_PAWNS : Int := 8
/-- Modelled from the spec: `INIT_KNIGHTS`, two knights per side at the start. -/
def INIT_KNIGHTS : Int := 2
/-- Modelled from the spec: `INIT_BISHOPS`, two bishops per side at the start. -/
def INIT_BISHOPS : Int := 2
/-- Modelled from the spec: `INIT_ROOKS`, two rooks per side at the start. -/
def INIT_ROOKS : Int := 2
/-- Modelled from the spec: `INIT_QUEENS`, one queen per side at the start. -/
def INIT_QUEENS : Int := 1

/-- The values `lo, lo+1, .., hi-1` a C loop `for (i = lo; i < hi; i++)` runs through. -/
def loopRange (lo hi : Int) : List Int :=
  (List.range (hi - lo).toNat).map fun i => lo + (i : Int)

/-- `initializeBoard`: the board after the two loops have run. -/
def initializeBoard (board : Board) : Board :=
  let board :=
    (loopRange FIRST_EMPTY_ROW_AT_INIT (BOARD_LENGTH - FIRST_EMPTY_ROW_AT_INIT)).foldl
      (fun board row =>
        (loopRange 0 BOARD_LENGTH).foldl (fun board col => board.set row col EMPTY_POSITION) board)
      board
  (loopRange 0 BOARD_LENGTH).foldl
    (fun board col =>
      let board := board.set WHITE_PAWNS_ROW col WHITE_PAWN
      let board := board.set BLACK_PAWNS_ROW col BLACK_PAWN
      if col = LEFT_ROOK_COL ∨ col = RIGHT_ROOK_COL then
        (board.set WHITE_FIRST_ROW col WHITE_ROOK).set BLACK_FIRST_ROW col BLACK_ROOK
      else if col = LEFT_KNIGHT_COL ∨ col = RIGHT_KNIGHT_COL then
        (board.set WHITE_FIRST_ROW col WHITE_KNIGHT).set BLACK_FIRST_ROW col BLACK_KNIGHT
      else if col = LEFT_BISHOP_COL ∨ col = RIGHT_BISHOP_COL then
        (board.set WHITE_FIRST_ROW col WHITE_BISHOP).set BLACK_FIRST_ROW col BLACK_BISHOP
      else if col = QUEEN_COL then
        (board.set WHITE_FIRST_ROW col WHITE_QUEEN).set BLACK_FIRST_ROW col BLACK_QUEEN
      else if col = KING_COL then
        (board.set WHITE_FIRST_ROW col WHITE_KING).set BLACK_FIRST_ROW col BLACK_KING
      else board)
    board

/-- The 64 cells of a freshly allocated board array: whatever the allocation held (`junk`)
on the cells of the array; outside the array the embedding has `EMPTY_POSITION`. -/
def allocatedBoard (junk : Board) : Board :=
  fun r c => if validPosition r c then junk r c else EMPTY_POSITION

/-- `spChessGameCreate`; `none` is the C `NULL`, and `junk` is the content of the board
array as allocated. -/
def spChessGameCreate (junk : Board) (historySize : Int) : Option SPChessGame :=
  if historySize ≤ 0 then none
  else
    match spArrayListCreate historySize with
    | none => none
    | some history =>
      some
        { board := initializeBoard (allocatedBoard junk),
          currentPlayer := WHITE_PLAYER,
          whiteLeftCastle := true, whiteRightCastle := true,
          blackLeftCastle := true, blackRightCastle := true,
          whiteKingRow := WHITE_FIRST_ROW, whiteKingCol := KING_COL,
          blackKingRow := BLACK_FIRST_ROW, blackKingCol := KING_COL,
          whiteArmy := { numOfPawns := INIT_PAWNS, numOfKnights := INIT_KNIGHTS,
                         numOfBishops := INIT_BISHOPS, numOfRooks := INIT_ROOKS,
                         numOfQueens := INIT_QUEENS },
          blackArmy := { numOfPawns := INIT_PAWNS, numOfKnights := INIT_KNIGHTS,
                         numOfBishops := INIT_BISHOPS, numOfRooks := INIT_ROOKS,
                         numOfQueens := INIT_QUEENS },
          history := history,
          status := GAME_NOT_FINISHED_NO_CHECK }

/-- The back rank of the standard starting position, by column. -/
def backRank (rook knight bishop queen king : Piece) (col : Int) : Piece :=
  if col = 0 ∨ col = 7 then rook
  else if col = 1 ∨ col = 6 then knight
  else if col = 2 ∨ col = 5 then bishop
  else if col = 3 then queen
  else if col = 4 then king
  else EMPTY_POSITION

/-- The standard chess starting position of the claim: row 0 the white back rank, row 1 the
white pawns, rows 2-5 empty, row 6 the black pawns, row 7 the black back rank. -/
def standardBoard : Board := fun r c =>
  if validPosition r c then
    if r = 0 then backRank WHITE_ROOK WHITE_KNIGHT WHITE_BISHOP WHITE_QUEEN WHITE_KING c
    else if r = 1 then WHITE_PAWN
    else if r = 6 then BLACK_PAWN
    else if r = 7 then backRank BLACK_ROOK BLACK_KNIGHT BLACK_BISHOP BLACK_QUEEN BLACK_KING c
    else EMPTY_POSITION
  else EMPTY_POSITION

/-- The game the claim describes for a history capacity `historySize`. -/
def initialGame (historySize : Int) : SPChessGame :=
  { board := standardBoard,
    currentPlayer := WHITE_PLAYER,
    whiteLeftCastle := true, whiteRightCastle := true,
    blackLeftCastle := true, blackRightCastle := true,
    whiteKingRow := 0, whiteKingCol := KING_COL, blackKingRow := 7, blackKingCol := KING_COL,
    whiteArmy := { numOfPawns := 8, numOfKnights := 2, numOfBishops := 2, numOfRooks := 2,
                   numOfQueens := 1 },
    blackArmy := { numOfPawns := 8, numOfKnights := 2, numOfBishops := 2, numOfRooks := 2,
                   numOfQueens := 1 },
    history := { elements := [], maxSize := historySize },
    status := GAME_NOT_FINISHED_NO_CHECK }

/-! ### The generator as a list of candidates -/

/-- The list after `spArrayListAddLast` has been called for each move of `xs` in turn. -/
def pushAll (l : SPArrayList) (xs : List Move) : SPArrayList :=
  xs.foldl (fun l x => (spArrayListAddLast l x).1) l

/-- The move `addPieceMove` builds for a regular candidate before it is checked. -/
def baseMove (env : Env) (g : SPChessGame) (sr sc dr dc : Int) : Move :=
  { spCreateMove env.junk with
    srcRow := sr, srcCol := sc, srcPiece := g.board sr sc, dstRow := dr, dstCol := dc }

/-- The move `addPieceMove` builds for a castle candidate before it is checked. -/
def baseCastle (env : Env) (g : SPChessGame) (sr sc : Int) : Move :=
  { spCreateMove env.junk with srcRow := sr, srcCol := sc, srcPiece := g.board sr sc }

/-- The four copies `addPawnPromotionsMoves` adds for a promotion. -/
def promotionMoves (move : Move) (currPlayer : Player) : List Move :=
  [ { move with srcPiece := if currPlayer = WHITE_PLAYER then WHITE_QUEEN else BLACK_QUEEN },
    { move with srcPiece := if currPlayer = WHITE_PLAYER then WHITE_ROOK else BLACK_ROOK },
    { move with srcPiece := if currPlayer = WHITE_PLAYER then WHITE_BISHOP else BLACK_BISHOP },
    { move with srcPiece := if currPlayer = WHITE_PLAYER then WHITE_KNIGHT else BLACK_KNIGHT } ]

/-- The moves one call of `addPieceMove` hands to the list. -/
def candidateMoves (env : Env) (g : SPChessGame) (sr sc dr dc : Int) (castle minimax : Bool) :
    List Move :=
  if castle then
    if (legalCastle g (baseCastle env g sr sc)).1 then
      [{ baseCastle env g sr sc with castleMove := true }]
    else []
  else if !validPosition dr dc then []
  else if (legalRegularMove g (baseMove env g sr sc dr dc)).1 then
    if minimax && (filledMove g (baseMove env g sr sc dr dc)).pawnPromotion then
      promotionMoves (filledMove g (baseMove env g sr sc dr dc)) g.currentPlayer
    else [filledMove g (baseMove env g sr sc dr dc)]
  else []

/-- The candidates of `getPossiblePawnMoves`, in the order of its calls. -/
def pawnCandidates (env : Env) (g : SPChessGame) (sr sc : Int) (minimax : Bool) : List Move :=
  (if g.currentPlayer = BLACK_PLAYER then candidateMoves env g sr sc (sr - 2) sc false false
    else [])
  ++ candidateMoves env g sr sc (if g.currentPlayer = WHITE_PLAYER then sr + 1 else sr - 1)
      (sc - 1) false minimax
  ++ candidateMoves env g sr sc (if g.currentPlayer = WHITE_PLAYER then sr + 1 else sr - 1)
      sc false minimax
  ++ candidateMoves env g sr sc (if g.currentPlayer = WHITE_PLAYER then sr + 1 else sr - 1)
      (sc + 1) false minimax
  ++ (if g.currentPlayer = WHITE_PLAYER then candidateMoves env g sr sc (sr + 2) sc false false
    else [])

/-- The candidates of `getPossibleKnightMoves`, in the order of its calls. -/
def knightCandidates (env : Env) (g : SPChessGame) (sr sc : Int) : List Move :=
  candidateMoves env g sr sc (sr - 2) (sc - 1) false false
  ++ candidateMoves env g sr sc (sr - 2) (sc + 1) false false
  ++ candidateMoves env g sr sc (sr - 1) (sc - 2) false false
  ++ candidateMoves env g sr sc (sr - 1) (sc + 2) false false
  ++ candidateMoves env g sr sc (sr + 1) (sc - 2) false false
  ++ candidateMoves env g sr sc (sr + 1) (sc + 2) false false
  ++ candidateMoves env g sr sc (sr + 2) (sc - 1) false false
  ++ candidateMoves env g sr sc (sr + 2) (sc + 1) false false

/-- The candidates of the eight king steps of `getPossibleKingMoves`, in order. -/
def kingStepCandidates (env : Env) (g : SPChessGame) (sr sc : Int) : List Move :=
  candidateMoves env g sr sc (sr - 1) (sc - 1) false false
  ++ candidateMoves env g sr sc (sr - 1) sc false false
  ++ candidateMoves env g sr sc (sr - 1) (sc + 1) false false
  ++ candidateMoves env g sr sc sr (sc - 1) false false
  ++ candidateMoves env g sr sc sr (sc + 1) false false
  ++ candidateMoves env g sr sc (sr + 1) (sc - 1) false false
  ++ candidateMoves env g sr sc (sr + 1) sc false false
  ++ candidateMoves env g sr sc (sr + 1) (sc + 1) false false

/-- The candidates of one call of `getDirectionalMoves`: the walk from `(r, c)` in steps of
`(dr, dc)` proposes every empty square it passes and, when it stops on an opponent's piece,
that square. -/
def rayCandidates (env : Env) (g : SPChessGame) (sr sc dr dc : Int) :
    Nat → Int → Int → List Move
  | 0, _, _ => []
  | fuel + 1, r, c =>
    if !validPosition r c then []
    else if g.board r c ≠ EMPTY_POSITION then
      (if rivalPiece g.currentPlayer (g.board r c) = true then
        candidateMoves env g sr sc r c false false
      else [])
    else
      candidateMoves env g sr sc r c false false
        ++ rayCandidates env g sr sc dr dc fuel (r + dr) (c + dc)

/-- The candidates of the four diagonal walks of `getPossibleBishopOrQueenMoves`. -/
def bishopCandidates (env : Env) (g : SPChessGame) (sr sc : Int) : List Move :=
  rayCandidates env g sr sc GOING_DOWNWARDS GOING_LEFT 8 (sr + GOING_DOWNWARDS) (sc + GOING_LEFT)
  ++ rayCandidates env g sr sc GOING_DOWNWARDS GOING_RIGHT 8 (sr + GOING_DOWNWARDS)
      (sc + GOING_RIGHT)
  ++ rayCandidates env g sr sc GOING_UPWARDS GOING_LEFT 8 (sr + GOING_UPWARDS) (sc + GOING_LEFT)
  ++ rayCandidates env g sr sc GOING_UPWARDS GOING_RIGHT 8 (sr + GOING_UPWARDS) (sc + GOING_RIGHT)

/-- The candidates of the four straight walks of `getPossibleRookOrQueenMoves`. -/
def rookCandidates (env : Env) (g : SPChessGame) (sr sc : Int) : List Move :=
  rayCandidates env g sr sc GOING_DOWNWARDS SAME_COL 8 (sr + GOING_DOWNWARDS) (sc + SAME_COL)
  ++ rayCandidates env g sr sc SAME_ROW GOING_LEFT 8 (sr + SAME_ROW) (sc + GOING_LEFT)
  ++ rayCandidates env g sr sc SAME_ROW GOING_RIGHT 8 (sr + SAME_ROW) (sc + GOING_RIGHT)
  ++ rayCandidates env g sr sc GOING_UPWARDS SAME_COL 8 (sr + GOING_UPWARDS) (sc + SAME_COL)

/-- The castle candidate of `getPossibleRookOrQueenMoves`, offered when the piece is a rook. -/
def rookCastleCandidates (env : Env) (g : SPChessGame) (sr sc : Int) : List Move :=
  if g.board sr sc = WHITE_ROOK ∨ g.board sr sc = BLACK_ROOK then
    candidateMoves env g sr sc DUMMY_COORDINATE DUMMY_COORDINATE true false
  else []

/-- The castle candidates of `getPossibleKingCastleMoves`, one per corner that holds a rook
of the king's colour. -/
def kingCastleCandidates (env : Env) (g : SPChessGame) (pieceType : Piece)
    (playerFirstRow : Int) : List Move :=
  (if g.board playerFirstRow LEFT_ROOK_COL = pieceType then
    candidateMoves env g playerFirstRow LEFT_ROOK_COL DUMMY_COORDINATE DUMMY_COORDINATE true false
  else [])
  ++ (if g.board playerFirstRow RIGHT_ROOK_COL = pieceType then
    candidateMoves env g playerFirstRow RIGHT_ROOK_COL DUMMY_COORDINATE DUMMY_COORDINATE true false
  else [])

/-- The sorting step of the bishop, rook and queen generators. -/
def maybeSort (sort : Bool) (moves : SPArrayList) : SPArrayList :=
  if sort then
    (if spArrayListSize moves ≥ MIN_MOVES_AMOUNT_TO_SORT then
      sortMoves moves (spArrayListSize moves)
    else moves)
  else moves

/-- The list `getPossibleBishopOrQueenMoves` leaves. -/
def bishopPart (env : Env) (g : SPChessGame) (l : SPArrayList) (sr sc : Int) (sort : Bool) :
    SPArrayList :=
  maybeSort sort (pushAll l (bishopCandidates env g sr sc))

/-- The list `getPossibleRookOrQueenMoves` leaves. -/
def rookPart (env : Env) (g : SPChessGame) (l : SPArrayList) (sr sc : Int) (sort : Bool) :
    SPArrayList :=
  pushAll (maybeSort sort (pushAll l (rookCandidates env g sr sc)))
    (rookCastleCandidates env g sr sc)

/-- The list `getPossiblePieceMoves` leaves for the piece on `(sr, sc)`, in terms of the
candidates of its calls. -/
def generatedList (env : Env) (g : SPChessGame) (l : SPArrayList) (sr sc : Int)
    (sort minimax : Bool) : SPArrayList :=
  match g.board sr sc with
  | WHITE_PAWN | BLACK_PAWN => pushAll l (pawnCandidates env g sr sc minimax)
  | WHITE_KNIGHT | BLACK_KNIGHT => pushAll l (knightCandidates env g sr sc)
  | WHITE_BISHOP | BLACK_BISHOP => bishopPart env g l sr sc sort
  | WHITE_ROOK | BLACK_ROOK => rookPart env g l sr sc sort
  | WHITE_QUEEN | BLACK_QUEEN => rookPart env g (bishopPart env g l sr sc sort) sr sc sort
  | WHITE_KING | BLACK_KING =>
    pushAll l (kingStepCandidates env g sr sc
      ++ kingCastleCandidates env g (ownRook g.currentPlayer) (ownFirstRow g.currentPlayer))
  | EMPTY_POSITION => l

/-- The pawn rule of the claim on a board, for a pawn of `currPlayer` that moves from
`(srcRow, srcCol)` to `(dstRow, dstCol)`: one row forward in the same column onto an empty
square; two rows forward in the same column from the starting rank with the intermediate
square and the destination empty; or one row forward and one column to the left or right
onto a square holding a piece of the opponent. -/
def pawnRule (board : Board) (currPlayer : Player) (srcRow srcCol dstRow dstCol : Int) : Prop :=
  let forward : Int := if currPlayer = WHITE_PLAYER then 1 else -1
  let startingRank : Int := if currPlayer = WHITE_PLAYER then 1 else 6
  (dstRow = srcRow + forward ∧ dstCol = srcCol ∧ board dstRow dstCol = EMPTY_POSITION)
  ∨ (dstRow = srcRow + 2 * forward ∧ dstCol = srcCol ∧ srcRow = startingRank
      ∧ board (srcRow + forward) srcCol = EMPTY_POSITION
      ∧ board dstRow dstCol = EMPTY_POSITION)
  ∨ (dstRow = srcRow + forward ∧ (dstCol = srcCol - 1 ∨ dstCol = srcCol + 1)
      ∧ rivalPiece currPlayer (board dstRow dstCol) = true)

instance (board : Board) (currPlayer : Player) (srcRow srcCol dstRow dstCol : Int) :
    Decidable (pawnRule board currPlayer srcRow srcCol dstRow dstCol) := by
  unfold pawnRule; infer_instance

/-! ### The attack relation of the claim on threat detection -/

/-- The square `(row, col)` is on the board and holds `piece`. -/
def holds (board : Board) (row col : Int) (piece : Piece) : Prop :=
  validPosition row col = true ∧ board row col = piece

/-- A piece `piece` stands `k` steps from `(row, col)` in the direction `(dRow, dCol)`, for
some `k > 0`, and every square in between is empty. -/
def lineAttack (board : Board) (piece : Piece) (row col dRow dCol : Int) : Prop :=
  ∃ k : Nat, 0 < k ∧ holds board (row + k * dRow) (col + k * dCol) piece
    ∧ ∀ j : Nat, 0 < j → j < k → board (row + j * dRow) (col + j * dCol) = EMPTY_POSITION

/-- The 8 L-shaped offsets of a knight. -/
def knightOffsets : List (Int × Int) :=
  [(-2, -1), (-2, 1), (-1, -2), (-1, 2), (1, -2), (1, 2), (2, -1), (2, 1)]

/-- The offsets of the 8 adjacent squares. -/
def adjacentOffsets : List (Int × Int) :=
  [(-1, -1), (-1, 0), (-1, 1), (0, -1), (0, 1), (1, -1), (1, 0), (1, 1)]

/-- The four diagonal directions. -/
def diagonalDirections : List (Int × Int) := [(-1, -1), (-1, 1), (1, -1), (1, 1)]

/-- The four directions along a row or a column. -/
def straightDirections : List (Int × Int) := [(-1, 0), (0, -1), (0, 1), (1, 0)]

/-- The attack relation of the claim: the board holds a piece of the opponent of the side to
move that attacks `(row, col)`. -/
def attacked (g : SPChessGame) (row col : Int) : Prop :=
  let white := g.currentPlayer = WHITE_PLAYER
  let pawn := if white then BLACK_PAWN else WHITE_PAWN
  let knight := if white then BLACK_KNIGHT else WHITE_KNIGHT
  let bishop := if white then BLACK_BISHOP else WHITE_BISHOP
  let rook := if white then BLACK_ROOK else WHITE_ROOK
  let queen := if white then BLACK_QUEEN else WHITE_QUEEN
  let king := if white then BLACK_KING else WHITE_KING
  let pawnRow := if white then row + 1 else row - 1
  (holds g.board pawnRow (col - 1) pawn ∨ holds g.board pawnRow (col + 1) pawn)
  ∨ (∃ o ∈ knightOffsets, holds g.board (row + o.1) (col + o.2) knight)
  ∨ (∃ o ∈ adjacentOffsets, holds g.board (row + o.1) (col + o.2) king)
  ∨ (∃ d ∈ diagonalDirections,
      lineAttack g.board bishop row col d.1 d.2 ∨ lineAttack g.board queen row col d.1 d.2)
  ∨ (∃ d ∈ straightDirections,
      lineAttack g.board rook row col d.1 d.2 ∨ lineAttack g.board queen row col d.1 d.2)

/-- A state in which a king can be captured, White to move: white king e1 and white queen
e7; black king e8 and black rook a8 on their home squares with `blackLeftCastle` true.  The
king fields agree with the board, and every true castling flag has king and rook at home. -/
def kingCaptureGame : SPChessGame :=
  { board := placePieces emptyBoard
      [(0, 4, WHITE_KING), (6, 4, WHITE_QUEEN), (7, 4, BLACK_KING), (7, 0, BLACK_ROOK)],
    currentPlayer := WHITE_PLAYER,
    whiteLeftCastle := false, whiteRightCastle := false,
    blackLeftCastle := true, blackRightCastle := false,
    whiteKingRow := 0, whiteKingCol := 4, blackKingRow := 7, blackKingCol := 4,
    whiteArmy := { numOfPawns := 0, numOfKnights := 0, numOfBishops := 0, numOfRooks := 0,
                   numOfQueens := 1 },
    blackArmy := { numOfPawns := 0, numOfKnights := 0, numOfBishops := 0, numOfRooks := 1,
                   numOfQueens := 0 },
    history := { elements := [], maxSize := 6 },
    status := GAME_NOT_FINISHED_NO_CHECK }

/-- The user's command for the capture e7 takes e8 in `kingCaptureGame`. -/
def kingCaptureMove : Move := userMove 6 4 7 4

/-! ### The castling flags a move takes away -/

/-- The four castling flags of a game. -/
def flagsOf (g : SPChessGame) : Bool × Bool × Bool × Bool :=
  (g.whiteLeftCastle, g.whiteRightCastle, g.blackLeftCastle, g.blackRightCastle)

/-- A non-castle move takes away the castling right of the side with king `king` and rook
`rook` for the corner `(row, corner)`: the moved piece is that king, or it is that rook and
leaves the corner, or that rook is captured on the corner. -/
def cleared (g : SPChessGame) (m : Move) (rook king : Piece) (row corner : Int) : Bool :=
  decide (g.board m.srcRow m.srcCol = king)
  || (decide (g.board m.srcRow m.srcCol = rook) && decide (m.srcRow = row)
      && decide (m.srcCol = corner))
  || (decide (g.board m.dstRow m.dstCol = rook) && decide (m.dstRow = row)
      && decide (m.dstCol = corner))

/-- The move is as the callers of `spChessGameSetMove` build it.  A castle has the capture
flag clear, as `spCreateMove` leaves it.  A move of the engine (one with `computerMove` or
with the promotion flag set on entry) comes from the move generator, which stores the piece
of the destination square and the capture flag, never captures a piece of the side to move
and sets the promotion flag for a pawn only. -/
def builtByCaller (g : SPChessGame) (m : Move) (computerMove : Bool) : Prop :=
  (m.castleMove = true → m.dstPieceCaptured = false)
  ∧ (m.castleMove = false → (computerMove = true ∨ m.pawnPromotion = true) →
      m.dstPiece = g.board m.dstRow m.dstCol
      ∧ m.dstPieceCaptured = decide (g.board m.dstRow m.dstCol ≠ EMPTY_POSITION)
      ∧ currentPlayerPiece g.currentPlayer (g.board m.dstRow m.dstCol) = false
      ∧ (m.pawnPromotion = true → g.board m.srcRow m.srcCol = ownPawn g.currentPlayer))

instance (g : SPChessGame) (m : Move) (computerMove : Bool) :
    Decidable (builtByCaller g m computerMove) := by
  unfold builtByCaller; infer_instance

/-- The move after `spChessGameSetMove` has read the moved piece from the board, which it
does unless the promotion flag is set on entry. -/
def entryMove (g : SPChessGame) (m : Move) : Move :=
  if !m.pawnPromotion then { m with srcPiece := g.board m.srcRow m.srcCol } else m

/-- The move with the four castling flags of the game stored in it. -/
def flagStamp (g : SPChessGame) (m : Move) : Move :=
  { m with whiteLeftCastle := g.whiteLeftCastle, whiteRightCastle := g.whiteRightCastle,
           blackLeftCastle := g.blackLeftCastle, blackRightCastle := g.blackRightCastle }

/-- The move `spChessGameSetMove` works with once the piece is read and the flags stored. -/
def enteredMove (g : SPChessGame) (m : Move) : Move := flagStamp g (entryMove g m)

/-- The game and the move when `spChessGameSetMove` turns to the board: for a user the
outcome of the legality check, for the engine the game and the move as they are. -/
def checkedRegular (g : SPChessGame) (m : Move) (computerMove : Bool) :
    Bool × SPChessGame × Move :=
  if !computerMove then legalRegularMove g (enteredMove g m) else (true, g, enteredMove g m)

/-- The game when `spChessGameSetMove` turns to the board for a castle. -/
def checkedCastle (g : SPChessGame) (m : Move) (computerMove : Bool) : Bool × SPChessGame :=
  if !computerMove then legalCastle g (enteredMove g m) else (true, g)

/-! ### The kings and their recorded squares -/

/-- The recorded king squares hold the kings. -/
def kingsOnBoard (g : SPChessGame) : Prop :=
  g.board g.whiteKingRow g.whiteKingCol = WHITE_KING
  ∧ g.board g.blackKingRow g.blackKingCol = BLACK_KING

instance (g : SPChessGame) : Decidable (kingsOnBoard g) := by
  unfold kingsOnBoard; infer_instance

/-- What `kingsOnBoard` reads: the board and the four king-position fields. -/
def kingsView (g : SPChessGame) : Board × Int × Int × Int × Int :=
  (g.board, g.whiteKingRow, g.whiteKingCol, g.blackKingRow, g.blackKingCol)

/-- The candidates of `getPossiblePieceMoves` for the piece on `(sr, sc)`, in the order in
which they are handed to the list (before any sorting). -/
def pieceCandidates (env : Env) (g : SPChessGame) (sr sc : Int) (minimax : Bool) : List Move :=
  match g.board sr sc with
  | WHITE_PAWN | BLACK_PAWN => pawnCandidates env g sr sc minimax
  | WHITE_KNIGHT | BLACK_KNIGHT => knightCandidates env g sr sc
  | WHITE_BISHOP | BLACK_BISHOP => bishopCandidates env g sr sc
  | WHITE_ROOK | BLACK_ROOK => rookCandidates env g sr sc ++ rookCastleCandidates env g sr sc
  | WHITE_QUEEN | BLACK_QUEEN =>
    bishopCandidates env g sr sc ++ (rookCandidates env g sr sc
      ++ rookCastleCandidates env g sr sc)
  | WHITE_KING | BLACK_KING =>
    kingStepCandidates env g sr sc
      ++ kingCastleCandidates env g (ownRook g.currentPlayer) (ownFirstRow g.currentPlayer)
  | EMPTY_POSITION => []

/-- The game with its history replaced by an empty list of capacity 0: what the legality
checks and the move generator read of a game. -/
def dropHistory (g : SPChessGame) : SPChessGame :=
  { g with history := { elements := [], maxSize := 0 } }

/-- Two games that agree up to their histories agree on every other field. -/
structure SameFields (g g0 : SPChessGame) : Prop where
  board : g.board = g0.board
  currentPlayer : g.currentPlayer = g0.currentPlayer
  whiteLeftCastle : g.whiteLeftCastle = g0.whiteLeftCastle
  whiteRightCastle : g.whiteRightCastle = g0.whiteRightCastle
  blackLeftCastle : g.blackLeftCastle = g0.blackLeftCastle
  blackRightCastle : g.blackRightCastle = g0.blackRightCastle
  whiteKingRow : g.whiteKingRow = g0.whiteKingRow
  whiteKingCol : g.whiteKingCol = g0.whiteKingCol
  blackKingRow : g.blackKingRow = g0.blackKingRow
  blackKingCol : g.blackKingCol = g0.blackKingCol
  whiteArmy : g.whiteArmy = g0.whiteArmy
  blackArmy : g.blackArmy = g0.blackArmy
  status : g.status = g0.status


/-- Two games agree on what the legality check of a regular move reads: the board, the side
to move and the king fields. -/
structure SamePosition (g g0 : SPChessGame) : Prop where
  board : g.board = g0.board
  currentPlayer : g.currentPlayer = g0.currentPlayer
  whiteKingRow : g.whiteKingRow = g0.whiteKingRow
  whiteKingCol : g.whiteKingCol = g0.whiteKingCol
  blackKingRow : g.blackKingRow = g0.blackKingRow
  blackKingCol : g.blackKingCol = g0.blackKingCol

/-- The list `spChessGetPossibleMoves` fills for the piece on `(row, col)`, starting from the
empty list `spArrayListCreate(MAX_MOVES_FOR_PIECE)` its callers pass. -/
def movesOf (env : Env) (g : SPChessGame) (row col : Int) : SPArrayList :=
  (spChessGetPossibleMoves env g (emptyMoveList env) row col).2.2

/-- The squares of the board that hold a piece of the side to move. -/
def ownSquares (g : SPChessGame) : List (Int × Int) :=
  boardSquares.filter fun p => currentPlayerPiece g.currentPlayer (g.board p.1 p.2)

/-- The piece is one whose generator sorts its moves: a bishop, a rook or a queen. -/
def sortedKind : Piece → Bool
  | WHITE_BISHOP | BLACK_BISHOP | WHITE_ROOK | BLACK_ROOK | WHITE_QUEEN | BLACK_QUEEN => true
  | _ => false

/-- The number of candidates of the piece on `(row, col)` in the starting position. -/
def initialCount (row col : Int) : Nat :=
  (pieceCandidates sampleEnv (initialGame 6) row col false).length

/-! ### Playing a sequence of moves -/

/-- The four moves of Fool's mate as the command handler builds them: f2-f3, e7-e5, g2-g4
and Qd8-h4. -/
def foolsMate : List Move :=
  [userMove 1 5 2 5, userMove 6 4 4 4, userMove 1 6 3 6, userMove 7 3 3 7]

/-- The moves applied one after the other with `spChessGameSetMove(game, move, false,
false)`: the messages of the calls and the game after the last one. -/
def playMoves (env : Env) (g : SPChessGame) :
    List Move → List SP_CHESS_GAME_MESSAGE × SPChessGame
  | [] => ([], g)
  | m :: ms =>
    ((spChessGameSetMove env g m false false).1
        :: (playMoves env (spChessGameSetMove env g m false false).2.1 ms).1,
      (playMoves env (spChessGameSetMove env g m false false).2.1 ms).2)

/-- The game after a sequence of accepted regular moves, in closed form: after each move the
player is changed and the status recomputed. -/
def regularMoves (env : Env) (g : SPChessGame) : List Move → SPChessGame
  | [] => g
  | m :: ms => regularMoves env (flipAndStatus env (regularPrefix g m false)) ms

/-- The move is a regular move between two squares of the board, of a piece of the side to
move, that `legalRegularMove` accepts, that captures no king and is no promotion, on a game
on which the castle simulation restores the board. -/
def acceptedRegular (g : SPChessGame) (m : Move) : Prop :=
  m.pawnPromotion = false ∧ m.castleMove = false
  ∧ validPosition m.srcRow m.srcCol = true ∧ validPosition m.dstRow m.dstCol = true
  ∧ currentPlayerPiece g.currentPlayer (g.board m.srcRow m.srcCol) = true
  ∧ (legalRegularMove g (stampMove g m)).1 = true
  ∧ g.board m.dstRow m.dstCol ≠ WHITE_KING ∧ g.board m.dstRow m.dstCol ≠ BLACK_KING
  ∧ ¬ reachesLastRow g (stampMove g m)
  ∧ castleConsistent g

instance (g : SPChessGame) (m : Move) : Decidable (acceptedRegular g m) := by
  unfold acceptedRegular; infer_instance

/-- Every move of the sequence is an accepted regular move in the game it is applied to. -/
def allAccepted (env : Env) (g : SPChessGame) : List Move → Bool
  | [] => true
  | m :: ms =>
    decide (acceptedRegular g m) && allAccepted env (flipAndStatus env (regularPrefix g m false)) ms

/-- No piece of the side to move has a candidate move. -/
def noCandidates (env : Env) (g : SPChessGame) : Prop :=
  ∀ p ∈ ownSquares g, (pieceCandidates env g p.1 p.2 false).length = 0

instance (env : Env) (g : SPChessGame) : Decidable (noCandidates env g) := by
  unfold noCandidates; infer_instance

/-- The candidates of the piece on `(sr, sc)` that are regular moves. -/
def regularCandidates (env : Env) (g : SPChessGame) (sr sc : Int) (minimax : Bool) :
    List Move :=
  match g.board sr sc with
  | WHITE_PAWN | BLACK_PAWN => pawnCandidates env g sr sc minimax
  | WHITE_KNIGHT | BLACK_KNIGHT => knightCandidates env g sr sc
  | WHITE_BISHOP | BLACK_BISHOP => bishopCandidates env g sr sc
  | WHITE_ROOK | BLACK_ROOK => rookCandidates env g sr sc
  | WHITE_QUEEN | BLACK_QUEEN => bishopCandidates env g sr sc ++ rookCandidates env g sr sc
  | WHITE_KING | BLACK_KING => kingStepCandidates env g sr sc
  | EMPTY_POSITION => []

/-- The candidates of the piece on `(sr, sc)` that are castles. -/
def castleCandidates (env : Env) (g : SPChessGame) (sr sc : Int) : List Move :=
  match g.board sr sc with
  | WHITE_ROOK | BLACK_ROOK | WHITE_QUEEN | BLACK_QUEEN => rookCastleCandidates env g sr sc
  | WHITE_KING | BLACK_KING =>
    kingCastleCandidates env g (ownRook g.currentPlayer) (ownFirstRow g.currentPlayer)
  | _ => []

/-- For every square that holds a piece of the side to move `spChessGetPossibleMoves`
succeeds and leaves a fresh list empty. -/
def noMovesLeft (env : Env) (g : SPChessGame) : Prop :=
  ∀ p ∈ ownSquares g,
    (spChessGetPossibleMoves env g (emptyMoveList env) p.1 p.2).1 = SP_CHESS_GAME_SUCCESS
    ∧ spArrayListSize (movesOf env g p.1 p.2) = 0

instance (env : Env) (g : SPChessGame) : Decidable (noMovesLeft env g) := by
  unfold noMovesLeft; infer_instance

/-- The status is a win of one of the players. -/
def wonGame (g : SPChessGame) : Prop :=
  g.status = WHITE_PLAYER_WINS ∨ g.status = BLACK_PLAYER_WINS

instance (g : SPChessGame) : Decidable (wonGame g) := by
  unfold wonGame; infer_instance

/-- The recorded king columns are columns of the board. -/
def kingColsValid (g : SPChessGame) : Prop :=
  (0 ≤ g.whiteKingCol ∧ g.whiteKingCol < 8) ∧ (0 ≤ g.blackKingCol ∧ g.blackKingCol < 8)

instance (g : SPChessGame) : Decidable (kingColsValid g) := by
  unfold kingColsValid; infer_instance

/-- The game before the last move of Fool's mate: after f2-f3, e7-e5 and g2-g4, Black to
move. -/
def beforeMate : SPChessGame :=
  regularMoves sampleEnv (initialGame 6)
    [userMove 1 5 2 5, userMove 6 4 4 4, userMove 1 6 3 6]

/-- The move is one the engine's `spChessGameSetMove` accepts: the source is on the board,
the destination is on the board unless the move is a castle, the piece the call works with
belongs to the side to move, and for a castle it is a rook. -/
def playable (g : SPChessGame) (x : Move) : Prop :=
  validPosition x.srcRow x.srcCol = true
  ∧ (x.castleMove = true ∨ validPosition x.dstRow x.dstCol = true)
  ∧ currentPlayerPiece g.currentPlayer (entryMove g x).srcPiece = true
  ∧ (x.castleMove = true →
      (entryMove g x).srcPiece = WHITE_ROOK ∨ (entryMove g x).srcPiece = BLACK_ROOK)

instance (g : SPChessGame) (x : Move) : Decidable (playable g x) := by
  unfold playable; infer_instance

/-- The move is one the root of the search stores: for a square `p` that holds a piece of the
side to move, a move `cand` of the list `getPossiblePieceMoves` fills for it (sorted, with
promotions expanded), as `spChessGameSetMove(copy, cand, true, true)` leaves it on a copy of
the game. -/
def engineChoice (env : Env) (g : SPChessGame) (mv : Move) : Prop :=
  ∃ p ∈ ownSquares g,
    ∃ cand ∈ (getPossiblePieceMoves env g (emptyMoveList env) p.1 p.2 (g.board p.1 p.2)
        true true).2.2.elements,
      ∃ copy, spChessGameCopy g = some copy
        ∧ (spChessGameSetMove env copy cand true true).1 = SP_CHESS_GAME_SUCCESS
        ∧ mv = (spChessGameSetMove env copy cand true true).2.2

/-- The invariant of the loops of `alphaBetaPruning` at the root of the search of game `g`:
the search has not given up, the game is `g`, `beta` is untouched, `alpha` is untouched as
long as no move is stored, and a stored move is a move of the generator. -/
structure RootInv (env : Env) (g : SPChessGame) (st : SearchState) : Prop where
  gaveUp : st.gaveUp = false
  game : st.currentGame = g
  beta : st.beta = INT_MAX
  alpha : st.choseMove = false → st.alpha = INT_MIN
  chosen : st.choseMove = true → engineChoice env g st.minimaxMove

/-- The move `mv` is the move `cand` of the generator as `spChessGameSetMove` hands it back:
the same squares (for a castle the call writes the rook's destination column), the same
kind, the same captured piece, and the piece the call works with, which is the promoted
piece for a promotion and the piece on the source square otherwise. -/
def sameChessMove (g : SPChessGame) (mv cand : Move) : Prop :=
  mv.srcRow = cand.srcRow ∧ mv.srcCol = cand.srcCol ∧ mv.dstRow = cand.dstRow
  ∧ (cand.castleMove = false → mv.dstCol = cand.dstCol)
  ∧ mv.castleMove = cand.castleMove ∧ mv.pawnPromotion = cand.pawnPromotion
  ∧ mv.dstPiece = cand.dstPiece ∧ mv.dstPieceCaptured = cand.dstPieceCaptured
  ∧ mv.srcPiece = (if cand.pawnPromotion = true then cand.srcPiece
      else g.board cand.srcRow cand.srcCol)

instance (g : SPChessGame) (mv cand : Move) : Decidable (sameChessMove g mv cand) := by
  unfold sameChessMove; infer_instance

/-! ### The squares the generator proposes -/

/-- The squares one walk of `getDirectionalMoves` hands to `addPieceMove`: from `(r, c)` in
steps of `(dr, dc)`, every empty square it passes and, when it stops on a piece of the
opponent, that square. -/
def raySquares (g : SPChessGame) (dr dc : Int) : Nat → Int → Int → List (Int × Int)
  | 0, _, _ => []
  | fuel + 1, r, c =>
    if !validPosition r c then []
    else if g.board r c ≠ EMPTY_POSITION then
      (if rivalPiece g.currentPlayer (g.board r c) = true then [(r, c)] else [])
    else (r, c) :: raySquares g dr dc fuel (r + dr) (c + dc)

/-- The squares the four diagonal walks of `getPossibleBishopOrQueenMoves` propose. -/
def diagonalSquares (g : SPChessGame) (sr sc : Int) : List (Int × Int) :=
  raySquares g GOING_DOWNWARDS GOING_LEFT 8 (sr + GOING_DOWNWARDS) (sc + GOING_LEFT)
  ++ raySquares g GOING_DOWNWARDS GOING_RIGHT 8 (sr + GOING_DOWNWARDS) (sc + GOING_RIGHT)
  ++ raySquares g GOING_UPWARDS GOING_LEFT 8 (sr + GOING_UPWARDS) (sc + GOING_LEFT)
  ++ raySquares g GOING_UPWARDS GOING_RIGHT 8 (sr + GOING_UPWARDS) (sc + GOING_RIGHT)

/-- The squares the four straight walks of `getPossibleRookOrQueenMoves` propose. -/
def straightSquares (g : SPChessGame) (sr sc : Int) : List (Int × Int) :=
  raySquares g GOING_DOWNWARDS SAME_COL 8 (sr + GOING_DOWNWARDS) (sc + SAME_COL)
  ++ raySquares g SAME_ROW GOING_LEFT 8 (sr + SAME_ROW) (sc + GOING_LEFT)
  ++ raySquares g SAME_ROW GOING_RIGHT 8 (sr + SAME_ROW) (sc + GOING_RIGHT)
  ++ raySquares g GOING_UPWARDS SAME_COL 8 (sr + GOING_UPWARDS) (sc + SAME_COL)

/-- The squares `getPossiblePawnMoves` proposes, in the order of its calls. -/
def pawnSquares (g : SPChessGame) (sr sc : Int) : List (Int × Int) :=
  (if g.currentPlayer = BLACK_PLAYER then [(sr - 2, sc)] else [])
  ++ [((if g.currentPlayer = WHITE_PLAYER then sr + 1 else sr - 1), sc - 1),
      ((if g.currentPlayer = WHITE_PLAYER then sr + 1 else sr - 1), sc),
      ((if g.currentPlayer = WHITE_PLAYER then sr + 1 else sr - 1), sc + 1)]
  ++ (if g.currentPlayer = WHITE_PLAYER then [(sr + 2, sc)] else [])

/-- The squares `getPossibleKnightMoves` proposes, in the order of its calls. -/
def knightSquares (sr sc : Int) : List (Int × Int) :=
  [(sr - 2, sc - 1), (sr - 2, sc + 1), (sr - 1, sc - 2), (sr - 1, sc + 2),
   (sr + 1, sc - 2), (sr + 1, sc + 2), (sr + 2, sc - 1), (sr + 2, sc + 1)]

/-- The squares the king steps of `getPossibleKingMoves` propose, in the order of its calls. -/
def kingSquares (sr sc : Int) : List (Int × Int) :=
  [(sr - 1, sc - 1), (sr - 1, sc), (sr - 1, sc + 1), (sr, sc - 1),
   (sr, sc + 1), (sr + 1, sc - 1), (sr + 1, sc), (sr + 1, sc + 1)]

/-- The destinations `getPossiblePieceMoves` proposes for the piece on `(sr, sc)`. -/
def proposedSquares (g : SPChessGame) (sr sc : Int) : List (Int × Int) :=
  match g.board sr sc with
  | WHITE_PAWN | BLACK_PAWN => pawnSquares g sr sc
  | WHITE_KNIGHT | BLACK_KNIGHT => knightSquares sr sc
  | WHITE_BISHOP | BLACK_BISHOP => diagonalSquares g sr sc
  | WHITE_ROOK | BLACK_ROOK => straightSquares g sr sc
  | WHITE_QUEEN | BLACK_QUEEN => diagonalSquares g sr sc ++ straightSquares g sr sc
  | WHITE_KING | BLACK_KING => kingSquares sr sc
  | EMPTY_POSITION => []

/-- The moves `addPieceMove` hands to the list for the proposed squares, one call each. -/
def squareMoves (env : Env) (g : SPChessGame) (sr sc : Int) : List (Int × Int) → List Move
  | [] => []
  | d :: ds => candidateMoves env g sr sc d.1 d.2 false false ++ squareMoves env g sr sc ds

/-- Whether an entry of a move list is a regular move to `(dr, dc)`. -/
def regularTo (dr dc : Int) (x : Move) : Bool :=
  !x.castleMove && decide (x.dstRow = dr) && decide (x.dstCol = dc)

/-- Whether an entry of a move list is the castle of the rook on `(sr, sc)`. -/
def castleFrom (sr sc : Int) (x : Move) : Bool :=
  x.castleMove && decide (x.srcRow = sr) && decide (x.srcCol = sc)

/-- The castles the generator looks at for the piece on `(r, c)`: for a rook the castle of
its own square, for a king the castles of the two corners of its side's first row. -/
def castleOffered (g : SPChessGame) (r c sr sc : Int) : Prop :=
  ((g.board r c = WHITE_ROOK ∨ g.board r c = BLACK_ROOK) ∧ sr = r ∧ sc = c)
  ∨ ((g.board r c = WHITE_KING ∨ g.board r c = BLACK_KING)
      ∧ sr = ownFirstRow g.currentPlayer ∧ (sc = LEFT_ROOK_COL ∨ sc = RIGHT_ROOK_COL))

instance (g : SPChessGame) (r c sr sc : Int) : Decidable (castleOffered g r c sr sc) := by
  unfold castleOffered; infer_instance

/-- The number of squares of the board on the walk from `(r, c)` in steps of `(dr, dc)`. -/
def rayRoom (dr dc : Int) : Nat → Int → Int → Nat
  | 0, _, _ => 0
  | fuel + 1, r, c =>
    if !validPosition r c then 0 else 1 + rayRoom dr dc fuel (r + dr) (c + dc)

/-- The squares the walks of `getDirectionalMoves` from `(sr, sc)` propose, one walk for each
listed direction. -/
def raysOf (g : SPChessGame) (sr sc : Int) : List (Int × Int) → List (Int × Int)
  | [] => []
  | d :: ds => raySquares g d.1 d.2 8 (sr + d.1) (sc + d.2) ++ raysOf g sr sc ds

/-- A direction of a walk of `getDirectionalMoves`. -/
def unitStep (d : Int × Int) : Prop :=
  (d.1 = -1 ∨ d.1 = 0 ∨ d.1 = 1) ∧ (d.2 = -1 ∨ d.2 = 0 ∨ d.2 = 1) ∧ (d.1 ≠ 0 ∨ d.2 ≠ 0)

instance (d : Int × Int) : Decidable (unitStep d) := by
  unfold unitStep; infer_instance

/-- The number of squares of the board on the walks from `(sr, sc)` in the listed
directions. -/
def roomOf (sr sc : Int) : List (Int × Int) → Nat
  | [] => 0
  | d :: ds => rayRoom d.1 d.2 8 (sr + d.1) (sc + d.2) + roomOf sr sc ds

/-- The history after `updatesAfterSettingMove` has stored a move of a user: when the list is
full `spArrayListRemoveFirst` is called first, then `spArrayListAddLast`. -/
def storeInHistory (history : SPArrayList) (move : Move) : SPArrayList :=
  (spArrayListAddLast
    (if spArrayListIsFull history then (spArrayListRemoveFirst history).1 else history) move).1

/-- The position `sampleGame` with a history of capacity 1 that holds one move. -/
def fullHistoryGame : SPChessGame :=
  { sampleGame with history := { elements := [sampleKnightMove], maxSize := 1 } }

/-- The farthest rank of a pawn of `p`: row 7 for White, row 0 for Black. -/
def promotionRow (p : Player) : Int :=
  if p = WHITE_PLAYER then BLACK_FIRST_ROW else WHITE_FIRST_ROW

/-- The row one step ahead of a pawn of `p` on row `sr`. -/
def pawnStep (p : Player) (sr : Int) : Int := if p = WHITE_PLAYER then sr + 1 else sr - 1

/-- A position with a white pawn on b7 that may step to b8 or capture the black rook on a8:
white king e1, black king h5, White to move. -/
def promotionGame : SPChessGame :=
  { board := placePieces emptyBoard
      [(0, 4, WHITE_KING), (6, 1, WHITE_PAWN), (7, 0, BLACK_ROOK), (4, 7, BLACK_KING)],
    currentPlayer := WHITE_PLAYER,
    whiteLeftCastle := false, whiteRightCastle := false,
    blackLeftCastle := false, blackRightCastle := false,
    whiteKingRow := 0, whiteKingCol := 4, blackKingRow := 4, blackKingCol := 7,
    whiteArmy := { numOfPawns := 1, numOfKnights := 0, numOfBishops := 0, numOfRooks := 0,
                   numOfQueens := 0 },
    blackArmy := { numOfPawns := 0, numOfKnights := 0, numOfBishops := 0, numOfRooks := 1,
                   numOfQueens := 0 },
    history := { elements := [], maxSize := 6 },
    status := GAME_NOT_FINISHED_NO_CHECK }

/-- A castling position in which Black holds a stale castling flag, White to move: white king
e1 and white rook a1 with `whiteLeftCastle` true; the black king stands on e7 (and is
recorded there) although `blackLeftCastle` is still true, with a black rook on a8. -/
def staleCastleGame : SPChessGame :=
  { board := placePieces emptyBoard
      [(0, 4, WHITE_KING), (0, 0, WHITE_ROOK), (6, 4, BLACK_KING), (7, 0, BLACK_ROOK)],
    currentPlayer := WHITE_PLAYER,
    whiteLeftCastle := true, whiteRightCastle := false,
    blackLeftCastle := true, blackRightCastle := false,
    whiteKingRow := 0, whiteKingCol := 4, blackKingRow := 6, blackKingCol := 4,
    whiteArmy := { numOfPawns := 0, numOfKnights := 0, numOfBishops := 0, numOfRooks := 1,
                   numOfQueens := 0 },
    blackArmy := { numOfPawns := 0, numOfKnights := 0, numOfBishops := 0, numOfRooks := 1,
                   numOfQueens := 0 },
    history := { elements := [], maxSize := 6 },
    status := GAME_NOT_FINISHED_NO_CHECK }

/-- The king-column field of the side `p`. -/
def kingColOf (p : Player) (g : SPChessGame) : Int :=
  if p = WHITE_PLAYER then g.whiteKingCol else g.blackKingCol

/-- The two castling flags of the side `p`, left and right. -/
def castleFlagsOf (p : Player) (g : SPChessGame) : Bool × Bool :=
  if p = WHITE_PLAYER then (g.whiteLeftCastle, g.whiteRightCastle)
  else (g.blackLeftCastle, g.blackRightCastle)

/-- A state with a stale castling flag, White to move: the white king stands on e2 (and is
recorded there) although `whiteLeftCastle` is still true; white rook a1, black king h8. -/
def staleSearchGame : SPChessGame :=
  { board := placePieces emptyBoard
      [(1, 4, WHITE_KING), (0, 0, WHITE_ROOK), (7, 7, BLACK_KING)],
    currentPlayer := WHITE_PLAYER,
    whiteLeftCastle := true, whiteRightCastle := false,
    blackLeftCastle := false, blackRightCastle := false,
    whiteKingRow := 1, whiteKingCol := 4, blackKingRow := 7, blackKingCol := 7,
    whiteArmy := { numOfPawns := 0, numOfKnights := 0, numOfBishops := 0, numOfRooks := 1,
                   numOfQueens := 0 },
    blackArmy := { numOfPawns := 0, numOfKnights := 0, numOfBishops := 0, numOfRooks := 0,
                   numOfQueens := 0 },
    history := { elements := [], maxSize := 6 },
    status := GAME_NOT_FINISHED_NO_CHECK }

/-- The white king is written on e1 in a game with White to move and the white king's column
recorded as the e-file. -/
def whiteKingOnE1 (g : SPChessGame) : Prop :=
  g.board 0 4 = WHITE_KING ∧ g.currentPlayer = WHITE_PLAYER ∧ g.whiteKingCol = 4

instance (g : SPChessGame) : Decidable (whiteKingOnE1 g) := by
  unfold whiteKingOnE1; infer_instance

/-- A state in which the recorded column of the white king is wrong, Black to move: white
king e1, white rooks a1 and h1, both white castling flags true, black king e8; the white
king is recorded on h1. -/
def misrecordedKingGame : SPChessGame :=
  { board := placePieces emptyBoard
      [(0, 4, WHITE_KING), (0, 0, WHITE_ROOK), (0, 7, WHITE_ROOK), (7, 4, BLACK_KING)],
    currentPlayer := BLACK_PLAYER,
    whiteLeftCastle := true, whiteRightCastle := true,
    blackLeftCastle := false, blackRightCastle := false,
    whiteKingRow := 0, whiteKingCol := 7, blackKingRow := 7, blackKingCol := 4,
    whiteArmy := { numOfPawns := 0, numOfKnights := 0, numOfBishops := 0, numOfRooks := 2,
                   numOfQueens := 0 },
    blackArmy := { numOfPawns := 0, numOfKnights := 0, numOfBishops := 0, numOfRooks := 0,
                   numOfQueens := 0 },
    history := { elements := [], maxSize := 6 },
    status := GAME_NOT_FINISHED_NO_CHECK }

/-- No castling flag that is false in `g` is true in `g2`. -/
def flagsNotRaised (g g2 : SPChessGame) : Prop :=
  (g2.whiteLeftCastle = true → g.whiteLeftCastle = true)
  ∧ (g2.whiteRightCastle = true → g.whiteRightCastle = true)
  ∧ (g2.blackLeftCastle = true → g.blackLeftCastle = true)
  ∧ (g2.blackRightCastle = true → g.blackRightCastle = true)

instance (g g2 : SPChessGame) : Decidable (flagsNotRaised g g2) := by
  unfold flagsNotRaised; infer_instance

/-! ### The order of the generated moves -/

/-- The destination of `a` does not come after the destination of `b`: the order of
`sortMoves`, rows from low to high and, for equal rows, columns from low to high. -/
def destBefore (a b : Move) : Prop :=
  a.dstRow < b.dstRow ∨ (a.dstRow = b.dstRow ∧ a.dstCol ≤ b.dstCol)

instance (a b : Move) : Decidable (destBefore a b) := by
  unfold destBefore; infer_instance

instance : IsTrans Move destBefore :=
  ⟨fun a b c h1 h2 => by unfold destBefore at *; omega⟩

/-- The entry `a` of a move list may stand before the entry `b`: two non-castle moves are in
the order of their destinations, and a castle is followed by castles only. -/
def castlesLast (a b : Move) : Prop :=
  (a.castleMove = false → b.castleMove = false → destBefore a b)
  ∧ (a.castleMove = true → b.castleMove = true)

instance (a b : Move) : Decidable (castlesLast a b) := by
  unfold castlesLast; infer_instance

/-- One pass of the inner loop of `sortMoves` on the elements from the one at hand on: the
element at hand is exchanged with its right neighbour while its destination comes after the
neighbour's, otherwise the neighbour becomes the element at hand. -/
def bubbleCarry : Move → List Move → List Move
  | a, [] => [a]
  | a, b :: t =>
    if a.dstRow > b.dstRow ∨ (a.dstRow = b.dstRow ∧ a.dstCol > b.dstCol) then
      b :: bubbleCarry a t
    else a :: bubbleCarry b t

/-- The squares `p` and `q` in the order of `sortMoves`. -/
def squareBefore (p q : Int × Int) : Prop := p.1 < q.1 ∨ (p.1 = q.1 ∧ p.2 ≤ q.2)

instance (p q : Int × Int) : Decidable (squareBefore p q) := by
  unfold squareBefore; infer_instance

/-! ### The unpruned minimax -/

/-- The status ends the game: a win of one of the players or a tie. -/
def terminalStatus (s : GAME_STATUS) : Prop :=
  s = WHITE_PLAYER_WINS ∨ s = BLACK_PLAYER_WINS ∨ s = TIED_GAME

instance (s : GAME_STATUS) : Decidable (terminalStatus s) := by
  unfold terminalStatus; infer_instance

/-- The children of a node that come from the moves of one piece, in the order of the list:
each move is applied with `spChessGameSetMove(copy, move, true, true)` to a copy of the
node's game; a child is the move as the call leaves it and the game it leaves. `none` when
a copy or a call fails. -/
def childrenOfMoves (env : Env) (game : SPChessGame) :
    List Move → Option (List (Move × SPChessGame))
  | [] => some []
  | m :: ms =>
    match spChessGameCopy game with
    | none => none
    | some descendantGame =>
      let set := spChessGameSetMove env descendantGame m true true
      if set.1 ≠ SP_CHESS_GAME_SUCCESS then none
      else
        match childrenOfMoves env game ms with
        | none => none
        | some rest => some ((set.2.2, set.2.1) :: rest)

/-- The children of a node from the pieces on the columns `cols` of `row`, and the node's
game after the move generation has run for them. -/
def childrenOfCols (env : Env) (pieceMoves : SPArrayList) (row : Int) :
    List Int → SPChessGame → SPChessGame × Option (List (Move × SPChessGame))
  | [], game => (game, some [])
  | col :: cols, game =>
    if !currentPlayerPiece game.currentPlayer (game.board row col) then
      childrenOfCols env pieceMoves row cols game
    else
      let gen := getPossiblePieceMoves env game pieceMoves row col (game.board row col) true true
      if gen.1 ≠ SP_CHESS_GAME_SUCCESS then (gen.2.1, none)
      else
        match childrenOfMoves env gen.2.1 gen.2.2.elements with
        | none => (gen.2.1, none)
        | some first =>
          let rest := childrenOfCols env pieceMoves row cols gen.2.1
          (rest.1, rest.2.map fun others => first ++ others)

/-- The children of a node from the pieces on the rows `rows`, scanned row by row. -/
def childrenOfRows (env : Env) (pieceMoves : SPArrayList) :
    List Int → SPChessGame → SPChessGame × Option (List (Move × SPChessGame))
  | [], game => (game, some [])
  | row :: rows, game =>
    let first := childrenOfCols env pieceMoves row [0, 1, 2, 3, 4, 5, 6, 7] game
    match first.2 with
    | none => (first.1, none)
    | some cs =>
      let rest := childrenOfRows env pieceMoves rows first.1
      (rest.1, rest.2.map fun others => cs ++ others)

/-- The children of a node of the search tree in the order in which `alphaBetaPruning`
meets them: the board is scanned row by row and column by column, and the moves of a piece
of the side to move come in the order of its list (sorted, promotions expanded). -/
def nodeChildren (env : Env) (game : SPChessGame) : Option (List (Move × SPChessGame)) :=
  match spArrayListCreate env.MAX_MOVES_FOR_PIECE with
  | none => none
  | some pieceMoves => (childrenOfRows env pieceMoves [0, 1, 2, 3, 4, 5, 6, 7] game).2

/-- The value is a C `int`. -/
def intRange (v : Int) : Prop := INT_MIN ≤ v ∧ v ≤ INT_MAX

instance (v : Int) : Decidable (intRange v) := by
  unfold intRange; infer_instance

/-- The value of a leaf of the search tree, when it is a C `int`. -/
def leafValue (env : Env) (game : SPChessGame) (maximizingPlayer : Player) : Option Int :=
  if intRange (leafNodeResult env game maximizingPlayer) then
    some (leafNodeResult env game maximizingPlayer)
  else none

/-- The values `value` gives for the children `cs`, in order; `none` when one of them has
none. -/
def childValues (value : Move × SPChessGame → Option Int) :
    List (Move × SPChessGame) → Option (List Int)
  | [] => some []
  | c :: cs =>
    match value c with
    | none => none
    | some v =>
      match childValues value cs with
      | none => none
      | some vs => some (v :: vs)

/-- The unpruned minimax value of a node with `levels` levels below it: the value of
`leafNodeResult` at depth `maxDepth` and at a node whose game is over, otherwise the maximum
(at the levels of the maximizing player) or the minimum of the values of the children.
`none` when something fails in the tree: a list, a copy or a move is not obtained, or a leaf
value is not a C `int`. -/
def plainMinimax (env : Env) (maximizingPlayer : Player) : Nat → Bool → SPChessGame → Option Int
  | 0, _, game => leafValue env game maximizingPlayer
  | levels + 1, maximize, game =>
    if terminalStatus game.status then leafValue env game maximizingPlayer
    else
      match nodeChildren env game with
      | none => none
      | some children =>
        match childValues (fun c => plainMinimax env maximizingPlayer levels (!maximize) c.2)
            children with
        | none => none
        | some values =>
          if maximize then some (values.foldl max INT_MIN) else some (values.foldl min INT_MAX)

/-- The tie-break of the root: a later move replaces the one kept only when its value is
higher. -/
def keepFirstBest (best : Option (Move × Int)) (c : Move × Int) : Option (Move × Int) :=
  match best with
  | none => some c
  | some b => if c.2 > b.2 then some c else some b

/-- The choice of the unpruned minimax at the root of a search of depth `maxDepth`: the
first move whose subtree reaches the maximum of the values of the root's children, and that
value. `none` when something fails in the tree or the root has no child. -/
def plainRoot (env : Env) (game : SPChessGame) (maxDepth : Int) : Option (Move × Int) :=
  match nodeChildren env game with
  | none => none
  | some children =>
    match childValues
        (fun c => plainMinimax env game.currentPlayer (maxDepth.toNat - 1) false c.2)
        children with
    | none => none
    | some values => ((children.map Prod.fst).zip values).foldl keepFirstBest none

/-- What `alphaBetaPruning` does for one child of a node: nothing once `alpha < beta` fails,
otherwise the recursive call and `updateBoundsAndMove`. -/
def searchChild (recurse : SPChessGame → Move → Int → Int → Int × Move) (maximize : Bool)
    (currDepth : Int) (st : SearchState) (c : Move × SPChessGame) : SearchState :=
  if ¬ (st.alpha < st.beta) then st
  else
    updateBoundsAndMove c.1
      { st with minimaxMove := (recurse c.2 st.minimaxMove st.alpha st.beta).2 } maximize
      (recurse c.2 st.minimaxMove st.alpha st.beta).1 currDepth

/-- The loops of `alphaBetaPruning` over the children of a node. -/
def searchChildren (recurse : SPChessGame → Move → Int → Int → Int × Move) (maximize : Bool)
    (currDepth : Int) (cs : List (Move × SPChessGame)) (st : SearchState) : SearchState :=
  cs.foldl (searchChild recurse maximize currDepth) st

/-- Two states of the loops of `alphaBetaPruning` that agree on everything but the node's
game. -/
def sameBounds (a b : SearchState) : Prop :=
  a.alpha = b.alpha ∧ a.beta = b.beta ∧ a.minimaxMove = b.minimaxMove
  ∧ a.choseMove = b.choseMove ∧ a.gaveUp = b.gaveUp

/-- The recursive call of `alphaBetaPruning` at a node of depth `currDepth`, with `fuel`
levels of recursion left for the descendants. -/
def recurseAt (env : Env) (maxDepth : Int) (maximizingPlayer : Player) (fuel : Nat)
    (currDepth : Int) : SPChessGame → Move → Int → Int → Int × Move :=
  fun descendantGame mv a b =>
    ((alphaBetaPruning env maxDepth maximizingPlayer fuel descendantGame mv
        (currDepth + 1) a b).1,
     (alphaBetaPruning env maxDepth maximizingPlayer fuel descendantGame mv
        (currDepth + 1) a b).2.1)

/-- The local variables of `alphaBetaPruning` at the root of the search that
`spChessMinimaxMove` starts, when the loops are left: `alpha` is the value of the root. -/
def rootSearch (env : Env) (game : SPChessGame) (maxDepth : Int) : SearchState :=
  match spArrayListCreate env.MAX_MOVES_FOR_PIECE with
  | none =>
    { currentGame := game, alpha := INT_MIN, beta := INT_MAX,
      minimaxMove := spCreateMove env.junk, choseMove := false, gaveUp := true }
  | some pieceMoves =>
    searchRowsLoop env (recurseAt env maxDepth game.currentPlayer maxDepth.toNat ROOT_DEPTH)
      pieceMoves true ROOT_DEPTH [0, 1, 2, 3, 4, 5, 6, 7]
      { currentGame := game, alpha := INT_MIN, beta := INT_MAX,
        minimaxMove := spCreateMove env.junk, choseMove := false, gaveUp := false }

/-- How the value `r` that the pruned search returns for the window `(a, b)` relates to the
unpruned value `v`: at or below `a` when `v` is, equal to `v` when `v` lies inside the
window, at or above `b` when `v` is. -/
def windowValue (r v a b : Int) : Prop :=
  (v ≤ a → r ≤ a) ∧ (a < v → v < b → r = v) ∧ (b ≤ v → b ≤ r)

/-- The recursive call `recurse` is right about the child `c`, whose unpruned value is
`v`: for every window of C `int`s it leaves the stored move alone and returns a C `int`
that relates to `v` as `windowValue` says. -/
def rightAbout (recurse : SPChessGame → Move → Int → Int → Int × Move)
    (c : Move × SPChessGame) (v : Int) : Prop :=
  intRange v
  ∧ ∀ (mv : Move) (a b : Int), INT_MIN ≤ a → a < b → b ≤ INT_MAX →
      (recurse c.2 mv a b).2 = mv
      ∧ windowValue (recurse c.2 mv a b).1 v a b
      ∧ intRange (recurse c.2 mv a b).1

/-- The root of the search and the choice of the unpruned minimax so far agree: no move is
stored and `alpha` is untouched, or the stored move and `alpha` are the move and the value
kept. -/
def rootAgrees (st : SearchState) (best : Option (Move × Int)) : Prop :=
  (best = none ∧ st.choseMove = false ∧ st.alpha = INT_MIN)
  ∨ (∃ m v, best = some (m, v) ∧ st.choseMove = true ∧ st.alpha = v ∧ st.minimaxMove = m
      ∧ intRange v)

/-- A small position, White to move and in check: white king a1; black pawn b2, which gives
the check and which the king can capture, and black king h8. -/
def cornerGame : SPChessGame :=
  { board := placePieces emptyBoard
      [(0, 0, WHITE_KING), (1, 1, BLACK_PAWN), (7, 7, BLACK_KING)],
    currentPlayer := WHITE_PLAYER,
    whiteLeftCastle := false, whiteRightCastle := false,
    blackLeftCastle := false, blackRightCastle := false,
    whiteKingRow := 0, whiteKingCol := 0, blackKingRow := 7, blackKingCol := 7,
    whiteArmy := { numOfPawns := 0, numOfKnights := 0, numOfBishops := 0, numOfRooks := 0,
                   numOfQueens := 0 },
    blackArmy := { numOfPawns := 1, numOfKnights := 0, numOfBishops := 0, numOfRooks := 0,
                   numOfQueens := 0 },
    history := { elements := [], maxSize := 6 },
    status := GAME_NOT_FINISHED_CHECK }

/-- The capture a1 takes b2 in `cornerGame`, as `spChessGameSetMove` hands it back. -/
def cornerCapture : Move :=
  { userMove 0 0 1 1 with
    srcPiece := WHITE_KING, dstPiece := BLACK_PAWN, dstPieceCaptured := true }

/-- The two games agree on everything the round trip is about except the armies: board,
castling flags, king positions, side to move and status. -/
def sameButArmies (a b : SPChessGame) : Prop :=
  a.board = b.board
  ∧ a.whiteLeftCastle = b.whiteLeftCastle ∧ a.whiteRightCastle = b.whiteRightCastle
  ∧ a.blackLeftCastle = b.blackLeftCastle ∧ a.blackRightCastle = b.blackRightCastle
  ∧ a.whiteKingRow = b.whiteKingRow ∧ a.whiteKingCol = b.whiteKingCol
  ∧ a.blackKingRow = b.blackKingRow ∧ a.blackKingCol = b.blackKingCol
  ∧ a.currentPlayer = b.currentPlayer ∧ a.status = b.status

/-- A state with a stale castling flag, White to move and in check: white king f3 and queen
b2; black king f1 (recorded there), black rooks f2, which gives the check, and h8;
`blackRightCastle` is still true although the black king has left its first rank.  The king
fields and the ten counters agree with the board and the status agrees with the
position. -/
def staleRookMateGame : SPChessGame :=
  { board := placePieces emptyBoard
      [(2, 5, WHITE_KING), (1, 1, WHITE_QUEEN), (0, 5, BLACK_KING), (1, 5, BLACK_ROOK),
       (7, 7, BLACK_ROOK)],
    currentPlayer := WHITE_PLAYER,
    whiteLeftCastle := false, whiteRightCastle := false,
    blackLeftCastle := false, blackRightCastle := true,
    whiteKingRow := 2, whiteKingCol := 5, blackKingRow := 0, blackKingCol := 5,
    whiteArmy := { numOfPawns := 0, numOfKnights := 0, numOfBishops := 0, numOfRooks := 0,
                   numOfQueens := 1 },
    blackArmy := { numOfPawns := 0, numOfKnights := 0, numOfBishops := 0, numOfRooks := 2,
                   numOfQueens := 0 },
    history := { elements := [], maxSize := 6 },
    status := GAME_NOT_FINISHED_CHECK }

/-- The user's command for the capture b2 takes f2 in `staleRookMateGame`. -/
def staleRookMateMove : Move := userMove 1 1 1 5

/-- A state in which a king can be taken, White to move and in check: white king f7 and
queen e1; black king e8, which gives the check, and black rook a8, both at home with
`blackLeftCastle` true.  The king fields and the ten counters agree with the board, the
status agrees with the position, and every true castling flag has king and rook at home. -/
def kingTakenMateGame : SPChessGame :=
  { board := placePieces emptyBoard
      [(6, 5, WHITE_KING), (0, 4, WHITE_QUEEN), (7, 4, BLACK_KING), (7, 0, BLACK_ROOK)],
    currentPlayer := WHITE_PLAYER,
    whiteLeftCastle := false, whiteRightCastle := false,
    blackLeftCastle := true, blackRightCastle := false,
    whiteKingRow := 6, whiteKingCol := 5, blackKingRow := 7, blackKingCol := 4,
    whiteArmy := { numOfPawns := 0, numOfKnights := 0, numOfBishops := 0, numOfRooks := 0,
                   numOfQueens := 1 },
    blackArmy := { numOfPawns := 0, numOfKnights := 0, numOfBishops := 0, numOfRooks := 1,
                   numOfQueens := 0 },
    history := { elements := [], maxSize := 6 },
    status := GAME_NOT_FINISHED_CHECK }

/-- The user's command for the capture e1 takes e8 in `kingTakenMateGame`. -/
def kingTakenMateMove : Move := userMove 0 4 7 4

/-- A position in which a promotion mates, White to move: white king g6 and pawn a7; black
king h8. -/
def promotionMateGame : SPChessGame :=
  { board := placePieces emptyBoard
      [(5, 6, WHITE_KING), (6, 0, WHITE_PAWN), (7, 7, BLACK_KING)],
    currentPlayer := WHITE_PLAYER,
    whiteLeftCastle := false, whiteRightCastle := false,
    blackLeftCastle := false, blackRightCastle := false,
    whiteKingRow := 5, whiteKingCol := 6, blackKingRow := 7, blackKingCol := 7,
    whiteArmy := { numOfPawns := 1, numOfKnights := 0, numOfBishops := 0, numOfRooks := 0,
                   numOfQueens := 0 },
    blackArmy := { numOfPawns := 0, numOfKnights := 0, numOfBishops := 0, numOfRooks := 0,
                   numOfQueens := 0 },
    history := { elements := [], maxSize := 6 },
    status := GAME_NOT_FINISHED_NO_CHECK }

/-- A state with two white kings, White to move: white kings e1 and c1 (the recorded one),
white rook a1 and queen d1, `whiteLeftCastle` true; black king h8.  Every true castling flag
has king and rook at home, the king stands on the first rank in the recorded column, and the
ten counters agree with the board; the king fields do not agree with the board. -/
def twoKingsCastleGame : SPChessGame :=
  { board := placePieces emptyBoard
      [(0, 4, WHITE_KING), (0, 2, WHITE_KING), (0, 0, WHITE_ROOK), (0, 3, WHITE_QUEEN),
       (7, 7, BLACK_KING)],
    currentPlayer := WHITE_PLAYER,
    whiteLeftCastle := true, whiteRightCastle := false,
    blackLeftCastle := false, blackRightCastle := false,
    whiteKingRow := 0, whiteKingCol := 2, blackKingRow := 7, blackKingCol := 7,
    whiteArmy := { numOfPawns := 0, numOfKnights := 0, numOfBishops := 0, numOfRooks := 1,
                   numOfQueens := 1 },
    blackArmy := { numOfPawns := 0, numOfKnights := 0, numOfBishops := 0, numOfRooks := 0,
                   numOfQueens := 0 },
    history := { elements := [], maxSize := 6 },
    status := GAME_NOT_FINISHED_NO_CHECK }

/-- A state whose king has left its home square with the flag still true, White to move:
white king d1 (recorded there), white rook a1 and queen e1, `whiteLeftCastle` true; black
king h8.  The king fields and the ten counters agree with the board, and the king stands on
the first rank in the recorded column. -/
def kingOffHomeGame : SPChessGame :=
  { board := placePieces emptyBoard
      [(0, 3, WHITE_KING), (0, 0, WHITE_ROOK), (0, 4, WHITE_QUEEN), (7, 7, BLACK_KING)],
    currentPlayer := WHITE_PLAYER,
    whiteLeftCastle := true, whiteRightCastle := false,
    blackLeftCastle := false, blackRightCastle := false,
    whiteKingRow := 0, whiteKingCol := 3, blackKingRow := 7, blackKingCol := 7,
    whiteArmy := { numOfPawns := 0, numOfKnights := 0, numOfBishops := 0, numOfRooks := 1,
                   numOfQueens := 1 },
    blackArmy := { numOfPawns := 0, numOfKnights := 0, numOfBishops := 0, numOfRooks := 0,
                   numOfQueens := 0 },
    history := { elements := [], maxSize := 6 },
    status := GAME_NOT_FINISHED_NO_CHECK }

/-! # Theorems -/

/-! ## The legality checks and the move generator restore the board -/

theorem Board.set_apply (b : Board) (r c : Int) (p : Piece) (r' c' : Int) :
    (b.set r c p) r' c' = if r' = r ∧ c' = c then p else b r' c' := rfl

/-- Writing back what two simulated writes overwrote restores the board. -/
theorem Board.restore_two (b : Board) (r1 c1 r2 c2 : Int) (x y : Piece) :
    (((b.set r1 c1 x).set r2 c2 y).set r1 c1 (b r1 c1)).set r2 c2 (b r2 c2) = b := by
  funext r c
  simp only [Board.set_apply]
  split_ifs <;> simp_all

theorem SPChessGame.setBoard_board (g : SPChessGame) (r c : Int) (p : Piece) :
    (g.setBoard r c p).board = g.board.set r c p := rfl

theorem legalRegularMove_game (g : SPChessGame) (m : Move)
    (h : m.srcPiece = g.board m.srcRow m.srcCol) : (legalRegularMove g m).2.1 = g := by
  unfold legalRegularMove
  simp only
  split_ifs <;> simp [SPChessGame.setBoard, h, Board.restore_two]

theorem legalCastleRouteLoop_game (row kingCol : Int) (kingType : Piece) (n : Nat) :
    ∀ (col : Int) (g : SPChessGame) (b : Bool), g.board row kingCol = kingType →
      (legalCastleRouteLoop row kingCol kingType n col g b).2 = g := by
  induction n with
  | zero => intro col g b _; rfl
  | succ n ih =>
    intro col g b hk
    unfold legalCastleRouteLoop
    have hrest : ∀ (hE : g.board row col = EMPTY_POSITION),
        (((g.setBoard row kingCol EMPTY_POSITION).setBoard row col kingType).setBoard row kingCol
          kingType).setBoard row col EMPTY_POSITION = g := by
      intro hE
      have := Board.restore_two g.board row kingCol row col EMPTY_POSITION kingType
      rw [hk, hE] at this
      simp [SPChessGame.setBoard, this]
    by_cases hE : g.board row col = EMPTY_POSITION
    · simp only [hE, ne_eq, not_true_eq_false, ↓reduceIte, hrest hE]
      split_ifs
      · rfl
      · exact ih _ _ _ hk
    · simp [hE]

theorem legalCastle_game (g : SPChessGame) (m : Move) (h : castleConsistent g) :
    (legalCastle g m).2 = g := by
  unfold legalCastle
  by_cases h1 : g.status = GAME_NOT_FINISHED_CHECK
  · simp [h1]
  · simp only [h1, ↓reduceIte]
    by_cases hw : m.srcPiece = WHITE_ROOK
    · simp only [hw, ↓reduceIte]
      split_ifs with h2
      · rfl
      · unfold legalCastleRoute
        apply legalCastleRouteLoop_game
        simp only [↓reduceIte]
        apply h.1
        by_cases hl : g.whiteLeftCastle = true
        · exact Or.inl hl
        · right
          by_contra hr
          simp [hl, hr] at h2
    · simp only [hw, ↓reduceIte]
      split_ifs with h2
      · rfl
      · unfold legalCastleRoute
        apply legalCastleRouteLoop_game
        simp only [hw, ↓reduceIte]
        apply h.2
        by_cases hl : g.blackLeftCastle = true
        · exact Or.inl hl
        · right
          by_contra hr
          simp [hl, hr] at h2

theorem addPieceMove_game (env : Env) (g : SPChessGame) (l : SPArrayList)
    (sr sc dr dc : Int) (castle mm : Bool) (h : castleConsistent g) :
    (addPieceMove env g l sr sc dr dc castle mm).1 = g := by
  unfold addPieceMove
  simp only
  split_ifs <;> first
    | rfl
    | exact legalCastle_game _ _ h
    | (apply legalRegularMove_game; rfl)

theorem getPossiblePawnMoves_game (env : Env) (g : SPChessGame) (l : SPArrayList)
    (sr sc : Int) (mm : Bool) (h : castleConsistent g) :
    (getPossiblePawnMoves env g l sr sc mm).1 = g := by
  unfold getPossiblePawnMoves
  simp only
  split_ifs <;> simp only [addPieceMove_game _ _ _ _ _ _ _ _ _ h]

theorem getPossibleKnightMoves_game (env : Env) (g : SPChessGame) (l : SPArrayList)
    (sr sc : Int) (h : castleConsistent g) :
    (getPossibleKnightMoves env g l sr sc).1 = g := by
  unfold getPossibleKnightMoves
  simp only [addPieceMove_game _ _ _ _ _ _ _ _ _ h]

theorem getDirectionalMovesLoop_game (env : Env) (sr sc dr dc : Int) (n : Nat) :
    ∀ (g : SPChessGame) (l : SPArrayList) (r c : Int) (p : Piece), castleConsistent g →
      (getDirectionalMovesLoop env sr sc dr dc n g l r c p).1 = g := by
  induction n with
  | zero => intro g l r c p _; rfl
  | succ n ih =>
    intro g l r c p h
    unfold getDirectionalMovesLoop
    simp only
    split_ifs
    · rfl
    · rfl
    · rw [ih _ _ _ _ _ (by rw [addPieceMove_game _ _ _ _ _ _ _ _ _ h]; exact h)]
      exact addPieceMove_game _ _ _ _ _ _ _ _ _ h

theorem getDirectionalMoves_game (env : Env) (g : SPChessGame) (l : SPArrayList)
    (sr sc dr dc : Int) (h : castleConsistent g) :
    (getDirectionalMoves env g l sr sc dr dc).1 = g := by
  unfold getDirectionalMoves
  simp only [getDirectionalMovesLoop_game _ _ _ _ _ _ _ _ _ _ _ h]
  split_ifs
  · exact addPieceMove_game _ _ _ _ _ _ _ _ _ h
  · rfl

theorem getPossibleBishopOrQueenMoves_game (env : Env) (g : SPChessGame) (l : SPArrayList)
    (sr sc : Int) (sort : Bool) (h : castleConsistent g) :
    (getPossibleBishopOrQueenMoves env g l sr sc sort).1 = g := by
  unfold getPossibleBishopOrQueenMoves
  simp only [getDirectionalMoves_game _ _ _ _ _ _ _ h]
  split_ifs <;> simp only [getDirectionalMoves_game _ _ _ _ _ _ _ h]

theorem getPossibleRookOrQueenMoves_game (env : Env) (g : SPChessGame) (l : SPArrayList)
    (sr sc : Int) (sort : Bool) (h : castleConsistent g) :
    (getPossibleRookOrQueenMoves env g l sr sc sort).1 = g := by
  unfold getPossibleRookOrQueenMoves
  simp only [getDirectionalMoves_game _ _ _ _ _ _ _ h]
  split_ifs <;>
    simp only [getDirectionalMoves_game _ _ _ _ _ _ _ h, addPieceMove_game _ _ _ _ _ _ _ _ _ h]

theorem getPossibleKingCastleMoves_game (env : Env) (g : SPChessGame) (l : SPArrayList)
    (p : Piece) (row : Int) (h : castleConsistent g) :
    (getPossibleKingCastleMoves env g l p row).1 = g := by
  unfold getPossibleKingCastleMoves
  simp only
  split_ifs <;> simp only [addPieceMove_game _ _ _ _ _ _ _ _ _ h]

theorem getPossibleKingMoves_game (env : Env) (g : SPChessGame) (l : SPArrayList)
    (sr sc : Int) (h : castleConsistent g) :
    (getPossibleKingMoves env g l sr sc).1 = g := by
  unfold getPossibleKingMoves
  simp only [addPieceMove_game _ _ _ _ _ _ _ _ _ h]
  split_ifs <;> exact getPossibleKingCastleMoves_game _ _ _ _ _ h

theorem getPossiblePieceMoves_game (env : Env) (g : SPChessGame) (l : SPArrayList)
    (sr sc : Int) (p : Piece) (sort mm : Bool) (h : castleConsistent g) :
    (getPossiblePieceMoves env g l sr sc p sort mm).2.1 = g := by
  unfold getPossiblePieceMoves
  cases p <;>
    simp only [getPossiblePawnMoves_game _ _ _ _ _ _ h, getPossibleKnightMoves_game _ _ _ _ _ h,
      getPossibleBishopOrQueenMoves_game _ _ _ _ _ _ h,
      getPossibleRookOrQueenMoves_game _ _ _ _ _ _ h, getPossibleKingMoves_game _ _ _ _ _ h]

theorem getGameStatusCols_game (env : Env) (row : Int) (cols : List Int) :
    ∀ (g : SPChessGame) (l : SPArrayList) (t : Bool), castleConsistent g →
      (getGameStatusCols env row cols g l t).1 = g := by
  induction cols with
  | nil => intro g l t _; rfl
  | cons col cols ih =>
    intro g l t h
    unfold getGameStatusCols
    simp only
    split_ifs
    · rfl
    · exact ih _ _ _ h
    · rw [ih _ _ _ (by rw [getPossiblePieceMoves_game _ _ _ _ _ _ _ _ h]; exact h)]
      exact getPossiblePieceMoves_game _ _ _ _ _ _ _ _ h

theorem getGameStatusRows_game (env : Env) (rows : List Int) :
    ∀ (g : SPChessGame) (l : SPArrayList) (t : Bool), castleConsistent g →
      (getGameStatusRows env rows g l t).1 = g := by
  induction rows with
  | nil => intro g l t _; rfl
  | cons row rows ih =>
    intro g l t h
    unfold getGameStatusRows
    simp only
    split_ifs
    · rfl
    · rw [ih _ _ _ (by rw [getGameStatusCols_game _ _ _ _ _ _ h]; exact h)]
      exact getGameStatusCols_game _ _ _ _ _ _ h

theorem getGameStatus_game (env : Env) (g : SPChessGame) (kr kc : Int)
    (h : castleConsistent g) : (getGameStatus env g kr kc).2 = g := by
  unfold getGameStatus
  simp only
  split
  · rfl
  · simp only [getGameStatusRows_game _ _ _ _ _ h]
    split_ifs <;> rfl

/-! ## Squares of the board -/

theorem validPosition_iff (r c : Int) :
    validPosition r c = true ↔ 0 ≤ r ∧ r < 8 ∧ 0 ≤ c ∧ c < 8 := by
  simp [validPosition, FIRST_ROW_AND_COL, BOARD_LENGTH, and_assoc]

theorem validPosition_iff_mem (r c : Int) :
    validPosition r c = true ↔ (r, c) ∈ boardSquares := by
  rw [validPosition_iff]
  constructor
  · rintro ⟨h1, h2, h3, h4⟩
    interval_cases r <;> interval_cases c <;> decide
  · intro h
    simp only [boardSquares, List.mem_flatMap, List.mem_map, List.mem_cons, List.mem_singleton,
      Prod.mk.injEq, List.not_mem_nil, or_false] at h
    obtain ⟨a, ha, b, hb, rfl, rfl⟩ := h
    rcases ha with rfl | rfl | rfl | rfl | rfl | rfl | rfl | rfl <;>
      rcases hb with rfl | rfl | rfl | rfl | rfl | rfl | rfl | rfl <;> decide

theorem forall_valid_iff (P : Int → Int → Prop) :
    (∀ r c : Int, validPosition r c = true → P r c) ↔ ∀ p ∈ boardSquares, P p.1 p.2 := by
  constructor
  · intro h p hp
    exact h p.1 p.2 ((validPosition_iff_mem _ _).2 hp)
  · intro h r c hv
    exact h (r, c) ((validPosition_iff_mem _ _).1 hv)

theorem kingFieldsAgree_iff (g : SPChessGame) :
    kingFieldsAgree g ↔
      (validPosition g.whiteKingRow g.whiteKingCol = true ∧
       validPosition g.blackKingRow g.blackKingCol = true ∧
       (∀ p ∈ boardSquares,
          (g.board p.1 p.2 = WHITE_KING ↔ p.1 = g.whiteKingRow ∧ p.2 = g.whiteKingCol)) ∧
       (∀ p ∈ boardSquares,
          (g.board p.1 p.2 = BLACK_KING ↔ p.1 = g.blackKingRow ∧ p.2 = g.blackKingCol))) := by
  unfold kingFieldsAgree
  rw [forall_valid_iff (fun r c => g.board r c = WHITE_KING ↔ r = g.whiteKingRow ∧ c = g.whiteKingCol),
    forall_valid_iff (fun r c => g.board r c = BLACK_KING ↔ r = g.blackKingRow ∧ c = g.blackKingCol)]

instance (g : SPChessGame) : Decidable (kingFieldsAgree g) :=
  decidable_of_iff _ (kingFieldsAgree_iff g).symm

/-! ## Legality of a regular move -/

/-- The verdict of `legalRegularMove` in closed form. -/
theorem legalRegularMove_verdict (g : SPChessGame) (m : Move) :
    (legalRegularMove g m).1 =
      (!currentPlayerPiece g.currentPlayer (g.board m.dstRow m.dstCol)
        && legalMovementByPieceType g { m with dstPiece := g.board m.dstRow m.dstCol }
        && !rivalPlayerThreateningPosition (boardAfterMove g m) (ownKingRowAfter g m)
              (ownKingColAfter g m)) := by
  unfold legalRegularMove boardAfterMove ownKingRowAfter ownKingColAfter
  simp only
  generalize g.board m.dstRow m.dstCol = d
  by_cases h1 : currentPlayerPiece g.currentPlayer d = true
  · simp [h1]
  · by_cases h2 : legalMovementByPieceType g { m with dstPiece := d } = true
    · by_cases hE : d = EMPTY_POSITION
      · subst hE
        by_cases hk : m.srcPiece = WHITE_KING ∨ m.srcPiece = BLACK_KING
        · simp [h1, h2, hk, SPChessGame.setBoard]
        · simp only [h1, h2, hk, SPChessGame.setBoard, Bool.not_true, Bool.false_eq_true,
            ↓reduceIte, Bool.not_false, Bool.true_and, ne_eq, not_true_eq_false]
          split_ifs <;> simp_all
      · by_cases hk : m.srcPiece = WHITE_KING ∨ m.srcPiece = BLACK_KING
        · simp [h1, h2, hk, hE, SPChessGame.setBoard]
        · simp only [h1, h2, hk, hE, SPChessGame.setBoard, Bool.not_true, Bool.false_eq_true,
            ↓reduceIte, Bool.not_false, Bool.true_and, ne_eq, not_false_eq_true]
          split_ifs <;> simp_all
    · simp [h1, h2]

/-- On the simulated board the tested square holds the king of the side to move, when the
moved piece is that side's and the destination does not hold one of its pieces. -/
theorem ownKing_on_boardAfterMove (g : SPChessGame) (m : Move)
    (hsrc : m.srcPiece = g.board m.srcRow m.srcCol) (hk : kingFieldsAgree g)
    (hown : currentPlayerPiece g.currentPlayer m.srcPiece = true)
    (hdst : currentPlayerPiece g.currentPlayer (g.board m.dstRow m.dstCol) = false) :
    (boardAfterMove g m).board (ownKingRowAfter g m) (ownKingColAfter g m)
      = ownKing g.currentPlayer := by
  obtain ⟨hwv, hbv, hw, hb⟩ := hk
  unfold boardAfterMove ownKingRowAfter ownKingColAfter ownKing
  simp only [SPChessGame.setBoard, Board.set_apply]
  cases hp : g.currentPlayer <;> rw [hp] at hown hdst
  · by_cases hking : m.srcPiece = BLACK_KING
    · simp [hking]
    · have hnw : m.srcPiece ≠ WHITE_KING := by
        intro h; rw [h] at hown; simp [currentPlayerPiece] at hown
      have hbk := (hb g.blackKingRow g.blackKingCol hbv).2 ⟨rfl, rfl⟩
      have h1 : ¬ (g.blackKingRow = m.dstRow ∧ g.blackKingCol = m.dstCol) := by
        rintro ⟨h1, h2⟩; rw [h1, h2] at hbk; rw [hbk] at hdst
        simp [currentPlayerPiece] at hdst
      have h2 : ¬ (g.blackKingRow = m.srcRow ∧ g.blackKingCol = m.srcCol) := by
        rintro ⟨h1, h2⟩; rw [h1, h2, ← hsrc] at hbk; exact hking hbk
      simp [hking, hnw, h1, h2, hbk]
  · by_cases hking : m.srcPiece = WHITE_KING
    · simp [hking]
    · have hnw : m.srcPiece ≠ BLACK_KING := by
        intro h; rw [h] at hown; simp [currentPlayerPiece] at hown
      have hbk := (hw g.whiteKingRow g.whiteKingCol hwv).2 ⟨rfl, rfl⟩
      have h1 : ¬ (g.whiteKingRow = m.dstRow ∧ g.whiteKingCol = m.dstCol) := by
        rintro ⟨h1, h2⟩; rw [h1, h2] at hbk; rw [hbk] at hdst
        simp [currentPlayerPiece] at hdst
      have h2 : ¬ (g.whiteKingRow = m.srcRow ∧ g.whiteKingCol = m.srcCol) := by
        rintro ⟨h1, h2⟩; rw [h1, h2, ← hsrc] at hbk; exact hking hbk
      simp [hking, hnw, h1, h2, hbk]

/-- C4. King safety of accepted moves.  For a state whose king-position fields agree with the
board and a move whose `srcPiece` is the piece on its source square, a piece of the side to
move: `legalRegularMove` answers true exactly when the destination does not hold a piece of
the mover, `legalMovementByPieceType` accepts the move (with `dstPiece` read from the
board), and on the board with the piece moved to the destination the square of the mover's
king (the destination if the king moves, the recorded king square otherwise) is not
threatened by the opponent; that square does hold the mover's king on that board whenever
the destination does not hold a piece of the mover; so an accepted move never leaves the
mover's king threatened. -/
theorem C4_legalRegularMove_king_safety (g : SPChessGame) (m : Move)
    (hsrc : m.srcPiece = g.board m.srcRow m.srcCol) (hk : kingFieldsAgree g)
    (hown : currentPlayerPiece g.currentPlayer m.srcPiece = true) :
    ((legalRegularMove g m).1 = true ↔
      (currentPlayerPiece g.currentPlayer (g.board m.dstRow m.dstCol) = false
        ∧ legalMovementByPieceType g { m with dstPiece := g.board m.dstRow m.dstCol } = true
        ∧ rivalPlayerThreateningPosition (boardAfterMove g m) (ownKingRowAfter g m)
            (ownKingColAfter g m) = false))
    ∧ (currentPlayerPiece g.currentPlayer (g.board m.dstRow m.dstCol) = false →
        (boardAfterMove g m).board (ownKingRowAfter g m) (ownKingColAfter g m)
          = ownKing g.currentPlayer)
    ∧ ((legalRegularMove g m).1 = true →
        (boardAfterMove g m).board (ownKingRowAfter g m) (ownKingColAfter g m)
            = ownKing g.currentPlayer
        ∧ rivalPlayerThreateningPosition (boardAfterMove g m) (ownKingRowAfter g m)
            (ownKingColAfter g m) = false) := by
  have hv := legalRegularMove_verdict g m
  refine ⟨?_, ownKing_on_boardAfterMove g m hsrc hk hown, ?_⟩
  · rw [hv]; simp [Bool.and_eq_true, and_assoc]
  · rw [hv]
    simp only [Bool.and_eq_true, Bool.not_eq_true']
    intro h
    exact ⟨ownKing_on_boardAfterMove g m hsrc hk hown h.1.1, h.2⟩

/-- C4 at a concrete input: the knight move b1-c3 in `sampleGame` meets the hypotheses, is
accepted, and leaves the white king on e1 unthreatened. -/
theorem C4_legalRegularMove_king_safety_witness :
    sampleKnightMove.srcPiece = sampleGame.board sampleKnightMove.srcRow sampleKnightMove.srcCol
    ∧ kingFieldsAgree sampleGame
    ∧ currentPlayerPiece sampleGame.currentPlayer sampleKnightMove.srcPiece = true
    ∧ (legalRegularMove sampleGame sampleKnightMove).1 = true
    ∧ (boardAfterMove sampleGame sampleKnightMove).board 0 4 = WHITE_KING
    ∧ rivalPlayerThreateningPosition (boardAfterMove sampleGame sampleKnightMove) 0 4 = false :=
  have h := C4_legalRegularMove_king_safety sampleGame sampleKnightMove
    (by decide!) (by decide!) (by decide!)
  ⟨by decide!, by decide!, by decide!, by decide!, (h.2.2 (by decide!)).1, (h.2.2 (by decide!)).2⟩

/-! ## Legality of a castle -/

/-- The verdict of the route loop: with the king on the recorded square, every iteration
finds the board as it was, so the loop accepts exactly when each of its columns is empty
and unthreatened on the simulated board. -/
theorem legalCastleRouteLoop_verdict (row kingCol : Int) (kingType : Piece) (n : Nat) :
    ∀ (col : Int) (g : SPChessGame) (b : Bool), g.board row kingCol = kingType →
      ((legalCastleRouteLoop row kingCol kingType n col g b).1 = true ↔
        (n = 0 ∧ b = true) ∨ (0 < n ∧ ∀ i : Nat, i < n →
          g.board row (col + i) = EMPTY_POSITION ∧
          rivalPlayerThreateningPosition
            ((g.setBoard row kingCol EMPTY_POSITION).setBoard row (col + i) kingType)
            row (col + i) = false)) := by
  induction n with
  | zero => intro col g b _; simp [legalCastleRouteLoop]
  | succ n ih =>
    intro col g b hk
    unfold legalCastleRouteLoop
    have hrest : ∀ (hE : g.board row col = EMPTY_POSITION),
        (((g.setBoard row kingCol EMPTY_POSITION).setBoard row col kingType).setBoard row kingCol
          kingType).setBoard row col EMPTY_POSITION = g := by
      intro hE
      have := Board.restore_two g.board row kingCol row col EMPTY_POSITION kingType
      rw [hk, hE] at this
      simp [SPChessGame.setBoard, this]
    by_cases hE : g.board row col = EMPTY_POSITION
    · simp only [hE, ne_eq, not_true_eq_false, ↓reduceIte, hrest hE]
      by_cases ht : rivalPlayerThreateningPosition
          ((g.setBoard row kingCol EMPTY_POSITION).setBoard row col kingType) row col = true
      · simp only [ht, Bool.not_true, Bool.not_false, ↓reduceIte]
        constructor
        · intro h; simp at h
        · rintro (⟨h, _⟩ | ⟨_, h⟩)
          · omega
          · have := (h 0 (by omega)).2
            simp at this
            rw [this] at ht
            simp at ht
      · simp only [ht, Bool.not_false, Bool.not_true, Bool.false_eq_true, ↓reduceIte]
        rw [ih (col + 1) g true hk]
        simp only [Bool.not_eq_true] at ht
        constructor
        · rintro (⟨hn, _⟩ | ⟨hn, h⟩)
          · right
            refine ⟨by omega, ?_⟩
            intro i hi
            have : i = 0 := by omega
            subst this
            simp [hE, ht]
          · right
            refine ⟨by omega, ?_⟩
            intro i hi
            rcases Nat.eq_zero_or_pos i with rfl | hpos
            · simp [hE, ht]
            · have := h (i - 1) (by omega)
              have e : col + 1 + ((i - 1 : Nat) : Int) = col + (i : Int) := by omega
              rw [e] at this
              exact this
        · rintro (⟨hn, _⟩ | ⟨_, h⟩)
          · omega
          · rcases Nat.eq_zero_or_pos n with rfl | hpos
            · left; simp
            · right
              refine ⟨hpos, ?_⟩
              intro i hi
              have := h (i + 1) (by omega)
              have e : col + ((i + 1 : Nat) : Int) = col + 1 + (i : Int) := by push_cast; omega
              rw [e] at this
              exact this
    · simp only [hE, ne_eq, not_false_eq_true, ↓reduceIte]
      constructor
      · intro h; simp at h
      · rintro (⟨h, _⟩ | ⟨_, h⟩)
        · omega
        · have := (h 0 (by omega)).1
          simp at this
          exact absurd this hE

/-- While a castling flag of the side to move is true, its king is recorded on its home
square, given the two invariants. -/
theorem ownKing_home (g : SPChessGame) (hk : kingFieldsAgree g) (hc : castleHome g)
    (hf : ownLeftCastle g = true ∨ ownRightCastle g = true) :
    ownKingCol g = KING_COL ∧
      g.board (ownFirstRow g.currentPlayer) (ownKingCol g) = ownKing g.currentPlayer := by
  obtain ⟨_, _, hw, hb⟩ := hk
  obtain ⟨h1, h2, h3, h4⟩ := hc
  unfold ownLeftCastle ownRightCastle at hf
  unfold ownKingCol ownFirstRow ownKing
  cases hp : g.currentPlayer <;> simp only [hp, reduceCtorEq, ↓reduceIte] at hf ⊢
  · have hking : g.board BLACK_FIRST_ROW KING_COL = BLACK_KING := by
      rcases hf with hf | hf
      · exact (h3 hf).1
      · exact (h4 hf).1
    have := (hb BLACK_FIRST_ROW KING_COL (by decide)).1 hking
    rw [← this.2]
    exact ⟨rfl, hking⟩
  · have hking : g.board WHITE_FIRST_ROW KING_COL = WHITE_KING := by
      rcases hf with hf | hf
      · exact (h1 hf).1
      · exact (h2 hf).1
    have := (hw WHITE_FIRST_ROW KING_COL (by decide)).1 hking
    rw [← this.2]
    exact ⟨rfl, hking⟩

theorem legalCastle_verdict (g : SPChessGame) (m : Move)
    (hk : kingFieldsAgree g) (hc : castleHome g)
    (hrook : m.srcPiece = ownRook g.currentPlayer) :
    ((legalCastle g m).1 = true ↔
      g.status ≠ GAME_NOT_FINISHED_CHECK
      ∧ ((m.srcRow = ownFirstRow g.currentPlayer ∧ m.srcCol = LEFT_ROOK_COL
            ∧ ownLeftCastle g = true)
          ∨ (m.srcRow = ownFirstRow g.currentPlayer ∧ m.srcCol = RIGHT_ROOK_COL
            ∧ ownRightCastle g = true))
      ∧ ∀ col : Int, strictlyBetween m.srcCol (ownKingCol g) col → routeSquareSafe g col) := by
  have key : ∀ (hf : ownLeftCastle g = true ∨ ownRightCastle g = true)
      (hcol : m.srcCol = LEFT_ROOK_COL ∨ m.srcCol = RIGHT_ROOK_COL),
      ((legalCastleRoute g (ownRook g.currentPlayer) m.srcCol (ownKing g.currentPlayer)).1 = true
        ↔ ∀ col : Int, strictlyBetween m.srcCol (ownKingCol g) col → routeSquareSafe g col) := by
    intro hf hcol
    obtain ⟨hkc, hkb⟩ := ownKing_home g hk hc hf
    unfold legalCastleRoute
    have e1 : (if ownRook g.currentPlayer = WHITE_ROOK then WHITE_FIRST_ROW else BLACK_FIRST_ROW)
        = ownFirstRow g.currentPlayer := by
      unfold ownRook ownFirstRow; cases g.currentPlayer <;> simp
    have e2 : (if ownRook g.currentPlayer = WHITE_ROOK then g.whiteKingCol else g.blackKingCol)
        = ownKingCol g := by
      unfold ownRook ownKingCol; cases g.currentPlayer <;> simp
    simp only [e1, e2]
    rw [legalCastleRouteLoop_verdict _ _ _ _ _ _ _ hkb]
    unfold routeSquareSafe kingPlacedOn strictlyBetween
    rw [hkc]
    rcases hcol with hcol | hcol <;> rw [hcol] <;>
      simp only [LEFT_ROOK_COL, RIGHT_ROOK_COL, KING_COL] <;> norm_num
    · constructor
      · intro h col hb
        rcases hb with ⟨h1, h2⟩ | ⟨h1, h2⟩
        · have hi := h (col - 1).toNat (by omega)
          have e : (1 : Int) + ((col - 1).toNat : Int) = col := by omega
          rw [e] at hi
          exact hi
        · omega
      · intro h i hi
        exact h (1 + i) (Or.inl ⟨by omega, by omega⟩)
    · constructor
      · intro h col hb
        rcases hb with ⟨h1, h2⟩ | ⟨h1, h2⟩
        · omega
        · have hi := h (col - 5).toNat (by omega)
          have e : (5 : Int) + ((col - 5).toNat : Int) = col := by omega
          rw [e] at hi
          exact hi
      · intro h i hi
        exact h (5 + i) (Or.inr ⟨by omega, by omega⟩)
  unfold legalCastle
  by_cases h1 : g.status = GAME_NOT_FINISHED_CHECK
  · simp [h1]
  · have e1 : (if m.srcPiece = WHITE_ROOK then WHITE_FIRST_ROW else BLACK_FIRST_ROW)
        = ownFirstRow g.currentPlayer := by
      rw [hrook]; unfold ownRook ownFirstRow; cases g.currentPlayer <;> simp
    have e2 : (if m.srcPiece = WHITE_ROOK then WHITE_KING else BLACK_KING)
        = ownKing g.currentPlayer := by
      rw [hrook]; unfold ownRook ownKing; cases g.currentPlayer <;> simp
    have e3 : (if m.srcPiece = WHITE_ROOK then g.whiteLeftCastle else g.blackLeftCastle)
        = ownLeftCastle g := by
      rw [hrook]; unfold ownRook ownLeftCastle; cases g.currentPlayer <;> simp
    have e4 : (if m.srcPiece = WHITE_ROOK then g.whiteRightCastle else g.blackRightCastle)
        = ownRightCastle g := by
      rw [hrook]; unfold ownRook ownRightCastle; cases g.currentPlayer <;> simp
    simp only [h1, ↓reduceIte, e1, e2, e3, e4, ne_eq, not_false_eq_true, true_and]
    by_cases hL : m.srcRow = ownFirstRow g.currentPlayer ∧ m.srcCol = LEFT_ROOK_COL
        ∧ ownLeftCastle g = true
    · obtain ⟨ha, hb, hcl⟩ := hL
      simp only [ha, hb, hcl, decide_True, Bool.and_self, Bool.not_true, Bool.false_and,
        Bool.false_eq_true, ↓reduceIte, and_self, true_or, true_and]
      rw [hrook]
      have := key (Or.inl hcl) (Or.inl hb)
      rw [hb] at this
      exact this
    · by_cases hR : m.srcRow = ownFirstRow g.currentPlayer ∧ m.srcCol = RIGHT_ROOK_COL
          ∧ ownRightCastle g = true
      · obtain ⟨ha, hb, hcl⟩ := hR
        have hnl : ¬ (m.srcCol = LEFT_ROOK_COL) := by rw [hb]; decide
        simp only [ha, hb, hcl, decide_True, Bool.and_self, Bool.not_true, Bool.and_false,
          Bool.false_eq_true, ↓reduceIte, and_self, or_true, true_and]
        rw [hrook]
        have := key (Or.inr hcl) (Or.inr hb)
        rw [hb] at this
        exact this
      · have hcond : (!(decide (m.srcRow = ownFirstRow g.currentPlayer)
            && decide (m.srcCol = LEFT_ROOK_COL) && ownLeftCastle g)
            && !(decide (m.srcRow = ownFirstRow g.currentPlayer)
            && decide (m.srcCol = RIGHT_ROOK_COL) && ownRightCastle g)) = true := by
          simp only [Bool.and_eq_true, Bool.not_eq_true', Bool.and_eq_false_iff,
            decide_eq_false_iff_not, decide_eq_true_eq]
          constructor
          · by_contra hcon
            apply hL
            push_neg at hcon
            simp only [ne_eq, Bool.not_eq_false] at hcon
            exact ⟨hcon.1.1, hcon.1.2, hcon.2⟩
          · by_contra hcon
            apply hR
            push_neg at hcon
            simp only [ne_eq, Bool.not_eq_false] at hcon
            exact ⟨hcon.1.1, hcon.1.2, hcon.2⟩
        simp only [hcond, ↓reduceIte, Bool.false_eq_true, false_iff, not_and]
        intro h
        rcases h with h | h
        · exact absurd h hL
        · exact absurd h hR

/-- A ray walk that finds the attacker `p` on board `b` finds it on every board `b2` that
differs from `b` only on the start square of the walk and on a square where `b` holds
another piece than `p`. -/
theorem directionalThreatLoop_mono (b b2 : Board) (dr dc sr sc ar ac : Int) (p : Piece)
    (hA : b ar ac ≠ p) (hAE : b ar ac ≠ EMPTY_POSITION)
    (hb2 : ∀ r c : Int, ¬ (r = ar ∧ c = ac) → ¬ (r = sr ∧ c = sc) → b2 r c = b r c) (n : Nat) :
    ∀ r c : Int, (∀ j : Nat, 0 < j → ¬ (r + j * dr = sr ∧ c + j * dc = sc)) →
      directionalThreatLoop b dr dc p n r c = true →
      directionalThreatLoop b2 dr dc p n r c = true := by
  induction n with
  | zero => intro r c _ h; simp [directionalThreatLoop] at h
  | succ n ih =>
    intro r c hwalk h
    unfold directionalThreatLoop at h ⊢
    simp only at h ⊢
    have hS : ¬ (r + dr = sr ∧ c + dc = sc) := by
      have := hwalk 1 (by omega)
      simpa using this
    have hnext : ∀ j : Nat, 0 < j → ¬ (r + dr + j * dr = sr ∧ c + dc + j * dc = sc) := by
      intro j hj
      have := hwalk (j + 1) (by omega)
      push_cast at this
      intro hc
      apply this
      constructor
      · rw [← hc.1]; ring
      · rw [← hc.2]; ring
    by_cases hv : validPosition (r + dr) (c + dc) = true
    · by_cases hE : b (r + dr) (c + dc) = EMPTY_POSITION
      · have hnA : ¬ (r + dr = ar ∧ c + dc = ac) := by
          rintro ⟨h1, h2⟩; rw [h1, h2] at hE; exact hAE hE
        have e := hb2 _ _ hnA hS
        simp only [hv, hE, decide_True, Bool.and_self, ↓reduceIte] at h
        simp only [hv, e, hE, decide_True, Bool.and_self, ↓reduceIte]
        exact ih _ _ hnext h
      · simp only [hv, hE, decide_False, Bool.and_false, Bool.false_eq_true, ↓reduceIte,
          Bool.true_and, pieceOccupyingPosition, decide_eq_true_eq] at h
        have hnA : ¬ (r + dr = ar ∧ c + dc = ac) := by
          rintro ⟨h1, h2⟩; rw [h1, h2] at h; exact hA h
        have e := hb2 _ _ hnA hS
        have hE2 : ¬ (b2 (r + dr) (c + dc) = EMPTY_POSITION) := by rw [e]; exact hE
        simp only [hv, hE2, pieceOccupyingPosition, decide_False, Bool.and_false,
          Bool.false_eq_true, ↓reduceIte, Bool.true_and, decide_eq_true_eq]
        rw [e]; exact h
    · simp [hv] at h

theorem directionalThreat_mono (b b2 : Board) (dr dc sr sc ar ac : Int) (p : Piece)
    (hd : ¬ (dr = 0 ∧ dc = 0)) (hA : b ar ac ≠ p) (hAE : b ar ac ≠ EMPTY_POSITION)
    (hb2 : ∀ r c : Int, ¬ (r = ar ∧ c = ac) → ¬ (r = sr ∧ c = sc) → b2 r c = b r c)
    (h : directionalThreat b sr sc dr dc p = true) :
    directionalThreat b2 sr sc dr dc p = true := by
  unfold directionalThreat at h ⊢
  apply directionalThreatLoop_mono b b2 dr dc sr sc ar ac p hA hAE hb2 9 sr sc _ h
  intro j hj hc
  apply hd
  have hj0 : (j : Int) ≠ 0 := by omega
  constructor
  · have : (j : Int) * dr = 0 := by linarith [hc.1]
    rcases mul_eq_zero.1 this with h | h
    · exact absurd h hj0
    · exact h
  · have : (j : Int) * dc = 0 := by linarith [hc.2]
    rcases mul_eq_zero.1 this with h | h
    · exact absurd h hj0
    · exact h

theorem pieceOccupyingPosition_mono (b b2 : Board) (sr sc ar ac r c : Int) (p : Piece)
    (hA : b ar ac ≠ p) (hS : b sr sc ≠ p)
    (hb2 : ∀ r c : Int, ¬ (r = ar ∧ c = ac) → ¬ (r = sr ∧ c = sc) → b2 r c = b r c)
    (h : pieceOccupyingPosition b r c p = true) : pieceOccupyingPosition b2 r c p = true := by
  simp only [pieceOccupyingPosition, Bool.and_eq_true, decide_eq_true_eq] at h ⊢
  refine ⟨h.1, ?_⟩
  rw [hb2 r c ?_ ?_]
  · exact h.2
  · rintro ⟨h1, h2⟩; rw [h1, h2] at h; exact hA h.2
  · rintro ⟨h1, h2⟩; rw [h1, h2] at h; exact hS h.2

/-- A piece `p` that threatens the empty square `(sr, sc)` on board `b` still threatens it on
a board that differs from `b` only on that square and on a square `(ar, ac)` where `b`
holds a piece other than `p`. -/
theorem rivalPieceThreateningPosition_mono (b b2 : Board) (sr sc ar ac : Int) (p : Piece)
    (hA : b ar ac ≠ p) (hAE : b ar ac ≠ EMPTY_POSITION) (hS : b sr sc = EMPTY_POSITION)
    (hb2 : ∀ r c : Int, ¬ (r = ar ∧ c = ac) → ¬ (r = sr ∧ c = sc) → b2 r c = b r c)
    (h : rivalPieceThreateningPosition b sr sc p = true) :
    rivalPieceThreateningPosition b2 sr sc p = true := by
  have hocc : ∀ r c : Int, p ≠ EMPTY_POSITION → pieceOccupyingPosition b r c p = true →
      pieceOccupyingPosition b2 r c p = true := by
    intro r c hp
    exact pieceOccupyingPosition_mono b b2 sr sc ar ac r c p hA (by rw [hS]; exact hp.symm) hb2
  have hdir : ∀ dr dc : Int, ¬ (dr = 0 ∧ dc = 0) →
      directionalThreat b sr sc dr dc p = true → directionalThreat b2 sr sc dr dc p = true := by
    intro dr dc hd
    exact directionalThreat_mono b b2 dr dc sr sc ar ac p hd hA hAE hb2
  revert h
  cases p <;>
    simp only [rivalPieceThreateningPosition, bishopOrQueenThreat, rookOrQueenThreat,
      Bool.or_eq_true, Bool.false_eq_true] <;>
    repeat' (first
      | exact id
      | exact hocc _ _ (by decide)
      | exact hdir _ _ (by decide)
      | apply Or.imp)

/-- A square of the king's first rank that is empty and threatened on the current board is
threatened as well once the king is placed on it. -/
theorem threatened_kingPlacedOn (g : SPChessGame) (col : Int)
    (hking : g.board (ownFirstRow g.currentPlayer) (ownKingCol g) = ownKing g.currentPlayer)
    (hE : g.board (ownFirstRow g.currentPlayer) col = EMPTY_POSITION)
    (h : rivalPlayerThreateningPosition g (ownFirstRow g.currentPlayer) col = true) :
    rivalPlayerThreateningPosition (kingPlacedOn g col) (ownFirstRow g.currentPlayer) col
      = true := by
  have hb2 : ∀ r c : Int, ¬ (r = ownFirstRow g.currentPlayer ∧ c = ownKingCol g) →
      ¬ (r = ownFirstRow g.currentPlayer ∧ c = col) →
      (kingPlacedOn g col).board r c = g.board r c := by
    intro r c h1 h2
    simp [kingPlacedOn, SPChessGame.setBoard, Board.set_apply, h1, h2]
  have hcp : (kingPlacedOn g col).currentPlayer = g.currentPlayer := rfl
  have hmono : ∀ p : Piece, p ≠ ownKing g.currentPlayer →
      rivalPieceThreateningPosition g.board (ownFirstRow g.currentPlayer) col p = true →
      rivalPieceThreateningPosition (kingPlacedOn g col).board (ownFirstRow g.currentPlayer) col p
        = true := by
    intro p hp
    apply rivalPieceThreateningPosition_mono g.board _ _ _ (ownFirstRow g.currentPlayer)
      (ownKingCol g) p _ _ hE hb2
    · rw [hking]; exact fun h => hp h.symm
    · rw [hking]; unfold ownKing; split_ifs <;> decide
  revert h
  unfold rivalPlayerThreateningPosition
  simp only [hcp, Bool.or_eq_true]
  cases hp : g.currentPlayer <;> simp only [hp, reduceCtorEq, ↓reduceIte] <;>
    rw [hp] at hmono <;>
    repeat' (first
      | exact hmono _ (by decide)
      | apply Or.imp)

/-- C5. Castle legality.  For a state whose king-position fields agree with the board and in
which a true castling flag implies king and rook on their home squares, and a castle move
whose `srcPiece` (the piece on its source square) is a rook of the side to move:
`legalCastle` accepts exactly when (1) the status is not in-check, (2) the source is that
side's first-rank left corner with the left flag true or its right corner with the right
flag true, and (3) every column strictly between the rook and the king is empty on that
rank and not threatened by the opponent once the king is placed on it.  In particular, with
the right flag true and the status not in-check, the castle from the right corner is
rejected when column 5 or column 6 of the first rank is threatened, on the current board or
with the king placed there. -/
theorem C5_legalCastle_iff (g : SPChessGame) (m : Move)
    (hk : kingFieldsAgree g) (hc : castleHome g)
    (hrook : m.srcPiece = ownRook g.currentPlayer) :
    ((legalCastle g m).1 = true ↔
      g.status ≠ GAME_NOT_FINISHED_CHECK
      ∧ ((m.srcRow = ownFirstRow g.currentPlayer ∧ m.srcCol = LEFT_ROOK_COL
            ∧ ownLeftCastle g = true)
          ∨ (m.srcRow = ownFirstRow g.currentPlayer ∧ m.srcCol = RIGHT_ROOK_COL
            ∧ ownRightCastle g = true))
      ∧ ∀ col : Int, strictlyBetween m.srcCol (ownKingCol g) col → routeSquareSafe g col)
    ∧ (g.status ≠ GAME_NOT_FINISHED_CHECK → ownRightCastle g = true →
        m.srcRow = ownFirstRow g.currentPlayer → m.srcCol = RIGHT_ROOK_COL →
        (rivalPlayerThreateningPosition g (ownFirstRow g.currentPlayer) 5 = true
          ∨ rivalPlayerThreateningPosition g (ownFirstRow g.currentPlayer) 6 = true
          ∨ rivalPlayerThreateningPosition (kingPlacedOn g 5) (ownFirstRow g.currentPlayer) 5 = true
          ∨ rivalPlayerThreateningPosition (kingPlacedOn g 6) (ownFirstRow g.currentPlayer) 6 = true) →
        (legalCastle g m).1 = false) := by
  have hv := legalCastle_verdict g m hk hc hrook
  refine ⟨hv, ?_⟩
  intro _ hflag _ hcol hthreat
  by_contra hlegal
  simp only [Bool.not_eq_false] at hlegal
  obtain ⟨_, _, hroute⟩ := hv.1 hlegal
  obtain ⟨hkc, hkb⟩ := ownKing_home g hk hc (Or.inr hflag)
  have h5 := hroute 5 (by rw [hcol, hkc]; right; decide)
  have h6 := hroute 6 (by rw [hcol, hkc]; right; decide)
  rcases hthreat with h | h | h | h
  · have := threatened_kingPlacedOn g 5 hkb h5.1 h
    rw [h5.2] at this; exact Bool.false_ne_true this
  · have := threatened_kingPlacedOn g 6 hkb h6.1 h
    rw [h6.2] at this; exact Bool.false_ne_true this
  · rw [h5.2] at h; exact Bool.false_ne_true h
  · rw [h6.2] at h; exact Bool.false_ne_true h

/-- C5 at a concrete input: in `castleGame` the hypotheses hold, the castle with the h1 rook
is rejected because f1 is attacked, and the castle with the a1 rook is accepted. -/
theorem C5_legalCastle_iff_witness :
    kingFieldsAgree castleGame ∧ castleHome castleGame
    ∧ castleRightMove.srcPiece = ownRook castleGame.currentPlayer
    ∧ rivalPlayerThreateningPosition castleGame (ownFirstRow castleGame.currentPlayer) 5 = true
    ∧ (legalCastle castleGame castleRightMove).1 = false
    ∧ (legalCastle castleGame castleLeftMove).1 = true :=
  ⟨by decide!, by decide!, by decide!, by decide!,
    (C5_legalCastle_iff castleGame castleRightMove (by decide!) (by decide!) (by decide!)).2
      (by decide!) (by decide!) (by decide!) (by decide!) (Or.inl (by decide!)),
    by decide!⟩

/-! ## A rejected move leaves the game as it was -/

theorem castleConsistent_of (g : SPChessGame) (hk : kingFieldsAgree g) (hc : castleHome g) :
    castleConsistent g := by
  obtain ⟨_, _, hw, hb⟩ := hk
  obtain ⟨h1, h2, h3, h4⟩ := hc
  constructor
  · intro hf
    have hking : g.board WHITE_FIRST_ROW KING_COL = WHITE_KING := by
      rcases hf with hf | hf
      · exact (h1 hf).1
      · exact (h2 hf).1
    have := (hw WHITE_FIRST_ROW KING_COL (by decide)).1 hking
    rw [← this.2]; exact hking
  · intro hf
    have hking : g.board BLACK_FIRST_ROW KING_COL = BLACK_KING := by
      rcases hf with hf | hf
      · exact (h3 hf).1
      · exact (h4 hf).1
    have := (hb BLACK_FIRST_ROW KING_COL (by decide)).1 hking
    rw [← this.2]; exact hking

theorem changePlayerAndUpdateStatus_msg (env : Env) (g : SPChessGame) :
    (changePlayerAndUpdateStatus env g).1 = SP_CHESS_GAME_SUCCESS
      ∨ (changePlayerAndUpdateStatus env g).1 = SP_CHESS_GAME_MEMORY_FAILURE := by
  unfold changePlayerAndUpdateStatus
  simp only
  split_ifs <;> simp

theorem updatesAfterSettingMove_msg (env : Env) (g : SPChessGame) (m : Move) (mm : Bool) :
    (updatesAfterSettingMove env g m mm).1 = SP_CHESS_GAME_SUCCESS
      ∨ (updatesAfterSettingMove env g m mm).1 = SP_CHESS_GAME_MEMORY_FAILURE := by
  unfold updatesAfterSettingMove
  simp only
  by_cases hp : m.pawnPromotion = true
  · simp [hp]
  · simp only [Bool.not_eq_true] at hp
    simp only [hp, Bool.not_false, ↓reduceIte]
    exact changePlayerAndUpdateStatus_msg _ _

/-- C8. A rejected move changes nothing.  For a state whose king-position fields agree with
the board and in which a true castling flag implies king and rook on their home squares,
and for every move: when `spChessGameSetMove game move false false` answers
INVALID_ARGUMENT, INVALID_POSITION, CASTLE_NO_ROOK, ILLEGAL_CASTLE_MOVE or ILLEGAL_MOVE, the
game it leaves behind (board, castling flags, king positions, armies, current player,
status and history) is the game it was given; and the simulations of `legalRegularMove`
(on the move with `srcPiece` read from the board, as `spChessGameSetMove` passes it) and of
`legalCastle` / `legalCastleRoute` leave the game as it was. -/
theorem C8_rejected_move_changes_nothing (env : Env) (g : SPChessGame) (m : Move)
    (hk : kingFieldsAgree g) (hc : castleHome g) :
    (isRejection (spChessGameSetMove env g m false false).1 →
      (spChessGameSetMove env g m false false).2.1 = g)
    ∧ (legalRegularMove g { m with srcPiece := g.board m.srcRow m.srcCol }).2.1 = g
    ∧ (legalCastle g m).2 = g := by
  have hcc := castleConsistent_of g hk hc
  refine ⟨?_, legalRegularMove_game _ _ rfl, legalCastle_game _ _ hcc⟩
  unfold spChessGameSetMove isRejection
  simp only
  split_ifs with h1 h2 h3 h4 h5 h6 h7 h8
  all_goals first
    | (intro _; rfl)
    | (intro _; exact legalCastle_game _ _ hcc)
    | (intro h
       rcases updatesAfterSettingMove_msg env _ _ false with h' | h' <;>
         rw [h'] at h <;> simp at h)
    | (intro h; simp at h; done)
    | (intro _; apply legalRegularMove_game; rfl)
    | (intro _; simp_all)

/-- C8 at a concrete input: in `castleGame` the command to castle with the h1 rook is
refused as an illegal castle and the game is unchanged. -/
theorem C8_rejected_move_changes_nothing_witness :
    kingFieldsAgree castleGame ∧ castleHome castleGame
    ∧ (spChessGameSetMove sampleEnv castleGame castleRightCommand false false).1
        = SP_CHESS_GAME_ILLEGAL_CASTLE_MOVE
    ∧ (spChessGameSetMove sampleEnv castleGame castleRightCommand false false).2.1
        = castleGame :=
  ⟨by decide!, by decide!, by decide!,
    (C8_rejected_move_changes_nothing sampleEnv castleGame castleRightCommand
      (by decide!) (by decide!)).1 (Or.inr (Or.inr (Or.inr (Or.inl (by decide!)))))⟩

/-! ## The capacity of a move list never changes -/

theorem spArrayListAddAt_maxSize (l : SPArrayList) (e : Move) (i : Int) :
    (spArrayListAddAt l e i).1.maxSize = l.maxSize := by
  unfold spArrayListAddAt; split_ifs <;> rfl

theorem spArrayListAddLast_maxSize (l : SPArrayList) (e : Move) :
    (spArrayListAddLast l e).1.maxSize = l.maxSize := spArrayListAddAt_maxSize _ _ _

theorem spArrayListRemoveAt_maxSize (l : SPArrayList) (i : Int) :
    (spArrayListRemoveAt l i).1.maxSize = l.maxSize := by
  unfold spArrayListRemoveAt; split_ifs <;> rfl

theorem addPawnPromotionsMoves_maxSize (l : SPArrayList) (m : Move) (p : Player) :
    (addPawnPromotionsMoves l m p).maxSize = l.maxSize := by
  unfold addPawnPromotionsMoves
  simp only [spArrayListAddLast_maxSize]

theorem addPieceMove_maxSize (env : Env) (g : SPChessGame) (l : SPArrayList)
    (sr sc dr dc : Int) (castle mm : Bool) :
    (addPieceMove env g l sr sc dr dc castle mm).2.maxSize = l.maxSize := by
  unfold addPieceMove
  simp only
  split_ifs <;> simp only [spArrayListAddLast_maxSize, addPawnPromotionsMoves_maxSize]

theorem getPossiblePawnMoves_maxSize (env : Env) (g : SPChessGame) (l : SPArrayList)
    (sr sc : Int) (mm : Bool) :
    (getPossiblePawnMoves env g l sr sc mm).2.maxSize = l.maxSize := by
  unfold getPossiblePawnMoves
  simp only
  split_ifs <;> simp only [addPieceMove_maxSize]

theorem getPossibleKnightMoves_maxSize (env : Env) (g : SPChessGame) (l : SPArrayList)
    (sr sc : Int) : (getPossibleKnightMoves env g l sr sc).2.maxSize = l.maxSize := by
  unfold getPossibleKnightMoves
  simp only [addPieceMove_maxSize]

theorem getDirectionalMovesLoop_maxSize (env : Env) (sr sc dr dc : Int) (n : Nat) :
    ∀ (g : SPChessGame) (l : SPArrayList) (r c : Int) (p : Piece),
      (getDirectionalMovesLoop env sr sc dr dc n g l r c p).2.1.maxSize = l.maxSize := by
  induction n with
  | zero => intro g l r c p; rfl
  | succ n ih =>
    intro g l r c p
    unfold getDirectionalMovesLoop
    simp only
    split_ifs
    · rfl
    · rfl
    · rw [ih]; exact addPieceMove_maxSize _ _ _ _ _ _ _ _ _

theorem getDirectionalMoves_maxSize (env : Env) (g : SPChessGame) (l : SPArrayList)
    (sr sc dr dc : Int) : (getDirectionalMoves env g l sr sc dr dc).2.maxSize = l.maxSize := by
  unfold getDirectionalMoves
  simp only
  split_ifs
  · rw [addPieceMove_maxSize]; exact getDirectionalMovesLoop_maxSize _ _ _ _ _ _ _ _ _ _ _
  · exact getDirectionalMovesLoop_maxSize _ _ _ _ _ _ _ _ _ _ _

theorem sortMovesPass_maxSize (n : Nat) :
    ∀ (l : SPArrayList) (j : Int) (b : Bool), (sortMovesPass n l j b).1.maxSize = l.maxSize := by
  induction n with
  | zero => intro l j b; rfl
  | succ n ih =>
    intro l j b
    unfold sortMovesPass
    split
    · split_ifs
      · rw [ih, spArrayListAddAt_maxSize, spArrayListRemoveAt_maxSize]
      · rw [ih]
    · rfl

theorem sortMovesLoop_maxSize (amt : Int) (n : Nat) :
    ∀ (l : SPArrayList), (sortMovesLoop amt n l).maxSize = l.maxSize := by
  induction n with
  | zero => intro l; rfl
  | succ n ih =>
    intro l
    unfold sortMovesLoop
    simp only
    split_ifs
    · exact sortMovesPass_maxSize _ _ _ _
    · rw [ih]; exact sortMovesPass_maxSize _ _ _ _

theorem sortMoves_maxSize (l : SPArrayList) (amt : Int) : (sortMoves l amt).maxSize = l.maxSize :=
  sortMovesLoop_maxSize _ _ _

theorem getPossibleBishopOrQueenMoves_maxSize (env : Env) (g : SPChessGame) (l : SPArrayList)
    (sr sc : Int) (sort : Bool) :
    (getPossibleBishopOrQueenMoves env g l sr sc sort).2.maxSize = l.maxSize := by
  unfold getPossibleBishopOrQueenMoves
  simp only
  split_ifs <;> simp only [sortMoves_maxSize, getDirectionalMoves_maxSize]

theorem getPossibleRookOrQueenMoves_maxSize (env : Env) (g : SPChessGame) (l : SPArrayList)
    (sr sc : Int) (sort : Bool) :
    (getPossibleRookOrQueenMoves env g l sr sc sort).2.maxSize = l.maxSize := by
  unfold getPossibleRookOrQueenMoves
  simp only
  split_ifs <;>
    simp only [addPieceMove_maxSize, sortMoves_maxSize, getDirectionalMoves_maxSize]

theorem getPossibleKingCastleMoves_maxSize (env : Env) (g : SPChessGame) (l : SPArrayList)
    (p : Piece) (row : Int) :
    (getPossibleKingCastleMoves env g l p row).2.maxSize = l.maxSize := by
  unfold getPossibleKingCastleMoves
  simp only
  split_ifs <;> simp only [addPieceMove_maxSize]

theorem getPossibleKingMoves_maxSize (env : Env) (g : SPChessGame) (l : SPArrayList)
    (sr sc : Int) : (getPossibleKingMoves env g l sr sc).2.maxSize = l.maxSize := by
  unfold getPossibleKingMoves
  simp only
  split_ifs <;> simp only [getPossibleKingCastleMoves_maxSize, addPieceMove_maxSize]

theorem getPossiblePieceMoves_maxSize (env : Env) (g : SPChessGame) (l : SPArrayList)
    (sr sc : Int) (p : Piece) (sort mm : Bool) :
    (getPossiblePieceMoves env g l sr sc p sort mm).2.2.maxSize = l.maxSize := by
  unfold getPossiblePieceMoves
  cases p <;>
    simp only [getPossiblePawnMoves_maxSize, getPossibleKnightMoves_maxSize,
      getPossibleBishopOrQueenMoves_maxSize, getPossibleRookOrQueenMoves_maxSize,
      getPossibleKingMoves_maxSize]

/-! ## The status computed by `getGameStatus` -/

theorem SPArrayList.eq_of (l l2 : SPArrayList) (h1 : l.elements = l2.elements)
    (h2 : l.maxSize = l2.maxSize) : l = l2 := by
  cases l; cases l2; simp_all

theorem spArrayListIsEmpty_iff (l : SPArrayList) :
    spArrayListIsEmpty l = true ↔ l.elements = [] := by
  simp [spArrayListIsEmpty, spArrayListSize]

theorem getGameStatusCols_stop (env : Env) (row : Int) (cols : List Int) (g : SPChessGame)
    (l : SPArrayList) : getGameStatusCols env row cols g l true = (g, l, true) := by
  cases cols <;> simp [getGameStatusCols]

theorem getGameStatusRows_stop (env : Env) (rows : List Int) (g : SPChessGame)
    (l : SPArrayList) : getGameStatusRows env rows g l true = (g, l, true) := by
  cases rows <;> simp [getGameStatusRows]

theorem getGameStatusCols_maxSize (env : Env) (row : Int) (cols : List Int) :
    ∀ (g : SPChessGame) (l : SPArrayList) (t : Bool),
      (getGameStatusCols env row cols g l t).2.1.maxSize = l.maxSize := by
  induction cols with
  | nil => intro g l t; rfl
  | cons col cols ih =>
    intro g l t
    unfold getGameStatusCols
    simp only
    split_ifs
    · rfl
    · exact ih _ _ _
    · rw [ih]; exact getPossiblePieceMoves_maxSize _ _ _ _ _ _ _ _

/-- The column loop of `getGameStatus`, started with an empty list and the flag clear: the
flag ends up set exactly when some piece of the side to move in this row has a non-empty
move list, and otherwise the list is still the empty one. -/
theorem getGameStatusCols_spec (env : Env) (row : Int) (cols : List Int) (g : SPChessGame)
    (l : SPArrayList) (hl : l.elements = []) (hcc : castleConsistent g) :
    ((getGameStatusCols env row cols g l false).2.2 = true ↔
      ∃ col ∈ cols, currentPlayerPiece g.currentPlayer (g.board row col) = true
        ∧ spArrayListIsEmpty
            (getPossiblePieceMoves env g l row col (g.board row col) false false).2.2 = false)
    ∧ ((getGameStatusCols env row cols g l false).2.2 = false →
        (getGameStatusCols env row cols g l false).2.1 = l) := by
  induction cols with
  | nil => simp [getGameStatusCols]
  | cons col cols ih =>
    unfold getGameStatusCols
    simp only [Bool.false_eq_true, ↓reduceIte]
    by_cases hp : currentPlayerPiece g.currentPlayer (g.board row col) = true
    · simp only [hp, Bool.not_true, Bool.false_eq_true, ↓reduceIte,
        getPossiblePieceMoves_game _ _ _ _ _ _ _ _ hcc]
      by_cases he : spArrayListIsEmpty
          (getPossiblePieceMoves env g l row col (g.board row col) false false).2.2 = true
      · have hel : (getPossiblePieceMoves env g l row col (g.board row col) false false).2.2 = l := by
          apply SPArrayList.eq_of
          · rw [(spArrayListIsEmpty_iff _).1 he, hl]
          · exact getPossiblePieceMoves_maxSize _ _ _ _ _ _ _ _
        have hel2 : spArrayListIsEmpty l = true := by rw [← hel]; exact he
        simp only [hel, hel2, Bool.not_true]
        refine ⟨?_, ih.2⟩
        rw [ih.1]
        constructor
        · rintro ⟨c, hc, h⟩
          exact ⟨c, List.mem_cons_of_mem _ hc, h⟩
        · rintro ⟨c, hc, h⟩
          rcases List.mem_cons.1 hc with rfl | hc
          · have h2 := h.2; rw [hel, hel2] at h2; exact absurd h2 (by simp)
          · exact ⟨c, hc, h⟩
      · simp only [Bool.not_eq_true] at he
        simp only [he, Bool.not_false, getGameStatusCols_stop]
        refine ⟨?_, by simp⟩
        simp only [true_iff]
        exact ⟨col, List.mem_cons_self _ _, hp, he⟩
    · simp only [Bool.not_eq_true] at hp
      simp only [hp, Bool.not_false, ↓reduceIte]
      refine ⟨?_, ih.2⟩
      rw [ih.1]
      constructor
      · rintro ⟨c, hc, h⟩
        exact ⟨c, List.mem_cons_of_mem _ hc, h⟩
      · rintro ⟨c, hc, h⟩
        rcases List.mem_cons.1 hc with rfl | hc
        · rw [hp] at h; exact absurd h.1 (by simp)
        · exact ⟨c, hc, h⟩

theorem getGameStatusRows_spec (env : Env) (rows : List Int) (g : SPChessGame)
    (l : SPArrayList) (hl : l.elements = []) (hcc : castleConsistent g) :
    ((getGameStatusRows env rows g l false).2.2 = true ↔
      ∃ row ∈ rows, ∃ col ∈ [0, 1, 2, 3, 4, 5, 6, 7],
        currentPlayerPiece g.currentPlayer (g.board row col) = true
        ∧ spArrayListIsEmpty
            (getPossiblePieceMoves env g l row col (g.board row col) false false).2.2 = false) := by
  induction rows with
  | nil => simp [getGameStatusRows]
  | cons row rows ih =>
    unfold getGameStatusRows
    simp only [Bool.false_eq_true, ↓reduceIte, getGameStatusCols_game _ _ _ _ _ _ hcc]
    have hcols := getGameStatusCols_spec env row [0, 1, 2, 3, 4, 5, 6, 7] g l hl hcc
    have hclear : spArrayListClear (getGameStatusCols env row [0, 1, 2, 3, 4, 5, 6, 7] g l false).2.1
        = l := by
      apply SPArrayList.eq_of
      · simp [spArrayListClear, hl]
      · simp [spArrayListClear, getGameStatusCols_maxSize]
    rw [hclear]
    by_cases ht : (getGameStatusCols env row [0, 1, 2, 3, 4, 5, 6, 7] g l false).2.2 = true
    · rw [ht, getGameStatusRows_stop]
      simp only [true_iff]
      exact ⟨row, List.mem_cons_self _ _, hcols.1.1 ht⟩
    · simp only [Bool.not_eq_true] at ht
      rw [ht, ih]
      constructor
      · rintro ⟨r, hr, h⟩
        exact ⟨r, List.mem_cons_of_mem _ hr, h⟩
      · rintro ⟨r, hr, h⟩
        rcases List.mem_cons.1 hr with rfl | hr
        · have := hcols.1.2 h; rw [ht] at this; exact absurd this (by simp)
        · exact ⟨r, hr, h⟩

theorem hasLegalMove_iff (env : Env) (g : SPChessGame) :
    hasLegalMove env g ↔
      ∃ row ∈ [(0 : Int), 1, 2, 3, 4, 5, 6, 7], ∃ col ∈ [(0 : Int), 1, 2, 3, 4, 5, 6, 7],
        currentPlayerPiece g.currentPlayer (g.board row col) = true
        ∧ spArrayListIsEmpty (pieceMoveList env g row col) = false := by
  unfold hasLegalMove boardSquares
  constructor
  · rintro ⟨p, hp, h⟩
    simp only [List.mem_flatMap, List.mem_map] at hp
    obtain ⟨r, hr, c, hc, rfl⟩ := hp
    exact ⟨r, hr, c, hc, h⟩
  · rintro ⟨r, hr, c, hc, h⟩
    refine ⟨(r, c), ?_, h⟩
    simp only [List.mem_flatMap, List.mem_map]
    exact ⟨r, hr, c, hc, rfl⟩

/-- The status `getGameStatus` computes, in closed form, for a state on which the castle
simulation restores the board. -/
theorem getGameStatus_classify (env : Env) (g : SPChessGame) (kingRow kingCol : Int)
    (hcap : 0 < env.MAX_MOVES_FOR_PIECE) (hcc : castleConsistent g) :
    (getGameStatus env g kingRow kingCol).1 =
      classifyStatus g.currentPlayer (rivalPlayerThreateningPosition g kingRow kingCol)
        (decide (hasLegalMove env g)) := by
  unfold getGameStatus
  have hcreate : spArrayListCreate env.MAX_MOVES_FOR_PIECE = some (emptyMoveList env) := by
    unfold spArrayListCreate emptyMoveList
    simp [not_le.2 hcap]
  simp only [hcreate]
  have hrows := getGameStatusRows_spec env [0, 1, 2, 3, 4, 5, 6, 7] g (emptyMoveList env) rfl hcc
  have hiff : (getGameStatusRows env [0, 1, 2, 3, 4, 5, 6, 7] g (emptyMoveList env) false).2.2 = true
      ↔ hasLegalMove env g := by
    rw [hrows, hasLegalMove_iff]; rfl
  simp only [getGameStatusRows_game _ _ _ _ _ hcc]
  unfold classifyStatus
  by_cases hm : hasLegalMove env g
  · simp only [hiff.2 hm, hm, decide_True, ↓reduceIte]
    split_ifs <;> rfl
  · have : (getGameStatusRows env [0, 1, 2, 3, 4, 5, 6, 7] g (emptyMoveList env) false).2.2 = false := by
      by_contra h; simp only [Bool.not_eq_false] at h; exact hm (hiff.1 h)
    simp only [this, hm, decide_False, Bool.false_eq_true, ↓reduceIte]
    split_ifs <;> rfl

set_option maxHeartbeats 4000000 in
/-- C6, as stated, fails on a state with a stale castling flag.  In `staleFlagGame` the king
square e2 of the side to move holds its king and is threatened, and no piece of the side to
move has a legal move, so the claim asks for BLACK_PLAYER_WINS; but while generating the
moves of the rook a1, `legalCastleRoute` writes a white king onto e1 (it "restores" the
king to the recorded column of the first rank), that king has a move, and `getGameStatus`
answers GAME_NOT_FINISHED_CHECK. -/
theorem C6_status_classification_counterexample :
    staleFlagGame.board 1 4 = WHITE_KING
    ∧ rivalPlayerThreateningPosition staleFlagGame 1 4 = true
    ∧ ¬ hasLegalMove sampleEnv staleFlagGame
    ∧ (getGameStatus sampleEnv staleFlagGame 1 4).1 = GAME_NOT_FINISHED_CHECK
    ∧ (getGameStatus sampleEnv staleFlagGame 1 4).1
        ≠ classifyStatus staleFlagGame.currentPlayer
            (rivalPlayerThreateningPosition staleFlagGame 1 4)
            (decide (hasLegalMove sampleEnv staleFlagGame))
    ∧ (getGameStatus sampleEnv staleFlagGame 1 4).2.board 0 4 = WHITE_KING
    ∧ staleFlagGame.board 0 4 = EMPTY_POSITION := by
  decide!

/-- C6, amended.  Status classification, for a state in which a true castling flag implies
that the owner's king stands on its first rank in its recorded column, and with a per-piece
list capacity that is positive (no allocation failure): for the king square
`(kingRow, kingCol)`, `getGameStatus` returns in-check when the square is threatened and
some piece of the side to move has a non-empty move list; no-check when it is not
threatened and some piece has one; the win of the other side (BLACK_PLAYER_WINS if White is
to move, WHITE_PLAYER_WINS if Black is) when it is threatened and no piece has a move; and
TIED_GAME when it is not threatened and no piece has a move. -/
theorem C6_status_classification (env : Env) (g : SPChessGame) (kingRow kingCol : Int)
    (hcap : 0 < env.MAX_MOVES_FOR_PIECE) (hcc : castleConsistent g) :
    (rivalPlayerThreateningPosition g kingRow kingCol = true → hasLegalMove env g →
      (getGameStatus env g kingRow kingCol).1 = GAME_NOT_FINISHED_CHECK)
    ∧ (rivalPlayerThreateningPosition g kingRow kingCol = false → hasLegalMove env g →
      (getGameStatus env g kingRow kingCol).1 = GAME_NOT_FINISHED_NO_CHECK)
    ∧ (rivalPlayerThreateningPosition g kingRow kingCol = true → ¬ hasLegalMove env g →
      (getGameStatus env g kingRow kingCol).1 =
        if g.currentPlayer = WHITE_PLAYER then BLACK_PLAYER_WINS else WHITE_PLAYER_WINS)
    ∧ (rivalPlayerThreateningPosition g kingRow kingCol = false → ¬ hasLegalMove env g →
      (getGameStatus env g kingRow kingCol).1 = TIED_GAME) := by
  have h := getGameStatus_classify env g kingRow kingCol hcap hcc
  refine ⟨?_, ?_, ?_, ?_⟩ <;> intro ht hm <;> rw [h] <;> simp [classifyStatus, ht, hm]

/-- C6 (amended) at a concrete input: `stalemateGame`, with only kings and one pawn each, no
legal move for Black and the black king not attacked, is classified as tied. -/
theorem C6_status_classification_witness :
    0 < sampleEnv.MAX_MOVES_FOR_PIECE ∧ castleConsistent stalemateGame
    ∧ rivalPlayerThreateningPosition stalemateGame 7 0 = false
    ∧ ¬ hasLegalMove sampleEnv stalemateGame
    ∧ (getGameStatus sampleEnv stalemateGame 7 0).1 = TIED_GAME :=
  ⟨by decide!, by decide!, by decide!, by decide!,
    (C6_status_classification sampleEnv stalemateGame 7 0 (by decide!) (by decide!)).2.2.2
      (by decide!) (by decide!)⟩

/-! ## Counting the pieces on the board -/

theorem boardSquares_nodup : boardSquares.Nodup := by decide!

theorem sum_map_update {α : Type} [DecidableEq α] (l : List α) (hnd : l.Nodup) (x : α)
    (hx : x ∈ l) (f f2 : α → Int) (h : ∀ y, y ≠ x → f2 y = f y) :
    (l.map f2).sum = (l.map f).sum - f x + f2 x := by
  induction l with
  | nil => simp at hx
  | cons a l ih =>
    simp only [List.map_cons, List.sum_cons]
    rw [List.nodup_cons] at hnd
    by_cases hax : a = x
    · subst hax
      have hsame : l.map f2 = l.map f := by
        apply List.map_congr_left
        intro y hy
        exact h y (fun e => hnd.1 (e ▸ hy))
      rw [hsame]; ring
    · have hxl : x ∈ l := by
        rcases List.mem_cons.1 hx with e | e
        · exact absurd e.symm hax
        · exact e
      rw [ih hnd.2 hxl, h a hax]; ring

/-- Writing `piece` to a square of the board moves one unit of the count from the kind that
stood there to the kind written. -/
theorem countPiece_set (b : Board) (r c : Int) (piece k : Piece)
    (hv : validPosition r c = true) :
    countPiece (b.set r c piece) k =
      countPiece b k - (if b r c = k then 1 else 0) + (if piece = k then 1 else 0) := by
  unfold countPiece
  have hmem := (validPosition_iff_mem r c).1 hv
  have := sum_map_update boardSquares boardSquares_nodup (r, c) hmem
    (fun p => if b p.1 p.2 = k then (1 : Int) else 0)
    (fun p => if (b.set r c piece) p.1 p.2 = k then (1 : Int) else 0)
    (by
      intro y hy
      have : ¬ (y.1 = r ∧ y.2 = c) := by
        rintro ⟨h1, h2⟩; apply hy; cases y; simp_all
      simp [Board.set_apply, this])
  rw [this]
  simp [Board.set_apply]

/-! ## C10: the armies after an undo -/

set_option maxHeartbeats 4000000 in
/-- What the king move h8-g8 does in `staleQueenGame`, evaluated once: the state before it,
the acceptance, the white king the status computation leaves on e1, the counters afterwards
and the square e1 after the undo. -/
theorem staleQueen_facts :
    (kingFieldsAgree staleQueenGame ∧ armiesAgree staleQueenGame
      ∧ statusAgrees sampleEnv staleQueenGame ∧ nonTerminal staleQueenGame
      ∧ ¬ castleHome staleQueenGame
      ∧ staleQueenGame.board 0 4 = WHITE_QUEEN ∧ staleQueenGame.board 7 6 = EMPTY_POSITION)
    ∧ (spChessGameSetMove sampleEnv staleQueenGame staleQueenMove false false).1
        = SP_CHESS_GAME_SUCCESS
    ∧ (spChessGameSetMove sampleEnv staleQueenGame staleQueenMove false false).2.1.board 0 4
        = WHITE_KING
    ∧ ¬ armiesAgree (spChessGameSetMove sampleEnv staleQueenGame staleQueenMove false false).2.1
    ∧ (spChessGameUndoPrevMove
        (spChessGameSetMove sampleEnv staleQueenGame staleQueenMove false false).2.1
        (spChessGameSetMove sampleEnv staleQueenGame staleQueenMove false false).2.2).2.board
          0 4
      ≠ staleQueenGame.board 0 4 := by
  decide!

set_option maxHeartbeats 4000000 in
/-- What the promotion a7-a8 does in `sampleGame`, evaluated once: the state before it, the
user's sequence and the engine's move, and the counters after the undo. -/
theorem samplePromotion_facts :
    (kingFieldsAgree sampleGame ∧ castleHome sampleGame ∧ armiesAgree sampleGame
      ∧ statusAgrees sampleEnv sampleGame ∧ nonTerminal sampleGame
      ∧ (sampleGame.board 7 0 ≠ WHITE_KING ∧ sampleGame.board 7 0 ≠ BLACK_KING)
      ∧ builtByCaller sampleGame sampleEnginePromotion true)
    ∧ ((spChessGameSetMove sampleEnv sampleGame samplePromotionMove false
          false).2.2.pawnPromotion = true
      ∧ (applyUserMove sampleEnv sampleGame samplePromotionMove WHITE_QUEEN).1
          = SP_CHESS_GAME_SUCCESS
      ∧ (spChessGameUndoPrevMove
          (applyUserMove sampleEnv sampleGame samplePromotionMove WHITE_QUEEN).2.1
          (applyUserMove sampleEnv sampleGame samplePromotionMove WHITE_QUEEN).2.2).2.blackArmy
        ≠ sampleGame.blackArmy
      ∧ (undoLastMove
          (applyUserMove sampleEnv sampleGame samplePromotionMove WHITE_QUEEN).2.1).whiteArmy
        ≠ sampleGame.whiteArmy)
    ∧ (armiesAgree (applyUserMove sampleEnv sampleGame samplePromotionMove WHITE_QUEEN).2.1
      ∧ sameSquares
          (undoLastMove (applyUserMove sampleEnv sampleGame samplePromotionMove WHITE_QUEEN).2.1).board
          sampleGame.board
      ∧ (undoLastMove (applyUserMove sampleEnv sampleGame samplePromotionMove WHITE_QUEEN).2.1).whiteArmy
          = { numOfPawns := -1, numOfKnights := 1, numOfBishops := 0, numOfRooks := 0, numOfQueens := 1 }
      ∧ (undoLastMove (applyUserMove sampleEnv sampleGame samplePromotionMove WHITE_QUEEN).2.1).blackArmy
          = { numOfPawns := 1, numOfKnights := 0, numOfBishops := 0, numOfRooks := 0, numOfQueens := 0 }
      ∧ ¬ armiesAgree
          (undoLastMove (applyUserMove sampleEnv sampleGame samplePromotionMove WHITE_QUEEN).2.1)
      ∧ (spChessGameSetMove sampleEnv sampleGame sampleEnginePromotion false true).1 = SP_CHESS_GAME_SUCCESS
      ∧ armiesAgree (spChessGameSetMove sampleEnv sampleGame sampleEnginePromotion false true).2.1
      ∧ sameSquares
          (undoLastMove (spChessGameSetMove sampleEnv sampleGame sampleEnginePromotion false true).2.1).board
          sampleGame.board
      ∧ (undoLastMove (spChessGameSetMove sampleEnv sampleGame sampleEnginePromotion false true).2.1).whiteArmy
          = { numOfPawns := 0, numOfKnights := 1, numOfBishops := 0, numOfRooks := 0, numOfQueens := 0 }
      ∧ (undoLastMove (spChessGameSetMove sampleEnv sampleGame sampleEnginePromotion false true).2.1).blackArmy
          = { numOfPawns := 1, numOfKnights := 0, numOfBishops := 0, numOfRooks := 0, numOfQueens := 0 }
      ∧ ¬ armiesAgree
          (undoLastMove (spChessGameSetMove sampleEnv sampleGame sampleEnginePromotion false true).2.1)) := by
  decide!

set_option maxHeartbeats 4000000 in
/-- C10 fails for the undo of a pawn promotion.  In `sampleGame` (counters equal to the
board) the user promotes the pawn a7-a8 to a queen; the application succeeds and the
counters equal the new board.  `spChessGameUndoPrevMove` with the move stored in the
history restores the board, but it takes one more pawn from White (the stored `srcPiece` is
the pawn), keeps the queen counted, and credits a pawn to Black, the opponent: the counters
end at -1 white pawns, 1 white queen and 1 black pawn over a board with one white pawn, no
queen and no black pawn.  For the engine's form of the move the queen is taken back, but
the pawn is again credited to Black and not to White. -/
theorem C10_undo_promotion_breaks_lockstep :
    armiesAgree sampleGame
    ∧ (applyUserMove sampleEnv sampleGame samplePromotionMove WHITE_QUEEN).1 = SP_CHESS_GAME_SUCCESS
    ∧ armiesAgree (applyUserMove sampleEnv sampleGame samplePromotionMove WHITE_QUEEN).2.1
    ∧ sameSquares
        (undoLastMove (applyUserMove sampleEnv sampleGame samplePromotionMove WHITE_QUEEN).2.1).board
        sampleGame.board
    ∧ (undoLastMove (applyUserMove sampleEnv sampleGame samplePromotionMove WHITE_QUEEN).2.1).whiteArmy
        = { numOfPawns := -1, numOfKnights := 1, numOfBishops := 0, numOfRooks := 0, numOfQueens := 1 }
    ∧ (undoLastMove (applyUserMove sampleEnv sampleGame samplePromotionMove WHITE_QUEEN).2.1).blackArmy
        = { numOfPawns := 1, numOfKnights := 0, numOfBishops := 0, numOfRooks := 0, numOfQueens := 0 }
    ∧ ¬ armiesAgree
        (undoLastMove (applyUserMove sampleEnv sampleGame samplePromotionMove WHITE_QUEEN).2.1)
    ∧ (spChessGameSetMove sampleEnv sampleGame sampleEnginePromotion false true).1 = SP_CHESS_GAME_SUCCESS
    ∧ armiesAgree (spChessGameSetMove sampleEnv sampleGame sampleEnginePromotion false true).2.1
    ∧ sameSquares
        (undoLastMove (spChessGameSetMove sampleEnv sampleGame sampleEnginePromotion false true).2.1).board
        sampleGame.board
    ∧ (undoLastMove (spChessGameSetMove sampleEnv sampleGame sampleEnginePromotion false true).2.1).whiteArmy
        = { numOfPawns := 0, numOfKnights := 1, numOfBishops := 0, numOfRooks := 0, numOfQueens := 0 }
    ∧ (undoLastMove (spChessGameSetMove sampleEnv sampleGame sampleEnginePromotion false true).2.1).blackArmy
        = { numOfPawns := 1, numOfKnights := 0, numOfBishops := 0, numOfRooks := 0, numOfQueens := 0 }
    ∧ ¬ armiesAgree
        (undoLastMove (spChessGameSetMove sampleEnv sampleGame sampleEnginePromotion false true).2.1) := by
  obtain ⟨⟨-, -, h0, -⟩, ⟨-, h1, -⟩, h2⟩ := samplePromotion_facts
  exact ⟨h0, h1, h2⟩

/-! ## The state after a move has been applied -/

theorem legalRegularMove_move (g : SPChessGame) (m : Move)
    (h : (legalRegularMove g m).1 = true) : (legalRegularMove g m).2.2 = filledMove g m := by
  revert h
  unfold legalRegularMove filledMove boardAfterMove reachesLastRow
  simp only
  generalize g.board m.dstRow m.dstCol = d
  by_cases h1 : currentPlayerPiece g.currentPlayer d = true
  · simp [h1]
  · by_cases h2 : legalMovementByPieceType g { m with dstPiece := d } = true
    · by_cases hE : d = EMPTY_POSITION
      · subst hE
        by_cases hk : m.srcPiece = WHITE_KING ∨ m.srcPiece = BLACK_KING
        · have hnp : m.srcPiece ≠ WHITE_PAWN ∧ m.srcPiece ≠ BLACK_PAWN := by
            rcases hk with hk | hk <;> simp [hk]
          simp [h1, h2, hk, hnp.1, hnp.2, SPChessGame.setBoard]
        · simp only [h1, h2, hk, SPChessGame.setBoard, Bool.not_true, Bool.false_eq_true,
            ↓reduceIte, Bool.not_false, Bool.true_and, ne_eq, not_true_eq_false]
          split_ifs <;> simp_all
      · by_cases hk : m.srcPiece = WHITE_KING ∨ m.srcPiece = BLACK_KING
        · have hnp : m.srcPiece ≠ WHITE_PAWN ∧ m.srcPiece ≠ BLACK_PAWN := by
            rcases hk with hk | hk <;> simp [hk]
          simp [h1, h2, hk, hE, hnp.1, hnp.2, SPChessGame.setBoard]
        · simp only [h1, h2, hk, hE, SPChessGame.setBoard, Bool.not_true, Bool.false_eq_true,
            ↓reduceIte, Bool.not_false, Bool.true_and, ne_eq, not_false_eq_true]
          split_ifs <;> simp_all
    · simp [h1, h2]

theorem updatesAfterSettingMove_eq (env : Env) (g : SPChessGame) (m : Move) (mm : Bool) :
    updatesAfterSettingMove env g m mm =
      if !m.pawnPromotion then changePlayerAndUpdateStatus env (updatesPrefix g m mm)
      else (SP_CHESS_GAME_SUCCESS, updatesPrefix g m mm) := rfl

theorem classifyStatus_ne_failure (p : Player) (t h : Bool) :
    classifyStatus p t h ≠ MEMORY_FAILURE := by
  unfold classifyStatus; split_ifs <;> simp

theorem castleConsistent_flipPlayer (g : SPChessGame) :
    castleConsistent (flipPlayer g) ↔ castleConsistent g := Iff.rfl

/-- `changePlayerAndUpdateStatus` in closed form, on a state on which the castle simulation
restores the board: the player is flipped, the status recomputed, nothing else changes. -/
theorem changePlayerAndUpdateStatus_eq (env : Env) (g : SPChessGame)
    (hcap : 0 < env.MAX_MOVES_FOR_PIECE) (hcc : castleConsistent g) :
    changePlayerAndUpdateStatus env g =
      (SP_CHESS_GAME_SUCCESS, { flipPlayer g with status := statusOf env (flipPlayer g) }) := by
  have hcc2 : castleConsistent (flipPlayer g) := hcc
  have hA := getGameStatus_game env (flipPlayer g) g.whiteKingRow g.whiteKingCol hcc2
  have hB := getGameStatus_game env (flipPlayer g) g.blackKingRow g.blackKingCol hcc2
  have hA1 := getGameStatus_classify env (flipPlayer g) g.whiteKingRow g.whiteKingCol hcap hcc2
  have hB1 := getGameStatus_classify env (flipPlayer g) g.blackKingRow g.blackKingCol hcap hcc2
  unfold changePlayerAndUpdateStatus statusOf
  simp only
  have e : ({ g with currentPlayer := g.currentPlayer.not } : SPChessGame) = flipPlayer g := rfl
  rw [e]
  by_cases hp : g.currentPlayer.not = WHITE_PLAYER
  · have hp2 : (flipPlayer g).currentPlayer = WHITE_PLAYER := hp
    simp only [hp, hp2, ↓reduceIte, hA]
    rw [if_neg (by rw [hA1]; exact classifyStatus_ne_failure _ _ _)]
    rfl
  · have hp2 : ¬ (flipPlayer g).currentPlayer = WHITE_PLAYER := hp
    simp only [hp, hp2, ↓reduceIte, hB]
    rw [if_neg (by rw [hB1]; exact classifyStatus_ne_failure _ _ _)]
    rfl

/-- What an accepted regular move of a user (promotion flag clear on entry) went through,
and the result of `spChessGameSetMove` in terms of the move `legalRegularMove` filled in. -/
theorem setMove_regular_success (env : Env) (g : SPChessGame) (m : Move) (mm : Bool)
    (hpp : m.pawnPromotion = false) (hcm : m.castleMove = false)
    (hs : (spChessGameSetMove env g m mm false).1 = SP_CHESS_GAME_SUCCESS) :
    validPosition m.srcRow m.srcCol = true ∧ validPosition m.dstRow m.dstCol = true
    ∧ currentPlayerPiece g.currentPlayer (g.board m.srcRow m.srcCol) = true
    ∧ (legalRegularMove g (stampMove g m)).1 = true
    ∧ spChessGameSetMove env g m mm false =
        ((updatesAfterSettingMove env (setRegularMove g (filledMove g (stampMove g m)))
            (filledMove g (stampMove g m)) mm).1,
         (updatesAfterSettingMove env (setRegularMove g (filledMove g (stampMove g m)))
            (filledMove g (stampMove g m)) mm).2,
         filledMove g (stampMove g m)) := by
  obtain ⟨sr, sc, dr, dc, sp, dp, wl, wr, bl, br, cm, pp, cap, thr⟩ := m
  simp only at hpp hcm
  subst hpp hcm
  unfold spChessGameSetMove at hs ⊢
  simp only [Bool.not_false, Bool.true_and, Bool.false_eq_true, ↓reduceIte] at hs ⊢
  by_cases hv : validPosition sr sc = true
  · by_cases hd : validPosition dr dc = true
    · by_cases ho : currentPlayerPiece g.currentPlayer (g.board sr sc) = true
      · simp only [hv, hd, ho, Bool.not_true, Bool.or_self, Bool.false_eq_true, ↓reduceIte] at hs ⊢
        have e : (⟨sr, sc, dr, dc, g.board sr sc, dp, g.whiteLeftCastle, g.whiteRightCastle,
            g.blackLeftCastle, g.blackRightCastle, false, false, cap, thr⟩ : Move)
            = stampMove g ⟨sr, sc, dr, dc, sp, dp, wl, wr, bl, br, false, false, cap, thr⟩ := rfl
        simp only [e] at hs ⊢
        generalize hm1 : stampMove g ⟨sr, sc, dr, dc, sp, dp, wl, wr, bl, br, false, false, cap, thr⟩
          = m1 at hs ⊢
        have hsp : m1.srcPiece = g.board m1.srcRow m1.srcCol := by rw [← hm1]; rfl
        by_cases hl : (legalRegularMove g m1).1 = true
        · have hg : (legalRegularMove g m1).2.1 = g := legalRegularMove_game _ _ hsp
          simp only [hl, Bool.not_true, Bool.false_eq_true, ↓reduceIte, hg,
            legalRegularMove_move _ _ hl, and_self]
        · simp [hl] at hs
      · simp [hv, hd, ho] at hs
    · simp [hv, hd] at hs
  · simp [hv] at hs


/-- What an accepted castle of a user went through, and the result of `spChessGameSetMove`
in terms of `setCastleMove`, on a state on which the castle simulation restores the
board. -/
theorem setMove_castle_success (env : Env) (g : SPChessGame) (m : Move) (mm : Bool)
    (hpp : m.pawnPromotion = false) (hcm : m.castleMove = true) (hcc : castleConsistent g)
    (hs : (spChessGameSetMove env g m mm false).1 = SP_CHESS_GAME_SUCCESS) :
    validPosition m.srcRow m.srcCol = true
    ∧ currentPlayerPiece g.currentPlayer (g.board m.srcRow m.srcCol) = true
    ∧ (g.board m.srcRow m.srcCol = WHITE_ROOK ∨ g.board m.srcRow m.srcCol = BLACK_ROOK)
    ∧ (legalCastle g (stampMove g m)).1 = true
    ∧ spChessGameSetMove env g m mm false =
        ((updatesAfterSettingMove env (setCastleMove g (stampMove g m)).1
            (setCastleMove g (stampMove g m)).2 mm).1,
         (updatesAfterSettingMove env (setCastleMove g (stampMove g m)).1
            (setCastleMove g (stampMove g m)).2 mm).2,
         (setCastleMove g (stampMove g m)).2) := by
  obtain ⟨sr, sc, dr, dc, sp, dp, wl, wr, bl, br, cm, pp, cap, thr⟩ := m
  simp only at hpp hcm
  subst hpp hcm
  unfold spChessGameSetMove at hs ⊢
  simp only [Bool.not_false, Bool.not_true, Bool.true_and, Bool.false_and, Bool.or_false,
    Bool.false_eq_true, ↓reduceIte] at hs ⊢
  by_cases hv : validPosition sr sc = true
  · by_cases ho : currentPlayerPiece g.currentPlayer (g.board sr sc) = true
    · simp only [hv, ho, Bool.not_true, Bool.false_eq_true, ↓reduceIte] at hs ⊢
      have e : (⟨sr, sc, dr, dc, g.board sr sc, dp, g.whiteLeftCastle, g.whiteRightCastle,
          g.blackLeftCastle, g.blackRightCastle, true, false, cap, thr⟩ : Move)
          = stampMove g ⟨sr, sc, dr, dc, sp, dp, wl, wr, bl, br, true, false, cap, thr⟩ := rfl
      simp only [e] at hs ⊢
      generalize hm1 : stampMove g ⟨sr, sc, dr, dc, sp, dp, wl, wr, bl, br, true, false, cap, thr⟩
        = m1 at hs ⊢
      by_cases hr : g.board sr sc = WHITE_ROOK ∨ g.board sr sc = BLACK_ROOK
      · have hr2 : ¬ (g.board sr sc ≠ WHITE_ROOK ∧ g.board sr sc ≠ BLACK_ROOK) := by tauto
        simp only [hr2, ↓reduceIte, legalCastle_game _ _ hcc] at hs ⊢
        by_cases hl : (legalCastle g m1).1 = true
        · simp only [hl, Bool.not_true, Bool.false_eq_true, ↓reduceIte, and_self, hr]
        · simp [hl] at hs
      · have hr2 : (g.board sr sc ≠ WHITE_ROOK ∧ g.board sr sc ≠ BLACK_ROOK) := by tauto
        simp [hr2] at hs
    · simp [hv, ho] at hs
  · simp [hv] at hs

/-! ## Fields that the steps of an application leave alone -/

@[simp] theorem updatePiecesAmount_board (g : SPChessGame) (p : Piece) (inc : Bool) :
    (updatePiecesAmount g p inc).board = g.board := by
  cases p <;> rfl

@[simp] theorem updatePiecesAmount_currentPlayer (g : SPChessGame) (p : Piece) (inc : Bool) :
    (updatePiecesAmount g p inc).currentPlayer = g.currentPlayer := by
  cases p <;> rfl

@[simp] theorem updatePiecesAmount_whiteLeftCastle (g : SPChessGame) (p : Piece) (inc : Bool) :
    (updatePiecesAmount g p inc).whiteLeftCastle = g.whiteLeftCastle := by
  cases p <;> rfl

@[simp] theorem updatePiecesAmount_whiteRightCastle (g : SPChessGame) (p : Piece) (inc : Bool) :
    (updatePiecesAmount g p inc).whiteRightCastle = g.whiteRightCastle := by
  cases p <;> rfl

@[simp] theorem updatePiecesAmount_blackLeftCastle (g : SPChessGame) (p : Piece) (inc : Bool) :
    (updatePiecesAmount g p inc).blackLeftCastle = g.blackLeftCastle := by
  cases p <;> rfl

@[simp] theorem updatePiecesAmount_blackRightCastle (g : SPChessGame) (p : Piece) (inc : Bool) :
    (updatePiecesAmount g p inc).blackRightCastle = g.blackRightCastle := by
  cases p <;> rfl

@[simp] theorem updatePiecesAmount_whiteKingRow (g : SPChessGame) (p : Piece) (inc : Bool) :
    (updatePiecesAmount g p inc).whiteKingRow = g.whiteKingRow := by
  cases p <;> rfl

@[simp] theorem updatePiecesAmount_whiteKingCol (g : SPChessGame) (p : Piece) (inc : Bool) :
    (updatePiecesAmount g p inc).whiteKingCol = g.whiteKingCol := by
  cases p <;> rfl

@[simp] theorem updatePiecesAmount_blackKingRow (g : SPChessGame) (p : Piece) (inc : Bool) :
    (updatePiecesAmount g p inc).blackKingRow = g.blackKingRow := by
  cases p <;> rfl

@[simp] theorem updatePiecesAmount_blackKingCol (g : SPChessGame) (p : Piece) (inc : Bool) :
    (updatePiecesAmount g p inc).blackKingCol = g.blackKingCol := by
  cases p <;> rfl

@[simp] theorem updatePiecesAmount_history (g : SPChessGame) (p : Piece) (inc : Bool) :
    (updatePiecesAmount g p inc).history = g.history := by
  cases p <;> rfl

@[simp] theorem updatePiecesAmount_status (g : SPChessGame) (p : Piece) (inc : Bool) :
    (updatePiecesAmount g p inc).status = g.status := by
  cases p <;> rfl

@[simp] theorem updatesPrefix_board (g : SPChessGame) (m : Move) (mm : Bool) :
    (updatesPrefix g m mm).board = g.board := by
  unfold updatesPrefix
  simp only
  split_ifs <;> simp

@[simp] theorem updatesPrefix_currentPlayer (g : SPChessGame) (m : Move) (mm : Bool) :
    (updatesPrefix g m mm).currentPlayer = g.currentPlayer := by
  unfold updatesPrefix
  simp only
  split_ifs <;> simp

@[simp] theorem updatesPrefix_whiteKingRow (g : SPChessGame) (m : Move) (mm : Bool) :
    (updatesPrefix g m mm).whiteKingRow = g.whiteKingRow := by
  unfold updatesPrefix
  simp only
  split_ifs <;> simp

@[simp] theorem updatesPrefix_whiteKingCol (g : SPChessGame) (m : Move) (mm : Bool) :
    (updatesPrefix g m mm).whiteKingCol = g.whiteKingCol := by
  unfold updatesPrefix
  simp only
  split_ifs <;> simp

@[simp] theorem updatesPrefix_blackKingRow (g : SPChessGame) (m : Move) (mm : Bool) :
    (updatesPrefix g m mm).blackKingRow = g.blackKingRow := by
  unfold updatesPrefix
  simp only
  split_ifs <;> simp

@[simp] theorem updatesPrefix_blackKingCol (g : SPChessGame) (m : Move) (mm : Bool) :
    (updatesPrefix g m mm).blackKingCol = g.blackKingCol := by
  unfold updatesPrefix
  simp only
  split_ifs <;> simp

@[simp] theorem updatesPrefix_status (g : SPChessGame) (m : Move) (mm : Bool) :
    (updatesPrefix g m mm).status = g.status := by
  unfold updatesPrefix
  simp only
  split_ifs <;> simp

theorem updatesPrefix_whiteArmy (g : SPChessGame) (m : Move) (mm : Bool) :
    (updatesPrefix g m mm).whiteArmy =
      (if m.dstPieceCaptured then updatePiecesAmount g m.dstPiece false else g).whiteArmy := by
  unfold updatesPrefix
  simp only
  split_ifs <;> simp

theorem updatesPrefix_blackArmy (g : SPChessGame) (m : Move) (mm : Bool) :
    (updatesPrefix g m mm).blackArmy =
      (if m.dstPieceCaptured then updatePiecesAmount g m.dstPiece false else g).blackArmy := by
  unfold updatesPrefix
  simp only
  split_ifs <;> simp

@[simp] theorem setRegularMove_currentPlayer (g : SPChessGame) (m : Move) :
    (setRegularMove g m).currentPlayer = g.currentPlayer := by
  unfold setRegularMove
  simp only
  split <;> rfl

@[simp] theorem setRegularMove_whiteArmy (g : SPChessGame) (m : Move) :
    (setRegularMove g m).whiteArmy = g.whiteArmy := by
  unfold setRegularMove
  simp only
  split <;> rfl

@[simp] theorem setRegularMove_blackArmy (g : SPChessGame) (m : Move) :
    (setRegularMove g m).blackArmy = g.blackArmy := by
  unfold setRegularMove
  simp only
  split <;> rfl

@[simp] theorem setRegularMove_history (g : SPChessGame) (m : Move) :
    (setRegularMove g m).history = g.history := by
  unfold setRegularMove
  simp only
  split <;> rfl

@[simp] theorem setRegularMove_status (g : SPChessGame) (m : Move) :
    (setRegularMove g m).status = g.status := by
  unfold setRegularMove
  simp only
  split <;> rfl

@[simp] theorem setRegularMove_board (g : SPChessGame) (m : Move) :
    (setRegularMove g m).board =
      (g.board.set m.srcRow m.srcCol EMPTY_POSITION).set m.dstRow m.dstCol m.srcPiece := by
  unfold setRegularMove
  simp only
  split <;> rfl

/-! ## Counters and castling flags after a move -/

theorem armiesAgree_iff (g : SPChessGame) :
    armiesAgree g ↔ ∀ k, counted k = true → counterOf g k = countPiece g.board k := by
  constructor
  · rintro ⟨h1, h2, h3, h4, h5, h6, h7, h8, h9, h10⟩ k hk
    cases k <;> first | exact absurd hk (by decide) | assumption
  · intro h
    exact ⟨h WHITE_PAWN rfl, h WHITE_KNIGHT rfl, h WHITE_BISHOP rfl, h WHITE_ROOK rfl,
      h WHITE_QUEEN rfl, h BLACK_PAWN rfl, h BLACK_KNIGHT rfl, h BLACK_BISHOP rfl,
      h BLACK_ROOK rfl, h BLACK_QUEEN rfl⟩

theorem counterOf_updatePiecesAmount (g : SPChessGame) (p k : Piece) (inc : Bool)
    (hk : counted k = true) :
    counterOf (updatePiecesAmount g p inc) k =
      counterOf g k + (if p = k then (if inc then 1 else -1) else 0) := by
  cases inc <;> cases p <;> cases k <;>
    first
    | exact absurd hk (by decide)
    | (simp [updatePiecesAmount, counterOf, bump]; omega)
    | simp [updatePiecesAmount, counterOf, bump]

/-- The counters depend on the two armies only. -/
theorem counterOf_congr (g g2 : SPChessGame) (hw : g2.whiteArmy = g.whiteArmy)
    (hb : g2.blackArmy = g.blackArmy) (k : Piece) : counterOf g2 k = counterOf g k := by
  cases k <;> simp [counterOf, hw, hb]


/-- The counters and the board after the two writes of a regular move and the accounting
of the capture: the counters agree with the new board again. -/
theorem armiesAgree_move (g g2 : SPChessGame) (sr sc dr dc : Int) (cap : Bool)
    (hag : armiesAgree g) (hsv : validPosition sr sc = true) (hdv : validPosition dr dc = true)
    (hne : ¬ (dr = sr ∧ dc = sc)) (hcap : g.board dr dc ≠ EMPTY_POSITION → cap = true)
    (hb : g2.board = (g.board.set sr sc EMPTY_POSITION).set dr dc (g.board sr sc))
    (hw : g2.whiteArmy = (if cap then updatePiecesAmount g (g.board dr dc) false else g).whiteArmy)
    (hbl : g2.blackArmy = (if cap then updatePiecesAmount g (g.board dr dc) false else g).blackArmy) :
    armiesAgree g2 := by
  rw [armiesAgree_iff] at hag ⊢
  intro k hk
  rw [counterOf_congr _ _ hw hbl, hb, countPiece_set _ _ _ _ _ hdv, countPiece_set _ _ _ _ _ hsv,
    ← hag k hk]
  have hE : EMPTY_POSITION ≠ k := by rintro rfl; exact absurd hk (by decide)
  simp only [Board.set_apply, hne, ↓reduceIte, hE]
  by_cases hd : g.board dr dc = k
  · have hc : cap = true := hcap (by rw [hd]; exact fun e => hE e.symm)
    simp only [hc, ↓reduceIte, counterOf_updatePiecesAmount _ _ _ _ hk, hd, Bool.false_eq_true]
    omega
  · by_cases hc : cap = true
    · simp only [hc, ↓reduceIte, counterOf_updatePiecesAmount _ _ _ _ hk, hd]
      omega
    · simp only [hc, ↓reduceIte, hd, Bool.false_eq_true]
      omega

theorem updateCastlingIndicators_le (m : Move) (p : Piece) (l r : Bool) :
    ((updateCastlingIndicators m p l r).1 = true → l = true)
    ∧ ((updateCastlingIndicators m p l r).2 = true → r = true) := by
  unfold updateCastlingIndicators
  simp only
  split_ifs <;> simp_all

theorem setRegularMove_whiteLeftCastle_le (g : SPChessGame) (m : Move)
    (h : (setRegularMove g m).whiteLeftCastle = true) : g.whiteLeftCastle = true := by
  revert h
  unfold setRegularMove
  simp only
  split <;> first
    | exact id
    | exact (updateCastlingIndicators_le _ _ _ _).1
    | exact (updateCastlingIndicators_le _ _ _ _).2
    | (intro h; simp at h)

theorem updatePrefix_whiteLeftCastle_le (g : SPChessGame) (m : Move) (mm : Bool)
    (h : (updatesPrefix g m mm).whiteLeftCastle = true) : g.whiteLeftCastle = true := by
  revert h
  unfold updatesPrefix
  simp only
  split_ifs <;> first
    | exact id
    | (simp only [updatePiecesAmount_whiteLeftCastle]; exact id)
    | (simp only [updatePiecesAmount_whiteLeftCastle, updatePiecesAmount_whiteRightCastle,
        updatePiecesAmount_blackLeftCastle, updatePiecesAmount_blackRightCastle]
       first
        | exact (updateCastlingIndicators_le _ _ _ _).1
        | exact (updateCastlingIndicators_le _ _ _ _).2)

theorem setRegularMove_whiteRightCastle_le (g : SPChessGame) (m : Move)
    (h : (setRegularMove g m).whiteRightCastle = true) : g.whiteRightCastle = true := by
  revert h
  unfold setRegularMove
  simp only
  split <;> first
    | exact id
    | exact (updateCastlingIndicators_le _ _ _ _).1
    | exact (updateCastlingIndicators_le _ _ _ _).2
    | (intro h; simp at h)

theorem updatePrefix_whiteRightCastle_le (g : SPChessGame) (m : Move) (mm : Bool)
    (h : (updatesPrefix g m mm).whiteRightCastle = true) : g.whiteRightCastle = true := by
  revert h
  unfold updatesPrefix
  simp only
  split_ifs <;> first
    | exact id
    | (simp only [updatePiecesAmount_whiteRightCastle]; exact id)
    | (simp only [updatePiecesAmount_whiteLeftCastle, updatePiecesAmount_whiteRightCastle,
        updatePiecesAmount_blackLeftCastle, updatePiecesAmount_blackRightCastle]
       first
        | exact (updateCastlingIndicators_le _ _ _ _).1
        | exact (updateCastlingIndicators_le _ _ _ _).2)

theorem setRegularMove_blackLeftCastle_le (g : SPChessGame) (m : Move)
    (h : (setRegularMove g m).blackLeftCastle = true) : g.blackLeftCastle = true := by
  revert h
  unfold setRegularMove
  simp only
  split <;> first
    | exact id
    | exact (updateCastlingIndicators_le _ _ _ _).1
    | exact (updateCastlingIndicators_le _ _ _ _).2
    | (intro h; simp at h)

theorem updatePrefix_blackLeftCastle_le (g : SPChessGame) (m : Move) (mm : Bool)
    (h : (updatesPrefix g m mm).blackLeftCastle = true) : g.blackLeftCastle = true := by
  revert h
  unfold updatesPrefix
  simp only
  split_ifs <;> first
    | exact id
    | (simp only [updatePiecesAmount_blackLeftCastle]; exact id)
    | (simp only [updatePiecesAmount_whiteLeftCastle, updatePiecesAmount_whiteRightCastle,
        updatePiecesAmount_blackLeftCastle, updatePiecesAmount_blackRightCastle]
       first
        | exact (updateCastlingIndicators_le _ _ _ _).1
        | exact (updateCastlingIndicators_le _ _ _ _).2)

theorem setRegularMove_blackRightCastle_le (g : SPChessGame) (m : Move)
    (h : (setRegularMove g m).blackRightCastle = true) : g.blackRightCastle = true := by
  revert h
  unfold setRegularMove
  simp only
  split <;> first
    | exact id
    | exact (updateCastlingIndicators_le _ _ _ _).1
    | exact (updateCastlingIndicators_le _ _ _ _).2
    | (intro h; simp at h)

theorem updatePrefix_blackRightCastle_le (g : SPChessGame) (m : Move) (mm : Bool)
    (h : (updatesPrefix g m mm).blackRightCastle = true) : g.blackRightCastle = true := by
  revert h
  unfold updatesPrefix
  simp only
  split_ifs <;> first
    | exact id
    | (simp only [updatePiecesAmount_blackRightCastle]; exact id)
    | (simp only [updatePiecesAmount_whiteLeftCastle, updatePiecesAmount_whiteRightCastle,
        updatePiecesAmount_blackLeftCastle, updatePiecesAmount_blackRightCastle]
       first
        | exact (updateCastlingIndicators_le _ _ _ _).1
        | exact (updateCastlingIndicators_le _ _ _ _).2)

theorem setRegularMove_white_king (g : SPChessGame) (m : Move) :
    (m.srcPiece = WHITE_KING →
      (setRegularMove g m).whiteLeftCastle = false ∧ (setRegularMove g m).whiteRightCastle = false
      ∧ (setRegularMove g m).whiteKingRow = m.dstRow ∧ (setRegularMove g m).whiteKingCol = m.dstCol)
    ∧ (m.srcPiece ≠ WHITE_KING →
      (setRegularMove g m).whiteKingRow = g.whiteKingRow
      ∧ (setRegularMove g m).whiteKingCol = g.whiteKingCol) := by
  unfold setRegularMove
  simp only
  split <;> simp_all [SPChessGame.setBoard]

theorem setRegularMove_black_king (g : SPChessGame) (m : Move) :
    (m.srcPiece = BLACK_KING →
      (setRegularMove g m).blackLeftCastle = false ∧ (setRegularMove g m).blackRightCastle = false
      ∧ (setRegularMove g m).blackKingRow = m.dstRow ∧ (setRegularMove g m).blackKingCol = m.dstCol)
    ∧ (m.srcPiece ≠ BLACK_KING →
      (setRegularMove g m).blackKingRow = g.blackKingRow
      ∧ (setRegularMove g m).blackKingCol = g.blackKingCol) := by
  unfold setRegularMove
  simp only
  split <;> simp_all [SPChessGame.setBoard]

/-- After a regular move that does not capture a king, a side that may still castle has its
king on its first rank in the recorded column. -/
theorem castleConsistent_regular (g : SPChessGame) (m : Move) (mm : Bool)
    (hcc : castleConsistent g) (hsp : m.srcPiece = g.board m.srcRow m.srcCol)
    (hw : g.board m.dstRow m.dstCol ≠ WHITE_KING) (hb : g.board m.dstRow m.dstCol ≠ BLACK_KING) :
    castleConsistent (updatesPrefix (setRegularMove g m) m mm) := by
  constructor
  · intro h
    have hk : m.srcPiece ≠ WHITE_KING := by
      intro hk
      have := (setRegularMove_white_king g m).1 hk
      rcases h with h | h
      · have := updatePrefix_whiteLeftCastle_le _ _ _ h; simp_all
      · have := updatePrefix_whiteRightCastle_le _ _ _ h; simp_all
    have hg : g.board WHITE_FIRST_ROW g.whiteKingCol = WHITE_KING := by
      apply hcc.1
      rcases h with h | h
      · exact Or.inl (setRegularMove_whiteLeftCastle_le _ _ (updatePrefix_whiteLeftCastle_le _ _ _ h))
      · exact Or.inr (setRegularMove_whiteRightCastle_le _ _ (updatePrefix_whiteRightCastle_le _ _ _ h))
    simp only [updatesPrefix_board, updatesPrefix_whiteKingCol, setRegularMove_board,
      ((setRegularMove_white_king g m).2 hk).2, Board.set_apply]
    have h1 : ¬ (WHITE_FIRST_ROW = m.dstRow ∧ g.whiteKingCol = m.dstCol) := by
      rintro ⟨e1, e2⟩; rw [e1, e2] at hg; exact hw hg
    have h2 : ¬ (WHITE_FIRST_ROW = m.srcRow ∧ g.whiteKingCol = m.srcCol) := by
      rintro ⟨e1, e2⟩; rw [e1, e2] at hg; exact hk (hsp.trans hg)
    simp only [h1, h2, ↓reduceIte, hg]
  · intro h
    have hk : m.srcPiece ≠ BLACK_KING := by
      intro hk
      have := (setRegularMove_black_king g m).1 hk
      rcases h with h | h
      · have := updatePrefix_blackLeftCastle_le _ _ _ h; simp_all
      · have := updatePrefix_blackRightCastle_le _ _ _ h; simp_all
    have hg : g.board BLACK_FIRST_ROW g.blackKingCol = BLACK_KING := by
      apply hcc.2
      rcases h with h | h
      · exact Or.inl (setRegularMove_blackLeftCastle_le _ _ (updatePrefix_blackLeftCastle_le _ _ _ h))
      · exact Or.inr (setRegularMove_blackRightCastle_le _ _ (updatePrefix_blackRightCastle_le _ _ _ h))
    simp only [updatesPrefix_board, updatesPrefix_blackKingCol, setRegularMove_board,
      ((setRegularMove_black_king g m).2 hk).2, Board.set_apply]
    have h1 : ¬ (BLACK_FIRST_ROW = m.dstRow ∧ g.blackKingCol = m.dstCol) := by
      rintro ⟨e1, e2⟩; rw [e1, e2] at hg; exact hb hg
    have h2 : ¬ (BLACK_FIRST_ROW = m.srcRow ∧ g.blackKingCol = m.srcCol) := by
      rintro ⟨e1, e2⟩; rw [e1, e2] at hg; exact hk (hsp.trans hg)
    simp only [h1, h2, ↓reduceIte, hg]

theorem changePlayerAndUpdateStatus_eq2 (env : Env) (g : SPChessGame)
    (hcap : 0 < env.MAX_MOVES_FOR_PIECE) (hcc : castleConsistent g) :
    changePlayerAndUpdateStatus env g = (SP_CHESS_GAME_SUCCESS, flipAndStatus env g) :=
  changePlayerAndUpdateStatus_eq env g hcap hcc

theorem armiesAgree_flipAndStatus (env : Env) (g : SPChessGame) :
    armiesAgree (flipAndStatus env g) ↔ armiesAgree g := Iff.rfl

/-- The state and the move after an accepted regular move of a user that captures no
king. -/
theorem setMove_regular_result (env : Env) (g : SPChessGame) (m : Move) (mm : Bool)
    (hcap : 0 < env.MAX_MOVES_FOR_PIECE) (hcc : castleConsistent g)
    (hpp : m.pawnPromotion = false) (hcm : m.castleMove = false)
    (hs : (spChessGameSetMove env g m mm false).1 = SP_CHESS_GAME_SUCCESS)
    (hw : g.board m.dstRow m.dstCol ≠ WHITE_KING) (hb : g.board m.dstRow m.dstCol ≠ BLACK_KING) :
    spChessGameSetMove env g m mm false =
      (SP_CHESS_GAME_SUCCESS,
        (if (filledMove g (stampMove g m)).pawnPromotion then regularPrefix g m mm
         else flipAndStatus env (regularPrefix g m mm)),
        filledMove g (stampMove g m)) := by
  obtain ⟨-, -, -, -, e⟩ := setMove_regular_success env g m mm hpp hcm hs
  rw [e, updatesAfterSettingMove_eq]
  have hc : castleConsistent (regularPrefix g m mm) :=
    castleConsistent_regular g (filledMove g (stampMove g m)) mm hcc rfl hw hb
  by_cases hp : (filledMove g (stampMove g m)).pawnPromotion = true
  · simp only [hp, Bool.not_true, Bool.false_eq_true, ↓reduceIte, regularPrefix]
  · simp only [hp, Bool.not_false, ↓reduceIte, Bool.false_eq_true]
    have := changePlayerAndUpdateStatus_eq2 env _ hcap hc
    simp only [regularPrefix] at this
    simp only [this, regularPrefix]

theorem updatePiecesAmount_whiteArmy_congr (g g2 : SPChessGame) (p : Piece) (inc : Bool)
    (h : g2.whiteArmy = g.whiteArmy) :
    (updatePiecesAmount g2 p inc).whiteArmy = (updatePiecesAmount g p inc).whiteArmy := by
  cases p <;> simp [updatePiecesAmount, h]

theorem updatePiecesAmount_blackArmy_congr (g g2 : SPChessGame) (p : Piece) (inc : Bool)
    (h : g2.blackArmy = g.blackArmy) :
    (updatePiecesAmount g2 p inc).blackArmy = (updatePiecesAmount g p inc).blackArmy := by
  cases p <;> simp [updatePiecesAmount, h]

/-- Lockstep after an accepted regular move of a user (before a promotion is completed). -/
theorem armiesAgree_regularPrefix (g : SPChessGame) (m : Move) (mm : Bool)
    (hag : armiesAgree g)
    (hsv : validPosition m.srcRow m.srcCol = true) (hdv : validPosition m.dstRow m.dstCol = true)
    (hown : currentPlayerPiece g.currentPlayer (g.board m.srcRow m.srcCol) = true)
    (hl : (legalRegularMove g (stampMove g m)).1 = true) :
    armiesAgree (regularPrefix g m mm) := by
  have hne : ¬ (m.dstRow = m.srcRow ∧ m.dstCol = m.srcCol) := by
    rintro ⟨e1, e2⟩
    rw [legalRegularMove_verdict] at hl
    simp only [stampMove, e1, e2, hown, Bool.not_true, Bool.false_and] at hl
    exact absurd hl (by decide)
  apply armiesAgree_move g _ m.srcRow m.srcCol m.dstRow m.dstCol
    (filledMove g (stampMove g m)).dstPieceCaptured hag hsv hdv hne
  · intro h; simp [filledMove, stampMove, h]
  · simp [regularPrefix, filledMove, stampMove]
  · rw [regularPrefix, updatesPrefix_whiteArmy]
    split_ifs
    · exact updatePiecesAmount_whiteArmy_congr _ _ _ _ (setRegularMove_whiteArmy _ _)
    · exact setRegularMove_whiteArmy _ _
  · rw [regularPrefix, updatesPrefix_blackArmy]
    split_ifs
    · exact updatePiecesAmount_blackArmy_congr _ _ _ _ (setRegularMove_blackArmy _ _)
    · exact setRegularMove_blackArmy _ _

/-! ## Promotions -/

theorem spChessGameSetPawnPromotion_eq (env : Env) (g : SPChessGame) (m : Move) (c : Bool) :
    spChessGameSetPawnPromotion env g m c = changePlayerAndUpdateStatus env (promotionPrefix g m c) :=
  rfl

theorem promotionPrefix_board (g : SPChessGame) (m : Move) (c : Bool) :
    (promotionPrefix g m c).board =
      (if c then g.board.set m.srcRow m.srcCol EMPTY_POSITION else g.board).set
        m.dstRow m.dstCol m.srcPiece := by
  unfold promotionPrefix
  cases c <;> simp [SPChessGame.setBoard]

@[simp] theorem counterOf_setBoard (g : SPChessGame) (r c : Int) (p k : Piece) :
    counterOf (g.setBoard r c p) k = counterOf g k := counterOf_congr _ _ rfl rfl k

@[simp] theorem SPChessGame.setBoard_currentPlayer (g : SPChessGame) (r c : Int) (p : Piece) :
    (g.setBoard r c p).currentPlayer = g.currentPlayer := rfl

theorem promotionPrefix_counterOf (g : SPChessGame) (m : Move) (c : Bool) (k : Piece)
    (hk : counted k = true) :
    counterOf (promotionPrefix g m c) k =
      counterOf g k + (if m.srcPiece = k then 1 else 0)
        - (if ownPawn g.currentPlayer = k then 1 else 0) := by
  unfold promotionPrefix ownPawn
  simp only [counterOf_updatePiecesAmount _ _ _ _ hk, ↓reduceIte, Bool.false_eq_true]
  cases c <;> simp only [Bool.false_eq_true, ↓reduceIte, counterOf_setBoard,
    SPChessGame.setBoard_currentPlayer] <;> split_ifs <;> omega

/-- Lockstep after the completion of a user's promotion: the destination held the pawn of
the side to move and now holds the chosen piece. -/
theorem armiesAgree_promotion_user (g : SPChessGame) (m : Move) (hag : armiesAgree g)
    (hdv : validPosition m.dstRow m.dstCol = true)
    (hp : g.board m.dstRow m.dstCol = ownPawn g.currentPlayer) :
    armiesAgree (promotionPrefix g m false) := by
  rw [armiesAgree_iff] at hag ⊢
  intro k hk
  rw [promotionPrefix_counterOf _ _ _ _ hk, promotionPrefix_board, hag k hk]
  simp only [Bool.false_eq_true, ↓reduceIte, countPiece_set _ _ _ _ _ hdv, hp]
  omega

@[simp] theorem promotionPrefix_currentPlayer (g : SPChessGame) (m : Move) (c : Bool) :
    (promotionPrefix g m c).currentPlayer = g.currentPlayer := by
  unfold promotionPrefix
  cases c <;> simp [SPChessGame.setBoard]

@[simp] theorem promotionPrefix_whiteLeftCastle (g : SPChessGame) (m : Move) (c : Bool) :
    (promotionPrefix g m c).whiteLeftCastle = g.whiteLeftCastle := by
  unfold promotionPrefix
  cases c <;> simp [SPChessGame.setBoard]

@[simp] theorem promotionPrefix_whiteRightCastle (g : SPChessGame) (m : Move) (c : Bool) :
    (promotionPrefix g m c).whiteRightCastle = g.whiteRightCastle := by
  unfold promotionPrefix
  cases c <;> simp [SPChessGame.setBoard]

@[simp] theorem promotionPrefix_blackLeftCastle (g : SPChessGame) (m : Move) (c : Bool) :
    (promotionPrefix g m c).blackLeftCastle = g.blackLeftCastle := by
  unfold promotionPrefix
  cases c <;> simp [SPChessGame.setBoard]

@[simp] theorem promotionPrefix_blackRightCastle (g : SPChessGame) (m : Move) (c : Bool) :
    (promotionPrefix g m c).blackRightCastle = g.blackRightCastle := by
  unfold promotionPrefix
  cases c <;> simp [SPChessGame.setBoard]

@[simp] theorem promotionPrefix_whiteKingRow (g : SPChessGame) (m : Move) (c : Bool) :
    (promotionPrefix g m c).whiteKingRow = g.whiteKingRow := by
  unfold promotionPrefix
  cases c <;> simp [SPChessGame.setBoard]

@[simp] theorem promotionPrefix_whiteKingCol (g : SPChessGame) (m : Move) (c : Bool) :
    (promotionPrefix g m c).whiteKingCol = g.whiteKingCol := by
  unfold promotionPrefix
  cases c <;> simp [SPChessGame.setBoard]

@[simp] theorem promotionPrefix_blackKingRow (g : SPChessGame) (m : Move) (c : Bool) :
    (promotionPrefix g m c).blackKingRow = g.blackKingRow := by
  unfold promotionPrefix
  cases c <;> simp [SPChessGame.setBoard]

@[simp] theorem promotionPrefix_blackKingCol (g : SPChessGame) (m : Move) (c : Bool) :
    (promotionPrefix g m c).blackKingCol = g.blackKingCol := by
  unfold promotionPrefix
  cases c <;> simp [SPChessGame.setBoard]

@[simp] theorem promotionPrefix_history (g : SPChessGame) (m : Move) (c : Bool) :
    (promotionPrefix g m c).history = g.history := by
  unfold promotionPrefix
  cases c <;> simp [SPChessGame.setBoard]

@[simp] theorem promotionPrefix_status (g : SPChessGame) (m : Move) (c : Bool) :
    (promotionPrefix g m c).status = g.status := by
  unfold promotionPrefix
  cases c <;> simp [SPChessGame.setBoard]

/-- A game with the same castling flags and king columns, and with the kings of the first
ranks where they were, inherits the invariant of the castle simulation. -/
theorem castleConsistent_of_same (g g2 : SPChessGame) (hcc : castleConsistent g)
    (h1 : g2.whiteLeftCastle = g.whiteLeftCastle) (h2 : g2.whiteRightCastle = g.whiteRightCastle)
    (h3 : g2.blackLeftCastle = g.blackLeftCastle) (h4 : g2.blackRightCastle = g.blackRightCastle)
    (h5 : g2.whiteKingCol = g.whiteKingCol) (h6 : g2.blackKingCol = g.blackKingCol)
    (hW : g.board WHITE_FIRST_ROW g.whiteKingCol = WHITE_KING →
      g2.board WHITE_FIRST_ROW g.whiteKingCol = WHITE_KING)
    (hB : g.board BLACK_FIRST_ROW g.blackKingCol = BLACK_KING →
      g2.board BLACK_FIRST_ROW g.blackKingCol = BLACK_KING) :
    castleConsistent g2 := by
  unfold castleConsistent
  rw [h1, h2, h3, h4, h5, h6]
  exact ⟨fun h => hW (hcc.1 h), fun h => hB (hcc.2 h)⟩

/-- Writing to a square that holds no king keeps the kings where they are. -/
theorem Board.set_keeps (b : Board) (r c : Int) (p : Piece) (r2 c2 : Int) (k : Piece)
    (hk : b r c ≠ k) (h : b r2 c2 = k) : (b.set r c p) r2 c2 = k := by
  rw [Board.set_apply]
  split_ifs with e
  · obtain ⟨e1, e2⟩ := e
    rw [e1, e2] at h
    exact absurd h hk
  · exact h

theorem castleConsistent_promotionPrefix (g : SPChessGame) (m : Move) (c : Bool)
    (hcc : castleConsistent g)
    (hs : c = true → g.board m.srcRow m.srcCol ≠ WHITE_KING ∧ g.board m.srcRow m.srcCol ≠ BLACK_KING)
    (hw : g.board m.dstRow m.dstCol ≠ WHITE_KING) (hb : g.board m.dstRow m.dstCol ≠ BLACK_KING)
    (hne : ¬ (m.dstRow = m.srcRow ∧ m.dstCol = m.srcCol)) :
    castleConsistent (promotionPrefix g m c) := by
  apply castleConsistent_of_same g _ hcc <;> try simp
  · intro h
    rw [promotionPrefix_board]
    cases c
    · exact Board.set_keeps _ _ _ _ _ _ _ hw h
    · apply Board.set_keeps
      · simpa [Board.set_apply, hne] using hw
      · exact Board.set_keeps _ _ _ _ _ _ _ (hs rfl).1 h
  · intro h
    rw [promotionPrefix_board]
    cases c
    · exact Board.set_keeps _ _ _ _ _ _ _ hb h
    · apply Board.set_keeps
      · simpa [Board.set_apply, hne] using hb
      · exact Board.set_keeps _ _ _ _ _ _ _ (hs rfl).2 h

/-! ## Castles -/

/-- What the acceptance of a castle by `legalCastle` says about the board, on a state whose
king fields agree with the board and whose true castling flags have king and rook at
home. -/
theorem legalCastle_facts (g : SPChessGame) (m : Move)
    (hk : kingFieldsAgree g) (hc : castleHome g)
    (hrook : m.srcPiece = ownRook g.currentPlayer) (hl : (legalCastle g m).1 = true) :
    m.srcRow = ownFirstRow g.currentPlayer
    ∧ ownKingCol g = KING_COL
    ∧ g.board (ownFirstRow g.currentPlayer) KING_COL = ownKing g.currentPlayer
    ∧ g.board (ownFirstRow g.currentPlayer) m.srcCol = ownRook g.currentPlayer
    ∧ ((m.srcCol = LEFT_ROOK_COL ∧ ownLeftCastle g = true
          ∧ g.board (ownFirstRow g.currentPlayer) 1 = EMPTY_POSITION
          ∧ g.board (ownFirstRow g.currentPlayer) 2 = EMPTY_POSITION
          ∧ g.board (ownFirstRow g.currentPlayer) 3 = EMPTY_POSITION)
        ∨ (m.srcCol = RIGHT_ROOK_COL ∧ ownRightCastle g = true
          ∧ g.board (ownFirstRow g.currentPlayer) 5 = EMPTY_POSITION
          ∧ g.board (ownFirstRow g.currentPlayer) 6 = EMPTY_POSITION)) := by
  obtain ⟨_, hside, hroute⟩ := (legalCastle_verdict g m hk hc hrook).1 hl
  have hf : ownLeftCastle g = true ∨ ownRightCastle g = true := by
    rcases hside with h | h
    · exact Or.inl h.2.2
    · exact Or.inr h.2.2
  obtain ⟨hkc, hkb⟩ := ownKing_home g hk hc hf
  rw [hkc] at hroute hkb
  have hrk : ∀ col, (col = LEFT_ROOK_COL ∧ ownLeftCastle g = true)
      ∨ (col = RIGHT_ROOK_COL ∧ ownRightCastle g = true) →
      g.board (ownFirstRow g.currentPlayer) col = ownRook g.currentPlayer := by
    obtain ⟨h1, h2, h3, h4⟩ := hc
    intro col hcol
    unfold ownFirstRow ownRook ownLeftCastle ownRightCastle at *
    cases hp : g.currentPlayer <;> simp only [hp, reduceCtorEq, ↓reduceIte] at hcol ⊢
    · rcases hcol with ⟨rfl, h⟩ | ⟨rfl, h⟩
      · exact (h3 h).2
      · exact (h4 h).2
    · rcases hcol with ⟨rfl, h⟩ | ⟨rfl, h⟩
      · exact (h1 h).2
      · exact (h2 h).2
  rcases hside with ⟨hr, hcl, hfl⟩ | ⟨hr, hcl, hfl⟩
  · refine ⟨hr, hkc, hkb, hrk _ (Or.inl ⟨hcl, hfl⟩), Or.inl ⟨hcl, hfl, ?_, ?_, ?_⟩⟩
    · exact (hroute 1 (by rw [hcl]; left; decide)).1
    · exact (hroute 2 (by rw [hcl]; left; decide)).1
    · exact (hroute 3 (by rw [hcl]; left; decide)).1
  · refine ⟨hr, hkc, hkb, hrk _ (Or.inr ⟨hcl, hfl⟩), Or.inr ⟨hcl, hfl, ?_, ?_⟩⟩
    · exact (hroute 5 (by rw [hcl]; right; decide)).1
    · exact (hroute 6 (by rw [hcl]; right; decide)).1

theorem setCastleMove_board (g : SPChessGame) (m : Move) :
    (setCastleMove g m).1.board =
      (((g.board.set m.srcRow (if m.srcCol = LEFT_ROOK_COL then KING_COL - 2 else KING_COL + 2)
            (if m.srcPiece = WHITE_ROOK then WHITE_KING else BLACK_KING)).set
          m.srcRow m.srcCol EMPTY_POSITION).set
        m.srcRow (if m.srcCol = LEFT_ROOK_COL then KING_COL - 1 else KING_COL + 1) m.srcPiece).set
      m.srcRow KING_COL EMPTY_POSITION := by
  unfold setCastleMove
  simp only
  split_ifs <;> rfl

@[simp] theorem setCastleMove_currentPlayer (g : SPChessGame) (m : Move) :
    (setCastleMove g m).1.currentPlayer = g.currentPlayer := by
  unfold setCastleMove
  simp only
  split_ifs <;> rfl

@[simp] theorem setCastleMove_whiteArmy (g : SPChessGame) (m : Move) :
    (setCastleMove g m).1.whiteArmy = g.whiteArmy := by
  unfold setCastleMove
  simp only
  split_ifs <;> rfl

@[simp] theorem setCastleMove_blackArmy (g : SPChessGame) (m : Move) :
    (setCastleMove g m).1.blackArmy = g.blackArmy := by
  unfold setCastleMove
  simp only
  split_ifs <;> rfl

@[simp] theorem setCastleMove_history (g : SPChessGame) (m : Move) :
    (setCastleMove g m).1.history = g.history := by
  unfold setCastleMove
  simp only
  split_ifs <;> rfl

@[simp] theorem setCastleMove_status (g : SPChessGame) (m : Move) :
    (setCastleMove g m).1.status = g.status := by
  unfold setCastleMove
  simp only
  split_ifs <;> rfl

@[simp] theorem setCastleMove_whiteKingRow (g : SPChessGame) (m : Move) :
    (setCastleMove g m).1.whiteKingRow = g.whiteKingRow := by
  unfold setCastleMove
  simp only
  split_ifs <;> rfl

@[simp] theorem setCastleMove_blackKingRow (g : SPChessGame) (m : Move) :
    (setCastleMove g m).1.blackKingRow = g.blackKingRow := by
  unfold setCastleMove
  simp only
  split_ifs <;> rfl

theorem setCastleMove_move (g : SPChessGame) (m : Move) :
    (setCastleMove g m).2 =
      { m with dstCol := if m.srcCol = LEFT_ROOK_COL then KING_COL - 1 else KING_COL + 1 } := by
  unfold setCastleMove
  simp only
  split_ifs <;> rfl

/-- The four writes of a castle move the king and the rook and change no count. -/
theorem countPiece_castle (b : Board) (row rc dk dr : Int) (K R k : Piece)
    (hk : counted k = true) (hK : counted K = false)
    (v1 : validPosition row dk = true) (v2 : validPosition row rc = true)
    (v3 : validPosition row dr = true) (v4 : validPosition row KING_COL = true)
    (n1 : dk ≠ rc) (n2 : dr ≠ dk) (n3 : dr ≠ rc) (n4 : KING_COL ≠ dk) (n5 : KING_COL ≠ rc)
    (n6 : KING_COL ≠ dr)
    (e1 : b row dk = EMPTY_POSITION) (e2 : b row rc = R) (e3 : b row dr = EMPTY_POSITION)
    (e4 : b row KING_COL = K) :
    countPiece ((((b.set row dk K).set row rc EMPTY_POSITION).set row dr R).set row KING_COL
      EMPTY_POSITION) k = countPiece b k := by
  have hE : EMPTY_POSITION ≠ k := by rintro rfl; exact absurd hk (by decide)
  have hKk : K ≠ k := by rintro rfl; rw [hk] at hK; exact absurd hK (by decide)
  rw [countPiece_set _ _ _ _ _ v4, countPiece_set _ _ _ _ _ v3, countPiece_set _ _ _ _ _ v2,
    countPiece_set _ _ _ _ _ v1]
  simp only [Board.set_apply, n1, n2, n3, n4, n5, n6, n1.symm, n2.symm, n3.symm, n4.symm,
    n5.symm, n6.symm, and_false, and_true, ↓reduceIte, e1, e2, e3, e4, hE, hKk, true_and]
  omega

/-- Lockstep after the board writes of an accepted castle. -/
theorem armiesAgree_setCastleMove (g : SPChessGame) (m : Move)
    (hk : kingFieldsAgree g) (hc : castleHome g)
    (hrook : m.srcPiece = ownRook g.currentPlayer) (hl : (legalCastle g m).1 = true)
    (hag : armiesAgree g) : armiesAgree (setCastleMove g m).1 := by
  obtain ⟨hr, -, hkb, hrb, hside⟩ := legalCastle_facts g m hk hc hrook hl
  rw [armiesAgree_iff] at hag ⊢
  intro k hkc
  rw [counterOf_congr _ _ (setCastleMove_whiteArmy g m) (setCastleMove_blackArmy g m),
    hag k hkc, setCastleMove_board, hr, hrook]
  have hK : (if ownRook g.currentPlayer = WHITE_ROOK then WHITE_KING else BLACK_KING)
      = ownKing g.currentPlayer := by
    unfold ownRook ownKing; cases g.currentPlayer <;> simp
  have hKc : counted (ownKing g.currentPlayer) = false := by
    unfold ownKing; cases g.currentPlayer <;> simp [counted]
  have hv : ∀ c : Int, 0 ≤ c → c < 8 → validPosition (ownFirstRow g.currentPlayer) c = true := by
    intro c h1 h2
    rw [validPosition_iff]
    unfold ownFirstRow WHITE_FIRST_ROW BLACK_FIRST_ROW
    cases g.currentPlayer <;> simp <;> omega
  rw [hK]
  rcases hside with ⟨hcl, -, h1, h2, h3⟩ | ⟨hcl, -, h5, h6⟩
  · rw [hcl] at hrb ⊢
    have := countPiece_castle g.board (ownFirstRow g.currentPlayer) LEFT_ROOK_COL 2 3 _ _ k hkc hKc
      (hv _ (by decide) (by decide)) (hv _ (by decide) (by decide)) (hv _ (by decide) (by decide))
      (hv _ (by decide) (by decide)) (by decide) (by decide) (by decide) (by decide) (by decide)
      (by decide) h2 hrb h3 hkb
    simpa [LEFT_ROOK_COL, KING_COL] using this.symm
  · rw [hcl] at hrb ⊢
    have := countPiece_castle g.board (ownFirstRow g.currentPlayer) RIGHT_ROOK_COL 6 5 _ _ k hkc hKc
      (hv _ (by decide) (by decide)) (hv _ (by decide) (by decide)) (hv _ (by decide) (by decide))
      (hv _ (by decide) (by decide)) (by decide) (by decide) (by decide) (by decide) (by decide)
      (by decide) h6 hrb h5 hkb
    simpa [LEFT_ROOK_COL, RIGHT_ROOK_COL, KING_COL] using this.symm

theorem castleConsistent_updatesPrefix (g : SPChessGame) (m : Move) (mm : Bool)
    (hcc : castleConsistent g) : castleConsistent (updatesPrefix g m mm) := by
  constructor
  · intro h
    rw [updatesPrefix_board, updatesPrefix_whiteKingCol]
    apply hcc.1
    rcases h with h | h
    · exact Or.inl (updatePrefix_whiteLeftCastle_le _ _ _ h)
    · exact Or.inr (updatePrefix_whiteRightCastle_le _ _ _ h)
  · intro h
    rw [updatesPrefix_board, updatesPrefix_blackKingCol]
    apply hcc.2
    rcases h with h | h
    · exact Or.inl (updatePrefix_blackLeftCastle_le _ _ _ h)
    · exact Or.inr (updatePrefix_blackRightCastle_le _ _ _ h)

/-- After the board writes of a castle from the mover's first rank, the mover may no longer
castle and the opponent's first rank is untouched. -/
theorem castleConsistent_setCastleMove (g : SPChessGame) (m : Move) (hcc : castleConsistent g)
    (hcm : m.castleMove = true) (hrook : m.srcPiece = ownRook g.currentPlayer)
    (hr : m.srcRow = ownFirstRow g.currentPlayer) : castleConsistent (setCastleMove g m).1 := by
  unfold castleConsistent setCastleMove updateCastlingIndicators
  unfold ownRook at hrook
  unfold ownFirstRow at hr
  cases hp : g.currentPlayer <;> simp only [hp, reduceCtorEq, ↓reduceIte] at hrook hr
  · simp only [hrook, hr, hcm, reduceCtorEq, ↓reduceIte, SPChessGame.setBoard, Board.set_apply,
      WHITE_FIRST_ROW, BLACK_FIRST_ROW, Bool.false_eq_true, or_self, false_implies, and_true]
    norm_num
    exact hcc.1
  · simp only [hrook, hr, hcm, reduceCtorEq, ↓reduceIte, SPChessGame.setBoard, Board.set_apply,
      WHITE_FIRST_ROW, BLACK_FIRST_ROW, Bool.false_eq_true, or_self, false_implies, true_and]
    norm_num
    exact hcc.2

theorem armiesAgree_congr (g g2 : SPChessGame) (hb : g2.board = g.board)
    (hw : g2.whiteArmy = g.whiteArmy) (hbl : g2.blackArmy = g.blackArmy) :
    armiesAgree g2 ↔ armiesAgree g := by
  unfold armiesAgree
  rw [hb, hw, hbl]

theorem ownPiece_rook (p : Player) (x : Piece)
    (ho : currentPlayerPiece p x = true) (hr : x = WHITE_ROOK ∨ x = BLACK_ROOK) :
    x = ownRook p := by
  unfold ownRook
  rcases hr with rfl | rfl <;> cases p <;> simp_all [currentPlayerPiece]

/-- An accepted regular move does not end on its own source square. -/
theorem legal_src_ne_dst (g : SPChessGame) (m : Move)
    (ho : currentPlayerPiece g.currentPlayer (g.board m.srcRow m.srcCol) = true)
    (hl : (legalRegularMove g m).1 = true) : ¬ (m.dstRow = m.srcRow ∧ m.dstCol = m.srcCol) := by
  rintro ⟨e1, e2⟩
  rw [legalRegularMove_verdict] at hl
  simp only [e1, e2, ho, Bool.not_true, Bool.false_and] at hl
  exact absurd hl (by decide)

/-- The state and the move after an accepted castle of a user. -/
theorem setMove_castle_result (env : Env) (g : SPChessGame) (m : Move) (mm : Bool)
    (hcap : 0 < env.MAX_MOVES_FOR_PIECE) (hk : kingFieldsAgree g) (hc : castleHome g)
    (hpp : m.pawnPromotion = false) (hcm : m.castleMove = true)
    (hs : (spChessGameSetMove env g m mm false).1 = SP_CHESS_GAME_SUCCESS) :
    (stampMove g m).srcPiece = ownRook g.currentPlayer
    ∧ (legalCastle g (stampMove g m)).1 = true
    ∧ spChessGameSetMove env g m mm false =
      (SP_CHESS_GAME_SUCCESS,
        flipAndStatus env
          (updatesPrefix (setCastleMove g (stampMove g m)).1 (setCastleMove g (stampMove g m)).2 mm),
        (setCastleMove g (stampMove g m)).2) := by
  have hcc := castleConsistent_of g hk hc
  obtain ⟨-, ho, hr, hl, e⟩ := setMove_castle_success env g m mm hpp hcm hcc hs
  have hrook : (stampMove g m).srcPiece = ownRook g.currentPlayer := ownPiece_rook _ _ ho hr
  refine ⟨hrook, hl, ?_⟩
  obtain ⟨hrow, -⟩ := legalCastle_facts g _ hk hc hrook hl
  rw [e, updatesAfterSettingMove_eq]
  have hpp2 : (setCastleMove g (stampMove g m)).2.pawnPromotion = false := by
    rw [setCastleMove_move]; exact hpp
  have hc2 : castleConsistent
      (updatesPrefix (setCastleMove g (stampMove g m)).1 (setCastleMove g (stampMove g m)).2 mm) :=
    castleConsistent_updatesPrefix _ _ _
      (castleConsistent_setCastleMove g _ hcc hcm hrook hrow)
  simp only [hpp2, Bool.not_false, ↓reduceIte, changePlayerAndUpdateStatus_eq2 env _ hcap hc2]

/-- C9, the user's side: lockstep after an accepted move of a user, completed by
`performPawnPromotion` when it is a promotion. -/
theorem armiesAgree_applyUserMove (env : Env) (g : SPChessGame) (m : Move) (piece : Piece)
    (hcap : 0 < env.MAX_MOVES_FOR_PIECE) (hk : kingFieldsAgree g) (hc : castleHome g)
    (hag : armiesAgree g) (hpp : m.pawnPromotion = false) (hdc : m.dstPieceCaptured = false)
    (hw : m.castleMove = false → g.board m.dstRow m.dstCol ≠ WHITE_KING)
    (hb : m.castleMove = false → g.board m.dstRow m.dstCol ≠ BLACK_KING)
    (hs : (applyUserMove env g m piece).1 = SP_CHESS_GAME_SUCCESS) :
    armiesAgree (applyUserMove env g m piece).2.1 := by
  have hcc := castleConsistent_of g hk hc
  unfold applyUserMove at hs ⊢
  simp only at hs ⊢
  by_cases h1 : (spChessGameSetMove env g m false false).1 = SP_CHESS_GAME_SUCCESS
  · by_cases hcm : m.castleMove = true
    · obtain ⟨hrook, hl, e⟩ := setMove_castle_result env g m false hcap hk hc hpp hcm h1
      have hpp2 : (setCastleMove g (stampMove g m)).2.pawnPromotion = false := by
        rw [setCastleMove_move]; exact hpp
      have hdc2 : (setCastleMove g (stampMove g m)).2.dstPieceCaptured = false := by
        rw [setCastleMove_move]; exact hdc
      simp only [e, ne_eq, not_true_eq_false, ↓reduceIte, hpp2, Bool.false_eq_true]
      rw [armiesAgree_flipAndStatus]
      refine (armiesAgree_congr _ _ (updatesPrefix_board _ _ _) ?_ ?_).2
        (armiesAgree_setCastleMove g _ hk hc hrook hl hag)
      · rw [updatesPrefix_whiteArmy, hdc2]; rfl
      · rw [updatesPrefix_blackArmy, hdc2]; rfl
    · simp only [Bool.not_eq_true] at hcm
      obtain ⟨hsv, hdv, ho, hl, -⟩ := setMove_regular_success env g m false hpp hcm h1
      have e := setMove_regular_result env g m false hcap hcc hpp hcm h1 (hw hcm) (hb hcm)
      have hX := armiesAgree_regularPrefix g m false hag hsv hdv ho hl
      simp only [e, ne_eq, not_true_eq_false, ↓reduceIte] at hs ⊢
      by_cases hp : (filledMove g (stampMove g m)).pawnPromotion = true
      · simp only [hp, ↓reduceIte, spChessGameSetPawnPromotion_eq] at hs ⊢
        have hreach : reachesLastRow g (stampMove g m) := by
          simpa [filledMove, stampMove, hpp] using hp
        have hbd : (regularPrefix g m false).board m.dstRow m.dstCol
            = ownPawn (regularPrefix g m false).currentPlayer := by
          simp only [regularPrefix, updatesPrefix_board, setRegularMove_board,
            updatesPrefix_currentPlayer, setRegularMove_currentPlayer, Board.set_apply]
          simp only [filledMove, stampMove, and_self, ↓reduceIte]
          unfold reachesLastRow stampMove at hreach
          unfold ownPawn
          rcases hreach with ⟨h1, h2, -⟩ | ⟨h1, h2, -⟩ <;> simp_all
        have hc3 : castleConsistent (promotionPrefix (regularPrefix g m false)
            { filledMove g (stampMove g m) with srcPiece := piece } false) := by
          apply castleConsistent_promotionPrefix
          · exact castleConsistent_regular g (filledMove g (stampMove g m)) false hcc rfl
              (hw hcm) (hb hcm)
          · intro h; exact absurd h (by decide)
          · show (regularPrefix g m false).board m.dstRow m.dstCol ≠ WHITE_KING
            rw [hbd]; unfold ownPawn; split_ifs <;> decide
          · show (regularPrefix g m false).board m.dstRow m.dstCol ≠ BLACK_KING
            rw [hbd]; unfold ownPawn; split_ifs <;> decide
          · exact legal_src_ne_dst g (stampMove g m) ho hl
        show armiesAgree (changePlayerAndUpdateStatus env (promotionPrefix (regularPrefix g m false)
            { filledMove g (stampMove g m) with srcPiece := piece } false)).2
        rw [changePlayerAndUpdateStatus_eq2 env _ hcap hc3, armiesAgree_flipAndStatus]
        exact armiesAgree_promotion_user _ _ hX hdv hbd
      · simp only [hp, Bool.false_eq_true, ↓reduceIte]
        rw [armiesAgree_flipAndStatus]
        exact hX
  · simp only [ne_eq, h1, not_false_eq_true, ↓reduceIte] at hs

/-! ## The game the move generation leaves behind, on any state -/

theorem upToPhantom_refl (g : SPChessGame) : upToPhantom g g := Or.inl rfl

theorem Board.set_set_same (b : Board) (r c : Int) (x y : Piece) :
    (b.set r c x).set r c y = b.set r c y := by
  funext r2 c2
  simp only [Board.set_apply]
  split_ifs <;> rfl

theorem Board.route_step (b : Board) (row kingCol col : Int) (K : Piece) (hc : col ≠ kingCol)
    (hE : b row col = EMPTY_POSITION) :
    (((b.set row kingCol EMPTY_POSITION).set row col K).set row kingCol K).set row col
      EMPTY_POSITION = b.set row kingCol K := by
  funext r c
  simp only [Board.set_apply]
  split_ifs with h1 h2 h3 <;>
    first
    | rfl
    | (obtain ⟨rfl, rfl⟩ := h1; exact hE.symm)
    | (obtain ⟨rfl, rfl⟩ := h1; exact absurd h2.2 hc)

theorem phantomKing_idem (g : SPChessGame) : phantomKing (phantomKing g) = phantomKing g := by
  unfold phantomKing ownKingCol
  simp only [SPChessGame.setBoard, Board.set_set_same]

theorem upToPhantom_trans (g1 g2 g3 : SPChessGame) (h12 : upToPhantom g1 g2)
    (h23 : upToPhantom g2 g3) : upToPhantom g1 g3 := by
  rcases h12 with rfl | ⟨hf, rfl⟩
  · exact h23
  · rcases h23 with rfl | ⟨-, rfl⟩
    · exact Or.inr ⟨hf, rfl⟩
    · exact Or.inr ⟨hf, phantomKing_idem g1⟩

/-- One iteration of the route loop after another: whatever the board holds on the recorded
king square, the loop leaves the game as it found it or with the king written there. -/
theorem legalCastleRouteLoop_phantom (row kingCol : Int) (kingType : Piece) (n : Nat) :
    ∀ (col : Int) (g : SPChessGame) (b : Bool), (∀ i : Nat, i < n → col + i ≠ kingCol) →
      (legalCastleRouteLoop row kingCol kingType n col g b).2 = g
      ∨ (legalCastleRouteLoop row kingCol kingType n col g b).2 = g.setBoard row kingCol kingType := by
  induction n with
  | zero => intro col g b _; exact Or.inl rfl
  | succ n ih =>
    intro col g b hne
    unfold legalCastleRouteLoop
    have hc : col ≠ kingCol := by simpa using hne 0 (Nat.succ_pos n)
    have hrest : ∀ (hE : g.board row col = EMPTY_POSITION),
        (((g.setBoard row kingCol EMPTY_POSITION).setBoard row col kingType).setBoard row kingCol
          kingType).setBoard row col EMPTY_POSITION = g.setBoard row kingCol kingType := by
      intro hE
      simp only [SPChessGame.setBoard, Board.route_step _ _ _ _ _ hc hE]
    by_cases hE : g.board row col = EMPTY_POSITION
    · simp only [hE, ne_eq, not_true_eq_false, ↓reduceIte, hrest hE]
      split_ifs
      · exact Or.inr rfl
      · right
        exact legalCastleRouteLoop_game row kingCol kingType n (col + 1)
          (g.setBoard row kingCol kingType) _ (by simp [SPChessGame.setBoard, Board.set_apply])
    · simp [hE]

theorem legalCastle_phantom (g : SPChessGame) (m : Move)
    (hrook : m.srcPiece = ownRook g.currentPlayer) : upToPhantom g (legalCastle g m).2 := by
  have e1 : (if ownRook g.currentPlayer = WHITE_ROOK then WHITE_FIRST_ROW else BLACK_FIRST_ROW)
      = ownFirstRow g.currentPlayer := by
    unfold ownRook ownFirstRow; cases g.currentPlayer <;> simp
  have e2 : (if ownRook g.currentPlayer = WHITE_ROOK then g.whiteKingCol else g.blackKingCol)
      = ownKingCol g := by
    unfold ownRook ownKingCol; cases g.currentPlayer <;> simp
  have e3 : (if ownRook g.currentPlayer = WHITE_ROOK then WHITE_KING else BLACK_KING)
      = ownKing g.currentPlayer := by
    unfold ownRook ownKing; cases g.currentPlayer <;> simp
  have e4 : (if ownRook g.currentPlayer = WHITE_ROOK then g.whiteLeftCastle else g.blackLeftCastle)
      = ownLeftCastle g := by
    unfold ownRook ownLeftCastle; cases g.currentPlayer <;> simp
  have e5 : (if ownRook g.currentPlayer = WHITE_ROOK then g.whiteRightCastle else g.blackRightCastle)
      = ownRightCastle g := by
    unfold ownRook ownRightCastle; cases g.currentPlayer <;> simp
  unfold legalCastle
  simp only [hrook, e1, e3, e4, e5]
  split_ifs with h1 h2
  · exact Or.inl rfl
  · exact Or.inl rfl
  · have hf : ownLeftCastle g = true ∨ ownRightCastle g = true := by
      by_contra hn
      simp only [not_or, Bool.not_eq_true] at hn
      simp [hn.1, hn.2] at h2
    unfold legalCastleRoute
    simp only [e1, e2]
    rcases legalCastleRouteLoop_phantom (ownFirstRow g.currentPlayer) (ownKingCol g)
        (ownKing g.currentPlayer)
        ((if m.srcCol < ownKingCol g then ownKingCol g - 1 else m.srcCol - 1) + 1
          - (if m.srcCol < ownKingCol g then m.srcCol + 1 else ownKingCol g + 1)).toNat
        (if m.srcCol < ownKingCol g then m.srcCol + 1 else ownKingCol g + 1) g false
        (by
          intro i hi
          split_ifs at hi ⊢ with hlt
          · have := Int.toNat_of_nonneg (show (0:Int) ≤ ownKingCol g - 1 + 1 - (m.srcCol + 1) by omega)
            omega
          · omega) with h | h
    · exact Or.inl h
    · exact Or.inr ⟨hf, h⟩

theorem addPieceMove_game_regular (env : Env) (g : SPChessGame) (l : SPArrayList)
    (sr sc dr dc : Int) (mm : Bool) : (addPieceMove env g l sr sc dr dc false mm).1 = g := by
  unfold addPieceMove
  simp only [Bool.false_eq_true, ↓reduceIte]
  split_ifs <;> first
    | rfl
    | (apply legalRegularMove_game; rfl)

theorem addPieceMove_phantom (env : Env) (g : SPChessGame) (l : SPArrayList)
    (sr sc dr dc : Int) (mm : Bool) (hrook : g.board sr sc = ownRook g.currentPlayer) :
    upToPhantom g (addPieceMove env g l sr sc dr dc true mm).1 := by
  unfold addPieceMove
  simp only [Bool.not_true, Bool.false_and, Bool.false_eq_true, ↓reduceIte]
  split_ifs <;> exact legalCastle_phantom _ _ hrook

theorem getPossiblePawnMoves_same (env : Env) (g : SPChessGame) (l : SPArrayList)
    (sr sc : Int) (mm : Bool) : (getPossiblePawnMoves env g l sr sc mm).1 = g := by
  unfold getPossiblePawnMoves
  simp only
  split_ifs <;> simp only [addPieceMove_game_regular]

theorem getPossibleKnightMoves_same (env : Env) (g : SPChessGame) (l : SPArrayList)
    (sr sc : Int) : (getPossibleKnightMoves env g l sr sc).1 = g := by
  unfold getPossibleKnightMoves
  simp only [addPieceMove_game_regular]

theorem getDirectionalMovesLoop_same (env : Env) (sr sc dr dc : Int) (n : Nat) :
    ∀ (g : SPChessGame) (l : SPArrayList) (r c : Int) (p : Piece),
      (getDirectionalMovesLoop env sr sc dr dc n g l r c p).1 = g := by
  induction n with
  | zero => intro g l r c p; rfl
  | succ n ih =>
    intro g l r c p
    unfold getDirectionalMovesLoop
    simp only
    split_ifs
    · rfl
    · rfl
    · rw [ih]
      exact addPieceMove_game_regular _ _ _ _ _ _ _ _

theorem getDirectionalMoves_same (env : Env) (g : SPChessGame) (l : SPArrayList)
    (sr sc dr dc : Int) : (getDirectionalMoves env g l sr sc dr dc).1 = g := by
  unfold getDirectionalMoves
  simp only [getDirectionalMovesLoop_same]
  split_ifs
  · exact addPieceMove_game_regular _ _ _ _ _ _ _ _
  · rfl

theorem getPossibleBishopOrQueenMoves_same (env : Env) (g : SPChessGame) (l : SPArrayList)
    (sr sc : Int) (sort : Bool) : (getPossibleBishopOrQueenMoves env g l sr sc sort).1 = g := by
  unfold getPossibleBishopOrQueenMoves
  simp only [getDirectionalMoves_same]
  split_ifs <;> simp only [getDirectionalMoves_same]

theorem getPossibleRookOrQueenMoves_phantom (env : Env) (g : SPChessGame) (l : SPArrayList)
    (sr sc : Int) (sort : Bool)
    (ho : currentPlayerPiece g.currentPlayer (g.board sr sc) = true) :
    upToPhantom g (getPossibleRookOrQueenMoves env g l sr sc sort).1 := by
  unfold getPossibleRookOrQueenMoves
  simp only [getDirectionalMoves_same]
  have key : ∀ l2 : SPArrayList, (g.board sr sc = WHITE_ROOK ∨ g.board sr sc = BLACK_ROOK) →
      upToPhantom g (addPieceMove env g l2 sr sc DUMMY_COORDINATE DUMMY_COORDINATE true false).1 :=
    fun l2 hr => addPieceMove_phantom _ _ _ _ _ _ _ _ (ownPiece_rook _ _ ho hr)
  split_ifs with h1 h2 h3 h4 <;>
    first
    | exact key _ (by assumption)
    | (simp only [getDirectionalMoves_same]; exact upToPhantom_refl g)
    | (simp only [getDirectionalMoves_same] at *; exact key _ (by assumption))

theorem getPossibleKingCastleMoves_phantom (env : Env) (g : SPChessGame) (l : SPArrayList)
    (row : Int) :
    upToPhantom g (getPossibleKingCastleMoves env g l (ownRook g.currentPlayer) row).1 := by
  unfold getPossibleKingCastleMoves
  simp only
  by_cases h1 : g.board row LEFT_ROOK_COL = ownRook g.currentPlayer
  · simp only [h1, ↓reduceIte]
    have hA := addPieceMove_phantom env g l row LEFT_ROOK_COL DUMMY_COORDINATE DUMMY_COORDINATE
      false h1
    generalize addPieceMove env g l row LEFT_ROOK_COL DUMMY_COORDINATE DUMMY_COORDINATE true false
      = res at hA ⊢
    have hp : res.1.currentPlayer = g.currentPlayer := by
      rcases hA with h | ⟨-, h⟩ <;> rw [h] <;> rfl
    split_ifs with h2
    · rw [← hp] at h2
      have := addPieceMove_phantom env res.1 res.2 row RIGHT_ROOK_COL DUMMY_COORDINATE
        DUMMY_COORDINATE false h2
      exact upToPhantom_trans _ _ _ hA this
    · exact hA
  · simp only [h1, ↓reduceIte]
    split_ifs with h2
    · exact addPieceMove_phantom _ _ _ _ _ _ _ _ h2
    · exact upToPhantom_refl g

theorem getPossibleKingMoves_phantom (env : Env) (g : SPChessGame) (l : SPArrayList)
    (sr sc : Int) : upToPhantom g (getPossibleKingMoves env g l sr sc).1 := by
  unfold getPossibleKingMoves
  simp only [addPieceMove_game_regular]
  split_ifs with hp
  · have e : ownRook g.currentPlayer = WHITE_ROOK := by simp [ownRook, hp]
    rw [← e]
    exact getPossibleKingCastleMoves_phantom env g _ WHITE_FIRST_ROW
  · have e : ownRook g.currentPlayer = BLACK_ROOK := by simp [ownRook, hp]
    rw [← e]
    exact getPossibleKingCastleMoves_phantom env g _ BLACK_FIRST_ROW

theorem getPossiblePieceMoves_phantom (env : Env) (g : SPChessGame) (l : SPArrayList)
    (sr sc : Int) (sort mm : Bool)
    (ho : currentPlayerPiece g.currentPlayer (g.board sr sc) = true) :
    upToPhantom g (getPossiblePieceMoves env g l sr sc (g.board sr sc) sort mm).2.1 := by
  unfold getPossiblePieceMoves
  split
  all_goals first
    | (simp only [getPossiblePawnMoves_same]; exact upToPhantom_refl g)
    | (simp only [getPossibleKnightMoves_same]; exact upToPhantom_refl g)
    | (simp only [getPossibleBishopOrQueenMoves_same]; exact upToPhantom_refl g)
    | (simp only [getPossibleBishopOrQueenMoves_same]
       exact getPossibleRookOrQueenMoves_phantom _ _ _ _ _ _ ho)
    | exact getPossibleRookOrQueenMoves_phantom _ _ _ _ _ _ ho
    | exact getPossibleKingMoves_phantom _ _ _ _ _

theorem getGameStatusCols_phantom (env : Env) (row : Int) (cols : List Int) :
    ∀ (g : SPChessGame) (l : SPArrayList) (t : Bool),
      upToPhantom g (getGameStatusCols env row cols g l t).1 := by
  induction cols with
  | nil => intro g l t; exact upToPhantom_refl g
  | cons col cols ih =>
    intro g l t
    unfold getGameStatusCols
    simp only
    split_ifs with h1 h2
    · exact upToPhantom_refl g
    · exact ih _ _ _
    · have ho : currentPlayerPiece g.currentPlayer (g.board row col) = true := by simpa using h2
      exact upToPhantom_trans _ _ _ (getPossiblePieceMoves_phantom env g l row col false false ho)
        (ih _ _ _)

theorem getGameStatusRows_phantom (env : Env) (rows : List Int) :
    ∀ (g : SPChessGame) (l : SPArrayList) (t : Bool),
      upToPhantom g (getGameStatusRows env rows g l t).1 := by
  induction rows with
  | nil => intro g l t; exact upToPhantom_refl g
  | cons row rows ih =>
    intro g l t
    unfold getGameStatusRows
    simp only
    split_ifs
    · exact upToPhantom_refl g
    · exact upToPhantom_trans _ _ _ (getGameStatusCols_phantom env row _ g l t) (ih _ _ _)

theorem getGameStatus_phantom (env : Env) (g : SPChessGame) (kr kc : Int) :
    upToPhantom g (getGameStatus env g kr kc).2 := by
  unfold getGameStatus
  simp only
  split
  · exact upToPhantom_refl g
  · split_ifs <;> exact getGameStatusRows_phantom _ _ _ _ _

theorem getGameStatus_ne_failure (env : Env) (g : SPChessGame) (kr kc : Int)
    (hcap : 0 < env.MAX_MOVES_FOR_PIECE) : (getGameStatus env g kr kc).1 ≠ MEMORY_FAILURE := by
  unfold getGameStatus spArrayListCreate
  simp only [not_le.2 hcap, ↓reduceIte]
  split_ifs <;> simp

/-- `changePlayerAndUpdateStatus` on any state, with a positive list capacity: it succeeds;
the player is flipped, the status written, and the board is left as it was or with the
phantom king of the new side to move. -/
theorem changePlayerAndUpdateStatus_any (env : Env) (g : SPChessGame)
    (hcap : 0 < env.MAX_MOVES_FOR_PIECE) :
    ∃ g2, upToPhantom (flipPlayer g) g2 ∧
      changePlayerAndUpdateStatus env g =
        (SP_CHESS_GAME_SUCCESS, { g2 with status := (changePlayerAndUpdateStatus env g).2.status }) := by
  unfold changePlayerAndUpdateStatus
  simp only
  have e : ({ g with currentPlayer := g.currentPlayer.not } : SPChessGame) = flipPlayer g := rfl
  rw [e]
  by_cases hp : g.currentPlayer.not = WHITE_PLAYER
  · have hp2 : (flipPlayer g).currentPlayer = WHITE_PLAYER := hp
    simp only [hp, hp2, ↓reduceIte]
    refine ⟨_, getGameStatus_phantom env (flipPlayer g) (flipPlayer g).whiteKingRow
      (flipPlayer g).whiteKingCol, ?_⟩
    rw [if_neg (getGameStatus_ne_failure _ _ _ _ hcap)]
    rfl
  · have hp2 : ¬ (flipPlayer g).currentPlayer = WHITE_PLAYER := hp
    simp only [hp, hp2, ↓reduceIte]
    refine ⟨_, getGameStatus_phantom env (flipPlayer g) (flipPlayer g).blackKingRow
      (flipPlayer g).blackKingCol, ?_⟩
    rw [if_neg (getGameStatus_ne_failure _ _ _ _ hcap)]
    rfl

/-! ## Undo -/

theorem Player.not_not (p : Player) : p.not.not = p := by cases p <;> rfl

theorem rivalPlayerThreateningPosition_congr (a b : SPChessGame) (r c : Int)
    (hb : a.board = b.board) (hp : a.currentPlayer = b.currentPlayer) :
    rivalPlayerThreateningPosition a r c = rivalPlayerThreateningPosition b r c := by
  unfold rivalPlayerThreateningPosition
  rw [hb, hp]

/-- `spChessGameUndoPrevMove` as the composition of its four steps. -/
theorem undo_eq (F : SPChessGame) (m : Move) :
    spChessGameUndoPrevMove F m =
      (SP_CHESS_GAME_SUCCESS, undoFinish (undoArmies (undoFields (undoBoard F m) m) m)) := rfl

@[simp] theorem undoFinish_board (g : SPChessGame) : (undoFinish g).board = g.board := rfl
@[simp] theorem undoFinish_whiteLeftCastle (g : SPChessGame) : (undoFinish g).whiteLeftCastle = g.whiteLeftCastle := rfl
@[simp] theorem undoFinish_whiteRightCastle (g : SPChessGame) : (undoFinish g).whiteRightCastle = g.whiteRightCastle := rfl
@[simp] theorem undoFinish_blackLeftCastle (g : SPChessGame) : (undoFinish g).blackLeftCastle = g.blackLeftCastle := rfl
@[simp] theorem undoFinish_blackRightCastle (g : SPChessGame) : (undoFinish g).blackRightCastle = g.blackRightCastle := rfl
@[simp] theorem undoFinish_whiteKingRow (g : SPChessGame) : (undoFinish g).whiteKingRow = g.whiteKingRow := rfl
@[simp] theorem undoFinish_whiteKingCol (g : SPChessGame) : (undoFinish g).whiteKingCol = g.whiteKingCol := rfl
@[simp] theorem undoFinish_blackKingRow (g : SPChessGame) : (undoFinish g).blackKingRow = g.blackKingRow := rfl
@[simp] theorem undoFinish_blackKingCol (g : SPChessGame) : (undoFinish g).blackKingCol = g.blackKingCol := rfl
@[simp] theorem undoFinish_whiteArmy (g : SPChessGame) : (undoFinish g).whiteArmy = g.whiteArmy := rfl
@[simp] theorem undoFinish_blackArmy (g : SPChessGame) : (undoFinish g).blackArmy = g.blackArmy := rfl
@[simp] theorem undoFinish_history (g : SPChessGame) : (undoFinish g).history = g.history := rfl
@[simp] theorem undoFinish_currentPlayer (g : SPChessGame) :
    (undoFinish g).currentPlayer = g.currentPlayer.not := rfl

theorem undoFinish_status (g : SPChessGame) :
    (undoFinish g).status =
      if rivalPlayerThreateningPosition (undoFinish g) (ownKingRow (undoFinish g))
          (ownKingCol (undoFinish g))
      then GAME_NOT_FINISHED_CHECK else GAME_NOT_FINISHED_NO_CHECK := rfl

@[simp] theorem undoArmies_board (g : SPChessGame) (m : Move) :
    (undoArmies g m).board = g.board := by
  unfold undoArmies
  split_ifs <;> simp

@[simp] theorem undoArmies_currentPlayer (g : SPChessGame) (m : Move) :
    (undoArmies g m).currentPlayer = g.currentPlayer := by
  unfold undoArmies
  split_ifs <;> simp

@[simp] theorem undoArmies_whiteLeftCastle (g : SPChessGame) (m : Move) :
    (undoArmies g m).whiteLeftCastle = g.whiteLeftCastle := by
  unfold undoArmies
  split_ifs <;> simp

@[simp] theorem undoArmies_whiteRightCastle (g : SPChessGame) (m : Move) :
    (undoArmies g m).whiteRightCastle = g.whiteRightCastle := by
  unfold undoArmies
  split_ifs <;> simp

@[simp] theorem undoArmies_blackLeftCastle (g : SPChessGame) (m : Move) :
    (undoArmies g m).blackLeftCastle = g.blackLeftCastle := by
  unfold undoArmies
  split_ifs <;> simp

@[simp] theorem undoArmies_blackRightCastle (g : SPChessGame) (m : Move) :
    (undoArmies g m).blackRightCastle = g.blackRightCastle := by
  unfold undoArmies
  split_ifs <;> simp

@[simp] theorem undoArmies_whiteKingRow (g : SPChessGame) (m : Move) :
    (undoArmies g m).whiteKingRow = g.whiteKingRow := by
  unfold undoArmies
  split_ifs <;> simp

@[simp] theorem undoArmies_whiteKingCol (g : SPChessGame) (m : Move) :
    (undoArmies g m).whiteKingCol = g.whiteKingCol := by
  unfold undoArmies
  split_ifs <;> simp

@[simp] theorem undoArmies_blackKingRow (g : SPChessGame) (m : Move) :
    (undoArmies g m).blackKingRow = g.blackKingRow := by
  unfold undoArmies
  split_ifs <;> simp

@[simp] theorem undoArmies_blackKingCol (g : SPChessGame) (m : Move) :
    (undoArmies g m).blackKingCol = g.blackKingCol := by
  unfold undoArmies
  split_ifs <;> simp

@[simp] theorem undoArmies_history (g : SPChessGame) (m : Move) :
    (undoArmies g m).history = g.history := by
  unfold undoArmies
  split_ifs <;> simp

@[simp] theorem undoArmies_status (g : SPChessGame) (m : Move) :
    (undoArmies g m).status = g.status := by
  unfold undoArmies
  split_ifs <;> simp

@[simp] theorem undoFields_board (g : SPChessGame) (m : Move) :
    (undoFields g m).board = g.board := by
  unfold undoFields
  simp only
  split_ifs <;> rfl

@[simp] theorem undoFields_currentPlayer (g : SPChessGame) (m : Move) :
    (undoFields g m).currentPlayer = g.currentPlayer := by
  unfold undoFields
  simp only
  split_ifs <;> rfl

@[simp] theorem undoFields_whiteArmy (g : SPChessGame) (m : Move) :
    (undoFields g m).whiteArmy = g.whiteArmy := by
  unfold undoFields
  simp only
  split_ifs <;> rfl

@[simp] theorem undoFields_blackArmy (g : SPChessGame) (m : Move) :
    (undoFields g m).blackArmy = g.blackArmy := by
  unfold undoFields
  simp only
  split_ifs <;> rfl

@[simp] theorem undoFields_status (g : SPChessGame) (m : Move) :
    (undoFields g m).status = g.status := by
  unfold undoFields
  simp only
  split_ifs <;> rfl

@[simp] theorem undoFields_whiteLeftCastle (g : SPChessGame) (m : Move) :
    (undoFields g m).whiteLeftCastle = m.whiteLeftCastle := by
  unfold undoFields
  simp only
  split_ifs <;> rfl

@[simp] theorem undoFields_whiteRightCastle (g : SPChessGame) (m : Move) :
    (undoFields g m).whiteRightCastle = m.whiteRightCastle := by
  unfold undoFields
  simp only
  split_ifs <;> rfl

@[simp] theorem undoFields_blackLeftCastle (g : SPChessGame) (m : Move) :
    (undoFields g m).blackLeftCastle = m.blackLeftCastle := by
  unfold undoFields
  simp only
  split_ifs <;> rfl

@[simp] theorem undoFields_blackRightCastle (g : SPChessGame) (m : Move) :
    (undoFields g m).blackRightCastle = m.blackRightCastle := by
  unfold undoFields
  simp only
  split_ifs <;> rfl

theorem undoFields_white_king (g : SPChessGame) (m : Move) :
    (undoFields g m).whiteKingRow = (if m.srcPiece = WHITE_KING then m.srcRow else g.whiteKingRow)
    ∧ (undoFields g m).whiteKingCol
        = (if m.srcPiece = WHITE_KING then m.srcCol else g.whiteKingCol) := by
  unfold undoFields
  simp only
  split_ifs <;> simp_all

theorem undoFields_black_king (g : SPChessGame) (m : Move) :
    (undoFields g m).blackKingRow = (if m.srcPiece = BLACK_KING then m.srcRow else g.blackKingRow)
    ∧ (undoFields g m).blackKingCol
        = (if m.srcPiece = BLACK_KING then m.srcCol else g.blackKingCol) := by
  unfold undoFields
  simp only
  split_ifs <;> simp_all

theorem undoArmies_regular (g : SPChessGame) (m : Move) (hcm : m.castleMove = false)
    (hpp : m.pawnPromotion = false) :
    undoArmies g m = if m.dstPieceCaptured then updatePiecesAmount g m.dstPiece true else g := by
  unfold undoArmies
  simp [hcm, hpp]

theorem undoBoard_regular (g : SPChessGame) (m : Move) (hcm : m.castleMove = false)
    (hpp : m.pawnPromotion = false) :
    undoBoard g m =
      (g.setBoard m.srcRow m.srcCol m.srcPiece).setBoard m.dstRow m.dstCol m.dstPiece := by
  unfold undoBoard
  simp [hcm, hpp]

theorem updatePiecesAmount_undo (g g2 : SPChessGame) (p : Piece)
    (hw : g2.whiteArmy = (updatePiecesAmount g p false).whiteArmy)
    (hb : g2.blackArmy = (updatePiecesAmount g p false).blackArmy) :
    (updatePiecesAmount g2 p true).whiteArmy = g.whiteArmy
    ∧ (updatePiecesAmount g2 p true).blackArmy = g.blackArmy := by
  cases p <;> simp [updatePiecesAmount, bump, hw, hb]

/-- A non-terminal status that agrees with the position is in-check or no-check by the
threat to the recorded king square of the side to move. -/
theorem status_of_agrees (env : Env) (g : SPChessGame) (hcap : 0 < env.MAX_MOVES_FOR_PIECE)
    (hcc : castleConsistent g) (hst : statusAgrees env g) (hnt : nonTerminal g) :
    g.status = if rivalPlayerThreateningPosition g (ownKingRow g) (ownKingCol g)
      then GAME_NOT_FINISHED_CHECK else GAME_NOT_FINISHED_NO_CHECK := by
  unfold statusAgrees statusOf at hst
  unfold nonTerminal at hnt
  unfold ownKingRow ownKingCol
  by_cases hp : g.currentPlayer = WHITE_PLAYER
  · simp only [hp, ↓reduceIte] at hst ⊢
    rw [getGameStatus_classify _ _ _ _ hcap hcc] at hst
    rw [hst] at hnt ⊢
    unfold classifyStatus at hnt ⊢
    split_ifs at hnt ⊢ <;> simp_all
  · simp only [hp, ↓reduceIte] at hst ⊢
    rw [getGameStatus_classify _ _ _ _ hcap hcc] at hst
    rw [hst] at hnt ⊢
    unfold classifyStatus at hnt ⊢
    split_ifs at hnt ⊢ <;> simp_all

/-- The undo of a regular move, from what the state `F` it is applied to shares with the
state `g` before the move. -/
theorem undo_regular_sameState (g F : SPChessGame) (m : Move)
    (hcm : m.castleMove = false) (hpp : m.pawnPromotion = false)
    (hboard : (F.board.set m.srcRow m.srcCol m.srcPiece).set m.dstRow m.dstCol m.dstPiece = g.board)
    (hflags : m.whiteLeftCastle = g.whiteLeftCastle ∧ m.whiteRightCastle = g.whiteRightCastle
      ∧ m.blackLeftCastle = g.blackLeftCastle ∧ m.blackRightCastle = g.blackRightCastle)
    (hwk : (if m.srcPiece = WHITE_KING then m.srcRow else F.whiteKingRow) = g.whiteKingRow
      ∧ (if m.srcPiece = WHITE_KING then m.srcCol else F.whiteKingCol) = g.whiteKingCol)
    (hbk : (if m.srcPiece = BLACK_KING then m.srcRow else F.blackKingRow) = g.blackKingRow
      ∧ (if m.srcPiece = BLACK_KING then m.srcCol else F.blackKingCol) = g.blackKingCol)
    (harm : F.whiteArmy
        = (if m.dstPieceCaptured then updatePiecesAmount g m.dstPiece false else g).whiteArmy
      ∧ F.blackArmy
        = (if m.dstPieceCaptured then updatePiecesAmount g m.dstPiece false else g).blackArmy)
    (hpl : F.currentPlayer = g.currentPlayer.not)
    (hstatus : g.status = if rivalPlayerThreateningPosition g (ownKingRow g) (ownKingCol g)
      then GAME_NOT_FINISHED_CHECK else GAME_NOT_FINISHED_NO_CHECK) :
    sameState (spChessGameUndoPrevMove F m).2 g := by
  rw [undo_eq]
  have hB : (undoFinish (undoArmies (undoFields (undoBoard F m) m) m)).board = g.board := by
    simp only [undoFinish_board, undoArmies_board, undoFields_board, undoBoard_regular _ _ hcm hpp,
      SPChessGame.setBoard_board, hboard]
  have hP : (undoFinish (undoArmies (undoFields (undoBoard F m) m) m)).currentPlayer
      = g.currentPlayer := by
    simp only [undoFinish_currentPlayer, undoArmies_currentPlayer, undoFields_currentPlayer,
      undoBoard_regular _ _ hcm hpp, SPChessGame.setBoard_currentPlayer, hpl, Player.not_not]
  have hWK : (undoFinish (undoArmies (undoFields (undoBoard F m) m) m)).whiteKingRow
        = g.whiteKingRow
      ∧ (undoFinish (undoArmies (undoFields (undoBoard F m) m) m)).whiteKingCol
        = g.whiteKingCol := by
    simp only [undoFinish_whiteKingRow, undoArmies_whiteKingRow, undoFinish_whiteKingCol,
      undoArmies_whiteKingCol, (undoFields_white_king _ _).1, (undoFields_white_king _ _).2,
      undoBoard_regular _ _ hcm hpp]
    exact hwk
  have hBK : (undoFinish (undoArmies (undoFields (undoBoard F m) m) m)).blackKingRow
        = g.blackKingRow
      ∧ (undoFinish (undoArmies (undoFields (undoBoard F m) m) m)).blackKingCol
        = g.blackKingCol := by
    simp only [undoFinish_blackKingRow, undoArmies_blackKingRow, undoFinish_blackKingCol,
      undoArmies_blackKingCol, (undoFields_black_king _ _).1, (undoFields_black_king _ _).2,
      undoBoard_regular _ _ hcm hpp]
    exact hbk
  have hA : (undoFinish (undoArmies (undoFields (undoBoard F m) m) m)).whiteArmy = g.whiteArmy
      ∧ (undoFinish (undoArmies (undoFields (undoBoard F m) m) m)).blackArmy = g.blackArmy := by
    simp only [undoFinish_whiteArmy, undoFinish_blackArmy, undoArmies_regular _ _ hcm hpp]
    by_cases hd : m.dstPieceCaptured = true
    · simp only [hd, ↓reduceIte] at harm ⊢
      exact updatePiecesAmount_undo g _ _
        (by simpa [undoBoard_regular _ _ hcm hpp] using harm.1)
        (by simpa [undoBoard_regular _ _ hcm hpp] using harm.2)
    · simp only [hd, Bool.false_eq_true, ↓reduceIte] at harm ⊢
      simpa [undoBoard_regular _ _ hcm hpp] using harm
  refine ⟨hB, ?_, ?_, ?_, ?_, hWK.1, hWK.2, hBK.1, hBK.2, hA.1, hA.2, hP, ?_⟩
  · simp [hflags.1]
  · simp [hflags.2.1]
  · simp [hflags.2.2.1]
  · simp [hflags.2.2.2]
  · rw [undoFinish_status, hstatus]
    have e1 : ownKingRow (undoFinish (undoArmies (undoFields (undoBoard F m) m) m))
        = ownKingRow g := by
      unfold ownKingRow; rw [hP, hWK.1, hBK.1]
    have e2 : ownKingCol (undoFinish (undoArmies (undoFields (undoBoard F m) m) m))
        = ownKingCol g := by
      unfold ownKingCol; rw [hP, hWK.2, hBK.2]
    rw [e1, e2, rivalPlayerThreateningPosition_congr _ g _ _ hB hP]

theorem upToPhantom_eq (a b : SPChessGame) (h : upToPhantom a b) :
    b = { a with board := b.board }
    ∧ (b.board = a.board
      ∨ ((ownLeftCastle a = true ∨ ownRightCastle a = true)
        ∧ b.board = a.board.set (ownFirstRow a.currentPlayer) (ownKingCol a)
            (ownKing a.currentPlayer))) := by
  rcases h with rfl | ⟨hf, rfl⟩
  · exact ⟨rfl, Or.inl rfl⟩
  · exact ⟨rfl, Or.inr ⟨hf, rfl⟩⟩

/-- The board after the undo of a regular move, when the status computation after the move
has left the phantom king of the opponent: a true castling flag of the opponent puts its
king on its home square, which the undo leaves or rewrites with the king. -/
theorem restore_with_phantom (b : Board) (sr sc dr dc fr kc : Int) (K : Piece)
    (hK : b fr kc = K) :
    (((((b.set sr sc EMPTY_POSITION).set dr dc (b sr sc)).set fr kc K).set sr sc (b sr sc)).set
      dr dc (b dr dc)) = b := by
  funext r c
  simp only [Board.set_apply]
  split_ifs with h1 h2 h3 <;>
    first
    | rfl
    | (obtain ⟨rfl, rfl⟩ := h1; rfl)
    | (obtain ⟨rfl, rfl⟩ := h2; rfl)
    | (obtain ⟨rfl, rfl⟩ := h3; exact hK.symm)

theorem kingFieldsAgree_white (g : SPChessGame) (hk : kingFieldsAgree g) (r c : Int)
    (hv : validPosition r c = true) (h : g.board r c = WHITE_KING) :
    r = g.whiteKingRow ∧ c = g.whiteKingCol := (hk.2.2.1 r c hv).1 h

theorem kingFieldsAgree_black (g : SPChessGame) (hk : kingFieldsAgree g) (r c : Int)
    (hv : validPosition r c = true) (h : g.board r c = BLACK_KING) :
    r = g.blackKingRow ∧ c = g.blackKingCol := (hk.2.2.2 r c hv).1 h

/-- After a regular move, a castling flag of the opponent that is still true puts the
opponent's king on its home square in the state before the move. -/
theorem opponent_home (g : SPChessGame) (m : Move) (mm : Bool)
    (hk : kingFieldsAgree g) (hc : castleHome g)
    (ho : currentPlayerPiece g.currentPlayer m.srcPiece = true)
    (hf : ownLeftCastle (flipPlayer (updatesPrefix (setRegularMove g m) m mm)) = true
      ∨ ownRightCastle (flipPlayer (updatesPrefix (setRegularMove g m) m mm)) = true) :
    g.board (ownFirstRow (flipPlayer (updatesPrefix (setRegularMove g m) m mm)).currentPlayer)
        (ownKingCol (flipPlayer (updatesPrefix (setRegularMove g m) m mm)))
      = ownKing (flipPlayer (updatesPrefix (setRegularMove g m) m mm)).currentPlayer := by
  have hcc := castleConsistent_of g hk hc
  unfold ownLeftCastle ownRightCastle at hf
  unfold ownFirstRow ownKingCol ownKing
  simp only [flipPlayer, updatesPrefix_currentPlayer, setRegularMove_currentPlayer,
    updatesPrefix_whiteKingCol, updatesPrefix_blackKingCol] at hf ⊢
  cases hp : g.currentPlayer <;> rw [hp] at ho <;>
    simp only [hp, Player.not, reduceCtorEq, ↓reduceIte] at hf ⊢
  · have hne : m.srcPiece ≠ WHITE_KING := by
      intro e; rw [e] at ho; exact absurd ho (by decide)
    rw [((setRegularMove_white_king g m).2 hne).2]
    apply hcc.1
    rcases hf with h | h
    · exact Or.inl (setRegularMove_whiteLeftCastle_le _ _ (updatePrefix_whiteLeftCastle_le _ _ _ h))
    · exact Or.inr (setRegularMove_whiteRightCastle_le _ _ (updatePrefix_whiteRightCastle_le _ _ _ h))
  · have hne : m.srcPiece ≠ BLACK_KING := by
      intro e; rw [e] at ho; exact absurd ho (by decide)
    rw [((setRegularMove_black_king g m).2 hne).2]
    apply hcc.2
    rcases hf with h | h
    · exact Or.inl (setRegularMove_blackLeftCastle_le _ _ (updatePrefix_blackLeftCastle_le _ _ _ h))
    · exact Or.inr (setRegularMove_blackRightCastle_le _ _ (updatePrefix_blackRightCastle_le _ _ _ h))

/-- The round trip for an accepted regular move of a user that is not a promotion. -/
theorem roundtrip_regular (env : Env) (g : SPChessGame) (m : Move) (mm : Bool)
    (hcap : 0 < env.MAX_MOVES_FOR_PIECE) (hk : kingFieldsAgree g) (hc : castleHome g)
    (hst : statusAgrees env g) (hnt : nonTerminal g)
    (hpp : m.pawnPromotion = false) (hcm : m.castleMove = false)
    (hs : (spChessGameSetMove env g m mm false).1 = SP_CHESS_GAME_SUCCESS)
    (hnp : (spChessGameSetMove env g m mm false).2.2.pawnPromotion = false) :
    sameState (spChessGameUndoPrevMove (spChessGameSetMove env g m mm false).2.1
      (spChessGameSetMove env g m mm false).2.2).2 g := by
  have hcc := castleConsistent_of g hk hc
  obtain ⟨hsv, hdv, ho, hl, e⟩ := setMove_regular_success env g m mm hpp hcm hs
  rw [e] at hnp ⊢
  simp only at hnp ⊢
  rw [updatesAfterSettingMove_eq]
  simp only [hnp, Bool.not_false, ↓reduceIte]
  obtain ⟨G2, hph, eF⟩ := changePlayerAndUpdateStatus_any env
    (updatesPrefix (setRegularMove g (filledMove g (stampMove g m))) (filledMove g (stampMove g m))
      mm) hcap
  obtain ⟨eG, hbd⟩ := upToPhantom_eq _ _ hph
  rw [eF]
  generalize (changePlayerAndUpdateStatus env
    (updatesPrefix (setRegularMove g (filledMove g (stampMove g m)))
      (filledMove g (stampMove g m)) mm)).2.status = S
  rw [eG]
  have hsp : (filledMove g (stampMove g m)).srcPiece = g.board m.srcRow m.srcCol := rfl
  have hdp : (filledMove g (stampMove g m)).dstPiece = g.board m.dstRow m.dstCol := rfl
  apply undo_regular_sameState g _ (filledMove g (stampMove g m))
    (show (filledMove g (stampMove g m)).castleMove = false from hcm) hnp
  · -- board
    simp only [hsp, hdp]
    show (((G2.board.set m.srcRow m.srcCol (g.board m.srcRow m.srcCol)).set m.dstRow m.dstCol
      (g.board m.dstRow m.dstCol))) = g.board
    rcases hbd with hbd | ⟨hf, hbd⟩
    · rw [hbd]
      simp only [flipPlayer, updatesPrefix_board, setRegularMove_board, hsp]
      exact Board.restore_two g.board m.srcRow m.srcCol m.dstRow m.dstCol _ _
    · rw [hbd]
      simp only [flipPlayer, updatesPrefix_board, setRegularMove_board, hsp]
      apply restore_with_phantom
      exact opponent_home g (filledMove g (stampMove g m)) mm hk hc ho hf
  · exact ⟨rfl, rfl, rfl, rfl⟩
  · simp only [flipPlayer, updatesPrefix_whiteKingRow, updatesPrefix_whiteKingCol, hsp]
    by_cases h : g.board m.srcRow m.srcCol = WHITE_KING
    · simp only [h, ↓reduceIte]
      exact kingFieldsAgree_white g hk _ _ hsv h
    · simp only [h, ↓reduceIte]
      exact (setRegularMove_white_king g _).2 h
  · simp only [flipPlayer, updatesPrefix_blackKingRow, updatesPrefix_blackKingCol, hsp]
    by_cases h : g.board m.srcRow m.srcCol = BLACK_KING
    · simp only [h, ↓reduceIte]
      exact kingFieldsAgree_black g hk _ _ hsv h
    · simp only [h, ↓reduceIte]
      exact (setRegularMove_black_king g _).2 h
  · simp only [flipPlayer]
    rw [updatesPrefix_whiteArmy, updatesPrefix_blackArmy]
    constructor <;> split_ifs <;>
      first
      | exact updatePiecesAmount_whiteArmy_congr _ _ _ _ (setRegularMove_whiteArmy _ _)
      | exact updatePiecesAmount_blackArmy_congr _ _ _ _ (setRegularMove_blackArmy _ _)
      | exact setRegularMove_whiteArmy _ _
      | exact setRegularMove_blackArmy _ _
  · simp only [flipPlayer, updatesPrefix_currentPlayer, setRegularMove_currentPlayer]
  · exact status_of_agrees env g hcap hcc hst hnt

theorem Board.castle_roundtrip (b : Board) (row rc dk dr : Int) (K R : Piece)
    (n1 : dk ≠ rc) (n2 : dr ≠ dk) (n3 : dr ≠ rc) (n4 : KING_COL ≠ dk) (n5 : KING_COL ≠ rc)
    (n6 : KING_COL ≠ dr)
    (e1 : b row dk = EMPTY_POSITION) (e2 : b row rc = R) (e3 : b row dr = EMPTY_POSITION)
    (e4 : b row KING_COL = K) :
    ((((((((b.set row dk K).set row rc EMPTY_POSITION).set row dr R).set row KING_COL
      EMPTY_POSITION).set row KING_COL K).set row dk EMPTY_POSITION).set row rc R).set row dr
      EMPTY_POSITION) = b := by
  funext r c
  simp only [Board.set_apply]
  split_ifs with h1 h2 h3 h4 <;>
    first
    | rfl
    | (obtain ⟨rfl, rfl⟩ := h1; exact e3.symm)
    | (obtain ⟨rfl, rfl⟩ := h2; exact e2.symm)
    | (obtain ⟨rfl, rfl⟩ := h3; exact e1.symm)
    | (obtain ⟨rfl, rfl⟩ := h4; exact e4.symm)

theorem undoCastleMove_board (g : SPChessGame) (m : Move) :
    (undoCastleMove g m).board =
      (((g.board.set (if m.srcPiece = WHITE_ROOK then WHITE_FIRST_ROW else BLACK_FIRST_ROW)
            KING_COL (if m.srcPiece = WHITE_ROOK then WHITE_KING else BLACK_KING)).set
          (if m.srcPiece = WHITE_ROOK then WHITE_FIRST_ROW else BLACK_FIRST_ROW)
          (if m.srcPiece = WHITE_ROOK then g.whiteKingCol else g.blackKingCol) EMPTY_POSITION).set
        (if m.srcPiece = WHITE_ROOK then WHITE_FIRST_ROW else BLACK_FIRST_ROW) m.srcCol
        (if m.srcPiece = WHITE_ROOK then WHITE_ROOK else BLACK_ROOK)).set
      (if m.srcPiece = WHITE_ROOK then WHITE_FIRST_ROW else BLACK_FIRST_ROW) m.dstCol
      EMPTY_POSITION := by
  unfold undoCastleMove
  simp only
  split_ifs <;> rfl

@[simp] theorem undoCastleMove_currentPlayer (g : SPChessGame) (m : Move) :
    (undoCastleMove g m).currentPlayer = g.currentPlayer := by
  unfold undoCastleMove
  simp only
  split_ifs <;> rfl

@[simp] theorem undoCastleMove_whiteLeftCastle (g : SPChessGame) (m : Move) :
    (undoCastleMove g m).whiteLeftCastle = g.whiteLeftCastle := by
  unfold undoCastleMove
  simp only
  split_ifs <;> rfl

@[simp] theorem undoCastleMove_whiteRightCastle (g : SPChessGame) (m : Move) :
    (undoCastleMove g m).whiteRightCastle = g.whiteRightCastle := by
  unfold undoCastleMove
  simp only
  split_ifs <;> rfl

@[simp] theorem undoCastleMove_blackLeftCastle (g : SPChessGame) (m : Move) :
    (undoCastleMove g m).blackLeftCastle = g.blackLeftCastle := by
  unfold undoCastleMove
  simp only
  split_ifs <;> rfl

@[simp] theorem undoCastleMove_blackRightCastle (g : SPChessGame) (m : Move) :
    (undoCastleMove g m).blackRightCastle = g.blackRightCastle := by
  unfold undoCastleMove
  simp only
  split_ifs <;> rfl

@[simp] theorem undoCastleMove_whiteKingRow (g : SPChessGame) (m : Move) :
    (undoCastleMove g m).whiteKingRow = g.whiteKingRow := by
  unfold undoCastleMove
  simp only
  split_ifs <;> rfl

@[simp] theorem undoCastleMove_blackKingRow (g : SPChessGame) (m : Move) :
    (undoCastleMove g m).blackKingRow = g.blackKingRow := by
  unfold undoCastleMove
  simp only
  split_ifs <;> rfl

@[simp] theorem undoCastleMove_whiteArmy (g : SPChessGame) (m : Move) :
    (undoCastleMove g m).whiteArmy = g.whiteArmy := by
  unfold undoCastleMove
  simp only
  split_ifs <;> rfl

@[simp] theorem undoCastleMove_blackArmy (g : SPChessGame) (m : Move) :
    (undoCastleMove g m).blackArmy = g.blackArmy := by
  unfold undoCastleMove
  simp only
  split_ifs <;> rfl

@[simp] theorem undoCastleMove_history (g : SPChessGame) (m : Move) :
    (undoCastleMove g m).history = g.history := by
  unfold undoCastleMove
  simp only
  split_ifs <;> rfl

@[simp] theorem undoCastleMove_status (g : SPChessGame) (m : Move) :
    (undoCastleMove g m).status = g.status := by
  unfold undoCastleMove
  simp only
  split_ifs <;> rfl

theorem undoCastleMove_kingCol (g : SPChessGame) (m : Move) :
    (undoCastleMove g m).whiteKingCol
        = (if m.srcPiece = WHITE_ROOK then KING_COL else g.whiteKingCol)
    ∧ (undoCastleMove g m).blackKingCol
        = (if m.srcPiece = WHITE_ROOK then g.blackKingCol else KING_COL) := by
  unfold undoCastleMove
  simp only
  split_ifs <;> simp_all [SPChessGame.setBoard]

theorem setCastleMove_kingCol (g : SPChessGame) (m : Move) :
    (setCastleMove g m).1.whiteKingCol
        = (if m.srcPiece = WHITE_ROOK then
            (if m.srcCol = LEFT_ROOK_COL then KING_COL - 2 else KING_COL + 2)
          else g.whiteKingCol)
    ∧ (setCastleMove g m).1.blackKingCol
        = (if m.srcPiece = WHITE_ROOK then g.blackKingCol
          else (if m.srcCol = LEFT_ROOK_COL then KING_COL - 2 else KING_COL + 2)) := by
  unfold setCastleMove
  simp only
  split_ifs <;> simp_all [SPChessGame.setBoard]

theorem undoBoard_castle (g : SPChessGame) (m : Move) (hcm : m.castleMove = true) :
    undoBoard g m = undoCastleMove g m := by
  unfold undoBoard
  simp [hcm]

theorem undoArmies_castle (g : SPChessGame) (m : Move) (hcm : m.castleMove = true) :
    undoArmies g m = g := by
  unfold undoArmies
  simp [hcm]

theorem updatesPrefix_armies_same (g : SPChessGame) (m : Move) (mm : Bool)
    (hdc : m.dstPieceCaptured = false) :
    (updatesPrefix g m mm).whiteArmy = g.whiteArmy
    ∧ (updatesPrefix g m mm).blackArmy = g.blackArmy := by
  rw [updatesPrefix_whiteArmy, updatesPrefix_blackArmy, hdc]
  exact ⟨rfl, rfl⟩

/-- The round trip for an accepted castle of a user. -/
theorem roundtrip_castle (env : Env) (g : SPChessGame) (m : Move) (mm : Bool)
    (hcap : 0 < env.MAX_MOVES_FOR_PIECE) (hk : kingFieldsAgree g) (hc : castleHome g)
    (hst : statusAgrees env g) (hnt : nonTerminal g)
    (hpp : m.pawnPromotion = false) (hdc : m.dstPieceCaptured = false)
    (hcm : m.castleMove = true)
    (hs : (spChessGameSetMove env g m mm false).1 = SP_CHESS_GAME_SUCCESS) :
    sameState (spChessGameUndoPrevMove (spChessGameSetMove env g m mm false).2.1
      (spChessGameSetMove env g m mm false).2.2).2 g := by
  have hcc := castleConsistent_of g hk hc
  obtain ⟨hrook, hl, e⟩ := setMove_castle_result env g m mm hcap hk hc hpp hcm hs
  obtain ⟨hr, hkc, hkb, hrb, hside⟩ := legalCastle_facts g _ hk hc hrook hl
  have hstatus := status_of_agrees env g hcap hcc hst hnt
  rw [e]
  simp only
  rw [undo_eq]
  simp only
  have hcm2 : (setCastleMove g (stampMove g m)).2.castleMove = true := by
    rw [setCastleMove_move]; exact hcm
  have hdc2 : (setCastleMove g (stampMove g m)).2.dstPieceCaptured = false := by
    rw [setCastleMove_move]; exact hdc
  have hsp2 : (setCastleMove g (stampMove g m)).2.srcPiece = ownRook g.currentPlayer := by
    rw [setCastleMove_move]; exact hrook
  have hnk : (setCastleMove g (stampMove g m)).2.srcPiece ≠ WHITE_KING
      ∧ (setCastleMove g (stampMove g m)).2.srcPiece ≠ BLACK_KING := by
    rw [hsp2]; unfold ownRook; split_ifs <;> exact ⟨by decide, by decide⟩
  rw [undoArmies_castle _ _ hcm2, undoBoard_castle _ _ hcm2]
  have harm := updatesPrefix_armies_same (setCastleMove g (stampMove g m)).1
    (setCastleMove g (stampMove g m)).2 mm hdc2
  have hP : (undoFinish (undoFields (undoCastleMove (flipAndStatus env
      (updatesPrefix (setCastleMove g (stampMove g m)).1 (setCastleMove g (stampMove g m)).2 mm))
      (setCastleMove g (stampMove g m)).2) (setCastleMove g (stampMove g m)).2)).currentPlayer
      = g.currentPlayer := by
    simp [flipAndStatus, flipPlayer, Player.not_not]
  have hB : (undoFinish (undoFields (undoCastleMove (flipAndStatus env
      (updatesPrefix (setCastleMove g (stampMove g m)).1 (setCastleMove g (stampMove g m)).2 mm))
      (setCastleMove g (stampMove g m)).2) (setCastleMove g (stampMove g m)).2)).board
      = g.board := by
    simp only [undoFinish_board, undoFields_board, undoCastleMove_board, flipAndStatus, flipPlayer,
      updatesPrefix_board, updatesPrefix_whiteKingCol, updatesPrefix_blackKingCol,
      setCastleMove_board, (setCastleMove_kingCol _ _).1, (setCastleMove_kingCol _ _).2, hsp2]
    simp only [setCastleMove_move, hrook, hr]
    have hrow : (if ownRook g.currentPlayer = WHITE_ROOK then WHITE_FIRST_ROW else BLACK_FIRST_ROW)
        = ownFirstRow g.currentPlayer := by
      unfold ownRook ownFirstRow; cases g.currentPlayer <;> simp
    have hK : (if ownRook g.currentPlayer = WHITE_ROOK then WHITE_KING else BLACK_KING)
        = ownKing g.currentPlayer := by
      unfold ownRook ownKing; cases g.currentPlayer <;> simp
    have hR : (if ownRook g.currentPlayer = WHITE_ROOK then WHITE_ROOK else BLACK_ROOK)
        = ownRook g.currentPlayer := by
      unfold ownRook; cases g.currentPlayer <;> simp
    have hcol : ∀ x : Int,
        (if ownRook g.currentPlayer = WHITE_ROOK then
          (if ownRook g.currentPlayer = WHITE_ROOK then x else g.whiteKingCol)
        else (if ownRook g.currentPlayer = WHITE_ROOK then g.blackKingCol else x)) = x := by
      intro x; split_ifs <;> rfl
    rw [hrow, hK, hR, hcol]
    rcases hside with ⟨hcl, -, h1, h2, h3⟩ | ⟨hcl, -, h5, h6⟩
    · rw [hcl] at hrb ⊢
      have := Board.castle_roundtrip g.board (ownFirstRow g.currentPlayer) LEFT_ROOK_COL 2 3
        (ownKing g.currentPlayer) (ownRook g.currentPlayer) (by decide) (by decide) (by decide)
        (by decide) (by decide) (by decide) h2 hrb h3 hkb
      simpa [LEFT_ROOK_COL, KING_COL] using this
    · rw [hcl] at hrb ⊢
      have := Board.castle_roundtrip g.board (ownFirstRow g.currentPlayer) RIGHT_ROOK_COL 6 5
        (ownKing g.currentPlayer) (ownRook g.currentPlayer) (by decide) (by decide) (by decide)
        (by decide) (by decide) (by decide) h6 hrb h5 hkb
      simpa [LEFT_ROOK_COL, RIGHT_ROOK_COL, KING_COL] using this
  have hWK : (undoFinish (undoFields (undoCastleMove (flipAndStatus env
      (updatesPrefix (setCastleMove g (stampMove g m)).1 (setCastleMove g (stampMove g m)).2 mm))
      (setCastleMove g (stampMove g m)).2) (setCastleMove g (stampMove g m)).2)).whiteKingCol
      = g.whiteKingCol
    ∧ (undoFinish (undoFields (undoCastleMove (flipAndStatus env
      (updatesPrefix (setCastleMove g (stampMove g m)).1 (setCastleMove g (stampMove g m)).2 mm))
      (setCastleMove g (stampMove g m)).2) (setCastleMove g (stampMove g m)).2)).blackKingCol
      = g.blackKingCol := by
    simp only [undoFinish_whiteKingCol, undoFinish_blackKingCol, (undoFields_white_king _ _).2,
      (undoFields_black_king _ _).2, hnk.1, hnk.2, ↓reduceIte, (undoCastleMove_kingCol _ _).1,
      (undoCastleMove_kingCol _ _).2, hsp2, flipAndStatus, flipPlayer, updatesPrefix_whiteKingCol,
      updatesPrefix_blackKingCol, (setCastleMove_kingCol _ _).1, (setCastleMove_kingCol _ _).2,
      hrook]
    unfold ownKingCol at hkc
    unfold ownRook
    cases hp : g.currentPlayer <;> simp only [hp, reduceCtorEq, ↓reduceIte] at hkc ⊢
    · exact ⟨trivial, hkc.symm⟩
    · exact ⟨hkc.symm, trivial⟩
  have hKR : (undoFinish (undoFields (undoCastleMove (flipAndStatus env
      (updatesPrefix (setCastleMove g (stampMove g m)).1 (setCastleMove g (stampMove g m)).2 mm))
      (setCastleMove g (stampMove g m)).2) (setCastleMove g (stampMove g m)).2)).whiteKingRow
      = g.whiteKingRow
    ∧ (undoFinish (undoFields (undoCastleMove (flipAndStatus env
      (updatesPrefix (setCastleMove g (stampMove g m)).1 (setCastleMove g (stampMove g m)).2 mm))
      (setCastleMove g (stampMove g m)).2) (setCastleMove g (stampMove g m)).2)).blackKingRow
      = g.blackKingRow := by
    simp [(undoFields_white_king _ _).1, (undoFields_black_king _ _).1, hnk.1, hnk.2,
      flipAndStatus, flipPlayer]
  refine ⟨hB, ?_, ?_, ?_, ?_, hKR.1, hWK.1, hKR.2, hWK.2, ?_, ?_, hP, ?_⟩
  · simp [setCastleMove_move, stampMove]
  · simp [setCastleMove_move, stampMove]
  · simp [setCastleMove_move, stampMove]
  · simp [setCastleMove_move, stampMove]
  · simp [flipAndStatus, flipPlayer, harm.1]
  · simp [flipAndStatus, flipPlayer, harm.2]
  · rw [undoFinish_status, hstatus]
    have e1 : ownKingRow (undoFinish (undoFields (undoCastleMove (flipAndStatus env
        (updatesPrefix (setCastleMove g (stampMove g m)).1 (setCastleMove g (stampMove g m)).2 mm))
        (setCastleMove g (stampMove g m)).2) (setCastleMove g (stampMove g m)).2))
        = ownKingRow g := by
      unfold ownKingRow; rw [hP, hKR.1, hKR.2]
    have e2 : ownKingCol (undoFinish (undoFields (undoCastleMove (flipAndStatus env
        (updatesPrefix (setCastleMove g (stampMove g m)).1 (setCastleMove g (stampMove g m)).2 mm))
        (setCastleMove g (stampMove g m)).2) (setCastleMove g (stampMove g m)).2))
        = ownKingCol g := by
      unfold ownKingCol; rw [hP, hWK.1, hWK.2]
    rw [e1, e2, rivalPlayerThreateningPosition_congr _ g _ _ hB hP]

/-- The board after the undo of a completed promotion of a user. -/
theorem restore_promotion (b : Board) (sr sc dr dc : Int) (x y : Piece) :
    (((((b.set sr sc EMPTY_POSITION).set dr dc x).set dr dc y).set sr sc (b sr sc)).set
      dr dc (b dr dc)) = b := by
  funext r c
  simp only [Board.set_apply]
  split_ifs with h1 h2 <;>
    first
    | rfl
    | (obtain ⟨rfl, rfl⟩ := h1; rfl)
    | (obtain ⟨rfl, rfl⟩ := h2; rfl)

/-- The board after the undo of a completed promotion of a user, when the status
computation after it has left the phantom king of the opponent on its home square. -/
theorem restore_promotion_phantom (b : Board) (sr sc dr dc fr kc : Int) (K x y : Piece)
    (hK : b fr kc = K) :
    ((((((b.set sr sc EMPTY_POSITION).set dr dc x).set dr dc y).set fr kc K).set
      sr sc (b sr sc)).set dr dc (b dr dc)) = b := by
  funext r c
  simp only [Board.set_apply]
  split_ifs with h1 h2 h3 <;>
    first
    | rfl
    | (obtain ⟨rfl, rfl⟩ := h1; rfl)
    | (obtain ⟨rfl, rfl⟩ := h2; rfl)
    | (obtain ⟨rfl, rfl⟩ := h3; exact hK.symm)

/-- The undo of a promotion, from what the state `F` it is applied to shares with the state
`g` before the move: everything but the armies is given back. -/
theorem undo_promotion_sameButArmies (g F : SPChessGame) (m : Move)
    (hcm : m.castleMove = false) (hpp : m.pawnPromotion = true)
    (hboard : (F.board.set m.srcRow m.srcCol (ownPawn g.currentPlayer)).set m.dstRow m.dstCol
      m.dstPiece = g.board)
    (hflags : m.whiteLeftCastle = g.whiteLeftCastle ∧ m.whiteRightCastle = g.whiteRightCastle
      ∧ m.blackLeftCastle = g.blackLeftCastle ∧ m.blackRightCastle = g.blackRightCastle)
    (hnk : m.srcPiece ≠ WHITE_KING ∧ m.srcPiece ≠ BLACK_KING)
    (hwk : F.whiteKingRow = g.whiteKingRow ∧ F.whiteKingCol = g.whiteKingCol)
    (hbk : F.blackKingRow = g.blackKingRow ∧ F.blackKingCol = g.blackKingCol)
    (hpl : F.currentPlayer = g.currentPlayer.not)
    (hstatus : g.status = if rivalPlayerThreateningPosition g (ownKingRow g) (ownKingCol g)
      then GAME_NOT_FINISHED_CHECK else GAME_NOT_FINISHED_NO_CHECK) :
    sameButArmies (spChessGameUndoPrevMove F m).2 g := by
  rw [undo_eq]
  have hub : (undoBoard F m).board
      = (F.board.set m.srcRow m.srcCol (ownPawn g.currentPlayer)).set m.dstRow m.dstCol
          m.dstPiece := by
    unfold undoBoard ownPawn
    simp only [hcm, hpp, Bool.false_eq_true, ↓reduceIte, hpl, Player.not_not,
      SPChessGame.setBoard_board]
  have hup : (undoBoard F m).currentPlayer = F.currentPlayer := by
    unfold undoBoard
    simp only [hcm, Bool.false_eq_true, ↓reduceIte, SPChessGame.setBoard_currentPlayer]
  have hukw : (undoBoard F m).whiteKingRow = F.whiteKingRow
      ∧ (undoBoard F m).whiteKingCol = F.whiteKingCol
      ∧ (undoBoard F m).blackKingRow = F.blackKingRow
      ∧ (undoBoard F m).blackKingCol = F.blackKingCol := by
    unfold undoBoard
    simp only [hcm, Bool.false_eq_true, ↓reduceIte]
    exact ⟨rfl, rfl, rfl, rfl⟩
  have hB : (undoFinish (undoArmies (undoFields (undoBoard F m) m) m)).board = g.board := by
    simp only [undoFinish_board, undoArmies_board, undoFields_board, hub, hboard]
  have hP : (undoFinish (undoArmies (undoFields (undoBoard F m) m) m)).currentPlayer
      = g.currentPlayer := by
    simp only [undoFinish_currentPlayer, undoArmies_currentPlayer, undoFields_currentPlayer,
      hup, hpl, Player.not_not]
  have hWK : (undoFinish (undoArmies (undoFields (undoBoard F m) m) m)).whiteKingRow
        = g.whiteKingRow
      ∧ (undoFinish (undoArmies (undoFields (undoBoard F m) m) m)).whiteKingCol
        = g.whiteKingCol := by
    simp only [undoFinish_whiteKingRow, undoArmies_whiteKingRow, undoFinish_whiteKingCol,
      undoArmies_whiteKingCol, (undoFields_white_king _ _).1, (undoFields_white_king _ _).2,
      hnk.1, ↓reduceIte, hukw.1, hukw.2.1]
    exact hwk
  have hBK : (undoFinish (undoArmies (undoFields (undoBoard F m) m) m)).blackKingRow
        = g.blackKingRow
      ∧ (undoFinish (undoArmies (undoFields (undoBoard F m) m) m)).blackKingCol
        = g.blackKingCol := by
    simp only [undoFinish_blackKingRow, undoArmies_blackKingRow, undoFinish_blackKingCol,
      undoArmies_blackKingCol, (undoFields_black_king _ _).1, (undoFields_black_king _ _).2,
      hnk.2, ↓reduceIte, hukw.2.2.1, hukw.2.2.2]
    exact hbk
  refine ⟨hB, ?_, ?_, ?_, ?_, hWK.1, hWK.2, hBK.1, hBK.2, hP, ?_⟩
  · simp [hflags.1]
  · simp [hflags.2.1]
  · simp [hflags.2.2.1]
  · simp [hflags.2.2.2]
  · rw [undoFinish_status, hstatus]
    have e1 : ownKingRow (undoFinish (undoArmies (undoFields (undoBoard F m) m) m))
        = ownKingRow g := by
      unfold ownKingRow; rw [hP, hWK.1, hBK.1]
    have e2 : ownKingCol (undoFinish (undoArmies (undoFields (undoBoard F m) m) m))
        = ownKingCol g := by
      unfold ownKingCol; rw [hP, hWK.2, hBK.2]
    rw [e1, e2, rivalPlayerThreateningPosition_congr _ g _ _ hB hP]

/-- The round trip for an accepted promotion of a user, completed with the chosen piece:
the undo with the completed move gives back everything but the armies. -/
theorem roundtrip_promotion (env : Env) (g : SPChessGame) (m : Move) (piece : Piece)
    (hcap : 0 < env.MAX_MOVES_FOR_PIECE) (hk : kingFieldsAgree g) (hc : castleHome g)
    (hst : statusAgrees env g) (hnt : nonTerminal g)
    (hpp : m.pawnPromotion = false)
    (hpiece : piece ≠ WHITE_KING ∧ piece ≠ BLACK_KING)
    (hflag : (spChessGameSetMove env g m false false).2.2.pawnPromotion = true)
    (hs : (applyUserMove env g m piece).1 = SP_CHESS_GAME_SUCCESS) :
    sameButArmies (spChessGameUndoPrevMove (applyUserMove env g m piece).2.1
      (applyUserMove env g m piece).2.2).2 g := by
  have hcc := castleConsistent_of g hk hc
  have h1 : (spChessGameSetMove env g m false false).1 = SP_CHESS_GAME_SUCCESS := by
    by_contra h
    unfold applyUserMove at hs
    simp only [ne_eq, h, not_false_eq_true, ↓reduceIte] at hs
  have hcm : m.castleMove = false := by
    by_contra hcm
    simp only [Bool.not_eq_false] at hcm
    obtain ⟨-, -, -, -, e⟩ := setMove_castle_success env g m false hpp hcm hcc h1
    rw [e] at hflag
    simp only [setCastleMove_move, stampMove, hpp] at hflag
    exact absurd hflag (by decide)
  obtain ⟨hsv, hdv, ho, hl, e⟩ := setMove_regular_success env g m false hpp hcm h1
  have eA : applyUserMove env g m piece =
      ((spChessGameSetPawnPromotion env (spChessGameSetMove env g m false false).2.1
          { (spChessGameSetMove env g m false false).2.2 with srcPiece := piece } false).1,
        (spChessGameSetPawnPromotion env (spChessGameSetMove env g m false false).2.1
          { (spChessGameSetMove env g m false false).2.2 with srcPiece := piece } false).2,
        { (spChessGameSetMove env g m false false).2.2 with srcPiece := piece }) := by
    unfold applyUserMove
    simp only []
    rw [if_neg (by simpa using h1), if_pos hflag]
  rw [eA]
  rw [e] at hflag
  simp only [] at hflag
  have hX : updatesAfterSettingMove env (setRegularMove g (filledMove g (stampMove g m)))
      (filledMove g (stampMove g m)) false
      = (SP_CHESS_GAME_SUCCESS, updatesPrefix (setRegularMove g (filledMove g (stampMove g m)))
          (filledMove g (stampMove g m)) false) := by
    rw [updatesAfterSettingMove_eq]
    simp only [hflag, Bool.not_true, Bool.false_eq_true, ↓reduceIte]
  rw [e, hX]
  show sameButArmies (spChessGameUndoPrevMove
    (spChessGameSetPawnPromotion env
      (updatesPrefix (setRegularMove g (filledMove g (stampMove g m)))
        (filledMove g (stampMove g m)) false)
      { filledMove g (stampMove g m) with srcPiece := piece } false).2
    { filledMove g (stampMove g m) with srcPiece := piece }).2 g
  rw [spChessGameSetPawnPromotion_eq]
  obtain ⟨G2, hph, eF⟩ := changePlayerAndUpdateStatus_any env
    (promotionPrefix (updatesPrefix (setRegularMove g (filledMove g (stampMove g m)))
        (filledMove g (stampMove g m)) false)
      { filledMove g (stampMove g m) with srcPiece := piece } false) hcap
  obtain ⟨eG, hbd⟩ := upToPhantom_eq _ _ hph
  rw [eF]
  generalize (changePlayerAndUpdateStatus env
    (promotionPrefix (updatesPrefix (setRegularMove g (filledMove g (stampMove g m)))
        (filledMove g (stampMove g m)) false)
      { filledMove g (stampMove g m) with srcPiece := piece } false)).2.status = S
  rw [eG]
  have hsp : (filledMove g (stampMove g m)).srcPiece = g.board m.srcRow m.srcCol := rfl
  have hreach : reachesLastRow g (stampMove g m) := by
    simpa [filledMove, stampMove, hpp] using hflag
  have hpawn : g.board m.srcRow m.srcCol = ownPawn g.currentPlayer := by
    unfold reachesLastRow at hreach
    unfold ownPawn
    rcases hreach with ⟨h1, h2, -⟩ | ⟨h1, h2, -⟩
    · rw [if_pos h1]; exact h2
    · rw [if_neg (by rw [h1]; decide)]; exact h2
  have hnotking : g.board m.srcRow m.srcCol ≠ WHITE_KING
      ∧ g.board m.srcRow m.srcCol ≠ BLACK_KING := by
    rw [hpawn]
    unfold ownPawn
    split_ifs <;> exact ⟨by decide, by decide⟩
  apply undo_promotion_sameButArmies g _ { filledMove g (stampMove g m) with srcPiece := piece }
    (show (filledMove g (stampMove g m)).castleMove = false from hcm) hflag
  · -- board
    show ((G2.board.set m.srcRow m.srcCol (ownPawn g.currentPlayer)).set m.dstRow m.dstCol
      (g.board m.dstRow m.dstCol)) = g.board
    rw [← hpawn]
    rcases hbd with hbd | ⟨hf, hbd⟩
    · rw [hbd]
      simp only [flipPlayer, promotionPrefix_board, updatesPrefix_board, setRegularMove_board,
        hsp, Bool.false_eq_true, ↓reduceIte]
      exact restore_promotion g.board m.srcRow m.srcCol m.dstRow m.dstCol _ _
    · rw [hbd]
      have hf2 : ownLeftCastle (flipPlayer (updatesPrefix (setRegularMove g
            (filledMove g (stampMove g m))) (filledMove g (stampMove g m)) false)) = true
          ∨ ownRightCastle (flipPlayer (updatesPrefix (setRegularMove g
            (filledMove g (stampMove g m))) (filledMove g (stampMove g m)) false)) = true := by
        simpa [ownLeftCastle, ownRightCastle, flipPlayer] using hf
      have hhome := opponent_home g (filledMove g (stampMove g m)) false hk hc ho hf2
      simp only [flipPlayer, promotionPrefix_board, updatesPrefix_board, setRegularMove_board,
        hsp, Bool.false_eq_true, ↓reduceIte, ownKingCol, promotionPrefix_currentPlayer,
        promotionPrefix_whiteKingCol, promotionPrefix_blackKingCol]
      apply restore_promotion_phantom
      simpa [flipPlayer, ownKingCol] using hhome
  · exact ⟨rfl, rfl, rfl, rfl⟩
  · exact hpiece
  · simp only [flipPlayer, promotionPrefix_whiteKingRow, promotionPrefix_whiteKingCol,
      updatesPrefix_whiteKingRow, updatesPrefix_whiteKingCol]
    exact (setRegularMove_white_king g _).2 (by rw [hsp]; exact hnotking.1)
  · simp only [flipPlayer, promotionPrefix_blackKingRow, promotionPrefix_blackKingCol,
      updatesPrefix_blackKingRow, updatesPrefix_blackKingCol]
    exact (setRegularMove_black_king g _).2 (by rw [hsp]; exact hnotking.2)
  · simp only [flipPlayer, promotionPrefix_currentPlayer, updatesPrefix_currentPlayer,
      setRegularMove_currentPlayer]
  · exact status_of_agrees env g hcap hcc hst hnt

/-! ## C1: the undo round trip -/

set_option maxHeartbeats 4000000 in
/-- C1, as stated, fails in two ways.  (1) Promotion: in `sampleGame` (king fields and
counters agree with the board, the status agrees and is not terminal) the user promotes
a7-a8 to a queen; undoing with the completed move, or with the move stored in the history,
does not give back the armies of `sampleGame`.  (2) A stale castling flag: `staleQueenGame`
satisfies the same conditions, the king move h8-g8 is accepted, and the status computation
that follows writes a white king over the queen on e1 (the castle simulation for the rook
a1); the undo leaves that king there. -/
theorem C1_undo_round_trip_counterexample :
    (kingFieldsAgree sampleGame ∧ armiesAgree sampleGame ∧ statusAgrees sampleEnv sampleGame
      ∧ nonTerminal sampleGame
      ∧ (applyUserMove sampleEnv sampleGame samplePromotionMove WHITE_QUEEN).1
          = SP_CHESS_GAME_SUCCESS
      ∧ ¬ sameState
          (spChessGameUndoPrevMove
            (applyUserMove sampleEnv sampleGame samplePromotionMove WHITE_QUEEN).2.1
            (applyUserMove sampleEnv sampleGame samplePromotionMove WHITE_QUEEN).2.2).2
          sampleGame
      ∧ ¬ sameState
          (undoLastMove (applyUserMove sampleEnv sampleGame samplePromotionMove WHITE_QUEEN).2.1)
          sampleGame)
    ∧ (kingFieldsAgree staleQueenGame ∧ armiesAgree staleQueenGame
      ∧ statusAgrees sampleEnv staleQueenGame ∧ nonTerminal staleQueenGame
      ∧ (spChessGameSetMove sampleEnv staleQueenGame staleQueenMove false false).1
          = SP_CHESS_GAME_SUCCESS
      ∧ staleQueenGame.board 0 4 = WHITE_QUEEN
      ∧ ¬ sameState
          (spChessGameUndoPrevMove
            (spChessGameSetMove sampleEnv staleQueenGame staleQueenMove false false).2.1
            (spChessGameSetMove sampleEnv staleQueenGame staleQueenMove false false).2.2).2
          staleQueenGame) := by
  obtain ⟨⟨p1, -, p2, p3, p4, -, -⟩, ⟨-, p5, p6, p7⟩, -⟩ := samplePromotion_facts
  obtain ⟨⟨q1, q2, q3, q4, -, q5, -⟩, q6, -, -, q7⟩ := staleQueen_facts
  exact ⟨⟨p1, p2, p3, p4, p5, fun h => p6 h.2.2.2.2.2.2.2.2.2.2.1,
      fun h => p7 h.2.2.2.2.2.2.2.2.2.1⟩,
    ⟨q1, q2, q3, q4, q6, q5, fun h => q7 (by rw [h.1])⟩⟩

/-- C1, amended.  Undo round trip on a state that is well-formed also in its castling flags:
the king-position fields agree with the board, a true castling flag implies king and rook on
their home squares, the status agrees with the position and is in-check or no-check, and the
per-piece list capacity is positive.  The move is as the command handler builds it
(promotion flag clear, capture flag clear for a castle).  (1) When `spChessGameSetMove`
accepts it from a user and does not flag it as a promotion, `spChessGameUndoPrevMove` with
that move gives back the board, the four castling flags, both king positions, both armies,
the side to move and the status.  (2) When `spChessGameSetMove` flags it as a promotion and
`spChessGameSetPawnPromotion` completes it with the chosen piece (no king: the handler
offers queen, rook, bishop, knight and pawn), `spChessGameUndoPrevMove` with the completed
move gives back the board, the four castling flags, both king positions, the side to move
and the status; the armies are not claimed for a promotion. -/
theorem C1_undo_round_trip (env : Env) (g : SPChessGame) (m : Move)
    (hcap : 0 < env.MAX_MOVES_FOR_PIECE) (hk : kingFieldsAgree g) (hc : castleHome g)
    (hst : statusAgrees env g) (hnt : nonTerminal g)
    (hpp : m.pawnPromotion = false)
    (hdc : m.castleMove = true → m.dstPieceCaptured = false) :
    (∀ mm : Bool, (spChessGameSetMove env g m mm false).1 = SP_CHESS_GAME_SUCCESS →
      (spChessGameSetMove env g m mm false).2.2.pawnPromotion = false →
      sameState (spChessGameUndoPrevMove (spChessGameSetMove env g m mm false).2.1
        (spChessGameSetMove env g m mm false).2.2).2 g)
    ∧ (∀ piece : Piece, piece ≠ WHITE_KING → piece ≠ BLACK_KING →
      (spChessGameSetMove env g m false false).2.2.pawnPromotion = true →
      (applyUserMove env g m piece).1 = SP_CHESS_GAME_SUCCESS →
      sameButArmies (spChessGameUndoPrevMove (applyUserMove env g m piece).2.1
        (applyUserMove env g m piece).2.2).2 g) := by
  constructor
  · intro mm hs hnp
    by_cases hcm : m.castleMove = true
    · exact roundtrip_castle env g m mm hcap hk hc hst hnt hpp (hdc hcm) hcm hs
    · simp only [Bool.not_eq_true] at hcm
      exact roundtrip_regular env g m mm hcap hk hc hst hnt hpp hcm hs hnp
  · intro piece h1 h2 hflag hs
    exact roundtrip_promotion env g m piece hcap hk hc hst hnt hpp ⟨h1, h2⟩ hflag hs

set_option maxHeartbeats 4000000 in
/-- C1 (amended) at concrete inputs: the castle with the a1 rook in `castleGame` is accepted
and its undo gives the state back; the promotion a7-a8 to a queen in `sampleGame` is
accepted and its undo gives back everything but the armies. -/
theorem C1_undo_round_trip_witness :
    (0 < sampleEnv.MAX_MOVES_FOR_PIECE ∧ kingFieldsAgree castleGame ∧ castleHome castleGame
      ∧ statusAgrees sampleEnv castleGame ∧ nonTerminal castleGame
      ∧ (spChessGameSetMove sampleEnv castleGame castleLeftCommand false false).1
          = SP_CHESS_GAME_SUCCESS
      ∧ sameState
          (spChessGameUndoPrevMove
            (spChessGameSetMove sampleEnv castleGame castleLeftCommand false false).2.1
            (spChessGameSetMove sampleEnv castleGame castleLeftCommand false false).2.2).2
          castleGame)
    ∧ (kingFieldsAgree sampleGame ∧ castleHome sampleGame
      ∧ statusAgrees sampleEnv sampleGame ∧ nonTerminal sampleGame
      ∧ (spChessGameSetMove sampleEnv sampleGame samplePromotionMove false
          false).2.2.pawnPromotion = true
      ∧ (applyUserMove sampleEnv sampleGame samplePromotionMove WHITE_QUEEN).1
          = SP_CHESS_GAME_SUCCESS
      ∧ sameButArmies
          (spChessGameUndoPrevMove
            (applyUserMove sampleEnv sampleGame samplePromotionMove WHITE_QUEEN).2.1
            (applyUserMove sampleEnv sampleGame samplePromotionMove WHITE_QUEEN).2.2).2
          sampleGame) :=
  have hA : kingFieldsAgree castleGame ∧ castleHome castleGame
      ∧ statusAgrees sampleEnv castleGame ∧ nonTerminal castleGame
      ∧ (spChessGameSetMove sampleEnv castleGame castleLeftCommand false false).1
          = SP_CHESS_GAME_SUCCESS
      ∧ (spChessGameSetMove sampleEnv castleGame castleLeftCommand false
          false).2.2.pawnPromotion = false := by decide!
  have a1 := hA.1
  have a2 := hA.2.1
  have a3 := hA.2.2.1
  have a4 := hA.2.2.2.1
  have a5 := hA.2.2.2.2.1
  have b1 := samplePromotion_facts.1.1
  have b2 := samplePromotion_facts.1.2.1
  have b3 := samplePromotion_facts.1.2.2.2.1
  have b4 := samplePromotion_facts.1.2.2.2.2.1
  have b5 := samplePromotion_facts.2.1.1
  have b6 := samplePromotion_facts.2.1.2.1
  ⟨⟨by decide, a1, a2, a3, a4, a5,
      (C1_undo_round_trip sampleEnv castleGame castleLeftCommand (by decide) a1 a2 a3 a4
        rfl (fun _ => rfl)).1 false a5 hA.2.2.2.2.2⟩,
    ⟨b1, b2, b3, b4, b5, b6,
      (C1_undo_round_trip sampleEnv sampleGame samplePromotionMove (by decide) b1 b2 b3 b4
        rfl (fun h => absurd h (by decide))).2 WHITE_QUEEN (by decide) (by decide) b5 b6⟩⟩

/-! ## The initial state -/

theorem loopRange_board : loopRange 0 BOARD_LENGTH = [0, 1, 2, 3, 4, 5, 6, 7] := by decide

theorem loopRange_empty :
    loopRange FIRST_EMPTY_ROW_AT_INIT (BOARD_LENGTH - FIRST_EMPTY_ROW_AT_INIT) = [2, 3, 4, 5] := by
  decide

/-- On the 64 cells, `initializeBoard` gives the standard position whatever the array held. -/
theorem initializeBoard_cells (junk : Board) : ∀ p ∈ boardSquares,
    initializeBoard (allocatedBoard junk) p.1 p.2 = standardBoard p.1 p.2 :=
  of_decide_eq_true (by rfl)

theorem foldl_outside {α : Type} (l : List α) (f : Board → α → Board) (r c : Int)
    (hf : ∀ b a, a ∈ l → (f b a) r c = b r c) : ∀ b, (l.foldl f b) r c = b r c := by
  induction l with
  | nil => intro b; rfl
  | cons a l ih =>
    intro b
    rw [List.foldl_cons, ih (fun b x hx => hf b x (List.mem_cons_of_mem _ hx)),
      hf b a (List.mem_cons_self _ _)]

theorem Board.set_outside (b : Board) (r0 c0 : Int) (p : Piece) (r c : Int)
    (h0 : validPosition r0 c0 = true) (h : ¬ validPosition r c = true) :
    (b.set r0 c0 p) r c = b r c := by
  rw [Board.set_apply]
  split_ifs with e
  · obtain ⟨rfl, rfl⟩ := e
    exact absurd h0 h
  · rfl

/-- `initializeBoard` writes every cell of the array and nothing else: whatever the
allocation held, the result is the standard starting position. -/
theorem initializeBoard_eq (junk : Board) :
    initializeBoard (allocatedBoard junk) = standardBoard := by
  funext r c
  by_cases hv : validPosition r c = true
  · exact initializeBoard_cells junk (r, c) ((validPosition_iff_mem r c).1 hv)
  · have hcol : ∀ col ∈ loopRange 0 BOARD_LENGTH, ∀ row : Int, 0 ≤ row → row < 8 →
        validPosition row col = true := by
      intro col hc row h1 h2
      rw [loopRange_board] at hc
      rw [validPosition_iff]
      simp only [List.mem_cons, List.mem_singleton, List.not_mem_nil, or_false] at hc
      omega
    have e1 : initializeBoard (allocatedBoard junk) r c = allocatedBoard junk r c := by
      unfold initializeBoard
      simp only
      rw [foldl_outside, foldl_outside]
      · intro b row hrow
        apply foldl_outside
        intro b2 col hc
        rw [loopRange_empty] at hrow
        simp only [List.mem_cons, List.mem_singleton, List.not_mem_nil, or_false] at hrow
        exact Board.set_outside _ _ _ _ _ _ (hcol col hc row (by omega) (by omega)) hv
      · intro b col hc
        have h0 := hcol col hc 0 (by decide) (by decide)
        have h1 := hcol col hc 1 (by decide) (by decide)
        have h6 := hcol col hc 6 (by decide) (by decide)
        have h7 := hcol col hc 7 (by decide) (by decide)
        simp only [WHITE_PAWNS_ROW, BLACK_PAWNS_ROW, WHITE_FIRST_ROW, BLACK_FIRST_ROW]
        split_ifs <;>
          simp only [Board.set_outside _ _ _ _ _ _ h0 hv, Board.set_outside _ _ _ _ _ _ h1 hv,
            Board.set_outside _ _ _ _ _ _ h6 hv, Board.set_outside _ _ _ _ _ _ h7 hv]
    rw [e1]
    simp [allocatedBoard, standardBoard, hv]

/-- `spChessGameCreate` for a positive history size. -/
theorem spChessGameCreate_eq (junk : Board) (historySize : Int) (h : 0 < historySize) :
    spChessGameCreate junk historySize = some (initialGame historySize) := by
  unfold spChessGameCreate spArrayListCreate initialGame
  simp only [not_le.2 h, ↓reduceIte, initializeBoard_eq]
  rfl

/-! ## The generator as a list of candidates -/

theorem pushAll_nil (l : SPArrayList) : pushAll l [] = l := rfl

theorem pushAll_cons (l : SPArrayList) (x : Move) (xs : List Move) :
    pushAll l (x :: xs) = pushAll (spArrayListAddLast l x).1 xs := rfl

theorem pushAll_append (l : SPArrayList) (xs ys : List Move) :
    pushAll l (xs ++ ys) = pushAll (pushAll l xs) ys := by
  unfold pushAll
  rw [List.foldl_append]

theorem addPawnPromotionsMoves_eq (l : SPArrayList) (m : Move) (p : Player) :
    addPawnPromotionsMoves l m p = pushAll l (promotionMoves m p) := rfl

/-- One call of `addPieceMove`: the candidates of the call are handed to the list. -/
theorem addPieceMove_list (env : Env) (g : SPChessGame) (l : SPArrayList)
    (sr sc dr dc : Int) (castle mm : Bool) :
    (addPieceMove env g l sr sc dr dc castle mm).2
      = pushAll l (candidateMoves env g sr sc dr dc castle mm) := by
  have hg := legalRegularMove_game g (baseMove env g sr sc dr dc) rfl
  have hmv := legalRegularMove_move g (baseMove env g sr sc dr dc)
  unfold addPieceMove candidateMoves
  simp only [baseCastle, baseMove] at hg hmv ⊢
  cases castle
  · simp only [Bool.not_false, Bool.true_and, Bool.false_eq_true, ↓reduceIte]
    by_cases hv : validPosition dr dc = true
    · simp only [hv, Bool.not_true, Bool.false_eq_true, ↓reduceIte]
      rcases hlb : (legalRegularMove g (baseMove env g sr sc dr dc)).1 with _ | _ <;>
        simp only [baseMove] at hlb
      · simp only [hlb, Bool.not_false, ↓reduceIte, Bool.false_eq_true]
        rfl
      · simp only [hlb, Bool.not_true, Bool.false_eq_true, ↓reduceIte, hg, hmv hlb,
          addPawnPromotionsMoves_eq]
        split_ifs <;> rfl
    · simp only [hv, Bool.not_false, ↓reduceIte]
      rfl
  · simp only [Bool.not_true, Bool.false_and, Bool.false_eq_true, ↓reduceIte]
    rcases hlb : (legalCastle g (baseCastle env g sr sc)).1 with _ | _ <;>
      simp only [baseCastle] at hlb
    · simp only [hlb, Bool.not_false, ↓reduceIte, Bool.false_eq_true]
      rfl
    · simp only [hlb, Bool.not_true, Bool.false_eq_true, ↓reduceIte]
      rfl

theorem mem_pushAll (l : SPArrayList) (xs : List Move) (x : Move)
    (h : x ∈ (pushAll l xs).elements) : x ∈ l.elements ∨ x ∈ xs := by
  induction xs generalizing l with
  | nil => exact Or.inl h
  | cons y ys ih =>
    rw [pushAll_cons] at h
    rcases ih _ h with h1 | h1
    · unfold spArrayListAddLast spArrayListAddAt at h1
      split_ifs at h1
      · exact Or.inl h1
      · exact Or.inl h1
      · simp only [List.mem_append, List.mem_cons] at h1
        rcases h1 with h1 | h1 | h1
        · exact Or.inl (List.mem_of_mem_take h1)
        · exact Or.inr (by rw [h1]; exact List.mem_cons_self _ _)
        · exact Or.inl (List.mem_of_mem_drop h1)
    · exact Or.inr (List.mem_cons_of_mem _ h1)

theorem spArrayListAddLast_room (l : SPArrayList) (x : Move)
    (h : (l.elements.length : Int) < l.maxSize) :
    (spArrayListAddLast l x).1 = { l with elements := l.elements ++ [x] } := by
  unfold spArrayListAddLast spArrayListAddAt spArrayListIsFull spArrayListSize
  have h1 : ¬ ((l.elements.length : Int) < 0 ∨ (l.elements.length : Int) > l.elements.length) := by
    omega
  have h2 : ((l.elements.length : Int) == l.maxSize) = false := by
    rw [beq_eq_false_iff_ne]; omega
  simp only [h1, ↓reduceIte, h2, Bool.false_eq_true, Int.toNat_ofNat, List.take_length,
    List.drop_length]

/-- With room for all of them, the candidates are appended in order. -/
theorem pushAll_room (l : SPArrayList) (xs : List Move)
    (h : (l.elements.length : Int) + xs.length ≤ l.maxSize) :
    pushAll l xs = { l with elements := l.elements ++ xs } := by
  induction xs generalizing l with
  | nil => simp [pushAll]
  | cons y ys ih =>
    simp only [List.length_cons, Nat.cast_add, Nat.cast_one] at h
    rw [pushAll_cons, spArrayListAddLast_room l y (by omega), ih]
    · simp
    · simp only [List.length_append, List.length_cons, List.length_nil, Nat.cast_add,
        Nat.cast_one]
      omega

theorem pushAll_maxSize (l : SPArrayList) (xs : List Move) :
    (pushAll l xs).maxSize = l.maxSize := by
  induction xs generalizing l with
  | nil => rfl
  | cons y ys ih => rw [pushAll_cons, ih, spArrayListAddLast_maxSize]

theorem getPossiblePawnMoves_list (env : Env) (g : SPChessGame) (l : SPArrayList)
    (sr sc : Int) (mm : Bool) :
    (getPossiblePawnMoves env g l sr sc mm).2 = pushAll l (pawnCandidates env g sr sc mm) := by
  unfold getPossiblePawnMoves pawnCandidates
  simp only [pushAll_append]
  by_cases hp : g.currentPlayer = WHITE_PLAYER
  · simp only [hp, reduceCtorEq, ↓reduceIte, addPieceMove_game_regular, addPieceMove_list,
      pushAll_nil]
  · have hb : g.currentPlayer = BLACK_PLAYER := by
      cases h : g.currentPlayer
      · rfl
      · exact absurd h hp
    simp only [hb, reduceCtorEq, ↓reduceIte, addPieceMove_game_regular, addPieceMove_list,
      pushAll_nil]

theorem getPossibleKnightMoves_list (env : Env) (g : SPChessGame) (l : SPArrayList)
    (sr sc : Int) :
    (getPossibleKnightMoves env g l sr sc).2 = pushAll l (knightCandidates env g sr sc) := by
  unfold getPossibleKnightMoves knightCandidates
  simp only [pushAll_append, addPieceMove_game_regular, addPieceMove_list]

/-- The walk of `getDirectionalMoves` and the call that follows it, as candidates. -/
theorem getDirectionalMovesLoop_list (env : Env) (g : SPChessGame) (sr sc dr dc : Int)
    (n : Nat) : ∀ (l : SPArrayList) (r c : Int),
      (if (getDirectionalMovesLoop env sr sc dr dc n g l r c EMPTY_POSITION).2.2.2.2
            ≠ EMPTY_POSITION
          ∧ rivalPiece g.currentPlayer
              (getDirectionalMovesLoop env sr sc dr dc n g l r c EMPTY_POSITION).2.2.2.2 = true
        then
          (addPieceMove env g (getDirectionalMovesLoop env sr sc dr dc n g l r c EMPTY_POSITION).2.1
            sr sc (getDirectionalMovesLoop env sr sc dr dc n g l r c EMPTY_POSITION).2.2.1
            (getDirectionalMovesLoop env sr sc dr dc n g l r c EMPTY_POSITION).2.2.2.1
            false false).2
        else (getDirectionalMovesLoop env sr sc dr dc n g l r c EMPTY_POSITION).2.1)
      = pushAll l (rayCandidates env g sr sc dr dc n r c) := by
  induction n with
  | zero =>
    intro l r c
    simp [getDirectionalMovesLoop, rayCandidates, pushAll_nil]
  | succ n ih =>
    intro l r c
    unfold getDirectionalMovesLoop rayCandidates
    by_cases hv : validPosition r c = true
    · by_cases hE : g.board r c = EMPTY_POSITION
      · simp only [hv, hE, Bool.not_true, Bool.false_eq_true, ↓reduceIte, ne_eq,
          not_true_eq_false, addPieceMove_game_regular, pushAll_append]
        rw [ih, addPieceMove_list]
      · simp only [hv, hE, Bool.not_true, Bool.false_eq_true, ↓reduceIte, ne_eq,
          not_false_eq_true, true_and]
        split_ifs
        · rw [addPieceMove_list]
        · rfl
    · simp only [hv, Bool.not_false, ↓reduceIte, ne_eq, not_true_eq_false, false_and, pushAll_nil]

theorem getDirectionalMoves_list (env : Env) (g : SPChessGame) (l : SPArrayList)
    (sr sc dr dc : Int) :
    (getDirectionalMoves env g l sr sc dr dc).2
      = pushAll l (rayCandidates env g sr sc dr dc 8 (sr + dr) (sc + dc)) := by
  rw [← getDirectionalMovesLoop_list]
  unfold getDirectionalMoves
  simp only [getDirectionalMovesLoop_same]
  split_ifs <;> rfl

theorem getPossibleBishopOrQueenMoves_list (env : Env) (g : SPChessGame) (l : SPArrayList)
    (sr sc : Int) (sort : Bool) :
    (getPossibleBishopOrQueenMoves env g l sr sc sort).2 = bishopPart env g l sr sc sort := by
  unfold getPossibleBishopOrQueenMoves bishopPart bishopCandidates maybeSort
  simp only [getDirectionalMoves_same, getDirectionalMoves_list, pushAll_append]
  split_ifs <;> simp only [getDirectionalMoves_same, getDirectionalMoves_list, pushAll_append]

theorem getPossibleRookOrQueenMoves_list (env : Env) (g : SPChessGame) (l : SPArrayList)
    (sr sc : Int) (sort : Bool) :
    (getPossibleRookOrQueenMoves env g l sr sc sort).2 = rookPart env g l sr sc sort := by
  unfold getPossibleRookOrQueenMoves rookPart rookCandidates rookCastleCandidates maybeSort
  simp only [getDirectionalMoves_same, getDirectionalMoves_list, pushAll_append]
  split_ifs <;>
    simp only [addPieceMove_list, pushAll_nil, getDirectionalMoves_same,
      getDirectionalMoves_list, pushAll_append] at * <;>
    first | rfl | contradiction

theorem getPossibleKingCastleMoves_list (env : Env) (g : SPChessGame) (l : SPArrayList)
    (p : Piece) (row : Int) (hcc : castleConsistent g) :
    (getPossibleKingCastleMoves env g l p row).2
      = pushAll l (kingCastleCandidates env g p row) := by
  unfold getPossibleKingCastleMoves kingCastleCandidates
  simp only [pushAll_append]
  split_ifs <;>
    simp only [addPieceMove_game _ _ _ _ _ _ _ _ _ hcc, addPieceMove_list, pushAll_nil] at * <;>
    first | rfl | contradiction

theorem getPossibleKingMoves_list (env : Env) (g : SPChessGame) (l : SPArrayList)
    (sr sc : Int) (hcc : castleConsistent g) :
    (getPossibleKingMoves env g l sr sc).2
      = pushAll l (kingStepCandidates env g sr sc
          ++ kingCastleCandidates env g (ownRook g.currentPlayer)
              (ownFirstRow g.currentPlayer)) := by
  unfold getPossibleKingMoves kingStepCandidates ownRook ownFirstRow
  simp only [addPieceMove_game_regular, addPieceMove_list, pushAll_append]
  split_ifs <;>
    simp only [getPossibleKingCastleMoves_list _ _ _ _ _ hcc, pushAll_append]

/-- The list `getPossiblePieceMoves` leaves, on a state on which the castle simulation
restores the board. -/
theorem getPossiblePieceMoves_list (env : Env) (g : SPChessGame) (l : SPArrayList)
    (sr sc : Int) (sort mm : Bool) (hcc : castleConsistent g) :
    (getPossiblePieceMoves env g l sr sc (g.board sr sc) sort mm).2.2
      = generatedList env g l sr sc sort mm := by
  unfold getPossiblePieceMoves generatedList
  cases hp : g.board sr sc <;>
    simp only [getPossiblePawnMoves_list, getPossibleKnightMoves_list,
      getPossibleBishopOrQueenMoves_list, getPossibleBishopOrQueenMoves_same,
      getPossibleRookOrQueenMoves_list, getPossibleKingMoves_list _ _ _ _ _ hcc]

/-! ## The initial state, and the arguments `spChessGameSetMove` refuses -/

/-- C16: for every `historySize > 0` `spChessGameCreate` returns the game of the claim (the
standard starting position, White to move, the four castling flags true, the kings recorded
on `(0, KING_COL)` and `(7, KING_COL)`, armies of 8 pawns, 2 knights, 2 bishops, 2 rooks and
1 queen per side, an empty history of capacity `historySize`, status no-check), whatever the
allocated board array held; for every `historySize <= 0` it returns `NULL`. -/
theorem C16_initial_state (junk : Board) (historySize : Int) :
    (0 < historySize → spChessGameCreate junk historySize = some (initialGame historySize))
    ∧ (historySize ≤ 0 → spChessGameCreate junk historySize = none) := by
  refine ⟨spChessGameCreate_eq junk historySize, fun h => ?_⟩
  simp [spChessGameCreate, h]

/-- C16 at the capacities 6 and -1. -/
theorem C16_initial_state_witness :
    spChessGameCreate emptyBoard 6 = some (initialGame 6)
    ∧ spChessGameCreate emptyBoard (-1) = none :=
  ⟨(C16_initial_state emptyBoard 6).1 (by decide),
   (C16_initial_state emptyBoard (-1)).2 (by decide)⟩

theorem rivalPiece_not_own (p : Player) (x : Piece) (h : rivalPiece p x = true) :
    currentPlayerPiece p x = false := by
  cases p <;> cases x <;> simp_all [rivalPiece, currentPlayerPiece]

/-- C19: a move (flag `pawnPromotion` false) whose source is on the board, whose destination
is on the board or which is a castle, and whose source square is empty or holds a piece of
the side that is not to move, makes `spChessGameSetMove` return
`SP_CHESS_GAME_INVALID_ARGUMENT`, for either value of `minimaxMove` and `computerMove`; the
game is left as it was. -/
theorem C19_foreign_piece_invalid_argument (env : Env) (g : SPChessGame) (m : Move)
    (mm cm : Bool)
    (hsrc : validPosition m.srcRow m.srcCol = true)
    (hdst : validPosition m.dstRow m.dstCol = true ∨ m.castleMove = true)
    (hpp : m.pawnPromotion = false)
    (hsq : g.board m.srcRow m.srcCol = EMPTY_POSITION
      ∨ rivalPiece g.currentPlayer (g.board m.srcRow m.srcCol) = true) :
    (spChessGameSetMove env g m mm cm).1 = SP_CHESS_GAME_INVALID_ARGUMENT
    ∧ (spChessGameSetMove env g m mm cm).2.1 = g := by
  have hown : currentPlayerPiece g.currentPlayer (g.board m.srcRow m.srcCol) = false := by
    rcases hsq with h | h
    · rw [h]; cases g.currentPlayer <;> rfl
    · exact rivalPiece_not_own _ _ h
  have hpos : (!validPosition m.srcRow m.srcCol
      || (!m.castleMove && !validPosition m.dstRow m.dstCol)) = false := by
    rcases hdst with h | h <;> simp [hsrc, h]
  unfold spChessGameSetMove
  simp only [hpos, hpp, hown, Bool.false_eq_true, ↓reduceIte, Bool.not_false, and_self]

/-- C19 in the starting position: White to move, the black pawn e7 is told to go to e5. -/
theorem C19_foreign_piece_invalid_argument_witness :
    (spChessGameSetMove sampleEnv (initialGame 6) (userMove 6 4 4 4) false false).1
        = SP_CHESS_GAME_INVALID_ARGUMENT
    ∧ (spChessGameSetMove sampleEnv (initialGame 6) (userMove 6 4 4 4) false false).2.1
        = initialGame 6 :=
  C19_foreign_piece_invalid_argument sampleEnv (initialGame 6) (userMove 6 4 4 4) false false
    (by decide) (Or.inl (by decide)) rfl (Or.inr (by decide))

/-- C20, counterexample: in the starting position the non-move g1 to g1 of the white knight
is answered with `SP_CHESS_GAME_ILLEGAL_MOVE`, not with `SP_CHESS_GAME_INVALID_ARGUMENT`. -/
theorem C20_non_move_counterexample :
    validPosition 0 6 = true
    ∧ currentPlayerPiece (initialGame 6).currentPlayer ((initialGame 6).board 0 6) = true
    ∧ (spChessGameSetMove sampleEnv (initialGame 6) (userMove 0 6 0 6) false false).1
        = SP_CHESS_GAME_ILLEGAL_MOVE
    ∧ (spChessGameSetMove sampleEnv (initialGame 6) (userMove 0 6 0 6) false false).1
        ≠ SP_CHESS_GAME_INVALID_ARGUMENT := by
  decide!

/-- C20, amended: for every state and every on-board square holding a piece of the side to
move, `spChessGameSetMove(game, move, minimaxMove, false)` with a non-castle move (flag
`pawnPromotion` false) whose destination equals its source returns
`SP_CHESS_GAME_ILLEGAL_MOVE` and leaves the game as it was. -/
theorem C20_non_move_illegal_move (env : Env) (g : SPChessGame) (m : Move) (mm : Bool)
    (hsrc : validPosition m.srcRow m.srcCol = true)
    (hown : currentPlayerPiece g.currentPlayer (g.board m.srcRow m.srcCol) = true)
    (hcm : m.castleMove = false) (hpp : m.pawnPromotion = false)
    (hr : m.dstRow = m.srcRow) (hc : m.dstCol = m.srcCol) :
    (spChessGameSetMove env g m mm false).1 = SP_CHESS_GAME_ILLEGAL_MOVE
    ∧ (spChessGameSetMove env g m mm false).2.1 = g := by
  unfold spChessGameSetMove legalRegularMove
  simp only [hsrc, hcm, hpp, hr, hc, hown, Bool.not_true, Bool.not_false, Bool.false_eq_true,
    Bool.or_self, Bool.and_self, Bool.and_true, Bool.true_and, Bool.false_and, Bool.or_false,
    ↓reduceIte, and_self]

/-- C20, amended, for the knight on g1 in the starting position. -/
theorem C20_non_move_illegal_move_witness :
    (spChessGameSetMove sampleEnv (initialGame 6) (userMove 0 6 0 6) true false).1
        = SP_CHESS_GAME_ILLEGAL_MOVE
    ∧ (spChessGameSetMove sampleEnv (initialGame 6) (userMove 0 6 0 6) true false).2.1
        = initialGame 6 :=
  C20_non_move_illegal_move sampleEnv (initialGame 6) (userMove 0 6 0 6) true
    (by decide) (by decide) rfl rfl rfl rfl

/-! ## The pawn rule -/

theorem rivalPiece_ne_empty (p : Player) (x : Piece) (h : rivalPiece p x = true) :
    x ≠ EMPTY_POSITION := by
  rintro rfl; cases p <;> simp [rivalPiece] at h

theorem legalMovementByPawn_iff (board : Board) (p : Player) (m : Move)
    (hd : m.dstPiece = board m.dstRow m.dstCol) :
    legalMovementByPawn board m p = true
      ↔ pawnRule board p m.srcRow m.srcCol m.dstRow m.dstCol := by
  unfold legalMovementByPawn pawnRule
  rw [hd]
  generalize hx : board m.dstRow m.dstCol = x
  generalize m.dstRow = dr
  generalize m.dstCol = dc
  generalize m.srcRow = sr
  generalize m.srcCol = sc
  have hne := rivalPiece_ne_empty p x
  by_cases hc : dc = sc
  · subst hc
    by_cases hx0 : x = EMPTY_POSITION
    · cases p <;>
        simp [hx0, WHITE_PAWNS_ROW, BLACK_PAWNS_ROW, Int.sub_eq_add_neg, rivalPiece, and_assoc]
    · cases p <;>
        simp [hx0, WHITE_PAWNS_ROW, BLACK_PAWNS_ROW] <;> omega
  · cases hr : rivalPiece p x <;> cases p <;>
        simp [hc, hr, WHITE_PAWNS_ROW, BLACK_PAWNS_ROW] <;> omega

/-- C14: `legalMovementByPawn`, called as `legalRegularMove` calls it (the move carries the
piece of the destination square in `dstPiece`), returns true if and only if the move is one
row forward in the same column onto an empty square, two rows forward in the same column
from the starting rank with the intermediate square and the destination empty, or one row
forward and one column aside onto a piece of the opponent.  So a diagonal step onto an empty
square is not accepted, nor is a move that does not go forward. -/
theorem C14_pawn_rule (board : Board) (p : Player) (m : Move)
    (hd : m.dstPiece = board m.dstRow m.dstCol) :
    (legalMovementByPawn board m p = true
      ↔ pawnRule board p m.srcRow m.srcCol m.dstRow m.dstCol)
    ∧ (m.dstCol ≠ m.srcCol → board m.dstRow m.dstCol = EMPTY_POSITION →
        legalMovementByPawn board m p = false)
    ∧ (p = WHITE_PLAYER → m.dstRow ≤ m.srcRow → legalMovementByPawn board m p = false)
    ∧ (p = BLACK_PLAYER → m.srcRow ≤ m.dstRow → legalMovementByPawn board m p = false) := by
  have key := legalMovementByPawn_iff board p m hd
  refine ⟨key, ?_, ?_, ?_⟩
  · intro hc he
    rw [Bool.eq_false_iff, ne_eq, key]
    unfold pawnRule
    rw [he]
    rintro (⟨-, h, -⟩ | ⟨-, h, -⟩ | ⟨-, -, h⟩)
    · exact hc h
    · exact hc h
    · exact rivalPiece_ne_empty p _ h rfl
  · rintro rfl hle
    rw [Bool.eq_false_iff, ne_eq, key]
    unfold pawnRule
    simp only [↓reduceIte]
    rintro (⟨h, -⟩ | ⟨h, -⟩ | ⟨h, -⟩) <;> omega
  · rintro rfl hle
    rw [Bool.eq_false_iff, ne_eq, key]
    unfold pawnRule
    simp only [reduceCtorEq, ↓reduceIte]
    rintro (⟨h, -⟩ | ⟨h, -⟩ | ⟨h, -⟩) <;> omega

/-- C14 for the white pawn e2 in the starting position and the move e2 to e4. -/
theorem C14_pawn_rule_witness :
    (legalMovementByPawn standardBoard (userMove 1 4 3 4) WHITE_PLAYER = true
      ↔ pawnRule standardBoard WHITE_PLAYER 1 4 3 4)
    ∧ legalMovementByPawn standardBoard (userMove 1 4 3 4) WHITE_PLAYER = true :=
  ⟨(C14_pawn_rule standardBoard WHITE_PLAYER (userMove 1 4 3 4) (by decide)).1, by decide⟩

/-! ## Threat detection -/

theorem pieceOccupyingPosition_iff (board : Board) (r c : Int) (p : Piece) :
    pieceOccupyingPosition board r c p = true ↔ holds board r c p := by
  simp [pieceOccupyingPosition, holds]

/-- The loop of `directionalThreat` finds the piece exactly when it stands within `fuel`
steps with only empty squares of the board in between. -/
theorem directionalThreatLoop_iff (board : Board) (dr dc : Int) (pt : Piece)
    (hpt : pt ≠ EMPTY_POSITION) :
    ∀ (fuel : Nat) (r c : Int),
      directionalThreatLoop board dr dc pt fuel r c = true ↔
        ∃ k : Nat, 0 < k ∧ k ≤ fuel ∧ holds board (r + k * dr) (c + k * dc) pt
          ∧ ∀ j : Nat, 0 < j → j < k →
              holds board (r + j * dr) (c + j * dc) EMPTY_POSITION := by
  intro fuel
  induction fuel with
  | zero =>
    intro r c
    simp only [directionalThreatLoop, Bool.false_eq_true, false_iff]
    rintro ⟨k, hk, hk0, -⟩
    omega
  | succ n ih =>
    intro r c
    have e1 : ∀ k : Nat, r + dr + (k : Int) * dr = r + ((k + 1 : Nat) : Int) * dr := by
      intro k; push_cast; ring
    have e2 : ∀ k : Nat, c + dc + (k : Int) * dc = c + ((k + 1 : Nat) : Int) * dc := by
      intro k; push_cast; ring
    have o1 : r + ((1 : Nat) : Int) * dr = r + dr := by push_cast; ring
    have o2 : c + ((1 : Nat) : Int) * dc = c + dc := by push_cast; ring
    unfold directionalThreatLoop
    by_cases h : holds board (r + dr) (c + dc) EMPTY_POSITION
    · have hc : (validPosition (r + dr) (c + dc)
          && decide (board (r + dr) (c + dc) = EMPTY_POSITION)) = true := by
        simp [h.1, h.2]
      simp only [hc, ↓reduceIte]
      rw [ih]
      constructor
      · rintro ⟨k, hk, hkn, hh, hj⟩
        refine ⟨k + 1, by omega, by omega, ?_, ?_⟩
        · rw [← e1, ← e2]; exact hh
        · intro j hj0 hjk
          rcases Nat.exists_eq_succ_of_ne_zero (Nat.pos_iff_ne_zero.mp hj0) with ⟨i, rfl⟩
          rw [← e1, ← e2]
          rcases Nat.eq_zero_or_pos i with rfl | hi
          · simpa using h
          · exact hj i hi (by omega)
      · rintro ⟨k, hk, hkn, hh, hj⟩
        rcases Nat.exists_eq_succ_of_ne_zero (Nat.pos_iff_ne_zero.mp hk) with ⟨i, rfl⟩
        rcases Nat.eq_zero_or_pos i with rfl | hi
        · exfalso
          rw [o1, o2] at hh
          exact hpt (hh.2.symm.trans h.2)
        · refine ⟨i, hi, by omega, ?_, ?_⟩
          · rw [e1, e2]; exact hh
          · intro j hj0 hji
            rw [e1, e2]
            exact hj (j + 1) (by omega) (by omega)
    · have hc : (validPosition (r + dr) (c + dc)
          && decide (board (r + dr) (c + dc) = EMPTY_POSITION)) = false := by
        rw [Bool.eq_false_iff]
        intro hh
        simp only [Bool.and_eq_true, decide_eq_true_eq] at hh
        exact h hh
      simp only [hc, Bool.false_eq_true, ↓reduceIte, pieceOccupyingPosition, Bool.and_eq_true,
        decide_eq_true_eq]
      constructor
      · rintro ⟨hv, -, hb⟩
        refine ⟨1, by omega, by omega, ?_, ?_⟩
        · rw [o1, o2]; exact ⟨hv, hb⟩
        · intro j hj0 hj1; omega
      · rintro ⟨k, hk, hkn, hh, hj⟩
        rcases Nat.lt_or_ge 1 k with h1 | h1
        · exact absurd (by simpa [o1, o2] using hj 1 (by omega) h1) h
        · have : k = 1 := by omega
          subst this
          rw [o1, o2] at hh
          exact ⟨hh.1, hh.1, hh.2⟩

/-- On the board `directionalThreat` decides the attack along a line. -/
theorem directionalThreat_iff (board : Board) (r c dr dc : Int) (pt : Piece)
    (hpt : pt ≠ EMPTY_POSITION) (hv : validPosition r c = true)
    (hd : (dr, dc) ∈ adjacentOffsets) :
    directionalThreat board r c dr dc pt = true ↔ lineAttack board pt r c dr dc := by
  unfold directionalThreat lineAttack
  rw [directionalThreatLoop_iff board dr dc pt hpt]
  rw [validPosition_iff] at hv
  constructor
  · rintro ⟨k, hk, -, hh, hj⟩
    exact ⟨k, hk, hh, fun j h0 h1 => (hj j h0 h1).2⟩
  · rintro ⟨k, hk, hh, hj⟩
    have hkv := hh.1
    rw [validPosition_iff] at hkv
    simp only [adjacentOffsets, List.mem_cons, Prod.mk.injEq, List.mem_singleton,
      List.not_mem_nil, or_false] at hd
    refine ⟨k, hk, ?_, hh, fun j h0 h1 => ⟨?_, hj j h0 h1⟩⟩
    · rcases hd with h | h | h | h | h | h | h | h <;> obtain ⟨rfl, rfl⟩ := h <;> omega
    · rw [validPosition_iff]
      rcases hd with h | h | h | h | h | h | h | h <;> obtain ⟨rfl, rfl⟩ := h <;> omega

theorem bishopOrQueenThreat_iff (board : Board) (r c : Int) (pt : Piece)
    (hpt : pt ≠ EMPTY_POSITION) (hv : validPosition r c = true) :
    bishopOrQueenThreat board r c pt = true
      ↔ ∃ d ∈ diagonalDirections, lineAttack board pt r c d.1 d.2 := by
  have hl : ∀ dr dc : Int, (dr, dc) ∈ adjacentOffsets →
      (directionalThreat board r c dr dc pt = true ↔ lineAttack board pt r c dr dc) :=
    fun dr dc hd => directionalThreat_iff board r c dr dc pt hpt hv hd
  simp only [bishopOrQueenThreat, Bool.or_eq_true, GOING_DOWNWARDS, GOING_UPWARDS, GOING_LEFT,
    GOING_RIGHT, hl (-1) (-1) (by decide), hl (-1) 1 (by decide), hl 1 (-1) (by decide),
    hl 1 1 (by decide), diagonalDirections, List.mem_cons, List.mem_singleton,
    List.not_mem_nil, or_false, exists_eq_or_imp, exists_eq_left, or_assoc]

theorem rookOrQueenThreat_iff (board : Board) (r c : Int) (pt : Piece)
    (hpt : pt ≠ EMPTY_POSITION) (hv : validPosition r c = true) :
    rookOrQueenThreat board r c pt = true
      ↔ ∃ d ∈ straightDirections, lineAttack board pt r c d.1 d.2 := by
  have hl : ∀ dr dc : Int, (dr, dc) ∈ adjacentOffsets →
      (directionalThreat board r c dr dc pt = true ↔ lineAttack board pt r c dr dc) :=
    fun dr dc hd => directionalThreat_iff board r c dr dc pt hpt hv hd
  simp only [rookOrQueenThreat, Bool.or_eq_true, GOING_DOWNWARDS, GOING_UPWARDS, GOING_LEFT,
    GOING_RIGHT, SAME_ROW, SAME_COL, hl (-1) 0 (by decide), hl 0 (-1) (by decide),
    hl 0 1 (by decide), hl 1 0 (by decide), straightDirections, List.mem_cons,
    List.mem_singleton, List.not_mem_nil, or_false, exists_eq_or_imp, exists_eq_left, or_assoc]

theorem exists_mem_or {α : Type} (l : List α) (A B : α → Prop) :
    (∃ d ∈ l, A d ∨ B d) ↔ (∃ d ∈ l, A d) ∨ (∃ d ∈ l, B d) := by
  constructor
  · rintro ⟨d, hd, h | h⟩
    · exact Or.inl ⟨d, hd, h⟩
    · exact Or.inr ⟨d, hd, h⟩
  · rintro (⟨d, hd, h⟩ | ⟨d, hd, h⟩)
    · exact ⟨d, hd, Or.inl h⟩
    · exact ⟨d, hd, Or.inr h⟩

theorem or_shuffle (P N B R QB QR K : Prop) :
    (((((P ∨ N) ∨ B) ∨ R) ∨ (QB ∨ QR)) ∨ K) ↔ (P ∨ N ∨ K ∨ (B ∨ QB) ∨ (R ∨ QR)) := by
  tauto

theorem knightThreat_iff (board : Board) (r c : Int) (pt : Piece)
    (h : pt = WHITE_KNIGHT ∨ pt = BLACK_KNIGHT) :
    rivalPieceThreateningPosition board r c pt = true
      ↔ ∃ o ∈ knightOffsets, holds board (r + o.1) (c + o.2) pt := by
  rcases h with rfl | rfl <;>
    simp only [rivalPieceThreateningPosition, Bool.or_eq_true, pieceOccupyingPosition_iff,
      knightOffsets, List.mem_cons, List.mem_singleton, List.not_mem_nil, or_false,
      exists_eq_or_imp, exists_eq_left, or_assoc, Int.sub_eq_add_neg, Int.reduceNeg]

theorem kingThreat_iff (board : Board) (r c : Int) (pt : Piece)
    (h : pt = WHITE_KING ∨ pt = BLACK_KING) :
    rivalPieceThreateningPosition board r c pt = true
      ↔ ∃ o ∈ adjacentOffsets, holds board (r + o.1) (c + o.2) pt := by
  rcases h with rfl | rfl <;>
    simp only [rivalPieceThreateningPosition, Bool.or_eq_true, pieceOccupyingPosition_iff,
      adjacentOffsets, List.mem_cons, List.mem_singleton, List.not_mem_nil, or_false,
      exists_eq_or_imp, exists_eq_left, or_assoc, Int.sub_eq_add_neg, Int.reduceNeg,
      Int.add_zero]

/-- C15: for every state and every square `(row, col)` of the board,
`rivalPlayerThreateningPosition` returns true if and only if the board holds a piece of the
opponent of the side to move that attacks the square: a pawn one diagonal step away on the
side it advances from, a knight at an L-shaped offset, a king on an adjacent square, a bishop
or queen on a diagonal or a rook or queen on the row or column with every square in between
empty. -/
theorem C15_threat_is_attack (g : SPChessGame) (row col : Int)
    (hv : validPosition row col = true) :
    rivalPlayerThreateningPosition g row col = true ↔ attacked g row col := by
  have hB := fun pt h => bishopOrQueenThreat_iff g.board row col pt h hv
  have hR := fun pt h => rookOrQueenThreat_iff g.board row col pt h hv
  unfold rivalPlayerThreateningPosition attacked
  cases g.currentPlayer <;>
    simp only [reduceCtorEq, ↓reduceIte, Bool.or_eq_true, exists_mem_or,
      knightThreat_iff _ _ _ _ (Or.inl rfl), knightThreat_iff _ _ _ _ (Or.inr rfl),
      kingThreat_iff _ _ _ _ (Or.inl rfl), kingThreat_iff _ _ _ _ (Or.inr rfl)] <;>
    simp only [rivalPieceThreateningPosition, Bool.or_eq_true, pieceOccupyingPosition_iff,
      hB WHITE_BISHOP (by decide), hB BLACK_BISHOP (by decide), hB WHITE_QUEEN (by decide),
      hB BLACK_QUEEN (by decide), hR WHITE_ROOK (by decide), hR BLACK_ROOK (by decide),
      hR WHITE_QUEEN (by decide), hR BLACK_QUEEN (by decide)] <;>
    exact or_shuffle _ _ _ _ _ _ _

/-- C15 for the square e1 of `castleGame`. -/
theorem C15_threat_is_attack_witness :
    validPosition 0 4 = true
    ∧ (rivalPlayerThreateningPosition castleGame 0 4 = true ↔ attacked castleGame 0 4) :=
  ⟨by decide, C15_threat_is_attack castleGame 0 4 (by decide)⟩

/-! ## The effect of a regular move -/

theorem changePlayerAndUpdateStatus_failure (env : Env) (g : SPChessGame)
    (hcap : env.MAX_MOVES_FOR_PIECE ≤ 0) :
    (changePlayerAndUpdateStatus env g).1 = SP_CHESS_GAME_MEMORY_FAILURE := by
  unfold changePlayerAndUpdateStatus getGameStatus spArrayListCreate
  simp only [hcap, ↓reduceIte]
  split_ifs <;> first | rfl | simp_all

set_option maxHeartbeats 4000000 in
/-- C13, as stated for every state, fails in two ways.  In `staleQueenGame` (a stale castling
flag) the accepted king move h8-g8 leaves a white king on e1, where the white queen stood:
a square other than source and destination has changed.  In `kingCaptureGame` (king fields
and castling flags in order) the accepted capture of the black king on e8 by the queen e7
leaves a black king on e8, not the queen that stood on the source.  Both kings are written
by the castle simulation of `legalCastleRoute` while the status is computed. -/
theorem C13_regular_move_effect_counterexample :
    ((spChessGameSetMove sampleEnv staleQueenGame staleQueenMove false false).1
        = SP_CHESS_GAME_SUCCESS
      ∧ staleQueenGame.board 0 4 = WHITE_QUEEN
      ∧ (spChessGameSetMove sampleEnv staleQueenGame staleQueenMove false false).2.1.board 0 4
          = WHITE_KING)
    ∧ (kingFieldsAgree kingCaptureGame ∧ castleHome kingCaptureGame
      ∧ (spChessGameSetMove sampleEnv kingCaptureGame kingCaptureMove false false).1
          = SP_CHESS_GAME_SUCCESS
      ∧ kingCaptureGame.board 6 4 = WHITE_QUEEN
      ∧ (spChessGameSetMove sampleEnv kingCaptureGame kingCaptureMove false false).2.1.board 7 4
          = BLACK_KING) := by
  obtain ⟨⟨-, -, -, -, -, q5, -⟩, q6, q8, -, -⟩ := staleQueen_facts
  exact ⟨⟨q6, q5, q8⟩, by decide!⟩

/-- C13, amended: for every state in which a true castling flag has the owner's king on its
first rank in the recorded column, and every non-castle move that `spChessGameSetMove(game,
move, minimaxMove, false)` accepts, that is not a pawn reaching the last row and that does
not capture a king: the new board is the old board with the source set to empty and the
destination set to the piece that stood on the source, the current player is flipped to the
other side, and the status is the value `getGameStatus` computes for the new side to move. -/
theorem C13_regular_move_effect (env : Env) (g : SPChessGame) (m : Move) (mm : Bool)
    (hcc : castleConsistent g)
    (hpp : m.pawnPromotion = false) (hcm : m.castleMove = false)
    (hs : (spChessGameSetMove env g m mm false).1 = SP_CHESS_GAME_SUCCESS)
    (hnp : ¬ reachesLastRow g (stampMove g m))
    (hw : g.board m.dstRow m.dstCol ≠ WHITE_KING) (hb : g.board m.dstRow m.dstCol ≠ BLACK_KING) :
    (spChessGameSetMove env g m mm false).2.1.board
        = (g.board.set m.srcRow m.srcCol EMPTY_POSITION).set m.dstRow m.dstCol
            (g.board m.srcRow m.srcCol)
    ∧ (spChessGameSetMove env g m mm false).2.1.currentPlayer = g.currentPlayer.not
    ∧ (spChessGameSetMove env g m mm false).2.1.status
        = statusOf env (flipPlayer (regularPrefix g m mm)) := by
  have hfp : (filledMove g (stampMove g m)).pawnPromotion = false := by
    have hnp2 : ¬ reachesLastRow g (stampMove g m) := hnp
    simp only [filledMove, stampMove] at hnp2 ⊢
    simp only [hpp] at hnp2 ⊢
    simp [hnp2]
  have hcap : 0 < env.MAX_MOVES_FOR_PIECE := by
    by_contra hle
    obtain ⟨-, -, -, -, e⟩ := setMove_regular_success env g m mm hpp hcm hs
    rw [e, updatesAfterSettingMove_eq] at hs
    simp only [hfp, Bool.not_false, ↓reduceIte] at hs
    rw [changePlayerAndUpdateStatus_failure env _ (not_lt.1 hle)] at hs
    exact absurd hs (by decide)
  rw [setMove_regular_result env g m mm hcap hcc hpp hcm hs hw hb]
  simp only [hfp, Bool.false_eq_true, ↓reduceIte]
  refine ⟨?_, ?_, rfl⟩
  · simp only [flipAndStatus, flipPlayer, regularPrefix, updatesPrefix_board,
      setRegularMove_board]
    rfl
  · simp only [flipAndStatus, flipPlayer, regularPrefix, updatesPrefix_currentPlayer,
      setRegularMove_currentPlayer]

/-- C13, amended, for the move e2 to e4 in the starting position. -/
theorem C13_regular_move_effect_witness :
    (spChessGameSetMove sampleEnv (initialGame 6) (userMove 1 4 3 4) false false).2.1.board
        = ((initialGame 6).board.set 1 4 EMPTY_POSITION).set 3 4 ((initialGame 6).board 1 4)
    ∧ (spChessGameSetMove sampleEnv (initialGame 6) (userMove 1 4 3 4) false false).2.1.currentPlayer
        = (initialGame 6).currentPlayer.not
    ∧ (spChessGameSetMove sampleEnv (initialGame 6) (userMove 1 4 3 4) false false).2.1.status
        = statusOf sampleEnv (flipPlayer (regularPrefix (initialGame 6) (userMove 1 4 3 4) false)) :=
  C13_regular_move_effect sampleEnv (initialGame 6) (userMove 1 4 3 4) false
    (by decide!) rfl rfl (by decide!) (by decide!) (by decide!) (by decide!)

/-! ## Castling-rights bookkeeping -/

theorem flagsOf_phantom (a b : SPChessGame) (h : upToPhantom a b) : flagsOf b = flagsOf a := by
  rcases h with rfl | ⟨-, rfl⟩ <;> rfl

theorem flagsOf_changePlayerAndUpdateStatus (env : Env) (g : SPChessGame) :
    flagsOf (changePlayerAndUpdateStatus env g).2 = flagsOf g := by
  unfold changePlayerAndUpdateStatus
  simp only
  have h1 := flagsOf_phantom _ _ (getGameStatus_phantom env
    { g with currentPlayer := g.currentPlayer.not } g.whiteKingRow g.whiteKingCol)
  have h2 := flagsOf_phantom _ _ (getGameStatus_phantom env
    { g with currentPlayer := g.currentPlayer.not } g.blackKingRow g.blackKingCol)
  split_ifs <;> first | exact h1 | exact h2

theorem flagsOf_updatesAfterSettingMove (env : Env) (g : SPChessGame) (m : Move) (mm : Bool) :
    flagsOf (updatesAfterSettingMove env g m mm).2 = flagsOf (updatesPrefix g m mm) := by
  rw [updatesAfterSettingMove_eq]
  split_ifs
  · exact flagsOf_changePlayerAndUpdateStatus env _
  · rfl

theorem flagsOf_updatePiecesAmount (g : SPChessGame) (p : Piece) (b : Bool) :
    flagsOf (updatePiecesAmount g p b) = flagsOf g := by
  cases p <;> rfl

theorem flagsOf_setPawnPromotion (env : Env) (g : SPChessGame) (m : Move) (c : Bool) :
    flagsOf (spChessGameSetPawnPromotion env g m c).2 = flagsOf g := by
  unfold spChessGameSetPawnPromotion
  simp only [flagsOf_changePlayerAndUpdateStatus, flagsOf_updatePiecesAmount]
  split_ifs <;> rfl

theorem castlingIndicators_bool :
    ∀ (a b s c0 c7 d e0 e7 L R : Bool), (a && b) = false → (c0 && c7) = false →
      (e0 && e7) = false →
      (if (L && ((a && s && c0) || (b && d && e0))) = true then (false, R)
        else if (R && ((a && s && c7) || (b && d && e7))) = true then (L, false)
        else (L, R))
      = (L && !((a && s && c0) || (b && d && e0)), R && !((a && s && c7) || (b && d && e7))) := by
  decide

/-- The flags `updateCastlingIndicators` leaves for a move that is not a castle and does not
capture a piece of the kind it moves. -/
theorem updateCastlingIndicators_eq (m : Move) (P : Piece) (L R : Bool)
    (hcm : m.castleMove = false) (hne : ¬ (P = m.srcPiece ∧ P = m.dstPiece)) :
    updateCastlingIndicators m P L R =
      (L && !((decide (P = m.srcPiece)
              && decide (m.srcRow = if P = WHITE_ROOK then WHITE_FIRST_ROW else BLACK_FIRST_ROW)
              && decide (m.srcCol = LEFT_ROOK_COL))
            || (decide (P = m.dstPiece)
              && decide (m.dstRow = if P = WHITE_ROOK then WHITE_FIRST_ROW else BLACK_FIRST_ROW)
              && decide (m.dstCol = LEFT_ROOK_COL))),
       R && !((decide (P = m.srcPiece)
              && decide (m.srcRow = if P = WHITE_ROOK then WHITE_FIRST_ROW else BLACK_FIRST_ROW)
              && decide (m.srcCol = RIGHT_ROOK_COL))
            || (decide (P = m.dstPiece)
              && decide (m.dstRow = if P = WHITE_ROOK then WHITE_FIRST_ROW else BLACK_FIRST_ROW)
              && decide (m.dstCol = RIGHT_ROOK_COL)))) := by
  unfold updateCastlingIndicators
  simp only [hcm, Bool.false_eq_true, ↓reduceIte]
  apply castlingIndicators_bool
  · simpa using fun h1 h2 => hne ⟨h1, h2⟩
  · simp only [LEFT_ROOK_COL, RIGHT_ROOK_COL, Bool.and_eq_false_iff, decide_eq_false_iff_not]
    omega
  · simp only [LEFT_ROOK_COL, RIGHT_ROOK_COL, Bool.and_eq_false_iff, decide_eq_false_iff_not]
    omega

theorem own_ne_foreign (p : Player) (x y : Piece) (hx : currentPlayerPiece p x = true)
    (hy : currentPlayerPiece p y = false) : x ≠ y := by
  rintro rfl; rw [hx] at hy; exact absurd hy (by decide)

/-- The castling flags after the board writes of `setRegularMove`, for a piece of the side to
move that does not capture a piece of its own side. -/
theorem flagsOf_setRegularMove (g : SPChessGame) (m : Move) (hcm : m.castleMove = false)
    (hne : m.srcPiece ≠ m.dstPiece) :
    flagsOf (setRegularMove g m) =
      (g.whiteLeftCastle && !(decide (m.srcPiece = WHITE_KING)
          || (decide (m.srcPiece = WHITE_ROOK) && decide (m.srcRow = WHITE_FIRST_ROW)
              && decide (m.srcCol = LEFT_ROOK_COL))),
       g.whiteRightCastle && !(decide (m.srcPiece = WHITE_KING)
          || (decide (m.srcPiece = WHITE_ROOK) && decide (m.srcRow = WHITE_FIRST_ROW)
              && decide (m.srcCol = RIGHT_ROOK_COL))),
       g.blackLeftCastle && !(decide (m.srcPiece = BLACK_KING)
          || (decide (m.srcPiece = BLACK_ROOK) && decide (m.srcRow = BLACK_FIRST_ROW)
              && decide (m.srcCol = LEFT_ROOK_COL))),
       g.blackRightCastle && !(decide (m.srcPiece = BLACK_KING)
          || (decide (m.srcPiece = BLACK_ROOK) && decide (m.srcRow = BLACK_FIRST_ROW)
              && decide (m.srcCol = RIGHT_ROOK_COL)))) := by
  unfold setRegularMove
  simp only
  split
  next h =>
    have hd : ¬ WHITE_ROOK = m.dstPiece := fun e => hne (h.trans e)
    rw [updateCastlingIndicators_eq m m.srcPiece _ _ hcm (fun hh => hd (h.symm.trans hh.2))]
    simp [flagsOf, SPChessGame.setBoard, h, hd]
  next h =>
    have hd : ¬ BLACK_ROOK = m.dstPiece := fun e => hne (h.trans e)
    rw [updateCastlingIndicators_eq m m.srcPiece _ _ hcm (fun hh => hd (h.symm.trans hh.2))]
    simp [flagsOf, SPChessGame.setBoard, h, hd]
  next h => simp [flagsOf, SPChessGame.setBoard, h]
  next h => simp [flagsOf, SPChessGame.setBoard, h]
  next h1 h2 h3 h4 =>
    have e1 : ¬ m.srcPiece = WHITE_ROOK := h1
    have e2 : ¬ m.srcPiece = BLACK_ROOK := h2
    have e3 : ¬ m.srcPiece = WHITE_KING := h3
    have e4 : ¬ m.srcPiece = BLACK_KING := h4
    simp [flagsOf, SPChessGame.setBoard, e1, e2, e3, e4]

/-- The castling flags after the accounting of `updatesAfterSettingMove`, for a move that is
not a castle, does not capture a piece of the kind it moves and has the capture flag set
whenever the destination held a rook. -/
theorem flagsOf_updatesPrefix (g : SPChessGame) (m : Move) (mm : Bool)
    (hcm : m.castleMove = false) (hne : m.srcPiece ≠ m.dstPiece)
    (hcap : m.dstPiece = WHITE_ROOK ∨ m.dstPiece = BLACK_ROOK → m.dstPieceCaptured = true) :
    flagsOf (updatesPrefix g m mm) =
      (g.whiteLeftCastle && !(decide (m.dstPiece = WHITE_ROOK)
          && decide (m.dstRow = WHITE_FIRST_ROW) && decide (m.dstCol = LEFT_ROOK_COL)),
       g.whiteRightCastle && !(decide (m.dstPiece = WHITE_ROOK)
          && decide (m.dstRow = WHITE_FIRST_ROW) && decide (m.dstCol = RIGHT_ROOK_COL)),
       g.blackLeftCastle && !(decide (m.dstPiece = BLACK_ROOK)
          && decide (m.dstRow = BLACK_FIRST_ROW) && decide (m.dstCol = LEFT_ROOK_COL)),
       g.blackRightCastle && !(decide (m.dstPiece = BLACK_ROOK)
          && decide (m.dstRow = BLACK_FIRST_ROW) && decide (m.dstCol = RIGHT_ROOK_COL))) := by
  have hfl : ∀ G : SPChessGame, flagsOf
      (if (!mm) = true then
        { G with history := (spArrayListAddLast
          (if spArrayListIsFull G.history = true then (spArrayListRemoveFirst G.history).1
            else G.history) m).1 }
      else G) = flagsOf G := by
    intro G; split_ifs <;> rfl
  unfold updatesPrefix
  simp only
  rw [hfl]
  by_cases hW : m.dstPiece = WHITE_ROOK
  · have hs : ¬ WHITE_ROOK = m.srcPiece := fun e => hne (e.symm.trans hW.symm)
    rw [hcap (Or.inl hW)]
    simp only [↓reduceIte, hW]
    rw [updateCastlingIndicators_eq m WHITE_ROOK _ _ hcm (fun hh => hs hh.1)]
    simp [flagsOf, updatePiecesAmount, hW, hs]
  · by_cases hB : m.dstPiece = BLACK_ROOK
    · have hs : ¬ BLACK_ROOK = m.srcPiece := fun e => hne (e.symm.trans hB.symm)
      rw [hcap (Or.inr hB)]
      simp only [↓reduceIte, hB, reduceCtorEq]
      rw [updateCastlingIndicators_eq m BLACK_ROOK _ _ hcm (fun hh => hs hh.1)]
      simp [flagsOf, updatePiecesAmount, hB, hs]
    · simp only [hW, hB, ↓reduceIte]
      have : flagsOf (if m.dstPieceCaptured = true then updatePiecesAmount g m.dstPiece false
          else g) = flagsOf g := by
        split_ifs
        · exact flagsOf_updatePiecesAmount _ _ _
        · rfl
      rw [this]
      simp [flagsOf, hW, hB]

theorem flagsOf_updatesPrefix_castle (g : SPChessGame) (m : Move) (mm : Bool)
    (hdc : m.dstPieceCaptured = false) : flagsOf (updatesPrefix g m mm) = flagsOf g := by
  unfold updatesPrefix
  simp only [hdc, Bool.false_eq_true, ↓reduceIte]
  split_ifs <;> rfl

theorem flagsOf_setCastleMove (g : SPChessGame) (m : Move) (hcm : m.castleMove = true) :
    flagsOf (setCastleMove g m).1 =
      if m.srcPiece = WHITE_ROOK then (false, false, g.blackLeftCastle, g.blackRightCastle)
      else (g.whiteLeftCastle, g.whiteRightCastle, false, false) := by
  unfold setCastleMove updateCastlingIndicators
  simp only [hcm, ↓reduceIte]
  split_ifs <;> rfl

theorem ownRook_of (p : Player) (x : Piece) (ho : currentPlayerPiece p x = true)
    (hr : x = WHITE_ROOK ∨ x = BLACK_ROOK) :
    x = ownRook p ∧ (x = WHITE_ROOK ↔ p = WHITE_PLAYER) := by
  rcases hr with rfl | rfl <;> cases p <;> simp_all [currentPlayerPiece, ownRook]

/-- The branches of `spChessGameSetMove`, with the intermediate moves named. -/
theorem spChessGameSetMove_eq (env : Env) (g : SPChessGame) (m : Move) (mm cm : Bool) :
    spChessGameSetMove env g m mm cm =
      if (!validPosition m.srcRow m.srcCol
          || (!m.castleMove && !validPosition m.dstRow m.dstCol)) = true then
        (SP_CHESS_GAME_INVALID_POSITION, g, m)
      else if (!currentPlayerPiece g.currentPlayer (entryMove g m).srcPiece) = true then
        (SP_CHESS_GAME_INVALID_ARGUMENT, g, entryMove g m)
      else if (enteredMove g m).castleMove = true then
        if (enteredMove g m).srcPiece ≠ WHITE_ROOK ∧ (enteredMove g m).srcPiece ≠ BLACK_ROOK then
          (SP_CHESS_GAME_CASTLE_NO_ROOK, g, enteredMove g m)
        else if (!cm && !(checkedCastle g m cm).1) = true then
          (SP_CHESS_GAME_ILLEGAL_CASTLE_MOVE, (checkedCastle g m cm).2, enteredMove g m)
        else
          ((updatesAfterSettingMove env (setCastleMove (checkedCastle g m cm).2 (enteredMove g m)).1
              (setCastleMove (checkedCastle g m cm).2 (enteredMove g m)).2 mm).1,
           (updatesAfterSettingMove env (setCastleMove (checkedCastle g m cm).2 (enteredMove g m)).1
              (setCastleMove (checkedCastle g m cm).2 (enteredMove g m)).2 mm).2,
           (setCastleMove (checkedCastle g m cm).2 (enteredMove g m)).2)
      else if (enteredMove g m).pawnPromotion = true then
        if (spChessGameSetPawnPromotion env g (enteredMove g m) true).1 ≠ SP_CHESS_GAME_SUCCESS then
          (SP_CHESS_GAME_MEMORY_FAILURE,
            (spChessGameSetPawnPromotion env g (enteredMove g m) true).2, enteredMove g m)
        else
          ((updatesAfterSettingMove env (spChessGameSetPawnPromotion env g (enteredMove g m) true).2
              (enteredMove g m) mm).1,
           (updatesAfterSettingMove env (spChessGameSetPawnPromotion env g (enteredMove g m) true).2
              (enteredMove g m) mm).2,
           enteredMove g m)
      else if (!cm && !(checkedRegular g m cm).1) = true then
        (SP_CHESS_GAME_ILLEGAL_MOVE, (checkedRegular g m cm).2.1, (checkedRegular g m cm).2.2)
      else
        ((updatesAfterSettingMove env
            (setRegularMove (checkedRegular g m cm).2.1 (checkedRegular g m cm).2.2)
            (checkedRegular g m cm).2.2 mm).1,
         (updatesAfterSettingMove env
            (setRegularMove (checkedRegular g m cm).2.1 (checkedRegular g m cm).2.2)
            (checkedRegular g m cm).2.2 mm).2,
         (checkedRegular g m cm).2.2) := rfl

@[simp] theorem enteredMove_castleMove (g : SPChessGame) (m : Move) :
    (enteredMove g m).castleMove = m.castleMove := by
  unfold enteredMove flagStamp entryMove; split_ifs <;> rfl

@[simp] theorem enteredMove_pawnPromotion (g : SPChessGame) (m : Move) :
    (enteredMove g m).pawnPromotion = m.pawnPromotion := by
  unfold enteredMove flagStamp entryMove; split_ifs <;> rfl

@[simp] theorem enteredMove_dstPieceCaptured (g : SPChessGame) (m : Move) :
    (enteredMove g m).dstPieceCaptured = m.dstPieceCaptured := by
  unfold enteredMove flagStamp entryMove; split_ifs <;> rfl

@[simp] theorem enteredMove_dstPiece (g : SPChessGame) (m : Move) :
    (enteredMove g m).dstPiece = m.dstPiece := by
  unfold enteredMove flagStamp entryMove; split_ifs <;> rfl

@[simp] theorem enteredMove_squares (g : SPChessGame) (m : Move) :
    (enteredMove g m).srcRow = m.srcRow ∧ (enteredMove g m).srcCol = m.srcCol
    ∧ (enteredMove g m).dstRow = m.dstRow ∧ (enteredMove g m).dstCol = m.dstCol := by
  unfold enteredMove flagStamp entryMove; split_ifs <;> exact ⟨rfl, rfl, rfl, rfl⟩

theorem enteredMove_srcPiece (g : SPChessGame) (m : Move) :
    (enteredMove g m).srcPiece
      = if m.pawnPromotion = true then m.srcPiece else g.board m.srcRow m.srcCol := by
  unfold enteredMove flagStamp entryMove
  cases m.pawnPromotion <;> rfl

theorem enteredMove_eq_stampMove (g : SPChessGame) (m : Move) (hpp : m.pawnPromotion = false) :
    enteredMove g m = stampMove g m := by
  unfold enteredMove flagStamp entryMove stampMove
  simp [hpp]

/-- What a successful `spChessGameSetMove` went through: a castle, a promotion of the engine
or a regular move, with the result in terms of the functions that apply the move. -/
theorem setMove_success_cases (env : Env) (g : SPChessGame) (m : Move) (mm cm : Bool)
    (hs : (spChessGameSetMove env g m mm cm).1 = SP_CHESS_GAME_SUCCESS) :
    validPosition m.srcRow m.srcCol = true
    ∧ currentPlayerPiece g.currentPlayer (enteredMove g m).srcPiece = true
    ∧ ((m.castleMove = true
        ∧ ((enteredMove g m).srcPiece = WHITE_ROOK ∨ (enteredMove g m).srcPiece = BLACK_ROOK)
        ∧ (cm = false → (legalCastle g (enteredMove g m)).1 = true)
        ∧ (spChessGameSetMove env g m mm cm).2.1 =
            (updatesAfterSettingMove env
              (setCastleMove (checkedCastle g m cm).2 (enteredMove g m)).1
              (setCastleMove (checkedCastle g m cm).2 (enteredMove g m)).2 mm).2
        ∧ (spChessGameSetMove env g m mm cm).2.2
            = (setCastleMove (checkedCastle g m cm).2 (enteredMove g m)).2)
      ∨ (m.castleMove = false ∧ m.pawnPromotion = true
        ∧ validPosition m.dstRow m.dstCol = true
        ∧ (spChessGameSetMove env g m mm cm).2.1 =
            (updatesAfterSettingMove env
              (spChessGameSetPawnPromotion env g (enteredMove g m) true).2
              (enteredMove g m) mm).2
        ∧ (spChessGameSetMove env g m mm cm).2.2 = enteredMove g m)
      ∨ (m.castleMove = false ∧ m.pawnPromotion = false
        ∧ validPosition m.dstRow m.dstCol = true
        ∧ (cm = false → (legalRegularMove g (enteredMove g m)).1 = true)
        ∧ (spChessGameSetMove env g m mm cm).2.1 =
            (updatesAfterSettingMove env
              (setRegularMove (checkedRegular g m cm).2.1 (checkedRegular g m cm).2.2)
              (checkedRegular g m cm).2.2 mm).2
        ∧ (spChessGameSetMove env g m mm cm).2.2 = (checkedRegular g m cm).2.2)) := by
  rw [spChessGameSetMove_eq] at hs ⊢
  by_cases hpos : (!validPosition m.srcRow m.srcCol
      || (!m.castleMove && !validPosition m.dstRow m.dstCol)) = true
  · rw [if_pos hpos] at hs; exact absurd hs (by simp)
  rw [if_neg hpos] at hs ⊢
  by_cases ho : (!currentPlayerPiece g.currentPlayer (entryMove g m).srcPiece) = true
  · rw [if_pos ho] at hs; exact absurd hs (by simp)
  rw [if_neg ho] at hs ⊢
  have hsrc : validPosition m.srcRow m.srcCol = true := by
    by_contra h; simp only [Bool.not_eq_true] at h; simp [h] at hpos
  have hdst : m.castleMove = false → validPosition m.dstRow m.dstCol = true := by
    intro hc; by_contra h; simp only [Bool.not_eq_true] at h; simp [h, hc] at hpos
  have ho2 : currentPlayerPiece g.currentPlayer (enteredMove g m).srcPiece = true := by
    simp only [Bool.not_eq_true', Bool.not_eq_false] at ho
    exact ho
  refine ⟨hsrc, ho2, ?_⟩
  by_cases hcm : m.castleMove = true
  · left
    rw [if_pos (by simpa using hcm)] at hs ⊢
    by_cases hr : (enteredMove g m).srcPiece ≠ WHITE_ROOK ∧ (enteredMove g m).srcPiece ≠ BLACK_ROOK
    · rw [if_pos hr] at hs; exact absurd hs (by simp)
    rw [if_neg hr] at hs ⊢
    by_cases hl : (!cm && !(checkedCastle g m cm).1) = true
    · rw [if_pos hl] at hs; exact absurd hs (by simp)
    rw [if_neg hl]
    refine ⟨hcm, ?_, ?_, rfl, rfl⟩
    · by_contra hn; simp only [not_or] at hn; exact hr hn
    · intro hc
      simp only [hc, checkedCastle, Bool.not_false, ↓reduceIte, Bool.true_and,
        Bool.not_eq_true', Bool.not_eq_false] at hl
      exact hl
  · simp only [Bool.not_eq_true] at hcm
    right
    rw [if_neg (by simp [hcm])] at hs ⊢
    by_cases hpp : m.pawnPromotion = true
    · left
      rw [if_pos (by simpa using hpp)] at hs ⊢
      by_cases hf : (spChessGameSetPawnPromotion env g (enteredMove g m) true).1
          ≠ SP_CHESS_GAME_SUCCESS
      · rw [if_pos hf] at hs; exact absurd hs (by simp)
      rw [if_neg hf]
      exact ⟨hcm, hpp, hdst hcm, rfl, rfl⟩
    · simp only [Bool.not_eq_true] at hpp
      right
      rw [if_neg (by simp [hpp])] at hs ⊢
      by_cases hl : (!cm && !(checkedRegular g m cm).1) = true
      · rw [if_pos hl] at hs; exact absurd hs (by simp)
      rw [if_neg hl]
      refine ⟨hcm, hpp, hdst hcm, ?_, rfl, rfl⟩
      intro hc
      simp only [hc, checkedRegular, Bool.not_false, ↓reduceIte, Bool.true_and,
        Bool.not_eq_true', Bool.not_eq_false] at hl
      exact hl

theorem legalRegularMove_dst_foreign (g : SPChessGame) (m : Move)
    (h : (legalRegularMove g m).1 = true) :
    currentPlayerPiece g.currentPlayer (g.board m.dstRow m.dstCol) = false := by
  by_contra hn
  simp only [Bool.not_eq_false] at hn
  unfold legalRegularMove at h
  simp only [hn, ↓reduceIte] at h
  exact absurd h (by simp)

theorem flagsOf_eq (a b : SPChessGame) (h : flagsOf a = flagsOf b) :
    a.whiteLeftCastle = b.whiteLeftCastle ∧ a.whiteRightCastle = b.whiteRightCastle
    ∧ a.blackLeftCastle = b.blackLeftCastle ∧ a.blackRightCastle = b.blackRightCastle := by
  simp only [flagsOf, Prod.mk.injEq] at h
  exact h

/-- The castling flags after the board writes and the accounting of a regular move, in
terms of the board before the move. -/
theorem flagsOf_regular (g : SPChessGame) (mv : Move) (mm : Bool)
    (hcm : mv.castleMove = false) (hsp : mv.srcPiece = g.board mv.srcRow mv.srcCol)
    (hdp : mv.dstPiece = g.board mv.dstRow mv.dstCol)
    (ho : currentPlayerPiece g.currentPlayer mv.srcPiece = true)
    (hf : currentPlayerPiece g.currentPlayer mv.dstPiece = false)
    (hcap : mv.dstPiece ≠ EMPTY_POSITION → mv.dstPieceCaptured = true) :
    flagsOf (updatesPrefix (setRegularMove g mv) mv mm) =
      (g.whiteLeftCastle && !cleared g mv WHITE_ROOK WHITE_KING WHITE_FIRST_ROW LEFT_ROOK_COL,
       g.whiteRightCastle && !cleared g mv WHITE_ROOK WHITE_KING WHITE_FIRST_ROW RIGHT_ROOK_COL,
       g.blackLeftCastle && !cleared g mv BLACK_ROOK BLACK_KING BLACK_FIRST_ROW LEFT_ROOK_COL,
       g.blackRightCastle && !cleared g mv BLACK_ROOK BLACK_KING BLACK_FIRST_ROW RIGHT_ROOK_COL) := by
  have hne := own_ne_foreign _ _ _ ho hf
  rw [flagsOf_updatesPrefix _ _ _ hcm hne
    (fun h => hcap (by rcases h with h | h <;> rw [h] <;> decide))]
  obtain ⟨e1, e2, e3, e4⟩ := flagsOf_eq _ _
    ((flagsOf_setRegularMove g mv hcm hne).trans (rfl : _ = flagsOf
      { g with
        whiteLeftCastle := g.whiteLeftCastle && !(decide (mv.srcPiece = WHITE_KING)
          || (decide (mv.srcPiece = WHITE_ROOK) && decide (mv.srcRow = WHITE_FIRST_ROW)
              && decide (mv.srcCol = LEFT_ROOK_COL))),
        whiteRightCastle := g.whiteRightCastle && !(decide (mv.srcPiece = WHITE_KING)
          || (decide (mv.srcPiece = WHITE_ROOK) && decide (mv.srcRow = WHITE_FIRST_ROW)
              && decide (mv.srcCol = RIGHT_ROOK_COL))),
        blackLeftCastle := g.blackLeftCastle && !(decide (mv.srcPiece = BLACK_KING)
          || (decide (mv.srcPiece = BLACK_ROOK) && decide (mv.srcRow = BLACK_FIRST_ROW)
              && decide (mv.srcCol = LEFT_ROOK_COL))),
        blackRightCastle := g.blackRightCastle && !(decide (mv.srcPiece = BLACK_KING)
          || (decide (mv.srcPiece = BLACK_ROOK) && decide (mv.srcRow = BLACK_FIRST_ROW)
              && decide (mv.srcCol = RIGHT_ROOK_COL))) }))
  rw [e1, e2, e3, e4]
  simp only [cleared, ← hsp, ← hdp, Bool.not_or, Bool.and_assoc]

theorem filledMove_fields (g : SPChessGame) (m : Move) :
    (filledMove g m).srcRow = m.srcRow ∧ (filledMove g m).srcCol = m.srcCol
    ∧ (filledMove g m).dstRow = m.dstRow ∧ (filledMove g m).dstCol = m.dstCol
    ∧ (filledMove g m).srcPiece = m.srcPiece ∧ (filledMove g m).castleMove = m.castleMove
    ∧ (filledMove g m).dstPiece = g.board m.dstRow m.dstCol :=
  ⟨rfl, rfl, rfl, rfl, rfl, rfl, rfl⟩

theorem cleared_congr (g : SPChessGame) (a b : Move) (rook king : Piece) (row corner : Int)
    (h1 : a.srcRow = b.srcRow) (h2 : a.srcCol = b.srcCol) (h3 : a.dstRow = b.dstRow)
    (h4 : a.dstCol = b.dstCol) :
    cleared g a rook king row corner = cleared g b rook king row corner := by
  unfold cleared; rw [h1, h2, h3, h4]

theorem cleared_pawn (g : SPChessGame) (m : Move) (rook king : Piece) (row corner : Int)
    (hp : g.board m.srcRow m.srcCol = ownPawn g.currentPlayer)
    (hk : king = WHITE_KING ∨ king = BLACK_KING) (hr : rook = WHITE_ROOK ∨ rook = BLACK_ROOK) :
    cleared g m rook king row corner =
      (decide (g.board m.dstRow m.dstCol = rook) && decide (m.dstRow = row)
        && decide (m.dstCol = corner)) := by
  unfold cleared
  rw [hp]
  rcases hk with rfl | rfl <;> rcases hr with rfl | rfl <;> cases g.currentPlayer <;>
    simp [ownPawn]

/-- The four castling flags after a successful `spChessGameSetMove` with a move as its
callers build it: after a castle, and after any other move. -/
theorem flags_after_move (env : Env) (g : SPChessGame) (m : Move) (mm cm : Bool)
    (hin : builtByCaller g m cm)
    (hs : (spChessGameSetMove env g m mm cm).1 = SP_CHESS_GAME_SUCCESS) :
    (m.castleMove = true →
      flagsOf (spChessGameSetMove env g m mm cm).2.1 =
        if g.currentPlayer = WHITE_PLAYER then
          (false, false, g.blackLeftCastle, g.blackRightCastle)
        else (g.whiteLeftCastle, g.whiteRightCastle, false, false))
    ∧ (m.castleMove = false →
      flagsOf (spChessGameSetMove env g m mm cm).2.1 =
        (g.whiteLeftCastle && !cleared g m WHITE_ROOK WHITE_KING WHITE_FIRST_ROW LEFT_ROOK_COL,
         g.whiteRightCastle && !cleared g m WHITE_ROOK WHITE_KING WHITE_FIRST_ROW RIGHT_ROOK_COL,
         g.blackLeftCastle && !cleared g m BLACK_ROOK BLACK_KING BLACK_FIRST_ROW LEFT_ROOK_COL,
         g.blackRightCastle && !cleared g m BLACK_ROOK BLACK_KING BLACK_FIRST_ROW RIGHT_ROOK_COL)) := by
  obtain ⟨hsrc, ho, hcase⟩ := setMove_success_cases env g m mm cm hs
  obtain ⟨hsq1, hsq2, hsq3, hsq4⟩ := enteredMove_squares g m
  constructor
  · intro hcm
    rcases hcase with ⟨-, hr, hl, e, -⟩ | ⟨h, -⟩ | ⟨h, -⟩
    · obtain ⟨hown, hside⟩ := ownRook_of _ _ ho hr
      have hG : flagsOf (checkedCastle g m cm).2 = flagsOf g := by
        unfold checkedCastle
        split_ifs
        · exact flagsOf_phantom _ _ (legalCastle_phantom g _ hown)
        · rfl
      obtain ⟨h4, h5, h6, h7⟩ := flagsOf_eq _ _ hG
      rw [e, flagsOf_updatesAfterSettingMove, flagsOf_updatesPrefix_castle _ _ _
        (by simp only [setCastleMove]; split_ifs <;>
          simpa using hin.1 hcm),
        flagsOf_setCastleMove _ _ (by simpa using hcm)]
      simp only [hside, h4, h5, h6, h7]
    · rw [hcm] at h; exact absurd h (by decide)
    · rw [hcm] at h; exact absurd h (by decide)
  · intro hcm
    rcases hcase with ⟨h, -⟩ | ⟨-, hpp, hdst, e, -⟩ | ⟨-, hpp, hdst, hl, e, -⟩
    · rw [hcm] at h; exact absurd h (by decide)
    · -- a promotion of the engine
      obtain ⟨hdp, hdc, hf, hpawn⟩ := hin.2 hcm (Or.inr hpp)
      have hem_dp : (enteredMove g m).dstPiece = g.board m.dstRow m.dstCol := by
        rw [enteredMove_dstPiece]; exact hdp
      have hne : (enteredMove g m).srcPiece ≠ (enteredMove g m).dstPiece :=
        own_ne_foreign _ _ _ ho (by rw [hem_dp]; exact hf)
      rw [e, flagsOf_updatesAfterSettingMove, flagsOf_updatesPrefix _ _ _
        (by simpa using hcm) hne
        (by
          intro h
          rw [enteredMove_dstPieceCaptured, hdc, ← hdp, ← enteredMove_dstPiece g m]
          rcases h with h | h <;> rw [h] <;> decide)]
      obtain ⟨h4, h5, h6, h7⟩ := flagsOf_eq _ _ (flagsOf_setPawnPromotion env g (enteredMove g m) true)
      rw [h4, h5, h6, h7, hem_dp, hsq3, hsq4]
      rw [cleared_pawn g m _ _ _ _ (hpawn hpp) (Or.inl rfl) (Or.inl rfl),
        cleared_pawn g m _ _ _ _ (hpawn hpp) (Or.inl rfl) (Or.inl rfl),
        cleared_pawn g m _ _ _ _ (hpawn hpp) (Or.inr rfl) (Or.inr rfl),
        cleared_pawn g m _ _ _ _ (hpawn hpp) (Or.inr rfl) (Or.inr rfl)]
    · -- a regular move
      have hsp : (enteredMove g m).srcPiece = g.board m.srcRow m.srcCol := by
        rw [enteredMove_srcPiece]; simp [hpp]
      rw [e, flagsOf_updatesAfterSettingMove]
      cases hc : cm
      · -- of a user
        have hlegal := hl hc
        have hG : (checkedRegular g m false).2.1 = g := by
          simp only [checkedRegular, Bool.not_false, ↓reduceIte]
          exact legalRegularMove_game g _ (by rw [hsp, hsq1, hsq2])
        have hM : (checkedRegular g m false).2.2 = filledMove g (enteredMove g m) := by
          simp only [checkedRegular, Bool.not_false, ↓reduceIte]
          exact legalRegularMove_move g _ hlegal
        rw [hG, hM]
        have hforeign := legalRegularMove_dst_foreign g _ hlegal
        rw [flagsOf_regular g (filledMove g (enteredMove g m)) mm
          (by show (enteredMove g m).castleMove = false
              simpa using hcm)
          (by show (enteredMove g m).srcPiece = g.board (enteredMove g m).srcRow
                (enteredMove g m).srcCol
              rw [hsp, hsq1, hsq2])
          rfl ho hforeign
          (by
            intro h
            show ((enteredMove g m).dstPieceCaptured
              || decide (g.board (enteredMove g m).dstRow (enteredMove g m).dstCol
                  ≠ EMPTY_POSITION)) = true
            simp only [Bool.or_eq_true, decide_eq_true_eq]
            exact Or.inr h)]
        have hq : ∀ rook king row corner,
            cleared g (filledMove g (enteredMove g m)) rook king row corner
              = cleared g m rook king row corner :=
          fun rook king row corner =>
            cleared_congr g _ m rook king row corner hsq1 hsq2 hsq3 hsq4
        simp only [hq]
      · -- of the engine
        obtain ⟨hdp, hdc, hf, -⟩ := hin.2 hcm (Or.inl hc)
        have hG : (checkedRegular g m true).2.1 = g := rfl
        have hM : (checkedRegular g m true).2.2 = enteredMove g m := rfl
        rw [hG, hM]
        rw [flagsOf_regular g (enteredMove g m) mm (by simpa using hcm)
          (by rw [hsp, hsq1, hsq2])
          (by rw [enteredMove_dstPiece, hdp, hsq3, hsq4]) ho
          (by rw [enteredMove_dstPiece, hdp]; exact hf)
          (by
            intro h
            rw [enteredMove_dstPieceCaptured, hdc]
            rw [enteredMove_dstPiece, hdp] at h
            simpa using h)]
        have hq : ∀ rook king row corner,
            cleared g (enteredMove g m) rook king row corner
              = cleared g m rook king row corner :=
          fun rook king row corner =>
            cleared_congr g _ m rook king row corner hsq1 hsq2 hsq3 hsq4
        simp only [hq]

/-- C11: after a successful `spChessGameSetMove` with a move as its callers build it, a
castle leaves both castling flags of the mover false and the two flags of the other side as
they were; any other move leaves each of the four flags false if the moved piece is the
owner's king, or the owner's rook leaving that corner of its first rank, or if the owner's
rook is captured on that corner, and leaves the flag as it was otherwise. -/
theorem C11_castling_rights (env : Env) (g : SPChessGame) (m : Move) (mm cm : Bool)
    (hin : builtByCaller g m cm)
    (hs : (spChessGameSetMove env g m mm cm).1 = SP_CHESS_GAME_SUCCESS) :
    (m.castleMove = true →
      flagsOf (spChessGameSetMove env g m mm cm).2.1 =
        if g.currentPlayer = WHITE_PLAYER then
          (false, false, g.blackLeftCastle, g.blackRightCastle)
        else (g.whiteLeftCastle, g.whiteRightCastle, false, false))
    ∧ (m.castleMove = false →
      flagsOf (spChessGameSetMove env g m mm cm).2.1 =
        (g.whiteLeftCastle && !cleared g m WHITE_ROOK WHITE_KING WHITE_FIRST_ROW LEFT_ROOK_COL,
         g.whiteRightCastle && !cleared g m WHITE_ROOK WHITE_KING WHITE_FIRST_ROW RIGHT_ROOK_COL,
         g.blackLeftCastle && !cleared g m BLACK_ROOK BLACK_KING BLACK_FIRST_ROW LEFT_ROOK_COL,
         g.blackRightCastle && !cleared g m BLACK_ROOK BLACK_KING BLACK_FIRST_ROW RIGHT_ROOK_COL)) :=
  flags_after_move env g m mm cm hin hs

/-- C11 for the castle with the a1 rook in `castleGame`: both white flags are cleared. -/
theorem C11_castling_rights_witness :
    builtByCaller castleGame castleLeftCommand false
    ∧ flagsOf (spChessGameSetMove sampleEnv castleGame castleLeftCommand false false).2.1
        = (false, false, castleGame.blackLeftCastle, castleGame.blackRightCastle) :=
  ⟨by decide!,
    (C11_castling_rights sampleEnv castleGame castleLeftCommand false false (by decide!)
      (by decide!)).1 rfl⟩

/-! ## The recorded king squares -/

theorem kingsView_eq (a b : SPChessGame) (h : kingsView a = kingsView b) :
    a.board = b.board ∧ a.whiteKingRow = b.whiteKingRow ∧ a.whiteKingCol = b.whiteKingCol
    ∧ a.blackKingRow = b.blackKingRow ∧ a.blackKingCol = b.blackKingCol := by
  simp only [kingsView, Prod.mk.injEq] at h
  exact h

theorem kingsOnBoard_of_fields (g : SPChessGame) (hk : kingFieldsAgree g) : kingsOnBoard g :=
  ⟨(hk.2.2.1 _ _ hk.1).2 ⟨rfl, rfl⟩, (hk.2.2.2 _ _ hk.2.1).2 ⟨rfl, rfl⟩⟩

theorem kingsView_updatePiecesAmount (g : SPChessGame) (p : Piece) (b : Bool) :
    kingsView (updatePiecesAmount g p b) = kingsView g := by
  cases p <;> rfl

theorem kingsView_updatesPrefix (g : SPChessGame) (m : Move) (mm : Bool) :
    kingsView (updatesPrefix g m mm) = kingsView g := by
  simp only [kingsView, updatesPrefix_board, updatesPrefix_whiteKingRow,
    updatesPrefix_whiteKingCol, updatesPrefix_blackKingRow, updatesPrefix_blackKingCol]

theorem kingsView_changePlayerAndUpdateStatus (env : Env) (g : SPChessGame)
    (hcc : castleConsistent g) :
    kingsView (changePlayerAndUpdateStatus env g).2 = kingsView g := by
  have hcc2 : castleConsistent (flipPlayer g) := hcc
  have hA := getGameStatus_game env (flipPlayer g) g.whiteKingRow g.whiteKingCol hcc2
  have hB := getGameStatus_game env (flipPlayer g) g.blackKingRow g.blackKingCol hcc2
  unfold changePlayerAndUpdateStatus
  simp only
  have e : ({ g with currentPlayer := g.currentPlayer.not } : SPChessGame) = flipPlayer g := rfl
  rw [e]
  by_cases hp : g.currentPlayer.not = WHITE_PLAYER <;>
    simp only [hp, ↓reduceIte, hA, hB] <;> split_ifs <;> rfl

theorem kingsView_updatesAfterSettingMove (env : Env) (g : SPChessGame) (m : Move) (mm : Bool)
    (hcc : castleConsistent g) :
    kingsView (updatesAfterSettingMove env g m mm).2 = kingsView g := by
  rw [updatesAfterSettingMove_eq]
  split_ifs
  · rw [kingsView_changePlayerAndUpdateStatus env _ (castleConsistent_updatesPrefix g m mm hcc)]
    exact kingsView_updatesPrefix g m mm
  · exact kingsView_updatesPrefix g m mm

theorem kingsView_undo (F : SPChessGame) (m : Move) :
    kingsView (spChessGameUndoPrevMove F m).2 = kingsView (undoFields (undoBoard F m) m) := by
  rw [undo_eq]
  simp only [kingsView, undoFinish_board, undoFinish_whiteKingRow, undoFinish_whiteKingCol,
    undoFinish_blackKingRow, undoFinish_blackKingCol, undoArmies_board, undoArmies_whiteKingRow,
    undoArmies_whiteKingCol, undoArmies_blackKingRow, undoArmies_blackKingCol]

/-- The kings stay on their recorded squares when a piece is moved from `(sr, sc)` to
`(dr, dc)` without capturing a king and the record follows a king that moves. -/
theorem kingsOnBoard_after_move (g F : SPChessGame) (sr sc dr dc : Int) (X : Piece)
    (hg : kingsOnBoard g)
    (hb : F.board = (g.board.set sr sc EMPTY_POSITION).set dr dc X)
    (hw : g.board dr dc ≠ WHITE_KING) (hbk : g.board dr dc ≠ BLACK_KING)
    (hW : (g.board sr sc = WHITE_KING →
            X = WHITE_KING ∧ F.whiteKingRow = dr ∧ F.whiteKingCol = dc)
        ∧ (g.board sr sc ≠ WHITE_KING →
            F.whiteKingRow = g.whiteKingRow ∧ F.whiteKingCol = g.whiteKingCol))
    (hB : (g.board sr sc = BLACK_KING →
            X = BLACK_KING ∧ F.blackKingRow = dr ∧ F.blackKingCol = dc)
        ∧ (g.board sr sc ≠ BLACK_KING →
            F.blackKingRow = g.blackKingRow ∧ F.blackKingCol = g.blackKingCol)) :
    kingsOnBoard F := by
  obtain ⟨g1, g2⟩ := hg
  unfold kingsOnBoard
  rw [hb]
  constructor
  · by_cases h : g.board sr sc = WHITE_KING
    · obtain ⟨hx, e1, e2⟩ := hW.1 h
      rw [e1, e2, hx]; simp [Board.set_apply]
    · obtain ⟨e1, e2⟩ := hW.2 h
      rw [e1, e2]
      simp only [Board.set_apply]
      split_ifs with h1 h2
      · rw [h1.1, h1.2] at g1; exact absurd g1 hw
      · rw [h2.1, h2.2] at g1; exact absurd g1 h
      · exact g1
  · by_cases h : g.board sr sc = BLACK_KING
    · obtain ⟨hx, e1, e2⟩ := hB.1 h
      rw [e1, e2, hx]; simp [Board.set_apply]
    · obtain ⟨e1, e2⟩ := hB.2 h
      rw [e1, e2]
      simp only [Board.set_apply]
      split_ifs with h1 h2
      · rw [h1.1, h1.2] at g2; exact absurd g2 hbk
      · rw [h2.1, h2.2] at g2; exact absurd g2 h
      · exact g2

theorem kingsView_undoBoard_regular (F : SPChessGame) (m : Move) (hcm : m.castleMove = false) :
    kingsView (undoFields (undoBoard F m) m) =
      ((F.board.set m.srcRow m.srcCol
          (if m.pawnPromotion = true then
            (if F.currentPlayer.not = WHITE_PLAYER then WHITE_PAWN else BLACK_PAWN)
           else m.srcPiece)).set m.dstRow m.dstCol m.dstPiece,
       (if m.srcPiece = WHITE_KING then m.srcRow else F.whiteKingRow),
       (if m.srcPiece = WHITE_KING then m.srcCol else F.whiteKingCol),
       (if m.srcPiece = BLACK_KING then m.srcRow else F.blackKingRow),
       (if m.srcPiece = BLACK_KING then m.srcCol else F.blackKingCol)) := by
  simp only [kingsView, undoFields_board, (undoFields_white_king _ _).1,
    (undoFields_white_king _ _).2, (undoFields_black_king _ _).1, (undoFields_black_king _ _).2]
  unfold undoBoard
  simp only [hcm, Bool.false_eq_true, ↓reduceIte]
  rfl

/-- The kings are on their recorded squares after the undo of a move that is not a castle,
when the state it is applied to differs from the state `g` before the move on source and
destination only and the move carries the piece that stood on the destination. -/
theorem kingsOnBoard_undo_noncastle (g F : SPChessGame) (mv : Move)
    (hcm : mv.castleMove = false) (hg : kingsOnBoard g)
    (hoff : ∀ r c, ¬ (r = mv.srcRow ∧ c = mv.srcCol) → ¬ (r = mv.dstRow ∧ c = mv.dstCol) →
      F.board r c = g.board r c)
    (hdp : mv.dstPiece = g.board mv.dstRow mv.dstCol)
    (hne : ¬ (mv.dstRow = mv.srcRow ∧ mv.dstCol = mv.srcCol))
    (hW : (mv.srcPiece = WHITE_KING → mv.pawnPromotion = false)
      ∧ (mv.srcPiece ≠ WHITE_KING →
          F.whiteKingRow = g.whiteKingRow ∧ F.whiteKingCol = g.whiteKingCol
          ∧ ¬ (g.whiteKingRow = mv.srcRow ∧ g.whiteKingCol = mv.srcCol)))
    (hB : (mv.srcPiece = BLACK_KING → mv.pawnPromotion = false)
      ∧ (mv.srcPiece ≠ BLACK_KING →
          F.blackKingRow = g.blackKingRow ∧ F.blackKingCol = g.blackKingCol
          ∧ ¬ (g.blackKingRow = mv.srcRow ∧ g.blackKingCol = mv.srcCol))) :
    kingsOnBoard (spChessGameUndoPrevMove F mv).2 := by
  obtain ⟨g1, g2⟩ := hg
  obtain ⟨eb, e1, e2, e3, e4⟩ := kingsView_eq _ _
    ((kingsView_undo F mv).trans ((kingsView_undoBoard_regular F mv hcm).trans
      (rfl : _ = kingsView
        { F with
          board := (F.board.set mv.srcRow mv.srcCol
            (if mv.pawnPromotion = true then
              (if F.currentPlayer.not = WHITE_PLAYER then WHITE_PAWN else BLACK_PAWN)
             else mv.srcPiece)).set mv.dstRow mv.dstCol mv.dstPiece,
          whiteKingRow := (if mv.srcPiece = WHITE_KING then mv.srcRow else F.whiteKingRow),
          whiteKingCol := (if mv.srcPiece = WHITE_KING then mv.srcCol else F.whiteKingCol),
          blackKingRow := (if mv.srcPiece = BLACK_KING then mv.srcRow else F.blackKingRow),
          blackKingCol := (if mv.srcPiece = BLACK_KING then mv.srcCol else F.blackKingCol) })))
  unfold kingsOnBoard
  rw [eb, e1, e2, e3, e4]
  simp only
  have hne2 : ¬ (mv.srcRow = mv.dstRow ∧ mv.srcCol = mv.dstCol) :=
    fun h => hne ⟨h.1.symm, h.2.symm⟩
  constructor
  · by_cases h : mv.srcPiece = WHITE_KING
    · simp only [h, ↓reduceIte, Board.set_apply, hne2, hW.1 h, Bool.false_eq_true, and_self]
    · obtain ⟨k1, k2, k3⟩ := hW.2 h
      simp only [h, ↓reduceIte, k1, k2, Board.set_apply, k3]
      split_ifs with h1
      · rw [hdp, ← h1.1, ← h1.2]; exact g1
      · rw [hoff _ _ k3 h1]; exact g1
  · by_cases h : mv.srcPiece = BLACK_KING
    · simp only [h, ↓reduceIte, Board.set_apply, hne2, hB.1 h, Bool.false_eq_true, and_self]
    · obtain ⟨k1, k2, k3⟩ := hB.2 h
      simp only [h, ↓reduceIte, k1, k2, Board.set_apply, k3]
      split_ifs with h1
      · rw [hdp, ← h1.1, ← h1.2]; exact g2
      · rw [hoff _ _ k3 h1]; exact g2

theorem kingsView_updatesAfter (env : Env) (g : SPChessGame) (m : Move) (mm : Bool)
    (hcc : m.pawnPromotion = false → castleConsistent (updatesPrefix g m mm)) :
    kingsView (updatesAfterSettingMove env g m mm).2 = kingsView g := by
  rw [updatesAfterSettingMove_eq]
  cases hp : m.pawnPromotion
  · simp only [Bool.not_false, ↓reduceIte]
    rw [kingsView_changePlayerAndUpdateStatus env _ (hcc hp)]
    exact kingsView_updatesPrefix g m mm
  · simp only [Bool.not_true, Bool.false_eq_true, ↓reduceIte]
    exact kingsView_updatesPrefix g m mm

theorem kingsOnBoard_congr (a b : SPChessGame) (h : kingsView a = kingsView b)
    (hb : kingsOnBoard b) : kingsOnBoard a := by
  obtain ⟨e0, e1, e2, e3, e4⟩ := kingsView_eq _ _ h
  unfold kingsOnBoard
  rw [e0, e1, e2, e3, e4]
  exact hb

theorem kingsView_undo_congr (a b : SPChessGame) (m : Move) (h : kingsView a = kingsView b)
    (hp : m.pawnPromotion = true → m.castleMove = false → a.currentPlayer = b.currentPlayer) :
    kingsView (spChessGameUndoPrevMove a m).2 = kingsView (spChessGameUndoPrevMove b m).2 := by
  obtain ⟨e0, e1, e2, e3, e4⟩ := kingsView_eq _ _ h
  rw [kingsView_undo, kingsView_undo]
  cases hcm : m.castleMove
  · rw [kingsView_undoBoard_regular _ _ hcm, kingsView_undoBoard_regular _ _ hcm,
      e0, e1, e2, e3, e4]
    cases hpp : m.pawnPromotion
    · simp
    · rw [hp hpp hcm]
  · rw [undoBoard_castle _ _ hcm, undoBoard_castle _ _ hcm]
    simp only [kingsView, undoFields_board, (undoFields_white_king _ _).1,
      (undoFields_white_king _ _).2, (undoFields_black_king _ _).1,
      (undoFields_black_king _ _).2, undoCastleMove_board, (undoCastleMove_kingCol _ _).1,
      (undoCastleMove_kingCol _ _).2, undoCastleMove_whiteKingRow, undoCastleMove_blackKingRow,
      e0, e1, e2, e3, e4]

/-- The kings after a regular move has been applied, and after it has been taken back. -/
theorem regular_kings (env : Env) (g : SPChessGame) (mv : Move) (mm : Bool)
    (hk : kingFieldsAgree g) (hcc : castleConsistent g)
    (hcm : mv.castleMove = false) (hsp : mv.srcPiece = g.board mv.srcRow mv.srcCol)
    (hdp : mv.dstPiece = g.board mv.dstRow mv.dstCol)
    (ho : currentPlayerPiece g.currentPlayer mv.srcPiece = true)
    (hf : currentPlayerPiece g.currentPlayer mv.dstPiece = false)
    (hw : g.board mv.dstRow mv.dstCol ≠ WHITE_KING) (hb : g.board mv.dstRow mv.dstCol ≠ BLACK_KING)
    (hpp : mv.pawnPromotion = true → mv.srcPiece ≠ WHITE_KING ∧ mv.srcPiece ≠ BLACK_KING) :
    kingsOnBoard (updatesAfterSettingMove env (setRegularMove g mv) mv mm).2
    ∧ kingsOnBoard (spChessGameUndoPrevMove
        (updatesAfterSettingMove env (setRegularMove g mv) mv mm).2 mv).2 := by
  have hg := kingsOnBoard_of_fields g hk
  have hview := kingsView_updatesAfter env (setRegularMove g mv) mv mm
    (fun _ => castleConsistent_regular g mv mm hcc hsp hw hb)
  obtain ⟨e0, e1, e2, e3, e4⟩ := kingsView_eq _ _ hview
  have hne : ¬ (mv.dstRow = mv.srcRow ∧ mv.dstCol = mv.srcCol) := by
    rintro ⟨h1, h2⟩
    rw [hdp, h1, h2, ← hsp, ho] at hf
    exact absurd hf (by decide)
  constructor
  · refine kingsOnBoard_after_move g _ mv.srcRow mv.srcCol mv.dstRow mv.dstCol mv.srcPiece hg
      (by rw [e0, setRegularMove_board]) hw hb ?_ ?_
    · rw [e1, e2, ← hsp]
      exact ⟨fun h => ⟨h, ((setRegularMove_white_king g mv).1 h).2.2⟩,
        (setRegularMove_white_king g mv).2⟩
    · rw [e3, e4, ← hsp]
      exact ⟨fun h => ⟨h, ((setRegularMove_black_king g mv).1 h).2.2⟩,
        (setRegularMove_black_king g mv).2⟩
  · refine kingsOnBoard_undo_noncastle g _ mv hcm hg ?_ hdp hne ?_ ?_
    · intro r c h1 h2
      rw [e0, setRegularMove_board]
      simp only [Board.set_apply, h1, h2, ↓reduceIte]
    · refine ⟨fun h => ?_, fun h => ?_⟩
      · by_contra hn
        simp only [Bool.not_eq_false] at hn
        exact (hpp hn).1 h
      · rw [e1, e2]
        refine ⟨((setRegularMove_white_king g mv).2 h).1, ((setRegularMove_white_king g mv).2 h).2, ?_⟩
        rintro ⟨h1, h2⟩
        rw [← h1, ← h2] at hsp
        exact h (hsp.trans hg.1)
    · refine ⟨fun h => ?_, fun h => ?_⟩
      · by_contra hn
        simp only [Bool.not_eq_false] at hn
        exact (hpp hn).2 h
      · rw [e3, e4]
        refine ⟨((setRegularMove_black_king g mv).2 h).1, ((setRegularMove_black_king g mv).2 h).2, ?_⟩
        rintro ⟨h1, h2⟩
        rw [← h1, ← h2] at hsp
        exact h (hsp.trans hg.2)

theorem ownPawn_not_king (p : Player) : ownPawn p ≠ WHITE_KING ∧ ownPawn p ≠ BLACK_KING := by
  cases p <;> exact ⟨by decide, by decide⟩

theorem ownPawn_own (p : Player) : currentPlayerPiece p (ownPawn p) = true := by
  cases p <;> rfl

/-- The kings after a promotion of the engine has been applied, and after it has been taken
back. -/
theorem promotion_kings (env : Env) (g : SPChessGame) (mv : Move) (mm : Bool)
    (hk : kingFieldsAgree g) (hcc : castleConsistent g)
    (hcm : mv.castleMove = false) (hpp : mv.pawnPromotion = true)
    (hpawn : g.board mv.srcRow mv.srcCol = ownPawn g.currentPlayer)
    (hdp : mv.dstPiece = g.board mv.dstRow mv.dstCol)
    (hf : currentPlayerPiece g.currentPlayer (g.board mv.dstRow mv.dstCol) = false)
    (hw : g.board mv.dstRow mv.dstCol ≠ WHITE_KING) (hb : g.board mv.dstRow mv.dstCol ≠ BLACK_KING)
    (hnk : mv.srcPiece ≠ WHITE_KING ∧ mv.srcPiece ≠ BLACK_KING) :
    kingsOnBoard (updatesAfterSettingMove env
        (spChessGameSetPawnPromotion env g mv true).2 mv mm).2
    ∧ kingsOnBoard (spChessGameUndoPrevMove (updatesAfterSettingMove env
        (spChessGameSetPawnPromotion env g mv true).2 mv mm).2 mv).2 := by
  have hg := kingsOnBoard_of_fields g hk
  have hne : ¬ (mv.dstRow = mv.srcRow ∧ mv.dstCol = mv.srcCol) := by
    rintro ⟨h1, h2⟩
    rw [h1, h2, hpawn, ownPawn_own] at hf
    exact absurd hf (by decide)
  have hsk := ownPawn_not_king g.currentPlayer
  have hview : kingsView (updatesAfterSettingMove env
      (spChessGameSetPawnPromotion env g mv true).2 mv mm).2
      = kingsView (promotionPrefix g mv true) := by
    rw [kingsView_updatesAfter env _ mv mm (fun h => by rw [hpp] at h; exact absurd h (by decide)),
      spChessGameSetPawnPromotion_eq,
      kingsView_changePlayerAndUpdateStatus env _
        (castleConsistent_promotionPrefix g mv true hcc (fun _ => by rw [hpawn]; exact hsk)
          hw hb hne)]
  obtain ⟨e0, e1, e2, e3, e4⟩ := kingsView_eq _ _ hview
  simp only [promotionPrefix_board, promotionPrefix_whiteKingRow, promotionPrefix_whiteKingCol,
    promotionPrefix_blackKingRow, promotionPrefix_blackKingCol, ↓reduceIte] at e0 e1 e2 e3 e4
  constructor
  · refine kingsOnBoard_after_move g _ mv.srcRow mv.srcCol mv.dstRow mv.dstCol mv.srcPiece hg
      e0 hw hb ?_ ?_
    · rw [hpawn]
      exact ⟨fun h => absurd h hsk.1, fun _ => ⟨e1, e2⟩⟩
    · rw [hpawn]
      exact ⟨fun h => absurd h hsk.2, fun _ => ⟨e3, e4⟩⟩
  · refine kingsOnBoard_undo_noncastle g _ mv hcm hg ?_ hdp hne ?_ ?_
    · intro r c h1 h2
      rw [e0]
      simp only [Board.set_apply, h1, h2, ↓reduceIte]
    · refine ⟨fun h => absurd h hnk.1, fun _ => ⟨e1, e2, ?_⟩⟩
      rintro ⟨h1, h2⟩
      rw [← h1, ← h2, hg.1] at hpawn
      exact hsk.1 hpawn.symm
    · refine ⟨fun h => absurd h hnk.2, fun _ => ⟨e3, e4, ?_⟩⟩
      rintro ⟨h1, h2⟩
      rw [← h1, ← h2, hg.2] at hpawn
      exact hsk.2 hpawn.symm

theorem Board.castle_after (b : Board) (row rc dk dr : Int) (K R : Piece)
    (n4 : KING_COL ≠ dk) (n1 : dk ≠ rc) (n2 : dr ≠ dk)
    (e1 : b row dk = EMPTY_POSITION) (e2 : b row rc = R) (e3 : b row dr = EMPTY_POSITION)
    (e4 : b row KING_COL = K) :
    ((((b.set row dk K).set row rc EMPTY_POSITION).set row dr R).set row KING_COL
        EMPTY_POSITION) row dk = K
    ∧ ∀ (r c : Int) (X : Piece), b r c = X → X ≠ EMPTY_POSITION → X ≠ R → X ≠ K →
      ((((b.set row dk K).set row rc EMPTY_POSITION).set row dr R).set row KING_COL
        EMPTY_POSITION) r c = X := by
  constructor
  · simp only [Board.set_apply, true_and]
    rw [if_neg (fun h => n4 h.symm), if_neg (fun h => n2 h.symm), if_neg n1]
    simp
  · intro r c X hX h1 h2 h3
    simp only [Board.set_apply]
    split_ifs with a b' c' d
    · exfalso; rw [a.1, a.2, e4] at hX; exact h3 hX.symm
    · exfalso; rw [b'.1, b'.2, e3] at hX; exact h1 hX.symm
    · exfalso; rw [c'.1, c'.2, e2] at hX; exact h2 hX.symm
    · exfalso; rw [d.1, d.2, e1] at hX; exact h1 hX.symm
    · exact hX

/-- The kings after a castle that `legalCastle` accepts has been applied. -/
theorem castle_kings_after (g : SPChessGame) (em : Move)
    (hk : kingFieldsAgree g) (hc : castleHome g)
    (hrook : em.srcPiece = ownRook g.currentPlayer)
    (hl : (legalCastle g em).1 = true) :
    kingsOnBoard (setCastleMove g em).1 := by
  obtain ⟨g1, g2⟩ := kingsOnBoard_of_fields g hk
  obtain ⟨hr, hkc, hkb, hrb, hside⟩ := legalCastle_facts g em hk hc hrook hl
  unfold kingsOnBoard
  simp only [setCastleMove_board, (setCastleMove_kingCol _ _).1, (setCastleMove_kingCol _ _).2,
    setCastleMove_whiteKingRow, setCastleMove_blackKingRow, hrook, hr]
  cases hp : g.currentPlayer
  · simp only [hp, ownRook, ownFirstRow, ownKing, ownKingCol, reduceCtorEq, ↓reduceIte]
      at hr hkc hkb hrb hside ⊢
    have hrow := (kingFieldsAgree_black g hk _ _ (by decide) hkb).1
    rcases hside with ⟨hcl, -, h1, h2, h3⟩ | ⟨hcl, -, h5, h6⟩
    · rw [hcl] at hrb
      obtain ⟨k1, k2⟩ := Board.castle_after g.board BLACK_FIRST_ROW LEFT_ROOK_COL 2 3 BLACK_KING
        BLACK_ROOK (by decide) (by decide) (by decide) h2 hrb h3 hkb
      simp only [hcl, ↓reduceIte, ← hrow]
      exact ⟨k2 _ _ _ g1 (by decide) (by decide) (by decide), by simpa [KING_COL] using k1⟩
    · rw [hcl] at hrb
      obtain ⟨k1, k2⟩ := Board.castle_after g.board BLACK_FIRST_ROW RIGHT_ROOK_COL 6 5 BLACK_KING
        BLACK_ROOK (by decide) (by decide) (by decide) h6 hrb h5 hkb
      simp only [hcl, ↓reduceIte, ← hrow, RIGHT_ROOK_COL, LEFT_ROOK_COL]
      exact ⟨by simpa [KING_COL, RIGHT_ROOK_COL] using k2 _ _ _ g1 (by decide) (by decide) (by decide),
        by simpa [KING_COL, RIGHT_ROOK_COL] using k1⟩
  · simp only [hp, ownRook, ownFirstRow, ownKing, ownKingCol, reduceCtorEq, ↓reduceIte]
      at hr hkc hkb hrb hside ⊢
    have hrow := (kingFieldsAgree_white g hk _ _ (by decide) hkb).1
    rcases hside with ⟨hcl, -, h1, h2, h3⟩ | ⟨hcl, -, h5, h6⟩
    · rw [hcl] at hrb
      obtain ⟨k1, k2⟩ := Board.castle_after g.board WHITE_FIRST_ROW LEFT_ROOK_COL 2 3 WHITE_KING
        WHITE_ROOK (by decide) (by decide) (by decide) h2 hrb h3 hkb
      simp only [hcl, ↓reduceIte, ← hrow]
      exact ⟨by simpa [KING_COL] using k1, k2 _ _ _ g2 (by decide) (by decide) (by decide)⟩
    · rw [hcl] at hrb
      obtain ⟨k1, k2⟩ := Board.castle_after g.board WHITE_FIRST_ROW RIGHT_ROOK_COL 6 5 WHITE_KING
        WHITE_ROOK (by decide) (by decide) (by decide) h6 hrb h5 hkb
      simp only [hcl, ↓reduceIte, ← hrow, RIGHT_ROOK_COL, LEFT_ROOK_COL]
      exact ⟨by simpa [KING_COL, RIGHT_ROOK_COL] using k1,
        by simpa [KING_COL, RIGHT_ROOK_COL] using k2 _ _ _ g2 (by decide) (by decide) (by decide)⟩

/-- The board and the king fields after a castle that `legalCastle` accepts has been applied
and taken back are those before the castle. -/
theorem castle_undo_view (g : SPChessGame) (em : Move)
    (hk : kingFieldsAgree g) (hc : castleHome g)
    (hcm : em.castleMove = true) (hrook : em.srcPiece = ownRook g.currentPlayer)
    (hl : (legalCastle g em).1 = true) :
    kingsView (spChessGameUndoPrevMove (setCastleMove g em).1 (setCastleMove g em).2).2
      = kingsView g := by
  obtain ⟨hr, hkc, hkb, hrb, hside⟩ := legalCastle_facts g em hk hc hrook hl
  have hsp2 : (setCastleMove g em).2.srcPiece = ownRook g.currentPlayer := by
    rw [setCastleMove_move]; exact hrook
  have hcm2 : (setCastleMove g em).2.castleMove = true := by
    rw [setCastleMove_move]; exact hcm
  have hnk : (setCastleMove g em).2.srcPiece ≠ WHITE_KING
      ∧ (setCastleMove g em).2.srcPiece ≠ BLACK_KING := by
    rw [hsp2]; unfold ownRook; split_ifs <;> exact ⟨by decide, by decide⟩
  have hrow : (if ownRook g.currentPlayer = WHITE_ROOK then WHITE_FIRST_ROW else BLACK_FIRST_ROW)
      = ownFirstRow g.currentPlayer := by
    unfold ownRook ownFirstRow; cases g.currentPlayer <;> simp
  have hK : (if ownRook g.currentPlayer = WHITE_ROOK then WHITE_KING else BLACK_KING)
      = ownKing g.currentPlayer := by
    unfold ownRook ownKing; cases g.currentPlayer <;> simp
  have hR : (if ownRook g.currentPlayer = WHITE_ROOK then WHITE_ROOK else BLACK_ROOK)
      = ownRook g.currentPlayer := by
    unfold ownRook; cases g.currentPlayer <;> simp
  have hcol : ∀ x : Int,
      (if ownRook g.currentPlayer = WHITE_ROOK then
        (if ownRook g.currentPlayer = WHITE_ROOK then x else g.whiteKingCol)
      else (if ownRook g.currentPlayer = WHITE_ROOK then g.blackKingCol else x)) = x := by
    intro x; split_ifs <;> rfl
  rw [kingsView_undo, undoBoard_castle _ _ hcm2]
  have hB : (undoFields (undoCastleMove (setCastleMove g em).1 (setCastleMove g em).2)
      (setCastleMove g em).2).board = g.board := by
    simp only [undoFields_board, undoCastleMove_board, setCastleMove_board,
      (setCastleMove_kingCol _ _).1, (setCastleMove_kingCol _ _).2, hsp2]
    simp only [setCastleMove_move, hrook, hr]
    rw [hrow, hK, hR, hcol]
    rcases hside with ⟨hcl, -, h1, h2, h3⟩ | ⟨hcl, -, h5, h6⟩
    · rw [hcl] at hrb ⊢
      have := Board.castle_roundtrip g.board (ownFirstRow g.currentPlayer) LEFT_ROOK_COL 2 3
        (ownKing g.currentPlayer) (ownRook g.currentPlayer) (by decide) (by decide) (by decide)
        (by decide) (by decide) (by decide) h2 hrb h3 hkb
      simpa [LEFT_ROOK_COL, KING_COL] using this
    · rw [hcl] at hrb ⊢
      have := Board.castle_roundtrip g.board (ownFirstRow g.currentPlayer) RIGHT_ROOK_COL 6 5
        (ownKing g.currentPlayer) (ownRook g.currentPlayer) (by decide) (by decide) (by decide)
        (by decide) (by decide) (by decide) h6 hrb h5 hkb
      simpa [LEFT_ROOK_COL, RIGHT_ROOK_COL, KING_COL] using this
  have hWK : (undoFields (undoCastleMove (setCastleMove g em).1 (setCastleMove g em).2)
      (setCastleMove g em).2).whiteKingCol = g.whiteKingCol
    ∧ (undoFields (undoCastleMove (setCastleMove g em).1 (setCastleMove g em).2)
      (setCastleMove g em).2).blackKingCol = g.blackKingCol := by
    simp only [(undoFields_white_king _ _).2, (undoFields_black_king _ _).2, hnk.1, hnk.2,
      ↓reduceIte, (undoCastleMove_kingCol _ _).1, (undoCastleMove_kingCol _ _).2, hsp2,
      (setCastleMove_kingCol _ _).1, (setCastleMove_kingCol _ _).2, hrook]
    unfold ownKingCol at hkc
    unfold ownRook
    cases hp : g.currentPlayer <;> simp only [hp, reduceCtorEq, ↓reduceIte] at hkc ⊢
    · exact ⟨trivial, hkc.symm⟩
    · exact ⟨hkc.symm, trivial⟩
  have hKR : (undoFields (undoCastleMove (setCastleMove g em).1 (setCastleMove g em).2)
      (setCastleMove g em).2).whiteKingRow = g.whiteKingRow
    ∧ (undoFields (undoCastleMove (setCastleMove g em).1 (setCastleMove g em).2)
      (setCastleMove g em).2).blackKingRow = g.blackKingRow := by
    simp [(undoFields_white_king _ _).1, (undoFields_black_king _ _).1, hnk.1, hnk.2]
  simp only [kingsView, hB, hWK.1, hWK.2, hKR.1, hKR.2]

/-- The kings after a castle that `legalCastle` accepts has been applied, and after it has
been taken back. -/
theorem castle_kings (env : Env) (g : SPChessGame) (em : Move) (mm : Bool)
    (hk : kingFieldsAgree g) (hc : castleHome g)
    (hcm : em.castleMove = true) (hrook : em.srcPiece = ownRook g.currentPlayer)
    (hl : (legalCastle g em).1 = true) :
    kingsOnBoard (updatesAfterSettingMove env (setCastleMove g em).1
        (setCastleMove g em).2 mm).2
    ∧ kingsOnBoard (spChessGameUndoPrevMove (updatesAfterSettingMove env (setCastleMove g em).1
        (setCastleMove g em).2 mm).2 (setCastleMove g em).2).2 := by
  have hcc := castleConsistent_of g hk hc
  obtain ⟨hr, -⟩ := legalCastle_facts g em hk hc hrook hl
  have hview := kingsView_updatesAfter env (setCastleMove g em).1 (setCastleMove g em).2 mm
    (fun _ => castleConsistent_updatesPrefix _ _ _
      (castleConsistent_setCastleMove g em hcc hcm hrook hr))
  have hcm2 : (setCastleMove g em).2.castleMove = true := by
    rw [setCastleMove_move]; exact hcm
  constructor
  · exact kingsOnBoard_congr _ _ hview (castle_kings_after g em hk hc hrook hl)
  · apply kingsOnBoard_congr _ g _ (kingsOnBoard_of_fields g hk)
    rw [kingsView_undo_congr _ _ _ hview
      (fun _ h => by rw [hcm2] at h; exact absurd h (by decide))]
    exact castle_undo_view g em hk hc hcm hrook hl

/-- C12: for every state whose king fields agree with the board and whose true castling
flags have king and rook at home, after every successful `spChessGameSetMove` that does not
capture a king (with a move as its callers build it; a castle of the engine is one that
`legalCastle` accepts, a promotion of the engine is not to a king) the recorded king squares
hold the kings, and they still do after `spChessGameUndoPrevMove` of that move. -/
theorem C12_kings_in_sync (env : Env) (g : SPChessGame) (m : Move) (mm cm : Bool)
    (hk : kingFieldsAgree g) (hc : castleHome g)
    (hin : builtByCaller g m cm)
    (hleg : cm = true → m.castleMove = true → (legalCastle g (enteredMove g m)).1 = true)
    (hpk : m.pawnPromotion = true → m.srcPiece ≠ WHITE_KING ∧ m.srcPiece ≠ BLACK_KING)
    (hnk : m.castleMove = false →
      g.board m.dstRow m.dstCol ≠ WHITE_KING ∧ g.board m.dstRow m.dstCol ≠ BLACK_KING)
    (hs : (spChessGameSetMove env g m mm cm).1 = SP_CHESS_GAME_SUCCESS) :
    kingsOnBoard (spChessGameSetMove env g m mm cm).2.1
    ∧ kingsOnBoard (spChessGameUndoPrevMove (spChessGameSetMove env g m mm cm).2.1
        (spChessGameSetMove env g m mm cm).2.2).2 := by
  have hcc := castleConsistent_of g hk hc
  obtain ⟨hsrc, ho, hcase⟩ := setMove_success_cases env g m mm cm hs
  obtain ⟨hsq1, hsq2, hsq3, hsq4⟩ := enteredMove_squares g m
  rcases hcase with ⟨hcm, hr, hl, e1, e2⟩ | ⟨hcm, hpp, hdst, e1, e2⟩
      | ⟨hcm, hpp, hdst, hl, e1, e2⟩
  · -- a castle
    obtain ⟨hown, -⟩ := ownRook_of _ _ ho hr
    have hlegal : (legalCastle g (enteredMove g m)).1 = true := by
      cases hc2 : cm
      · exact hl hc2
      · exact hleg hc2 hcm
    have hG : (checkedCastle g m cm).2 = g := by
      unfold checkedCastle
      split_ifs
      · exact legalCastle_game g _ hcc
      · rfl
    rw [e1, e2, hG]
    exact castle_kings env g (enteredMove g m) mm hk hc (by simpa using hcm) hown hlegal
  · -- a promotion of the engine
    obtain ⟨hdp, -, hf, hpawn⟩ := hin.2 hcm (Or.inr hpp)
    rw [e1, e2]
    have hsp : (enteredMove g m).srcPiece = m.srcPiece := by
      rw [enteredMove_srcPiece]; simp [hpp]
    exact promotion_kings env g (enteredMove g m) mm hk hcc (by simpa using hcm)
      (by simpa using hpp) (by rw [hsq1, hsq2]; exact hpawn hpp)
      (by rw [enteredMove_dstPiece, hsq3, hsq4]; exact hdp)
      (by rw [hsq3, hsq4]; exact hf) (by rw [hsq3, hsq4]; exact (hnk hcm).1)
      (by rw [hsq3, hsq4]; exact (hnk hcm).2) (by rw [hsp]; exact hpk hpp)
  · -- a regular move
    have hsp : (enteredMove g m).srcPiece = g.board m.srcRow m.srcCol := by
      rw [enteredMove_srcPiece]; simp [hpp]
    rw [e1, e2]
    cases hc2 : cm
    · -- of a user
      have hlegal := hl hc2
      have hG : (checkedRegular g m false).2.1 = g := by
        simp only [checkedRegular, Bool.not_false, ↓reduceIte]
        exact legalRegularMove_game g _ (by rw [hsp, hsq1, hsq2])
      have hM : (checkedRegular g m false).2.2 = filledMove g (enteredMove g m) := by
        simp only [checkedRegular, Bool.not_false, ↓reduceIte]
        exact legalRegularMove_move g _ hlegal
      have hforeign := legalRegularMove_dst_foreign g _ hlegal
      rw [hG, hM]
      refine regular_kings env g (filledMove g (enteredMove g m)) mm hk hcc
        (show (enteredMove g m).castleMove = false by simpa using hcm)
        (show (enteredMove g m).srcPiece
            = g.board (enteredMove g m).srcRow (enteredMove g m).srcCol by rw [hsp, hsq1, hsq2])
        rfl ho hforeign
        (show g.board (enteredMove g m).dstRow (enteredMove g m).dstCol ≠ WHITE_KING by
          rw [hsq3, hsq4]; exact (hnk hcm).1)
        (show g.board (enteredMove g m).dstRow (enteredMove g m).dstCol ≠ BLACK_KING by
          rw [hsq3, hsq4]; exact (hnk hcm).2)
        ?_
      intro hflag
      have hflag2 : ((enteredMove g m).pawnPromotion
          || decide (reachesLastRow g (enteredMove g m))) = true := hflag
      rw [enteredMove_pawnPromotion, hpp, Bool.false_or, decide_eq_true_eq] at hflag2
      show (enteredMove g m).srcPiece ≠ WHITE_KING ∧ (enteredMove g m).srcPiece ≠ BLACK_KING
      rcases hflag2 with ⟨-, h, -⟩ | ⟨-, h, -⟩ <;> rw [h] <;> exact ⟨by decide, by decide⟩
    · -- of the engine
      obtain ⟨hdp, -, hf, -⟩ := hin.2 hcm (Or.inl hc2)
      have hG : (checkedRegular g m true).2.1 = g := rfl
      have hM : (checkedRegular g m true).2.2 = enteredMove g m := rfl
      rw [hG, hM]
      exact regular_kings env g (enteredMove g m) mm hk hcc (by simpa using hcm)
        (by rw [hsp, hsq1, hsq2]) (by rw [enteredMove_dstPiece, hdp, hsq3, hsq4]) ho
        (by rw [enteredMove_dstPiece, hdp]; exact hf)
        (by rw [hsq3, hsq4]; exact (hnk hcm).1) (by rw [hsq3, hsq4]; exact (hnk hcm).2)
        (fun h => by rw [enteredMove_pawnPromotion, hpp] at h; exact absurd h (by decide))

/-- C12 for the castle with the a1 rook in `castleGame`. -/
theorem C12_kings_in_sync_witness :
    kingFieldsAgree castleGame ∧ castleHome castleGame
    ∧ kingsOnBoard (spChessGameSetMove sampleEnv castleGame castleLeftCommand false false).2.1
    ∧ kingsOnBoard (spChessGameUndoPrevMove
        (spChessGameSetMove sampleEnv castleGame castleLeftCommand false false).2.1
        (spChessGameSetMove sampleEnv castleGame castleLeftCommand false false).2.2).2 :=
  ⟨by decide!, by decide!,
    C12_kings_in_sync sampleEnv castleGame castleLeftCommand false false (by decide!)
      (by decide!) (by decide!) (fun h => absurd h (by decide)) (fun h => absurd h (by decide))
      (fun h => absurd h (by decide)) (by decide!)⟩

/-! ## The candidates of a piece and the list the generator leaves -/

theorem maybeSort_false (l : SPArrayList) : maybeSort false l = l := rfl

theorem maybeSort_empty (sort : Bool) (l : SPArrayList) (h : l.elements = []) :
    maybeSort sort l = l := by
  unfold maybeSort spArrayListSize MIN_MOVES_AMOUNT_TO_SORT
  rw [h]
  cases sort <;> simp

/-- Without sorting, the generator hands the candidates of the piece to the list in order. -/
theorem generatedList_unsorted (env : Env) (g : SPChessGame) (l : SPArrayList) (sr sc : Int)
    (mm : Bool) :
    generatedList env g l sr sc false mm = pushAll l (pieceCandidates env g sr sc mm) := by
  unfold generatedList pieceCandidates bishopPart rookPart
  cases g.board sr sc <;> simp only [maybeSort_false, pushAll_append, pushAll_nil]

/-- A piece without candidates leaves an empty list empty, sorted or not. -/
theorem generatedList_empty (env : Env) (g : SPChessGame) (l : SPArrayList) (sr sc : Int)
    (sort mm : Bool) (hl : l.elements = []) (h : pieceCandidates env g sr sc mm = []) :
    generatedList env g l sr sc sort mm = l := by
  unfold generatedList bishopPart rookPart
  unfold pieceCandidates at h
  cases hp : g.board sr sc <;> simp only [hp, List.append_eq_nil] at h ⊢ <;>
    first
    | rfl
    | (rw [h]; rfl)
    | (rw [h.1, h.2]; rfl)
    | (rw [h.1, h.2]; simp only [pushAll_nil, maybeSort_empty _ _ hl])
    | (rw [h.1, h.2.1, h.2.2]; simp only [pushAll_nil, maybeSort_empty _ _ hl])
    | (rw [h]; simp only [pushAll_nil, maybeSort_empty _ _ hl])

theorem spArrayListAddLast_mem (l : SPArrayList) (x y : Move) (h : y ∈ l.elements) :
    y ∈ (spArrayListAddLast l x).1.elements := by
  unfold spArrayListAddLast spArrayListAddAt
  split_ifs
  · exact h
  · exact h
  · simp only [List.mem_append, List.mem_cons]
    have := List.take_append_drop (spArrayListSize l).toNat l.elements
    rw [← this] at h
    rcases List.mem_append.1 h with h | h
    · exact Or.inl h
    · exact Or.inr (Or.inr h)

theorem pushAll_mem (l : SPArrayList) (xs : List Move) (y : Move) (h : y ∈ l.elements) :
    y ∈ (pushAll l xs).elements := by
  induction xs generalizing l with
  | nil => exact h
  | cons x xs ih =>
    rw [pushAll_cons]
    exact ih _ (spArrayListAddLast_mem l x y h)

/-- A piece with a candidate leaves a list with room non-empty. -/
theorem pushAll_nonempty (l : SPArrayList) (xs : List Move) (hl : l.elements = [])
    (hcap : 0 < l.maxSize) (hx : xs ≠ []) : (pushAll l xs).elements ≠ [] := by
  cases xs with
  | nil => exact absurd rfl hx
  | cons x xs =>
    rw [pushAll_cons, spArrayListAddLast_room l x (by rw [hl]; simpa using hcap)]
    intro h
    have := pushAll_mem { l with elements := l.elements ++ [x] } xs x (by simp)
    rw [h] at this
    exact absurd this (List.not_mem_nil _)

/-- The size of the list when the candidates fit. -/
theorem pushAll_size (env : Env) (xs : List Move)
    (h : (xs.length : Int) ≤ env.MAX_MOVES_FOR_PIECE) :
    spArrayListSize (pushAll (emptyMoveList env) xs) = xs.length := by
  rw [pushAll_room _ _ (by simpa [emptyMoveList] using h)]
  simp [spArrayListSize, emptyMoveList]

/-! ## What the legality checks read of the game and of the move -/

theorem dropHistory_fields (g g0 : SPChessGame) (h : dropHistory g = dropHistory g0) :
    SameFields g g0 := by
  unfold dropHistory at h
  simp only [SPChessGame.mk.injEq] at h
  obtain ⟨a, b, c, d, e, f, i, j, k, l, m, n, -, o⟩ := h
  exact ⟨a, b, c, d, e, f, i, j, k, l, m, n, o⟩

theorem legalMovementByPieceType_congr (g g0 : SPChessGame) (m m0 : Move)
    (hb : g.board = g0.board) (hp : g.currentPlayer = g0.currentPlayer)
    (h1 : m.srcRow = m0.srcRow) (h2 : m.srcCol = m0.srcCol) (h3 : m.dstRow = m0.dstRow)
    (h4 : m.dstCol = m0.dstCol) (h5 : m.srcPiece = m0.srcPiece) (h6 : m.dstPiece = m0.dstPiece) :
    legalMovementByPieceType g m = legalMovementByPieceType g0 m0 := by
  unfold legalMovementByPieceType legalMovementByPawn legalMovementByKnight
    legalMovementByBishopRookQueen legalMovementByKing vacantRouteToDst
  rw [hb, hp, h1, h2, h3, h4, h5, h6]

theorem SameFields.position {g g0 : SPChessGame} (h : SameFields g g0) : SamePosition g g0 :=
  ⟨h.board, h.currentPlayer, h.whiteKingRow, h.whiteKingCol, h.blackKingRow, h.blackKingCol⟩

/-- The verdict of `legalRegularMove` depends on the board, the side to move and the king
fields of the game, and on the squares and the moved piece of the move. -/
theorem legalRegularMove_congr (g g0 : SPChessGame) (m m0 : Move)
    (hg : SamePosition g g0)
    (h1 : m.srcRow = m0.srcRow) (h2 : m.srcCol = m0.srcCol) (h3 : m.dstRow = m0.dstRow)
    (h4 : m.dstCol = m0.dstCol) (h5 : m.srcPiece = m0.srcPiece) :
    (legalRegularMove g m).1 = (legalRegularMove g0 m0).1 := by
  have hb : g.board = g0.board := hg.board
  have hp : g.currentPlayer = g0.currentPlayer := hg.currentPlayer
  have k1 : g.whiteKingRow = g0.whiteKingRow := hg.whiteKingRow
  have k2 : g.whiteKingCol = g0.whiteKingCol := hg.whiteKingCol
  have k3 : g.blackKingRow = g0.blackKingRow := hg.blackKingRow
  have k4 : g.blackKingCol = g0.blackKingCol := hg.blackKingCol
  rw [legalRegularMove_verdict, legalRegularMove_verdict]
  have e1 : legalMovementByPieceType g { m with dstPiece := g.board m.dstRow m.dstCol }
      = legalMovementByPieceType g0 { m0 with dstPiece := g0.board m0.dstRow m0.dstCol } :=
    legalMovementByPieceType_congr g g0 _ _ hb hp h1 h2 h3 h4 h5
      (by show g.board m.dstRow m.dstCol = g0.board m0.dstRow m0.dstCol
          rw [hb, h3, h4])
  have e2 : ownKingRowAfter g m = ownKingRowAfter g0 m0 := by
    unfold ownKingRowAfter; rw [hp, k1, k3, h3, h5]
  have e3 : ownKingColAfter g m = ownKingColAfter g0 m0 := by
    unfold ownKingColAfter; rw [hp, k2, k4, h4, h5]
  have e4 : rivalPlayerThreateningPosition (boardAfterMove g m) (ownKingRowAfter g m)
      (ownKingColAfter g m)
      = rivalPlayerThreateningPosition (boardAfterMove g0 m0) (ownKingRowAfter g0 m0)
          (ownKingColAfter g0 m0) := by
    rw [e2, e3]
    apply rivalPlayerThreateningPosition_congr
    · show ((g.board.set m.srcRow m.srcCol EMPTY_POSITION).set m.dstRow m.dstCol m.srcPiece)
        = ((g0.board.set m0.srcRow m0.srcCol EMPTY_POSITION).set m0.dstRow m0.dstCol m0.srcPiece)
      rw [hb, h1, h2, h3, h4, h5]
    · exact hp
  rw [e1, e4, hb, hp, h3, h4]

theorem legalCastleRouteLoop_congr (row kingCol : Int) (kingType : Piece) (n : Nat) :
    ∀ (col : Int) (g g0 : SPChessGame) (b : Bool), g.board = g0.board →
      g.currentPlayer = g0.currentPlayer →
      (legalCastleRouteLoop row kingCol kingType n col g b).1
        = (legalCastleRouteLoop row kingCol kingType n col g0 b).1 := by
  induction n with
  | zero => intro col g g0 b _ _; rfl
  | succ n ih =>
    intro col g g0 b hb hp
    unfold legalCastleRouteLoop
    have e : rivalPlayerThreateningPosition
        ((g.setBoard row kingCol EMPTY_POSITION).setBoard row col kingType) row col
        = rivalPlayerThreateningPosition
        ((g0.setBoard row kingCol EMPTY_POSITION).setBoard row col kingType) row col := by
      apply rivalPlayerThreateningPosition_congr
      · show (g.board.set row kingCol EMPTY_POSITION).set row col kingType
          = (g0.board.set row kingCol EMPTY_POSITION).set row col kingType
        rw [hb]
      · exact hp
    simp only [hb, e]
    split_ifs
    · rfl
    · rfl
    · apply ih
      · show ((((g.board.set row kingCol EMPTY_POSITION).set row col kingType).set row kingCol
          kingType).set row col EMPTY_POSITION)
          = ((((g0.board.set row kingCol EMPTY_POSITION).set row col kingType).set row kingCol
          kingType).set row col EMPTY_POSITION)
        rw [hb]
      · exact hp

/-- The verdict of `legalCastle` depends on the game without its history, and on the source
square and the rook of the move. -/
theorem legalCastle_congr (g g0 : SPChessGame) (m m0 : Move)
    (hg : dropHistory g = dropHistory g0)
    (h1 : m.srcRow = m0.srcRow) (h2 : m.srcCol = m0.srcCol) (h5 : m.srcPiece = m0.srcPiece) :
    (legalCastle g m).1 = (legalCastle g0 m0).1 := by
  have hb : g.board = g0.board := (dropHistory_fields g g0 hg).board
  have hp : g.currentPlayer = g0.currentPlayer := (dropHistory_fields g g0 hg).currentPlayer
  have k2 : g.whiteKingCol = g0.whiteKingCol := (dropHistory_fields g g0 hg).whiteKingCol
  have k4 : g.blackKingCol = g0.blackKingCol := (dropHistory_fields g g0 hg).blackKingCol
  have f1 : g.whiteLeftCastle = g0.whiteLeftCastle := (dropHistory_fields g g0 hg).whiteLeftCastle
  have f2 : g.whiteRightCastle = g0.whiteRightCastle := (dropHistory_fields g g0 hg).whiteRightCastle
  have f3 : g.blackLeftCastle = g0.blackLeftCastle := (dropHistory_fields g g0 hg).blackLeftCastle
  have f4 : g.blackRightCastle = g0.blackRightCastle := (dropHistory_fields g g0 hg).blackRightCastle
  have hst : g.status = g0.status := (dropHistory_fields g g0 hg).status
  unfold legalCastle legalCastleRoute
  simp only [h1, h2, h5, k2, k4, f1, f2, f3, f4, hst]
  split_ifs <;> first | rfl | exact legalCastleRouteLoop_congr _ _ _ _ _ g g0 _ hb hp

theorem filledMove_promotion_congr (env env0 : Env) (g g0 : SPChessGame) (sr sc dr dc : Int)
    (hg : SamePosition g g0) :
    (filledMove g (baseMove env g sr sc dr dc)).pawnPromotion
      = (filledMove g0 (baseMove env0 g0 sr sc dr dc)).pawnPromotion := by
  show (false || decide (reachesLastRow g (baseMove env g sr sc dr dc)))
    = (false || decide (reachesLastRow g0 (baseMove env0 g0 sr sc dr dc)))
  unfold reachesLastRow
  show (false || decide ((g.currentPlayer = WHITE_PLAYER ∧ g.board sr sc = WHITE_PAWN
      ∧ dr = BLACK_FIRST_ROW) ∨ (g.currentPlayer = BLACK_PLAYER ∧ g.board sr sc = BLACK_PAWN
      ∧ dr = WHITE_FIRST_ROW)))
    = (false || decide ((g0.currentPlayer = WHITE_PLAYER ∧ g0.board sr sc = WHITE_PAWN
      ∧ dr = BLACK_FIRST_ROW) ∨ (g0.currentPlayer = BLACK_PLAYER ∧ g0.board sr sc = BLACK_PAWN
      ∧ dr = WHITE_FIRST_ROW)))
  rw [hg.currentPlayer, hg.board]

/-- The number of moves a regular call of `addPieceMove` hands to the list depends on the
board, the side to move and the king fields only. -/
theorem candidateMoves_regular_length (env env0 : Env) (g g0 : SPChessGame)
    (sr sc dr dc : Int) (mm : Bool) (hg : SamePosition g g0) :
    (candidateMoves env g sr sc dr dc false mm).length
      = (candidateMoves env0 g0 sr sc dr dc false mm).length := by
  have hsp : g.board sr sc = g0.board sr sc := by rw [hg.board]
  have e2 : (legalRegularMove g (baseMove env g sr sc dr dc)).1
      = (legalRegularMove g0 (baseMove env0 g0 sr sc dr dc)).1 :=
    legalRegularMove_congr g g0 _ _ hg rfl rfl rfl rfl hsp
  unfold candidateMoves
  rw [e2, filledMove_promotion_congr env env0 g g0 sr sc dr dc hg]
  simp only [Bool.false_eq_true, ↓reduceIte]
  split_ifs <;> rfl

/-- The number of moves one call of `addPieceMove` hands to the list depends on the game
without its history only: not on the history, and not on what a freshly allocated move
holds. -/
theorem candidateMoves_length (env env0 : Env) (g g0 : SPChessGame) (sr sc dr dc : Int)
    (castle mm : Bool) (hg : dropHistory g = dropHistory g0) :
    (candidateMoves env g sr sc dr dc castle mm).length
      = (candidateMoves env0 g0 sr sc dr dc castle mm).length := by
  have hf := dropHistory_fields g g0 hg
  cases castle
  · exact candidateMoves_regular_length env env0 g g0 sr sc dr dc mm hf.position
  · have hsp : g.board sr sc = g0.board sr sc := by rw [hf.board]
    have e1 : (legalCastle g (baseCastle env g sr sc)).1
        = (legalCastle g0 (baseCastle env0 g0 sr sc)).1 :=
      legalCastle_congr g g0 _ _ hg rfl rfl hsp
    unfold candidateMoves
    rw [e1]
    simp only [↓reduceIte]
    split_ifs <;> rfl

theorem rayCandidates_length (env env0 : Env) (g g0 : SPChessGame) (sr sc dr dc : Int)
    (hg : SamePosition g g0) :
    ∀ (fuel : Nat) (r c : Int),
      (rayCandidates env g sr sc dr dc fuel r c).length
        = (rayCandidates env0 g0 sr sc dr dc fuel r c).length := by
  intro fuel
  induction fuel with
  | zero => intro r c; rfl
  | succ n ih =>
    intro r c
    unfold rayCandidates
    rw [hg.board, hg.currentPlayer]
    split_ifs
    · rfl
    · exact candidateMoves_regular_length env env0 g g0 sr sc r c false hg
    · rfl
    · rw [List.length_append, List.length_append, ih,
        candidateMoves_regular_length env env0 g g0 sr sc r c false hg]

/-- The number of candidates of a piece depends on the game without its history only. -/
theorem pieceCandidates_length (env env0 : Env) (g g0 : SPChessGame) (sr sc : Int) (mm : Bool)
    (hg : dropHistory g = dropHistory g0) :
    (pieceCandidates env g sr sc mm).length = (pieceCandidates env0 g0 sr sc mm).length := by
  have hf := dropHistory_fields g g0 hg
  have hc := fun dr dc castle m => candidateMoves_length env env0 g g0 sr sc dr dc castle m hg
  have hc2 := fun r c dr dc castle m => candidateMoves_length env env0 g g0 r c dr dc castle m hg
  have hr := fun dr dc fuel r c =>
    rayCandidates_length env env0 g g0 sr sc dr dc hf.position fuel r c
  unfold pieceCandidates pawnCandidates knightCandidates bishopCandidates rookCandidates
    rookCastleCandidates kingStepCandidates kingCastleCandidates
  rw [hf.board, hf.currentPlayer]
  cases g0.board sr sc <;>
    simp only [List.length_append, hc, hr, hc2, List.length_nil] <;>
    split_ifs <;> simp only [hc, hc2, List.length_nil]

/-! ## The moves in the starting position -/

theorem generatedList_unsortedKind (env : Env) (g : SPChessGame) (l : SPArrayList)
    (sr sc : Int) (sort mm : Bool) (h : sortedKind (g.board sr sc) = false) :
    generatedList env g l sr sc sort mm = pushAll l (pieceCandidates env g sr sc mm) := by
  unfold generatedList pieceCandidates
  cases hp : g.board sr sc <;> simp only [hp, sortedKind] at h ⊢ <;>
    first | rfl | exact absurd h (by decide)

/-- `spChessGetPossibleMoves` on a square that holds a piece of the side to move: the list
it fills, on a state on which the castle simulation restores the board. -/
theorem movesOf_eq (env : Env) (g : SPChessGame) (r c : Int) (hcc : castleConsistent g)
    (hv : validPosition r c = true)
    (ho : currentPlayerPiece g.currentPlayer (g.board r c) = true) :
    (spChessGetPossibleMoves env g (emptyMoveList env) r c).1
        = (getPossiblePieceMoves env g (emptyMoveList env) r c (g.board r c) true false).1
    ∧ movesOf env g r c = generatedList env g (emptyMoveList env) r c true false := by
  unfold movesOf spChessGetPossibleMoves
  simp only [hv, ho, Bool.not_true, Bool.false_eq_true, ↓reduceIte, true_and]
  exact getPossiblePieceMoves_list env g _ r c true false hcc

/-- The size of the list `spChessGetPossibleMoves` fills is the number of candidates of the
piece, when they fit in the list and the piece is not one with moves to sort. -/
theorem movesOf_size (env : Env) (g : SPChessGame) (r c : Int) (hcc : castleConsistent g)
    (hv : validPosition r c = true)
    (ho : currentPlayerPiece g.currentPlayer (g.board r c) = true)
    (hfit : ((pieceCandidates env g r c false).length : Int) ≤ env.MAX_MOVES_FOR_PIECE)
    (hs : sortedKind (g.board r c) = true → (pieceCandidates env g r c false).length = 0) :
    spArrayListSize (movesOf env g r c) = (pieceCandidates env g r c false).length := by
  rw [(movesOf_eq env g r c hcc hv ho).2]
  cases hk : sortedKind (g.board r c)
  · rw [generatedList_unsortedKind _ _ _ _ _ _ _ hk]
    exact pushAll_size env _ hfit
  · have he := List.length_eq_zero.1 (hs hk)
    rw [generatedList_empty _ _ _ _ _ _ _ rfl he, he]
    rfl

theorem initialGame_consistent (h : Int) : castleConsistent (initialGame h) := by
  constructor
  · intro _; exact (by decide : standardBoard WHITE_FIRST_ROW KING_COL = WHITE_KING)
  · intro _; exact (by decide : standardBoard BLACK_FIRST_ROW KING_COL = BLACK_KING)

theorem initial_sizes (env : Env) (h : Int) (hcap : 2 ≤ env.MAX_MOVES_FOR_PIECE) :
    ∀ p ∈ ownSquares (initialGame 6),
      spArrayListSize (movesOf env (initialGame h) p.1 p.2) = initialCount p.1 p.2 := by
  have hclosed : ∀ p ∈ ownSquares (initialGame 6),
      validPosition p.1 p.2 = true
      ∧ currentPlayerPiece (initialGame 6).currentPlayer ((initialGame 6).board p.1 p.2) = true
      ∧ initialCount p.1 p.2 ≤ 2
      ∧ (sortedKind ((initialGame 6).board p.1 p.2) = true → initialCount p.1 p.2 = 0) := by
    decide!
  intro p hp
  obtain ⟨hv, ho, h2, hs⟩ := hclosed p hp
  have hlen : (pieceCandidates env (initialGame h) p.1 p.2 false).length
      = initialCount p.1 p.2 :=
    pieceCandidates_length env sampleEnv (initialGame h) (initialGame 6) p.1 p.2 false rfl
  rw [movesOf_size env (initialGame h) p.1 p.2 (initialGame_consistent h) hv ho
    (by rw [hlen]; omega) (by rw [hlen]; exact hs), hlen]

theorem getPossiblePieceMoves_message (env : Env) (g : SPChessGame) (l : SPArrayList)
    (r c : Int) (p : Piece) (sort mm : Bool) (hp : p ≠ EMPTY_POSITION) :
    (getPossiblePieceMoves env g l r c p sort mm).1 = SP_CHESS_GAME_SUCCESS := by
  unfold getPossiblePieceMoves
  cases p <;> first | rfl | exact absurd rfl hp

theorem own_ne_empty (p : Player) (x : Piece) (h : currentPlayerPiece p x = true) :
    x ≠ EMPTY_POSITION := by
  rintro rfl; cases p <;> exact absurd h (by decide)

/-- C17: in the state `spChessGameCreate` returns, 16 squares hold a white piece;
`spChessGetPossibleMoves`, called with a fresh list that can hold at least two moves,
succeeds on each of them and leaves two moves for each of the 8 pawns and each of the 2
knights and no move for the rooks, bishops, queen and king; the sizes add up to 20. -/
theorem C17_initial_move_count (env : Env) (junk : Board) (historySize : Int)
    (hcap : 2 ≤ env.MAX_MOVES_FOR_PIECE) (hh : 0 < historySize) :
    ∃ g, spChessGameCreate junk historySize = some g
      ∧ (ownSquares g).length = 16
      ∧ (∀ p ∈ ownSquares g,
          (spChessGetPossibleMoves env g (emptyMoveList env) p.1 p.2).1 = SP_CHESS_GAME_SUCCESS)
      ∧ (∀ c ∈ [(0 : Int), 1, 2, 3, 4, 5, 6, 7],
          g.board 1 c = WHITE_PAWN ∧ spArrayListSize (movesOf env g 1 c) = 2)
      ∧ (∀ c ∈ [(1 : Int), 6],
          g.board 0 c = WHITE_KNIGHT ∧ spArrayListSize (movesOf env g 0 c) = 2)
      ∧ (∀ c ∈ [(0 : Int), 2, 3, 4, 5, 7],
          (sortedKind (g.board 0 c) || decide (g.board 0 c = WHITE_KING)) = true
          ∧ spArrayListSize (movesOf env g 0 c) = 0)
      ∧ ((ownSquares g).map fun p => spArrayListSize (movesOf env g p.1 p.2)).sum = 20 := by
  refine ⟨initialGame historySize, spChessGameCreate_eq junk historySize hh, ?_⟩
  have hown : ownSquares (initialGame historySize) = ownSquares (initialGame 6) := rfl
  have hsz := initial_sizes env historySize hcap
  have hboard : (initialGame historySize).board = (initialGame 6).board := rfl
  rw [hown, hboard]
  refine ⟨by decide!, ?_, ?_, ?_, ?_, ?_⟩
  · intro p hp
    have hc : ∀ p ∈ ownSquares (initialGame 6), validPosition p.1 p.2 = true
        ∧ currentPlayerPiece (initialGame 6).currentPlayer ((initialGame 6).board p.1 p.2)
            = true := by
      decide!
    obtain ⟨hv, ho⟩ := hc p hp
    rw [(movesOf_eq env (initialGame historySize) p.1 p.2 (initialGame_consistent _) hv ho).1]
    exact getPossiblePieceMoves_message _ _ _ _ _ _ _ _ (own_ne_empty _ _ ho)
  · have hc : ∀ c ∈ [(0 : Int), 1, 2, 3, 4, 5, 6, 7], (1, c) ∈ ownSquares (initialGame 6)
        ∧ (initialGame 6).board 1 c = WHITE_PAWN ∧ initialCount 1 c = 2 := by
      decide!
    intro c hcm
    obtain ⟨h1, h2, h3⟩ := hc c hcm
    refine ⟨h2, ?_⟩
    rw [hsz (1, c) h1, h3]; rfl
  · have hc : ∀ c ∈ [(1 : Int), 6], (0, c) ∈ ownSquares (initialGame 6)
        ∧ (initialGame 6).board 0 c = WHITE_KNIGHT ∧ initialCount 0 c = 2 := by
      decide!
    intro c hcm
    obtain ⟨h1, h2, h3⟩ := hc c hcm
    refine ⟨h2, ?_⟩
    rw [hsz (0, c) h1, h3]; rfl
  · have hc : ∀ c ∈ [(0 : Int), 2, 3, 4, 5, 7], (0, c) ∈ ownSquares (initialGame 6)
        ∧ (sortedKind ((initialGame 6).board 0 c)
            || decide ((initialGame 6).board 0 c = WHITE_KING)) = true
        ∧ initialCount 0 c = 0 := by
      decide!
    intro c hcm
    obtain ⟨h1, h2, h3⟩ := hc c hcm
    refine ⟨h2, ?_⟩
    rw [hsz (0, c) h1, h3]; rfl
  · have hmap : (ownSquares (initialGame 6)).map
        (fun p => spArrayListSize (movesOf env (initialGame historySize) p.1 p.2))
        = (ownSquares (initialGame 6)).map (fun p => (initialCount p.1 p.2 : Int)) :=
      List.map_congr_left (fun p hp => hsz p hp)
    rw [hmap]
    decide!

/-- C17 for a history of capacity 6 and lists of capacity 28. -/
theorem C17_initial_move_count_witness :
    ∃ g, spChessGameCreate emptyBoard 6 = some g
      ∧ ((ownSquares g).map fun p => spArrayListSize (movesOf sampleEnv g p.1 p.2)).sum = 20 := by
  obtain ⟨g, h1, -, -, -, -, -, h2⟩ :=
    C17_initial_move_count sampleEnv emptyBoard 6 (by decide) (by decide)
  exact ⟨g, h1, h2⟩

/-! ## Playing a sequence of moves: the history does not matter -/

/-- An accepted regular move of a user: `spChessGameSetMove` succeeds on a move between two
squares of the board, of a piece of the side to move, that `legalRegularMove` accepts and
that captures no king. -/
theorem setMove_regular_accept (env : Env) (g : SPChessGame) (m : Move) (mm : Bool)
    (hcap : 0 < env.MAX_MOVES_FOR_PIECE) (hcc : castleConsistent g)
    (hpp : m.pawnPromotion = false) (hcm : m.castleMove = false)
    (hsrc : validPosition m.srcRow m.srcCol = true)
    (hdst : validPosition m.dstRow m.dstCol = true)
    (ho : currentPlayerPiece g.currentPlayer (g.board m.srcRow m.srcCol) = true)
    (hl : (legalRegularMove g (stampMove g m)).1 = true)
    (hw : g.board m.dstRow m.dstCol ≠ WHITE_KING) (hb : g.board m.dstRow m.dstCol ≠ BLACK_KING) :
    (spChessGameSetMove env g m mm false).1 = SP_CHESS_GAME_SUCCESS := by
  have he : enteredMove g m = stampMove g m := enteredMove_eq_stampMove g m hpp
  have hes : (entryMove g m).srcPiece = g.board m.srcRow m.srcCol := by
    unfold entryMove; simp [hpp]
  have hG : (checkedRegular g m false).2.1 = g := by
    simp only [checkedRegular, Bool.not_false, ↓reduceIte, he]
    exact legalRegularMove_game g _ rfl
  have hM : (checkedRegular g m false).2.2 = filledMove g (stampMove g m) := by
    simp only [checkedRegular, Bool.not_false, ↓reduceIte, he]
    exact legalRegularMove_move g _ hl
  have hV : (checkedRegular g m false).1 = true := by
    simp only [checkedRegular, Bool.not_false, ↓reduceIte, he]
    exact hl
  have hc : castleConsistent (regularPrefix g m mm) :=
    castleConsistent_regular g (filledMove g (stampMove g m)) mm hcc rfl hw hb
  rw [spChessGameSetMove_eq]
  simp only [hsrc, hdst, hcm, hes, ho, hV, hG, hM, enteredMove_castleMove,
    enteredMove_pawnPromotion, hpp, Bool.not_true, Bool.not_false, Bool.false_eq_true,
    Bool.or_false, Bool.and_false, Bool.false_and, Bool.and_true, ↓reduceIte]
  rw [updatesAfterSettingMove_eq]
  split_ifs
  · exact congrArg Prod.fst (changePlayerAndUpdateStatus_eq2 env (regularPrefix g m mm) hcap hc)
  · rfl

theorem dropHistory_of_fields (g g0 : SPChessGame) (h : SameFields g g0) :
    dropHistory g = dropHistory g0 := by
  obtain ⟨a, b, c, d, e, f, i, j, k, l, m, n, o⟩ := h
  unfold dropHistory
  simp only [SPChessGame.mk.injEq]
  exact ⟨a, b, c, d, e, f, i, j, k, l, m, n, trivial, o⟩

theorem setRegularMove_dropHistory (g : SPChessGame) (m : Move) :
    dropHistory (setRegularMove g m) = setRegularMove (dropHistory g) m := by
  unfold setRegularMove
  cases m.srcPiece <;> rfl

theorem updatePiecesAmount_dropHistory (g : SPChessGame) (p : Piece) (b : Bool) :
    dropHistory (updatePiecesAmount g p b) = updatePiecesAmount (dropHistory g) p b := by
  unfold updatePiecesAmount
  cases p <;> rfl

theorem updatesPrefix_dropHistory (g : SPChessGame) (m : Move) (mm : Bool) :
    dropHistory (updatesPrefix g m mm) = dropHistory (updatesPrefix (dropHistory g) m true) := by
  unfold updatesPrefix
  simp only [Bool.not_true, Bool.false_eq_true, ↓reduceIte]
  have key : ∀ x : SPChessGame, dropHistory (if (!mm) = true then
      { x with history := (spArrayListAddLast (if spArrayListIsFull x.history = true then
        (spArrayListRemoveFirst x.history).1 else x.history) m).1 } else x) = dropHistory x := by
    intro x; split_ifs <;> rfl
  rw [key]
  split_ifs
  · rw [← updatePiecesAmount_dropHistory]; rfl
  · rw [← updatePiecesAmount_dropHistory]; rfl
  · rw [← updatePiecesAmount_dropHistory]; rfl
  · rfl

theorem filledMove_dropHistory (g : SPChessGame) (m : Move) :
    filledMove (dropHistory g) (stampMove (dropHistory g) m) = filledMove g (stampMove g m) := by
  unfold filledMove
  have h : rivalPlayerThreateningPosition
      (boardAfterMove (dropHistory g) (stampMove (dropHistory g) m))
      (stampMove (dropHistory g) m).dstRow (stampMove (dropHistory g) m).dstCol
      = rivalPlayerThreateningPosition (boardAfterMove g (stampMove g m))
          (stampMove g m).dstRow (stampMove g m).dstCol :=
    rivalPlayerThreateningPosition_congr _ _ _ _ rfl rfl
  rw [h]
  rfl

/-- The game after the board writes and the accounting of a regular move depends, up to its
history, on the game up to its history only. -/
theorem regularPrefix_congr (g g0 : SPChessGame) (m : Move) (mm mm0 : Bool)
    (hg : dropHistory g = dropHistory g0) :
    dropHistory (regularPrefix g m mm) = dropHistory (regularPrefix g0 m mm0) := by
  have key : ∀ (x : SPChessGame) (b : Bool), dropHistory (regularPrefix x m b)
      = dropHistory (updatesPrefix (setRegularMove (dropHistory x)
          (filledMove (dropHistory x) (stampMove (dropHistory x) m)))
          (filledMove (dropHistory x) (stampMove (dropHistory x) m)) true) := by
    intro x b
    unfold regularPrefix
    rw [updatesPrefix_dropHistory, setRegularMove_dropHistory, filledMove_dropHistory]
  rw [key g mm, key g0 mm0, hg]

theorem hasLegalMove_iff_candidates (env : Env) (g : SPChessGame)
    (hcap : 0 < env.MAX_MOVES_FOR_PIECE) (hcc : castleConsistent g) :
    hasLegalMove env g ↔ ∃ p ∈ boardSquares,
      currentPlayerPiece g.currentPlayer (g.board p.1 p.2) = true
      ∧ pieceCandidates env g p.1 p.2 false ≠ [] := by
  have key : ∀ r c : Int, spArrayListIsEmpty (pieceMoveList env g r c) = false
      ↔ pieceCandidates env g r c false ≠ [] := by
    intro r c
    unfold pieceMoveList
    rw [getPossiblePieceMoves_list env g _ r c false false hcc, generatedList_unsorted]
    by_cases h : pieceCandidates env g r c false = []
    · rw [h]
      simp [pushAll_nil, spArrayListIsEmpty, spArrayListSize, emptyMoveList]
    · have := pushAll_nonempty (emptyMoveList env) _ rfl hcap h
      simp only [h, ne_eq, not_false_eq_true, iff_true]
      unfold spArrayListIsEmpty spArrayListSize
      simpa using this
  unfold hasLegalMove
  constructor
  · rintro ⟨p, hp, h1, h2⟩; exact ⟨p, hp, h1, (key _ _).1 h2⟩
  · rintro ⟨p, hp, h1, h2⟩; exact ⟨p, hp, h1, (key _ _).2 h2⟩

theorem castleConsistent_dropHistory (g g0 : SPChessGame) (hg : dropHistory g = dropHistory g0)
    (h : castleConsistent g0) : castleConsistent g := by
  have h1 : castleConsistent (dropHistory g0) := h
  rw [← hg] at h1
  exact h1

/-- The status `getGameStatus` computes depends on the game up to its history only, and not
on the capacity of the move lists as long as it is positive. -/
theorem statusOf_congr (env env0 : Env) (g g0 : SPChessGame)
    (hcap : 0 < env.MAX_MOVES_FOR_PIECE) (hcap0 : 0 < env0.MAX_MOVES_FOR_PIECE)
    (hcc : castleConsistent g0) (hg : dropHistory g = dropHistory g0) :
    statusOf env g = statusOf env0 g0 := by
  have hcc1 := castleConsistent_dropHistory g g0 hg hcc
  have hf := dropHistory_fields g g0 hg
  have hmove : hasLegalMove env g ↔ hasLegalMove env0 g0 := by
    rw [hasLegalMove_iff_candidates env g hcap hcc1, hasLegalMove_iff_candidates env0 g0 hcap0 hcc]
    have hl : ∀ r c : Int, pieceCandidates env g r c false ≠ []
        ↔ pieceCandidates env0 g0 r c false ≠ [] := by
      intro r c
      rw [← List.length_pos, ← List.length_pos, pieceCandidates_length env env0 g g0 r c false hg]
    simp only [hl, hf.board, hf.currentPlayer]
  have hthreat : ∀ r c : Int, rivalPlayerThreateningPosition g r c
      = rivalPlayerThreateningPosition g0 r c :=
    fun r c => rivalPlayerThreateningPosition_congr g g0 r c hf.board hf.currentPlayer
  unfold statusOf
  rw [getGameStatus_classify env g _ _ hcap hcc1, getGameStatus_classify env g _ _ hcap hcc1,
    getGameStatus_classify env0 g0 _ _ hcap0 hcc, getGameStatus_classify env0 g0 _ _ hcap0 hcc,
    hthreat, hthreat, hf.currentPlayer, hf.whiteKingRow, hf.whiteKingCol, hf.blackKingRow,
    hf.blackKingCol, decide_eq_decide.2 hmove]

theorem flipAndStatus_congr (env env0 : Env) (g g0 : SPChessGame)
    (hcap : 0 < env.MAX_MOVES_FOR_PIECE) (hcap0 : 0 < env0.MAX_MOVES_FOR_PIECE)
    (hcc : castleConsistent g0) (hg : dropHistory g = dropHistory g0) :
    dropHistory (flipAndStatus env g) = dropHistory (flipAndStatus env0 g0) := by
  have hs : statusOf env (flipPlayer g) = statusOf env0 (flipPlayer g0) :=
    statusOf_congr env env0 _ _ hcap hcap0 hcc
      (show dropHistory (flipPlayer g) = dropHistory (flipPlayer g0) from
        congrArg flipPlayer hg)
  have hf := dropHistory_fields g g0 hg
  apply dropHistory_of_fields
  exact ⟨hf.board, congrArg Player.not hf.currentPlayer, hf.whiteLeftCastle, hf.whiteRightCastle,
    hf.blackLeftCastle, hf.blackRightCastle, hf.whiteKingRow, hf.whiteKingCol, hf.blackKingRow,
    hf.blackKingCol, hf.whiteArmy, hf.blackArmy, hs⟩

theorem acceptedRegular_congr (g g0 : SPChessGame) (m : Move)
    (hg : dropHistory g = dropHistory g0) (h : acceptedRegular g0 m) : acceptedRegular g m := by
  have hf := dropHistory_fields g g0 hg
  obtain ⟨h1, h2, h3, h4, h5, h6, h7, h8, h9, h10⟩ := h
  refine ⟨h1, h2, h3, h4, by rw [hf.board, hf.currentPlayer]; exact h5, ?_,
    by rw [hf.board]; exact h7, by rw [hf.board]; exact h8, ?_,
    castleConsistent_dropHistory g g0 hg h10⟩
  · rw [legalRegularMove_congr g g0 (stampMove g m) (stampMove g0 m) hf.position rfl rfl rfl rfl
      (show g.board m.srcRow m.srcCol = g0.board m.srcRow m.srcCol by rw [hf.board])]
    exact h6
  · unfold reachesLastRow stampMove at h9 ⊢
    simp only at h9 ⊢
    rw [hf.board, hf.currentPlayer]
    exact h9

/-- One accepted regular move: the call succeeds, and the game afterwards is, up to its
history, the closed form computed from any game that agrees up to its history. -/
theorem setMove_step (env env0 : Env) (g g0 : SPChessGame) (m : Move)
    (hcap : 0 < env.MAX_MOVES_FOR_PIECE) (hcap0 : 0 < env0.MAX_MOVES_FOR_PIECE)
    (hg : dropHistory g = dropHistory g0) (h : acceptedRegular g0 m) :
    (spChessGameSetMove env g m false false).1 = SP_CHESS_GAME_SUCCESS
    ∧ dropHistory (spChessGameSetMove env g m false false).2.1
        = dropHistory (flipAndStatus env0 (regularPrefix g0 m false)) := by
  have hcc0 := h.2.2.2.2.2.2.2.2.2
  have hw0 := h.2.2.2.2.2.2.1
  have hb0 := h.2.2.2.2.2.2.2.1
  obtain ⟨hpp, hcm, hsrc, hdst, ho, hl, hw, hb, hnp, hcc⟩ := acceptedRegular_congr g g0 m hg h
  have hs := setMove_regular_accept env g m false hcap hcc hpp hcm hsrc hdst ho hl hw hb
  refine ⟨hs, ?_⟩
  rw [setMove_regular_result env g m false hcap hcc hpp hcm hs hw hb]
  have hfp : (filledMove g (stampMove g m)).pawnPromotion = false := by
    show (m.pawnPromotion || decide (reachesLastRow g (stampMove g m))) = false
    rw [hpp]; simpa using hnp
  simp only [hfp, Bool.false_eq_true, ↓reduceIte]
  exact flipAndStatus_congr env env0 _ _ hcap hcap0
    (castleConsistent_regular g0 (filledMove g0 (stampMove g0 m)) false hcc0 rfl hw0 hb0)
    (regularPrefix_congr g g0 m false false hg)

/-- A sequence of accepted regular moves: every call succeeds, and the game after the last
one is the closed form up to its history. -/
theorem playMoves_regular (env env0 : Env)
    (hcap : 0 < env.MAX_MOVES_FOR_PIECE) (hcap0 : 0 < env0.MAX_MOVES_FOR_PIECE) :
    ∀ (ms : List Move) (g g0 : SPChessGame), dropHistory g = dropHistory g0 →
      allAccepted env0 g0 ms = true →
      (playMoves env g ms).1 = ms.map (fun _ => SP_CHESS_GAME_SUCCESS)
      ∧ dropHistory (playMoves env g ms).2 = dropHistory (regularMoves env0 g0 ms) := by
  intro ms
  induction ms with
  | nil => intro g g0 hg _; exact ⟨rfl, hg⟩
  | cons m ms ih =>
    intro g g0 hg h
    unfold allAccepted at h
    rw [Bool.and_eq_true, decide_eq_true_eq] at h
    obtain ⟨h1, h2⟩ := setMove_step env env0 g g0 m hcap hcap0 hg h.1
    obtain ⟨h3, h4⟩ := ih _ _ h2 h.2
    unfold playMoves regularMoves
    exact ⟨by rw [h1, h3]; rfl, h4⟩

theorem foolsMate_accepted : allAccepted sampleEnv (initialGame 6) foolsMate = true := by
  decide!

theorem foolsMate_end :
    (regularMoves sampleEnv (initialGame 6) foolsMate).status = BLACK_PLAYER_WINS
    ∧ (regularMoves sampleEnv (initialGame 6) foolsMate).currentPlayer = WHITE_PLAYER
    ∧ castleConsistent (regularMoves sampleEnv (initialGame 6) foolsMate)
    ∧ (ownSquares (regularMoves sampleEnv (initialGame 6) foolsMate)).length = 16
    ∧ noCandidates sampleEnv (regularMoves sampleEnv (initialGame 6) foolsMate) := by
  decide!

theorem ownSquares_spec (g : SPChessGame) (p : Int × Int) (h : p ∈ ownSquares g) :
    validPosition p.1 p.2 = true
    ∧ currentPlayerPiece g.currentPlayer (g.board p.1 p.2) = true := by
  unfold ownSquares at h
  rw [List.mem_filter] at h
  refine ⟨?_, h.2⟩
  have : ∀ q ∈ boardSquares, validPosition q.1 q.2 = true := by decide
  exact this p h.1

theorem ownSquares_congr (g g0 : SPChessGame) (hb : g.board = g0.board)
    (hp : g.currentPlayer = g0.currentPlayer) : ownSquares g = ownSquares g0 := by
  unfold ownSquares; rw [hb, hp]

/-- A piece of the side to move without candidates: `spChessGetPossibleMoves` succeeds and
leaves the list empty. -/
theorem movesOf_empty (env : Env) (g : SPChessGame) (r c : Int) (hcc : castleConsistent g)
    (hv : validPosition r c = true)
    (ho : currentPlayerPiece g.currentPlayer (g.board r c) = true)
    (h : pieceCandidates env g r c false = []) :
    (spChessGetPossibleMoves env g (emptyMoveList env) r c).1 = SP_CHESS_GAME_SUCCESS
    ∧ spArrayListSize (movesOf env g r c) = 0 := by
  obtain ⟨e1, e2⟩ := movesOf_eq env g r c hcc hv ho
  constructor
  · rw [e1]
    exact getPossiblePieceMoves_message env g _ r c _ true false (own_ne_empty _ _ ho)
  · rw [e2, generatedList_empty _ _ _ _ _ _ _ rfl h]
    rfl

/-- Fool's mate from any game that is the starting position up to its history. -/
theorem foolsMate_played (env : Env) (g : SPChessGame) (hcap : 0 < env.MAX_MOVES_FOR_PIECE)
    (hg : dropHistory g = dropHistory (initialGame 6)) :
    (playMoves env g foolsMate).1
      = [SP_CHESS_GAME_SUCCESS, SP_CHESS_GAME_SUCCESS, SP_CHESS_GAME_SUCCESS,
          SP_CHESS_GAME_SUCCESS]
    ∧ (playMoves env g foolsMate).2.status = BLACK_PLAYER_WINS
    ∧ (playMoves env g foolsMate).2.currentPlayer = WHITE_PLAYER
    ∧ (ownSquares (playMoves env g foolsMate).2).length = 16
    ∧ ∀ p ∈ ownSquares (playMoves env g foolsMate).2,
        (spChessGetPossibleMoves env (playMoves env g foolsMate).2 (emptyMoveList env)
          p.1 p.2).1 = SP_CHESS_GAME_SUCCESS
        ∧ spArrayListSize (movesOf env (playMoves env g foolsMate).2 p.1 p.2) = 0 := by
  obtain ⟨h1, h2⟩ := playMoves_regular env sampleEnv hcap (by decide) foolsMate g
    (initialGame 6) hg foolsMate_accepted
  obtain ⟨e1, e2, e3, e4, e5⟩ := foolsMate_end
  have hf := dropHistory_fields _ _ h2
  have hown := ownSquares_congr _ _ hf.board hf.currentPlayer
  refine ⟨h1, by rw [hf.status]; exact e1, by rw [hf.currentPlayer]; exact e2,
    by rw [hown]; exact e4, ?_⟩
  intro p hp
  obtain ⟨hv, ho⟩ := ownSquares_spec _ p hp
  apply movesOf_empty env _ p.1 p.2 (castleConsistent_dropHistory _ _ h2 e3) hv ho
  apply List.length_eq_zero.1
  rw [pieceCandidates_length env sampleEnv _ _ p.1 p.2 false h2]
  exact e5 p (by rw [← hown]; exact hp)

/-! ## A win leaves no move -/

theorem pieceCandidates_nil_iff (env : Env) (g : SPChessGame) (sr sc : Int) (mm : Bool) :
    pieceCandidates env g sr sc mm = []
      ↔ regularCandidates env g sr sc mm = [] ∧ castleCandidates env g sr sc = [] := by
  unfold pieceCandidates regularCandidates castleCandidates
  cases g.board sr sc <;> simp only [List.append_eq_nil, and_assoc, and_true]

theorem regularCandidates_length (env env0 : Env) (g g0 : SPChessGame) (sr sc : Int) (mm : Bool)
    (hg : SamePosition g g0) :
    (regularCandidates env g sr sc mm).length = (regularCandidates env0 g0 sr sc mm).length := by
  have hc := fun dr dc b => candidateMoves_regular_length env env0 g g0 sr sc dr dc b hg
  have hr := fun dr dc fuel r c => rayCandidates_length env env0 g g0 sr sc dr dc hg fuel r c
  unfold regularCandidates pawnCandidates knightCandidates bishopCandidates rookCandidates
    kingStepCandidates
  rw [hg.board, hg.currentPlayer]
  cases g0.board sr sc <;>
    simp only [List.length_append, hc, hr, List.length_nil] <;>
    split_ifs <;> simp only [hc, List.length_nil]

/-- A castle candidate of a piece of the side to move is a castle `legalCastle` accepts for
a rook of the side to move. -/
theorem castleCandidates_accepted (env : Env) (g : SPChessGame) (sr sc : Int)
    (ho : currentPlayerPiece g.currentPlayer (g.board sr sc) = true)
    (h : castleCandidates env g sr sc ≠ []) :
    ∃ m : Move, m.srcPiece = ownRook g.currentPlayer ∧ (legalCastle g m).1 = true := by
  have one : ∀ r c : Int, g.board r c = ownRook g.currentPlayer →
      candidateMoves env g r c DUMMY_COORDINATE DUMMY_COORDINATE true false ≠ [] →
      ∃ m : Move, m.srcPiece = ownRook g.currentPlayer ∧ (legalCastle g m).1 = true := by
    intro r c hb hne
    refine ⟨baseCastle env g r c, hb, ?_⟩
    by_contra hn
    apply hne
    unfold candidateMoves
    simp only [↓reduceIte, hn, Bool.false_eq_true]
  have king : kingCastleCandidates env g (ownRook g.currentPlayer)
      (ownFirstRow g.currentPlayer) ≠ [] →
      ∃ m : Move, m.srcPiece = ownRook g.currentPlayer ∧ (legalCastle g m).1 = true := by
    intro h
    unfold kingCastleCandidates at h
    by_cases hL : g.board (ownFirstRow g.currentPlayer) LEFT_ROOK_COL = ownRook g.currentPlayer
    · by_cases hne : candidateMoves env g (ownFirstRow g.currentPlayer) LEFT_ROOK_COL
          DUMMY_COORDINATE DUMMY_COORDINATE true false = []
      · by_cases hR : g.board (ownFirstRow g.currentPlayer) RIGHT_ROOK_COL
            = ownRook g.currentPlayer
        · exact one _ _ hR (by simpa [hL, hne, hR] using h)
        · exact absurd (by simp [hL, hne, hR]) h
      · exact one _ _ hL hne
    · by_cases hR : g.board (ownFirstRow g.currentPlayer) RIGHT_ROOK_COL
          = ownRook g.currentPlayer
      · exact one _ _ hR (by simpa [hL, hR] using h)
      · exact absurd (by simp [hL, hR]) h
  have rook : rookCastleCandidates env g sr sc ≠ [] →
      ∃ m : Move, m.srcPiece = ownRook g.currentPlayer ∧ (legalCastle g m).1 = true := by
    intro h
    unfold rookCastleCandidates at h
    by_cases hr : g.board sr sc = WHITE_ROOK ∨ g.board sr sc = BLACK_ROOK
    · rw [if_pos hr] at h
      exact one sr sc (ownRook_of _ _ ho hr).1 h
    · rw [if_neg hr] at h
      exact absurd rfl h
  have hnil : ∀ x : Piece, g.board sr sc = x →
      (x = WHITE_PAWN ∨ x = BLACK_PAWN ∨ x = WHITE_KNIGHT ∨ x = BLACK_KNIGHT
        ∨ x = WHITE_BISHOP ∨ x = BLACK_BISHOP ∨ x = EMPTY_POSITION) →
      castleCandidates env g sr sc = [] := by
    intro x hx hc
    unfold castleCandidates
    rw [hx]
    rcases hc with rfl | rfl | rfl | rfl | rfl | rfl | rfl <;> rfl
  have hrk : ∀ x : Piece, g.board sr sc = x →
      (x = WHITE_ROOK ∨ x = BLACK_ROOK ∨ x = WHITE_QUEEN ∨ x = BLACK_QUEEN) →
      castleCandidates env g sr sc = rookCastleCandidates env g sr sc := by
    intro x hx hc
    unfold castleCandidates
    rw [hx]
    rcases hc with rfl | rfl | rfl | rfl <;> rfl
  have hkg : ∀ x : Piece, g.board sr sc = x → (x = WHITE_KING ∨ x = BLACK_KING) →
      castleCandidates env g sr sc = kingCastleCandidates env g (ownRook g.currentPlayer)
        (ownFirstRow g.currentPlayer) := by
    intro x hx hc
    unfold castleCandidates
    rw [hx]
    rcases hc with rfl | rfl <;> rfl
  cases hp : g.board sr sc
  case WHITE_ROOK => exact rook (by rw [← hrk _ hp (by simp)]; exact h)
  case BLACK_ROOK => exact rook (by rw [← hrk _ hp (by simp)]; exact h)
  case WHITE_QUEEN => exact rook (by rw [← hrk _ hp (by simp)]; exact h)
  case BLACK_QUEEN => exact rook (by rw [← hrk _ hp (by simp)]; exact h)
  case WHITE_KING => exact king (by rw [← hkg _ hp (by simp)]; exact h)
  case BLACK_KING => exact king (by rw [← hkg _ hp (by simp)]; exact h)
  all_goals exact absurd (hnil _ hp (by simp)) h

theorem currentPlayerPiece_empty (p : Player) : currentPlayerPiece p EMPTY_POSITION = false := by
  cases p <;> rfl

theorem ownKing_own (p : Player) : currentPlayerPiece p (ownKing p) = true := by
  cases p <;> rfl

theorem ownFirstRow_range (p : Player) : 0 ≤ ownFirstRow p ∧ ownFirstRow p < 8 := by
  cases p <;> decide

/-- What an accepted castle went through: the game is not in check, the rook stands on the
first rank of the side to move in a corner whose flag is true, and the route is accepted. -/
theorem legalCastle_side (g : SPChessGame) (m : Move)
    (hrook : m.srcPiece = ownRook g.currentPlayer) (hl : (legalCastle g m).1 = true) :
    g.status ≠ GAME_NOT_FINISHED_CHECK
    ∧ m.srcRow = ownFirstRow g.currentPlayer
    ∧ ((m.srcCol = LEFT_ROOK_COL ∧ ownLeftCastle g = true)
        ∨ (m.srcCol = RIGHT_ROOK_COL ∧ ownRightCastle g = true))
    ∧ (legalCastleRoute g (ownRook g.currentPlayer) m.srcCol (ownKing g.currentPlayer)).1
        = true := by
  have e1 : (if m.srcPiece = WHITE_ROOK then WHITE_FIRST_ROW else BLACK_FIRST_ROW)
      = ownFirstRow g.currentPlayer := by
    rw [hrook]; unfold ownRook ownFirstRow; cases g.currentPlayer <;> simp
  have e2 : (if m.srcPiece = WHITE_ROOK then WHITE_KING else BLACK_KING)
      = ownKing g.currentPlayer := by
    rw [hrook]; unfold ownRook ownKing; cases g.currentPlayer <;> simp
  have e3 : (if m.srcPiece = WHITE_ROOK then g.whiteLeftCastle else g.blackLeftCastle)
      = ownLeftCastle g := by
    rw [hrook]; unfold ownRook ownLeftCastle; cases g.currentPlayer <;> simp
  have e4 : (if m.srcPiece = WHITE_ROOK then g.whiteRightCastle else g.blackRightCastle)
      = ownRightCastle g := by
    rw [hrook]; unfold ownRook ownRightCastle; cases g.currentPlayer <;> simp
  unfold legalCastle at hl
  by_cases h1 : g.status = GAME_NOT_FINISHED_CHECK
  · simp [h1] at hl
  · simp only [h1, ↓reduceIte, e1, e2, e3, e4] at hl
    split_ifs at hl with hcond
    · have hside : m.srcRow = ownFirstRow g.currentPlayer
          ∧ ((m.srcCol = LEFT_ROOK_COL ∧ ownLeftCastle g = true)
            ∨ (m.srcCol = RIGHT_ROOK_COL ∧ ownRightCastle g = true)) := by
        by_contra hn
        apply hcond
        simp only [not_and, not_or, Bool.not_eq_true] at hn
        simp only [Bool.and_eq_true, Bool.not_eq_true', Bool.and_eq_false_iff,
          decide_eq_false_iff_not, decide_eq_true_eq]
        by_cases hr : m.srcRow = ownFirstRow g.currentPlayer
        · constructor
          · by_cases hc : m.srcCol = LEFT_ROOK_COL
            · exact Or.inr ((hn hr).1 hc)
            · exact Or.inl (Or.inr hc)
          · by_cases hc : m.srcCol = RIGHT_ROOK_COL
            · exact Or.inr ((hn hr).2 hc)
            · exact Or.inl (Or.inr hc)
        · exact ⟨Or.inl (Or.inl hr), Or.inl (Or.inl hr)⟩
      rw [hrook] at hl
      exact ⟨h1, hside.1, hside.2, hl⟩

/-- A castle that `legalCastle` accepts leaves the king a step: the square next to the king
on the side of the rook is empty and safe for the king. -/
theorem castle_king_step (g : SPChessGame) (m : Move) (hcc : castleConsistent g)
    (hv : 0 ≤ ownKingCol g ∧ ownKingCol g < 8)
    (hrook : m.srcPiece = ownRook g.currentPlayer) (hl : (legalCastle g m).1 = true) :
    g.board (ownFirstRow g.currentPlayer) (ownKingCol g) = ownKing g.currentPlayer
    ∧ ∃ dc : Int, (dc = ownKingCol g - 1 ∨ dc = ownKingCol g + 1) ∧ 0 ≤ dc ∧ dc < 8
      ∧ routeSquareSafe g dc := by
  obtain ⟨-, -, hside, hroute⟩ := legalCastle_side g m hrook hl
  have e1 : (if ownRook g.currentPlayer = WHITE_ROOK then WHITE_FIRST_ROW else BLACK_FIRST_ROW)
      = ownFirstRow g.currentPlayer := by
    unfold ownRook ownFirstRow; cases g.currentPlayer <;> simp
  have e5 : (if ownRook g.currentPlayer = WHITE_ROOK then g.whiteKingCol else g.blackKingCol)
      = ownKingCol g := by
    unfold ownRook ownKingCol; cases g.currentPlayer <;> simp
  have hkb : (ownLeftCastle g = true ∨ ownRightCastle g = true) →
      g.board (ownFirstRow g.currentPlayer) (ownKingCol g) = ownKing g.currentPlayer := by
    unfold ownLeftCastle ownRightCastle ownFirstRow ownKingCol ownKing
    cases hp : g.currentPlayer <;> simp only [reduceCtorEq, ↓reduceIte]
    · exact hcc.2
    · exact hcc.1
  have hking := hkb (hside.elim (fun h => Or.inl h.2) (fun h => Or.inr h.2))
  refine ⟨hking, ?_⟩
  unfold legalCastleRoute at hroute
  simp only [e1, e5] at hroute
  rw [legalCastleRouteLoop_verdict _ _ _ _ _ _ _ hking] at hroute
  rcases hroute with ⟨-, hf⟩ | ⟨hn, hall⟩
  · exact absurd hf (by simp)
  · unfold routeSquareSafe kingPlacedOn
    rcases hside with ⟨hc, -⟩ | ⟨hc, -⟩
    · rw [hc] at hn hall
      simp only [LEFT_ROOK_COL] at hn hall
      by_cases hlt : (0 : Int) < ownKingCol g
      · simp only [hlt, ↓reduceIte] at hn hall
        refine ⟨ownKingCol g - 1, Or.inl rfl, by omega, by omega, ?_⟩
        have := hall (ownKingCol g - 1 + 1 - (0 + 1)).toNat.pred
          (by rw [Nat.pred_eq_sub_one]; omega)
        have e : (0 : Int) + 1 + (((ownKingCol g - 1 + 1 - (0 + 1)).toNat.pred : Nat) : Int)
            = ownKingCol g - 1 := by
          rw [Nat.pred_eq_sub_one]
          omega
        rw [e] at this
        exact this
      · simp only [hlt, ↓reduceIte] at hn
        omega
    · rw [hc] at hn hall
      simp only [RIGHT_ROOK_COL] at hn hall
      have hlt : ¬ ((7 : Int) < ownKingCol g) := by omega
      simp only [hlt, ↓reduceIte] at hn hall
      refine ⟨ownKingCol g + 1, Or.inr rfl, by omega, by omega, ?_⟩
      have := hall 0 hn
      simpa using this

/-- The step of the king onto a square next to it that is empty and safe for the king is a
candidate of the king. -/
theorem king_step_candidate (env : Env) (g : SPChessGame) (dc : Int)
    (hkb : g.board (ownFirstRow g.currentPlayer) (ownKingCol g) = ownKing g.currentPlayer)
    (hdc : dc = ownKingCol g - 1 ∨ dc = ownKingCol g + 1) (h0 : 0 ≤ dc) (h8 : dc < 8)
    (hs : routeSquareSafe g dc) :
    regularCandidates env g (ownFirstRow g.currentPlayer) (ownKingCol g) false ≠ [] := by
  obtain ⟨hE, hT⟩ := hs
  have hrow := ownFirstRow_range g.currentPlayer
  have hvalid : validPosition (ownFirstRow g.currentPlayer) dc = true :=
    (validPosition_iff _ _).2 ⟨hrow.1, hrow.2, h0, h8⟩
  have hking : ownKing g.currentPlayer = WHITE_KING ∨ ownKing g.currentPlayer = BLACK_KING := by
    unfold ownKing; split_ifs <;> simp
  have hlegal : (legalRegularMove g (baseMove env g (ownFirstRow g.currentPlayer) (ownKingCol g)
      (ownFirstRow g.currentPlayer) dc)).1 = true := by
    rw [legalRegularMove_verdict]
    have hsp : (baseMove env g (ownFirstRow g.currentPlayer) (ownKingCol g)
        (ownFirstRow g.currentPlayer) dc).srcPiece = ownKing g.currentPlayer := hkb
    have a1 : currentPlayerPiece g.currentPlayer (g.board (ownFirstRow g.currentPlayer) dc)
        = false := by rw [hE]; exact currentPlayerPiece_empty _
    have a2 : legalMovementByPieceType g
        { baseMove env g (ownFirstRow g.currentPlayer) (ownKingCol g)
            (ownFirstRow g.currentPlayer) dc with
          dstPiece := g.board (ownFirstRow g.currentPlayer) dc } = true := by
      unfold legalMovementByPieceType
      simp only [hsp]
      have : legalMovementByKing { baseMove env g (ownFirstRow g.currentPlayer) (ownKingCol g)
          (ownFirstRow g.currentPlayer) dc with
          dstPiece := g.board (ownFirstRow g.currentPlayer) dc } = true := by
        unfold legalMovementByKing cAbs
        simp only [baseMove, sub_self]
        rcases hdc with h | h <;> rw [h] <;> simp
      rcases hking with h | h <;> rw [h] <;> exact this
    have a3 : rivalPlayerThreateningPosition
        (boardAfterMove g (baseMove env g (ownFirstRow g.currentPlayer) (ownKingCol g)
          (ownFirstRow g.currentPlayer) dc))
        (ownKingRowAfter g (baseMove env g (ownFirstRow g.currentPlayer) (ownKingCol g)
          (ownFirstRow g.currentPlayer) dc))
        (ownKingColAfter g (baseMove env g (ownFirstRow g.currentPlayer) (ownKingCol g)
          (ownFirstRow g.currentPlayer) dc)) = false := by
      have r1 : ownKingRowAfter g (baseMove env g (ownFirstRow g.currentPlayer) (ownKingCol g)
          (ownFirstRow g.currentPlayer) dc) = ownFirstRow g.currentPlayer := by
        unfold ownKingRowAfter; rw [hsp]; simp only [hking, ↓reduceIte]; rfl
      have r2 : ownKingColAfter g (baseMove env g (ownFirstRow g.currentPlayer) (ownKingCol g)
          (ownFirstRow g.currentPlayer) dc) = dc := by
        unfold ownKingColAfter; rw [hsp]; simp only [hking, ↓reduceIte]; rfl
      rw [r1, r2]
      have r3 : boardAfterMove g (baseMove env g (ownFirstRow g.currentPlayer) (ownKingCol g)
          (ownFirstRow g.currentPlayer) dc) = kingPlacedOn g dc := by
        unfold boardAfterMove kingPlacedOn
        rw [hsp]
        rfl
      rw [r3]
      exact hT
    simp only [Bool.and_eq_true, Bool.not_eq_true']
    exact ⟨⟨a1, a2⟩, a3⟩
  have hcand : candidateMoves env g (ownFirstRow g.currentPlayer) (ownKingCol g)
      (ownFirstRow g.currentPlayer) dc false false ≠ [] := by
    unfold candidateMoves
    simp [hvalid, hlegal]
  unfold regularCandidates
  have hmatch : regularCandidates env g (ownFirstRow g.currentPlayer) (ownKingCol g) false
      = kingStepCandidates env g (ownFirstRow g.currentPlayer) (ownKingCol g) := by
    unfold regularCandidates
    rw [hkb]
    rcases hking with h | h <;> rw [h]
  intro hnil
  have hnil2 : kingStepCandidates env g (ownFirstRow g.currentPlayer) (ownKingCol g) = [] := by
    rw [← hmatch]; unfold regularCandidates; exact hnil
  unfold kingStepCandidates at hnil2
  simp only [List.append_eq_nil, and_assoc] at hnil2
  rcases hdc with h | h
  · exact hcand (by rw [h]; exact hnil2.2.2.2.1)
  · exact hcand (by rw [h]; exact hnil2.2.2.2.2.1)

/-- The side to move has no legal move in `G`; then in a game `F` with the same board, side
to move and king fields no piece of the side to move has a move, castles included. -/
theorem stuck_no_moves (env : Env) (G F : SPChessGame) (hcap : 0 < env.MAX_MOVES_FOR_PIECE)
    (hccG : castleConsistent G) (hccF : castleConsistent F) (hpos : SamePosition F G)
    (hv : 0 ≤ ownKingCol F ∧ ownKingCol F < 8) (hno : ¬ hasLegalMove env G) :
    noMovesLeft env F := by
  have key : ∀ r c : Int, validPosition r c = true →
      currentPlayerPiece F.currentPlayer (F.board r c) = true →
      regularCandidates env F r c false ≠ [] → False := by
    intro r c hvalid ho hne
    apply hno
    rw [hasLegalMove_iff_candidates env G hcap hccG]
    refine ⟨(r, c), (validPosition_iff_mem r c).1 hvalid,
      by rw [← hpos.board, ← hpos.currentPlayer]; exact ho, ?_⟩
    intro hnil
    have h0 := ((pieceCandidates_nil_iff env G r c false).1 hnil).1
    apply hne
    apply List.length_eq_zero.1
    rw [regularCandidates_length env env F G r c false hpos, h0]
    rfl
  intro p hp
  obtain ⟨hvalid, ho⟩ := ownSquares_spec F p hp
  apply movesOf_empty env F p.1 p.2 hccF hvalid ho
  rw [pieceCandidates_nil_iff]
  constructor
  · by_contra h
    exact key _ _ hvalid ho h
  · by_contra h
    obtain ⟨m, hrook, hl⟩ := castleCandidates_accepted env F p.1 p.2 ho h
    obtain ⟨hkb, dc, hdc, h0, h8, hs⟩ := castle_king_step F m hccF hv hrook hl
    have hrow := ownFirstRow_range F.currentPlayer
    exact key (ownFirstRow F.currentPlayer) (ownKingCol F)
      ((validPosition_iff _ _).2 ⟨hrow.1, hrow.2, hv.1, hv.2⟩)
      (by rw [hkb]; exact ownKing_own _)
      (king_step_candidate env F dc hkb hdc h0 h8 hs)

/-- A status that is a win was computed for a side without a legal move. -/
theorem win_no_legal_move (env : Env) (G : SPChessGame) (hcap : 0 < env.MAX_MOVES_FOR_PIECE)
    (hcc : castleConsistent G)
    (h : statusOf env G = WHITE_PLAYER_WINS ∨ statusOf env G = BLACK_PLAYER_WINS) :
    ¬ hasLegalMove env G := by
  intro hm
  unfold statusOf at h
  rw [getGameStatus_classify env G _ _ hcap hcc, getGameStatus_classify env G _ _ hcap hcc] at h
  unfold classifyStatus at h
  simp only [hm, decide_True, ↓reduceIte] at h
  split_ifs at h <;> rcases h with h | h <;> exact absurd h (by decide)

/-- The game after the change of player and the computation of the status: when the status
is a win, no piece of the side to move has a move. -/
theorem won_no_moves (env : Env) (P F : SPChessGame) (hcap : 0 < env.MAX_MOVES_FOR_PIECE)
    (hccP : castleConsistent P) (hccF : castleConsistent F)
    (hpos : SamePosition F (flipPlayer P)) (hst : F.status = statusOf env (flipPlayer P))
    (hv : kingColsValid P) (hwin : wonGame F) : noMovesLeft env F := by
  have hvF : 0 ≤ ownKingCol F ∧ ownKingCol F < 8 := by
    unfold ownKingCol
    rw [hpos.whiteKingCol, hpos.blackKingCol]
    split_ifs
    · exact hv.1
    · exact hv.2
  refine stuck_no_moves env (flipPlayer P) F hcap hccP hccF hpos hvF
    (win_no_legal_move env _ hcap hccP ?_)
  unfold wonGame at hwin
  rw [hst] at hwin
  exact hwin

theorem kingColsValid_updatesPrefix (g : SPChessGame) (m : Move) (mm : Bool)
    (h : kingColsValid g) : kingColsValid (updatesPrefix g m mm) := by
  unfold kingColsValid
  rw [updatesPrefix_whiteKingCol, updatesPrefix_blackKingCol]
  exact h

/-- The game `updatesAfterSettingMove` leaves for a move that is no promotion: when its
status is a win, no piece of the side to move has a move. -/
theorem updates_won (env : Env) (X : SPChessGame) (mv : Move) (mm : Bool)
    (hcap : 0 < env.MAX_MOVES_FOR_PIECE) (hpp : mv.pawnPromotion = false)
    (hcc : castleConsistent (updatesPrefix X mv mm)) (hv : kingColsValid X)
    (hwin : wonGame (updatesAfterSettingMove env X mv mm).2) :
    noMovesLeft env (updatesAfterSettingMove env X mv mm).2 := by
  rw [updatesAfterSettingMove_eq] at hwin ⊢
  simp only [hpp, Bool.not_false, ↓reduceIte] at hwin ⊢
  rw [changePlayerAndUpdateStatus_eq2 env _ hcap hcc] at hwin ⊢
  exact won_no_moves env (updatesPrefix X mv mm) _ hcap hcc hcc ⟨rfl, rfl, rfl, rfl, rfl, rfl⟩ rfl
    (kingColsValid_updatesPrefix X mv mm hv) hwin

/-- The game `updatesAfterSettingMove` leaves for a move flagged as a promotion has the
status of the game it was given. -/
theorem updates_promotion_status (env : Env) (X : SPChessGame) (mv : Move) (mm : Bool)
    (hpp : mv.pawnPromotion = true) :
    (updatesAfterSettingMove env X mv mm).2.status = X.status := by
  rw [updatesAfterSettingMove_eq]
  simp only [hpp, Bool.not_true, Bool.false_eq_true, ↓reduceIte]
  exact updatesPrefix_status X mv mm

theorem nonTerminal_not_won (g F : SPChessGame) (h : nonTerminal g) (hs : F.status = g.status) :
    ¬ wonGame F := by
  unfold wonGame
  rw [hs]
  rcases h with h | h <;> rw [h] <;> decide

/-- The game after a promotion of the engine: when its status is a win, no piece of the
side to move has a move. -/
theorem promotion_won (env : Env) (g : SPChessGame) (mv : Move) (mm : Bool)
    (hcap : 0 < env.MAX_MOVES_FOR_PIECE) (hpp : mv.pawnPromotion = true)
    (hcc : castleConsistent (promotionPrefix g mv true)) (hv : kingColsValid g)
    (hwin : wonGame (updatesAfterSettingMove env
      (spChessGameSetPawnPromotion env g mv true).2 mv mm).2) :
    noMovesLeft env (updatesAfterSettingMove env
      (spChessGameSetPawnPromotion env g mv true).2 mv mm).2 := by
  rw [updatesAfterSettingMove_eq] at hwin ⊢
  simp only [hpp, Bool.not_true, Bool.false_eq_true, ↓reduceIte] at hwin ⊢
  rw [spChessGameSetPawnPromotion_eq, changePlayerAndUpdateStatus_eq2 env _ hcap hcc] at hwin ⊢
  have hccF : castleConsistent (flipAndStatus env (promotionPrefix g mv true)) := hcc
  refine won_no_moves env (promotionPrefix g mv true) _ hcap hcc
    (castleConsistent_updatesPrefix _ mv mm hccF) ?_ ?_ ?_ hwin
  · exact ⟨updatesPrefix_board _ _ _, updatesPrefix_currentPlayer _ _ _,
      updatesPrefix_whiteKingRow _ _ _, updatesPrefix_whiteKingCol _ _ _,
      updatesPrefix_blackKingRow _ _ _, updatesPrefix_blackKingCol _ _ _⟩
  · exact updatesPrefix_status _ _ _
  · unfold kingColsValid
    rw [promotionPrefix_whiteKingCol, promotionPrefix_blackKingCol]
    exact hv

theorem kingColsValid_setRegularMove (g : SPChessGame) (m : Move) (h : kingColsValid g)
    (hdst : validPosition m.dstRow m.dstCol = true) : kingColsValid (setRegularMove g m) := by
  obtain ⟨-, -, h3, h4⟩ := (validPosition_iff _ _).1 hdst
  unfold kingColsValid
  constructor
  · by_cases hk : m.srcPiece = WHITE_KING
    · rw [((setRegularMove_white_king g m).1 hk).2.2.2]; exact ⟨h3, h4⟩
    · rw [((setRegularMove_white_king g m).2 hk).2]; exact h.1
  · by_cases hk : m.srcPiece = BLACK_KING
    · rw [((setRegularMove_black_king g m).1 hk).2.2.2]; exact ⟨h3, h4⟩
    · rw [((setRegularMove_black_king g m).2 hk).2]; exact h.2

theorem kingColsValid_setCastleMove (g : SPChessGame) (m : Move) (h : kingColsValid g) :
    kingColsValid (setCastleMove g m).1 := by
  unfold kingColsValid
  rw [(setCastleMove_kingCol g m).1, (setCastleMove_kingCol g m).2]
  unfold KING_COL
  split_ifs <;> first | exact ⟨⟨by decide, by decide⟩, h.2⟩ | exact ⟨h.1, ⟨by decide, by decide⟩⟩

/-- A win after a call of `spChessGameSetMove` that completes the move leaves no move. -/
theorem setMove_won (env : Env) (hcap : 0 < env.MAX_MOVES_FOR_PIECE) (g : SPChessGame)
    (m : Move) (mm cm : Bool) (hcc : castleConsistent g)
    (hwk : validPosition g.whiteKingRow g.whiteKingCol = true)
    (hbk : validPosition g.blackKingRow g.blackKingCol = true)
    (hin : builtByCaller g m cm)
    (hleg : cm = true → m.castleMove = true → (legalCastle g (enteredMove g m)).1 = true)
    (hnk : m.castleMove = false →
      g.board m.dstRow m.dstCol ≠ WHITE_KING ∧ g.board m.dstRow m.dstCol ≠ BLACK_KING)
    (hfin : (spChessGameSetMove env g m mm cm).2.2.pawnPromotion = true →
      m.pawnPromotion = true ∧ m.castleMove = false)
    (hs : (spChessGameSetMove env g m mm cm).1 = SP_CHESS_GAME_SUCCESS)
    (hwin : wonGame (spChessGameSetMove env g m mm cm).2.1) :
    noMovesLeft env (spChessGameSetMove env g m mm cm).2.1 := by
  have hv : kingColsValid g :=
    ⟨⟨((validPosition_iff _ _).1 hwk).2.2.1, ((validPosition_iff _ _).1 hwk).2.2.2⟩,
      ⟨((validPosition_iff _ _).1 hbk).2.2.1, ((validPosition_iff _ _).1 hbk).2.2.2⟩⟩
  obtain ⟨hsrc, ho, hcase⟩ := setMove_success_cases env g m mm cm hs
  obtain ⟨hsq1, hsq2, hsq3, hsq4⟩ := enteredMove_squares g m
  rcases hcase with ⟨hcm, hr, hl, e1, e2⟩ | ⟨hcm, hpp, hdst, e1, -⟩
      | ⟨hcm, hpp, hdst, hl, e1, e2⟩
  · -- a castle
    obtain ⟨hown, -⟩ := ownRook_of _ _ ho hr
    have hlegal : (legalCastle g (enteredMove g m)).1 = true := by
      cases hc2 : cm
      · exact hl hc2
      · exact hleg hc2 hcm
    have hG : (checkedCastle g m cm).2 = g := by
      unfold checkedCastle
      split_ifs
      · exact legalCastle_game g _ hcc
      · rfl
    rw [e2, hG] at hfin
    rw [e1, hG] at hwin ⊢
    have hrow := (legalCastle_side g _ hown hlegal).2.1
    cases hp2 : (setCastleMove g (enteredMove g m)).2.pawnPromotion
    · exact updates_won env _ _ mm hcap hp2
        (castleConsistent_updatesPrefix _ _ _
          (castleConsistent_setCastleMove g _ hcc (by simpa using hcm) hown hrow))
        (kingColsValid_setCastleMove g _ hv) hwin
    · have := (hfin hp2).2
      rw [hcm] at this
      exact absurd this (by decide)
  · -- a promotion of the engine
    obtain ⟨-, -, hf, hpawn⟩ := hin.2 hcm (Or.inr hpp)
    have hsk := ownPawn_not_king g.currentPlayer
    have hne : ¬ ((enteredMove g m).dstRow = (enteredMove g m).srcRow
        ∧ (enteredMove g m).dstCol = (enteredMove g m).srcCol) := by
      rw [hsq1, hsq2, hsq3, hsq4]
      rintro ⟨h1, h2⟩
      rw [h1, h2, hpawn hpp, ownPawn_own] at hf
      exact absurd hf (by decide)
    rw [e1] at hwin ⊢
    exact promotion_won env g _ mm hcap (by simpa using hpp)
      (castleConsistent_promotionPrefix g _ true hcc
        (fun _ => by rw [hsq1, hsq2, hpawn hpp]; exact hsk)
        (by rw [hsq3, hsq4]; exact (hnk hcm).1) (by rw [hsq3, hsq4]; exact (hnk hcm).2) hne)
      hv hwin
  · -- a regular move
    have he := enteredMove_eq_stampMove g m hpp
    rw [e1] at hwin ⊢
    cases hc2 : cm
    · -- of a user
      rw [hc2] at hwin e2
      have hlegal := hl hc2
      have hG : (checkedRegular g m false).2.1 = g := by
        simp only [checkedRegular, Bool.not_false, ↓reduceIte, he]
        exact legalRegularMove_game g _ rfl
      have hM : (checkedRegular g m false).2.2 = filledMove g (stampMove g m) := by
        simp only [checkedRegular, Bool.not_false, ↓reduceIte, he]
        rw [he] at hlegal
        exact legalRegularMove_move g _ hlegal
      rw [hG, hM] at hwin ⊢
      rw [hM] at e2
      cases hp2 : (filledMove g (stampMove g m)).pawnPromotion
      · exact updates_won env _ _ mm hcap hp2
          (castleConsistent_regular g (filledMove g (stampMove g m)) mm hcc rfl
            (hnk hcm).1 (hnk hcm).2)
          (kingColsValid_setRegularMove g _ hv hdst) hwin
      · have := (hfin (by rw [hc2, e2]; exact hp2)).1
        rw [hpp] at this
        exact absurd this (by decide)
    · -- of the engine
      rw [hc2] at hwin
      have hG : (checkedRegular g m true).2.1 = g := rfl
      have hM : (checkedRegular g m true).2.2 = stampMove g m := he
      rw [hG, hM] at hwin ⊢
      exact updates_won env _ _ mm hcap hpp
        (castleConsistent_regular g (stampMove g m) mm hcc rfl (hnk hcm).1 (hnk hcm).2)
        (kingColsValid_setRegularMove g _ hv hdst) hwin

/-- The game after the completion of a promotion of a user: when its status is a win, no
piece of the side to move has a move. -/
theorem userPromotion_won (env : Env) (R : SPChessGame) (mv : Move)
    (hcap : 0 < env.MAX_MOVES_FOR_PIECE)
    (hcc : castleConsistent (promotionPrefix R mv false)) (hv : kingColsValid R)
    (hwin : wonGame (spChessGameSetPawnPromotion env R mv false).2) :
    noMovesLeft env (spChessGameSetPawnPromotion env R mv false).2 := by
  rw [spChessGameSetPawnPromotion_eq, changePlayerAndUpdateStatus_eq2 env _ hcap hcc] at hwin ⊢
  refine won_no_moves env (promotionPrefix R mv false) _ hcap hcc hcc
    ⟨rfl, rfl, rfl, rfl, rfl, rfl⟩ rfl ?_ hwin
  unfold kingColsValid
  rw [promotionPrefix_whiteKingCol, promotionPrefix_blackKingCol]
  exact hv

/-- A win after the sequence of a user, `spChessGameSetMove` completed by
`spChessGameSetPawnPromotion` for a promotion, leaves no move. -/
theorem userMove_won (env : Env) (hcap : 0 < env.MAX_MOVES_FOR_PIECE) (g : SPChessGame)
    (m : Move) (piece : Piece) (hcc : castleConsistent g)
    (hwk : validPosition g.whiteKingRow g.whiteKingCol = true)
    (hbk : validPosition g.blackKingRow g.blackKingCol = true)
    (hin : builtByCaller g m false) (hpp : m.pawnPromotion = false)
    (hnk : m.castleMove = false →
      g.board m.dstRow m.dstCol ≠ WHITE_KING ∧ g.board m.dstRow m.dstCol ≠ BLACK_KING)
    (hs : (applyUserMove env g m piece).1 = SP_CHESS_GAME_SUCCESS)
    (hwin : wonGame (applyUserMove env g m piece).2.1) :
    noMovesLeft env (applyUserMove env g m piece).2.1 := by
  have hv : kingColsValid g :=
    ⟨⟨((validPosition_iff _ _).1 hwk).2.2.1, ((validPosition_iff _ _).1 hwk).2.2.2⟩,
      ⟨((validPosition_iff _ _).1 hbk).2.2.1, ((validPosition_iff _ _).1 hbk).2.2.2⟩⟩
  unfold applyUserMove at hs hwin ⊢
  simp only at hs hwin ⊢
  by_cases h1 : (spChessGameSetMove env g m false false).1 = SP_CHESS_GAME_SUCCESS
  swap
  · simp only [ne_eq, h1, not_false_eq_true, ↓reduceIte] at hs
  simp only [ne_eq, h1, not_true_eq_false, ↓reduceIte] at hs hwin ⊢
  by_cases hp : (spChessGameSetMove env g m false false).2.2.pawnPromotion = true
  swap
  · simp only [hp, Bool.false_eq_true, ↓reduceIte] at hwin ⊢
    exact setMove_won env hcap g m false false hcc hwk hbk hin
      (fun h => absurd h (by decide)) hnk (fun h => absurd h hp) h1 hwin
  simp only [hp, ↓reduceIte] at hs hwin ⊢
  have hcm : m.castleMove = false := by
    by_contra hcm
    simp only [Bool.not_eq_false] at hcm
    obtain ⟨-, -, -, -, e⟩ := setMove_castle_success env g m false hpp hcm hcc h1
    rw [e] at hp
    simp only [setCastleMove_move, stampMove, hpp] at hp
    exact absurd hp (by decide)
  obtain ⟨hsv, hdv, ho, hl, -⟩ := setMove_regular_success env g m false hpp hcm h1
  have e := setMove_regular_result env g m false hcap hcc hpp hcm h1 (hnk hcm).1 (hnk hcm).2
  rw [e] at hp hs hwin ⊢
  simp only at hp
  simp only [hp, ↓reduceIte] at hs hwin ⊢
  have hreach : reachesLastRow g (stampMove g m) := by
    simpa [filledMove, stampMove, hpp] using hp
  have hbd : (regularPrefix g m false).board m.dstRow m.dstCol
      = ownPawn (regularPrefix g m false).currentPlayer := by
    simp only [regularPrefix, updatesPrefix_board, setRegularMove_board,
      updatesPrefix_currentPlayer, setRegularMove_currentPlayer, Board.set_apply]
    simp only [filledMove, stampMove, and_self, ↓reduceIte]
    unfold reachesLastRow stampMove at hreach
    unfold ownPawn
    rcases hreach with ⟨h1, h2, -⟩ | ⟨h1, h2, -⟩ <;> simp_all
  have hc3 : castleConsistent (promotionPrefix (regularPrefix g m false)
      { filledMove g (stampMove g m) with srcPiece := piece } false) := by
    apply castleConsistent_promotionPrefix
    · exact castleConsistent_regular g (filledMove g (stampMove g m)) false hcc rfl
        (hnk hcm).1 (hnk hcm).2
    · intro h; exact absurd h (by decide)
    · show (regularPrefix g m false).board m.dstRow m.dstCol ≠ WHITE_KING
      rw [hbd]; unfold ownPawn; split_ifs <;> decide
    · show (regularPrefix g m false).board m.dstRow m.dstCol ≠ BLACK_KING
      rw [hbd]; unfold ownPawn; split_ifs <;> decide
    · exact legal_src_ne_dst g (stampMove g m) ho hl
  refine userPromotion_won env _ _ hcap hc3 ?_ hwin
  exact kingColsValid_updatesPrefix _ _ _ (kingColsValid_setRegularMove g _ hv hdv)

set_option maxHeartbeats 4000000 in
/-- C18, the general sentence as stated, fails in two ways.  (1) A stale castling flag: in
`staleRookMateGame` (the king fields agree with the board and the game is not over)
`blackRightCastle` is true although the black king stands on f1.  The capture b2 takes f2
is accepted and leaves the status `WHITE_PLAYER_WINS`; the status was computed while the
status field still said in-check, which makes `legalCastle` refuse every castle, and
afterwards `spChessGetPossibleMoves` offers a castle to the black pieces.  (2) The capture
of a king: in `kingTakenMateGame` (every true castling flag has king and rook at home and
the king recorded there) the capture e1 takes e8 of the black king is accepted and leaves
the status `WHITE_PLAYER_WINS`, and afterwards `spChessGetPossibleMoves` offers the castle
to the rook a8. -/
theorem C18_fools_mate_counterexample :
    (kingFieldsAgree staleRookMateGame ∧ nonTerminal staleRookMateGame
      ∧ ¬ castleConsistent staleRookMateGame
      ∧ staleRookMateGame.board 1 5 = BLACK_ROOK
      ∧ (spChessGameSetMove sampleEnv staleRookMateGame staleRookMateMove false false).1
          = SP_CHESS_GAME_SUCCESS
      ∧ wonGame
          (spChessGameSetMove sampleEnv staleRookMateGame staleRookMateMove false false).2.1
      ∧ ¬ noMovesLeft sampleEnv
          (spChessGameSetMove sampleEnv staleRookMateGame staleRookMateMove false false).2.1)
    ∧ (kingFieldsAgree kingTakenMateGame ∧ nonTerminal kingTakenMateGame
      ∧ castleHome kingTakenMateGame ∧ castleConsistent kingTakenMateGame
      ∧ kingTakenMateGame.board 7 4 = BLACK_KING
      ∧ (spChessGameSetMove sampleEnv kingTakenMateGame kingTakenMateMove false false).1
          = SP_CHESS_GAME_SUCCESS
      ∧ wonGame
          (spChessGameSetMove sampleEnv kingTakenMateGame kingTakenMateMove false false).2.1
      ∧ ¬ noMovesLeft sampleEnv
          (spChessGameSetMove sampleEnv kingTakenMateGame kingTakenMateMove false false).2.1) :=
  ⟨by decide!, by decide!⟩

/-- C18, amended: Fool's mate ends the game, and a win leaves no move.  With move lists of a
positive capacity: (1) from the game `spChessGameCreate` returns, `spChessGameSetMove(game,
move, false, false)` with f2-f3, e7-e5, g2-g4 and Qd8-h4 one after the other returns
`SP_CHESS_GAME_SUCCESS` four times and leaves the status `BLACK_PLAYER_WINS` with White to
move, and `spChessGetPossibleMoves` succeeds and leaves a fresh list empty for each of the 16
squares that hold a white piece; (2) in general, from a game whose recorded king squares are
on the board and in which a true castling flag has the owner's king on its first rank in its
recorded column, whenever `spChessGameSetMove` succeeds on a move as its callers build it
that captures no king (a castle of the engine being one `legalCastle` accepts), completes
the move (it does not hand the move back flagged for the user's choice of a piece) and
leaves the status at a win, `spChessGetPossibleMoves` succeeds and leaves a fresh list empty
for every square that holds a piece of the side to move; (3) the same holds after the
sequence of a user, `spChessGameSetMove` followed for a pawn that reached the last row by
`spChessGameSetPawnPromotion` with the chosen piece. -/
theorem C18_fools_mate (env : Env) (hcap : 0 < env.MAX_MOVES_FOR_PIECE) :
    (∀ (junk : Board) (historySize : Int), 0 < historySize →
      ∃ g, spChessGameCreate junk historySize = some g
        ∧ (playMoves env g foolsMate).1
            = [SP_CHESS_GAME_SUCCESS, SP_CHESS_GAME_SUCCESS, SP_CHESS_GAME_SUCCESS,
                SP_CHESS_GAME_SUCCESS]
        ∧ (playMoves env g foolsMate).2.status = BLACK_PLAYER_WINS
        ∧ (playMoves env g foolsMate).2.currentPlayer = WHITE_PLAYER
        ∧ (ownSquares (playMoves env g foolsMate).2).length = 16
        ∧ noMovesLeft env (playMoves env g foolsMate).2)
    ∧ (∀ (g : SPChessGame) (m : Move) (mm cm : Bool),
      castleConsistent g →
      validPosition g.whiteKingRow g.whiteKingCol = true →
      validPosition g.blackKingRow g.blackKingCol = true →
      builtByCaller g m cm →
      (cm = true → m.castleMove = true → (legalCastle g (enteredMove g m)).1 = true) →
      (m.castleMove = false →
        g.board m.dstRow m.dstCol ≠ WHITE_KING ∧ g.board m.dstRow m.dstCol ≠ BLACK_KING) →
      ((spChessGameSetMove env g m mm cm).2.2.pawnPromotion = true →
        m.pawnPromotion = true ∧ m.castleMove = false) →
      (spChessGameSetMove env g m mm cm).1 = SP_CHESS_GAME_SUCCESS →
      wonGame (spChessGameSetMove env g m mm cm).2.1 →
      noMovesLeft env (spChessGameSetMove env g m mm cm).2.1)
    ∧ (∀ (g : SPChessGame) (m : Move) (piece : Piece),
      castleConsistent g →
      validPosition g.whiteKingRow g.whiteKingCol = true →
      validPosition g.blackKingRow g.blackKingCol = true →
      builtByCaller g m false → m.pawnPromotion = false →
      (m.castleMove = false →
        g.board m.dstRow m.dstCol ≠ WHITE_KING ∧ g.board m.dstRow m.dstCol ≠ BLACK_KING) →
      (applyUserMove env g m piece).1 = SP_CHESS_GAME_SUCCESS →
      wonGame (applyUserMove env g m piece).2.1 →
      noMovesLeft env (applyUserMove env g m piece).2.1) := by
  refine ⟨?_, ?_, ?_⟩
  · intro junk historySize hh
    refine ⟨initialGame historySize, spChessGameCreate_eq junk historySize hh, ?_⟩
    obtain ⟨h1, h2, h3, h4, h5⟩ := foolsMate_played env (initialGame historySize) hcap rfl
    exact ⟨h1, h2, h3, h4, h5⟩
  · intro g m mm cm hcc hwk hbk hin hleg hnk hfin hs hwin
    exact setMove_won env hcap g m mm cm hcc hwk hbk hin hleg hnk hfin hs hwin
  · intro g m piece hcc hwk hbk hin hpp hnk hs hwin
    exact userMove_won env hcap g m piece hcc hwk hbk hin hpp hnk hs hwin

set_option maxHeartbeats 4000000 in
/-- C18 for lists of capacity 28: Fool's mate from the game created with a history of six
moves, the general part for the mating move Qd8-h4 in the game before it, and the part of a
user's promotion for a7-a8 promoted to a queen in `promotionMateGame`. -/
theorem C18_fools_mate_witness :
    (0 < sampleEnv.MAX_MOVES_FOR_PIECE)
    ∧ (∃ g, spChessGameCreate emptyBoard 6 = some g
        ∧ (playMoves sampleEnv g foolsMate).1
            = [SP_CHESS_GAME_SUCCESS, SP_CHESS_GAME_SUCCESS, SP_CHESS_GAME_SUCCESS,
                SP_CHESS_GAME_SUCCESS]
        ∧ (playMoves sampleEnv g foolsMate).2.status = BLACK_PLAYER_WINS
        ∧ (playMoves sampleEnv g foolsMate).2.currentPlayer = WHITE_PLAYER
        ∧ (ownSquares (playMoves sampleEnv g foolsMate).2).length = 16
        ∧ noMovesLeft sampleEnv (playMoves sampleEnv g foolsMate).2)
    ∧ wonGame (spChessGameSetMove sampleEnv beforeMate (userMove 7 3 3 7) false false).2.1
    ∧ noMovesLeft sampleEnv
        (spChessGameSetMove sampleEnv beforeMate (userMove 7 3 3 7) false false).2.1
    ∧ (spChessGameSetMove sampleEnv promotionMateGame samplePromotionMove false
        false).2.2.pawnPromotion = true
    ∧ wonGame (applyUserMove sampleEnv promotionMateGame samplePromotionMove WHITE_QUEEN).2.1
    ∧ noMovesLeft sampleEnv
        (applyUserMove sampleEnv promotionMateGame samplePromotionMove WHITE_QUEEN).2.1 :=
  have hA : castleConsistent beforeMate
      ∧ validPosition beforeMate.whiteKingRow beforeMate.whiteKingCol = true
      ∧ validPosition beforeMate.blackKingRow beforeMate.blackKingCol = true
      ∧ builtByCaller beforeMate (userMove 7 3 3 7) false
      ∧ (beforeMate.board 3 7 ≠ WHITE_KING ∧ beforeMate.board 3 7 ≠ BLACK_KING)
      ∧ (spChessGameSetMove sampleEnv beforeMate (userMove 7 3 3 7) false
          false).2.2.pawnPromotion = false
      ∧ (spChessGameSetMove sampleEnv beforeMate (userMove 7 3 3 7) false false).1
          = SP_CHESS_GAME_SUCCESS
      ∧ wonGame (spChessGameSetMove sampleEnv beforeMate (userMove 7 3 3 7) false false).2.1 := by
    decide!
  have hB : castleConsistent promotionMateGame
      ∧ validPosition promotionMateGame.whiteKingRow promotionMateGame.whiteKingCol = true
      ∧ validPosition promotionMateGame.blackKingRow promotionMateGame.blackKingCol = true
      ∧ builtByCaller promotionMateGame samplePromotionMove false
      ∧ (promotionMateGame.board 7 0 ≠ WHITE_KING ∧ promotionMateGame.board 7 0 ≠ BLACK_KING)
      ∧ (spChessGameSetMove sampleEnv promotionMateGame samplePromotionMove false
          false).2.2.pawnPromotion = true
      ∧ (applyUserMove sampleEnv promotionMateGame samplePromotionMove WHITE_QUEEN).1
          = SP_CHESS_GAME_SUCCESS
      ∧ wonGame
          (applyUserMove sampleEnv promotionMateGame samplePromotionMove WHITE_QUEEN).2.1 := by
    decide!
  ⟨by decide, (C18_fools_mate sampleEnv (by decide)).1 emptyBoard 6 (by decide),
    hA.2.2.2.2.2.2.2,
    (C18_fools_mate sampleEnv (by decide)).2.1 beforeMate (userMove 7 3 3 7) false false
      hA.1 hA.2.1 hA.2.2.1 hA.2.2.2.1
      (fun h => absurd h (by decide)) (fun _ => hA.2.2.2.2.1)
      (fun h => absurd (h.symm.trans hA.2.2.2.2.2.1) (by decide)) hA.2.2.2.2.2.2.1
      hA.2.2.2.2.2.2.2,
    hB.2.2.2.2.2.1, hB.2.2.2.2.2.2.2,
    (C18_fools_mate sampleEnv (by decide)).2.2 promotionMateGame samplePromotionMove
      WHITE_QUEEN hB.1 hB.2.1 hB.2.2.1 hB.2.2.2.1 rfl
      (fun _ => hB.2.2.2.2.1) hB.2.2.2.2.2.2.1 hB.2.2.2.2.2.2.2⟩

/-! ## The armies after any move through `spChessGameSetMove` -/

theorem counterOf_updatesPrefix (g : SPChessGame) (m : Move) (mm : Bool) (k : Piece)
    (hk : counted k = true) :
    counterOf (updatesPrefix g m mm) k =
      counterOf g k - (if m.dstPieceCaptured = true ∧ m.dstPiece = k then 1 else 0) := by
  rw [counterOf_congr _ _ (updatesPrefix_whiteArmy g m mm) (updatesPrefix_blackArmy g m mm)]
  cases hc : m.dstPieceCaptured
  · simp
  · simp only [↓reduceIte, counterOf_updatePiecesAmount _ _ _ _ hk, Bool.false_eq_true, true_and]
    split_ifs <;> omega

/-- The armies after `updatesAfterSettingMove` agree with the board when they do after the
accounting of the capture. -/
theorem armiesAgree_updatesAfter (env : Env) (X : SPChessGame) (mv : Move) (mm : Bool)
    (hcap : 0 < env.MAX_MOVES_FOR_PIECE)
    (hcc : mv.pawnPromotion = false → castleConsistent (updatesPrefix X mv mm))
    (h : armiesAgree (updatesPrefix X mv mm)) :
    armiesAgree (updatesAfterSettingMove env X mv mm).2 := by
  rw [updatesAfterSettingMove_eq]
  cases hp : mv.pawnPromotion
  · simp only [Bool.not_false, ↓reduceIte]
    rw [changePlayerAndUpdateStatus_eq2 env _ hcap (hcc hp), armiesAgree_flipAndStatus]
    exact h
  · simp only [Bool.not_true, Bool.false_eq_true, ↓reduceIte]
    exact h

/-- Lockstep after a regular move of the engine, whose capture fields are those
`addPieceMove` stored. -/
theorem armiesAgree_regular_engine (g : SPChessGame) (mv : Move) (mm : Bool)
    (hag : armiesAgree g)
    (hsv : validPosition mv.srcRow mv.srcCol = true)
    (hdv : validPosition mv.dstRow mv.dstCol = true)
    (hsp : mv.srcPiece = g.board mv.srcRow mv.srcCol)
    (hdp : mv.dstPiece = g.board mv.dstRow mv.dstCol)
    (hdc : mv.dstPieceCaptured = decide (g.board mv.dstRow mv.dstCol ≠ EMPTY_POSITION))
    (hne : ¬ (mv.dstRow = mv.srcRow ∧ mv.dstCol = mv.srcCol)) :
    armiesAgree (updatesPrefix (setRegularMove g mv) mv mm) := by
  apply armiesAgree_move g _ mv.srcRow mv.srcCol mv.dstRow mv.dstCol mv.dstPieceCaptured
    hag hsv hdv hne
  · intro h; rw [hdc]; simpa using h
  · rw [updatesPrefix_board, setRegularMove_board, hsp]
  · rw [updatesPrefix_whiteArmy, ← hdp]
    split_ifs
    · exact updatePiecesAmount_whiteArmy_congr _ _ _ _ (setRegularMove_whiteArmy _ _)
    · exact setRegularMove_whiteArmy _ _
  · rw [updatesPrefix_blackArmy, ← hdp]
    split_ifs
    · exact updatePiecesAmount_blackArmy_congr _ _ _ _ (setRegularMove_blackArmy _ _)
    · exact setRegularMove_blackArmy _ _

/-- Lockstep after a promotion of the engine: the pawn leaves the source, the promoted piece
stands on the destination, and the captured piece is taken from its counter. -/
theorem armiesAgree_promotion_engine (env : Env) (g : SPChessGame) (mv : Move) (mm : Bool)
    (hag : armiesAgree g)
    (hsv : validPosition mv.srcRow mv.srcCol = true)
    (hdv : validPosition mv.dstRow mv.dstCol = true)
    (hpawn : g.board mv.srcRow mv.srcCol = ownPawn g.currentPlayer)
    (hdp : mv.dstPiece = g.board mv.dstRow mv.dstCol)
    (hdc : mv.dstPieceCaptured = decide (g.board mv.dstRow mv.dstCol ≠ EMPTY_POSITION))
    (hne : ¬ (mv.dstRow = mv.srcRow ∧ mv.dstCol = mv.srcCol)) :
    armiesAgree (updatesPrefix (flipAndStatus env (promotionPrefix g mv true)) mv mm) := by
  rw [armiesAgree_iff] at hag ⊢
  intro k hk
  have hE : EMPTY_POSITION ≠ k := by rintro rfl; exact absurd hk (by decide)
  have hc : counterOf (flipAndStatus env (promotionPrefix g mv true)) k
      = counterOf (promotionPrefix g mv true) k := counterOf_congr _ _ rfl rfl k
  rw [counterOf_updatesPrefix _ _ _ _ hk, hc, promotionPrefix_counterOf _ _ _ _ hk,
    updatesPrefix_board]
  show _ = countPiece (promotionPrefix g mv true).board k
  rw [promotionPrefix_board]
  simp only [↓reduceIte]
  rw [countPiece_set _ _ _ _ _ hdv, countPiece_set _ _ _ _ _ hsv, ← hag k hk, hpawn, hdc, hdp]
  simp only [Board.set_apply, hne, ↓reduceIte, hE, decide_eq_true_eq]
  by_cases hd : g.board mv.dstRow mv.dstCol = k
  · have hk2 : ¬ k = EMPTY_POSITION := fun e => hE e.symm
    simp only [hd, hk2, ne_eq, not_false_eq_true, and_self, ↓reduceIte]
    omega
  · simp only [hd, and_false, ↓reduceIte]
    omega

theorem setCastleMove_dstPieceCaptured (g : SPChessGame) (m : Move) :
    (setCastleMove g m).2.dstPieceCaptured = m.dstPieceCaptured := by
  rw [setCastleMove_move]

/-- C9, amended: the ten army counters stay equal to the numbers of pieces on the board.  On
a state whose king fields agree with the board, whose true castling flags have king and rook
at home and whose counters agree with the board, with move lists of a positive capacity and
a move that captures no king: (1) after a successful `spChessGameSetMove`, for a user or the
engine, with a move as its callers build it (a castle of the engine being one `legalCastle`
accepts) the counters agree with the new board, for a regular move, a capture, a castle and
a promotion of the engine; (2) after the sequence of a user, `spChessGameSetMove` followed
for a pawn that reached the last row by `spChessGameSetPawnPromotion` with the chosen piece,
the counters agree with the new board. -/
theorem C9_armies_in_lockstep (env : Env) (g : SPChessGame) (m : Move)
    (hcap : 0 < env.MAX_MOVES_FOR_PIECE) (hk : kingFieldsAgree g) (hc : castleHome g)
    (hag : armiesAgree g)
    (hnk : m.castleMove = false →
      g.board m.dstRow m.dstCol ≠ WHITE_KING ∧ g.board m.dstRow m.dstCol ≠ BLACK_KING) :
    (∀ mm cm : Bool, builtByCaller g m cm →
      (cm = true → m.castleMove = true → (legalCastle g (enteredMove g m)).1 = true) →
      (spChessGameSetMove env g m mm cm).1 = SP_CHESS_GAME_SUCCESS →
      armiesAgree (spChessGameSetMove env g m mm cm).2.1)
    ∧ (∀ piece : Piece, m.pawnPromotion = false → m.dstPieceCaptured = false →
      (applyUserMove env g m piece).1 = SP_CHESS_GAME_SUCCESS →
      armiesAgree (applyUserMove env g m piece).2.1) := by
  have hcc := castleConsistent_of g hk hc
  constructor
  · intro mm cm hin hleg hs
    obtain ⟨hsrc, ho, hcase⟩ := setMove_success_cases env g m mm cm hs
    obtain ⟨hsq1, hsq2, hsq3, hsq4⟩ := enteredMove_squares g m
    rcases hcase with ⟨hcm, hr, hl, e1, -⟩ | ⟨hcm, hpp, hdst, e1, -⟩
        | ⟨hcm, hpp, hdst, hl, e1, -⟩
    · -- a castle
      obtain ⟨hown, -⟩ := ownRook_of _ _ ho hr
      have hlegal : (legalCastle g (enteredMove g m)).1 = true := by
        cases hc2 : cm
        · exact hl hc2
        · exact hleg hc2 hcm
      have hG : (checkedCastle g m cm).2 = g := by
        unfold checkedCastle
        split_ifs
        · exact legalCastle_game g _ hcc
        · rfl
      rw [e1, hG]
      have hrow := (legalCastle_side g _ hown hlegal).2.1
      have hdc : (setCastleMove g (enteredMove g m)).2.dstPieceCaptured = false := by
        rw [setCastleMove_dstPieceCaptured, enteredMove_dstPieceCaptured]; exact hin.1 hcm
      apply armiesAgree_updatesAfter env _ _ mm hcap
        (fun _ => castleConsistent_updatesPrefix _ _ _
          (castleConsistent_setCastleMove g _ hcc (by simpa using hcm) hown hrow))
      refine (armiesAgree_congr _ _ (updatesPrefix_board _ _ _)
        (updatesPrefix_armies_same _ _ mm hdc).1 (updatesPrefix_armies_same _ _ mm hdc).2).2
        (armiesAgree_setCastleMove g _ hk hc hown hlegal hag)
    · -- a promotion of the engine
      obtain ⟨hdp, hdcap, hf, hpawn⟩ := hin.2 hcm (Or.inr hpp)
      have hsk := ownPawn_not_king g.currentPlayer
      have hne : ¬ ((enteredMove g m).dstRow = (enteredMove g m).srcRow
          ∧ (enteredMove g m).dstCol = (enteredMove g m).srcCol) := by
        rw [hsq1, hsq2, hsq3, hsq4]
        rintro ⟨h1, h2⟩
        rw [h1, h2, hpawn hpp, ownPawn_own] at hf
        exact absurd hf (by decide)
      have hccP : castleConsistent (promotionPrefix g (enteredMove g m) true) :=
        castleConsistent_promotionPrefix g _ true hcc
          (fun _ => by rw [hsq1, hsq2, hpawn hpp]; exact hsk)
          (by rw [hsq3, hsq4]; exact (hnk hcm).1) (by rw [hsq3, hsq4]; exact (hnk hcm).2) hne
      rw [e1]
      apply armiesAgree_updatesAfter env _ _ mm hcap
        (fun h => by rw [enteredMove_pawnPromotion, hpp] at h; exact absurd h (by decide))
      rw [spChessGameSetPawnPromotion_eq, changePlayerAndUpdateStatus_eq2 env _ hcap hccP]
      exact armiesAgree_promotion_engine env g _ mm hag (by rw [hsq1, hsq2]; exact hsrc)
        (by rw [hsq3, hsq4]; exact hdst) (by rw [hsq1, hsq2]; exact hpawn hpp)
        (by rw [enteredMove_dstPiece, hsq3, hsq4]; exact hdp)
        (by rw [enteredMove_dstPieceCaptured, hsq3, hsq4]; exact hdcap) hne
    · -- a regular move
      have he := enteredMove_eq_stampMove g m hpp
      rw [e1]
      cases hc2 : cm
      · -- of a user
        have hlegal := hl hc2
        rw [he] at hlegal
        have hG : (checkedRegular g m false).2.1 = g := by
          simp only [checkedRegular, Bool.not_false, ↓reduceIte, he]
          exact legalRegularMove_game g _ rfl
        have hM : (checkedRegular g m false).2.2 = filledMove g (stampMove g m) := by
          simp only [checkedRegular, Bool.not_false, ↓reduceIte, he]
          exact legalRegularMove_move g _ hlegal
        rw [hG, hM]
        have ho2 : currentPlayerPiece g.currentPlayer (g.board m.srcRow m.srcCol) = true := by
          rw [he] at ho; exact ho
        exact armiesAgree_updatesAfter env _ _ mm hcap
          (fun _ => castleConsistent_regular g (filledMove g (stampMove g m)) mm hcc rfl
            (hnk hcm).1 (hnk hcm).2)
          (armiesAgree_regularPrefix g m mm hag hsrc hdst ho2 hlegal)
      · -- of the engine
        obtain ⟨hdp, hdcap, hf, -⟩ := hin.2 hcm (Or.inl hc2)
        have hG : (checkedRegular g m true).2.1 = g := rfl
        have hM : (checkedRegular g m true).2.2 = stampMove g m := he
        have ho2 : currentPlayerPiece g.currentPlayer (g.board m.srcRow m.srcCol) = true := by
          rw [he] at ho; exact ho
        have hne : ¬ (m.dstRow = m.srcRow ∧ m.dstCol = m.srcCol) := by
          rintro ⟨h1, h2⟩
          rw [h1, h2, ho2] at hf
          exact absurd hf (by decide)
        rw [hG, hM]
        exact armiesAgree_updatesAfter env _ _ mm hcap
          (fun _ => castleConsistent_regular g (stampMove g m) mm hcc rfl (hnk hcm).1 (hnk hcm).2)
          (armiesAgree_regular_engine g (stampMove g m) mm hag hsrc hdst rfl hdp hdcap hne)
  · intro piece hpp hdc hs
    exact armiesAgree_applyUserMove env g m piece hcap hk hc hag hpp hdc
      (fun h => (hnk h).1) (fun h => (hnk h).2) hs

/-- C9 on `sampleGame`: the promotion a7-a8 to a queen, as the engine's move through
`spChessGameSetMove` and as the sequence of a user. -/
theorem C9_armies_in_lockstep_witness :
    armiesAgree sampleGame
    ∧ armiesAgree (spChessGameSetMove sampleEnv sampleGame sampleEnginePromotion false true).2.1
    ∧ armiesAgree (applyUserMove sampleEnv sampleGame samplePromotionMove WHITE_QUEEN).2.1 :=
  ⟨samplePromotion_facts.1.2.2.1,
    (C9_armies_in_lockstep sampleEnv sampleGame sampleEnginePromotion (by decide)
      samplePromotion_facts.1.1 samplePromotion_facts.1.2.1 samplePromotion_facts.1.2.2.1
      (fun _ => samplePromotion_facts.1.2.2.2.2.2.1)).1 false true
      samplePromotion_facts.1.2.2.2.2.2.2
      (fun _ h => absurd h (by decide)) samplePromotion_facts.2.2.2.2.2.2.2.1,
    (C9_armies_in_lockstep sampleEnv sampleGame samplePromotionMove (by decide)
      samplePromotion_facts.1.1 samplePromotion_facts.1.2.1 samplePromotion_facts.1.2.2.1
      (fun _ => samplePromotion_facts.1.2.2.2.2.2.1)).2 WHITE_QUEEN rfl rfl
      samplePromotion_facts.2.1.2.1⟩

set_option maxHeartbeats 4000000 in
/-- C9, as stated, fails: the agreement of the ten counters with the board alone is not kept
by every successful move.  (1) In `staleQueenGame` the counters and the king fields agree
with the board, but `whiteLeftCastle` is true with the white king on e2; the king move
h8-g8 is accepted and captures nothing, and afterwards the counters no longer agree with
the board (the status computation has written a white king over the queen on e1).  (2) In
`kingOffHomeGame` the counters and the king fields agree with the board and the white king
stands on the first rank in its recorded column, but that column is d1 with
`whiteLeftCastle` true; the castle with the rook a1 is accepted and afterwards the counters
no longer agree with the board (the square e1 is emptied and the queen on it is lost).
(3) In `twoKingsCastleGame` the counters agree with the board and the true flag has king
and rook at home, but the king fields do not agree with the board (a second white king
stands on c1, the recorded square); the castle with the rook a1 is accepted and afterwards
the counters no longer agree with the board (the rook is written over the queen on d1). -/
theorem C9_armies_in_lockstep_counterexample :
    (armiesAgree staleQueenGame ∧ kingFieldsAgree staleQueenGame
      ∧ ¬ castleHome staleQueenGame
      ∧ staleQueenGame.board 7 6 = EMPTY_POSITION
      ∧ (spChessGameSetMove sampleEnv staleQueenGame staleQueenMove false false).1
          = SP_CHESS_GAME_SUCCESS
      ∧ ¬ armiesAgree
          (spChessGameSetMove sampleEnv staleQueenGame staleQueenMove false false).2.1)
    ∧ (armiesAgree kingOffHomeGame ∧ kingFieldsAgree kingOffHomeGame
      ∧ castleConsistent kingOffHomeGame ∧ ¬ castleHome kingOffHomeGame
      ∧ (spChessGameSetMove sampleEnv kingOffHomeGame castleLeftCommand false false).1
          = SP_CHESS_GAME_SUCCESS
      ∧ ¬ armiesAgree
          (spChessGameSetMove sampleEnv kingOffHomeGame castleLeftCommand false false).2.1)
    ∧ (armiesAgree twoKingsCastleGame ∧ castleHome twoKingsCastleGame
      ∧ castleConsistent twoKingsCastleGame ∧ ¬ kingFieldsAgree twoKingsCastleGame
      ∧ (spChessGameSetMove sampleEnv twoKingsCastleGame castleLeftCommand false false).1
          = SP_CHESS_GAME_SUCCESS
      ∧ ¬ armiesAgree
          (spChessGameSetMove sampleEnv twoKingsCastleGame castleLeftCommand false
            false).2.1) :=
  ⟨⟨staleQueen_facts.1.2.1, staleQueen_facts.1.1, staleQueen_facts.1.2.2.2.2.1,
      staleQueen_facts.1.2.2.2.2.2.2, staleQueen_facts.2.1, staleQueen_facts.2.2.2.1⟩,
    by decide!, by decide!⟩

/-! ## The engine's choice -/

theorem spArrayListRemoveAt_subset (l : SPArrayList) (j : Int) (x : Move)
    (h : x ∈ (spArrayListRemoveAt l j).1.elements) : x ∈ l.elements := by
  unfold spArrayListRemoveAt at h
  split_ifs at h
  · exact h
  · exact h
  · rcases List.mem_append.1 h with h1 | h1
    · exact List.mem_of_mem_take h1
    · exact List.mem_of_mem_drop h1

theorem spArrayListAddAt_subset (l : SPArrayList) (e : Move) (j : Int) (x : Move)
    (h : x ∈ (spArrayListAddAt l e j).1.elements) : x = e ∨ x ∈ l.elements := by
  unfold spArrayListAddAt at h
  split_ifs at h
  · exact Or.inr h
  · exact Or.inr h
  · rcases List.mem_append.1 h with h1 | h1
    · exact Or.inr (List.mem_of_mem_take h1)
    · rcases List.mem_cons.1 h1 with h2 | h2
      · exact Or.inl h2
      · exact Or.inr (List.mem_of_mem_drop h2)

theorem spArrayListGetAt_mem (l : SPArrayList) (j : Int) (x : Move)
    (h : spArrayListGetAt l j = some x) : x ∈ l.elements := by
  unfold spArrayListGetAt at h
  split_ifs at h
  exact List.get?_mem h

/-- A bubble pass adds no move to the list. -/
theorem sortMovesPass_subset (n : Nat) :
    ∀ (l : SPArrayList) (j : Int) (b : Bool) (x : Move),
      x ∈ (sortMovesPass n l j b).1.elements → x ∈ l.elements := by
  induction n with
  | zero => intro l j b x h; exact h
  | succ n ih =>
    intro l j b x h
    unfold sortMovesPass at h
    split at h
    · rename_i moveA moveB hA hB
      split_ifs at h
      · rcases spArrayListAddAt_subset _ _ _ _ (ih _ _ _ _ h) with h1 | h1
        · rw [h1]; exact spArrayListGetAt_mem l j moveA hA
        · exact spArrayListRemoveAt_subset _ _ _ h1
      · exact ih _ _ _ _ h
    · exact h

theorem sortMovesLoop_subset (amt : Int) (n : Nat) :
    ∀ (l : SPArrayList) (x : Move), x ∈ (sortMovesLoop amt n l).elements → x ∈ l.elements := by
  induction n with
  | zero => intro l x h; exact h
  | succ n ih =>
    intro l x h
    unfold sortMovesLoop at h
    simp only at h
    split_ifs at h
    · exact sortMovesPass_subset _ _ _ _ _ h
    · exact sortMovesPass_subset _ _ _ _ _ (ih _ _ h)

theorem maybeSort_subset (sort : Bool) (l : SPArrayList) (x : Move)
    (h : x ∈ (maybeSort sort l).elements) : x ∈ l.elements := by
  unfold maybeSort at h
  split_ifs at h
  · exact sortMovesLoop_subset _ _ _ _ h
  · exact h
  · exact h

theorem spArrayListGetAt_some (l : SPArrayList) (j : Int) (x : Move)
    (h : spArrayListGetAt l j = some x) : 0 ≤ j ∧ j < l.elements.length := by
  unfold spArrayListGetAt spArrayListSize at h
  split_ifs at h with hc
  omega

/-- A bubble pass does not empty the list. -/
theorem sortMovesPass_nonempty (n : Nat) :
    ∀ (l : SPArrayList) (j : Int) (b : Bool), l.elements ≠ [] →
      (sortMovesPass n l j b).1.elements ≠ [] := by
  induction n with
  | zero => intro l j b h; exact h
  | succ n ih =>
    intro l j b h
    unfold sortMovesPass
    split
    · rename_i moveA moveB hA hB
      split_ifs
      · apply ih
        have h1 := spArrayListGetAt_some l j moveA hA
        have h2 := spArrayListGetAt_some l (j + 1) moveB hB
        have hrem : (spArrayListRemoveAt l j).1.elements
            = l.elements.take j.toNat ++ l.elements.drop (j.toNat + 1) := by
          unfold spArrayListRemoveAt spArrayListIsEmpty spArrayListSize
          have c1 : ¬ (j < 0 ∨ j ≥ (l.elements.length : Int)) := by omega
          have c2 : ((l.elements.length : Int) == 0) = false := by
            rw [beq_eq_false_iff_ne]; omega
          simp only [c1, ↓reduceIte, c2, Bool.false_eq_true]
        have hlen : 0 < (spArrayListRemoveAt l j).1.elements.length := by
          rw [hrem, List.length_append, List.length_drop]
          omega
        intro hnil
        unfold spArrayListAddAt at hnil
        split_ifs at hnil
        · rw [hnil] at hlen; exact absurd hlen (by simp)
        · rw [hnil] at hlen; exact absurd hlen (by simp)
        · simp at hnil
      · exact ih _ _ _ h
    · exact h

theorem sortMovesLoop_nonempty (amt : Int) (n : Nat) :
    ∀ (l : SPArrayList), l.elements ≠ [] → (sortMovesLoop amt n l).elements ≠ [] := by
  induction n with
  | zero => intro l h; exact h
  | succ n ih =>
    intro l h
    unfold sortMovesLoop
    simp only
    split_ifs
    · exact sortMovesPass_nonempty _ _ _ _ h
    · exact ih _ (sortMovesPass_nonempty _ _ _ _ h)

theorem maybeSort_nonempty (sort : Bool) (l : SPArrayList) (h : l.elements ≠ []) :
    (maybeSort sort l).elements ≠ [] := by
  unfold maybeSort
  split_ifs
  · exact sortMovesLoop_nonempty _ _ _ h
  · exact h
  · exact h

theorem pushAll_keeps_nonempty (l : SPArrayList) (xs : List Move) (h : l.elements ≠ []) :
    (pushAll l xs).elements ≠ [] := by
  obtain ⟨y, hy⟩ := List.exists_mem_of_ne_nil _ h
  exact List.ne_nil_of_mem (pushAll_mem l xs y hy)

/-- Every move of the list the generator leaves was in the list before or is a candidate of
the piece. -/
theorem generatedList_subset (env : Env) (g : SPChessGame) (l : SPArrayList) (sr sc : Int)
    (sort mm : Bool) (x : Move) (h : x ∈ (generatedList env g l sr sc sort mm).elements) :
    x ∈ l.elements ∨ x ∈ pieceCandidates env g sr sc mm := by
  have hb : ∀ l2 : SPArrayList, x ∈ (bishopPart env g l2 sr sc sort).elements →
      x ∈ l2.elements ∨ x ∈ bishopCandidates env g sr sc := by
    intro l2 h2
    exact mem_pushAll _ _ _ (maybeSort_subset _ _ _ h2)
  have hr : ∀ l2 : SPArrayList, x ∈ (rookPart env g l2 sr sc sort).elements →
      x ∈ l2.elements ∨ x ∈ rookCandidates env g sr sc ++ rookCastleCandidates env g sr sc := by
    intro l2 h2
    rcases mem_pushAll _ _ _ h2 with h3 | h3
    · rcases mem_pushAll _ _ _ (maybeSort_subset _ _ _ h3) with h4 | h4
      · exact Or.inl h4
      · exact Or.inr (List.mem_append_left _ h4)
    · exact Or.inr (List.mem_append_right _ h3)
  unfold generatedList at h
  unfold pieceCandidates
  cases hp : g.board sr sc <;> simp only [hp] at h ⊢
  case EMPTY_POSITION => exact Or.inl h
  case WHITE_QUEEN =>
    rcases hr _ h with h1 | h1
    · rcases hb _ h1 with h2 | h2
      · exact Or.inl h2
      · exact Or.inr (List.mem_append_left _ h2)
    · exact Or.inr (List.mem_append_right _ h1)
  case BLACK_QUEEN =>
    rcases hr _ h with h1 | h1
    · rcases hb _ h1 with h2 | h2
      · exact Or.inl h2
      · exact Or.inr (List.mem_append_left _ h2)
    · exact Or.inr (List.mem_append_right _ h1)
  all_goals first
    | exact mem_pushAll _ _ _ h
    | exact hb _ h
    | exact hr _ h

/-- A piece with a candidate leaves a non-empty list, sorted or not, when the list it is
given is empty and has room. -/
theorem generatedList_nonempty (env : Env) (g : SPChessGame) (sr sc : Int) (sort mm : Bool)
    (hcap : 0 < env.MAX_MOVES_FOR_PIECE) (h : pieceCandidates env g sr sc mm ≠ []) :
    (generatedList env g (emptyMoveList env) sr sc sort mm).elements ≠ [] := by
  have hpush : ∀ xs : List Move, xs ≠ [] → (pushAll (emptyMoveList env) xs).elements ≠ [] :=
    fun xs hx => pushAll_nonempty (emptyMoveList env) xs rfl hcap hx
  have hb : bishopCandidates env g sr sc ≠ [] →
      (bishopPart env g (emptyMoveList env) sr sc sort).elements ≠ [] :=
    fun hx => maybeSort_nonempty _ _ (hpush _ hx)
  have hb0 : bishopCandidates env g sr sc = [] →
      bishopPart env g (emptyMoveList env) sr sc sort = emptyMoveList env := by
    intro hx
    unfold bishopPart
    rw [hx, pushAll_nil, maybeSort_empty _ _ rfl]
  have hr : ∀ l2 : SPArrayList, l2.elements ≠ [] →
      (rookPart env g l2 sr sc sort).elements ≠ [] :=
    fun l2 hl => pushAll_keeps_nonempty _ _ (maybeSort_nonempty _ _ (pushAll_keeps_nonempty _ _ hl))
  have hr0 : rookCandidates env g sr sc ++ rookCastleCandidates env g sr sc ≠ [] →
      (rookPart env g (emptyMoveList env) sr sc sort).elements ≠ [] := by
    intro hx
    unfold rookPart
    by_cases hrc : rookCandidates env g sr sc = []
    · rw [hrc, pushAll_nil, maybeSort_empty _ _ rfl]
      apply hpush
      simpa [hrc] using hx
    · exact pushAll_keeps_nonempty _ _ (maybeSort_nonempty _ _ (hpush _ hrc))
  unfold generatedList
  unfold pieceCandidates at h
  cases hp : g.board sr sc <;> simp only [hp] at h ⊢
  case EMPTY_POSITION => exact absurd rfl h
  case WHITE_QUEEN =>
    by_cases hbc : bishopCandidates env g sr sc = []
    · rw [hb0 hbc]; apply hr0; simpa [hbc] using h
    · exact hr _ (hb hbc)
  case BLACK_QUEEN =>
    by_cases hbc : bishopCandidates env g sr sc = []
    · rw [hb0 hbc]; apply hr0; simpa [hbc] using h
    · exact hr _ (hb hbc)
  all_goals first
    | exact hpush _ h
    | exact hb h
    | exact hr0 h

theorem changePlayerAndUpdateStatus_success (env : Env) (g : SPChessGame)
    (hcap : 0 < env.MAX_MOVES_FOR_PIECE) :
    (changePlayerAndUpdateStatus env g).1 = SP_CHESS_GAME_SUCCESS := by
  obtain ⟨g2, -, e⟩ := changePlayerAndUpdateStatus_any env g hcap
  rw [e]

theorem updatesAfterSettingMove_success (env : Env) (g : SPChessGame) (m : Move) (mm : Bool)
    (hcap : 0 < env.MAX_MOVES_FOR_PIECE) :
    (updatesAfterSettingMove env g m mm).1 = SP_CHESS_GAME_SUCCESS := by
  rw [updatesAfterSettingMove_eq]
  split_ifs
  · exact changePlayerAndUpdateStatus_success env _ hcap
  · rfl

theorem enteredMove_entry (g : SPChessGame) (m : Move) :
    (enteredMove g m).srcPiece = (entryMove g m).srcPiece := rfl

/-- The engine's `spChessGameSetMove` succeeds on a playable move. -/
theorem setMove_engine_success (env : Env) (g : SPChessGame) (m : Move) (mm : Bool)
    (hcap : 0 < env.MAX_MOVES_FOR_PIECE) (h : playable g m) :
    (spChessGameSetMove env g m mm true).1 = SP_CHESS_GAME_SUCCESS := by
  obtain ⟨hsrc, hdst, ho, hr⟩ := h
  rw [spChessGameSetMove_eq]
  have hpos : (!validPosition m.srcRow m.srcCol
      || (!m.castleMove && !validPosition m.dstRow m.dstCol)) = false := by
    rcases hdst with h | h <;> simp [hsrc, h]
  simp only [hpos, ho, Bool.false_eq_true, ↓reduceIte, Bool.not_true, enteredMove_castleMove,
    enteredMove_pawnPromotion, enteredMove_entry, Bool.false_and]
  by_cases hcm : m.castleMove = true
  · have hrook : ¬ ((entryMove g m).srcPiece ≠ WHITE_ROOK ∧ (entryMove g m).srcPiece ≠ BLACK_ROOK) := by
      rcases hr hcm with h | h <;> simp [h]
    simp only [hcm, ↓reduceIte, hrook]
    exact updatesAfterSettingMove_success env _ _ mm hcap
  · simp only [hcm, Bool.false_eq_true, ↓reduceIte]
    by_cases hpp : m.pawnPromotion = true
    · have hsp : (spChessGameSetPawnPromotion env g (enteredMove g m) true).1
          = SP_CHESS_GAME_SUCCESS := by
        rw [spChessGameSetPawnPromotion_eq]
        exact changePlayerAndUpdateStatus_success env _ hcap
      simp only [hpp, ↓reduceIte, hsp, ne_eq, not_true_eq_false]
      exact updatesAfterSettingMove_success env _ _ mm hcap
    · simp only [hpp, Bool.false_eq_true, ↓reduceIte]
      exact updatesAfterSettingMove_success env _ _ mm hcap

/-- The move the engine's `spChessGameSetMove` hands back: the move it was given with the
piece it worked with, the castling flags of the game and, for a castle, the column the rook
goes to. -/
theorem setMove_engine_move (env : Env) (g : SPChessGame) (m : Move) (mm : Bool)
    (hs : (spChessGameSetMove env g m mm true).1 = SP_CHESS_GAME_SUCCESS) :
    (spChessGameSetMove env g m mm true).2.2 =
      if m.castleMove = true then
        { enteredMove g m with
          dstCol := if (enteredMove g m).srcCol = LEFT_ROOK_COL then KING_COL - 1
            else KING_COL + 1 }
      else enteredMove g m := by
  obtain ⟨-, -, hcase⟩ := setMove_success_cases env g m mm true hs
  rcases hcase with ⟨hcm, -, -, -, e2⟩ | ⟨hcm, hpp, -, -, e2⟩ | ⟨hcm, hpp, -, -, -, e2⟩
  · rw [e2, setCastleMove_move, if_pos hcm]
  · rw [e2, if_neg (by rw [hcm]; decide)]
  · rw [e2, if_neg (by rw [hcm]; decide)]
    rfl

/-- A move the engine's `spChessGameSetMove` accepted is playable. -/
theorem playable_of_success (env : Env) (g : SPChessGame) (m : Move) (mm : Bool)
    (hs : (spChessGameSetMove env g m mm true).1 = SP_CHESS_GAME_SUCCESS) : playable g m := by
  obtain ⟨hsrc, ho, hcase⟩ := setMove_success_cases env g m mm true hs
  rcases hcase with ⟨hcm, hr, -⟩ | ⟨hcm, hpp, hdst, -⟩ | ⟨hcm, hpp, hdst, -⟩
  · exact ⟨hsrc, Or.inl hcm, ho, fun _ => hr⟩
  · exact ⟨hsrc, Or.inr hdst, ho, fun h => by rw [hcm] at h; exact absurd h (by decide)⟩
  · exact ⟨hsrc, Or.inr hdst, ho, fun h => by rw [hcm] at h; exact absurd h (by decide)⟩

/-- The move handed back by the engine's `spChessGameSetMove` is playable again, in any game
with the same board and side to move. -/
theorem playable_again (env : Env) (g g2 : SPChessGame) (m : Move) (mm : Bool)
    (hb : g2.board = g.board) (hp : g2.currentPlayer = g.currentPlayer)
    (hs : (spChessGameSetMove env g m mm true).1 = SP_CHESS_GAME_SUCCESS) :
    playable g2 (spChessGameSetMove env g m mm true).2.2 := by
  obtain ⟨hsrc, hdst, ho, hr⟩ := playable_of_success env g m mm hs
  rw [setMove_engine_move env g m mm hs]
  have key : ∀ x : Move, x.srcRow = m.srcRow → x.srcCol = m.srcCol →
      x.castleMove = m.castleMove → x.pawnPromotion = m.pawnPromotion →
      x.srcPiece = (entryMove g m).srcPiece →
      (m.castleMove = false → x.dstRow = m.dstRow ∧ x.dstCol = m.dstCol) → playable g2 x := by
    intro x h1 h2 h3 h4 h5 h6
    have hsp : (entryMove g2 x).srcPiece = (entryMove g m).srcPiece := by
      unfold entryMove
      rw [h4]
      cases hpp : m.pawnPromotion
      · simp only [Bool.not_false, ↓reduceIte, hb, h1, h2]
      · simp only [Bool.not_true, Bool.false_eq_true, ↓reduceIte]
        rw [h5]
        unfold entryMove
        simp [hpp]
    refine ⟨by rw [h1, h2]; exact hsrc, ?_, by rw [hsp, hp]; exact ho,
      fun h => by rw [hsp]; exact hr (h3 ▸ h)⟩
    rcases hdst with h | h
    · exact Or.inl (h3.trans h)
    · cases hcm : m.castleMove
      · rw [(h6 hcm).1, (h6 hcm).2]; exact Or.inr h
      · exact Or.inl (h3.trans hcm)
  obtain ⟨s1, s2, s3, s4⟩ := enteredMove_squares g m
  by_cases hcm : m.castleMove = true
  · rw [if_pos hcm]
    exact key _ s1 s2 (enteredMove_castleMove g m) (enteredMove_pawnPromotion g m) rfl
      (fun h => by rw [hcm] at h; exact absurd h (by decide))
  · rw [if_neg hcm]
    exact key _ s1 s2 (enteredMove_castleMove g m) (enteredMove_pawnPromotion g m) rfl
      (fun _ => ⟨s3, s4⟩)

theorem promotionMoves_own (m : Move) (p : Player) (x : Move) (h : x ∈ promotionMoves m p) :
    currentPlayerPiece p x.srcPiece = true ∧ x.srcRow = m.srcRow ∧ x.srcCol = m.srcCol
    ∧ x.dstRow = m.dstRow ∧ x.dstCol = m.dstCol ∧ x.castleMove = m.castleMove := by
  unfold promotionMoves at h
  simp only [List.mem_cons, List.mem_singleton, List.not_mem_nil, or_false] at h
  rcases h with rfl | rfl | rfl | rfl <;> cases p <;> exact ⟨rfl, rfl, rfl, rfl, rfl, rfl⟩

/-- The moves one call of `addPieceMove` hands to the list are playable. -/
theorem candidateMoves_playable (env : Env) (g : SPChessGame) (sr sc dr dc : Int)
    (castle mm : Bool) (hv : validPosition sr sc = true)
    (ho : currentPlayerPiece g.currentPlayer (g.board sr sc) = true)
    (hr : castle = true → g.board sr sc = WHITE_ROOK ∨ g.board sr sc = BLACK_ROOK)
    (x : Move) (h : x ∈ candidateMoves env g sr sc dr dc castle mm) : playable g x := by
  have key : ∀ y : Move, y.srcRow = sr → y.srcCol = sc →
      (y.castleMove = true ∨ validPosition y.dstRow y.dstCol = true) →
      currentPlayerPiece g.currentPlayer y.srcPiece = true →
      (y.castleMove = true → castle = true ∧ y.pawnPromotion = false) → playable g y := by
    intro y h1 h2 h3 h4 h5
    have hsp : currentPlayerPiece g.currentPlayer (entryMove g y).srcPiece = true := by
      unfold entryMove
      split_ifs
      · show currentPlayerPiece g.currentPlayer (g.board y.srcRow y.srcCol) = true
        rw [h1, h2]; exact ho
      · exact h4
    refine ⟨by rw [h1, h2]; exact hv, h3, hsp, fun hc => ?_⟩
    obtain ⟨hc1, hc2⟩ := h5 hc
    unfold entryMove
    simp only [hc2, Bool.not_false, ↓reduceIte, h1, h2]
    exact hr hc1
  unfold candidateMoves at h
  cases castle
  · simp only [Bool.false_eq_true, ↓reduceIte] at h
    split_ifs at h with h1 h2 h3
    · exact absurd h (List.not_mem_nil _)
    · obtain ⟨a1, a2, a3, a4, a5, a6⟩ := promotionMoves_own _ _ _ h
      have h1 : validPosition dr dc = true := by simpa using h1
      exact key x a2 a3 (Or.inr (by rw [a4, a5]; exact h1)) a1
        (fun hc => by rw [a6] at hc; exact absurd hc (by simp [filledMove, baseMove, spCreateMove]))
    · rw [List.mem_singleton] at h
      subst h
      have h1 : validPosition dr dc = true := by simpa using h1
      exact key _ rfl rfl (Or.inr h1) ho
        (fun hc => absurd hc (by simp [filledMove, baseMove, spCreateMove]))
    · exact absurd h (List.not_mem_nil _)
  · simp only [↓reduceIte] at h
    split_ifs at h
    · rw [List.mem_singleton] at h
      subst h
      exact key _ rfl rfl (Or.inl rfl) ho (fun _ => ⟨rfl, rfl⟩)
    · exact absurd h (List.not_mem_nil _)

theorem rayCandidates_playable (env : Env) (g : SPChessGame) (sr sc dr dc : Int)
    (hv : validPosition sr sc = true)
    (ho : currentPlayerPiece g.currentPlayer (g.board sr sc) = true) :
    ∀ (fuel : Nat) (r c : Int), ∀ x ∈ rayCandidates env g sr sc dr dc fuel r c, playable g x := by
  have hc : ∀ a b : Int, ∀ x ∈ candidateMoves env g sr sc a b false false, playable g x :=
    fun a b x hx => candidateMoves_playable env g sr sc a b false false hv ho
      (fun h => absurd h (by decide)) x hx
  intro fuel
  induction fuel with
  | zero => intro r c x hx; exact absurd hx (List.not_mem_nil _)
  | succ n ih =>
    intro r c x hx
    unfold rayCandidates at hx
    split_ifs at hx
    · exact absurd hx (List.not_mem_nil _)
    · exact hc _ _ x hx
    · exact absurd hx (List.not_mem_nil _)
    · rcases List.mem_append.1 hx with h | h
      · exact hc _ _ x h
      · exact ih _ _ x h

/-- Every candidate of a piece of the side to move is playable. -/
theorem pieceCandidates_playable (env : Env) (g : SPChessGame) (r c : Int) (mm : Bool)
    (hv : validPosition r c = true)
    (ho : currentPlayerPiece g.currentPlayer (g.board r c) = true) :
    ∀ x ∈ pieceCandidates env g r c mm, playable g x := by
  have hc : ∀ (a b : Int) (m : Bool), ∀ x ∈ candidateMoves env g r c a b false m, playable g x :=
    fun a b m x hx => candidateMoves_playable env g r c a b false m hv ho
      (fun h => absurd h (by decide)) x hx
  have hray := rayCandidates_playable env g r c
  have hnil : ∀ x ∈ ([] : List Move), playable g x := fun x hx => absurd hx (List.not_mem_nil _)
  have hbishop : ∀ x ∈ bishopCandidates env g r c, playable g x := by
    unfold bishopCandidates
    simp only [List.forall_mem_append]
    exact ⟨⟨⟨hray _ _ hv ho _ _ _, hray _ _ hv ho _ _ _⟩, hray _ _ hv ho _ _ _⟩,
      hray _ _ hv ho _ _ _⟩
  have hrook : ∀ x ∈ rookCandidates env g r c, playable g x := by
    unfold rookCandidates
    simp only [List.forall_mem_append]
    exact ⟨⟨⟨hray _ _ hv ho _ _ _, hray _ _ hv ho _ _ _⟩, hray _ _ hv ho _ _ _⟩,
      hray _ _ hv ho _ _ _⟩
  have hrc : ∀ x ∈ rookCastleCandidates env g r c, playable g x := by
    unfold rookCastleCandidates
    split_ifs with h
    · exact fun x hx => candidateMoves_playable env g r c _ _ true false hv ho (fun _ => h) x hx
    · exact hnil
  have hkc : ∀ x ∈ kingCastleCandidates env g (ownRook g.currentPlayer)
      (ownFirstRow g.currentPlayer), playable g x := by
    have hrow := ownFirstRow_range g.currentPlayer
    have hrk : ownRook g.currentPlayer = WHITE_ROOK ∨ ownRook g.currentPlayer = BLACK_ROOK := by
      unfold ownRook; split_ifs <;> simp
    have hown : currentPlayerPiece g.currentPlayer (ownRook g.currentPlayer) = true := by
      cases g.currentPlayer <;> rfl
    unfold kingCastleCandidates
    simp only [List.forall_mem_append]
    constructor
    · split_ifs with h
      · exact fun x hx => candidateMoves_playable env g _ _ _ _ true false
          ((validPosition_iff _ _).2 ⟨hrow.1, hrow.2, by decide, by decide⟩)
          (by rw [h]; exact hown) (fun _ => by rw [h]; exact hrk) x hx
      · exact hnil
    · split_ifs with h
      · exact fun x hx => candidateMoves_playable env g _ _ _ _ true false
          ((validPosition_iff _ _).2 ⟨hrow.1, hrow.2, by decide, by decide⟩)
          (by rw [h]; exact hown) (fun _ => by rw [h]; exact hrk) x hx
      · exact hnil
  have hpawn : ∀ x ∈ pawnCandidates env g r c mm, playable g x := by
    unfold pawnCandidates
    simp only [List.forall_mem_append]
    refine ⟨⟨⟨⟨?_, hc _ _ _⟩, hc _ _ _⟩, hc _ _ _⟩, ?_⟩
    · split_ifs
      · exact hc _ _ _
      · exact hnil
    · split_ifs
      · exact hc _ _ _
      · exact hnil
  have hknight : ∀ x ∈ knightCandidates env g r c, playable g x := by
    unfold knightCandidates
    simp only [List.forall_mem_append]
    exact ⟨⟨⟨⟨⟨⟨⟨hc _ _ _, hc _ _ _⟩, hc _ _ _⟩, hc _ _ _⟩, hc _ _ _⟩, hc _ _ _⟩, hc _ _ _⟩,
      hc _ _ _⟩
  have hking : ∀ x ∈ kingStepCandidates env g r c, playable g x := by
    unfold kingStepCandidates
    simp only [List.forall_mem_append]
    exact ⟨⟨⟨⟨⟨⟨⟨hc _ _ _, hc _ _ _⟩, hc _ _ _⟩, hc _ _ _⟩, hc _ _ _⟩, hc _ _ _⟩, hc _ _ _⟩,
      hc _ _ _⟩
  unfold pieceCandidates
  cases g.board r c <;> simp only [List.forall_mem_append] <;>
    first
    | exact hnil
    | exact hpawn
    | exact hknight
    | exact hbishop
    | exact ⟨hrook, hrc⟩
    | exact ⟨hbishop, hrook, hrc⟩
    | exact ⟨hking, hkc⟩

theorem INT_MIN_lt_INT_MAX : INT_MIN < INT_MAX := by decide

theorem spArrayListGetAt_get (l : SPArrayList) (j : Int) (h0 : 0 ≤ j)
    (h1 : j < spArrayListSize l) : ∃ x, spArrayListGetAt l j = some x ∧ x ∈ l.elements := by
  unfold spArrayListSize at h1
  have hlt : j.toNat < l.elements.length := by omega
  refine ⟨l.elements.get ⟨j.toNat, hlt⟩, ?_, List.get_mem _ _ _⟩
  unfold spArrayListGetAt spArrayListSize
  have c : ¬ (j < 0 ∨ j ≥ (l.elements.length : Int)) := by omega
  simp only [c, ↓reduceIte]
  exact List.get?_eq_get hlt

/-- One turn of the loop over the moves of a piece, when the copy, the move and
`spChessGameSetMove` succeed. -/
theorem searchMovesLoop_step (env : Env)
    (recurse : SPChessGame → Move → Int → Int → Int × Move) (l : SPArrayList)
    (maximize : Bool) (d : Int) (n : Nat) (moveNum : Int) (st : SearchState)
    (copy : SPChessGame) (x : Move)
    (hgu : st.gaveUp = false) (hguard : st.alpha < st.beta ∧ moveNum < spArrayListSize l)
    (hcopy : spChessGameCopy st.currentGame = some copy)
    (hx : spArrayListGetAt l moveNum = some x)
    (hs : (spChessGameSetMove env copy x true true).1 = SP_CHESS_GAME_SUCCESS) :
    searchMovesLoop env recurse l maximize d (n + 1) moveNum st
      = searchMovesLoop env recurse l maximize d n (moveNum + 1)
          (updateBoundsAndMove (spChessGameSetMove env copy x true true).2.2
            { st with minimaxMove := (recurse (spChessGameSetMove env copy x true true).2.1
                st.minimaxMove st.alpha st.beta).2 } maximize
            (recurse (spChessGameSetMove env copy x true true).2.1
                st.minimaxMove st.alpha st.beta).1 d) := by
  rw [searchMovesLoop]
  simp only [hgu, Bool.false_eq_true, ↓reduceIte, hguard, and_self, not_true_eq_false, hcopy, hx,
    hs, ne_eq]

/-- The loop over the moves of a piece stops when the window is closed or the list is
through. -/
theorem searchMovesLoop_stop (env : Env)
    (recurse : SPChessGame → Move → Int → Int → Int × Move) (l : SPArrayList)
    (maximize : Bool) (d : Int) (n : Nat) (moveNum : Int) (st : SearchState)
    (hguard : ¬ (st.alpha < st.beta ∧ moveNum < spArrayListSize l)) :
    searchMovesLoop env recurse l maximize d n moveNum st = st := by
  cases n with
  | zero => rfl
  | succ n =>
    rw [searchMovesLoop]
    simp only [hguard, not_false_eq_true, ↓reduceIte, ite_self]

theorem spChessGameCopy_eq (g : SPChessGame) (hhist : 0 < g.history.maxSize) :
    spChessGameCopy g
      = some { g with history := { elements := [], maxSize := g.history.maxSize } } := by
  unfold spChessGameCopy spArrayListCreate
  simp [not_le.2 hhist]

/-- At the root `updateBoundsAndMove` keeps the invariant and leaves a move stored. -/
theorem updateBounds_root (env : Env) (g : SPChessGame) (st : SearchState) (mv : Move)
    (v : Int) (hst : RootInv env g st) (hmv : engineChoice env g mv) :
    RootInv env g (updateBoundsAndMove mv st true v ROOT_DEPTH)
    ∧ (updateBoundsAndMove mv st true v ROOT_DEPTH).choseMove = true := by
  unfold updateBoundsAndMove
  simp only [Bool.true_and, decide_True, Bool.not_true, Bool.false_and, Bool.false_eq_true,
    ↓reduceIte]
  split_ifs with hc
  · exact ⟨⟨hst.gaveUp, hst.game, hst.beta, fun h => absurd h (by simp), fun _ => hmv⟩, rfl⟩
  · have hcm : st.choseMove = true := by
      by_contra hn
      apply hc
      simp only [Bool.not_eq_true] at hn
      simp [hn]
    exact ⟨hst, hcm⟩

/-- The loop over the moves of one piece at the root: the invariant is kept, a stored move
stays stored, and one turn of the loop stores a move. -/
theorem searchMovesLoop_root (env : Env) (g : SPChessGame)
    (recurse : SPChessGame → Move → Int → Int → Int × Move)
    (hrec : ∀ G mv a b, (recurse G mv a b).2 = mv)
    (hcap : 0 < env.MAX_MOVES_FOR_PIECE) (hhist : 0 < g.history.maxSize)
    (p : Int × Int) (hp : p ∈ ownSquares g) (l : SPArrayList)
    (hl : l = (getPossiblePieceMoves env g (emptyMoveList env) p.1 p.2 (g.board p.1 p.2)
        true true).2.2)
    (hplay : ∀ x ∈ l.elements, playable g x) :
    ∀ (remaining : Nat) (moveNum : Int) (st : SearchState), RootInv env g st → 0 ≤ moveNum →
      RootInv env g (searchMovesLoop env recurse l true ROOT_DEPTH remaining moveNum st)
      ∧ (st.choseMove = true →
          (searchMovesLoop env recurse l true ROOT_DEPTH remaining moveNum st).choseMove = true)
      ∧ (0 < remaining → moveNum < spArrayListSize l →
          (searchMovesLoop env recurse l true ROOT_DEPTH remaining moveNum st).choseMove
            = true) := by
  intro remaining
  induction remaining with
  | zero =>
    intro moveNum st hst _
    exact ⟨hst, fun h => h, fun h => absurd h (by decide)⟩
  | succ n ih =>
    intro moveNum st hst h0
    by_cases hguard : st.alpha < st.beta ∧ moveNum < spArrayListSize l
    · have hcopy := spChessGameCopy_eq g hhist
      rw [← hst.game] at hcopy
      obtain ⟨x, hx, hxmem⟩ := spArrayListGetAt_get l moveNum h0 hguard.2
      have hsucc : (spChessGameSetMove env
          { g with history := { elements := [], maxSize := g.history.maxSize } } x true true).1
          = SP_CHESS_GAME_SUCCESS :=
        setMove_engine_success env _ x true hcap (hplay x hxmem)
      have hsucc2 := hsucc
      rw [← hst.game] at hsucc2
      rw [searchMovesLoop_step env recurse l true ROOT_DEPTH n moveNum st _ x hst.gaveUp hguard
        hcopy hx hsucc2, hrec]
      have hchoice : engineChoice env g (spChessGameSetMove env
          { st.currentGame with
            history := { elements := [], maxSize := st.currentGame.history.maxSize } }
          x true true).2.2 := by
        rw [hst.game]
        exact ⟨p, hp, x, by rw [← hl]; exact hxmem, _, spChessGameCopy_eq g hhist, hsucc, rfl⟩
      obtain ⟨u1, u2⟩ := updateBounds_root env g st _
        (recurse (spChessGameSetMove env
          { st.currentGame with
            history := { elements := [], maxSize := st.currentGame.history.maxSize } }
          x true true).2.1 st.minimaxMove st.alpha st.beta).1 hst hchoice
      obtain ⟨i1, i2, -⟩ := ih (moveNum + 1) _ u1 (by omega)
      exact ⟨i1, fun _ => i2 u2, fun _ _ => i2 u2⟩
    · rw [searchMovesLoop_stop env recurse l true ROOT_DEPTH _ moveNum st hguard]
      refine ⟨hst, fun h => h, fun _ hlt => ?_⟩
      by_contra hn
      simp only [Bool.not_eq_true] at hn
      apply hguard
      refine ⟨?_, hlt⟩
      rw [hst.alpha hn, hst.beta]
      exact INT_MIN_lt_INT_MAX

theorem searchColsLoop_stop (env : Env)
    (recurse : SPChessGame → Move → Int → Int → Int × Move) (pm : SPArrayList)
    (maximize : Bool) (d row : Int) (cols : List Int) (st : SearchState)
    (hguard : ¬ (st.alpha < st.beta)) :
    searchColsLoop env recurse pm maximize d row cols st = st := by
  cases cols with
  | nil => rfl
  | cons c cs =>
    rw [searchColsLoop]
    simp only [hguard, not_false_eq_true, ↓reduceIte, ite_self]

theorem searchColsLoop_skip (env : Env)
    (recurse : SPChessGame → Move → Int → Int → Int × Move) (pm : SPArrayList)
    (maximize : Bool) (d row col : Int) (cols : List Int) (st : SearchState)
    (hgu : st.gaveUp = false) (hguard : st.alpha < st.beta)
    (ho : currentPlayerPiece st.currentGame.currentPlayer (st.currentGame.board row col) = false) :
    searchColsLoop env recurse pm maximize d row (col :: cols) st
      = searchColsLoop env recurse pm maximize d row cols st := by
  rw [searchColsLoop]
  simp only [hgu, Bool.false_eq_true, ↓reduceIte, hguard, not_true_eq_false, ho, Bool.not_false]

theorem searchColsLoop_own (env : Env)
    (recurse : SPChessGame → Move → Int → Int → Int × Move) (pm : SPArrayList)
    (maximize : Bool) (d row col : Int) (cols : List Int) (st : SearchState)
    (hgu : st.gaveUp = false) (hguard : st.alpha < st.beta)
    (ho : currentPlayerPiece st.currentGame.currentPlayer (st.currentGame.board row col) = true)
    (hgen : (getPossiblePieceMoves env st.currentGame pm row col (st.currentGame.board row col)
      true true).1 = SP_CHESS_GAME_SUCCESS) :
    searchColsLoop env recurse pm maximize d row (col :: cols) st
      = searchColsLoop env recurse pm maximize d row cols
          (searchMovesLoop env recurse
            (getPossiblePieceMoves env st.currentGame pm row col (st.currentGame.board row col)
              true true).2.2 maximize d
            (spArrayListSize (getPossiblePieceMoves env st.currentGame pm row col
              (st.currentGame.board row col) true true).2.2).toNat 0
            { st with currentGame := (getPossiblePieceMoves env st.currentGame pm row col
              (st.currentGame.board row col) true true).2.1 }) := by
  rw [searchColsLoop]
  simp only [hgu, Bool.false_eq_true, ↓reduceIte, hguard, not_true_eq_false, ho, Bool.not_true,
    hgen, ne_eq]

theorem searchRowsLoop_stop (env : Env)
    (recurse : SPChessGame → Move → Int → Int → Int × Move) (pm : SPArrayList)
    (maximize : Bool) (d : Int) (rows : List Int) (st : SearchState)
    (hguard : ¬ (st.alpha < st.beta)) :
    searchRowsLoop env recurse pm maximize d rows st = st := by
  cases rows with
  | nil => rfl
  | cons c cs =>
    rw [searchRowsLoop]
    simp only [hguard, not_false_eq_true, ↓reduceIte, ite_self]

theorem searchRowsLoop_cons (env : Env)
    (recurse : SPChessGame → Move → Int → Int → Int × Move) (pm : SPArrayList)
    (maximize : Bool) (d row : Int) (rows : List Int) (st : SearchState)
    (hgu : st.gaveUp = false) (hguard : st.alpha < st.beta) :
    searchRowsLoop env recurse pm maximize d (row :: rows) st
      = searchRowsLoop env recurse pm maximize d rows
          (searchColsLoop env recurse pm maximize d row [0, 1, 2, 3, 4, 5, 6, 7] st) := by
  rw [searchRowsLoop]
  simp only [hgu, Bool.false_eq_true, ↓reduceIte, hguard, not_true_eq_false]

theorem RootInv.window (env : Env) (g : SPChessGame) (st : SearchState) (h : RootInv env g st)
    (hc : ¬ (st.alpha < st.beta)) : st.choseMove = true := by
  by_contra hn
  simp only [Bool.not_eq_true] at hn
  apply hc
  rw [h.alpha hn, h.beta]
  exact INT_MIN_lt_INT_MAX

/-- The list the root of the search works with for the piece on `(row, col)`. -/
theorem rootList_playable (env : Env) (g : SPChessGame) (row col : Int)
    (hcc : castleConsistent g) (hv : validPosition row col = true)
    (ho : currentPlayerPiece g.currentPlayer (g.board row col) = true) :
    ∀ x ∈ (getPossiblePieceMoves env g (emptyMoveList env) row col (g.board row col)
        true true).2.2.elements, playable g x := by
  intro x hx
  rw [getPossiblePieceMoves_list env g _ row col true true hcc] at hx
  rcases generatedList_subset env g _ row col true true x hx with h | h
  · exact absurd h (List.not_mem_nil _)
  · exact pieceCandidates_playable env g row col true hv ho x h

/-- The loop over the columns of a row at the root: the invariant is kept, a stored move
stays stored, and a piece of the side to move with a candidate makes the loop store a
move. -/
theorem searchColsLoop_root (env : Env) (g : SPChessGame)
    (recurse : SPChessGame → Move → Int → Int → Int × Move)
    (hrec : ∀ G mv a b, (recurse G mv a b).2 = mv)
    (hcap : 0 < env.MAX_MOVES_FOR_PIECE) (hhist : 0 < g.history.maxSize)
    (hcc : castleConsistent g) (row : Int) (hrow : 0 ≤ row ∧ row < 8) :
    ∀ (cols : List Int) (st : SearchState), (∀ c ∈ cols, 0 ≤ c ∧ c < 8) → RootInv env g st →
      RootInv env g
        (searchColsLoop env recurse (emptyMoveList env) true ROOT_DEPTH row cols st)
      ∧ (st.choseMove = true →
          (searchColsLoop env recurse (emptyMoveList env) true ROOT_DEPTH row cols st).choseMove
            = true)
      ∧ ((∃ c ∈ cols, currentPlayerPiece g.currentPlayer (g.board row c) = true
            ∧ pieceCandidates env g row c true ≠ []) →
          (searchColsLoop env recurse (emptyMoveList env) true ROOT_DEPTH row cols st).choseMove
            = true) := by
  intro cols
  induction cols with
  | nil =>
    intro st _ hst
    refine ⟨hst, fun h => h, ?_⟩
    rintro ⟨c, hc, -⟩
    exact absurd hc (List.not_mem_nil _)
  | cons col cols ih =>
    intro st hcols hst
    have hcol := hcols col (List.mem_cons_self _ _)
    have hcols2 : ∀ c ∈ cols, 0 ≤ c ∧ c < 8 := fun c hc => hcols c (List.mem_cons_of_mem _ hc)
    by_cases hguard : st.alpha < st.beta
    · by_cases ho : currentPlayerPiece g.currentPlayer (g.board row col) = true
      · have hv : validPosition row col = true :=
          (validPosition_iff _ _).2 ⟨hrow.1, hrow.2, hcol.1, hcol.2⟩
        have hgame : (getPossiblePieceMoves env g (emptyMoveList env) row col (g.board row col)
            true true).2.1 = g := getPossiblePieceMoves_game env g _ row col _ true true hcc
        have hmsg := getPossiblePieceMoves_message env g (emptyMoveList env) row col
          (g.board row col) true true (own_ne_empty _ _ ho)
        have hstep := searchColsLoop_own env recurse (emptyMoveList env) true ROOT_DEPTH row col
          cols st hst.gaveUp hguard (by rw [hst.game]; exact ho) (by rw [hst.game]; exact hmsg)
        rw [hstep]
        have hst1 : ({ st with currentGame := (getPossiblePieceMoves env st.currentGame
            (emptyMoveList env) row col (st.currentGame.board row col) true true).2.1 }
            : SearchState) = st := by
          rw [hst.game, hgame, ← hst.game]
        rw [hst1, hst.game]
        have hp : (row, col) ∈ ownSquares g := by
          unfold ownSquares
          rw [List.mem_filter]
          exact ⟨(validPosition_iff_mem row col).1 hv, ho⟩
        obtain ⟨m1, m2, m3⟩ := searchMovesLoop_root env g recurse hrec hcap hhist (row, col) hp
          _ rfl (rootList_playable env g row col hcc hv ho)
          (spArrayListSize (getPossiblePieceMoves env g (emptyMoveList env) row col
            (g.board row col) true true).2.2).toNat 0 st hst (le_refl 0)
        obtain ⟨i1, i2, i3⟩ := ih _ hcols2 m1
        refine ⟨i1, fun h => i2 (m2 h), ?_⟩
        rintro ⟨c, hc, hown, hne⟩
        rcases List.mem_cons.1 hc with rfl | hc2
        · apply i2
          have hnonempty : (getPossiblePieceMoves env g (emptyMoveList env) row c
              (g.board row c) true true).2.2.elements ≠ [] := by
            rw [getPossiblePieceMoves_list env g _ row c true true hcc]
            exact generatedList_nonempty env g row c true true hcap hne
          have hsize : 0 < spArrayListSize (getPossiblePieceMoves env g (emptyMoveList env) row c
              (g.board row c) true true).2.2 := by
            unfold spArrayListSize
            have := List.length_pos.2 hnonempty
            omega
          exact m3 (by omega) hsize
        · exact i3 ⟨c, hc2, hown, hne⟩
      · simp only [Bool.not_eq_true] at ho
        rw [searchColsLoop_skip env recurse (emptyMoveList env) true ROOT_DEPTH row col cols st
          hst.gaveUp hguard (by rw [hst.game]; exact ho)]
        obtain ⟨i1, i2, i3⟩ := ih st hcols2 hst
        refine ⟨i1, i2, ?_⟩
        rintro ⟨c, hc, hown, hne⟩
        rcases List.mem_cons.1 hc with rfl | hc2
        · rw [ho] at hown; exact absurd hown (by decide)
        · exact i3 ⟨c, hc2, hown, hne⟩
    · rw [searchColsLoop_stop env recurse _ true ROOT_DEPTH row _ st hguard]
      exact ⟨hst, fun h => h, fun _ => RootInv.window env g st hst hguard⟩

/-- The loop over the rows at the root. -/
theorem searchRowsLoop_root (env : Env) (g : SPChessGame)
    (recurse : SPChessGame → Move → Int → Int → Int × Move)
    (hrec : ∀ G mv a b, (recurse G mv a b).2 = mv)
    (hcap : 0 < env.MAX_MOVES_FOR_PIECE) (hhist : 0 < g.history.maxSize)
    (hcc : castleConsistent g) :
    ∀ (rows : List Int) (st : SearchState), (∀ r ∈ rows, 0 ≤ r ∧ r < 8) → RootInv env g st →
      RootInv env g (searchRowsLoop env recurse (emptyMoveList env) true ROOT_DEPTH rows st)
      ∧ (st.choseMove = true →
          (searchRowsLoop env recurse (emptyMoveList env) true ROOT_DEPTH rows st).choseMove
            = true)
      ∧ ((∃ r ∈ rows, ∃ c ∈ [(0 : Int), 1, 2, 3, 4, 5, 6, 7],
            currentPlayerPiece g.currentPlayer (g.board r c) = true
            ∧ pieceCandidates env g r c true ≠ []) →
          (searchRowsLoop env recurse (emptyMoveList env) true ROOT_DEPTH rows st).choseMove
            = true) := by
  intro rows
  induction rows with
  | nil =>
    intro st _ hst
    refine ⟨hst, fun h => h, ?_⟩
    rintro ⟨r, hr, -⟩
    exact absurd hr (List.not_mem_nil _)
  | cons row rows ih =>
    intro st hrows hst
    have hrow := hrows row (List.mem_cons_self _ _)
    have hrows2 : ∀ r ∈ rows, 0 ≤ r ∧ r < 8 := fun r hr => hrows r (List.mem_cons_of_mem _ hr)
    by_cases hguard : st.alpha < st.beta
    · rw [searchRowsLoop_cons env recurse _ true ROOT_DEPTH row rows st hst.gaveUp hguard]
      obtain ⟨c1, c2, c3⟩ := searchColsLoop_root env g recurse hrec hcap hhist hcc row hrow
        [0, 1, 2, 3, 4, 5, 6, 7] st (by decide) hst
      obtain ⟨i1, i2, i3⟩ := ih _ hrows2 c1
      refine ⟨i1, fun h => i2 (c2 h), ?_⟩
      rintro ⟨r, hr, c, hc, hown, hne⟩
      rcases List.mem_cons.1 hr with rfl | hr2
      · exact i2 (c3 ⟨c, hc, hown, hne⟩)
      · exact i3 ⟨r, hr2, c, hc, hown, hne⟩
    · rw [searchRowsLoop_stop env recurse _ true ROOT_DEPTH _ st hguard]
      exact ⟨hst, fun h => h, fun _ => RootInv.window env g st hst hguard⟩

theorem updateBounds_move (mv : Move) (st : SearchState) (maximize : Bool) (v d : Int)
    (hd : d ≠ ROOT_DEPTH) : (updateBoundsAndMove mv st maximize v d).minimaxMove = st.minimaxMove := by
  unfold updateBoundsAndMove
  simp only [hd, ↓reduceIte, decide_False, Bool.false_and, Bool.or_false]
  split_ifs <;> rfl

/-- Below the root the loop over the moves of a piece leaves `*minimaxMove` as it was. -/
theorem searchMovesLoop_move (env : Env)
    (recurse : SPChessGame → Move → Int → Int → Int × Move)
    (hrec : ∀ G mv a b, (recurse G mv a b).2 = mv) (l : SPArrayList) (maximize : Bool)
    (d : Int) (hd : d ≠ ROOT_DEPTH) :
    ∀ (n : Nat) (moveNum : Int) (st : SearchState),
      (searchMovesLoop env recurse l maximize d n moveNum st).minimaxMove = st.minimaxMove := by
  intro n
  induction n with
  | zero => intro moveNum st; rfl
  | succ n ih =>
    intro moveNum st
    rw [searchMovesLoop]
    by_cases hgu : st.gaveUp = true
    · simp only [hgu, ↓reduceIte]
    · by_cases hguard : st.alpha < st.beta ∧ moveNum < spArrayListSize l
      · simp only [hgu, Bool.false_eq_true, ↓reduceIte, hguard, and_self, not_true_eq_false]
        cases spChessGameCopy st.currentGame <;> cases spArrayListGetAt l moveNum <;> simp only
        split_ifs
        · rfl
        · rw [ih, updateBounds_move _ _ _ _ _ hd]
          exact hrec _ _ _ _
      · simp only [hguard, not_false_eq_true, ↓reduceIte, ite_self]

theorem searchColsLoop_move (env : Env)
    (recurse : SPChessGame → Move → Int → Int → Int × Move)
    (hrec : ∀ G mv a b, (recurse G mv a b).2 = mv) (pm : SPArrayList) (maximize : Bool)
    (d : Int) (hd : d ≠ ROOT_DEPTH) (row : Int) :
    ∀ (cols : List Int) (st : SearchState),
      (searchColsLoop env recurse pm maximize d row cols st).minimaxMove = st.minimaxMove := by
  intro cols
  induction cols with
  | nil => intro st; rfl
  | cons col cols ih =>
    intro st
    rw [searchColsLoop]
    by_cases hgu : st.gaveUp = true
    · simp only [hgu, ↓reduceIte]
    · by_cases hguard : st.alpha < st.beta
      · simp only [hgu, Bool.false_eq_true, ↓reduceIte, hguard, not_true_eq_false]
        split_ifs
        · exact ih st
        · rfl
        · rw [ih, searchMovesLoop_move env recurse hrec _ maximize d hd]
      · simp only [hguard, not_false_eq_true, ↓reduceIte, ite_self]

theorem searchRowsLoop_move (env : Env)
    (recurse : SPChessGame → Move → Int → Int → Int × Move)
    (hrec : ∀ G mv a b, (recurse G mv a b).2 = mv) (pm : SPArrayList) (maximize : Bool)
    (d : Int) (hd : d ≠ ROOT_DEPTH) :
    ∀ (rows : List Int) (st : SearchState),
      (searchRowsLoop env recurse pm maximize d rows st).minimaxMove = st.minimaxMove := by
  intro rows
  induction rows with
  | nil => intro st; rfl
  | cons row rows ih =>
    intro st
    rw [searchRowsLoop]
    by_cases hgu : st.gaveUp = true
    · simp only [hgu, ↓reduceIte]
    · by_cases hguard : st.alpha < st.beta
      · simp only [hgu, Bool.false_eq_true, ↓reduceIte, hguard, not_true_eq_false]
        rw [ih, searchColsLoop_move env recurse hrec pm maximize d hd]
      · simp only [hguard, not_false_eq_true, ↓reduceIte, ite_self]

/-- Below the root `alphaBetaPruning` leaves `*minimaxMove` as it was. -/
theorem alphaBetaPruning_move (env : Env) (maxDepth : Int) (P : Player) :
    ∀ (fuel : Nat) (G : SPChessGame) (mv : Move) (d a b : Int), ROOT_DEPTH < d →
      (alphaBetaPruning env maxDepth P fuel G mv d a b).2.1 = mv := by
  intro fuel
  induction fuel with
  | zero => intro G mv d a b _; rfl
  | succ n ih =>
    intro G mv d a b hd
    have hne : d ≠ ROOT_DEPTH := ne_of_gt hd
    have hd1 : ROOT_DEPTH < d + 1 := by unfold ROOT_DEPTH at hd ⊢; omega
    rw [alphaBetaPruning]
    by_cases hleaf : d > ROOT_DEPTH ∧ (G.status = WHITE_PLAYER_WINS
        ∨ G.status = BLACK_PLAYER_WINS ∨ G.status = TIED_GAME ∨ d = maxDepth)
    · simp only [hleaf, and_self, ↓reduceIte]
    · simp only [hleaf, ↓reduceIte]
      cases spArrayListCreate env.MAX_MOVES_FOR_PIECE with
      | none => rfl
      | some pm =>
        have key := searchRowsLoop_move env
          (fun (descendantGame : SPChessGame) (mv : Move) (a b : Int) =>
            ((alphaBetaPruning env maxDepth P n descendantGame mv (d + 1) a b).1,
              (alphaBetaPruning env maxDepth P n descendantGame mv (d + 1) a b).2.1))
          (fun G2 mv2 a2 b2 => ih G2 mv2 (d + 1) a2 b2 hd1) pm (decide (d % 2 = 0)) d hne
          [0, 1, 2, 3, 4, 5, 6, 7]
          { currentGame := G, alpha := a, beta := b, minimaxMove := mv, choseMove := false,
            gaveUp := false }
        simp only [hne, ↓reduceIte]
        split_ifs <;> exact key

theorem candidateMoves_nil_minimax (env : Env) (g : SPChessGame) (sr sc dr dc : Int)
    (castle : Bool) :
    candidateMoves env g sr sc dr dc castle true = []
      ↔ candidateMoves env g sr sc dr dc castle false = [] := by
  unfold candidateMoves promotionMoves
  split_ifs <;> simp

theorem pieceCandidates_nil_minimax (env : Env) (g : SPChessGame) (r c : Int) :
    pieceCandidates env g r c true = [] ↔ pieceCandidates env g r c false = [] := by
  unfold pieceCandidates pawnCandidates
  cases g.board r c <;>
    simp only [List.append_eq_nil, candidateMoves_nil_minimax]

/-- The search at the root: with lists of a positive capacity and a game whose history can
be copied, on a state on which the castle simulation restores the board and in which the
side to move has a legal move, the search ends with a stored move that is a move of the
generator as `spChessGameSetMove` left it. -/
theorem alphaBetaPruning_root (env : Env) (g : SPChessGame) (maxDepth : Int) (fuel : Nat)
    (mv0 : Move) (hcap : 0 < env.MAX_MOVES_FOR_PIECE) (hhist : 0 < g.history.maxSize)
    (hcc : castleConsistent g) (hmove : hasLegalMove env g) :
    (alphaBetaPruning env maxDepth g.currentPlayer (fuel + 1) g mv0 ROOT_DEPTH INT_MIN
      INT_MAX).1 = INT_MAX
    ∧ engineChoice env g (alphaBetaPruning env maxDepth g.currentPlayer (fuel + 1) g mv0
        ROOT_DEPTH INT_MIN INT_MAX).2.1 := by
  have hcreate : spArrayListCreate env.MAX_MOVES_FOR_PIECE = some (emptyMoveList env) := by
    unfold spArrayListCreate emptyMoveList
    simp [not_le.2 hcap]
  have hrec : ∀ G mv a b,
      ((fun (descendantGame : SPChessGame) (mv : Move) (a b : Int) =>
        ((alphaBetaPruning env maxDepth g.currentPlayer fuel descendantGame mv
            (ROOT_DEPTH + 1) a b).1,
          (alphaBetaPruning env maxDepth g.currentPlayer fuel descendantGame mv
            (ROOT_DEPTH + 1) a b).2.1)) G mv a b).2 = mv :=
    fun G mv a b => alphaBetaPruning_move env maxDepth _ fuel G mv _ a b (by decide)
  have hinit : RootInv env g
      { currentGame := g, alpha := INT_MIN, beta := INT_MAX, minimaxMove := mv0,
        choseMove := false, gaveUp := false } :=
    ⟨rfl, rfl, rfl, fun _ => rfl, fun h => absurd h (by simp)⟩
  obtain ⟨r1, -, r3⟩ := searchRowsLoop_root env g _ hrec hcap hhist hcc
    [0, 1, 2, 3, 4, 5, 6, 7] _ (by decide) hinit
  have hex : ∃ r ∈ [(0 : Int), 1, 2, 3, 4, 5, 6, 7], ∃ c ∈ [(0 : Int), 1, 2, 3, 4, 5, 6, 7],
      currentPlayerPiece g.currentPlayer (g.board r c) = true
      ∧ pieceCandidates env g r c true ≠ [] := by
    rw [hasLegalMove_iff_candidates env g hcap hcc] at hmove
    obtain ⟨p, hp, ho, hne⟩ := hmove
    simp only [boardSquares, List.mem_flatMap, List.mem_map] at hp
    obtain ⟨r, hr, c, hc, rfl⟩ := hp
    exact ⟨r, hr, c, hc, ho, fun h => hne ((pieceCandidates_nil_minimax env g r c).1 h)⟩
  have hchose := r3 hex
  rw [alphaBetaPruning]
  have hroot : ¬ (ROOT_DEPTH > ROOT_DEPTH ∧ (g.status = WHITE_PLAYER_WINS
      ∨ g.status = BLACK_PLAYER_WINS ∨ g.status = TIED_GAME ∨ ROOT_DEPTH = maxDepth)) := by
    rintro ⟨h, -⟩
    exact absurd h (lt_irrefl _)
  have hmax : decide (ROOT_DEPTH % 2 = 0) = true := by decide
  simp only [hroot, ↓reduceIte, hcreate, hmax]
  simp only [r1.gaveUp, Bool.false_eq_true, ↓reduceIte]
  exact ⟨trivial, r1.chosen hchose⟩

theorem engineChoice_same (env : Env) (g : SPChessGame) (mv : Move)
    (h : engineChoice env g mv) :
    ∃ p ∈ ownSquares g,
      ∃ cand ∈ (getPossiblePieceMoves env g (emptyMoveList env) p.1 p.2 (g.board p.1 p.2)
          true true).2.2.elements, sameChessMove g mv cand := by
  obtain ⟨p, hp, cand, hc, copy, hcopy, hs, rfl⟩ := h
  refine ⟨p, hp, cand, hc, ?_⟩
  have hb : copy.board = g.board := by
    unfold spChessGameCopy at hcopy
    split at hcopy
    · exact absurd hcopy (by simp)
    · simp only [Option.some.injEq] at hcopy
      rw [← hcopy]
  rw [setMove_engine_move env copy cand true hs]
  obtain ⟨s1, s2, s3, s4⟩ := enteredMove_squares copy cand
  have hsp : (enteredMove copy cand).srcPiece
      = (if cand.pawnPromotion = true then cand.srcPiece
          else g.board cand.srcRow cand.srcCol) := by
    rw [enteredMove_srcPiece, hb]
  by_cases hcm : cand.castleMove = true
  · rw [if_pos hcm]
    exact ⟨s1, s2, s3, fun h => by rw [hcm] at h; exact absurd h (by decide),
      enteredMove_castleMove _ _, enteredMove_pawnPromotion _ _, enteredMove_dstPiece _ _,
      enteredMove_dstPieceCaptured _ _, hsp⟩
  · rw [if_neg hcm]
    exact ⟨s1, s2, s3, fun _ => s4, enteredMove_castleMove _ _, enteredMove_pawnPromotion _ _,
      enteredMove_dstPiece _ _, enteredMove_dstPieceCaptured _ _, hsp⟩

theorem nonTerminal_hasLegalMove (env : Env) (g : SPChessGame)
    (hcap : 0 < env.MAX_MOVES_FOR_PIECE) (hcc : castleConsistent g)
    (hst : statusAgrees env g) (hnt : nonTerminal g) : hasLegalMove env g := by
  by_contra hno
  unfold statusAgrees statusOf at hst
  rw [getGameStatus_classify env g _ _ hcap hcc, getGameStatus_classify env g _ _ hcap hcc] at hst
  unfold classifyStatus at hst
  simp only [hno, decide_False, Bool.false_eq_true, ↓reduceIte] at hst
  unfold nonTerminal at hnt
  rw [hst] at hnt
  split_ifs at hnt <;> rcases hnt with h | h <;> exact absurd h (by decide)

/-- C2: the engine never selects an illegal move.  With move lists of a positive capacity
and a game whose history can be copied (no allocation fails), for every `maxDepth >= 1` and
every state in which a true castling flag has the owner's king on its first rank in its
recorded column, whose status is the one `getGameStatus` computes and is no-check or
in-check: `spChessMinimaxMove` returns a move; the move is, for some square holding a piece
of the side to move, a move of the list `getPossiblePieceMoves` fills for that square
(sorted, promotions expanded) as `spChessGameSetMove` hands it back; and
`spChessGameSetMove(state, move, false, true)` returns `SP_CHESS_GAME_SUCCESS` on it. -/
theorem C2_engine_move_is_legal (env : Env) (g : SPChessGame) (maxDepth : Int)
    (hcap : 0 < env.MAX_MOVES_FOR_PIECE) (hhist : 0 < g.history.maxSize)
    (hd : 1 ≤ maxDepth) (hcc : castleConsistent g)
    (hst : statusAgrees env g) (hnt : nonTerminal g) :
    ∃ mv, (spChessMinimaxMove env g maxDepth).1 = some mv
      ∧ (∃ p ∈ ownSquares g,
          ∃ cand ∈ (getPossiblePieceMoves env g (emptyMoveList env) p.1 p.2 (g.board p.1 p.2)
              true true).2.2.elements, sameChessMove g mv cand)
      ∧ (spChessGameSetMove env g mv false true).1 = SP_CHESS_GAME_SUCCESS := by
  have hmove := nonTerminal_hasLegalMove env g hcap hcc hst hnt
  obtain ⟨r1, r2⟩ := alphaBetaPruning_root env g maxDepth maxDepth.toNat (spCreateMove env.junk)
    hcap hhist hcc hmove
  refine ⟨(alphaBetaPruning env maxDepth g.currentPlayer (maxDepth.toNat + 1) g
    (spCreateMove env.junk) ROOT_DEPTH INT_MIN INT_MAX).2.1, ?_, engineChoice_same env g _ r2, ?_⟩
  · unfold spChessMinimaxMove
    have h0 : ¬ maxDepth ≤ 0 := by omega
    have hne : ¬ (INT_MAX = INT_MIN) := by decide
    simp only [h0, ↓reduceIte, r1, hne, decide_False, Bool.false_eq_true]
  · obtain ⟨p, hp, cand, hc, copy, hcopy, hs, e⟩ := r2
    have hb : g.board = copy.board ∧ g.currentPlayer = copy.currentPlayer := by
      unfold spChessGameCopy at hcopy
      split at hcopy
      · exact absurd hcopy (by simp)
      · simp only [Option.some.injEq] at hcopy
        rw [← hcopy]
        exact ⟨rfl, rfl⟩
    rw [e]
    exact setMove_engine_success env g _ false hcap
      (playable_again env copy g cand true hb.1 hb.2 hs)

/-- C2 in the starting position, with lists of capacity 28 and a search of depth 1. -/
theorem C2_engine_move_is_legal_witness :
    ∃ mv, (spChessMinimaxMove sampleEnv (initialGame 6) 1).1 = some mv
      ∧ (∃ p ∈ ownSquares (initialGame 6),
          ∃ cand ∈ (getPossiblePieceMoves sampleEnv (initialGame 6) (emptyMoveList sampleEnv)
              p.1 p.2 ((initialGame 6).board p.1 p.2) true true).2.2.elements,
            sameChessMove (initialGame 6) mv cand)
      ∧ (spChessGameSetMove sampleEnv (initialGame 6) mv false true).1
          = SP_CHESS_GAME_SUCCESS :=
  C2_engine_move_is_legal sampleEnv (initialGame 6) 1 (by decide) (by decide) (by decide)
    (initialGame_consistent 6) (by decide!) (by decide)

/-! ## The generator against the validator -/

theorem spArrayListGetAt_eq (l : SPArrayList) (j : Int) (x : Move)
    (h : spArrayListGetAt l j = some x) :
    ∃ hlt : j.toNat < l.elements.length, x = l.elements.get ⟨j.toNat, hlt⟩ := by
  obtain ⟨h0, h1⟩ := spArrayListGetAt_some l j x h
  have hlt : j.toNat < l.elements.length := by omega
  refine ⟨hlt, ?_⟩
  unfold spArrayListGetAt spArrayListSize at h
  have c : ¬ (j < 0 ∨ j ≥ (l.elements.length : Int)) := by omega
  simp only [c, ↓reduceIte] at h
  rw [List.get?_eq_get hlt] at h
  exact (Option.some.inj h).symm

/-- The exchange of two neighbours in `sortMoves`, by `spArrayListRemoveAt` and
`spArrayListAddAt`, permutes a list that does not exceed its capacity. -/
theorem swap_perm (l : SPArrayList) (j : Int) (a b : Move)
    (hA : spArrayListGetAt l j = some a) (hB : spArrayListGetAt l (j + 1) = some b)
    (hfit : (l.elements.length : Int) ≤ l.maxSize) :
    ((spArrayListAddAt (spArrayListRemoveAt l j).1 a (j + 1)).1.elements).Perm l.elements := by
  obtain ⟨h0, -⟩ := spArrayListGetAt_some l j a hA
  obtain ⟨-, h1⟩ := spArrayListGetAt_some l (j + 1) b hB
  obtain ⟨hlt, ha⟩ := spArrayListGetAt_eq l j a hA
  have hrem : (spArrayListRemoveAt l j).1
      = { l with elements := l.elements.take j.toNat ++ l.elements.drop (j.toNat + 1) } := by
    unfold spArrayListRemoveAt spArrayListIsEmpty spArrayListSize
    have c1 : ¬ (j < 0 ∨ j ≥ (l.elements.length : Int)) := by omega
    have c2 : ((l.elements.length : Int) == 0) = false := by
      rw [beq_eq_false_iff_ne]; omega
    simp only [c1, ↓reduceIte, c2, Bool.false_eq_true]
  have hlen : (l.elements.take j.toNat ++ l.elements.drop (j.toNat + 1)).length
      = l.elements.length - 1 := by
    rw [List.length_append, List.length_take, List.length_drop]
    omega
  rw [hrem]
  unfold spArrayListAddAt spArrayListIsFull spArrayListSize
  simp only [hlen]
  have c1 : ¬ (j + 1 < 0 ∨ j + 1 > ((l.elements.length - 1 : Nat) : Int)) := by omega
  have c2 : ((((l.elements.length - 1 : Nat) : Int)) == l.maxSize) = false := by
    rw [beq_eq_false_iff_ne]; omega
  simp only [c1, ↓reduceIte, c2, Bool.false_eq_true]
  have hsplit : l.elements = l.elements.take j.toNat ++ a :: l.elements.drop (j.toNat + 1) := by
    rw [ha]
    conv_lhs => rw [← List.take_append_drop j.toNat l.elements]
    rw [List.drop_eq_getElem_cons hlt]
    rfl
  have p1 : (l.elements.take j.toNat ++ l.elements.drop (j.toNat + 1)).Perm
      ((l.elements.take j.toNat ++ l.elements.drop (j.toNat + 1)).take (j + 1).toNat
        ++ (l.elements.take j.toNat ++ l.elements.drop (j.toNat + 1)).drop (j + 1).toNat) := by
    rw [List.take_append_drop]
  calc ((l.elements.take j.toNat ++ l.elements.drop (j.toNat + 1)).take (j + 1).toNat
          ++ a :: (l.elements.take j.toNat ++ l.elements.drop (j.toNat + 1)).drop (j + 1).toNat)
      |>.Perm (a :: ((l.elements.take j.toNat ++ l.elements.drop (j.toNat + 1)).take (j + 1).toNat
          ++ (l.elements.take j.toNat ++ l.elements.drop (j.toNat + 1)).drop (j + 1).toNat)) :=
        List.perm_middle
    _ |>.Perm (a :: (l.elements.take j.toNat ++ l.elements.drop (j.toNat + 1))) := by
        rw [List.take_append_drop]
    _ |>.Perm (l.elements.take j.toNat ++ a :: l.elements.drop (j.toNat + 1)) :=
        List.perm_middle.symm
    _ |>.Perm l.elements := by rw [← hsplit]

theorem swap_maxSize (l : SPArrayList) (j : Int) (a : Move) :
    (spArrayListAddAt (spArrayListRemoveAt l j).1 a (j + 1)).1.maxSize = l.maxSize := by
  have h1 : (spArrayListRemoveAt l j).1.maxSize = l.maxSize := by
    unfold spArrayListRemoveAt
    split_ifs <;> rfl
  rw [← h1]
  unfold spArrayListAddAt
  split_ifs <;> rfl

theorem sortMovesPass_perm (n : Nat) :
    ∀ (l : SPArrayList) (j : Int) (s : Bool), (l.elements.length : Int) ≤ l.maxSize →
      ((sortMovesPass n l j s).1.elements).Perm l.elements
      ∧ (sortMovesPass n l j s).1.maxSize = l.maxSize := by
  induction n with
  | zero => intro l j s _; exact ⟨List.Perm.refl _, rfl⟩
  | succ k ih =>
    intro l j s hfit
    unfold sortMovesPass
    cases hA : spArrayListGetAt l j with
    | none => exact ⟨List.Perm.refl _, rfl⟩
    | some a =>
      cases hB : spArrayListGetAt l (j + 1) with
      | none => exact ⟨List.Perm.refl _, rfl⟩
      | some b =>
        simp only
        have hp := swap_perm l j a b hA hB hfit
        have hm := swap_maxSize l j a
        split_ifs
        · have hfit2 : ((spArrayListAddAt (spArrayListRemoveAt l j).1 a (j + 1)).1.elements.length
              : Int) ≤ (spArrayListAddAt (spArrayListRemoveAt l j).1 a (j + 1)).1.maxSize := by
            rw [hm, hp.length_eq]; exact hfit
          obtain ⟨i1, i2⟩ := ih _ (j + 1) true hfit2
          exact ⟨i1.trans hp, i2.trans hm⟩
        · exact ih l (j + 1) s hfit

theorem sortMovesLoop_perm (amount : Int) (n : Nat) :
    ∀ (l : SPArrayList), (l.elements.length : Int) ≤ l.maxSize →
      ((sortMovesLoop amount n l).elements).Perm l.elements
      ∧ (sortMovesLoop amount n l).maxSize = l.maxSize := by
  induction n with
  | zero => intro l _; exact ⟨List.Perm.refl _, rfl⟩
  | succ k ih =>
    intro l hfit
    unfold sortMovesLoop
    obtain ⟨p1, p2⟩ := sortMovesPass_perm (amount - 1).toNat l 0 false hfit
    simp only
    split_ifs
    · exact ⟨p1, p2⟩
    · have hfit2 : (((sortMovesPass (amount - 1).toNat l 0 false).1.elements.length : Int))
          ≤ (sortMovesPass (amount - 1).toNat l 0 false).1.maxSize := by
        rw [p2, p1.length_eq]; exact hfit
      obtain ⟨i1, i2⟩ := ih _ hfit2
      exact ⟨i1.trans p1, i2.trans p2⟩

/-- Sorting permutes a list that does not exceed its capacity. -/
theorem maybeSort_perm (sort : Bool) (l : SPArrayList)
    (hfit : (l.elements.length : Int) ≤ l.maxSize) :
    ((maybeSort sort l).elements).Perm l.elements ∧ (maybeSort sort l).maxSize = l.maxSize := by
  unfold maybeSort sortMoves
  split_ifs
  · exact sortMovesLoop_perm _ _ l hfit
  · exact ⟨List.Perm.refl _, rfl⟩
  · exact ⟨List.Perm.refl _, rfl⟩

theorem bishopPart_perm (env : Env) (g : SPChessGame) (l : SPArrayList) (sr sc : Int)
    (sort : Bool)
    (hfit : (l.elements.length : Int) + (bishopCandidates env g sr sc).length ≤ l.maxSize) :
    ((bishopPart env g l sr sc sort).elements).Perm (l.elements ++ bishopCandidates env g sr sc)
    ∧ (bishopPart env g l sr sc sort).maxSize = l.maxSize := by
  unfold bishopPart
  rw [pushAll_room _ _ hfit]
  exact maybeSort_perm sort _ (by simpa using hfit)

theorem rookPart_perm (env : Env) (g : SPChessGame) (l : SPArrayList) (sr sc : Int)
    (sort : Bool)
    (hfit : (l.elements.length : Int) + ((rookCandidates env g sr sc).length
      + (rookCastleCandidates env g sr sc).length : Nat) ≤ l.maxSize) :
    ((rookPart env g l sr sc sort).elements).Perm
      (l.elements ++ (rookCandidates env g sr sc ++ rookCastleCandidates env g sr sc)) := by
  unfold rookPart
  have h1 : (l.elements.length : Int) + (rookCandidates env g sr sc).length ≤ l.maxSize := by
    push_cast at hfit; omega
  rw [pushAll_room _ _ h1]
  obtain ⟨p1, p2⟩ := maybeSort_perm sort
    { l with elements := l.elements ++ rookCandidates env g sr sc } (by simpa using h1)
  rw [pushAll_room _ _ (by rw [p2, p1.length_eq]; push_cast at hfit; simp; omega)]
  simp only
  rw [← List.append_assoc]
  exact List.Perm.append_right _ p1

/-- With room for every candidate, the generated list is a permutation of the candidates. -/
theorem generatedList_perm (env : Env) (g : SPChessGame) (sr sc : Int) (sort mm : Bool)
    (hfit : ((pieceCandidates env g sr sc mm).length : Int) ≤ env.MAX_MOVES_FOR_PIECE) :
    ((generatedList env g (emptyMoveList env) sr sc sort mm).elements).Perm
      (pieceCandidates env g sr sc mm) := by
  have e0 : (emptyMoveList env).elements = [] := rfl
  have m0 : (emptyMoveList env).maxSize = env.MAX_MOVES_FOR_PIECE := rfl
  have push : ∀ xs : List Move, (xs.length : Int) ≤ env.MAX_MOVES_FOR_PIECE →
      pushAll (emptyMoveList env) xs = { emptyMoveList env with elements := xs } := by
    intro xs h
    rw [pushAll_room _ _ (by rw [e0, m0]; simpa using h), e0, List.nil_append]
  have bishop : ∀ h : ((bishopCandidates env g sr sc).length : Int) ≤ env.MAX_MOVES_FOR_PIECE,
      ((bishopPart env g (emptyMoveList env) sr sc sort).elements).Perm
        (bishopCandidates env g sr sc)
      ∧ (bishopPart env g (emptyMoveList env) sr sc sort).maxSize = env.MAX_MOVES_FOR_PIECE := by
    intro h
    have := bishopPart_perm env g (emptyMoveList env) sr sc sort (by rw [e0, m0]; simpa using h)
    rwa [e0, List.nil_append, m0] at this
  have rook : ∀ h : (((rookCandidates env g sr sc ++ rookCastleCandidates env g sr sc).length
        : Nat) : Int) ≤ env.MAX_MOVES_FOR_PIECE,
      ((rookPart env g (emptyMoveList env) sr sc sort).elements).Perm
        (rookCandidates env g sr sc ++ rookCastleCandidates env g sr sc) := by
    intro h
    have := rookPart_perm env g (emptyMoveList env) sr sc sort
      (by rw [e0, m0]; simpa using h)
    rwa [e0, List.nil_append] at this
  unfold generatedList
  unfold pieceCandidates at hfit ⊢
  cases hp : g.board sr sc <;> simp only [hp] at hfit ⊢
  case EMPTY_POSITION => rw [e0]
  case WHITE_PAWN => rw [push _ hfit]
  case BLACK_PAWN => rw [push _ hfit]
  case WHITE_KNIGHT => rw [push _ hfit]
  case BLACK_KNIGHT => rw [push _ hfit]
  case WHITE_KING => rw [push _ hfit]
  case BLACK_KING => rw [push _ hfit]
  case WHITE_BISHOP => exact (bishop hfit).1
  case BLACK_BISHOP => exact (bishop hfit).1
  case WHITE_ROOK => exact rook hfit
  case BLACK_ROOK => exact rook hfit
  case WHITE_QUEEN =>
    have hb : ((bishopCandidates env g sr sc).length : Int) ≤ env.MAX_MOVES_FOR_PIECE := by
      simp only [List.length_append] at hfit; push_cast at hfit; omega
    obtain ⟨b1, b2⟩ := bishop hb
    have := rookPart_perm env g (bishopPart env g (emptyMoveList env) sr sc sort) sr sc sort
      (by rw [b2, b1.length_eq]; simp only [List.length_append] at hfit; push_cast at hfit ⊢
          omega)
    exact this.trans (List.Perm.append_right _ b1)
  case BLACK_QUEEN =>
    have hb : ((bishopCandidates env g sr sc).length : Int) ≤ env.MAX_MOVES_FOR_PIECE := by
      simp only [List.length_append] at hfit; push_cast at hfit; omega
    obtain ⟨b1, b2⟩ := bishop hb
    have := rookPart_perm env g (bishopPart env g (emptyMoveList env) sr sc sort) sr sc sort
      (by rw [b2, b1.length_eq]; simp only [List.length_append] at hfit; push_cast at hfit ⊢
          omega)
    exact this.trans (List.Perm.append_right _ b1)

theorem squareMoves_append (env : Env) (g : SPChessGame) (sr sc : Int)
    (xs ys : List (Int × Int)) :
    squareMoves env g sr sc (xs ++ ys) = squareMoves env g sr sc xs ++ squareMoves env g sr sc ys := by
  induction xs with
  | nil => rfl
  | cons d ds ih =>
    show candidateMoves env g sr sc d.1 d.2 false false ++ squareMoves env g sr sc (ds ++ ys) = _
    rw [ih]
    simp only [squareMoves, List.append_assoc]

theorem squareMoves_one (env : Env) (g : SPChessGame) (sr sc r c : Int) :
    squareMoves env g sr sc [(r, c)] = candidateMoves env g sr sc r c false false := by
  simp only [squareMoves, List.append_nil]

theorem rayCandidates_squares (env : Env) (g : SPChessGame) (sr sc dr dc : Int) (fuel : Nat) :
    ∀ r c : Int, rayCandidates env g sr sc dr dc fuel r c
      = squareMoves env g sr sc (raySquares g dr dc fuel r c) := by
  induction fuel with
  | zero => intro r c; rfl
  | succ n ih =>
    intro r c
    unfold rayCandidates raySquares
    split_ifs
    · rfl
    · rw [squareMoves_one]
    · rfl
    · simp only [squareMoves, ih]

/-- The regular candidates of a piece are the moves of its proposed squares. -/
theorem regularCandidates_squares (env : Env) (g : SPChessGame) (sr sc : Int) :
    regularCandidates env g sr sc false = squareMoves env g sr sc (proposedSquares g sr sc) := by
  have hb : bishopCandidates env g sr sc = squareMoves env g sr sc (diagonalSquares g sr sc) := by
    unfold bishopCandidates diagonalSquares
    simp only [squareMoves_append, rayCandidates_squares]
  have hr : rookCandidates env g sr sc = squareMoves env g sr sc (straightSquares g sr sc) := by
    unfold rookCandidates straightSquares
    simp only [squareMoves_append, rayCandidates_squares]
  unfold regularCandidates proposedSquares
  cases hp : g.board sr sc <;> simp only
  case EMPTY_POSITION => rfl
  case WHITE_PAWN =>
    unfold pawnCandidates pawnSquares
    cases g.currentPlayer <;>
      simp [squareMoves]
  case BLACK_PAWN =>
    unfold pawnCandidates pawnSquares
    cases g.currentPlayer <;>
      simp [squareMoves]
  case WHITE_KNIGHT =>
    unfold knightCandidates knightSquares
    simp only [squareMoves, List.append_nil, List.append_assoc]
  case BLACK_KNIGHT =>
    unfold knightCandidates knightSquares
    simp only [squareMoves, List.append_nil, List.append_assoc]
  case WHITE_KING =>
    unfold kingStepCandidates kingSquares
    simp only [squareMoves, List.append_nil, List.append_assoc]
  case BLACK_KING =>
    unfold kingStepCandidates kingSquares
    simp only [squareMoves, List.append_nil, List.append_assoc]
  case WHITE_BISHOP => exact hb
  case BLACK_BISHOP => exact hb
  case WHITE_ROOK => exact hr
  case BLACK_ROOK => exact hr
  case WHITE_QUEEN => rw [hb, hr, squareMoves_append]
  case BLACK_QUEEN => rw [hb, hr, squareMoves_append]

theorem candidateMoves_count (env : Env) (g : SPChessGame) (sr sc r c dr dc : Int) :
    (candidateMoves env g sr sc r c false false).countP (regularTo dr dc)
      = if r = dr ∧ c = dc ∧ validPosition r c = true
          ∧ (legalRegularMove g (baseMove env g sr sc r c)).1 = true then 1 else 0 := by
  unfold candidateMoves
  simp only [Bool.false_eq_true, ↓reduceIte, Bool.false_and]
  by_cases hv : validPosition r c = true
  · by_cases hl : (legalRegularMove g (baseMove env g sr sc r c)).1 = true
    · simp only [hv, hl, Bool.not_true, Bool.false_eq_true, ↓reduceIte, and_true]
      have e : regularTo dr dc (filledMove g (baseMove env g sr sc r c))
          = decide (r = dr ∧ c = dc) := by
        simp [regularTo, filledMove, baseMove, spCreateMove]
      rw [List.countP_cons, List.countP_nil, e]
      by_cases h : r = dr ∧ c = dc
      · simp [h]
      · simp [h]
    · simp only [hv, hl, Bool.not_true, Bool.false_eq_true, ↓reduceIte, and_false,
        List.countP_nil]
  · have hv2 : validPosition r c = false := by simpa using hv
    simp [hv2]

/-- Among the moves of a list of proposed squares, the regular moves to an on-board square are
as many as the square is proposed, when the validator accepts it, and none otherwise. -/
theorem squareMoves_count (env : Env) (g : SPChessGame) (sr sc dr dc : Int)
    (hv : validPosition dr dc = true) (ps : List (Int × Int)) :
    (squareMoves env g sr sc ps).countP (regularTo dr dc)
      = if (legalRegularMove g (baseMove env g sr sc dr dc)).1 = true then ps.countP (fun p => decide (p = (dr, dc)))
        else 0 := by
  induction ps with
  | nil => simp [squareMoves]
  | cons d ds ih =>
    obtain ⟨r, c⟩ := d
    simp only [squareMoves, List.countP_append, ih, candidateMoves_count]
    by_cases hd : r = dr ∧ c = dc
    · obtain ⟨rfl, rfl⟩ := hd
      by_cases hl : (legalRegularMove g (baseMove env g sr sc r c)).1 = true
      · simp only [hl, hv, and_self, ↓reduceIte, List.countP_cons, decide_True]
        omega
      · simp [hl]
    · have hne : ¬ ((r, c) : Int × Int) = (dr, dc) := by
        intro h; exact hd ⟨(Prod.mk.inj h).1, (Prod.mk.inj h).2⟩
      have h0 : ¬ (r = dr ∧ c = dc ∧ validPosition r c = true
          ∧ (legalRegularMove g (baseMove env g sr sc r c)).1 = true) := fun h => hd ⟨h.1, h.2.1⟩
      simp only [if_neg h0, Nat.zero_add, List.countP_cons, hne, decide_False,
        Bool.false_eq_true, ↓reduceIte, Nat.add_zero]

theorem castleCandidate_count (env : Env) (g : SPChessGame) (sr sc dr dc : Int) :
    (candidateMoves env g sr sc DUMMY_COORDINATE DUMMY_COORDINATE true false).countP
      (regularTo dr dc) = 0 := by
  unfold candidateMoves
  simp only [↓reduceIte]
  split_ifs
  · simp [regularTo]
  · rfl

/-- The regular moves among the candidates of a piece are those of its proposed squares. -/
theorem pieceCandidates_count (env : Env) (g : SPChessGame) (sr sc dr dc : Int)
    (hv : validPosition dr dc = true) :
    (pieceCandidates env g sr sc false).countP (regularTo dr dc)
      = if (legalRegularMove g (baseMove env g sr sc dr dc)).1 = true
          then (proposedSquares g sr sc).countP (fun p => decide (p = (dr, dc)))
          else 0 := by
  rw [← squareMoves_count env g sr sc dr dc hv, ← regularCandidates_squares]
  have hrc : (rookCastleCandidates env g sr sc).countP (regularTo dr dc) = 0 := by
    unfold rookCastleCandidates
    split_ifs
    · exact castleCandidate_count env g sr sc dr dc
    · rfl
  have hkc : (kingCastleCandidates env g (ownRook g.currentPlayer)
      (ownFirstRow g.currentPlayer)).countP (regularTo dr dc) = 0 := by
    unfold kingCastleCandidates
    rw [List.countP_append]
    split_ifs <;> simp only [castleCandidate_count, List.countP_nil]
  unfold pieceCandidates regularCandidates
  cases hp : g.board sr sc <;> simp only [List.countP_append, hrc, hkc, Nat.add_zero]

/-- A square of a list without repetitions occurs in it once. -/
theorem countP_of_nodup (d : Int × Int) (ps : List (Int × Int)) (hn : ps.Nodup) (hm : d ∈ ps) :
    ps.countP (fun p => decide (p = d)) = 1 := by
  induction ps with
  | nil => simp at hm
  | cons a rest ih =>
    obtain ⟨h1, h2⟩ := List.nodup_cons.1 hn
    rw [List.countP_cons]
    by_cases e : a = d
    · subst e
      have h0 : rest.countP (fun p => decide (p = a)) = 0 := by
        rw [List.countP_eq_zero]
        intro p hp
        simp only [decide_eq_true_eq]
        rintro rfl
        exact h1 hp
      simp [h0]
    · rcases List.mem_cons.1 hm with h | h
      · exact absurd h.symm e
      · simp [e, ih h2 h]

theorem raySquares_mem (g : SPChessGame) (dr dc : Int) (fuel : Nat) :
    ∀ (r c x y : Int), (x, y) ∈ raySquares g dr dc fuel r c →
      ∃ k : Int, 0 ≤ k ∧ x = r + k * dr ∧ y = c + k * dc := by
  induction fuel with
  | zero => intro r c x y h; simp [raySquares] at h
  | succ n ih =>
    intro r c x y h
    unfold raySquares at h
    split_ifs at h
    · simp at h
    · simp only [List.mem_singleton, Prod.mk.injEq] at h
      exact ⟨0, le_refl _, by simp [h.1], by simp [h.2]⟩
    · simp at h
    · rcases List.mem_cons.1 h with h | h
      · simp only [Prod.mk.injEq] at h
        exact ⟨0, le_refl _, by simp [h.1], by simp [h.2]⟩
      · obtain ⟨k, hk, hx, hy⟩ := ih _ _ _ _ h
        exact ⟨k + 1, by omega, by rw [hx]; ring, by rw [hy]; ring⟩

theorem raySquares_nodup (g : SPChessGame) (dr dc : Int) (hd : dr ≠ 0 ∨ dc ≠ 0) (fuel : Nat) :
    ∀ (r c : Int), (raySquares g dr dc fuel r c).Nodup := by
  induction fuel with
  | zero => intro r c; simp [raySquares]
  | succ n ih =>
    intro r c
    unfold raySquares
    split_ifs
    · exact List.nodup_nil
    · exact List.nodup_singleton _
    · exact List.nodup_nil
    · refine List.nodup_cons.2 ⟨?_, ih _ _⟩
      intro h
      obtain ⟨k, hk, hx, hy⟩ := raySquares_mem g dr dc n _ _ _ _ h
      have e1 : (k + 1) * dr = 0 := by linarith
      have e2 : (k + 1) * dc = 0 := by linarith
      have k1 : k + 1 ≠ 0 := by omega
      rcases hd with hd | hd
      · exact hd ((mul_eq_zero.1 e1).resolve_left k1)
      · exact hd ((mul_eq_zero.1 e2).resolve_left k1)

theorem raysOf_mem (g : SPChessGame) (sr sc x y : Int) (ds : List (Int × Int))
    (h : (x, y) ∈ raysOf g sr sc ds) :
    ∃ d ∈ ds, ∃ k : Int, 1 ≤ k ∧ x = sr + k * d.1 ∧ y = sc + k * d.2 := by
  induction ds with
  | nil => simp [raysOf] at h
  | cons d rest ih =>
    unfold raysOf at h
    rcases List.mem_append.1 h with h | h
    · obtain ⟨k, hk, hx, hy⟩ := raySquares_mem g d.1 d.2 8 _ _ _ _ h
      exact ⟨d, List.mem_cons_self _ _, k + 1, by omega, by rw [hx]; ring, by rw [hy]; ring⟩
    · obtain ⟨e, he, hk⟩ := ih h
      exact ⟨e, List.mem_cons_of_mem _ he, hk⟩

/-- Two walks from the same square in different directions share no square. -/
theorem steps_apart (d e : Int × Int) (hd : unitStep d) (he : unitStep e) (hne : d ≠ e)
    (k j : Int) (hk : 1 ≤ k) (hj : 1 ≤ j)
    (h1 : k * d.1 = j * e.1) (h2 : k * d.2 = j * e.2) : False := by
  obtain ⟨d1, d2⟩ := d
  obtain ⟨e1, e2⟩ := e
  have hne2 : d1 ≠ e1 ∨ d2 ≠ e2 := by
    by_contra hcon
    push_neg at hcon
    exact hne (by rw [hcon.1, hcon.2])
  obtain ⟨a1, a2, -⟩ := hd
  obtain ⟨b1, b2, -⟩ := he
  simp only at a1 a2 b1 b2 h1 h2
  rcases a1 with rfl | rfl | rfl <;> rcases a2 with rfl | rfl | rfl <;>
    rcases b1 with rfl | rfl | rfl <;> rcases b2 with rfl | rfl | rfl <;> omega

theorem raysOf_nodup (g : SPChessGame) (sr sc : Int) (ds : List (Int × Int))
    (hu : ∀ d ∈ ds, unitStep d) (hn : ds.Nodup) : (raysOf g sr sc ds).Nodup := by
  induction ds with
  | nil => exact List.nodup_nil
  | cons d rest ih =>
    unfold raysOf
    have hd := hu d (List.mem_cons_self _ _)
    refine List.nodup_append.2 ⟨raySquares_nodup g d.1 d.2 hd.2.2 8 _ _,
      ih (fun e he => hu e (List.mem_cons_of_mem _ he)) (List.nodup_cons.1 hn).2, ?_⟩
    intro p hp1 hp2
    obtain ⟨x, y⟩ := p
    obtain ⟨k, hk, hx, hy⟩ := raySquares_mem g d.1 d.2 8 _ _ _ _ hp1
    obtain ⟨e, he, j, hj, hx2, hy2⟩ := raysOf_mem g sr sc x y rest hp2
    have hne : d ≠ e := by
      rintro rfl
      exact (List.nodup_cons.1 hn).1 he
    exact steps_apart d e hd (hu e (List.mem_cons_of_mem _ he)) hne (k + 1) j (by omega) hj
      (by linarith) (by linarith)

theorem diagonalSquares_eq (g : SPChessGame) (sr sc : Int) :
    diagonalSquares g sr sc = raysOf g sr sc
      [(GOING_DOWNWARDS, GOING_LEFT), (GOING_DOWNWARDS, GOING_RIGHT),
       (GOING_UPWARDS, GOING_LEFT), (GOING_UPWARDS, GOING_RIGHT)] := by
  simp only [diagonalSquares, raysOf, List.append_nil, List.append_assoc]

theorem straightSquares_eq (g : SPChessGame) (sr sc : Int) :
    straightSquares g sr sc = raysOf g sr sc
      [(GOING_DOWNWARDS, SAME_COL), (SAME_ROW, GOING_LEFT),
       (SAME_ROW, GOING_RIGHT), (GOING_UPWARDS, SAME_COL)] := by
  simp only [straightSquares, raysOf, List.append_nil, List.append_assoc]

theorem raysOf_append (g : SPChessGame) (sr sc : Int) (xs ys : List (Int × Int)) :
    raysOf g sr sc (xs ++ ys) = raysOf g sr sc xs ++ raysOf g sr sc ys := by
  induction xs with
  | nil => rfl
  | cons d ds ih =>
    show raySquares g d.1 d.2 8 (sr + d.1) (sc + d.2) ++ raysOf g sr sc (ds ++ ys) = _
    rw [ih]
    simp only [raysOf, List.append_assoc]

/-- No square is proposed twice for a piece. -/
theorem proposedSquares_nodup (g : SPChessGame) (sr sc : Int) :
    (proposedSquares g sr sc).Nodup := by
  have hd : (diagonalSquares g sr sc).Nodup := by
    rw [diagonalSquares_eq]
    exact raysOf_nodup g sr sc _ (by decide) (by decide)
  have hs : (straightSquares g sr sc).Nodup := by
    rw [straightSquares_eq]
    exact raysOf_nodup g sr sc _ (by decide) (by decide)
  have hq : (diagonalSquares g sr sc ++ straightSquares g sr sc).Nodup := by
    rw [diagonalSquares_eq, straightSquares_eq, ← raysOf_append]
    exact raysOf_nodup g sr sc _ (by decide) (by decide)
  have hn : (knightSquares sr sc).Nodup := by
    unfold knightSquares
    simp only [List.nodup_cons, List.mem_cons, List.mem_singleton, Prod.mk.injEq,
      List.not_mem_nil, List.nodup_nil, not_or, not_and, and_true, not_false_eq_true]
    omega
  have hk : (kingSquares sr sc).Nodup := by
    unfold kingSquares
    simp only [List.nodup_cons, List.mem_cons, List.mem_singleton, Prod.mk.injEq,
      List.not_mem_nil, List.nodup_nil, not_or, not_and, and_true, not_false_eq_true]
    omega
  have hp : (pawnSquares g sr sc).Nodup := by
    unfold pawnSquares
    cases g.currentPlayer <;>
      simp only [reduceCtorEq, ↓reduceIte, List.nil_append, List.append_nil, List.cons_append,
        List.nodup_cons, List.mem_cons, List.mem_singleton, Prod.mk.injEq,
        List.not_mem_nil, List.nodup_nil, not_or, not_and, and_true, not_false_eq_true] <;>
      omega
  unfold proposedSquares
  cases g.board sr sc <;> simp only
  all_goals first
    | exact hd | exact hs | exact hq | exact hn | exact hk | exact hp | exact List.nodup_nil

theorem rivalPiece_of_foreign (p : Player) (x : Piece) (h1 : currentPlayerPiece p x = false)
    (h2 : x ≠ EMPTY_POSITION) : rivalPiece p x = true := by
  cases p <;> cases x <;> simp_all [currentPlayerPiece, rivalPiece]

theorem step_between (d k r : Int) (hd : d = -1 ∨ d = 0 ∨ d = 1) (hk : 1 ≤ k)
    (h0 : 0 ≤ r) (h8 : r < 8) (e0 : 0 ≤ r + k * d) (e8 : r + k * d < 8) :
    0 ≤ r + d ∧ r + d < 8 := by
  rcases hd with rfl | rfl | rfl <;> omega

theorem step_reached (d : Int × Int) (hu : unitStep d) (k r c : Int) (hk : 1 ≤ k)
    (h1 : r + d.1 = r + k * d.1) (h2 : c + d.2 = c + k * d.2) : k = 1 := by
  obtain ⟨d1, d2⟩ := d
  obtain ⟨a1, a2, a3⟩ := hu
  simp only at a1 a2 a3 h1 h2
  rcases a1 with rfl | rfl | rfl <;> rcases a2 with rfl | rfl | rfl <;> omega

/-- A route `vacantRouteToDst` finds vacant ends on a square the walk of the generator in the
same direction proposes. -/
theorem route_mem (g : SPChessGame) (dR dC : Int) (d : Int × Int) (hu : unitStep d)
    (hvd : validPosition dR dC = true)
    (hno : currentPlayerPiece g.currentPlayer (g.board dR dC) = false) (fuel : Nat) :
    ∀ (k r c : Int), 1 ≤ k → dR = r + k * d.1 → dC = c + k * d.2 → validPosition r c = true →
      vacantRouteToDstLoop g.board dR dC d.1 d.2 fuel r c = true →
      (dR, dC) ∈ raySquares g d.1 d.2 fuel (r + d.1) (c + d.2) := by
  induction fuel with
  | zero => intro k r c _ _ _ _ h; simp [vacantRouteToDstLoop] at h
  | succ n ih =>
    intro k r c hk hR hC hv h
    obtain ⟨v1, v2, v3, v4⟩ := (validPosition_iff _ _).1 hv
    obtain ⟨w1, w2, w3, w4⟩ := (validPosition_iff _ _).1 hvd
    have b1 := step_between d.1 k r hu.1 hk v1 v2 (by omega) (by omega)
    have b2 := step_between d.2 k c hu.2.1 hk v3 v4 (by omega) (by omega)
    have hv2 : validPosition (r + d.1) (c + d.2) = true :=
      (validPosition_iff _ _).2 ⟨b1.1, b1.2, b2.1, b2.2⟩
    unfold vacantRouteToDstLoop at h
    simp only at h
    unfold raySquares
    simp only [hv2, Bool.not_true, Bool.false_eq_true, ↓reduceIte]
    by_cases hk1 : k = 1
    · subst hk1
      have e1 : r + d.1 = dR := by rw [hR]; ring
      have e2 : c + d.2 = dC := by rw [hC]; ring
      rw [e1, e2]
      by_cases hE : g.board dR dC = EMPTY_POSITION
      · simp only [hE, ne_eq, not_true_eq_false, ↓reduceIte]
        exact List.mem_cons_self _ _
      · simp only [ne_eq, hE, not_false_eq_true, ↓reduceIte,
          rivalPiece_of_foreign _ _ hno hE]
        exact List.mem_singleton_self _
    · have hnr : ¬ (r + d.1 = dR ∧ c + d.2 = dC) := by
        rintro ⟨e1, e2⟩
        exact hk1 (step_reached d hu k r c hk (by rw [e1, hR]) (by rw [e2, hC]))
      have hdec : (decide (r + d.1 = dR) && decide (c + d.2 = dC)) = false := by
        simpa using hnr
      rw [hdec] at h
      by_cases hE : g.board (r + d.1) (c + d.2) = EMPTY_POSITION
      · simp only [hE, decide_True, Bool.not_false, Bool.and_self, ↓reduceIte] at h
        simp only [hE, ne_eq, not_true_eq_false, ↓reduceIte]
        exact List.mem_cons_of_mem _
          (ih (k - 1) (r + d.1) (c + d.2) (by omega) (by rw [hR]; ring) (by rw [hC]; ring)
            hv2 h)
      · simp [hE] at h

theorem raysOf_mem_of (g : SPChessGame) (sr sc : Int) (p : Int × Int) (d : Int × Int)
    (ds : List (Int × Int)) (hd : d ∈ ds)
    (h : p ∈ raySquares g d.1 d.2 8 (sr + d.1) (sc + d.2)) : p ∈ raysOf g sr sc ds := by
  induction ds with
  | nil => simp at hd
  | cons e rest ih =>
    unfold raysOf
    rcases List.mem_cons.1 hd with rfl | hd
    · exact List.mem_append_left _ h
    · exact List.mem_append_right _ (ih hd)

theorem axis_walk (s t : Int) (h : t ≠ s) :
    1 ≤ cAbs (t - s) ∧ t = s + cAbs (t - s) * (if t > s then 1 else -1) := by
  unfold cAbs
  split_ifs <;> constructor <;> omega

/-- A diagonal route the validator accepts ends on a square of the diagonal walks. -/
theorem diagonal_mem (g : SPChessGame) (sr sc dr dc : Int)
    (hvs : validPosition sr sc = true) (hvd : validPosition dr dc = true)
    (hno : currentPlayerPiece g.currentPlayer (g.board dr dc) = false)
    (hne : dr ≠ sr ∨ dc ≠ sc) (hdiag : cAbs (dr - sr) = cAbs (dc - sc))
    (h : vacantRouteToDstLoop g.board dr dc (if dr > sr then 1 else -1)
      (if dc > sc then 1 else -1) 8 sr sc = true) :
    (dr, dc) ∈ diagonalSquares g sr sc := by
  have hr : dr ≠ sr := by
    intro e
    rcases hne with h1 | h1
    · exact h1 e
    · rw [e] at hdiag; unfold cAbs at hdiag; split_ifs at hdiag <;> omega
  have hc : dc ≠ sc := by
    intro e
    rw [e] at hdiag; unfold cAbs at hdiag; split_ifs at hdiag <;> omega
  obtain ⟨k1, e1⟩ := axis_walk sr dr hr
  obtain ⟨-, e2⟩ := axis_walk sc dc hc
  rw [← hdiag] at e2
  rw [diagonalSquares_eq]
  have hu : unitStep ((if dr > sr then 1 else -1), (if dc > sc then 1 else -1)) := by
    unfold unitStep; split_ifs <;> decide
  have := route_mem g dr dc ((if dr > sr then 1 else -1), (if dc > sc then 1 else -1)) hu hvd hno
    8 (cAbs (dr - sr)) sr sc k1 e1 e2 hvs h
  refine raysOf_mem_of g sr sc _ _ _ ?_ this
  split_ifs <;> decide

/-- A route along a row the validator accepts ends on a square of the straight walks. -/
theorem row_mem (g : SPChessGame) (sr sc dc : Int)
    (hvs : validPosition sr sc = true) (hvd : validPosition sr dc = true)
    (hno : currentPlayerPiece g.currentPlayer (g.board sr dc) = false)
    (hc : dc ≠ sc)
    (h : vacantRouteToDstLoop g.board sr dc 0 (if dc > sc then 1 else -1) 8 sr sc = true) :
    (sr, dc) ∈ straightSquares g sr sc := by
  obtain ⟨k1, e2⟩ := axis_walk sc dc hc
  rw [straightSquares_eq]
  have hu : unitStep ((0 : Int), (if dc > sc then (1 : Int) else -1)) := by
    unfold unitStep; split_ifs <;> decide
  have := route_mem g sr dc ((0 : Int), (if dc > sc then (1 : Int) else -1)) hu hvd hno
    8 (cAbs (dc - sc)) sr sc k1 (by simp) e2 hvs h
  refine raysOf_mem_of g sr sc _ _ _ ?_ this
  split_ifs <;> decide

/-- A route along a column the validator accepts ends on a square of the straight walks. -/
theorem column_mem (g : SPChessGame) (sr sc dr : Int)
    (hvs : validPosition sr sc = true) (hvd : validPosition dr sc = true)
    (hno : currentPlayerPiece g.currentPlayer (g.board dr sc) = false)
    (hr : dr ≠ sr)
    (h : vacantRouteToDstLoop g.board dr sc (if dr > sr then 1 else -1) 0 8 sr sc = true) :
    (dr, sc) ∈ straightSquares g sr sc := by
  obtain ⟨k1, e1⟩ := axis_walk sr dr hr
  rw [straightSquares_eq]
  have hu : unitStep ((if dr > sr then (1 : Int) else -1), (0 : Int)) := by
    unfold unitStep; split_ifs <;> decide
  have := route_mem g dr sc ((if dr > sr then (1 : Int) else -1), (0 : Int)) hu hvd hno
    8 (cAbs (dr - sr)) sr sc k1 e1 (by simp) hvs h
  refine raysOf_mem_of g sr sc _ _ _ ?_ this
  split_ifs <;> decide

theorem cAbs_cases (x : Int) : (0 ≤ x ∧ cAbs x = x) ∨ (x < 0 ∧ cAbs x = -x) := by
  unfold cAbs
  split_ifs <;> omega

theorem pawn_mem (g : SPChessGame) (m : Move)
    (h : legalMovementByPawn g.board m g.currentPlayer = true) :
    (m.dstRow, m.dstCol) ∈ pawnSquares g m.srcRow m.srcCol := by
  unfold legalMovementByPawn at h
  unfold pawnSquares
  generalize m.dstRow = dr at *
  generalize m.dstCol = dc at *
  generalize m.srcRow = sr at *
  generalize m.srcCol = sc at *
  generalize g.currentPlayer = p at *
  cases p <;>
    simp only [reduceCtorEq, decide_True, decide_False, Bool.true_and, Bool.false_and,
      Bool.or_false, Bool.false_or, Bool.not_eq_true', Bool.or_eq_false_iff,
      Bool.and_eq_false_imp, Bool.and_eq_true, decide_eq_true_eq, decide_eq_false_iff_not,
      Bool.not_eq_false', ↓reduceIte, List.nil_append, List.append_nil, List.cons_append,
      List.mem_cons, List.mem_singleton, Prod.mk.injEq, List.not_mem_nil, or_false, ne_eq,
      not_or, not_lt, Decidable.not_not] at h ⊢
  · obtain ⟨⟨⟨h1, h2⟩, -⟩, -⟩ := h
    by_cases hr : dr = sr - 1
    · omega
    · have := h1 hr
      omega
  · obtain ⟨⟨⟨h1, h2⟩, -⟩, -⟩ := h
    by_cases hr : dr = sr + 1
    · omega
    · have := h1 hr
      omega

theorem knight_mem (m : Move) (h : legalMovementByKnight m = true) :
    (m.dstRow, m.dstCol) ∈ knightSquares m.srcRow m.srcCol := by
  unfold legalMovementByKnight at h
  unfold knightSquares
  generalize m.dstRow = dr at *
  generalize m.dstCol = dc at *
  generalize m.srcRow = sr at *
  generalize m.srcCol = sc at *
  have ha := cAbs_cases (dr - sr)
  have hb := cAbs_cases (dc - sc)
  generalize cAbs (dr - sr) = a at *
  generalize cAbs (dc - sc) = b at *
  simp only [List.mem_cons, List.mem_singleton, Prod.mk.injEq, List.not_mem_nil, or_false]
  simp only [Bool.not_eq_true', Bool.or_eq_false_iff, Bool.and_eq_false_imp,
    decide_eq_true_eq, decide_eq_false_iff_not, ne_eq, Decidable.not_not] at h
  obtain ⟨⟨⟨h1, h2⟩, h3⟩, h4⟩ := h
  have hab : (a = 1 ∧ b = 2) ∨ (a = 2 ∧ b = 1) := by
    by_cases a1 : a = 1
    · exact Or.inl ⟨a1, h3 a1⟩
    · exact Or.inr ⟨h1 a1, h4 (h1 a1)⟩
  have hr : dr = sr + a ∨ dr = sr - a := by omega
  have hc : dc = sc + b ∨ dc = sc - b := by omega
  clear ha hb h1 h2 h3 h4
  rcases hab with ⟨rfl, rfl⟩ | ⟨rfl, rfl⟩ <;> rcases hr with rfl | rfl <;>
    rcases hc with rfl | rfl <;> simp

theorem king_mem (m : Move) (h : legalMovementByKing m = true)
    (hne : m.dstRow ≠ m.srcRow ∨ m.dstCol ≠ m.srcCol) :
    (m.dstRow, m.dstCol) ∈ kingSquares m.srcRow m.srcCol := by
  unfold legalMovementByKing at h
  unfold kingSquares
  generalize m.dstRow = dr at *
  generalize m.dstCol = dc at *
  generalize m.srcRow = sr at *
  generalize m.srcCol = sc at *
  have ha := cAbs_cases (dr - sr)
  have hb := cAbs_cases (dc - sc)
  generalize cAbs (dr - sr) = a at *
  generalize cAbs (dc - sc) = b at *
  simp only [List.mem_cons, List.mem_singleton, Prod.mk.injEq, List.not_mem_nil, or_false]
  simp only [Bool.and_eq_true, decide_eq_true_eq] at h
  obtain ⟨h1, h2⟩ := h
  have hr : dr = sr - 1 ∨ dr = sr ∨ dr = sr + 1 := by omega
  have hc : dc = sc - 1 ∨ dc = sc ∨ dc = sc + 1 := by omega
  clear ha hb h1 h2
  rcases hr with rfl | rfl | rfl <;> rcases hc with rfl | rfl | rfl <;> simp at hne ⊢

theorem slide_mem (g : SPChessGame) (m : Move)
    (hvs : validPosition m.srcRow m.srcCol = true) (hvd : validPosition m.dstRow m.dstCol = true)
    (hno : currentPlayerPiece g.currentPlayer (g.board m.dstRow m.dstCol) = false)
    (hne : m.dstRow ≠ m.srcRow ∨ m.dstCol ≠ m.srcCol)
    (h : legalMovementByBishopRookQueen g.board m = true) :
    (m.dstRow, m.dstCol) ∈ proposedSquares g m.srcRow m.srcCol := by
  unfold legalMovementByBishopRookQueen vacantRouteToDst at h
  unfold proposedSquares
  generalize m.dstRow = dr at *
  generalize m.dstCol = dc at *
  generalize m.srcRow = sr at *
  generalize m.srcCol = sc at *
  have diag : cAbs (dr - sr) = cAbs (dc - sc) →
      vacantRouteToDstLoop g.board dr dc (if dr > sr then 1 else -1)
        (if dc > sc then 1 else -1) 8 sr sc = true → (dr, dc) ∈ diagonalSquares g sr sc :=
    fun e r => diagonal_mem g sr sc dr dc hvs hvd hno hne e r
  have straight : ¬ (sr ≠ dr ∧ sc ≠ dc) →
      (if dr = sr then vacantRouteToDstLoop g.board dr dc 0 (if dc > sc then 1 else -1) 8 sr sc
        else vacantRouteToDstLoop g.board dr dc (if dr > sr then 1 else -1) 0 8 sr sc) = true →
      (dr, dc) ∈ straightSquares g sr sc := by
    intro e r
    by_cases hr : dr = sr
    · subst hr
      rw [if_pos rfl] at r
      have hc : dc ≠ sc := by
        rcases hne with h1 | h1
        · exact absurd rfl h1
        · exact h1
      exact row_mem g dr sc dc hvs hvd hno hc r
    · rw [if_neg hr] at r
      have hc : dc = sc := by
        by_contra hc
        exact e ⟨fun x => hr x.symm, fun x => hc x.symm⟩
      subst hc
      exact column_mem g sr dc dr hvs hvd hno hr r
  cases hp : g.board sr sc <;> simp only [hp] at h ⊢
  case EMPTY_POSITION => exact absurd h (by simp)
  case WHITE_PAWN => exact absurd h (by simp)
  case BLACK_PAWN => exact absurd h (by simp)
  case WHITE_KNIGHT => exact absurd h (by simp)
  case BLACK_KNIGHT => exact absurd h (by simp)
  case WHITE_KING => exact absurd h (by simp)
  case BLACK_KING => exact absurd h (by simp)
  case WHITE_BISHOP =>
    by_cases e : cAbs (dr - sr) = cAbs (dc - sc)
    · simp only [ne_eq, e, not_true_eq_false, ↓reduceIte] at h
      exact diag e h
    · simp [e] at h
  case BLACK_BISHOP =>
    by_cases e : cAbs (dr - sr) = cAbs (dc - sc)
    · simp only [ne_eq, e, not_true_eq_false, ↓reduceIte] at h
      exact diag e h
    · simp [e] at h
  case WHITE_ROOK =>
    by_cases e : sr ≠ dr ∧ sc ≠ dc
    · simp [e] at h
    · rw [if_neg e] at h
      exact straight e h
  case BLACK_ROOK =>
    by_cases e : sr ≠ dr ∧ sc ≠ dc
    · simp [e] at h
    · rw [if_neg e] at h
      exact straight e h
  case WHITE_QUEEN =>
    by_cases e : cAbs (dr - sr) = cAbs (dc - sc)
    · rw [if_pos e] at h
      exact List.mem_append_left _ (diag e h)
    · rw [if_neg e] at h
      by_cases e2 : sr ≠ dr ∧ sc ≠ dc
      · simp [e2] at h
      · rw [if_neg e2] at h
        exact List.mem_append_right _ (straight e2 h)
  case BLACK_QUEEN =>
    by_cases e : cAbs (dr - sr) = cAbs (dc - sc)
    · rw [if_pos e] at h
      exact List.mem_append_left _ (diag e h)
    · rw [if_neg e] at h
      by_cases e2 : sr ≠ dr ∧ sc ≠ dc
      · simp [e2] at h
      · rw [if_neg e2] at h
        exact List.mem_append_right _ (straight e2 h)

/-- Every on-board destination the validator accepts for the piece of the side to move on an
on-board square is among the squares the generator proposes for it. -/
theorem legal_proposed (env : Env) (g : SPChessGame) (sr sc dr dc : Int)
    (hvs : validPosition sr sc = true) (hvd : validPosition dr dc = true)
    (ho : currentPlayerPiece g.currentPlayer (g.board sr sc) = true)
    (hl : (legalRegularMove g (baseMove env g sr sc dr dc)).1 = true) :
    (dr, dc) ∈ proposedSquares g sr sc := by
  rw [legalRegularMove_verdict] at hl
  simp only [Bool.and_eq_true, Bool.not_eq_true'] at hl
  obtain ⟨⟨hno, hmv⟩, -⟩ := hl
  have hno2 : currentPlayerPiece g.currentPlayer (g.board dr dc) = false := hno
  have hne : dr ≠ sr ∨ dc ≠ sc := by
    by_contra hcon
    push_neg at hcon
    rw [hcon.1, hcon.2, ho] at hno2
    exact absurd hno2 (by simp)
  generalize hm : ({ baseMove env g sr sc dr dc with
    dstPiece := g.board (baseMove env g sr sc dr dc).dstRow (baseMove env g sr sc dr dc).dstCol }
      : Move) = m at hmv
  have f1 : m.srcRow = sr := by rw [← hm]; rfl
  have f2 : m.srcCol = sc := by rw [← hm]; rfl
  have f3 : m.dstRow = dr := by rw [← hm]; rfl
  have f4 : m.dstCol = dc := by rw [← hm]; rfl
  have f5 : m.srcPiece = g.board sr sc := by rw [← hm]; rfl
  have slide : legalMovementByBishopRookQueen g.board m = true →
      (dr, dc) ∈ proposedSquares g sr sc := by
    intro h
    have := slide_mem g m (by rw [f1, f2]; exact hvs) (by rw [f3, f4]; exact hvd)
      (by rw [f3, f4]; exact hno2) (by rw [f1, f2, f3, f4]; exact hne) h
    rwa [f1, f2, f3, f4] at this
  unfold legalMovementByPieceType at hmv
  rw [f5] at hmv
  cases hp : g.board sr sc <;> simp only [hp] at hmv
  case EMPTY_POSITION => exact absurd hmv (by simp)
  case WHITE_PAWN =>
    have := pawn_mem g m hmv
    rw [f1, f2, f3, f4] at this
    unfold proposedSquares; simp only [hp]; exact this
  case BLACK_PAWN =>
    have := pawn_mem g m hmv
    rw [f1, f2, f3, f4] at this
    unfold proposedSquares; simp only [hp]; exact this
  case WHITE_KNIGHT =>
    have := knight_mem m hmv
    rw [f1, f2, f3, f4] at this
    unfold proposedSquares; simp only [hp]; exact this
  case BLACK_KNIGHT =>
    have := knight_mem m hmv
    rw [f1, f2, f3, f4] at this
    unfold proposedSquares; simp only [hp]; exact this
  case WHITE_KING =>
    have := king_mem m hmv (by rw [f1, f2, f3, f4]; exact hne)
    rw [f1, f2, f3, f4] at this
    unfold proposedSquares; simp only [hp]; exact this
  case BLACK_KING =>
    have := king_mem m hmv (by rw [f1, f2, f3, f4]; exact hne)
    rw [f1, f2, f3, f4] at this
    unfold proposedSquares; simp only [hp]; exact this
  all_goals exact slide hmv

theorem candidateMoves_le_one (env : Env) (g : SPChessGame) (sr sc r c : Int) (castle : Bool) :
    (candidateMoves env g sr sc r c castle false).length ≤ 1 := by
  unfold candidateMoves
  simp only [Bool.false_and, Bool.false_eq_true, ↓reduceIte]
  split_ifs <;> simp

theorem squareMoves_length (env : Env) (g : SPChessGame) (sr sc : Int) (ps : List (Int × Int)) :
    (squareMoves env g sr sc ps).length ≤ ps.length := by
  induction ps with
  | nil => simp [squareMoves]
  | cons d ds ih =>
    simp only [squareMoves, List.length_append, List.length_cons]
    have := candidateMoves_le_one env g sr sc d.1 d.2 false
    omega

theorem raySquares_length (g : SPChessGame) (dr dc : Int) (fuel : Nat) :
    ∀ r c : Int, (raySquares g dr dc fuel r c).length ≤ rayRoom dr dc fuel r c := by
  induction fuel with
  | zero => intro r c; simp [raySquares]
  | succ n ih =>
    intro r c
    unfold raySquares rayRoom
    have := ih (r + dr) (c + dc)
    split_ifs <;> simp only [List.length_nil, List.length_cons, List.length_singleton] <;> omega

theorem raysOf_length (g : SPChessGame) (sr sc : Int) (ds : List (Int × Int)) :
    (raysOf g sr sc ds).length ≤ roomOf sr sc ds := by
  induction ds with
  | nil => simp [raysOf]
  | cons d rest ih =>
    simp only [raysOf, roomOf, List.length_append]
    have := raySquares_length g d.1 d.2 8 (sr + d.1) (sc + d.2)
    omega

/-- The walks of a queen from a square of the board pass at most 27 squares. -/
theorem room_on_board : ∀ p ∈ boardSquares,
    roomOf p.1 p.2 ([(GOING_DOWNWARDS, GOING_LEFT), (GOING_DOWNWARDS, GOING_RIGHT),
       (GOING_UPWARDS, GOING_LEFT), (GOING_UPWARDS, GOING_RIGHT)]
      ++ [(GOING_DOWNWARDS, SAME_COL), (SAME_ROW, GOING_LEFT),
       (SAME_ROW, GOING_RIGHT), (GOING_UPWARDS, SAME_COL)]) ≤ 27 := by
  decide!

theorem roomOf_append (sr sc : Int) (xs ys : List (Int × Int)) :
    roomOf sr sc (xs ++ ys) = roomOf sr sc xs + roomOf sr sc ys := by
  induction xs with
  | nil => simp [roomOf]
  | cons d ds ih =>
    show rayRoom d.1 d.2 8 (sr + d.1) (sc + d.2) + roomOf sr sc (ds ++ ys) = _
    rw [ih]
    simp only [roomOf]
    omega

/-- The squares proposed for a piece on the board are at most 27. -/
theorem sliding_length (g : SPChessGame) (sr sc : Int) (hv : validPosition sr sc = true) :
    (diagonalSquares g sr sc).length + (straightSquares g sr sc).length ≤ 27 := by
  have h := room_on_board (sr, sc) ((validPosition_iff_mem sr sc).1 hv)
  rw [roomOf_append] at h
  have h1 := raysOf_length g sr sc [(GOING_DOWNWARDS, GOING_LEFT), (GOING_DOWNWARDS, GOING_RIGHT),
       (GOING_UPWARDS, GOING_LEFT), (GOING_UPWARDS, GOING_RIGHT)]
  have h2 := raysOf_length g sr sc [(GOING_DOWNWARDS, SAME_COL), (SAME_ROW, GOING_LEFT),
       (SAME_ROW, GOING_RIGHT), (GOING_UPWARDS, SAME_COL)]
  rw [← diagonalSquares_eq] at h1
  rw [← straightSquares_eq] at h2
  simp only at h
  omega

theorem straight_length (g : SPChessGame) (sr sc : Int) (hv : validPosition sr sc = true) :
    (straightSquares g sr sc).length ≤ 14 := by
  have key : ∀ p ∈ boardSquares, roomOf p.1 p.2 [(GOING_DOWNWARDS, SAME_COL),
      (SAME_ROW, GOING_LEFT), (SAME_ROW, GOING_RIGHT), (GOING_UPWARDS, SAME_COL)] ≤ 14 := by
    decide!
  have h := key (sr, sc) ((validPosition_iff_mem sr sc).1 hv)
  have h2 := raysOf_length g sr sc [(GOING_DOWNWARDS, SAME_COL), (SAME_ROW, GOING_LEFT),
       (SAME_ROW, GOING_RIGHT), (GOING_UPWARDS, SAME_COL)]
  rw [← straightSquares_eq] at h2
  simp only at h
  omega

/-- The candidates of a piece on the board are at most 27. -/
theorem pieceCandidates_bound (env : Env) (g : SPChessGame) (sr sc : Int)
    (hv : validPosition sr sc = true) :
    (pieceCandidates env g sr sc false).length ≤ 27 := by
  have hreg := regularCandidates_squares env g sr sc
  have hlen := squareMoves_length env g sr sc (proposedSquares g sr sc)
  have hs := sliding_length g sr sc hv
  have hst := straight_length g sr sc hv
  have hrc : (rookCastleCandidates env g sr sc).length ≤ 1 := by
    unfold rookCastleCandidates
    split_ifs
    · exact candidateMoves_le_one _ _ _ _ _ _ _
    · simp
  have hkc : (kingCastleCandidates env g (ownRook g.currentPlayer)
      (ownFirstRow g.currentPlayer)).length ≤ 2 := by
    unfold kingCastleCandidates
    rw [List.length_append]
    have a := candidateMoves_le_one env g (ownFirstRow g.currentPlayer) LEFT_ROOK_COL
      DUMMY_COORDINATE DUMMY_COORDINATE true
    have b := candidateMoves_le_one env g (ownFirstRow g.currentPlayer) RIGHT_ROOK_COL
      DUMMY_COORDINATE DUMMY_COORDINATE true
    split_ifs <;> (try simp only [List.length_nil]) <;> omega
  have hpawn : (pawnSquares g sr sc).length ≤ 4 := by
    unfold pawnSquares
    cases g.currentPlayer <;> simp
  unfold regularCandidates proposedSquares at hreg
  unfold proposedSquares at hlen
  unfold pieceCandidates
  cases hp : g.board sr sc <;> simp only [hp] at hreg hlen ⊢
  case EMPTY_POSITION => simp
  case WHITE_PAWN => rw [hreg]; omega
  case BLACK_PAWN => rw [hreg]; omega
  case WHITE_KNIGHT => rw [hreg]; have h8 : (knightSquares sr sc).length = 8 := rfl; omega
  case BLACK_KNIGHT => rw [hreg]; have h8 : (knightSquares sr sc).length = 8 := rfl; omega
  case WHITE_BISHOP => rw [hreg]; omega
  case BLACK_BISHOP => rw [hreg]; omega
  case WHITE_ROOK => rw [List.length_append, hreg]; omega
  case BLACK_ROOK => rw [List.length_append, hreg]; omega
  case WHITE_QUEEN =>
    have hq : rookCastleCandidates env g sr sc = [] := by
      unfold rookCastleCandidates; simp [hp]
    rw [hq, List.append_nil, hreg]
    rw [List.length_append] at hlen
    omega
  case BLACK_QUEEN =>
    have hq : rookCastleCandidates env g sr sc = [] := by
      unfold rookCastleCandidates; simp [hp]
    rw [hq, List.append_nil, hreg]
    rw [List.length_append] at hlen
    omega
  case WHITE_KING =>
    rw [List.length_append, hreg]
    have h8 : (kingSquares sr sc).length = 8 := rfl
    omega
  case BLACK_KING =>
    rw [List.length_append, hreg]
    have h8 : (kingSquares sr sc).length = 8 := rfl
    omega

theorem regular_not_castle (env : Env) (g : SPChessGame) (sr sc r c s t : Int) :
    (candidateMoves env g sr sc r c false false).countP (castleFrom s t) = 0 := by
  unfold candidateMoves
  simp only [Bool.false_eq_true, ↓reduceIte, Bool.false_and]
  split_ifs
  · rfl
  · simp [castleFrom, filledMove, baseMove, spCreateMove]
  · rfl

theorem squareMoves_castle_count (env : Env) (g : SPChessGame) (sr sc s t : Int)
    (ps : List (Int × Int)) :
    (squareMoves env g sr sc ps).countP (castleFrom s t) = 0 := by
  induction ps with
  | nil => rfl
  | cons d ds ih =>
    simp only [squareMoves, List.countP_append, ih, regular_not_castle]

theorem castle_candidate_count (env : Env) (g : SPChessGame) (r c s t : Int) :
    (candidateMoves env g r c DUMMY_COORDINATE DUMMY_COORDINATE true false).countP
        (castleFrom s t)
      = if (r = s ∧ c = t) ∧ (legalCastle g (baseCastle env g r c)).1 = true then 1 else 0 := by
  unfold candidateMoves
  simp only [↓reduceIte]
  by_cases hl : (legalCastle g (baseCastle env g r c)).1 = true
  · simp only [hl, ↓reduceIte, and_true]
    have e : castleFrom s t { baseCastle env g r c with castleMove := true }
        = decide (r = s ∧ c = t) := by
      simp [castleFrom, baseCastle]
    rw [List.countP_cons, List.countP_nil, e]
    by_cases h : r = s ∧ c = t
    · simp [h]
    · simp [h]
  · simp [hl]

/-- A castle `legalCastle` accepts for a corner of the first row of the side to move, with
the piece read from the board, is the castle of a rook of that side. -/
theorem legalCastle_corner (g : SPChessGame) (m : Move) (hc : castleHome g)
    (hp : m.srcPiece = g.board m.srcRow m.srcCol)
    (hr : m.srcRow = ownFirstRow g.currentPlayer)
    (hl : (legalCastle g m).1 = true) :
    g.board m.srcRow m.srcCol = ownRook g.currentPlayer := by
  unfold legalCastle at hl
  by_cases hs : g.status = GAME_NOT_FINISHED_CHECK
  · simp [hs] at hl
  · simp only [hs, ↓reduceIte] at hl
    have key : ∃ col : Int, m.srcCol = col
        ∧ m.srcRow = (if m.srcPiece = WHITE_ROOK then WHITE_FIRST_ROW else BLACK_FIRST_ROW)
        ∧ ((col = LEFT_ROOK_COL
            ∧ (if m.srcPiece = WHITE_ROOK then g.whiteLeftCastle else g.blackLeftCastle) = true)
          ∨ (col = RIGHT_ROOK_COL
            ∧ (if m.srcPiece = WHITE_ROOK then g.whiteRightCastle else g.blackRightCastle)
                = true)) := by
      by_contra hcon
      push_neg at hcon
      have h1 : (decide (m.srcRow = if m.srcPiece = WHITE_ROOK then WHITE_FIRST_ROW
          else BLACK_FIRST_ROW) && decide (m.srcCol = LEFT_ROOK_COL)
          && if m.srcPiece = WHITE_ROOK then g.whiteLeftCastle else g.blackLeftCastle) = false := by
        rw [Bool.eq_false_iff]
        intro h
        simp only [Bool.and_eq_true, decide_eq_true_eq] at h
        exact (hcon _ rfl h.1.1).1 h.1.2 h.2
      have h2 : (decide (m.srcRow = if m.srcPiece = WHITE_ROOK then WHITE_FIRST_ROW
          else BLACK_FIRST_ROW) && decide (m.srcCol = RIGHT_ROOK_COL)
          && if m.srcPiece = WHITE_ROOK then g.whiteRightCastle else g.blackRightCastle)
            = false := by
        rw [Bool.eq_false_iff]
        intro h
        simp only [Bool.and_eq_true, decide_eq_true_eq] at h
        exact (hcon _ rfl h.1.1).2 h.1.2 h.2
      rw [h1, h2] at hl
      simp at hl
    clear hl
    obtain ⟨col, hcol, hrow, hflag⟩ := key
    obtain ⟨c1, c2, c3, c4⟩ := hc
    by_cases hw : m.srcPiece = WHITE_ROOK
    · rw [← hp, hw]
      simp only [hw, ↓reduceIte] at hrow
      cases hcur : g.currentPlayer
      · rw [hcur, hrow] at hr
        exact absurd hr (by decide)
      · rfl
    · simp only [hw, ↓reduceIte] at hrow hflag
      cases hcur : g.currentPlayer
      · rw [hcol, hrow]
        rcases hflag with ⟨rfl, hf⟩ | ⟨rfl, hf⟩
        · exact (c3 hf).2
        · exact (c4 hf).2
      · rw [hcur, hrow] at hr
        exact absurd hr (by decide)

/-- The castle moves among the candidates of a piece: for a rook the castle of its own square
when `legalCastle` accepts it, for a king the castle of each corner of its side's first row
that `legalCastle` accepts, and none for another piece. -/
theorem pieceCandidates_castle_count (env : Env) (g : SPChessGame) (r c s t : Int)
    (hc : castleHome g) :
    (pieceCandidates env g r c false).countP (castleFrom s t)
      = if castleOffered g r c s t ∧ (legalCastle g (baseCastle env g s t)).1 = true then 1
        else 0 := by
  have hreg := regularCandidates_squares env g r c
  unfold regularCandidates proposedSquares at hreg
  have hrook : (g.board r c = WHITE_ROOK ∨ g.board r c = BLACK_ROOK) →
      (rookCastleCandidates env g r c).countP (castleFrom s t)
        = if castleOffered g r c s t ∧ (legalCastle g (baseCastle env g s t)).1 = true then 1
          else 0 := by
    intro hp
    unfold rookCastleCandidates
    rw [if_pos hp, castle_candidate_count]
    have hnk : ¬ (g.board r c = WHITE_KING ∨ g.board r c = BLACK_KING) := by
      rcases hp with h | h <;> rw [h] <;> simp
    by_cases e : r = s ∧ c = t
    · obtain ⟨rfl, rfl⟩ := e
      simp [castleOffered, hp]
    · have : ¬ castleOffered g r c s t := by
        unfold castleOffered
        rintro (⟨-, h1, h2⟩ | ⟨h1, -⟩)
        · exact e ⟨h1.symm, h2.symm⟩
        · exact hnk h1
      simp [e, this]
  have hking : (g.board r c = WHITE_KING ∨ g.board r c = BLACK_KING) →
      (kingCastleCandidates env g (ownRook g.currentPlayer)
          (ownFirstRow g.currentPlayer)).countP (castleFrom s t)
        = if castleOffered g r c s t ∧ (legalCastle g (baseCastle env g s t)).1 = true then 1
          else 0 := by
    intro hp
    have hnr : ¬ (g.board r c = WHITE_ROOK ∨ g.board r c = BLACK_ROOK) := by
      rcases hp with h | h <;> rw [h] <;> simp
    have corner : ∀ col : Int,
        ((if g.board (ownFirstRow g.currentPlayer) col = ownRook g.currentPlayer then
            candidateMoves env g (ownFirstRow g.currentPlayer) col DUMMY_COORDINATE
              DUMMY_COORDINATE true false
          else []).countP (castleFrom s t))
        = if (ownFirstRow g.currentPlayer = s ∧ col = t)
            ∧ (legalCastle g (baseCastle env g (ownFirstRow g.currentPlayer) col)).1 = true
          then 1 else 0 := by
      intro col
      by_cases hb : g.board (ownFirstRow g.currentPlayer) col = ownRook g.currentPlayer
      · rw [if_pos hb, castle_candidate_count]
      · rw [if_neg hb, List.countP_nil]
        have : ¬ (legalCastle g (baseCastle env g (ownFirstRow g.currentPlayer) col)).1 = true :=
          fun hl => hb (legalCastle_corner g _ hc rfl rfl hl)
        simp [this]
    unfold kingCastleCandidates
    rw [List.countP_append, corner, corner]
    have hoff : castleOffered g r c s t
        ↔ (s = ownFirstRow g.currentPlayer ∧ (t = LEFT_ROOK_COL ∨ t = RIGHT_ROOK_COL)) := by
      unfold castleOffered
      constructor
      · rintro (⟨h1, -⟩ | ⟨-, h2⟩)
        · exact absurd h1 hnr
        · exact h2
      · intro h; exact Or.inr ⟨hp, h⟩
    by_cases hs : s = ownFirstRow g.currentPlayer
    · subst hs
      by_cases hL : t = LEFT_ROOK_COL
      · subst hL
        have ho : castleOffered g r c (ownFirstRow g.currentPlayer) LEFT_ROOK_COL :=
          hoff.2 ⟨rfl, Or.inl rfl⟩
        have e2 : ¬ (RIGHT_ROOK_COL = LEFT_ROOK_COL) := by decide
        simp only [ho, true_and, and_true, e2, and_false, false_and, ↓reduceIte, Nat.add_zero]
      · by_cases hR : t = RIGHT_ROOK_COL
        · subst hR
          have ho : castleOffered g r c (ownFirstRow g.currentPlayer) RIGHT_ROOK_COL :=
            hoff.2 ⟨rfl, Or.inr rfl⟩
          have e2 : ¬ (LEFT_ROOK_COL = RIGHT_ROOK_COL) := by decide
          simp only [ho, true_and, and_true, e2, and_false, false_and, ↓reduceIte, Nat.zero_add]
        · have e1 : ¬ (LEFT_ROOK_COL = t) := fun h => hL h.symm
          have e2 : ¬ (RIGHT_ROOK_COL = t) := fun h => hR h.symm
          have hno : ¬ castleOffered g r c (ownFirstRow g.currentPlayer) t := fun h => by
            rcases (hoff.1 h).2 with h | h
            · exact hL h
            · exact hR h
          simp only [hno, e1, e2, and_false, false_and, ↓reduceIte]
    · have e1 : ¬ (ownFirstRow g.currentPlayer = s) := fun h => hs h.symm
      have hno : ¬ castleOffered g r c s t := fun h => hs (hoff.1 h).1
      simp only [hno, e1, false_and, ↓reduceIte]
  have hnone : ¬ (g.board r c = WHITE_ROOK ∨ g.board r c = BLACK_ROOK) →
      ¬ (g.board r c = WHITE_KING ∨ g.board r c = BLACK_KING) →
      (0 : Nat) = if castleOffered g r c s t ∧ (legalCastle g (baseCastle env g s t)).1 = true
        then 1 else 0 := by
    intro h1 h2
    have : ¬ castleOffered g r c s t := by
      unfold castleOffered
      rintro (⟨h, -⟩ | ⟨h, -⟩)
      · exact h1 h
      · exact h2 h
    simp [this]
  unfold pieceCandidates
  cases hp : g.board r c <;> simp only [hp] at hreg hrook hking hnone ⊢
  case EMPTY_POSITION => exact hnone (by simp) (by simp)
  case WHITE_PAWN => rw [hreg, squareMoves_castle_count]; exact hnone (by simp) (by simp)
  case BLACK_PAWN => rw [hreg, squareMoves_castle_count]; exact hnone (by simp) (by simp)
  case WHITE_KNIGHT => rw [hreg, squareMoves_castle_count]; exact hnone (by simp) (by simp)
  case BLACK_KNIGHT => rw [hreg, squareMoves_castle_count]; exact hnone (by simp) (by simp)
  case WHITE_BISHOP => rw [hreg, squareMoves_castle_count]; exact hnone (by simp) (by simp)
  case BLACK_BISHOP => rw [hreg, squareMoves_castle_count]; exact hnone (by simp) (by simp)
  case WHITE_ROOK =>
    rw [List.countP_append, hreg, squareMoves_castle_count, Nat.zero_add]
    exact hrook (by simp)
  case BLACK_ROOK =>
    rw [List.countP_append, hreg, squareMoves_castle_count, Nat.zero_add]
    exact hrook (by simp)
  case WHITE_QUEEN =>
    have hq : rookCastleCandidates env g r c = [] := by
      unfold rookCastleCandidates; simp [hp]
    rw [hq, List.append_nil, hreg, squareMoves_castle_count]
    exact hnone (by simp) (by simp)
  case BLACK_QUEEN =>
    have hq : rookCastleCandidates env g r c = [] := by
      unfold rookCastleCandidates; simp [hp]
    rw [hq, List.append_nil, hreg, squareMoves_castle_count]
    exact hnone (by simp) (by simp)
  case WHITE_KING =>
    rw [List.countP_append, hreg, squareMoves_castle_count, Nat.zero_add]
    exact hking (by simp)
  case BLACK_KING =>
    rw [List.countP_append, hreg, squareMoves_castle_count, Nat.zero_add]
    exact hking (by simp)

/-- C7 (amended): in a well-formed state, for an on-board square `(r, c)` that holds a piece
of the side to move, `spChessGetPossibleMoves` called with an empty list that can hold at
least 27 moves succeeds, and in the list it leaves: for every on-board destination the
number of non-castle moves to that destination is one when `legalRegularMove` accepts the
move from `(r, c)` to it and zero otherwise; and for every square `(sr, sc)` the number of
castle moves of the rook on `(sr, sc)` is one when the castle is one the generator looks at
for the piece (for a rook the castle of its own square, for a king the castle of a corner of
its side's first row) and `legalCastle` accepts it, and zero otherwise. -/
theorem C7_generator_agrees (env : Env) (g : SPChessGame) (r c : Int)
    (hcap : 27 ≤ env.MAX_MOVES_FOR_PIECE)
    (hk : kingFieldsAgree g) (hc : castleHome g)
    (hv : validPosition r c = true)
    (ho : currentPlayerPiece g.currentPlayer (g.board r c) = true) :
    (spChessGetPossibleMoves env g (emptyMoveList env) r c).1 = SP_CHESS_GAME_SUCCESS
    ∧ (∀ dr dc : Int, validPosition dr dc = true →
        (movesOf env g r c).elements.countP (regularTo dr dc)
          = if (legalRegularMove g (baseMove env g r c dr dc)).1 = true then 1 else 0)
    ∧ (∀ sr sc : Int,
        (movesOf env g r c).elements.countP (castleFrom sr sc)
          = if castleOffered g r c sr sc ∧ (legalCastle g (baseCastle env g sr sc)).1 = true
            then 1 else 0) := by
  have hcc := castleConsistent_of g hk hc
  obtain ⟨hmsg, hlist⟩ := movesOf_eq env g r c hcc hv ho
  have hfit : ((pieceCandidates env g r c false).length : Int) ≤ env.MAX_MOVES_FOR_PIECE := by
    have := pieceCandidates_bound env g r c hv
    omega
  have hperm := generatedList_perm env g r c true false hfit
  refine ⟨?_, ?_, ?_⟩
  · rw [hmsg]
    exact getPossiblePieceMoves_message env g _ r c _ true false (own_ne_empty _ _ ho)
  · intro dr dc hvd
    rw [hlist, hperm.countP_eq, pieceCandidates_count env g r c dr dc hvd]
    by_cases hl : (legalRegularMove g (baseMove env g r c dr dc)).1 = true
    · rw [if_pos hl, if_pos hl]
      exact countP_of_nodup _ _ (proposedSquares_nodup g r c)
        (legal_proposed env g r c dr dc hv hvd ho hl)
    · rw [if_neg hl, if_neg hl]
  · intro sr sc
    rw [hlist, hperm.countP_eq]
    exact pieceCandidates_castle_count env g r c sr sc hc

/-- C7 at a concrete input: the rook on a1 of `castleGame`, with a list of capacity 28. -/
theorem C7_generator_agrees_witness :
    (27 : Int) ≤ sampleEnv.MAX_MOVES_FOR_PIECE
    ∧ kingFieldsAgree castleGame ∧ castleHome castleGame
    ∧ validPosition 0 0 = true
    ∧ currentPlayerPiece castleGame.currentPlayer (castleGame.board 0 0) = true
    ∧ ((spChessGetPossibleMoves sampleEnv castleGame (emptyMoveList sampleEnv) 0 0).1
          = SP_CHESS_GAME_SUCCESS
      ∧ (∀ dr dc : Int, validPosition dr dc = true →
          (movesOf sampleEnv castleGame 0 0).elements.countP (regularTo dr dc)
            = if (legalRegularMove castleGame (baseMove sampleEnv castleGame 0 0 dr dc)).1 = true
              then 1 else 0)
      ∧ (∀ sr sc : Int,
          (movesOf sampleEnv castleGame 0 0).elements.countP (castleFrom sr sc)
            = if castleOffered castleGame 0 0 sr sc
                ∧ (legalCastle castleGame (baseCastle sampleEnv castleGame sr sc)).1 = true
              then 1 else 0)) :=
  ⟨by decide, by decide!, by decide!, by decide, by decide!,
    C7_generator_agrees sampleEnv castleGame 0 0 (by decide) (by decide!) (by decide!)
      (by decide) (by decide!)⟩

set_option maxHeartbeats 4000000 in
/-- C7 as stated fails: in `castleGame`, a well-formed state with White to move, `legalCastle`
accepts the castle of the rook corner a1, yet the list `spChessGetPossibleMoves` fills for
the white rook on h1, empty beforehand, holds no castle move. -/
theorem C7_generator_agrees_counterexample :
    kingFieldsAgree castleGame ∧ castleHome castleGame
    ∧ validPosition 0 7 = true
    ∧ currentPlayerPiece castleGame.currentPlayer (castleGame.board 0 7) = true
    ∧ (legalCastle castleGame (baseCastle sampleEnv castleGame 0 0)).1 = true
    ∧ (spChessGetPossibleMoves sampleEnv castleGame (emptyMoveList sampleEnv) 0 7).1
        = SP_CHESS_GAME_SUCCESS
    ∧ (movesOf sampleEnv castleGame 0 7).elements.length = 9
    ∧ ∀ x ∈ (movesOf sampleEnv castleGame 0 7).elements, x.castleMove = false := by
  decide!

/-! ## Undo availability -/

/-- C22: `spChessGameIsUndoPossible` returns false exactly when the history is empty, or the
user colour is Black and the history holds exactly one move; in every other case it returns
true. -/
theorem C22_undo_availability (g : SPChessGame) (userColor : Player) :
    (spChessGameIsUndoPossible g userColor = false
      ↔ (g.history.elements.length = 0
          ∨ (userColor = BLACK_PLAYER ∧ g.history.elements.length = 1)))
    ∧ (spChessGameIsUndoPossible g userColor = true
      ↔ ¬ (g.history.elements.length = 0
          ∨ (userColor = BLACK_PLAYER ∧ g.history.elements.length = 1))) := by
  have key : spChessGameIsUndoPossible g userColor = false
      ↔ (g.history.elements.length = 0
          ∨ (userColor = BLACK_PLAYER ∧ g.history.elements.length = 1)) := by
    unfold spChessGameIsUndoPossible spArrayListIsEmpty spArrayListSize ONLY_ONE_MOVE
    simp only [Bool.not_eq_false', Bool.or_eq_true, beq_iff_eq, Bool.and_eq_true,
      decide_eq_true_eq]
    constructor
    · rintro (h | ⟨h1, h2⟩)
      · exact Or.inl (by omega)
      · exact Or.inr ⟨h1, by omega⟩
    · rintro (h | ⟨h1, h2⟩)
      · exact Or.inl (by omega)
      · exact Or.inr ⟨h1, by omega⟩
  refine ⟨key, ?_⟩
  rw [← key]
  cases spChessGameIsUndoPossible g userColor <;> simp

/-! ## Removing from an empty list -/

/-- C27 fails on the code: for a list with zero elements `spArrayListRemoveAt` (for any
index), `spArrayListRemoveFirst` and `spArrayListRemoveLast` leave the list unchanged but
return SP_ARRAY_LIST_INVALID_ARGUMENT, not SP_ARRAY_LIST_EMPTY: the index test comes first
and no index is within an empty list. -/
theorem C27_remove_from_empty_list (maxSize index : Int) :
    spArrayListRemoveAt { elements := [], maxSize := maxSize } index
      = ({ elements := [], maxSize := maxSize }, SP_ARRAY_LIST_INVALID_ARGUMENT)
    ∧ spArrayListRemoveFirst { elements := [], maxSize := maxSize }
      = ({ elements := [], maxSize := maxSize }, SP_ARRAY_LIST_INVALID_ARGUMENT)
    ∧ spArrayListRemoveLast { elements := [], maxSize := maxSize }
      = ({ elements := [], maxSize := maxSize }, SP_ARRAY_LIST_INVALID_ARGUMENT) := by
  have key : ∀ i : Int, spArrayListRemoveAt { elements := [], maxSize := maxSize } i
      = ({ elements := [], maxSize := maxSize }, SP_ARRAY_LIST_INVALID_ARGUMENT) := by
    intro i
    unfold spArrayListRemoveAt spArrayListSize
    have h : i < 0 ∨ i ≥ (([] : List Move).length : Int) := by
      simp only [List.length_nil, Nat.cast_zero]
      omega
    rw [if_pos h]
  exact ⟨key index, key 0, key _⟩

/-! ## Off-board coordinates -/

/-- C21: if the source of the move is off the board, or the move is not a castle and its
destination is off the board, `spChessGameSetMove` returns SP_CHESS_GAME_INVALID_POSITION and
leaves the game and the move as they were, whatever the board holds; and a castle is
rejected with that code only when its source is off the board, whatever its destination
is. -/
theorem C21_off_board_rejected_first (env : Env) (g : SPChessGame) (m : Move) (mm cm : Bool) :
    ((validPosition m.srcRow m.srcCol = false
        ∨ (m.castleMove = false ∧ validPosition m.dstRow m.dstCol = false)) →
      ∀ board : Board,
        spChessGameSetMove env { g with board := board } m mm cm
          = (SP_CHESS_GAME_INVALID_POSITION, { g with board := board }, m))
    ∧ (m.castleMove = true →
        ((spChessGameSetMove env g m mm cm).1 = SP_CHESS_GAME_INVALID_POSITION
          ↔ validPosition m.srcRow m.srcCol = false)) := by
  constructor
  · intro h board
    rw [spChessGameSetMove_eq]
    have hpos : (!validPosition m.srcRow m.srcCol
        || (!m.castleMove && !validPosition m.dstRow m.dstCol)) = true := by
      rcases h with h | ⟨h1, h2⟩
      · simp [h]
      · simp [h1, h2]
    rw [if_pos hpos]
  · intro hc
    rw [spChessGameSetMove_eq]
    constructor
    · intro h
      by_contra hv
      simp only [Bool.not_eq_false] at hv
      have hpos : ¬ (!validPosition m.srcRow m.srcCol
          || (!m.castleMove && !validPosition m.dstRow m.dstCol)) = true := by
        simp [hv, hc]
      rw [if_neg hpos] at h
      have hcm : (enteredMove g m).castleMove = true := by simpa using hc
      split_ifs at h
      · have := updatesAfterSettingMove_msg env
          (setCastleMove (checkedCastle g m cm).2 (enteredMove g m)).1
          (setCastleMove (checkedCastle g m cm).2 (enteredMove g m)).2 mm
        simp only at h
        rcases this with e | e <;> rw [e] at h <;> exact absurd h (by decide)
    · intro h
      have hpos : (!validPosition m.srcRow m.srcCol
          || (!m.castleMove && !validPosition m.dstRow m.dstCol)) = true := by
        simp [h]
      rw [if_pos hpos]

/-- C21 at a concrete input: in `castleGame` the move from the off-board square (8, 0) to a1
is rejected with SP_CHESS_GAME_INVALID_POSITION on every board. -/
theorem C21_off_board_rejected_first_witness :
    validPosition (userMove 8 0 0 0).srcRow (userMove 8 0 0 0).srcCol = false
    ∧ ∀ board : Board,
        spChessGameSetMove sampleEnv { castleGame with board := board } (userMove 8 0 0 0)
            false false
          = (SP_CHESS_GAME_INVALID_POSITION, { castleGame with board := board },
              userMove 8 0 0 0) :=
  ⟨by decide,
    (C21_off_board_rejected_first sampleEnv castleGame (userMove 8 0 0 0) false false).1
      (Or.inl (by decide))⟩

/-! ## The history -/

theorem upToPhantom_history (g1 g2 : SPChessGame) (h : upToPhantom g1 g2) :
    g2.history = g1.history := by
  rcases h with rfl | ⟨-, rfl⟩
  · rfl
  · rfl

theorem changePlayerAndUpdateStatus_history (env : Env) (g : SPChessGame) :
    (changePlayerAndUpdateStatus env g).2.history = g.history := by
  unfold changePlayerAndUpdateStatus
  simp only
  have e : ({ g with currentPlayer := g.currentPlayer.not } : SPChessGame) = flipPlayer g := rfl
  rw [e]
  have h1 := upToPhantom_history _ _
    (getGameStatus_phantom env (flipPlayer g) (flipPlayer g).whiteKingRow
      (flipPlayer g).whiteKingCol)
  have h2 := upToPhantom_history _ _
    (getGameStatus_phantom env (flipPlayer g) (flipPlayer g).blackKingRow
      (flipPlayer g).blackKingCol)
  have h0 : (flipPlayer g).history = g.history := rfl
  split_ifs <;> first | exact h1 | exact h2

theorem updatesPrefix_history (g : SPChessGame) (m : Move) (mm : Bool) :
    (updatesPrefix g m mm).history
      = if mm = true then g.history else storeInHistory g.history m := by
  unfold updatesPrefix storeInHistory
  by_cases hc : m.dstPieceCaptured = true
  · by_cases hw : m.dstPiece = WHITE_ROOK
    · cases mm <;> simp [hc, hw, updatePiecesAmount_history]
    · by_cases hb : m.dstPiece = BLACK_ROOK
      · cases mm <;> simp [hc, hb, updatePiecesAmount_history]
      · cases mm <;> simp [hc, hw, hb, updatePiecesAmount_history]
  · cases mm <;> simp [hc]

theorem updatesAfterSettingMove_history (env : Env) (g : SPChessGame) (m : Move) (mm : Bool) :
    (updatesAfterSettingMove env g m mm).2.history
      = if mm = true then g.history else storeInHistory g.history m := by
  rw [updatesAfterSettingMove_eq]
  split_ifs <;> simp only [changePlayerAndUpdateStatus_history, updatesPrefix_history, *] <;>
    simp

theorem checkedCastle_history (g : SPChessGame) (m : Move) (cm : Bool)
    (ho : currentPlayerPiece g.currentPlayer (enteredMove g m).srcPiece = true)
    (hr : (enteredMove g m).srcPiece = WHITE_ROOK ∨ (enteredMove g m).srcPiece = BLACK_ROOK) :
    (checkedCastle g m cm).2.history = g.history := by
  unfold checkedCastle
  split_ifs
  · exact upToPhantom_history _ _ (legalCastle_phantom g _ (ownRook_of _ _ ho hr).1)
  · rfl

theorem checkedRegular_history (g : SPChessGame) (m : Move) (cm : Bool)
    (hpp : m.pawnPromotion = false) :
    (checkedRegular g m cm).2.1.history = g.history := by
  unfold checkedRegular
  split_ifs
  · rw [legalRegularMove_game g _ (by
      rw [enteredMove_srcPiece, (enteredMove_squares g m).1, (enteredMove_squares g m).2.1]
      simp [hpp])]
  · rfl

/-- A move of the search leaves the history as it was, whatever the outcome. -/
theorem setMove_search_history (env : Env) (g : SPChessGame) (m : Move) (cm : Bool) :
    (spChessGameSetMove env g m true cm).2.1.history = g.history := by
  rw [spChessGameSetMove_eq]
  by_cases hpos : (!validPosition m.srcRow m.srcCol
      || (!m.castleMove && !validPosition m.dstRow m.dstCol)) = true
  · rw [if_pos hpos]
  rw [if_neg hpos]
  by_cases ho : (!currentPlayerPiece g.currentPlayer (entryMove g m).srcPiece) = true
  · rw [if_pos ho]
  rw [if_neg ho]
  have ho2 : currentPlayerPiece g.currentPlayer (enteredMove g m).srcPiece = true := by
    have : (enteredMove g m).srcPiece = (entryMove g m).srcPiece := rfl
    rw [this]
    simpa using ho
  by_cases hc : (enteredMove g m).castleMove = true
  · rw [if_pos hc]
    by_cases hr : (enteredMove g m).srcPiece ≠ WHITE_ROOK ∧ (enteredMove g m).srcPiece ≠ BLACK_ROOK
    · rw [if_pos hr]
    rw [if_neg hr]
    have hr2 : (enteredMove g m).srcPiece = WHITE_ROOK ∨ (enteredMove g m).srcPiece = BLACK_ROOK := by
      by_contra hcon
      push_neg at hcon
      exact hr hcon
    have hch := checkedCastle_history g m cm ho2 hr2
    split_ifs
    · exact hch
    · simp only [updatesAfterSettingMove_history, ↓reduceIte, setCastleMove_history, hch]
  rw [if_neg hc]
  by_cases hp : (enteredMove g m).pawnPromotion = true
  · rw [if_pos hp]
    have hpr : (spChessGameSetPawnPromotion env g (enteredMove g m) true).2.history
        = g.history := by
      rw [spChessGameSetPawnPromotion_eq, changePlayerAndUpdateStatus_history,
        promotionPrefix_history]
    split_ifs
    · exact hpr
    · simp only [updatesAfterSettingMove_history, ↓reduceIte, hpr]
  rw [if_neg hp]
  have hpp : m.pawnPromotion = false := by
    have : (enteredMove g m).pawnPromotion = m.pawnPromotion := enteredMove_pawnPromotion g m
    rw [this] at hp
    simpa using hp
  have hch := checkedRegular_history g m cm hpp
  split_ifs
  · exact hch
  · simp only [updatesAfterSettingMove_history, ↓reduceIte, setRegularMove_history, hch]

/-- An accepted move that is not of the search is stored in the history, as the call leaves
it. -/
theorem setMove_stored (env : Env) (g : SPChessGame) (m : Move) (cm : Bool)
    (hs : (spChessGameSetMove env g m false cm).1 = SP_CHESS_GAME_SUCCESS) :
    (spChessGameSetMove env g m false cm).2.1.history
      = storeInHistory g.history (spChessGameSetMove env g m false cm).2.2 := by
  obtain ⟨-, ho, hcase⟩ := setMove_success_cases env g m false cm hs
  rcases hcase with ⟨-, hr, -, e1, e2⟩ | ⟨-, hp, -, e1, e2⟩ | ⟨-, hp, -, -, e1, e2⟩
  · rw [e1, e2, updatesAfterSettingMove_history, setCastleMove_history,
      checkedCastle_history g m cm ho hr]
    simp
  · rw [e1, e2, updatesAfterSettingMove_history, spChessGameSetPawnPromotion_eq,
      changePlayerAndUpdateStatus_history, promotionPrefix_history]
    simp
  · rw [e1, e2, updatesAfterSettingMove_history, setRegularMove_history,
      checkedRegular_history g m cm hp]
    simp

theorem storeInHistory_room (h : SPArrayList) (x : Move)
    (hroom : (h.elements.length : Int) < h.maxSize) :
    storeInHistory h x = { h with elements := h.elements ++ [x] } := by
  unfold storeInHistory
  have hf : spArrayListIsFull h = false := by
    unfold spArrayListIsFull spArrayListSize
    rw [beq_eq_false_iff_ne]; omega
  rw [hf]
  simp only [Bool.false_eq_true, ↓reduceIte]
  exact spArrayListAddLast_room h x hroom

theorem storeInHistory_full (h : SPArrayList) (x : Move) (hcap : 0 < h.maxSize)
    (hfull : (h.elements.length : Int) = h.maxSize) :
    storeInHistory h x = { h with elements := h.elements.tail ++ [x] } := by
  unfold storeInHistory
  have hf : spArrayListIsFull h = true := by
    unfold spArrayListIsFull spArrayListSize
    rw [beq_iff_eq]; exact hfull
  rw [hf]
  simp only [↓reduceIte]
  have hrem : (spArrayListRemoveFirst h).1 = { h with elements := h.elements.tail } := by
    unfold spArrayListRemoveFirst spArrayListRemoveAt spArrayListIsEmpty spArrayListSize
    have c1 : ¬ ((0 : Int) < 0 ∨ (0 : Int) ≥ (h.elements.length : Int)) := by omega
    have c2 : ((h.elements.length : Int) == 0) = false := by
      rw [beq_eq_false_iff_ne]; omega
    simp only [c1, ↓reduceIte, c2, Bool.false_eq_true, Int.toNat_zero, List.take_zero,
      List.nil_append, Nat.zero_add, List.drop_one]
  rw [hrem]
  rw [spArrayListAddLast_room _ x (by
    simp only [List.length_tail]
    have : 0 < h.elements.length := by omega
    omega)]

/-- C23: for a history that holds `n` moves with a positive capacity `N`, `n ≤ N`, a move
`spChessGameSetMove` accepts with `minimaxMove = false` is appended to the history, as the
call leaves it, when `n < N`, and when `n = N` the oldest move is dropped first and the
order of the others is kept; the capacity stays `N`.  With `minimaxMove = true` the history
is left exactly as it was. -/
theorem C23_history_fifo (env : Env) (g : SPChessGame) (m : Move) (cm : Bool)
    (hcap : 0 < g.history.maxSize)
    (hfit : (g.history.elements.length : Int) ≤ g.history.maxSize) :
    ((spChessGameSetMove env g m false cm).1 = SP_CHESS_GAME_SUCCESS →
      (spChessGameSetMove env g m false cm).2.1.history.maxSize = g.history.maxSize
      ∧ ((g.history.elements.length : Int) < g.history.maxSize →
          (spChessGameSetMove env g m false cm).2.1.history.elements
            = g.history.elements ++ [(spChessGameSetMove env g m false cm).2.2])
      ∧ ((g.history.elements.length : Int) = g.history.maxSize →
          (spChessGameSetMove env g m false cm).2.1.history.elements
            = g.history.elements.tail ++ [(spChessGameSetMove env g m false cm).2.2]))
    ∧ (spChessGameSetMove env g m true cm).2.1.history = g.history := by
  refine ⟨fun hs => ?_, setMove_search_history env g m cm⟩
  have key := setMove_stored env g m cm hs
  refine ⟨?_, fun hroom => ?_, fun hfull => ?_⟩
  · rw [key]
    rcases lt_or_eq_of_le hfit with h | h
    · rw [storeInHistory_room _ _ h]
    · rw [storeInHistory_full _ _ hcap h]
  · rw [key, storeInHistory_room _ _ hroom]
  · rw [key, storeInHistory_full _ _ hcap hfull]

/-- C23 at a concrete input: in `fullHistoryGame` the history is full; the accepted king move
e1-e2 of the user replaces the one stored move. -/
theorem C23_history_fifo_witness :
    0 < fullHistoryGame.history.maxSize
    ∧ (fullHistoryGame.history.elements.length : Int) ≤ fullHistoryGame.history.maxSize
    ∧ (spChessGameSetMove sampleEnv fullHistoryGame (userMove 0 4 1 4) false false).1
        = SP_CHESS_GAME_SUCCESS
    ∧ (spChessGameSetMove sampleEnv fullHistoryGame (userMove 0 4 1 4) false false).2.1.history.elements
        = fullHistoryGame.history.elements.tail
          ++ [(spChessGameSetMove sampleEnv fullHistoryGame (userMove 0 4 1 4) false false).2.2] :=
  ⟨by decide, by decide, by decide!,
    ((C23_history_fifo sampleEnv fullHistoryGame (userMove 0 4 1 4) false (by decide)
      (by decide)).1 (by decide!)).2.2 (by decide)⟩

/-! ## Promotion moves of the search -/

theorem candidateMoves_dst (env : Env) (g : SPChessGame) (sr sc r c : Int) (mm : Bool)
    (x : Move) (h : x ∈ candidateMoves env g sr sc r c false mm) :
    x.castleMove = false ∧ x.dstRow = r ∧ x.dstCol = c := by
  unfold candidateMoves at h
  simp only [Bool.false_eq_true, ↓reduceIte] at h
  have hM : (filledMove g (baseMove env g sr sc r c)).castleMove = false
      ∧ (filledMove g (baseMove env g sr sc r c)).dstRow = r
      ∧ (filledMove g (baseMove env g sr sc r c)).dstCol = c := ⟨rfl, rfl, rfl⟩
  split_ifs at h
  · simp at h
  · obtain ⟨-, -, -, h4, h5, h6⟩ := promotionMoves_own _ _ x h
    exact ⟨h6.trans hM.1, h4.trans hM.2.1, h5.trans hM.2.2⟩
  · rw [List.mem_singleton] at h
    rw [h]; exact hM
  · simp at h

theorem candidateMoves_filter (env : Env) (g : SPChessGame) (sr sc r c dr dc : Int)
    (mm : Bool) :
    (candidateMoves env g sr sc r c false mm).filter (regularTo dr dc)
      = if r = dr ∧ c = dc then candidateMoves env g sr sc r c false mm else [] := by
  by_cases h : r = dr ∧ c = dc
  · rw [if_pos h, List.filter_eq_self]
    intro x hx
    obtain ⟨h1, h2, h3⟩ := candidateMoves_dst env g sr sc r c mm x hx
    simp [regularTo, h1, h2, h3, h.1, h.2]
  · rw [if_neg h, List.filter_eq_nil_iff]
    intro x hx
    obtain ⟨h1, h2, h3⟩ := candidateMoves_dst env g sr sc r c mm x hx
    simp only [regularTo, h1, h2, h3, Bool.not_false, Bool.true_and, Bool.and_eq_true,
      decide_eq_true_eq]
    exact h

theorem candidateMoves_le_four (env : Env) (g : SPChessGame) (sr sc r c : Int) (mm : Bool) :
    (candidateMoves env g sr sc r c false mm).length ≤ 4 := by
  unfold candidateMoves
  simp only [Bool.false_eq_true, ↓reduceIte]
  split_ifs <;> simp [promotionMoves]

theorem candidateMoves_off_board (env : Env) (g : SPChessGame) (sr sc r c : Int) (mm : Bool)
    (h : validPosition r c = false) : candidateMoves env g sr sc r c false mm = [] := by
  unfold candidateMoves
  simp [h]

theorem pawnCandidates_promoting (env : Env) (g : SPChessGame) (sr sc : Int) (mm : Bool)
    (hstep : pawnStep g.currentPlayer sr = promotionRow g.currentPlayer) :
    pawnCandidates env g sr sc mm
      = candidateMoves env g sr sc (promotionRow g.currentPlayer) (sc - 1) false mm
        ++ candidateMoves env g sr sc (promotionRow g.currentPlayer) sc false mm
        ++ candidateMoves env g sr sc (promotionRow g.currentPlayer) (sc + 1) false mm := by
  unfold pawnCandidates
  unfold pawnStep promotionRow at hstep
  unfold promotionRow
  cases hp : g.currentPlayer
  · rw [hp] at hstep
    simp only [reduceCtorEq, ↓reduceIte, WHITE_FIRST_ROW] at hstep
    have hoff : validPosition (sr - 2) sc = false := by
      rw [← Bool.not_eq_true, validPosition_iff]; omega
    simp only [reduceCtorEq, ↓reduceIte, candidateMoves_off_board _ _ _ _ _ _ _ hoff,
      List.nil_append, List.append_nil, hstep, WHITE_FIRST_ROW]
  · rw [hp] at hstep
    simp only [↓reduceIte, BLACK_FIRST_ROW] at hstep
    have hoff : validPosition (sr + 2) sc = false := by
      rw [← Bool.not_eq_true, validPosition_iff]; omega
    simp only [reduceCtorEq, ↓reduceIte, candidateMoves_off_board _ _ _ _ _ _ _ hoff,
      List.nil_append, List.append_nil, hstep, BLACK_FIRST_ROW]

/-- C28: for a pawn of the side to move on `(sr, sc)` one step from its farthest rank and a
destination on that rank, in its column or a neighbouring one, to which `legalRegularMove`
accepts the move, and a list with room for twelve more moves: the move the check leaves is
flagged as a promotion with the pawn as `srcPiece`; `getPossiblePawnMoves` with
`minimax = true` adds for that destination exactly four moves, which are that move with
`srcPiece` set to the mover's queen, rook, bishop and knight, in this order; with
`minimax = false` it adds exactly one move for that destination, the move itself. -/
theorem C28_promotion_expansion (env : Env) (g : SPChessGame) (l : SPArrayList)
    (sr sc dc : Int)
    (hpawn : g.board sr sc = ownPawn g.currentPlayer)
    (hstep : pawnStep g.currentPlayer sr = promotionRow g.currentPlayer)
    (hdc : dc = sc - 1 ∨ dc = sc ∨ dc = sc + 1)
    (hvd : validPosition (promotionRow g.currentPlayer) dc = true)
    (hlegal : (legalRegularMove g
      (baseMove env g sr sc (promotionRow g.currentPlayer) dc)).1 = true)
    (hroom : (l.elements.length : Int) + 12 ≤ l.maxSize) :
    ((legalRegularMove g (baseMove env g sr sc (promotionRow g.currentPlayer) dc)).2.2.pawnPromotion
        = true
      ∧ (legalRegularMove g (baseMove env g sr sc (promotionRow g.currentPlayer) dc)).2.2.srcPiece
        = ownPawn g.currentPlayer)
    ∧ (∃ added : List Move,
        (getPossiblePawnMoves env g l sr sc true).2.elements = l.elements ++ added
        ∧ added.filter (regularTo (promotionRow g.currentPlayer) dc)
          = [ { (legalRegularMove g
                  (baseMove env g sr sc (promotionRow g.currentPlayer) dc)).2.2 with
                srcPiece := if g.currentPlayer = WHITE_PLAYER then WHITE_QUEEN else BLACK_QUEEN },
              { (legalRegularMove g
                  (baseMove env g sr sc (promotionRow g.currentPlayer) dc)).2.2 with
                srcPiece := if g.currentPlayer = WHITE_PLAYER then WHITE_ROOK else BLACK_ROOK },
              { (legalRegularMove g
                  (baseMove env g sr sc (promotionRow g.currentPlayer) dc)).2.2 with
                srcPiece := if g.currentPlayer = WHITE_PLAYER then WHITE_BISHOP
                  else BLACK_BISHOP },
              { (legalRegularMove g
                  (baseMove env g sr sc (promotionRow g.currentPlayer) dc)).2.2 with
                srcPiece := if g.currentPlayer = WHITE_PLAYER then WHITE_KNIGHT
                  else BLACK_KNIGHT } ])
    ∧ (∃ added : List Move,
        (getPossiblePawnMoves env g l sr sc false).2.elements = l.elements ++ added
        ∧ added.filter (regularTo (promotionRow g.currentPlayer) dc)
          = [(legalRegularMove g
                (baseMove env g sr sc (promotionRow g.currentPlayer) dc)).2.2]) := by
  rw [legalRegularMove_move g _ hlegal]
  have hpp : (filledMove g (baseMove env g sr sc (promotionRow g.currentPlayer) dc)).pawnPromotion
      = true := by
    unfold filledMove reachesLastRow baseMove promotionRow
    simp only [hpawn, ownPawn, spCreateMove]
    cases g.currentPlayer <;> simp
  have hgroup : ∀ mm : Bool,
      candidateMoves env g sr sc (promotionRow g.currentPlayer) dc false mm
        = if mm = true then
            promotionMoves (filledMove g (baseMove env g sr sc (promotionRow g.currentPlayer) dc))
              g.currentPlayer
          else [filledMove g (baseMove env g sr sc (promotionRow g.currentPlayer) dc)] := by
    intro mm
    unfold candidateMoves
    simp only [Bool.false_eq_true, ↓reduceIte, hvd, Bool.not_true, hlegal, hpp, Bool.and_true]
  have hfilter : ∀ mm : Bool,
      (pawnCandidates env g sr sc mm).filter (regularTo (promotionRow g.currentPlayer) dc)
        = candidateMoves env g sr sc (promotionRow g.currentPlayer) dc false mm := by
    intro mm
    rw [pawnCandidates_promoting env g sr sc mm hstep]
    simp only [List.filter_append, candidateMoves_filter, true_and]
    rcases hdc with rfl | rfl | rfl
    · have e1 : ¬ (sc = sc - 1) := by omega
      have e2 : ¬ (sc + 1 = sc - 1) := by omega
      simp only [↓reduceIte, e1, e2, List.append_nil]
    · have e1 : ¬ (dc - 1 = dc) := by omega
      have e2 : ¬ (dc + 1 = dc) := by omega
      simp only [↓reduceIte, e1, e2, List.append_nil, List.nil_append]
    · have e1 : ¬ (sc - 1 = sc + 1) := by omega
      have e2 : ¬ (sc = sc + 1) := by omega
      simp only [↓reduceIte, e1, e2, List.nil_append]
  have hlist : ∀ mm : Bool, (getPossiblePawnMoves env g l sr sc mm).2.elements
      = l.elements ++ pawnCandidates env g sr sc mm := by
    intro mm
    rw [getPossiblePawnMoves_list, pushAll_room]
    rw [pawnCandidates_promoting env g sr sc mm hstep]
    simp only [List.length_append]
    have a := candidateMoves_le_four env g sr sc (promotionRow g.currentPlayer) (sc - 1) mm
    have b := candidateMoves_le_four env g sr sc (promotionRow g.currentPlayer) sc mm
    have c := candidateMoves_le_four env g sr sc (promotionRow g.currentPlayer) (sc + 1) mm
    push_cast
    omega
  refine ⟨⟨hpp, ?_⟩, ⟨_, hlist true, ?_⟩, ⟨_, hlist false, ?_⟩⟩
  · exact hpawn
  · rw [hfilter, hgroup]
    rfl
  · rw [hfilter, hgroup]
    rfl

/-- C28 at a concrete input: the white pawn b7 of `promotionGame` captures the rook a8. -/
theorem C28_promotion_expansion_witness :
    promotionGame.board 6 1 = ownPawn promotionGame.currentPlayer
    ∧ pawnStep promotionGame.currentPlayer 6 = promotionRow promotionGame.currentPlayer
    ∧ validPosition (promotionRow promotionGame.currentPlayer) 0 = true
    ∧ (legalRegularMove promotionGame
        (baseMove sampleEnv promotionGame 6 1 (promotionRow promotionGame.currentPlayer) 0)).1
          = true
    ∧ ∃ added : List Move,
        (getPossiblePawnMoves sampleEnv promotionGame (emptyMoveList sampleEnv) 6 1 false).2.elements
          = (emptyMoveList sampleEnv).elements ++ added
        ∧ added.filter (regularTo (promotionRow promotionGame.currentPlayer) 0)
          = [(legalRegularMove promotionGame
                (baseMove sampleEnv promotionGame 6 1
                  (promotionRow promotionGame.currentPlayer) 0)).2.2] :=
  ⟨by decide!, by decide, by decide, by decide!,
    (C28_promotion_expansion sampleEnv promotionGame (emptyMoveList sampleEnv) 6 1 0
      (by decide!) (by decide) (Or.inl (by decide)) (by decide) (by decide!) (by decide)).2.2⟩

/-! ## The effect of a castle -/

set_option maxHeartbeats 4000000 in
/-- C29 as stated fails: in `staleCastleGame` the white king stands on e1 and the castle
with the a1 rook is accepted, but the status computation for Black runs the castle
simulation with Black's stale flag and leaves a black king on e8, a square that is none of
the four squares of the castle and was empty before. -/
theorem C29_castle_effect_counterexample :
    staleCastleGame.board (ownFirstRow staleCastleGame.currentPlayer) KING_COL
        = ownKing staleCastleGame.currentPlayer
    ∧ (spChessGameSetMove sampleEnv staleCastleGame castleLeftCommand false false).1
        = SP_CHESS_GAME_SUCCESS
    ∧ staleCastleGame.board 7 4 = EMPTY_POSITION
    ∧ (spChessGameSetMove sampleEnv staleCastleGame castleLeftCommand false false).2.1.board 7 4
        = BLACK_KING := by
  decide!

theorem checkedCastle_game (g : SPChessGame) (m : Move) (cm : Bool) (hcc : castleConsistent g) :
    (checkedCastle g m cm).2 = g := by
  unfold checkedCastle
  split_ifs
  · exact legalCastle_game g _ hcc
  · rfl

/-- The board and the king fields after an accepted castle are those `setCastleMove` leaves,
and a castling flag that is true afterwards is true after `setCastleMove`. -/
theorem castle_result (env : Env) (g : SPChessGame) (m : Move) (mm cm : Bool)
    (hcc : castleConsistent g) (hcm : m.castleMove = true)
    (hcorner : cm = true → m.srcRow = ownFirstRow g.currentPlayer)
    (hs : (spChessGameSetMove env g m mm cm).1 = SP_CHESS_GAME_SUCCESS) :
    (enteredMove g m).srcPiece = ownRook g.currentPlayer
    ∧ m.srcRow = ownFirstRow g.currentPlayer
    ∧ (cm = false → m.srcCol = LEFT_ROOK_COL ∨ m.srcCol = RIGHT_ROOK_COL)
    ∧ kingsView (spChessGameSetMove env g m mm cm).2.1
        = kingsView (setCastleMove g (enteredMove g m)).1
    ∧ flagsOf (spChessGameSetMove env g m mm cm).2.1
        = flagsOf (updatesPrefix (setCastleMove g (enteredMove g m)).1
            (setCastleMove g (enteredMove g m)).2 mm) := by
  obtain ⟨-, ho, hcase⟩ := setMove_success_cases env g m mm cm hs
  rcases hcase with ⟨-, hr, hl, e, -⟩ | ⟨h, -⟩ | ⟨h, -⟩
  · have hrook := (ownRook_of _ _ ho hr).1
    have hsq := enteredMove_squares g m
    have hside : cm = false → m.srcRow = ownFirstRow g.currentPlayer
        ∧ (m.srcCol = LEFT_ROOK_COL ∨ m.srcCol = RIGHT_ROOK_COL) := by
      intro hcf
      obtain ⟨-, h1, h2, -⟩ := legalCastle_side g _ hrook (hl hcf)
      rw [hsq.1] at h1
      rw [hsq.2.1] at h2
      exact ⟨h1, by rcases h2 with h2 | h2
                    · exact Or.inl h2.1
                    · exact Or.inr h2.1⟩
    have hrow : m.srcRow = ownFirstRow g.currentPlayer := by
      cases cm
      · exact (hside rfl).1
      · exact hcorner rfl
    refine ⟨hrook, hrow, fun h => (hside h).2, ?_, ?_⟩
    · rw [e, checkedCastle_game g m cm hcc, updatesAfterSettingMove_eq]
      have hc2 : castleConsistent
          (updatesPrefix (setCastleMove g (enteredMove g m)).1
            (setCastleMove g (enteredMove g m)).2 mm) :=
        castleConsistent_updatesPrefix _ _ _
          (castleConsistent_setCastleMove g _ hcc (by simpa using hcm) hrook
            (by rw [hsq.1]; exact hrow))
      split_ifs
      · rw [kingsView_changePlayerAndUpdateStatus env _ hc2, kingsView_updatesPrefix]
      · exact kingsView_updatesPrefix _ _ _
    · rw [e, checkedCastle_game g m cm hcc, flagsOf_updatesAfterSettingMove]
  · rw [hcm] at h; exact absurd h (by decide)
  · rw [hcm] at h; exact absurd h (by decide)

theorem castle_flags_cleared (g : SPChessGame) (m : Move) (mm : Bool)
    (hcm : m.castleMove = true) (hrook : m.srcPiece = ownRook g.currentPlayer) :
    castleFlagsOf g.currentPlayer
      (updatesPrefix (setCastleMove g m).1 (setCastleMove g m).2 mm) = (false, false) := by
  have hf := flagsOf_setCastleMove g m hcm
  have a1 := updatePrefix_whiteLeftCastle_le (setCastleMove g m).1 (setCastleMove g m).2 mm
  have a2 := updatePrefix_whiteRightCastle_le (setCastleMove g m).1 (setCastleMove g m).2 mm
  have a3 := updatePrefix_blackLeftCastle_le (setCastleMove g m).1 (setCastleMove g m).2 mm
  have a4 := updatePrefix_blackRightCastle_le (setCastleMove g m).1 (setCastleMove g m).2 mm
  unfold castleFlagsOf
  unfold flagsOf at hf
  cases hp : g.currentPlayer
  · rw [hp] at hrook
    have hw : ¬ m.srcPiece = WHITE_ROOK := by rw [hrook]; decide
    rw [if_neg hw] at hf
    simp only [Prod.mk.injEq] at hf
    obtain ⟨-, -, h3, h4⟩ := hf
    rw [h3] at a3
    rw [h4] at a4
    simp only [reduceCtorEq, ↓reduceIte, Prod.mk.injEq]
    constructor
    · by_contra h; simp only [Bool.not_eq_false] at h; exact absurd (a3 h) (by decide)
    · by_contra h; simp only [Bool.not_eq_false] at h; exact absurd (a4 h) (by decide)
  · rw [hp] at hrook
    have hw : m.srcPiece = WHITE_ROOK := by rw [hrook]; rfl
    rw [if_pos hw] at hf
    simp only [Prod.mk.injEq] at hf
    obtain ⟨h1, h2, -, -⟩ := hf
    rw [h1] at a1
    rw [h2] at a2
    simp only [↓reduceIte, Prod.mk.injEq]
    constructor
    · by_contra h; simp only [Bool.not_eq_false] at h; exact absurd (a1 h) (by decide)
    · by_contra h; simp only [Bool.not_eq_false] at h; exact absurd (a2 h) (by decide)

/-- C29 (amended): in a state in which a true castling flag has the owner's king on its first
rank in the recorded column, an accepted castle (for a move of the engine: one whose rook
comes from a corner of the mover's first rank) has its rook on a corner of the mover's first
rank; afterwards, for the left corner the king stands on column `KING_COL - 2` and the rook
on column `KING_COL - 1`, for the right corner on `KING_COL + 2` and `KING_COL + 1`; the
king's home square and the rook's corner are empty, every other square of the board is
unchanged, the mover's king-column field is the king's new column, and both castling flags
of the mover are false. -/
theorem C29_castle_effect (env : Env) (g : SPChessGame) (m : Move) (mm cm : Bool)
    (hcc : castleConsistent g) (hcm : m.castleMove = true)
    (hcorner : cm = true → m.srcRow = ownFirstRow g.currentPlayer
      ∧ (m.srcCol = LEFT_ROOK_COL ∨ m.srcCol = RIGHT_ROOK_COL))
    (hs : (spChessGameSetMove env g m mm cm).1 = SP_CHESS_GAME_SUCCESS) :
    (m.srcRow = ownFirstRow g.currentPlayer
      ∧ (m.srcCol = LEFT_ROOK_COL ∨ m.srcCol = RIGHT_ROOK_COL))
    ∧ (m.srcCol = LEFT_ROOK_COL →
        (spChessGameSetMove env g m mm cm).2.1.board (ownFirstRow g.currentPlayer) (KING_COL - 2)
            = ownKing g.currentPlayer
        ∧ (spChessGameSetMove env g m mm cm).2.1.board (ownFirstRow g.currentPlayer)
            (KING_COL - 1) = ownRook g.currentPlayer
        ∧ (spChessGameSetMove env g m mm cm).2.1.board (ownFirstRow g.currentPlayer) KING_COL
            = EMPTY_POSITION
        ∧ (spChessGameSetMove env g m mm cm).2.1.board (ownFirstRow g.currentPlayer)
            LEFT_ROOK_COL = EMPTY_POSITION
        ∧ (∀ r c : Int, ¬ (r = ownFirstRow g.currentPlayer
              ∧ (c = LEFT_ROOK_COL ∨ c = KING_COL - 2 ∨ c = KING_COL - 1 ∨ c = KING_COL)) →
            (spChessGameSetMove env g m mm cm).2.1.board r c = g.board r c)
        ∧ kingColOf g.currentPlayer (spChessGameSetMove env g m mm cm).2.1 = KING_COL - 2)
    ∧ (m.srcCol = RIGHT_ROOK_COL →
        (spChessGameSetMove env g m mm cm).2.1.board (ownFirstRow g.currentPlayer) (KING_COL + 2)
            = ownKing g.currentPlayer
        ∧ (spChessGameSetMove env g m mm cm).2.1.board (ownFirstRow g.currentPlayer)
            (KING_COL + 1) = ownRook g.currentPlayer
        ∧ (spChessGameSetMove env g m mm cm).2.1.board (ownFirstRow g.currentPlayer) KING_COL
            = EMPTY_POSITION
        ∧ (spChessGameSetMove env g m mm cm).2.1.board (ownFirstRow g.currentPlayer)
            RIGHT_ROOK_COL = EMPTY_POSITION
        ∧ (∀ r c : Int, ¬ (r = ownFirstRow g.currentPlayer
              ∧ (c = RIGHT_ROOK_COL ∨ c = KING_COL + 2 ∨ c = KING_COL + 1 ∨ c = KING_COL)) →
            (spChessGameSetMove env g m mm cm).2.1.board r c = g.board r c)
        ∧ kingColOf g.currentPlayer (spChessGameSetMove env g m mm cm).2.1 = KING_COL + 2)
    ∧ castleFlagsOf g.currentPlayer (spChessGameSetMove env g m mm cm).2.1 = (false, false) := by
  obtain ⟨hrook, hrow, hcol, hview, hflags⟩ :=
    castle_result env g m mm cm hcc hcm (fun h => (hcorner h).1) hs
  have hcol2 : m.srcCol = LEFT_ROOK_COL ∨ m.srcCol = RIGHT_ROOK_COL := by
    cases cm
    · exact hcol rfl
    · exact (hcorner rfl).2
  obtain ⟨hb, -, hwk, -, hbk⟩ := kingsView_eq _ _ hview
  obtain ⟨s1, s2, -, -⟩ := enteredMove_squares g m
  have hking : (if (enteredMove g m).srcPiece = WHITE_ROOK then WHITE_KING else BLACK_KING)
      = ownKing g.currentPlayer := by
    rw [hrook]; unfold ownRook ownKing; cases g.currentPlayer <;> simp
  have hkc := setCastleMove_kingCol g (enteredMove g m)
  have hkcol : kingColOf g.currentPlayer (spChessGameSetMove env g m mm cm).2.1
      = if m.srcCol = LEFT_ROOK_COL then KING_COL - 2 else KING_COL + 2 := by
    unfold kingColOf
    rw [hwk, hbk, hkc.1, hkc.2, hrook, s2]
    unfold ownRook
    cases g.currentPlayer <;> simp
  have hfl : castleFlagsOf g.currentPlayer (spChessGameSetMove env g m mm cm).2.1
      = (false, false) := by
    have := castle_flags_cleared g (enteredMove g m) mm (by simpa using hcm) hrook
    unfold castleFlagsOf at this ⊢
    unfold flagsOf at hflags
    simp only [Prod.mk.injEq] at hflags
    obtain ⟨f1, f2, f3, f4⟩ := hflags
    rw [f1, f2, f3, f4]
    exact this
  have hboard := setCastleMove_board g (enteredMove g m)
  rw [s1, s2, hking, hrook, hrow] at hboard
  refine ⟨⟨hrow, hcol2⟩, ?_, ?_, hfl⟩
  · intro hL
    rw [hkcol, hb, hboard, hL]
    simp only [LEFT_ROOK_COL, KING_COL, ↓reduceIte, Board.set_apply]
    refine ⟨by norm_num, by norm_num, by norm_num, by norm_num, ?_, trivial⟩
    intro r c hne
    have h1 : ¬ (r = ownFirstRow g.currentPlayer ∧ c = 4) := fun h => hne ⟨h.1, by omega⟩
    have h2 : ¬ (r = ownFirstRow g.currentPlayer ∧ c = 4 - 1) := fun h => hne ⟨h.1, by omega⟩
    have h3 : ¬ (r = ownFirstRow g.currentPlayer ∧ c = 0) := fun h => hne ⟨h.1, by omega⟩
    have h4 : ¬ (r = ownFirstRow g.currentPlayer ∧ c = 4 - 2) := fun h => hne ⟨h.1, by omega⟩
    simp only [h1, h2, h3, h4, ↓reduceIte]
  · intro hR
    have hnl : ¬ (RIGHT_ROOK_COL = LEFT_ROOK_COL) := by decide
    rw [hkcol, hb, hboard, hR]
    simp only [LEFT_ROOK_COL, RIGHT_ROOK_COL, KING_COL, ↓reduceIte, Board.set_apply]
    refine ⟨by norm_num, by norm_num, by norm_num, by norm_num, ?_, by norm_num⟩
    intro r c hne
    have h1 : ¬ (r = ownFirstRow g.currentPlayer ∧ c = 4) := fun h => hne ⟨h.1, by omega⟩
    have h2 : ¬ (r = ownFirstRow g.currentPlayer ∧ c = 4 + 1) := fun h => hne ⟨h.1, by omega⟩
    have h3 : ¬ (r = ownFirstRow g.currentPlayer ∧ c = 7) := fun h => hne ⟨h.1, by omega⟩
    have h4 : ¬ (r = ownFirstRow g.currentPlayer ∧ c = 4 + 2) := fun h => hne ⟨h.1, by omega⟩
    have e : ¬ ((7 : Int) = 0) := by norm_num
    simp only [h1, h2, h3, h4, e, ↓reduceIte]

/-- C29 (amended) for the castle with the a1 rook in `castleGame`: the white king ends on c1
and the rook on d1. -/
theorem C29_castle_effect_witness :
    castleConsistent castleGame ∧ castleLeftCommand.castleMove = true
    ∧ (spChessGameSetMove sampleEnv castleGame castleLeftCommand false false).1
        = SP_CHESS_GAME_SUCCESS
    ∧ (spChessGameSetMove sampleEnv castleGame castleLeftCommand false false).2.1.board
          (ownFirstRow castleGame.currentPlayer) (KING_COL - 2) = ownKing castleGame.currentPlayer
    ∧ (spChessGameSetMove sampleEnv castleGame castleLeftCommand false false).2.1.board
          (ownFirstRow castleGame.currentPlayer) (KING_COL - 1) = ownRook castleGame.currentPlayer
    ∧ (spChessGameSetMove sampleEnv castleGame castleLeftCommand false false).2.1.board
          (ownFirstRow castleGame.currentPlayer) KING_COL = EMPTY_POSITION
    ∧ (spChessGameSetMove sampleEnv castleGame castleLeftCommand false false).2.1.board
          (ownFirstRow castleGame.currentPlayer) LEFT_ROOK_COL = EMPTY_POSITION
    ∧ (∀ r c : Int, ¬ (r = ownFirstRow castleGame.currentPlayer
          ∧ (c = LEFT_ROOK_COL ∨ c = KING_COL - 2 ∨ c = KING_COL - 1 ∨ c = KING_COL)) →
        (spChessGameSetMove sampleEnv castleGame castleLeftCommand false false).2.1.board r c
          = castleGame.board r c)
    ∧ kingColOf castleGame.currentPlayer
        (spChessGameSetMove sampleEnv castleGame castleLeftCommand false false).2.1
          = KING_COL - 2 :=
  ⟨by decide!, by decide, by decide!,
    (C29_castle_effect sampleEnv castleGame castleLeftCommand false false (by decide!)
      (by decide) (fun h => absurd h (by decide)) (by decide!)).2.1 (by decide)⟩

/-! ## The search and the live game -/

theorem updateBoundsAndMove_game (mv : Move) (st : SearchState) (maximize : Bool)
    (v depth : Int) : (updateBoundsAndMove mv st maximize v depth).currentGame = st.currentGame := by
  unfold updateBoundsAndMove
  split_ifs <;> rfl

theorem searchMovesLoop_game (env : Env)
    (recurse : SPChessGame → Move → Int → Int → Int × Move) (l : SPArrayList)
    (maximize : Bool) (depth : Int) (n : Nat) :
    ∀ (moveNum : Int) (st : SearchState),
      (searchMovesLoop env recurse l maximize depth n moveNum st).currentGame
        = st.currentGame := by
  induction n with
  | zero => intro moveNum st; rfl
  | succ k ih =>
    intro moveNum st
    unfold searchMovesLoop
    by_cases hg : st.gaveUp = true
    · rw [if_pos hg]
    rw [if_neg hg]
    by_cases hguard : ¬ (st.alpha < st.beta ∧ moveNum < spArrayListSize l)
    · rw [if_pos hguard]
    rw [if_neg hguard]
    cases spChessGameCopy st.currentGame <;> cases spArrayListGetAt l moveNum <;> simp only
    split_ifs
    · rfl
    · rw [ih, updateBoundsAndMove_game]

theorem searchColsLoop_game (env : Env)
    (recurse : SPChessGame → Move → Int → Int → Int × Move) (l : SPArrayList)
    (maximize : Bool) (depth row : Int) (cols : List Int) :
    ∀ st : SearchState, castleConsistent st.currentGame →
      (searchColsLoop env recurse l maximize depth row cols st).currentGame
        = st.currentGame := by
  induction cols with
  | nil => intro st _; rfl
  | cons col rest ih =>
    intro st hcc
    unfold searchColsLoop
    by_cases hg : st.gaveUp = true
    · rw [if_pos hg]
    rw [if_neg hg]
    by_cases hguard : ¬ (st.alpha < st.beta)
    · rw [if_pos hguard]
    rw [if_neg hguard]
    simp only
    have hgen := getPossiblePieceMoves_game env st.currentGame l row col
      (st.currentGame.board row col) true true hcc
    split_ifs
    · exact ih st hcc
    · exact hgen
    · rw [ih _ (by rw [searchMovesLoop_game]; simp only [hgen]; exact hcc),
        searchMovesLoop_game]
      exact hgen

theorem searchRowsLoop_game (env : Env)
    (recurse : SPChessGame → Move → Int → Int → Int × Move) (l : SPArrayList)
    (maximize : Bool) (depth : Int) (rows : List Int) :
    ∀ st : SearchState, castleConsistent st.currentGame →
      (searchRowsLoop env recurse l maximize depth rows st).currentGame = st.currentGame := by
  induction rows with
  | nil => intro st _; rfl
  | cons row rest ih =>
    intro st hcc
    unfold searchRowsLoop
    by_cases hg : st.gaveUp = true
    · rw [if_pos hg]
    rw [if_neg hg]
    by_cases hguard : ¬ (st.alpha < st.beta)
    · rw [if_pos hguard]
    rw [if_neg hguard]
    simp only
    have h1 := searchColsLoop_game env recurse l maximize depth row [0, 1, 2, 3, 4, 5, 6, 7]
      st hcc
    rw [ih _ (by rw [h1]; exact hcc), h1]

/-- On a state on which the castle simulation restores the board, `alphaBetaPruning` leaves
the node's game as it was. -/
theorem alphaBetaPruning_game (env : Env) (maxDepth : Int) (p : Player) (fuel : Nat)
    (g : SPChessGame) (mv : Move) (depth a b : Int) (hcc : castleConsistent g) :
    (alphaBetaPruning env maxDepth p fuel g mv depth a b).2.2 = g := by
  cases fuel with
  | zero => rfl
  | succ k =>
    rw [alphaBetaPruning]
    by_cases hleaf : depth > ROOT_DEPTH ∧ (g.status = WHITE_PLAYER_WINS
        ∨ g.status = BLACK_PLAYER_WINS ∨ g.status = TIED_GAME ∨ depth = maxDepth)
    · simp only [hleaf, and_self, ↓reduceIte]
    · simp only [hleaf, ↓reduceIte]
      cases spArrayListCreate env.MAX_MOVES_FOR_PIECE with
      | none => rfl
      | some l =>
        have key := searchRowsLoop_game env
          (fun (descendantGame : SPChessGame) (mv : Move) (a b : Int) =>
            ((alphaBetaPruning env maxDepth p k descendantGame mv (depth + 1) a b).1,
              (alphaBetaPruning env maxDepth p k descendantGame mv (depth + 1) a b).2.1))
          l (decide (depth % 2 = 0)) depth [0, 1, 2, 3, 4, 5, 6, 7]
          { currentGame := g, alpha := a, beta := b, minimaxMove := mv, choseMove := false,
            gaveUp := false } hcc
        simp only
        split_ifs <;> exact key

/-- C25 (amended): on a state in which a true castling flag has the owner's king on its first
rank in the recorded column, the game after `spChessMinimaxMove` is the game before it:
board, castling flags, king positions, armies, current player, status and history. -/
theorem C25_search_leaves_game (env : Env) (g : SPChessGame) (maxDepth : Int)
    (hcc : castleConsistent g) :
    (spChessMinimaxMove env g maxDepth).2 = g := by
  unfold spChessMinimaxMove
  have key := alphaBetaPruning_game env maxDepth g.currentPlayer (maxDepth.toNat + 1) g
    (spCreateMove env.junk) ROOT_DEPTH INT_MIN INT_MAX hcc
  simp only
  split_ifs <;> first | rfl | exact key

/-- C25 (amended) in the starting position with depth 2. -/
theorem C25_search_leaves_game_witness :
    castleConsistent (initialGame 6)
    ∧ (spChessMinimaxMove sampleEnv (initialGame 6) 2).2 = initialGame 6 :=
  ⟨initialGame_consistent 6,
    C25_search_leaves_game sampleEnv (initialGame 6) 2 (initialGame_consistent 6)⟩

theorem whiteKingOnE1_phantom (a b : SPChessGame) (h : upToPhantom a b)
    (ha : whiteKingOnE1 a) : whiteKingOnE1 b := by
  rcases h with rfl | ⟨-, rfl⟩
  · exact ha
  · obtain ⟨h1, h2, h3⟩ := ha
    unfold whiteKingOnE1 phantomKing
    refine ⟨?_, h2, h3⟩
    simp only [SPChessGame.setBoard, Board.set_apply]
    split_ifs
    · unfold ownKing; rw [h2]; rfl
    · exact h1

theorem searchColsLoop_e1 (env : Env)
    (recurse : SPChessGame → Move → Int → Int → Int × Move) (l : SPArrayList)
    (maximize : Bool) (depth row : Int) (cols : List Int) :
    ∀ st : SearchState, whiteKingOnE1 st.currentGame →
      whiteKingOnE1 (searchColsLoop env recurse l maximize depth row cols st).currentGame := by
  induction cols with
  | nil => intro st h; exact h
  | cons col rest ih =>
    intro st h
    unfold searchColsLoop
    by_cases hg : st.gaveUp = true
    · rw [if_pos hg]; exact h
    rw [if_neg hg]
    by_cases hguard : ¬ (st.alpha < st.beta)
    · rw [if_pos hguard]; exact h
    rw [if_neg hguard]
    simp only
    by_cases ho : currentPlayerPiece st.currentGame.currentPlayer
        (st.currentGame.board row col) = true
    · have hgen := whiteKingOnE1_phantom _ _
        (getPossiblePieceMoves_phantom env st.currentGame l row col true true ho) h
      simp only [ho, Bool.not_true, Bool.false_eq_true, ↓reduceIte]
      split_ifs
      · exact hgen
      · exact ih _ (by rw [searchMovesLoop_game]; exact hgen)
    · simp only [Bool.not_eq_true] at ho
      simp only [ho, Bool.not_false, ↓reduceIte]
      exact ih st h

theorem searchRowsLoop_e1 (env : Env)
    (recurse : SPChessGame → Move → Int → Int → Int × Move) (l : SPArrayList)
    (maximize : Bool) (depth : Int) (rows : List Int) :
    ∀ st : SearchState, whiteKingOnE1 st.currentGame →
      whiteKingOnE1 (searchRowsLoop env recurse l maximize depth rows st).currentGame := by
  induction rows with
  | nil => intro st h; exact h
  | cons row rest ih =>
    intro st h
    unfold searchRowsLoop
    by_cases hg : st.gaveUp = true
    · rw [if_pos hg]; exact h
    rw [if_neg hg]
    by_cases hguard : ¬ (st.alpha < st.beta)
    · rw [if_pos hguard]; exact h
    rw [if_neg hguard]
    exact ih _ (searchColsLoop_e1 env recurse l maximize depth row _ st h)

theorem either_way (P : SPChessGame → Prop) (c : Prop) [Decidable c] (x y : Int) (m : Move)
    (G : SPChessGame) (h : P G) : P (if c then (x, m, G) else (y, m, G)).2.2 := by
  split_ifs <;> exact h

/-- The game a castle candidate leaves behind is the one `legalCastle` leaves. -/
theorem addPieceMove_castle_game (env : Env) (g : SPChessGame) (l : SPArrayList)
    (sr sc dr dc : Int) (mm : Bool) :
    (addPieceMove env g l sr sc dr dc true mm).1 = (legalCastle g (baseCastle env g sr sc)).2 := by
  unfold addPieceMove baseCastle
  simp only [Bool.not_true, Bool.false_and, Bool.false_eq_true, ↓reduceIte]
  split_ifs <;> rfl

/-- The game the move generation of a rook leaves behind is the one `legalCastle` leaves for
its castle. -/
theorem rookMoves_game (env : Env) (g : SPChessGame) (l : SPArrayList) (sr sc : Int)
    (sort : Bool) (hr : g.board sr sc = WHITE_ROOK ∨ g.board sr sc = BLACK_ROOK) :
    (getPossibleRookOrQueenMoves env g l sr sc sort).1
      = (legalCastle g (baseCastle env g sr sc)).2 := by
  unfold getPossibleRookOrQueenMoves
  simp only [getDirectionalMoves_same]
  split_ifs with h1 h2 h3 h4 <;>
    first
    | exact addPieceMove_castle_game _ _ _ _ _ _ _ _
    | (simp only [getDirectionalMoves_same] at *; exact absurd hr (by assumption))
    | (simp only [getDirectionalMoves_same] at *; exact addPieceMove_castle_game _ _ _ _ _ _ _ _)

set_option maxHeartbeats 4000000 in
/-- The search of `staleSearchGame` writes a white king on e1 when it generates the moves of
the a1 rook, the first piece it comes to, and the king stays there. -/
theorem staleSearch_root (maxDepth : Int) (P : Player) (fuel : Nat) (mv : Move) :
    whiteKingOnE1 (alphaBetaPruning sampleEnv maxDepth P (fuel + 1) staleSearchGame
      mv ROOT_DEPTH INT_MIN INT_MAX).2.2 := by
  rw [alphaBetaPruning]
  have hleaf : ¬ (ROOT_DEPTH > ROOT_DEPTH ∧ (staleSearchGame.status = WHITE_PLAYER_WINS
      ∨ staleSearchGame.status = BLACK_PLAYER_WINS ∨ staleSearchGame.status = TIED_GAME
      ∨ ROOT_DEPTH = maxDepth)) := fun h => absurd h.1 (by decide)
  have hcreate : spArrayListCreate sampleEnv.MAX_MOVES_FOR_PIECE
      = some (emptyMoveList sampleEnv) := by decide
  have hb : staleSearchGame.board 0 0 = WHITE_ROOK := by decide
  have ho : currentPlayerPiece staleSearchGame.currentPlayer (staleSearchGame.board 0 0)
      = true := by decide
  have hgen1 : (getPossiblePieceMoves sampleEnv staleSearchGame (emptyMoveList sampleEnv) 0 0
      (staleSearchGame.board 0 0) true true).1 = SP_CHESS_GAME_SUCCESS :=
    getPossiblePieceMoves_message _ _ _ _ _ _ _ _ (own_ne_empty _ _ ho)
  have hgen2 : whiteKingOnE1 (getPossiblePieceMoves sampleEnv staleSearchGame
      (emptyMoveList sampleEnv) 0 0 (staleSearchGame.board 0 0) true true).2.1 := by
    rw [hb]
    show whiteKingOnE1 (getPossibleRookOrQueenMoves sampleEnv staleSearchGame
      (emptyMoveList sampleEnv) 0 0 true).1
    rw [rookMoves_game _ _ _ _ _ _ (Or.inl hb)]
    decide!
  simp only [hleaf, ↓reduceIte, hcreate]
  have key : whiteKingOnE1
      (searchRowsLoop sampleEnv
        (fun (descendantGame : SPChessGame) (mv : Move) (a b : Int) =>
          ((alphaBetaPruning sampleEnv maxDepth P fuel descendantGame mv
              (ROOT_DEPTH + 1) a b).1,
            (alphaBetaPruning sampleEnv maxDepth P fuel descendantGame mv
              (ROOT_DEPTH + 1) a b).2.1))
        (emptyMoveList sampleEnv) (decide (ROOT_DEPTH % 2 = 0)) ROOT_DEPTH
        [0, 1, 2, 3, 4, 5, 6, 7]
        { currentGame := staleSearchGame, alpha := INT_MIN, beta := INT_MAX, minimaxMove := mv,
          choseMove := false, gaveUp := false }).currentGame := by
    rw [searchRowsLoop_cons _ _ _ _ _ _ _ _ rfl INT_MIN_lt_INT_MAX]
    apply searchRowsLoop_e1
    rw [searchColsLoop_own _ _ _ _ _ _ _ _ _ rfl INT_MIN_lt_INT_MAX ho hgen1]
    apply searchColsLoop_e1
    rw [searchMovesLoop_game]
    dsimp only
    exact hgen2
  exact either_way whiteKingOnE1 _ _ _ _ _ key


theorem either_result (P : SPChessGame → Prop) (c : Prop) [Decidable c] (a b : Option Move)
    (G : SPChessGame) (h : P G) : P (if c then (a, G) else (b, G)).2 := by
  split_ifs <;> exact h

theorem staleSearch_minimax (maxDepth : Int) (h : 0 < maxDepth) :
    whiteKingOnE1 (spChessMinimaxMove sampleEnv staleSearchGame maxDepth).2 := by
  unfold spChessMinimaxMove
  simp only
  rw [if_neg (not_le.2 h)]
  exact either_result whiteKingOnE1 _ _ _ _
    (staleSearch_root maxDepth staleSearchGame.currentPlayer maxDepth.toNat
      (spCreateMove sampleEnv.junk))

/-- C25 as stated fails: in `staleSearchGame` (White to move, the white king on e2 with
`whiteLeftCastle` still true) the square e1 is empty; after `spChessMinimaxMove` with depth 2
the live game holds a white king on e1. -/
theorem C25_search_counterexample :
    staleSearchGame.board 0 4 = EMPTY_POSITION
    ∧ (spChessMinimaxMove sampleEnv staleSearchGame 2).2.board 0 4 = WHITE_KING :=
  ⟨by decide!, (staleSearch_minimax 2 (by decide)).1⟩

/-! ## Moves of the engine and the legality check -/

/-- When the legality check accepts the move and leaves game and move as the engine's call
takes them, `spChessGameSetMove` gives the same result with and without the check. -/
theorem setMove_check_skipped (env : Env) (g : SPChessGame) (x : Move) (mm : Bool)
    (hcc : castleConsistent g)
    (hcastle : x.castleMove = true → (legalCastle g (enteredMove g x)).1 = true)
    (hreg : x.castleMove = false → x.pawnPromotion = false →
      legalRegularMove g (enteredMove g x) = (true, g, enteredMove g x)) :
    spChessGameSetMove env g x mm true = spChessGameSetMove env g x mm false := by
  rw [spChessGameSetMove_eq env g x mm true, spChessGameSetMove_eq env g x mm false]
  by_cases hc : x.castleMove = true
  · have e : checkedCastle g x false = checkedCastle g x true := by
      unfold checkedCastle
      simp only [Bool.not_false, Bool.not_true, Bool.false_eq_true, ↓reduceIte]
      exact Prod.ext (hcastle hc) (legalCastle_game g _ hcc)
    have e1 : (checkedCastle g x true).1 = true := rfl
    have h1 : (enteredMove g x).castleMove = true := by simpa using hc
    rw [e]
    simp only [h1, ↓reduceIte, e1, Bool.not_true, Bool.not_false, Bool.and_false,
      Bool.false_and]
  · have hc2 : x.castleMove = false := by simpa using hc
    by_cases hp : x.pawnPromotion = true
    · have h1 : (enteredMove g x).castleMove = false := by simpa using hc2
      have h2 : (enteredMove g x).pawnPromotion = true := by
        rw [enteredMove_pawnPromotion]; exact hp
      simp only [h1, h2, Bool.false_eq_true, ↓reduceIte]
    · have hp2 : x.pawnPromotion = false := by simpa using hp
      have e : checkedRegular g x false = checkedRegular g x true := by
        unfold checkedRegular
        simp only [Bool.not_false, Bool.not_true, Bool.false_eq_true, ↓reduceIte]
        exact hreg hc2 hp2
      have e1 : (checkedRegular g x true).1 = true := rfl
      have h1 : (enteredMove g x).castleMove = false := by simpa using hc2
      have h2 : (enteredMove g x).pawnPromotion = false := by
        rw [enteredMove_pawnPromotion]; exact hp2
      rw [e]
      simp only [h1, h2, Bool.false_eq_true, ↓reduceIte, e1, Bool.not_true, Bool.not_false,
        Bool.and_false, Bool.false_and]

theorem SamePosition.refl (g : SPChessGame) : SamePosition g g := ⟨rfl, rfl, rfl, rfl, rfl, rfl⟩

/-- The legality check run again on a regular move of the generator accepts it and leaves
the game and the move as they are. -/
theorem regular_candidate_checked (env : Env) (g : SPChessGame) (sr sc dr dc : Int)
    (hl : (legalRegularMove g (baseMove env g sr sc dr dc)).1 = true)
    (hpp : (filledMove g (baseMove env g sr sc dr dc)).pawnPromotion = false) :
    legalRegularMove g (enteredMove g (filledMove g (baseMove env g sr sc dr dc)))
      = (true, g, enteredMove g (filledMove g (baseMove env g sr sc dr dc))) := by
  rw [enteredMove_eq_stampMove g _ hpp]
  have h1 : (legalRegularMove g (stampMove g (filledMove g (baseMove env g sr sc dr dc)))).1
      = true := by
    have e := legalRegularMove_congr g g
      (stampMove g (filledMove g (baseMove env g sr sc dr dc))) (baseMove env g sr sc dr dc)
      (SamePosition.refl g) rfl rfl rfl rfl rfl
    rw [e]
    exact hl
  have h2 : (legalRegularMove g (stampMove g (filledMove g (baseMove env g sr sc dr dc)))).2.1
      = g := legalRegularMove_game g _ rfl
  have h3 : (legalRegularMove g (stampMove g (filledMove g (baseMove env g sr sc dr dc)))).2.2
      = stampMove g (filledMove g (baseMove env g sr sc dr dc)) := by
    rw [legalRegularMove_move g _ h1]
    have hr : ¬ reachesLastRow g (baseMove env g sr sc dr dc) := by
      intro h
      have : (filledMove g (baseMove env g sr sc dr dc)).pawnPromotion = true := by
        simp [filledMove, h]
      rw [hpp] at this
      cases this
    simp only [filledMove, stampMove, baseMove, spCreateMove, reachesLastRow,
      boardAfterMove] at hr ⊢
    simp only [hr, decide_False, Bool.or_false, Bool.false_or]
    simp only [Move.mk.injEq, true_and, and_true]
    refine ⟨Bool.or_self _, ?_⟩
    split_ifs <;> rfl
  exact Prod.ext h1 (Prod.ext h2 h3)

/-- The legality check run again on a castle of the generator accepts it. -/
theorem castle_candidate_checked (env : Env) (g : SPChessGame) (sr sc : Int)
    (hl : (legalCastle g (baseCastle env g sr sc)).1 = true) :
    (legalCastle g (enteredMove g { baseCastle env g sr sc with castleMove := true })).1
      = true := by
  have e := legalCastle_congr g g
    (enteredMove g { baseCastle env g sr sc with castleMove := true }) (baseCastle env g sr sc)
    rfl rfl rfl rfl
  rw [e]
  exact hl

/-- For a move one call of `addPieceMove` hands to the list `spChessGameSetMove` gives the
same result with and without the legality check. -/
theorem candidateMoves_check_skipped (env : Env) (g : SPChessGame) (sr sc dr dc : Int)
    (castle mm mmv : Bool) (hcc : castleConsistent g)
    (x : Move) (h : x ∈ candidateMoves env g sr sc dr dc castle mm) :
    spChessGameSetMove env g x mmv true = spChessGameSetMove env g x mmv false := by
  unfold candidateMoves at h
  cases castle
  · simp only [Bool.false_eq_true, ↓reduceIte] at h
    split_ifs at h with h1 h2 h3
    · exact absurd h (List.not_mem_nil _)
    · have hp : x.pawnPromotion = true ∧ x.castleMove = false := by
        have h3b : (filledMove g (baseMove env g sr sc dr dc)).pawnPromotion = true := by
          simp only [Bool.and_eq_true] at h3
          exact h3.2
        unfold promotionMoves at h
        simp only [List.mem_cons, List.mem_singleton, List.not_mem_nil, or_false] at h
        rcases h with rfl | rfl | rfl | rfl <;> exact ⟨h3b, rfl⟩
      exact setMove_check_skipped env g x mmv hcc
        (fun hc => by rw [hp.2] at hc; cases hc)
        (fun _ hq => by rw [hp.1] at hq; cases hq)
    · rw [List.mem_singleton] at h
      subst h
      exact setMove_check_skipped env g _ mmv hcc
        (fun hc => absurd hc (by simp [filledMove, baseMove, spCreateMove]))
        (fun _ hq => regular_candidate_checked env g sr sc dr dc h2 hq)
    · exact absurd h (List.not_mem_nil _)
  · simp only [↓reduceIte] at h
    split_ifs at h with h1
    · rw [List.mem_singleton] at h
      subst h
      exact setMove_check_skipped env g _ mmv hcc
        (fun _ => castle_candidate_checked env g sr sc h1)
        (fun hc => absurd hc (by simp))
    · exact absurd h (List.not_mem_nil _)

theorem rayCandidates_forall (env : Env) (g : SPChessGame) (sr sc dr dc : Int)
    (P : Move → Prop)
    (hc : ∀ a b : Int, ∀ x ∈ candidateMoves env g sr sc a b false false, P x) :
    ∀ (fuel : Nat) (r c : Int), ∀ x ∈ rayCandidates env g sr sc dr dc fuel r c, P x := by
  intro fuel
  induction fuel with
  | zero => intro r c x hx; exact absurd hx (List.not_mem_nil _)
  | succ n ih =>
    intro r c x hx
    unfold rayCandidates at hx
    split_ifs at hx
    · exact absurd hx (List.not_mem_nil _)
    · exact hc _ _ x hx
    · exact absurd hx (List.not_mem_nil _)
    · rcases List.mem_append.1 hx with h | h
      · exact hc _ _ x h
      · exact ih _ _ x h

/-- What holds of the moves of every call of `addPieceMove` holds of every candidate of a
piece. -/
theorem pieceCandidates_forall (env : Env) (g : SPChessGame) (r c : Int) (mm : Bool)
    (P : Move → Prop)
    (hc : ∀ (a b : Int) (m : Bool), ∀ x ∈ candidateMoves env g r c a b false m, P x)
    (hcas : ∀ sr sc : Int,
      ∀ x ∈ candidateMoves env g sr sc DUMMY_COORDINATE DUMMY_COORDINATE true false, P x) :
    ∀ x ∈ pieceCandidates env g r c mm, P x := by
  have hray := rayCandidates_forall env g r c
  have hc0 : ∀ a b : Int, ∀ x ∈ candidateMoves env g r c a b false false, P x :=
    fun a b => hc a b false
  have hnil : ∀ x ∈ ([] : List Move), P x := fun x hx => absurd hx (List.not_mem_nil _)
  have hbishop : ∀ x ∈ bishopCandidates env g r c, P x := by
    unfold bishopCandidates
    simp only [List.forall_mem_append]
    exact ⟨⟨⟨hray _ _ P hc0 _ _ _, hray _ _ P hc0 _ _ _⟩, hray _ _ P hc0 _ _ _⟩,
      hray _ _ P hc0 _ _ _⟩
  have hrook : ∀ x ∈ rookCandidates env g r c, P x := by
    unfold rookCandidates
    simp only [List.forall_mem_append]
    exact ⟨⟨⟨hray _ _ P hc0 _ _ _, hray _ _ P hc0 _ _ _⟩, hray _ _ P hc0 _ _ _⟩,
      hray _ _ P hc0 _ _ _⟩
  have hrc : ∀ x ∈ rookCastleCandidates env g r c, P x := by
    unfold rookCastleCandidates
    split_ifs with h
    · exact hcas r c
    · exact hnil
  have hkc : ∀ x ∈ kingCastleCandidates env g (ownRook g.currentPlayer)
      (ownFirstRow g.currentPlayer), P x := by
    unfold kingCastleCandidates
    simp only [List.forall_mem_append]
    constructor
    · split_ifs with h
      · exact hcas _ _
      · exact hnil
    · split_ifs with h
      · exact hcas _ _
      · exact hnil
  have hpawn : ∀ x ∈ pawnCandidates env g r c mm, P x := by
    unfold pawnCandidates
    simp only [List.forall_mem_append]
    refine ⟨⟨⟨⟨?_, hc _ _ _⟩, hc _ _ _⟩, hc _ _ _⟩, ?_⟩
    · split_ifs
      · exact hc _ _ _
      · exact hnil
    · split_ifs
      · exact hc _ _ _
      · exact hnil
  have hknight : ∀ x ∈ knightCandidates env g r c, P x := by
    unfold knightCandidates
    simp only [List.forall_mem_append]
    exact ⟨⟨⟨⟨⟨⟨⟨hc _ _ _, hc _ _ _⟩, hc _ _ _⟩, hc _ _ _⟩, hc _ _ _⟩, hc _ _ _⟩, hc _ _ _⟩,
      hc _ _ _⟩
  have hking : ∀ x ∈ kingStepCandidates env g r c, P x := by
    unfold kingStepCandidates
    simp only [List.forall_mem_append]
    exact ⟨⟨⟨⟨⟨⟨⟨hc _ _ _, hc _ _ _⟩, hc _ _ _⟩, hc _ _ _⟩, hc _ _ _⟩, hc _ _ _⟩, hc _ _ _⟩,
      hc _ _ _⟩
  unfold pieceCandidates
  cases g.board r c <;> simp only [List.forall_mem_append] <;>
    first
    | exact hnil
    | exact hpawn
    | exact hknight
    | exact hbishop
    | exact ⟨hrook, hrc⟩
    | exact ⟨hbishop, hrook, hrc⟩
    | exact ⟨hking, hkc⟩

/-- C26: in a game whose castling flags agree with the recorded king squares, for every
square (so for every square that holds a piece of the side to move) and every move `x` of
the list `getPossiblePieceMoves` fills for it from an empty list (sorted or not, in UI mode
or in search mode), `spChessGameSetMove` with `computerMove = true` returns the same
message, the same game (board, flags, king squares, armies, player, status and history) and
the same move as with `computerMove = false`, for either value of `minimaxMove`. -/
theorem C26_engine_check_skipped (env : Env) (g : SPChessGame) (r c : Int)
    (sort mm mmv : Bool) (x : Move)
    (hcc : castleConsistent g)
    (hx : x ∈ (getPossiblePieceMoves env g (emptyMoveList env) r c (g.board r c)
      sort mm).2.2.elements) :
    spChessGameSetMove env g x mmv true = spChessGameSetMove env g x mmv false := by
  rw [getPossiblePieceMoves_list env g _ r c sort mm hcc] at hx
  rcases generatedList_subset env g _ r c sort mm x hx with h | h
  · exact absurd h (List.not_mem_nil _)
  · exact pieceCandidates_forall env g r c mm
      (fun y => spChessGameSetMove env g y mmv true = spChessGameSetMove env g y mmv false)
      (fun a b m y hy => candidateMoves_check_skipped env g r c a b false m mmv hcc y hy)
      (fun sr sc y hy => candidateMoves_check_skipped env g sr sc _ _ true false mmv hcc y hy)
      x h

/-- C26 at a concrete input: the castle the generator lists for the rook on a1 of
`castleGame`, sorted and in search mode. -/
theorem C26_engine_check_skipped_witness :
    castleConsistent castleGame
    ∧ { baseCastle sampleEnv castleGame 0 0 with castleMove := true }
        ∈ (getPossiblePieceMoves sampleEnv castleGame (emptyMoveList sampleEnv) 0 0
            (castleGame.board 0 0) true true).2.2.elements
    ∧ spChessGameSetMove sampleEnv castleGame
          { baseCastle sampleEnv castleGame 0 0 with castleMove := true } true true
        = spChessGameSetMove sampleEnv castleGame
          { baseCastle sampleEnv castleGame 0 0 with castleMove := true } true false :=
  ⟨by decide!, by decide!,
    C26_engine_check_skipped sampleEnv castleGame 0 0 true true true _ (by decide!)
      (by decide!)⟩

/-! ## Castling flags and the home squares -/

/-- The board after a successful `spChessGameSetMove` that is not a castle: the source is
emptied and the destination holds the piece the call works with. -/
theorem noncastle_board (env : Env) (g : SPChessGame) (m : Move) (mm cm : Bool)
    (hcc : castleConsistent g) (hin : builtByCaller g m cm) (hcm : m.castleMove = false)
    (hw : g.board m.dstRow m.dstCol ≠ WHITE_KING) (hb : g.board m.dstRow m.dstCol ≠ BLACK_KING)
    (hs : (spChessGameSetMove env g m mm cm).1 = SP_CHESS_GAME_SUCCESS) :
    (spChessGameSetMove env g m mm cm).2.1.board
      = (g.board.set m.srcRow m.srcCol EMPTY_POSITION).set m.dstRow m.dstCol
          (enteredMove g m).srcPiece := by
  obtain ⟨hsrc, ho, hcase⟩ := setMove_success_cases env g m mm cm hs
  obtain ⟨hsq1, hsq2, hsq3, hsq4⟩ := enteredMove_squares g m
  rcases hcase with ⟨h, -⟩ | ⟨-, hpp, hdst, e1, -⟩ | ⟨-, hpp, hdst, hl, e1, -⟩
  · rw [hcm] at h; exact absurd h (by decide)
  · -- a promotion of the engine
    obtain ⟨hdp, -, hf, hpawn⟩ := hin.2 hcm (Or.inr hpp)
    have hne : ¬ ((enteredMove g m).dstRow = (enteredMove g m).srcRow
        ∧ (enteredMove g m).dstCol = (enteredMove g m).srcCol) := by
      rw [hsq1, hsq2, hsq3, hsq4]
      rintro ⟨h1, h2⟩
      rw [h1, h2, hpawn hpp, ownPawn_own] at hf
      exact absurd hf (by decide)
    have hsk := ownPawn_not_king g.currentPlayer
    have hview : kingsView (updatesAfterSettingMove env
        (spChessGameSetPawnPromotion env g (enteredMove g m) true).2 (enteredMove g m) mm).2
        = kingsView (promotionPrefix g (enteredMove g m) true) := by
      rw [kingsView_updatesAfter env _ _ mm
          (fun h => by rw [enteredMove_pawnPromotion, hpp] at h; exact absurd h (by decide)),
        spChessGameSetPawnPromotion_eq,
        kingsView_changePlayerAndUpdateStatus env _
          (castleConsistent_promotionPrefix g (enteredMove g m) true hcc
            (fun _ => by rw [hsq1, hsq2, hpawn hpp]; exact hsk)
            (by rw [hsq3, hsq4]; exact hw) (by rw [hsq3, hsq4]; exact hb) hne)]
    rw [e1, (kingsView_eq _ _ hview).1, promotionPrefix_board, hsq1, hsq2, hsq3, hsq4]
    rfl
  · -- a regular move
    have hsp : (enteredMove g m).srcPiece = g.board m.srcRow m.srcCol := by
      rw [enteredMove_srcPiece]; simp [hpp]
    have key : ∀ mv : Move, mv.srcRow = m.srcRow → mv.srcCol = m.srcCol →
        mv.dstRow = m.dstRow → mv.dstCol = m.dstCol →
        mv.srcPiece = (enteredMove g m).srcPiece →
        (updatesAfterSettingMove env (setRegularMove g mv) mv mm).2.board
          = (g.board.set m.srcRow m.srcCol EMPTY_POSITION).set m.dstRow m.dstCol
              (enteredMove g m).srcPiece := by
      intro mv a1 a2 a3 a4 a5
      have hview := kingsView_updatesAfter env (setRegularMove g mv) mv mm
        (fun _ => castleConsistent_regular g mv mm hcc (by rw [a5, hsp, a1, a2])
          (by rw [a3, a4]; exact hw) (by rw [a3, a4]; exact hb))
      rw [(kingsView_eq _ _ hview).1, setRegularMove_board, a1, a2, a3, a4, a5]
    rw [e1]
    cases hc2 : cm
    · have hlegal := hl hc2
      have hG : (checkedRegular g m false).2.1 = g := by
        simp only [checkedRegular, Bool.not_false, ↓reduceIte]
        exact legalRegularMove_game g _ (by rw [hsp, hsq1, hsq2])
      have hM : (checkedRegular g m false).2.2 = filledMove g (enteredMove g m) := by
        simp only [checkedRegular, Bool.not_false, ↓reduceIte]
        exact legalRegularMove_move g _ hlegal
      rw [hG, hM]
      exact key _ hsq1 hsq2 hsq3 hsq4 rfl
    · have hG : (checkedRegular g m true).2.1 = g := rfl
      have hM : (checkedRegular g m true).2.2 = enteredMove g m := rfl
      rw [hG, hM]
      exact key _ hsq1 hsq2 hsq3 hsq4 rfl

/-- A flag that a move leaves true was true, and its king and rook are where they were. -/
theorem flag_home_kept (g : SPChessGame) (m : Move) (X : Piece) (F : Bool)
    (rook king : Piece) (row corner : Int)
    (h : (F && !cleared g m rook king row corner) = true)
    (hhome : F = true → g.board row KING_COL = king ∧ g.board row corner = rook)
    (hk : g.board m.dstRow m.dstCol ≠ king) :
    F = true
    ∧ ((g.board.set m.srcRow m.srcCol EMPTY_POSITION).set m.dstRow m.dstCol X) row KING_COL
        = king
    ∧ ((g.board.set m.srcRow m.srcCol EMPTY_POSITION).set m.dstRow m.dstCol X) row corner
        = rook := by
  simp only [Bool.and_eq_true, Bool.not_eq_true', cleared, Bool.or_eq_false_iff,
    Bool.and_eq_false_imp, decide_eq_true_eq, decide_eq_false_iff_not] at h
  obtain ⟨hF, ⟨h1, h2⟩, h3⟩ := h
  obtain ⟨hK, hR⟩ := hhome hF
  refine ⟨hF, ?_, ?_⟩
  · rw [Board.set_apply, if_neg (fun e => hk (by rw [← e.1, ← e.2]; exact hK)),
      Board.set_apply, if_neg (fun e => h1 (by rw [← e.1, ← e.2]; exact hK))]
    exact hK
  · have h2b : ¬ (g.board m.srcRow m.srcCol = rook ∧ m.srcRow = row ∧ m.srcCol = corner) := by
      tauto
    have h3b : ¬ (g.board m.dstRow m.dstCol = rook ∧ m.dstRow = row ∧ m.dstCol = corner) := by
      tauto
    rw [Board.set_apply,
      if_neg (fun e => h3b ⟨by rw [← e.1, ← e.2]; exact hR, e.1.symm, e.2.symm⟩),
      Board.set_apply,
      if_neg (fun e => h2b ⟨by rw [← e.1, ← e.2]; exact hR, e.1.symm, e.2.symm⟩)]
    exact hR

/-- C30 (amended): in a game in which every true castling flag has its king and rook at home
and its king on the first rank in the recorded column, after a successful
`spChessGameSetMove` whose destination holds no king (with a move as its callers build it; a
castle of the engine starts on the first rank of the side to move) every true castling
flag again has its king and rook at home, and no flag that was false is true. -/
theorem C30_flag_home (env : Env) (g : SPChessGame) (m : Move) (mm cm : Bool)
    (hcc : castleConsistent g) (hc : castleHome g) (hin : builtByCaller g m cm)
    (hrow : cm = true → m.castleMove = true → m.srcRow = ownFirstRow g.currentPlayer)
    (hnk : m.castleMove = false →
      g.board m.dstRow m.dstCol ≠ WHITE_KING ∧ g.board m.dstRow m.dstCol ≠ BLACK_KING)
    (hs : (spChessGameSetMove env g m mm cm).1 = SP_CHESS_GAME_SUCCESS) :
    castleHome (spChessGameSetMove env g m mm cm).2.1
    ∧ flagsNotRaised g (spChessGameSetMove env g m mm cm).2.1 := by
  obtain ⟨hsq1, hsq2, hsq3, hsq4⟩ := enteredMove_squares g m
  obtain ⟨c1, c2, c3, c4⟩ := hc
  cases hcm : m.castleMove
  · -- a regular move or a promotion
    have hB := noncastle_board env g m mm cm hcc hin hcm (hnk hcm).1 (hnk hcm).2 hs
    have hF := (flags_after_move env g m mm cm hin hs).2 hcm
    simp only [flagsOf, Prod.mk.injEq] at hF
    obtain ⟨f1, f2, f3, f4⟩ := hF
    have k1 := fun h => flag_home_kept g m (enteredMove g m).srcPiece g.whiteLeftCastle
      WHITE_ROOK WHITE_KING WHITE_FIRST_ROW LEFT_ROOK_COL h c1 (hnk hcm).1
    have k2 := fun h => flag_home_kept g m (enteredMove g m).srcPiece g.whiteRightCastle
      WHITE_ROOK WHITE_KING WHITE_FIRST_ROW RIGHT_ROOK_COL h c2 (hnk hcm).1
    have k3 := fun h => flag_home_kept g m (enteredMove g m).srcPiece g.blackLeftCastle
      BLACK_ROOK BLACK_KING BLACK_FIRST_ROW LEFT_ROOK_COL h c3 (hnk hcm).2
    have k4 := fun h => flag_home_kept g m (enteredMove g m).srcPiece g.blackRightCastle
      BLACK_ROOK BLACK_KING BLACK_FIRST_ROW RIGHT_ROOK_COL h c4 (hnk hcm).2
    unfold castleHome flagsNotRaised
    rw [hB, f1, f2, f3, f4]
    exact ⟨⟨fun h => (k1 h).2, fun h => (k2 h).2, fun h => (k3 h).2, fun h => (k4 h).2⟩,
      fun h => (k1 h).1, fun h => (k2 h).1, fun h => (k3 h).1, fun h => (k4 h).1⟩
  · -- a castle
    obtain ⟨-, hr, -, hview, -⟩ := castle_result env g m mm cm hcc hcm (fun h => hrow h hcm) hs
    have hB := (kingsView_eq _ _ hview).1
    have hF := (flags_after_move env g m mm cm hin hs).1 hcm
    rw [setCastleMove_board, hsq1] at hB
    by_cases hp : g.currentPlayer = WHITE_PLAYER
    · rw [if_pos hp] at hF
      simp only [flagsOf, Prod.mk.injEq] at hF
      obtain ⟨f1, f2, f3, f4⟩ := hF
      have hrow0 : m.srcRow = WHITE_FIRST_ROW := by rw [hr, ownFirstRow, if_pos hp]
      have frame : ∀ c : Int, (spChessGameSetMove env g m mm cm).2.1.board BLACK_FIRST_ROW c
          = g.board BLACK_FIRST_ROW c := by
        intro c
        rw [hB, hrow0]
        simp [Board.set_apply, WHITE_FIRST_ROW, BLACK_FIRST_ROW]
      unfold castleHome flagsNotRaised
      simp only [f1, f2, f3, f4, frame]
      exact ⟨⟨fun h => absurd h (by decide), fun h => absurd h (by decide), c3, c4⟩,
        fun h => absurd h (by decide), fun h => absurd h (by decide), id, id⟩
    · rw [if_neg hp] at hF
      simp only [flagsOf, Prod.mk.injEq] at hF
      obtain ⟨f1, f2, f3, f4⟩ := hF
      have hrow0 : m.srcRow = BLACK_FIRST_ROW := by rw [hr, ownFirstRow, if_neg hp]
      have frame : ∀ c : Int, (spChessGameSetMove env g m mm cm).2.1.board WHITE_FIRST_ROW c
          = g.board WHITE_FIRST_ROW c := by
        intro c
        rw [hB, hrow0]
        simp [Board.set_apply, WHITE_FIRST_ROW, BLACK_FIRST_ROW]
      unfold castleHome flagsNotRaised
      simp only [f1, f2, f3, f4, frame]
      exact ⟨⟨c1, c2, fun h => absurd h (by decide), fun h => absurd h (by decide)⟩,
        id, id, fun h => absurd h (by decide), fun h => absurd h (by decide)⟩

/-- C30 (amended) at a concrete input: the rook move h1-h2 in `castleGame`, after which
`whiteLeftCastle` is still true with the king on e1 and the rook on a1. -/
theorem C30_flag_home_witness :
    castleConsistent castleGame ∧ castleHome castleGame
    ∧ builtByCaller castleGame (userMove 0 7 1 7) false
    ∧ (spChessGameSetMove sampleEnv castleGame (userMove 0 7 1 7) false false).1
        = SP_CHESS_GAME_SUCCESS
    ∧ castleHome (spChessGameSetMove sampleEnv castleGame (userMove 0 7 1 7) false false).2.1
    ∧ flagsNotRaised castleGame
        (spChessGameSetMove sampleEnv castleGame (userMove 0 7 1 7) false false).2.1 :=
  ⟨by decide!, by decide!, by decide!, by decide!,
    C30_flag_home sampleEnv castleGame (userMove 0 7 1 7) false false (by decide!) (by decide!)
      (by decide!) (fun h => absurd h (by decide)) (fun _ => by decide!) (by decide!)⟩

/-- C30 as stated fails: in `misrecordedKingGame` every true castling flag has king and rook
at home, and the king move e8-d8 of Black is accepted and captures nothing; the status
computation that follows simulates the castle of the a1 rook with the recorded king column,
which puts a white king on h1: `whiteRightCastle` is still true and no rook stands on h1. -/
theorem C30_flag_home_counterexample :
    castleHome misrecordedKingGame
    ∧ misrecordedKingGame.board 7 3 = EMPTY_POSITION
    ∧ (spChessGameSetMove sampleEnv misrecordedKingGame (userMove 7 4 7 3) false false).1
        = SP_CHESS_GAME_SUCCESS
    ∧ (spChessGameSetMove sampleEnv misrecordedKingGame (userMove 7 4 7 3) false false).2.1.whiteRightCastle
        = true
    ∧ (spChessGameSetMove sampleEnv misrecordedKingGame (userMove 7 4 7 3) false false).2.1.board
        WHITE_FIRST_ROW RIGHT_ROOK_COL = WHITE_KING
    ∧ ¬ castleHome
        (spChessGameSetMove sampleEnv misrecordedKingGame (userMove 7 4 7 3) false false).2.1 := by
  decide!

/-! ## The order of the generated moves -/

theorem destBefore_iff (a b : Move) :
    destBefore a b ↔ ¬ (a.dstRow > b.dstRow ∨ (a.dstRow = b.dstRow ∧ a.dstCol > b.dstCol)) := by
  unfold destBefore
  constructor
  · rintro (h | ⟨h1, h2⟩) <;> omega
  · intro h
    by_cases h1 : a.dstRow < b.dstRow
    · exact Or.inl h1
    · right
      constructor <;> omega

theorem destBefore_refl (a : Move) : destBefore a a := Or.inr ⟨rfl, le_refl _⟩

theorem destBefore_trans (a b c : Move) (h1 : destBefore a b) (h2 : destBefore b c) :
    destBefore a c := by
  unfold destBefore at *
  omega

theorem destBefore_total (a b : Move) : destBefore a b ∨ destBefore b a := by
  unfold destBefore
  omega

/-- The exchange of two neighbours in `sortMoves` on the elements. -/
theorem swap_elements (l : SPArrayList) (pre t : List Move) (a b : Move)
    (hl : l.elements = pre ++ a :: b :: t) (hfit : (l.elements.length : Int) ≤ l.maxSize) :
    (spArrayListAddAt (spArrayListRemoveAt l (pre.length : Int)).1 a
        ((pre.length : Int) + 1)).1.elements = (pre ++ [b]) ++ a :: t := by
  have hlen : l.elements.length = pre.length + (t.length + 2) := by
    rw [hl]; simp
  have hrem : (spArrayListRemoveAt l (pre.length : Int)).1
      = { l with elements := pre ++ b :: t } := by
    unfold spArrayListRemoveAt spArrayListIsEmpty spArrayListSize
    have c1 : ¬ ((pre.length : Int) < 0 ∨ (pre.length : Int) ≥ (l.elements.length : Int)) := by
      omega
    have c2 : ((l.elements.length : Int) == 0) = false := by
      rw [beq_eq_false_iff_ne]; omega
    simp only [c1, ↓reduceIte, c2, Bool.false_eq_true, Int.toNat_ofNat]
    rw [hl]
    simp
  rw [hrem]
  unfold spArrayListAddAt spArrayListIsFull spArrayListSize
  have hlen2 : (pre ++ b :: t).length = pre.length + (t.length + 1) := by simp
  simp only [hlen2]
  have c1 : ¬ ((pre.length : Int) + 1 < 0
      ∨ (pre.length : Int) + 1 > ((pre.length + (t.length + 1) : Nat) : Int)) := by omega
  have c2 : ((((pre.length + (t.length + 1) : Nat) : Int)) == l.maxSize) = false := by
    rw [beq_eq_false_iff_ne]; omega
  simp only [c1, ↓reduceIte, c2, Bool.false_eq_true]
  have e : ((pre.length : Int) + 1).toNat = pre.length + 1 := by omega
  rw [e]
  have e2 : pre ++ b :: t = (pre ++ [b]) ++ t := by simp
  rw [e2]
  have e3 : pre.length + 1 = (pre ++ [b]).length := by simp
  rw [e3, List.take_left, List.drop_left]

theorem getAt_middle (l : SPArrayList) (pre rest : List Move) (a : Move)
    (hl : l.elements = pre ++ a :: rest) :
    spArrayListGetAt l (pre.length : Int) = some a := by
  unfold spArrayListGetAt spArrayListSize
  have hlen : l.elements.length = pre.length + (rest.length + 1) := by rw [hl]; simp
  have c1 : ¬ ((pre.length : Int) < 0 ∨ (pre.length : Int) ≥ (l.elements.length : Int)) := by
    omega
  simp only [c1, ↓reduceIte, Int.toNat_ofNat]
  rw [hl, List.get?_eq_getElem?, List.getElem?_append_right (le_refl _)]
  simp

theorem getAt_end (l : SPArrayList) (pre : List Move) (a : Move)
    (hl : l.elements = pre ++ [a]) :
    spArrayListGetAt l ((pre.length : Int) + 1) = none := by
  unfold spArrayListGetAt spArrayListSize
  have hlen : l.elements.length = pre.length + 1 := by rw [hl]; simp
  have c1 : ((pre.length : Int) + 1 < 0 ∨ (pre.length : Int) + 1 ≥ (l.elements.length : Int)) := by
    omega
  simp only [c1, ↓reduceIte]

/-- One pass of the inner loop of `sortMoves`, from the element at index `pre.length` on:
the elements afterwards, and what a clear flag `swaped` says. -/
theorem sortMovesPass_carry (k : Nat) :
    ∀ (l : SPArrayList) (pre rest : List Move) (a : Move) (s : Bool),
      l.elements = pre ++ a :: rest → rest.length ≤ k →
      (l.elements.length : Int) ≤ l.maxSize →
      (sortMovesPass k l (pre.length : Int) s).1.elements = pre ++ bubbleCarry a rest
      ∧ (sortMovesPass k l (pre.length : Int) s).1.maxSize = l.maxSize
      ∧ ((sortMovesPass k l (pre.length : Int) s).2 = false →
          s = false ∧ List.Chain destBefore a rest) := by
  induction k with
  | zero =>
    intro l pre rest a s hl hk _
    have hr : rest = [] := List.length_eq_zero.1 (Nat.le_zero.1 hk)
    subst hr
    exact ⟨hl, rfl, fun h => ⟨h, List.Chain.nil⟩⟩
  | succ k ih =>
    intro l pre rest a s hl hk hfit
    unfold sortMovesPass
    rw [getAt_middle l pre rest a hl]
    cases rest with
    | nil =>
      rw [getAt_end l pre a hl]
      exact ⟨hl, rfl, fun h => ⟨h, List.Chain.nil⟩⟩
    | cons b t =>
      have hB : spArrayListGetAt l ((pre.length : Int) + 1) = some b := by
        have := getAt_middle l (pre ++ [a]) t b (by rw [hl]; simp)
        simpa using this
      rw [hB]
      simp only
      have hk2 : t.length ≤ k := by simpa using hk
      have hcast : ((pre.length : Int) + 1) = ((pre ++ [b]).length : Int) := by simp
      have hcast2 : ((pre.length : Int) + 1) = ((pre ++ [a]).length : Int) := by simp
      by_cases hgt : a.dstRow > b.dstRow ∨ (a.dstRow = b.dstRow ∧ a.dstCol > b.dstCol)
      · rw [if_pos hgt]
        have hsw := swap_elements l pre t a b hl hfit
        have hm := swap_maxSize l (pre.length : Int) a
        have hfit2 : ((spArrayListAddAt (spArrayListRemoveAt l (pre.length : Int)).1 a
            ((pre.length : Int) + 1)).1.elements.length : Int)
            ≤ (spArrayListAddAt (spArrayListRemoveAt l (pre.length : Int)).1 a
                ((pre.length : Int) + 1)).1.maxSize := by
          rw [hm, hsw]
          rw [hl] at hfit
          simpa using hfit
        obtain ⟨i1, i2, i3⟩ := ih _ (pre ++ [b]) t a true hsw hk2 hfit2
        rw [← hcast] at i1 i2 i3
        refine ⟨?_, i2.trans hm, fun h => ?_⟩
        · rw [i1, bubbleCarry, if_pos hgt]
          simp
        · exact absurd (i3 h).1 (by decide)
      · rw [if_neg hgt]
        obtain ⟨i1, i2, i3⟩ := ih l (pre ++ [a]) t b s (by rw [hl]; simp) hk2 hfit
        rw [← hcast2] at i1 i2 i3
        refine ⟨?_, i2, fun h => ?_⟩
        · rw [i1, bubbleCarry, if_neg hgt]
          simp
        · exact ⟨(i3 h).1, List.Chain.cons ((destBefore_iff a b).2 hgt) (i3 h).2⟩

/-- One pass carries an element that no other comes after to the end of the list. -/
theorem bubbleCarry_last (xs : List Move) :
    ∀ a : Move, ∃ (init : List Move) (m : Move), bubbleCarry a xs = init ++ [m]
      ∧ (∀ y ∈ a :: xs, destBefore y m) ∧ (init ++ [m]).Perm (a :: xs) := by
  induction xs with
  | nil =>
    intro a
    refine ⟨[], a, rfl, ?_, List.Perm.refl _⟩
    intro y hy
    rw [List.mem_singleton] at hy
    subst hy
    exact destBefore_refl _
  | cons b t ih =>
    intro a
    by_cases hgt : a.dstRow > b.dstRow ∨ (a.dstRow = b.dstRow ∧ a.dstCol > b.dstCol)
    · obtain ⟨init, m, e, hm, hp⟩ := ih a
      refine ⟨b :: init, m, ?_, ?_, ?_⟩
      · rw [bubbleCarry, if_pos hgt, e]; rfl
      · have hba : destBefore b a := by
          rcases destBefore_total a b with h | h
          · exact absurd hgt ((destBefore_iff a b).1 h)
          · exact h
        intro y hy
        rcases List.mem_cons.1 hy with rfl | hy
        · exact hm _ (List.mem_cons_self _ _)
        · rcases List.mem_cons.1 hy with rfl | hy
          · exact destBefore_trans _ _ _ hba (hm _ (List.mem_cons_self _ _))
          · exact hm _ (List.mem_cons_of_mem _ hy)
      · exact ((List.Perm.cons b hp).trans (List.Perm.swap a b t))
    · obtain ⟨init, m, e, hm, hp⟩ := ih b
      refine ⟨a :: init, m, ?_, ?_, ?_⟩
      · rw [bubbleCarry, if_neg hgt, e]; rfl
      · intro y hy
        rcases List.mem_cons.1 hy with rfl | hy
        · exact destBefore_trans _ _ _ ((destBefore_iff _ b).2 hgt)
            (hm _ (List.mem_cons_self _ _))
        · exact hm _ hy
      · exact List.Perm.cons a hp

/-- A pass leaves a sorted list whose first element is at hand as it is. -/
theorem bubbleCarry_sorted (back : List Move) :
    ∀ a : Move, (a :: back).Pairwise destBefore → bubbleCarry a back = a :: back := by
  induction back with
  | nil => intro a _; rfl
  | cons b t ih =>
    intro a h
    rw [List.pairwise_cons] at h
    have hab : destBefore a b := h.1 b (List.mem_cons_self _ _)
    rw [bubbleCarry, if_neg ((destBefore_iff a b).1 hab), ih b h.2]

/-- A pass does not touch a sorted tail that nothing of the front comes after. -/
theorem bubbleCarry_tail (back : List Move) (hb : back.Pairwise destBefore) (fr : List Move) :
    ∀ a : Move, (∀ x ∈ a :: fr, ∀ y ∈ back, destBefore x y) →
      bubbleCarry a (fr ++ back) = bubbleCarry a fr ++ back := by
  induction fr with
  | nil =>
    intro a h
    rw [List.nil_append, bubbleCarry_sorted back a
      (List.pairwise_cons.2 ⟨fun y hy => h a (List.mem_cons_self _ _) y hy, hb⟩)]
    rfl
  | cons b t ih =>
    intro a h
    rw [List.cons_append, bubbleCarry, bubbleCarry]
    split_ifs
    · rw [ih a (fun x hx y hy => h x (by
        rcases List.mem_cons.1 hx with rfl | hx
        · exact List.mem_cons_self _ _
        · exact List.mem_cons_of_mem _ (List.mem_cons_of_mem _ hx)) y hy)]
      rfl
    · rw [ih b (fun x hx y hy => h x (List.mem_cons_of_mem _ hx) y hy)]
      rfl

theorem pairwise_short (xs : List Move) (h : xs.length ≤ 1) : xs.Pairwise destBefore := by
  cases xs with
  | nil => exact List.Pairwise.nil
  | cons x t =>
    cases t with
    | nil => exact List.pairwise_singleton _ _
    | cons y u => simp at h

/-- The outer loop of `sortMoves`: with a sorted tail that nothing of the front comes
after, and a pass for every element of the front but one, the list ends up sorted. -/
theorem sortMovesLoop_sorted (amount : Int) (n : Nat) :
    ∀ (l : SPArrayList) (front back : List Move), l.elements = front ++ back →
      l.elements ≠ [] → l.elements.length ≤ (amount - 1).toNat + 1 →
      (l.elements.length : Int) ≤ l.maxSize →
      back.Pairwise destBefore → (∀ x ∈ front, ∀ y ∈ back, destBefore x y) →
      front.length ≤ n + 1 →
      (sortMovesLoop amount n l).elements.Pairwise destBefore := by
  induction n with
  | zero =>
    intro l front back hl _ _ _ hb hc hf
    rw [sortMovesLoop, hl]
    rw [List.pairwise_append]
    exact ⟨pairwise_short front hf, hb, hc⟩
  | succ n ih =>
    intro l front back hl hne hk hfit hb hc hf
    obtain ⟨a, rest, hx⟩ := List.exists_cons_of_ne_nil hne
    have hpass := sortMovesPass_carry (amount - 1).toNat l [] rest a false
      (by rw [hx]; rfl) (by rw [hx] at hk; simpa using hk) hfit
    simp only [List.length_nil, Nat.cast_zero, List.nil_append] at hpass
    obtain ⟨p1, p2, p3⟩ := hpass
    rw [sortMovesLoop]
    by_cases hs : (sortMovesPass (amount - 1).toNat l 0 false).2 = false
    · rw [if_pos (by rw [hs]; rfl)]
      have hsorted : (a :: rest).Pairwise destBefore := List.chain_iff_pairwise.1 (p3 hs).2
      rw [p1, bubbleCarry_sorted rest a hsorted]
      exact hsorted
    · rw [if_neg (by simpa using hs)]
      have hlen : ∀ ys : List Move, ys.Perm (a :: rest) → ys.length = l.elements.length := by
        intro ys hp
        rw [hp.length_eq, hx]
      cases front with
      | nil =>
        have hall : (a :: rest).Pairwise destBefore := by
          rw [← hx, hl]; exact hb
        have e : (sortMovesPass (amount - 1).toNat l 0 false).1.elements = l.elements := by
          rw [p1, bubbleCarry_sorted rest a hall, hx]
        exact ih _ [] back (by rw [e, hl]) (by rw [e]; exact hne) (by rw [e]; exact hk)
          (by rw [e, p2]; exact hfit) hb (fun x hx2 => absurd hx2 (List.not_mem_nil _))
          (Nat.zero_le _)
      | cons f fr =>
        have hfa : f = a ∧ fr ++ back = rest := by
          rw [hl, List.cons_append] at hx
          exact List.cons.inj hx
        obtain ⟨rfl, hrest⟩ := hfa
        obtain ⟨init, m, e1, hm, hp⟩ := bubbleCarry_last fr f
        have e : (sortMovesPass (amount - 1).toNat l 0 false).1.elements
            = init ++ (m :: back) := by
          rw [p1, ← hrest, bubbleCarry_tail back hb fr f hc, e1]
          simp
        have hmem : ∀ x ∈ init ++ [m], x ∈ f :: fr := fun x hx2 => hp.subset hx2
        have hlen2 : init.length = fr.length := by
          have := hp.length_eq
          simpa using this
        have hlen3 : (init ++ (m :: back)).length = l.elements.length := by
          rw [hl]
          simp only [List.length_append, List.length_cons, hlen2]
          omega
        refine ih _ init (m :: back) e ?_ ?_ ?_ ?_ ?_ ?_
        · rw [e]; simp
        · rw [e, hlen3]; exact hk
        · rw [e, hlen3, p2]; exact hfit
        · rw [List.pairwise_cons]
          exact ⟨fun y hy => hc m (hmem m (by simp)) y hy, hb⟩
        · intro x hx2 y hy
          rcases List.mem_cons.1 hy with rfl | hy
          · exact hm x (hmem x (by simp [hx2]))
          · exact hc x (hmem x (by simp [hx2])) y hy
        · rw [hlen2]
          simpa using hf

/-- The list `sortMoves` leaves is in the order of the destinations. -/
theorem maybeSort_sorted (l : SPArrayList) (hfit : (l.elements.length : Int) ≤ l.maxSize) :
    (maybeSort true l).elements.Pairwise destBefore := by
  unfold maybeSort sortMoves spArrayListSize MIN_MOVES_AMOUNT_TO_SORT
  simp only [↓reduceIte]
  split_ifs with h
  · refine sortMovesLoop_sorted _ _ l l.elements [] (by simp) ?_ ?_ hfit List.Pairwise.nil
      (fun x _ y hy => absurd hy (List.not_mem_nil _)) ?_
    · intro h0
      rw [h0] at h
      simp at h
    · omega
    · omega
  · exact pairwise_short _ (by omega)

/-- The elements `spArrayListAddLast` leaves: the list as it was, or with the element
appended; a list within its capacity stays within it. -/
theorem addLast_elements (l : SPArrayList) (x : Move)
    (hfit : (l.elements.length : Int) ≤ l.maxSize) :
    ((spArrayListAddLast l x).1.elements = l.elements
      ∨ (spArrayListAddLast l x).1.elements = l.elements ++ [x])
    ∧ ((spArrayListAddLast l x).1.elements.length : Int) ≤ (spArrayListAddLast l x).1.maxSize := by
  unfold spArrayListAddLast spArrayListAddAt spArrayListIsFull spArrayListSize
  have h1 : ¬ ((l.elements.length : Int) < 0 ∨ (l.elements.length : Int) > l.elements.length) := by
    omega
  simp only [h1, ↓reduceIte]
  by_cases h2 : ((l.elements.length : Int) == l.maxSize) = true
  · simp only [h2, ↓reduceIte]
    exact ⟨Or.inl trivial, hfit⟩
  · simp only [h2, Bool.false_eq_true, ↓reduceIte, Int.toNat_ofNat, List.take_length,
      List.drop_length]
    have h3 : (l.elements.length : Int) ≠ l.maxSize := by
      intro h; exact h2 (by rw [beq_iff_eq]; exact h)
    refine ⟨Or.inr trivial, ?_⟩
    simp only [List.length_append, List.length_singleton]
    push_cast
    omega

/-- The list after the candidates are handed to it holds, after what it held, some of the
candidates in their order, and stays within its capacity. -/
theorem pushAll_sublist (xs : List Move) :
    ∀ l : SPArrayList, (l.elements.length : Int) ≤ l.maxSize →
      (∃ ys : List Move, ys.Sublist xs ∧ (pushAll l xs).elements = l.elements ++ ys)
      ∧ ((pushAll l xs).elements.length : Int) ≤ (pushAll l xs).maxSize := by
  induction xs with
  | nil =>
    intro l hfit
    exact ⟨⟨[], List.Sublist.refl _, by simp [pushAll_nil]⟩, hfit⟩
  | cons x t ih =>
    intro l hfit
    rw [pushAll_cons]
    obtain ⟨hcase, hfit2⟩ := addLast_elements l x hfit
    obtain ⟨⟨ys, hs, he⟩, hf⟩ := ih _ hfit2
    refine ⟨?_, hf⟩
    rcases hcase with h | h
    · exact ⟨ys, List.Sublist.cons x hs, by rw [he, h]⟩
    · exact ⟨x :: ys, List.Sublist.cons₂ x hs, by rw [he, h]; simp⟩

/-- Regular moves in the order of their destinations, followed by castles, are in the order
of the generator. -/
theorem castlesLast_append (regs cs : List Move) (h1 : regs.Pairwise destBefore)
    (h2 : ∀ x ∈ regs, x.castleMove = false) (h3 : ∀ x ∈ cs, x.castleMove = true) :
    (regs ++ cs).Pairwise castlesLast := by
  rw [List.pairwise_append]
  refine ⟨?_, ?_, ?_⟩
  · have h4 : regs.Pairwise (fun a b => a.castleMove = false ∧ destBefore a b) :=
      (List.pairwise_and_iff.2 ⟨List.pairwise_of_forall_mem_list (fun a ha _ _ => h2 a ha), h1⟩)
    exact h4.imp (fun h => ⟨fun _ _ => h.2, fun hc => (by rw [h.1] at hc; cases hc)⟩)
  · exact List.pairwise_of_forall_mem_list
      (fun a ha b hb => ⟨fun hc => (by rw [h3 a ha] at hc; cases hc), fun _ => h3 b hb⟩)
  · intro a ha b hb
    exact ⟨fun _ hc => (by rw [h3 b hb] at hc; cases hc), fun _ => h3 b hb⟩

theorem squareMoves_mem (env : Env) (g : SPChessGame) (sr sc : Int) (ds : List (Int × Int))
    (x : Move) (h : x ∈ squareMoves env g sr sc ds) :
    ∃ d ∈ ds, x ∈ candidateMoves env g sr sc d.1 d.2 false false := by
  induction ds with
  | nil => exact absurd h (List.not_mem_nil _)
  | cons d t ih =>
    rw [squareMoves] at h
    rcases List.mem_append.1 h with h | h
    · exact ⟨d, List.mem_cons_self _ _, h⟩
    · obtain ⟨d2, hd, hx⟩ := ih h
      exact ⟨d2, List.mem_cons_of_mem _ hd, hx⟩

/-- The moves of squares proposed in the order of `sortMoves` are in that order. -/
theorem squareMoves_sorted (env : Env) (g : SPChessGame) (sr sc : Int)
    (ds : List (Int × Int)) (h : ds.Pairwise squareBefore) :
    (squareMoves env g sr sc ds).Pairwise destBefore := by
  induction ds with
  | nil => exact List.Pairwise.nil
  | cons d t ih =>
    rw [List.pairwise_cons] at h
    rw [squareMoves, List.pairwise_append]
    refine ⟨?_, ih h.2, ?_⟩
    · refine List.pairwise_of_forall_mem_list (fun a ha b hb => ?_)
      obtain ⟨-, a1, a2⟩ := candidateMoves_dst env g sr sc _ _ false a ha
      obtain ⟨-, b1, b2⟩ := candidateMoves_dst env g sr sc _ _ false b hb
      exact Or.inr ⟨by rw [a1, b1], by rw [a2, b2]⟩
    · intro a ha b hb
      obtain ⟨d2, hd, hb2⟩ := squareMoves_mem env g sr sc t b hb
      obtain ⟨-, a1, a2⟩ := candidateMoves_dst env g sr sc _ _ false a ha
      obtain ⟨-, b1, b2⟩ := candidateMoves_dst env g sr sc _ _ false b hb2
      have := h.1 d2 hd
      unfold squareBefore at this
      unfold destBefore
      rw [a1, a2, b1, b2]
      exact this

theorem squareMoves_regular (env : Env) (g : SPChessGame) (sr sc : Int)
    (ds : List (Int × Int)) : ∀ x ∈ squareMoves env g sr sc ds, x.castleMove = false := by
  intro x hx
  obtain ⟨d, -, h⟩ := squareMoves_mem env g sr sc ds x hx
  exact (candidateMoves_dst env g sr sc _ _ false x h).1

theorem pawnSquares_sorted (g : SPChessGame) (sr sc : Int) :
    (pawnSquares g sr sc).Pairwise squareBefore := by
  unfold pawnSquares squareBefore
  cases g.currentPlayer <;> simp <;> omega

theorem knightSquares_sorted (sr sc : Int) : (knightSquares sr sc).Pairwise squareBefore := by
  unfold knightSquares squareBefore
  simp
  omega

theorem kingSquares_sorted (sr sc : Int) : (kingSquares sr sc).Pairwise squareBefore := by
  unfold kingSquares squareBefore
  simp
  omega

theorem pawnCandidates_sorted (env : Env) (g : SPChessGame) (sr sc : Int) :
    (pawnCandidates env g sr sc false).Pairwise destBefore
    ∧ ∀ x ∈ pawnCandidates env g sr sc false, x.castleMove = false := by
  have e : pawnCandidates env g sr sc false
      = squareMoves env g sr sc (pawnSquares g sr sc) := by
    unfold pawnCandidates pawnSquares
    cases g.currentPlayer <;> simp [squareMoves]
  rw [e]
  exact ⟨squareMoves_sorted env g sr sc _ (pawnSquares_sorted g sr sc),
    squareMoves_regular env g sr sc _⟩

theorem knightCandidates_sorted (env : Env) (g : SPChessGame) (sr sc : Int) :
    (knightCandidates env g sr sc).Pairwise destBefore
    ∧ ∀ x ∈ knightCandidates env g sr sc, x.castleMove = false := by
  have e : knightCandidates env g sr sc = squareMoves env g sr sc (knightSquares sr sc) := by
    unfold knightCandidates knightSquares
    simp only [squareMoves, List.append_nil, List.append_assoc]
  rw [e]
  exact ⟨squareMoves_sorted env g sr sc _ (knightSquares_sorted sr sc),
    squareMoves_regular env g sr sc _⟩

theorem kingStepCandidates_sorted (env : Env) (g : SPChessGame) (sr sc : Int) :
    (kingStepCandidates env g sr sc).Pairwise destBefore
    ∧ ∀ x ∈ kingStepCandidates env g sr sc, x.castleMove = false := by
  have e : kingStepCandidates env g sr sc = squareMoves env g sr sc (kingSquares sr sc) := by
    unfold kingStepCandidates kingSquares
    simp only [squareMoves, List.append_nil, List.append_assoc]
  rw [e]
  exact ⟨squareMoves_sorted env g sr sc _ (kingSquares_sorted sr sc),
    squareMoves_regular env g sr sc _⟩

theorem slideCandidates_regular (env : Env) (g : SPChessGame) (sr sc : Int) :
    (∀ x ∈ bishopCandidates env g sr sc, x.castleMove = false)
    ∧ (∀ x ∈ rookCandidates env g sr sc, x.castleMove = false) := by
  have hray := rayCandidates_forall env g sr sc
  have hc : ∀ a b : Int, ∀ x ∈ candidateMoves env g sr sc a b false false,
      x.castleMove = false :=
    fun a b x hx => (candidateMoves_dst env g sr sc a b false x hx).1
  constructor
  · unfold bishopCandidates
    simp only [List.forall_mem_append]
    exact ⟨⟨⟨hray _ _ _ hc _ _ _, hray _ _ _ hc _ _ _⟩, hray _ _ _ hc _ _ _⟩,
      hray _ _ _ hc _ _ _⟩
  · unfold rookCandidates
    simp only [List.forall_mem_append]
    exact ⟨⟨⟨hray _ _ _ hc _ _ _, hray _ _ _ hc _ _ _⟩, hray _ _ _ hc _ _ _⟩,
      hray _ _ _ hc _ _ _⟩

theorem castleCandidate_castle (env : Env) (g : SPChessGame) (sr sc dr dc : Int) :
    ∀ x ∈ candidateMoves env g sr sc dr dc true false, x.castleMove = true := by
  intro x hx
  unfold candidateMoves at hx
  simp only [↓reduceIte] at hx
  split_ifs at hx
  · rw [List.mem_singleton] at hx
    subst hx
    rfl
  · exact absurd hx (List.not_mem_nil _)

theorem rookCastleCandidates_castle (env : Env) (g : SPChessGame) (sr sc : Int) :
    ∀ x ∈ rookCastleCandidates env g sr sc, x.castleMove = true := by
  unfold rookCastleCandidates
  split_ifs
  · exact castleCandidate_castle env g sr sc _ _
  · exact fun x hx => absurd hx (List.not_mem_nil _)

/-- The list `getPossibleKingCastleMoves` leaves, on any state: castles are handed to the
list. -/
theorem getPossibleKingCastleMoves_shape (env : Env) (g : SPChessGame) (l : SPArrayList)
    (p : Piece) (row : Int) :
    ∃ cs : List Move, (∀ x ∈ cs, x.castleMove = true)
      ∧ (getPossibleKingCastleMoves env g l p row).2 = pushAll l cs := by
  unfold getPossibleKingCastleMoves
  simp only
  by_cases h1 : g.board row LEFT_ROOK_COL = p
  · simp only [h1, ↓reduceIte]
    split_ifs
    · refine ⟨candidateMoves env g row LEFT_ROOK_COL DUMMY_COORDINATE DUMMY_COORDINATE true false
        ++ candidateMoves env
            (addPieceMove env g l row LEFT_ROOK_COL DUMMY_COORDINATE DUMMY_COORDINATE true false).1
            row RIGHT_ROOK_COL DUMMY_COORDINATE DUMMY_COORDINATE true false, ?_, ?_⟩
      · simp only [List.forall_mem_append]
        exact ⟨castleCandidate_castle _ _ _ _ _ _, castleCandidate_castle _ _ _ _ _ _⟩
      · rw [addPieceMove_list, addPieceMove_list, pushAll_append]
    · exact ⟨_, castleCandidate_castle env g row LEFT_ROOK_COL DUMMY_COORDINATE
        DUMMY_COORDINATE, addPieceMove_list _ _ _ _ _ _ _ _ _⟩
  · simp only [h1, ↓reduceIte]
    split_ifs
    · exact ⟨_, castleCandidate_castle env g row RIGHT_ROOK_COL DUMMY_COORDINATE
        DUMMY_COORDINATE, addPieceMove_list _ _ _ _ _ _ _ _ _⟩
    · exact ⟨[], fun x hx => absurd hx (List.not_mem_nil _), rfl⟩

/-- The list `getPossibleKingMoves` leaves, on any state: the king steps, then castles. -/
theorem getPossibleKingMoves_shape (env : Env) (g : SPChessGame) (l : SPArrayList)
    (sr sc : Int) :
    ∃ cs : List Move, (∀ x ∈ cs, x.castleMove = true)
      ∧ (getPossibleKingMoves env g l sr sc).2
          = pushAll l (kingStepCandidates env g sr sc ++ cs) := by
  unfold getPossibleKingMoves kingStepCandidates
  simp only [addPieceMove_game_regular, addPieceMove_list, pushAll_append]
  split_ifs
  · obtain ⟨cs, h1, h2⟩ := getPossibleKingCastleMoves_shape env g
      (pushAll (pushAll (pushAll (pushAll (pushAll (pushAll (pushAll (pushAll l
        (candidateMoves env g sr sc (sr - 1) (sc - 1) false false))
        (candidateMoves env g sr sc (sr - 1) sc false false))
        (candidateMoves env g sr sc (sr - 1) (sc + 1) false false))
        (candidateMoves env g sr sc sr (sc - 1) false false))
        (candidateMoves env g sr sc sr (sc + 1) false false))
        (candidateMoves env g sr sc (sr + 1) (sc - 1) false false))
        (candidateMoves env g sr sc (sr + 1) sc false false))
        (candidateMoves env g sr sc (sr + 1) (sc + 1) false false)) WHITE_ROOK WHITE_FIRST_ROW
    exact ⟨cs, h1, h2⟩
  · obtain ⟨cs, h1, h2⟩ := getPossibleKingCastleMoves_shape env g
      (pushAll (pushAll (pushAll (pushAll (pushAll (pushAll (pushAll (pushAll l
        (candidateMoves env g sr sc (sr - 1) (sc - 1) false false))
        (candidateMoves env g sr sc (sr - 1) sc false false))
        (candidateMoves env g sr sc (sr - 1) (sc + 1) false false))
        (candidateMoves env g sr sc sr (sc - 1) false false))
        (candidateMoves env g sr sc sr (sc + 1) false false))
        (candidateMoves env g sr sc (sr + 1) (sc - 1) false false))
        (candidateMoves env g sr sc (sr + 1) sc false false))
        (candidateMoves env g sr sc (sr + 1) (sc + 1) false false)) BLACK_ROOK BLACK_FIRST_ROW
    exact ⟨cs, h1, h2⟩

/-- Candidates in the order of the generator, handed to an empty list, give a list in that
order. -/
theorem pushAll_ordered (env : Env) (xs : List Move) (hcap : 0 ≤ env.MAX_MOVES_FOR_PIECE)
    (h : xs.Pairwise castlesLast) :
    (pushAll (emptyMoveList env) xs).elements.Pairwise castlesLast := by
  obtain ⟨⟨ys, hs, he⟩, -⟩ := pushAll_sublist xs (emptyMoveList env) (by simpa using hcap)
  rw [he]
  exact h.sublist hs

/-- The sorted moves of a sliding piece, then its castle candidates. -/
theorem slide_ordered (l : SPArrayList) (xs cs : List Move)
    (hfit : (l.elements.length : Int) ≤ l.maxSize)
    (hl : ∀ x ∈ l.elements, x.castleMove = false)
    (hx : ∀ x ∈ xs, x.castleMove = false) (hc : ∀ x ∈ cs, x.castleMove = true) :
    ((maybeSort true (pushAll l xs)).elements.Pairwise destBefore
      ∧ (∀ x ∈ (maybeSort true (pushAll l xs)).elements, x.castleMove = false)
      ∧ ((maybeSort true (pushAll l xs)).elements.length : Int)
          ≤ (maybeSort true (pushAll l xs)).maxSize)
    ∧ (pushAll (maybeSort true (pushAll l xs)) cs).elements.Pairwise castlesLast := by
  obtain ⟨-, hf⟩ := pushAll_sublist xs l hfit
  have hs := maybeSort_sorted (pushAll l xs) hf
  obtain ⟨p1, p2⟩ := maybeSort_perm true (pushAll l xs) hf
  have hreg : ∀ x ∈ (maybeSort true (pushAll l xs)).elements, x.castleMove = false := by
    intro x h
    rcases mem_pushAll l xs x (maybeSort_subset true _ x h) with h1 | h1
    · exact hl x h1
    · exact hx x h1
  have hf2 : ((maybeSort true (pushAll l xs)).elements.length : Int)
      ≤ (maybeSort true (pushAll l xs)).maxSize := by
    rw [p2, p1.length_eq]; exact hf
  refine ⟨⟨hs, hreg, hf2⟩, ?_⟩
  obtain ⟨⟨ys, hsub, he⟩, -⟩ := pushAll_sublist cs _ hf2
  rw [he]
  exact castlesLast_append _ _ hs hreg (fun x h => hc x (hsub.subset h))

/-- The list `getPossiblePieceMoves` fills from an empty list, sorted and in UI mode, is in
the order of the generator, whatever the state. -/
theorem pieceMoves_ordered (env : Env) (g : SPChessGame) (r c : Int)
    (hcap : 0 ≤ env.MAX_MOVES_FOR_PIECE) (p : Piece) :
    (getPossiblePieceMoves env g (emptyMoveList env) r c p true false).2.2.elements.Pairwise
      castlesLast := by
  have hfit : ((emptyMoveList env).elements.length : Int) ≤ (emptyMoveList env).maxSize := by
    simpa using hcap
  have hnone : ∀ x ∈ (emptyMoveList env).elements, x.castleMove = false :=
    fun x hx => absurd hx (List.not_mem_nil _)
  have hnil : ∀ x ∈ ([] : List Move), x.castleMove = true :=
    fun x hx => absurd hx (List.not_mem_nil _)
  have hregs : ∀ xs : List Move, xs.Pairwise destBefore → (∀ x ∈ xs, x.castleMove = false) →
      (pushAll (emptyMoveList env) xs).elements.Pairwise castlesLast := by
    intro xs h1 h2
    have := castlesLast_append xs [] h1 h2 hnil
    rw [List.append_nil] at this
    exact pushAll_ordered env xs hcap this
  obtain ⟨hb, hr⟩ := slideCandidates_regular env g r c
  have hpawn := hregs _ (pawnCandidates_sorted env g r c).1 (pawnCandidates_sorted env g r c).2
  have hknight := hregs _ (knightCandidates_sorted env g r c).1
    (knightCandidates_sorted env g r c).2
  have hbishop := (slide_ordered (emptyMoveList env) (bishopCandidates env g r c) []
    hfit hnone hb hnil)
  have hrook := (slide_ordered (emptyMoveList env) (rookCandidates env g r c)
    (rookCastleCandidates env g r c) hfit hnone hr (rookCastleCandidates_castle env g r c)).2
  have hqueen := (slide_ordered (maybeSort true (pushAll (emptyMoveList env)
      (bishopCandidates env g r c))) (rookCandidates env g r c)
    (rookCastleCandidates env g r c) hbishop.1.2.2 hbishop.1.2.1 hr
    (rookCastleCandidates_castle env g r c)).2
  have hking : (getPossibleKingMoves env g (emptyMoveList env) r c).2.elements.Pairwise
      castlesLast := by
    obtain ⟨cs, h1, h2⟩ := getPossibleKingMoves_shape env g (emptyMoveList env) r c
    rw [h2]
    exact pushAll_ordered env _ hcap
      (castlesLast_append _ cs (kingStepCandidates_sorted env g r c).1
        (kingStepCandidates_sorted env g r c).2 h1)
  cases p
  case EMPTY_POSITION => exact List.Pairwise.nil
  case WHITE_PAWN =>
    simp only [getPossiblePieceMoves, getPossiblePawnMoves_list]
    exact hpawn
  case BLACK_PAWN =>
    simp only [getPossiblePieceMoves, getPossiblePawnMoves_list]
    exact hpawn
  case WHITE_KNIGHT =>
    simp only [getPossiblePieceMoves, getPossibleKnightMoves_list]
    exact hknight
  case BLACK_KNIGHT =>
    simp only [getPossiblePieceMoves, getPossibleKnightMoves_list]
    exact hknight
  case WHITE_BISHOP =>
    simp only [getPossiblePieceMoves, getPossibleBishopOrQueenMoves_list, bishopPart]
    exact hbishop.2
  case BLACK_BISHOP =>
    simp only [getPossiblePieceMoves, getPossibleBishopOrQueenMoves_list, bishopPart]
    exact hbishop.2
  case WHITE_ROOK =>
    simp only [getPossiblePieceMoves, getPossibleRookOrQueenMoves_list, rookPart]
    exact hrook
  case BLACK_ROOK =>
    simp only [getPossiblePieceMoves, getPossibleRookOrQueenMoves_list, rookPart]
    exact hrook
  case WHITE_QUEEN =>
    simp only [getPossiblePieceMoves, getPossibleBishopOrQueenMoves_list,
      getPossibleBishopOrQueenMoves_same, getPossibleRookOrQueenMoves_list, bishopPart, rookPart]
    exact hqueen
  case BLACK_QUEEN =>
    simp only [getPossiblePieceMoves, getPossibleBishopOrQueenMoves_list,
      getPossibleBishopOrQueenMoves_same, getPossibleRookOrQueenMoves_list, bishopPart, rookPart]
    exact hqueen
  case WHITE_KING =>
    simp only [getPossiblePieceMoves]
    exact hking
  case BLACK_KING =>
    simp only [getPossiblePieceMoves]
    exact hking

/-- C24: for every state and every square, the list `spChessGetPossibleMoves` fills for the
square from an empty list of capacity `MAX_MOVES_FOR_PIECE >= 0` is in the order of the
generator: of two non-castle moves the earlier one has the lower destination row or, in the
same row, a destination column that is not higher, and no castle comes before a non-castle
move. For a square off the board or one that does not hold a piece of the side to move the
list stays empty. -/
theorem C24_sorted_castles_last (env : Env) (g : SPChessGame) (r c : Int)
    (hcap : 0 ≤ env.MAX_MOVES_FOR_PIECE) :
    (movesOf env g r c).elements.Pairwise castlesLast := by
  unfold movesOf spChessGetPossibleMoves
  by_cases hv : validPosition r c = true
  swap
  · simp only [hv, Bool.not_false, ↓reduceIte]
    exact List.Pairwise.nil
  by_cases ho : currentPlayerPiece g.currentPlayer (g.board r c) = true
  swap
  · simp only [hv, ho, Bool.not_true, Bool.not_false, Bool.false_eq_true, ↓reduceIte]
    exact List.Pairwise.nil
  simp only [hv, ho, Bool.not_true, Bool.false_eq_true, ↓reduceIte]
  exact pieceMoves_ordered env g r c hcap _

/-- C24 at a concrete input: the list of the rook on a1 of `castleGame`, with capacity 28,
which ends with the castle. -/
theorem C24_sorted_castles_last_witness :
    (0 : Int) ≤ sampleEnv.MAX_MOVES_FOR_PIECE
    ∧ (movesOf sampleEnv castleGame 0 0).elements.Pairwise castlesLast :=
  ⟨by decide, C24_sorted_castles_last sampleEnv castleGame 0 0 (by decide)⟩

/-! ## Alpha-beta pruning against the unpruned minimax -/

theorem alphaBetaPruning_eq (env : Env) (maxDepth : Int) (P : Player) (fuel : Nat)
    (g : SPChessGame) (mv : Move) (d a b : Int) (pm : SPArrayList)
    (hleaf : ¬ (d > ROOT_DEPTH ∧ (g.status = WHITE_PLAYER_WINS ∨ g.status = BLACK_PLAYER_WINS
        ∨ g.status = TIED_GAME ∨ d = maxDepth)))
    (hpm : spArrayListCreate env.MAX_MOVES_FOR_PIECE = some pm) :
    alphaBetaPruning env maxDepth P (fuel + 1) g mv d a b =
      if (searchRowsLoop env (recurseAt env maxDepth P fuel d) pm (decide (d % 2 = 0)) d
            [0, 1, 2, 3, 4, 5, 6, 7]
            { currentGame := g, alpha := a, beta := b, minimaxMove := mv, choseMove := false,
              gaveUp := false }).gaveUp = true then
        (freeMemory d (decide (d % 2 = 0)),
         (searchRowsLoop env (recurseAt env maxDepth P fuel d) pm (decide (d % 2 = 0)) d
            [0, 1, 2, 3, 4, 5, 6, 7]
            { currentGame := g, alpha := a, beta := b, minimaxMove := mv, choseMove := false,
              gaveUp := false }).minimaxMove,
         (searchRowsLoop env (recurseAt env maxDepth P fuel d) pm (decide (d % 2 = 0)) d
            [0, 1, 2, 3, 4, 5, 6, 7]
            { currentGame := g, alpha := a, beta := b, minimaxMove := mv, choseMove := false,
              gaveUp := false }).currentGame)
      else if d = ROOT_DEPTH then
        (INT_MAX,
         (searchRowsLoop env (recurseAt env maxDepth P fuel d) pm (decide (d % 2 = 0)) d
            [0, 1, 2, 3, 4, 5, 6, 7]
            { currentGame := g, alpha := a, beta := b, minimaxMove := mv, choseMove := false,
              gaveUp := false }).minimaxMove,
         (searchRowsLoop env (recurseAt env maxDepth P fuel d) pm (decide (d % 2 = 0)) d
            [0, 1, 2, 3, 4, 5, 6, 7]
            { currentGame := g, alpha := a, beta := b, minimaxMove := mv, choseMove := false,
              gaveUp := false }).currentGame)
      else
        ((if decide (d % 2 = 0) = true then
            (searchRowsLoop env (recurseAt env maxDepth P fuel d) pm (decide (d % 2 = 0)) d
              [0, 1, 2, 3, 4, 5, 6, 7]
              { currentGame := g, alpha := a, beta := b, minimaxMove := mv, choseMove := false,
                gaveUp := false }).alpha
          else
            (searchRowsLoop env (recurseAt env maxDepth P fuel d) pm (decide (d % 2 = 0)) d
              [0, 1, 2, 3, 4, 5, 6, 7]
              { currentGame := g, alpha := a, beta := b, minimaxMove := mv, choseMove := false,
                gaveUp := false }).beta),
         (searchRowsLoop env (recurseAt env maxDepth P fuel d) pm (decide (d % 2 = 0)) d
            [0, 1, 2, 3, 4, 5, 6, 7]
            { currentGame := g, alpha := a, beta := b, minimaxMove := mv, choseMove := false,
              gaveUp := false }).minimaxMove,
         (searchRowsLoop env (recurseAt env maxDepth P fuel d) pm (decide (d % 2 = 0)) d
            [0, 1, 2, 3, 4, 5, 6, 7]
            { currentGame := g, alpha := a, beta := b, minimaxMove := mv, choseMove := false,
              gaveUp := false }).currentGame) := by
  rw [alphaBetaPruning]
  simp only [hleaf, ↓reduceIte, hpm]
  rfl

theorem updateBoundsAndMove_gaveUp (mv : Move) (st : SearchState) (maximize : Bool)
    (v depth : Int) : (updateBoundsAndMove mv st maximize v depth).gaveUp = st.gaveUp := by
  unfold updateBoundsAndMove
  split_ifs <;> rfl

theorem updateBoundsAndMove_congr (mv : Move) (st st2 : SearchState) (maximize : Bool)
    (v depth : Int) (h : sameBounds st st2) :
    sameBounds (updateBoundsAndMove mv st maximize v depth)
      (updateBoundsAndMove mv st2 maximize v depth) := by
  obtain ⟨h1, h2, h3, h4, h5⟩ := h
  unfold updateBoundsAndMove
  rw [h1, h2, h4]
  split_ifs <;> exact ⟨by first | rfl | exact h1, by first | rfl | exact h2,
    by first | rfl | exact h3, by first | rfl | exact h4, h5⟩

theorem searchChild_stop (recurse : SPChessGame → Move → Int → Int → Int × Move)
    (maximize : Bool) (d : Int) (st : SearchState) (c : Move × SPChessGame)
    (h : ¬ (st.alpha < st.beta)) : searchChild recurse maximize d st c = st := by
  unfold searchChild
  rw [if_pos h]

theorem searchChildren_stop (recurse : SPChessGame → Move → Int → Int → Int × Move)
    (maximize : Bool) (d : Int) (cs : List (Move × SPChessGame)) (st : SearchState)
    (h : ¬ (st.alpha < st.beta)) : searchChildren recurse maximize d cs st = st := by
  induction cs with
  | nil => rfl
  | cons c t ih =>
    unfold searchChildren at ih ⊢
    rw [List.foldl_cons, searchChild_stop recurse maximize d st c h]
    exact ih

theorem searchChildren_cons (recurse : SPChessGame → Move → Int → Int → Int × Move)
    (maximize : Bool) (d : Int) (c : Move × SPChessGame) (cs : List (Move × SPChessGame))
    (st : SearchState) :
    searchChildren recurse maximize d (c :: cs) st
      = searchChildren recurse maximize d cs (searchChild recurse maximize d st c) := rfl

theorem searchChildren_append (recurse : SPChessGame → Move → Int → Int → Int × Move)
    (maximize : Bool) (d : Int) (cs ds : List (Move × SPChessGame)) (st : SearchState) :
    searchChildren recurse maximize d (cs ++ ds) st
      = searchChildren recurse maximize d ds (searchChildren recurse maximize d cs st) := by
  unfold searchChildren
  rw [List.foldl_append]

theorem searchChild_game (recurse : SPChessGame → Move → Int → Int → Int × Move)
    (maximize : Bool) (d : Int) (st : SearchState) (c : Move × SPChessGame) :
    (searchChild recurse maximize d st c).currentGame = st.currentGame
    ∧ (searchChild recurse maximize d st c).gaveUp = st.gaveUp := by
  unfold searchChild
  by_cases h : st.alpha < st.beta
  · rw [if_neg (by simpa using h)]
    exact ⟨updateBoundsAndMove_game _ _ _ _ _, updateBoundsAndMove_gaveUp _ _ _ _ _⟩
  · rw [if_pos h]
    exact ⟨rfl, rfl⟩

theorem searchChildren_game (recurse : SPChessGame → Move → Int → Int → Int × Move)
    (maximize : Bool) (d : Int) (cs : List (Move × SPChessGame)) :
    ∀ st : SearchState,
      (searchChildren recurse maximize d cs st).currentGame = st.currentGame
      ∧ (searchChildren recurse maximize d cs st).gaveUp = st.gaveUp := by
  induction cs with
  | nil => intro st; exact ⟨rfl, rfl⟩
  | cons c t ih =>
    intro st
    rw [searchChildren_cons]
    obtain ⟨h1, h2⟩ := ih (searchChild recurse maximize d st c)
    obtain ⟨h3, h4⟩ := searchChild_game recurse maximize d st c
    exact ⟨h1.trans h3, h2.trans h4⟩

theorem searchChild_congr (recurse : SPChessGame → Move → Int → Int → Int × Move)
    (maximize : Bool) (d : Int) (st st2 : SearchState) (c : Move × SPChessGame)
    (h : sameBounds st st2) :
    sameBounds (searchChild recurse maximize d st c) (searchChild recurse maximize d st2 c) := by
  have h0 := h
  obtain ⟨h1, h2, h3, h4, h5⟩ := h
  unfold searchChild
  rw [h1, h2, h3]
  by_cases h : st2.alpha < st2.beta
  · rw [if_neg (by simpa using h), if_neg (by simpa using h)]
    exact updateBoundsAndMove_congr _ _ _ _ _ _ ⟨rfl, rfl, rfl, h4, h5⟩
  · rw [if_pos h, if_pos h]
    exact h0

theorem searchChildren_congr (recurse : SPChessGame → Move → Int → Int → Int × Move)
    (maximize : Bool) (d : Int) (cs : List (Move × SPChessGame)) :
    ∀ st st2 : SearchState, sameBounds st st2 →
      sameBounds (searchChildren recurse maximize d cs st)
        (searchChildren recurse maximize d cs st2) := by
  induction cs with
  | nil => intro st st2 h; exact h
  | cons c t ih =>
    intro st st2 h
    rw [searchChildren_cons, searchChildren_cons]
    exact ih _ _ (searchChild_congr recurse maximize d st st2 c h)

theorem sameBounds_refl (st : SearchState) : sameBounds st st := ⟨rfl, rfl, rfl, rfl, rfl⟩

theorem sameBounds_trans (a b c : SearchState) (h1 : sameBounds a b) (h2 : sameBounds b c) :
    sameBounds a c :=
  ⟨h1.1.trans h2.1, h1.2.1.trans h2.2.1, h1.2.2.1.trans h2.2.2.1,
    h1.2.2.2.1.trans h2.2.2.2.1, h1.2.2.2.2.trans h2.2.2.2.2⟩

/-- The loop over the moves of one piece is the loop over the children they give. -/
theorem searchMovesLoop_children (env : Env)
    (recurse : SPChessGame → Move → Int → Int → Int × Move) (l : SPArrayList)
    (maximize : Bool) (d : Int) :
    ∀ (n k : Nat) (st : SearchState) (cs : List (Move × SPChessGame)),
      st.gaveUp = false →
      childrenOfMoves env st.currentGame (l.elements.drop k) = some cs →
      l.elements.length ≤ k + n →
      searchMovesLoop env recurse l maximize d n (k : Int) st
        = searchChildren recurse maximize d cs st := by
  intro n
  induction n with
  | zero =>
    intro k st cs _ hc hlen
    have hd : l.elements.drop k = [] := List.drop_eq_nil_of_le (by omega)
    rw [hd, childrenOfMoves] at hc
    obtain rfl := (Option.some.inj hc)
    rfl
  | succ n ih =>
    intro k st cs hgu hc hlen
    by_cases hab : st.alpha < st.beta
    swap
    · rw [searchMovesLoop_stop env recurse l maximize d _ _ st (fun h => hab h.1),
        searchChildren_stop recurse maximize d cs st hab]
    by_cases hk : k < l.elements.length
    swap
    · have hd : l.elements.drop k = [] := List.drop_eq_nil_of_le (by omega)
      rw [hd, childrenOfMoves] at hc
      obtain rfl := (Option.some.inj hc)
      rw [searchMovesLoop_stop env recurse l maximize d _ _ st
        (fun h => hk (by have := h.2; unfold spArrayListSize at this; omega))]
      rfl
    have hd : l.elements.drop k = l.elements.get ⟨k, hk⟩ :: l.elements.drop (k + 1) := by
      rw [List.drop_eq_getElem_cons hk]
      rfl
    rw [hd, childrenOfMoves] at hc
    cases hcopy : spChessGameCopy st.currentGame with
    | none => rw [hcopy] at hc; exact absurd hc (by simp)
    | some copy =>
      rw [hcopy] at hc
      simp only at hc
      by_cases hs : (spChessGameSetMove env copy (l.elements.get ⟨k, hk⟩) true true).1
          = SP_CHESS_GAME_SUCCESS
      swap
      · rw [if_pos hs] at hc; exact absurd hc (by simp)
      rw [if_neg (by simpa using hs)] at hc
      cases hrest : childrenOfMoves env st.currentGame (l.elements.drop (k + 1)) with
      | none => rw [hrest] at hc; exact absurd hc (by simp)
      | some rest =>
        rw [hrest] at hc
        simp only [Option.some.injEq] at hc
        subst hc
        have hget : spArrayListGetAt l (k : Int) = some (l.elements.get ⟨k, hk⟩) := by
          unfold spArrayListGetAt spArrayListSize
          have c1 : ¬ ((k : Int) < 0 ∨ (k : Int) ≥ (l.elements.length : Int)) := by omega
          simp only [c1, ↓reduceIte, Int.toNat_ofNat]
          exact List.get?_eq_get hk
        rw [searchMovesLoop_step env recurse l maximize d n (k : Int) st copy _ hgu
          ⟨hab, by unfold spArrayListSize; omega⟩ hcopy hget hs]
        have hcast : ((k : Int) + 1) = ((k + 1 : Nat) : Int) := by push_cast; rfl
        rw [hcast, searchChildren_cons]
        have hstep : searchChild recurse maximize d st
            ((spChessGameSetMove env copy (l.elements.get ⟨k, hk⟩) true true).2.2,
              (spChessGameSetMove env copy (l.elements.get ⟨k, hk⟩) true true).2.1)
            = updateBoundsAndMove (spChessGameSetMove env copy (l.elements.get ⟨k, hk⟩) true true).2.2
              { st with minimaxMove := (recurse
                (spChessGameSetMove env copy (l.elements.get ⟨k, hk⟩) true true).2.1
                st.minimaxMove st.alpha st.beta).2 } maximize
              (recurse (spChessGameSetMove env copy (l.elements.get ⟨k, hk⟩) true true).2.1
                st.minimaxMove st.alpha st.beta).1 d := by
          unfold searchChild
          rw [if_neg (by simpa using hab)]
        rw [hstep]
        refine ih (k + 1) _ rest ?_ ?_ (by omega)
        · rw [updateBoundsAndMove_gaveUp]; exact hgu
        · rw [updateBoundsAndMove_game]; exact hrest

theorem childrenOfCols_skip (env : Env) (pm : SPArrayList) (row col : Int) (cols : List Int)
    (g : SPChessGame)
    (ho : currentPlayerPiece g.currentPlayer (g.board row col) = false) :
    childrenOfCols env pm row (col :: cols) g = childrenOfCols env pm row cols g := by
  rw [childrenOfCols]
  simp only [ho, Bool.not_false, ↓reduceIte]

/-- What `childrenOfCols` went through when it gives the children of a piece of the side to
move and of the columns after it. -/
theorem childrenOfCols_own (env : Env) (pm : SPArrayList) (row col : Int) (cols : List Int)
    (g G : SPChessGame) (cs : List (Move × SPChessGame))
    (ho : currentPlayerPiece g.currentPlayer (g.board row col) = true)
    (h : childrenOfCols env pm row (col :: cols) g = (G, some cs)) :
    (getPossiblePieceMoves env g pm row col (g.board row col) true true).1
        = SP_CHESS_GAME_SUCCESS
    ∧ ∃ first others : List (Move × SPChessGame),
        childrenOfMoves env (getPossiblePieceMoves env g pm row col (g.board row col) true true).2.1
          (getPossiblePieceMoves env g pm row col (g.board row col) true true).2.2.elements
          = some first
        ∧ childrenOfCols env pm row cols
            (getPossiblePieceMoves env g pm row col (g.board row col) true true).2.1
          = (G, some others)
        ∧ cs = first ++ others := by
  rw [childrenOfCols] at h
  simp only [ho, Bool.not_true, Bool.false_eq_true, ↓reduceIte] at h
  by_cases hgen : (getPossiblePieceMoves env g pm row col (g.board row col) true true).1
      = SP_CHESS_GAME_SUCCESS
  swap
  · rw [if_pos hgen] at h
    exact absurd (congrArg Prod.snd h) (by simp)
  rw [if_neg (by simpa using hgen)] at h
  refine ⟨hgen, ?_⟩
  cases hfirst : childrenOfMoves env
      (getPossiblePieceMoves env g pm row col (g.board row col) true true).2.1
      (getPossiblePieceMoves env g pm row col (g.board row col) true true).2.2.elements with
  | none =>
    rw [hfirst] at h
    exact absurd (congrArg Prod.snd h) (by simp)
  | some first =>
    rw [hfirst] at h
    simp only at h
    cases hrest : (childrenOfCols env pm row cols
        (getPossiblePieceMoves env g pm row col (g.board row col) true true).2.1).2 with
    | none =>
      rw [hrest] at h
      exact absurd (congrArg Prod.snd h) (by simp)
    | some others =>
      rw [hrest] at h
      simp only [Option.map_some', Prod.mk.injEq, Option.some.injEq] at h
      exact ⟨first, others, rfl, Prod.ext h.1 hrest, h.2.symm⟩

/-- The loop over the columns of a row is the loop over the children of its pieces. -/
theorem searchColsLoop_children (env : Env)
    (recurse : SPChessGame → Move → Int → Int → Int × Move) (pm : SPArrayList)
    (maximize : Bool) (d row : Int) :
    ∀ (cols : List Int) (st st2 : SearchState) (G : SPChessGame)
      (cs : List (Move × SPChessGame)),
      sameBounds st st2 → st.gaveUp = false →
      childrenOfCols env pm row cols st.currentGame = (G, some cs) →
      sameBounds (searchColsLoop env recurse pm maximize d row cols st)
        (searchChildren recurse maximize d cs st2)
      ∧ ((searchColsLoop env recurse pm maximize d row cols st).alpha
            < (searchColsLoop env recurse pm maximize d row cols st).beta →
          (searchColsLoop env recurse pm maximize d row cols st).currentGame = G) := by
  intro cols
  induction cols with
  | nil =>
    intro st st2 G cs h _ hc
    rw [childrenOfCols] at hc
    simp only [Prod.mk.injEq, Option.some.injEq] at hc
    obtain ⟨h1, h2⟩ := hc
    subst h2
    rw [searchColsLoop]
    exact ⟨h, fun _ => h1⟩
  | cons col cols ih =>
    intro st st2 G cs h hgu hc
    by_cases hab : st.alpha < st.beta
    swap
    · rw [searchColsLoop_stop env recurse pm maximize d row _ st hab,
        searchChildren_stop recurse maximize d cs st2 (by rw [← h.1, ← h.2.1]; exact hab)]
      exact ⟨h, fun h2 => absurd h2 hab⟩
    by_cases ho : currentPlayerPiece st.currentGame.currentPlayer
        (st.currentGame.board row col) = true
    swap
    · have ho2 : currentPlayerPiece st.currentGame.currentPlayer
          (st.currentGame.board row col) = false := by simpa using ho
      rw [searchColsLoop_skip env recurse pm maximize d row col cols st hgu hab ho2]
      rw [childrenOfCols_skip env pm row col cols _ ho2] at hc
      exact ih st st2 G cs h hgu hc
    obtain ⟨hgen, first, others, hf, hr, rfl⟩ :=
      childrenOfCols_own env pm row col cols st.currentGame G cs ho hc
    rw [searchColsLoop_own env recurse pm maximize d row col cols st hgu hab ho hgen]
    have hm := searchMovesLoop_children env recurse
      (getPossiblePieceMoves env st.currentGame pm row col (st.currentGame.board row col)
        true true).2.2 maximize d
      (spArrayListSize (getPossiblePieceMoves env st.currentGame pm row col
        (st.currentGame.board row col) true true).2.2).toNat 0
      { st with currentGame := (getPossiblePieceMoves env st.currentGame pm row col
        (st.currentGame.board row col) true true).2.1 } first hgu
      (by rw [List.drop_zero]; exact hf)
      (by unfold spArrayListSize; simp)
    simp only [Nat.cast_zero] at hm
    rw [hm, searchChildren_append]
    refine ih _ _ G others ?_ ?_ ?_
    · exact searchChildren_congr recurse maximize d first _ _ h
    · rw [(searchChildren_game recurse maximize d first _).2]; exact hgu
    · rw [(searchChildren_game recurse maximize d first _).1]; exact hr

theorem childrenOfRows_cons (env : Env) (pm : SPArrayList) (row : Int) (rows : List Int)
    (g G : SPChessGame) (cs : List (Move × SPChessGame))
    (h : childrenOfRows env pm (row :: rows) g = (G, some cs)) :
    ∃ first others : List (Move × SPChessGame),
      (childrenOfCols env pm row [0, 1, 2, 3, 4, 5, 6, 7] g).2 = some first
      ∧ childrenOfRows env pm rows (childrenOfCols env pm row [0, 1, 2, 3, 4, 5, 6, 7] g).1
          = (G, some others)
      ∧ cs = first ++ others := by
  rw [childrenOfRows] at h
  simp only at h
  cases hfirst : (childrenOfCols env pm row [0, 1, 2, 3, 4, 5, 6, 7] g).2 with
  | none =>
    rw [hfirst] at h
    exact absurd (congrArg Prod.snd h) (by simp)
  | some first =>
    rw [hfirst] at h
    simp only at h
    cases hrest : (childrenOfRows env pm rows
        (childrenOfCols env pm row [0, 1, 2, 3, 4, 5, 6, 7] g).1).2 with
    | none =>
      rw [hrest] at h
      exact absurd (congrArg Prod.snd h) (by simp)
    | some others =>
      rw [hrest] at h
      simp only [Option.map_some', Prod.mk.injEq, Option.some.injEq] at h
      exact ⟨first, others, rfl, Prod.ext h.1 hrest, h.2.symm⟩

/-- The loop over the rows of the board is the loop over the children of the node. -/
theorem searchRowsLoop_children (env : Env)
    (recurse : SPChessGame → Move → Int → Int → Int × Move) (pm : SPArrayList)
    (maximize : Bool) (d : Int) :
    ∀ (rows : List Int) (st st2 : SearchState) (G : SPChessGame)
      (cs : List (Move × SPChessGame)),
      sameBounds st st2 → st.gaveUp = false →
      childrenOfRows env pm rows st.currentGame = (G, some cs) →
      sameBounds (searchRowsLoop env recurse pm maximize d rows st)
        (searchChildren recurse maximize d cs st2) := by
  intro rows
  induction rows with
  | nil =>
    intro st st2 G cs h _ hc
    rw [childrenOfRows] at hc
    simp only [Prod.mk.injEq, Option.some.injEq] at hc
    obtain ⟨-, h2⟩ := hc
    subst h2
    rw [searchRowsLoop]
    exact h
  | cons row rows ih =>
    intro st st2 G cs h hgu hc
    by_cases hab : st.alpha < st.beta
    swap
    · rw [searchRowsLoop_stop env recurse pm maximize d _ st hab,
        searchChildren_stop recurse maximize d cs st2 (by rw [← h.1, ← h.2.1]; exact hab)]
      exact h
    obtain ⟨first, others, hf, hr, rfl⟩ := childrenOfRows_cons env pm row rows _ G cs hc
    rw [searchRowsLoop_cons env recurse pm maximize d row rows st hgu hab]
    obtain ⟨k1, k2⟩ := searchColsLoop_children env recurse pm maximize d row
      [0, 1, 2, 3, 4, 5, 6, 7] st st2 _ first h hgu (Prod.ext rfl hf)
    have hgu2 : (searchColsLoop env recurse pm maximize d row [0, 1, 2, 3, 4, 5, 6, 7]
        st).gaveUp = false := by
      rw [k1.2.2.2.2, (searchChildren_game recurse maximize d first st2).2, ← h.2.2.2.2]
      exact hgu
    rw [searchChildren_append]
    by_cases hab2 : (searchColsLoop env recurse pm maximize d row [0, 1, 2, 3, 4, 5, 6, 7]
        st).alpha < (searchColsLoop env recurse pm maximize d row [0, 1, 2, 3, 4, 5, 6, 7]
        st).beta
    · exact ih _ _ G others k1 hgu2 (by rw [k2 hab2]; exact hr)
    · rw [searchRowsLoop_stop env recurse pm maximize d _ _ hab2,
        searchChildren_stop recurse maximize d others _
          (by rw [← k1.1, ← k1.2.1]; exact hab2)]
      exact k1

theorem updateBounds_max (mv : Move) (st : SearchState) (v d : Int) (hd : d ≠ ROOT_DEPTH) :
    updateBoundsAndMove mv st true v d = if v > st.alpha then { st with alpha := v } else st := by
  unfold updateBoundsAndMove
  simp [hd]

theorem updateBounds_min (mv : Move) (st : SearchState) (v d : Int) :
    updateBoundsAndMove mv st false v d = if v < st.beta then { st with beta := v } else st := by
  unfold updateBoundsAndMove
  simp

theorem foldl_max_ge (xs : List Int) : ∀ a : Int, a ≤ xs.foldl max a := by
  induction xs with
  | nil => intro a; exact le_refl _
  | cons x t ih =>
    intro a
    rw [List.foldl_cons]
    exact le_trans (le_max_left a x) (ih _)

theorem foldl_min_le (xs : List Int) : ∀ a : Int, xs.foldl min a ≤ a := by
  induction xs with
  | nil => intro a; exact le_refl _
  | cons x t ih =>
    intro a
    rw [List.foldl_cons]
    exact le_trans (ih _) (min_le_left a x)

theorem foldl_max_base (xs : List Int) :
    ∀ a b : Int, b ≤ a → xs.foldl max a = max a (xs.foldl max b) := by
  induction xs with
  | nil => intro a b h; simp [h]
  | cons x t ih =>
    intro a b h
    rw [List.foldl_cons, List.foldl_cons, ih (max a x) (max b x) (max_le_max_right x h)]
    have h1 := foldl_max_ge t (max b x)
    have h2 : x ≤ max b x := le_max_right b x
    omega

theorem foldl_min_base (xs : List Int) :
    ∀ a b : Int, a ≤ b → xs.foldl min a = min a (xs.foldl min b) := by
  induction xs with
  | nil => intro a b h; simp [h]
  | cons x t ih =>
    intro a b h
    rw [List.foldl_cons, List.foldl_cons, ih (min a x) (min b x) (min_le_min_right x h)]
    have h1 := foldl_min_le t (min b x)
    have h2 : min b x ≤ x := min_le_right b x
    omega

theorem foldl_max_range (xs : List Int) (h : ∀ x ∈ xs, intRange x) :
    ∀ a : Int, intRange a → intRange (xs.foldl max a) := by
  induction xs with
  | nil => intro a ha; exact ha
  | cons x t ih =>
    intro a ha
    rw [List.foldl_cons]
    refine ih (fun y hy => h y (List.mem_cons_of_mem _ hy)) _ ?_
    have hx := h x (List.mem_cons_self _ _)
    unfold intRange at *
    omega

theorem foldl_min_range (xs : List Int) (h : ∀ x ∈ xs, intRange x) :
    ∀ a : Int, intRange a → intRange (xs.foldl min a) := by
  induction xs with
  | nil => intro a ha; exact ha
  | cons x t ih =>
    intro a ha
    rw [List.foldl_cons]
    refine ih (fun y hy => h y (List.mem_cons_of_mem _ hy)) _ ?_
    have hx := h x (List.mem_cons_self _ _)
    unfold intRange at *
    omega

/-- The loop over the children of a maximizing node below the root: `beta` and the stored
move stay, and `alpha` ends as the maximum of its start and the children's values when
that is below `beta`, and at or above `beta` otherwise. -/
theorem searchChildren_max (recurse : SPChessGame → Move → Int → Int → Int × Move)
    (val : Move × SPChessGame → Int) (d : Int) (hd : d ≠ ROOT_DEPTH) :
    ∀ (cs : List (Move × SPChessGame)) (st : SearchState),
      (∀ c ∈ cs, rightAbout recurse c (val c)) →
      INT_MIN ≤ st.alpha → st.alpha ≤ INT_MAX → st.beta ≤ INT_MAX →
      (searchChildren recurse true d cs st).beta = st.beta
      ∧ (searchChildren recurse true d cs st).minimaxMove = st.minimaxMove
      ∧ st.alpha ≤ (searchChildren recurse true d cs st).alpha
      ∧ (searchChildren recurse true d cs st).alpha ≤ INT_MAX
      ∧ ((cs.map val).foldl max st.alpha < st.beta →
          (searchChildren recurse true d cs st).alpha = (cs.map val).foldl max st.alpha)
      ∧ (st.beta ≤ (cs.map val).foldl max st.alpha →
          st.beta ≤ (searchChildren recurse true d cs st).alpha) := by
  intro cs
  induction cs with
  | nil =>
    intro st _ _ h2 _
    exact ⟨rfl, rfl, le_refl _, h2, fun _ => rfl, fun h => h⟩
  | cons c t ih =>
    intro st hr h1 h2 h3
    have hge := foldl_max_ge ((c :: t).map val) st.alpha
    by_cases hab : st.alpha < st.beta
    swap
    · rw [searchChildren_stop recurse true d _ st hab]
      exact ⟨rfl, rfl, le_refl _, h2, fun h => by omega, fun _ => by omega⟩
    obtain ⟨hv, hc⟩ := hr c (List.mem_cons_self _ _)
    obtain ⟨r1, ⟨w1, w2, w3⟩, r3⟩ := hc st.minimaxMove st.alpha st.beta h1 hab h3
    have hstep : searchChild recurse true d st c
        = if (recurse c.2 st.minimaxMove st.alpha st.beta).1 > st.alpha then
            { st with alpha := (recurse c.2 st.minimaxMove st.alpha st.beta).1 }
          else st := by
      unfold searchChild
      rw [if_neg (by simpa using hab), updateBounds_max _ _ _ _ hd, r1]
    have hrest := fun st2 h4 h5 h6 => ih st2
      (fun x hx => hr x (List.mem_cons_of_mem _ hx)) h4 h5 h6
    rw [searchChildren_cons, hstep]
    simp only [List.map_cons, List.foldl_cons] at hge ⊢
    unfold intRange at r3 hv
    by_cases hup : (recurse c.2 st.minimaxMove st.alpha st.beta).1 > st.alpha
    · rw [if_pos hup]
      obtain ⟨i1, i2, i3, i4, i5, i6⟩ := hrest
        { st with alpha := (recurse c.2 st.minimaxMove st.alpha st.beta).1 } r3.1 r3.2 h3
      simp only at i1 i2 i3 i4 i5 i6
      have hva : st.alpha < val c := by
        by_contra hcon
        have := w1 (by omega)
        omega
      have hmax : max st.alpha (val c) = val c := max_eq_right (le_of_lt hva)
      rw [hmax] at hge ⊢
      refine ⟨i1, i2, by omega, i4, ?_, ?_⟩
      · intro hm
        have hvb : val c < st.beta := lt_of_le_of_lt (foldl_max_ge _ _) hm
        rw [w2 hva hvb] at i5 ⊢
        exact i5 hm
      · intro hm
        by_cases hvb : val c < st.beta
        · rw [w2 hva hvb] at i6 ⊢
          exact i6 hm
        · have := w3 (by omega)
          omega
    · rw [if_neg hup]
      obtain ⟨i1, i2, i3, i4, i5, i6⟩ := hrest st h1 h2 h3
      have hva : val c ≤ st.alpha := by
        by_contra hcon
        have hva : st.alpha < val c := by omega
        by_cases hvb : val c < st.beta
        · have := w2 hva hvb
          omega
        · have := w3 (by omega)
          omega
      have hmax : max st.alpha (val c) = st.alpha := max_eq_left hva
      rw [hmax]
      exact ⟨i1, i2, i3, i4, i5, i6⟩

/-- The loop over the children of a minimizing node: `alpha` and the stored move stay, and
`beta` ends as the minimum of its start and the children's values when that is above
`alpha`, and at or below `alpha` otherwise. -/
theorem searchChildren_min (recurse : SPChessGame → Move → Int → Int → Int × Move)
    (val : Move × SPChessGame → Int) (d : Int) :
    ∀ (cs : List (Move × SPChessGame)) (st : SearchState),
      (∀ c ∈ cs, rightAbout recurse c (val c)) →
      INT_MIN ≤ st.alpha → INT_MIN ≤ st.beta → st.beta ≤ INT_MAX →
      (searchChildren recurse false d cs st).alpha = st.alpha
      ∧ (searchChildren recurse false d cs st).minimaxMove = st.minimaxMove
      ∧ (searchChildren recurse false d cs st).beta ≤ st.beta
      ∧ INT_MIN ≤ (searchChildren recurse false d cs st).beta
      ∧ (st.alpha < (cs.map val).foldl min st.beta →
          (searchChildren recurse false d cs st).beta = (cs.map val).foldl min st.beta)
      ∧ ((cs.map val).foldl min st.beta ≤ st.alpha →
          (searchChildren recurse false d cs st).beta ≤ st.alpha) := by
  intro cs
  induction cs with
  | nil =>
    intro st _ _ h2 _
    exact ⟨rfl, rfl, le_refl _, h2, fun _ => rfl, fun h => h⟩
  | cons c t ih =>
    intro st hr h1 h2 h3
    have hge := foldl_min_le ((c :: t).map val) st.beta
    by_cases hab : st.alpha < st.beta
    swap
    · rw [searchChildren_stop recurse false d _ st hab]
      exact ⟨rfl, rfl, le_refl _, h2, fun h => by omega, fun _ => by omega⟩
    obtain ⟨hv, hc⟩ := hr c (List.mem_cons_self _ _)
    obtain ⟨r1, ⟨w1, w2, w3⟩, r3⟩ := hc st.minimaxMove st.alpha st.beta h1 hab h3
    have hstep : searchChild recurse false d st c
        = if (recurse c.2 st.minimaxMove st.alpha st.beta).1 < st.beta then
            { st with beta := (recurse c.2 st.minimaxMove st.alpha st.beta).1 }
          else st := by
      unfold searchChild
      rw [if_neg (by simpa using hab), updateBounds_min, r1]
    have hrest := fun st2 h4 h5 h6 => ih st2
      (fun x hx => hr x (List.mem_cons_of_mem _ hx)) h4 h5 h6
    rw [searchChildren_cons, hstep]
    simp only [List.map_cons, List.foldl_cons] at hge ⊢
    unfold intRange at r3 hv
    by_cases hup : (recurse c.2 st.minimaxMove st.alpha st.beta).1 < st.beta
    · rw [if_pos hup]
      obtain ⟨i1, i2, i3, i4, i5, i6⟩ := hrest
        { st with beta := (recurse c.2 st.minimaxMove st.alpha st.beta).1 } h1 r3.1 r3.2
      simp only at i1 i2 i3 i4 i5 i6
      have hvb : val c < st.beta := by
        by_contra hcon
        have := w3 (by omega)
        omega
      have hmin : min st.beta (val c) = val c := min_eq_right (le_of_lt hvb)
      rw [hmin] at hge ⊢
      refine ⟨i1, i2, by omega, i4, ?_, ?_⟩
      · intro hm
        have hva : st.alpha < val c := lt_of_lt_of_le hm (foldl_min_le _ _)
        rw [w2 hva hvb] at i5 ⊢
        exact i5 hm
      · intro hm
        by_cases hva : st.alpha < val c
        · rw [w2 hva hvb] at i6 ⊢
          exact i6 hm
        · have := w1 (by omega)
          omega
    · rw [if_neg hup]
      obtain ⟨i1, i2, i3, i4, i5, i6⟩ := hrest st h1 h2 h3
      have hvb : st.beta ≤ val c := by
        by_contra hcon
        have hvb : val c < st.beta := by omega
        by_cases hva : st.alpha < val c
        · have := w2 hva hvb
          omega
        · have := w1 (by omega)
          omega
      have hmin : min st.beta (val c) = st.beta := min_eq_left hvb
      rw [hmin]
      exact ⟨i1, i2, i3, i4, i5, i6⟩

theorem nodeChildren_some (env : Env) (g : SPChessGame) (cs : List (Move × SPChessGame))
    (h : nodeChildren env g = some cs) :
    ∃ pm, spArrayListCreate env.MAX_MOVES_FOR_PIECE = some pm
      ∧ childrenOfRows env pm [0, 1, 2, 3, 4, 5, 6, 7] g
          = ((childrenOfRows env pm [0, 1, 2, 3, 4, 5, 6, 7] g).1, some cs) := by
  unfold nodeChildren at h
  cases hpm : spArrayListCreate env.MAX_MOVES_FOR_PIECE with
  | none => rw [hpm] at h; exact absurd h (by simp)
  | some pm =>
    rw [hpm] at h
    exact ⟨pm, rfl, Prod.ext rfl h⟩

/-- An inner node of the search whose children are obtained: the value and the move
`alphaBetaPruning` returns are those of the loop over the children. -/
theorem alphaBetaPruning_children (env : Env) (maxDepth : Int) (P : Player) (fuel : Nat)
    (g : SPChessGame) (mv : Move) (d a b : Int) (cs : List (Move × SPChessGame))
    (hleaf : ¬ (d > ROOT_DEPTH ∧ (g.status = WHITE_PLAYER_WINS ∨ g.status = BLACK_PLAYER_WINS
        ∨ g.status = TIED_GAME ∨ d = maxDepth)))
    (hc : nodeChildren env g = some cs) :
    (alphaBetaPruning env maxDepth P (fuel + 1) g mv d a b).1
      = (if d = ROOT_DEPTH then INT_MAX
          else if decide (d % 2 = 0) = true then
            (searchChildren (recurseAt env maxDepth P fuel d) (decide (d % 2 = 0)) d cs
              { currentGame := g, alpha := a, beta := b, minimaxMove := mv, choseMove := false,
                gaveUp := false }).alpha
          else
            (searchChildren (recurseAt env maxDepth P fuel d) (decide (d % 2 = 0)) d cs
              { currentGame := g, alpha := a, beta := b, minimaxMove := mv, choseMove := false,
                gaveUp := false }).beta)
    ∧ (alphaBetaPruning env maxDepth P (fuel + 1) g mv d a b).2.1
      = (searchChildren (recurseAt env maxDepth P fuel d) (decide (d % 2 = 0)) d cs
          { currentGame := g, alpha := a, beta := b, minimaxMove := mv, choseMove := false,
            gaveUp := false }).minimaxMove := by
  obtain ⟨pm, hpm, hrows⟩ := nodeChildren_some env g cs hc
  have hs := searchRowsLoop_children env (recurseAt env maxDepth P fuel d) pm
    (decide (d % 2 = 0)) d [0, 1, 2, 3, 4, 5, 6, 7]
    { currentGame := g, alpha := a, beta := b, minimaxMove := mv, choseMove := false,
      gaveUp := false }
    { currentGame := g, alpha := a, beta := b, minimaxMove := mv, choseMove := false,
      gaveUp := false } _ cs (sameBounds_refl _) rfl hrows
  obtain ⟨s1, s2, s3, -, s5⟩ := hs
  have hgu : (searchRowsLoop env (recurseAt env maxDepth P fuel d) pm (decide (d % 2 = 0)) d
      [0, 1, 2, 3, 4, 5, 6, 7]
      { currentGame := g, alpha := a, beta := b, minimaxMove := mv, choseMove := false,
        gaveUp := false }).gaveUp = false := by
    rw [s5, (searchChildren_game _ _ _ cs _).2]
  rw [alphaBetaPruning_eq env maxDepth P fuel g mv d a b pm hleaf hpm]
  rw [if_neg (by rw [hgu]; decide)]
  by_cases hd : d = ROOT_DEPTH
  · rw [if_pos hd, if_pos hd]
    exact ⟨rfl, s3⟩
  · rw [if_neg hd, if_neg hd]
    refine ⟨?_, s3⟩
    show (if decide (d % 2 = 0) = true then _ else _) = _
    rw [s1, s2]

theorem parity_next (d : Int) : decide ((d + 1) % 2 = 0) = !decide (d % 2 = 0) := by
  by_cases h : d % 2 = 0
  · have h2 : ¬ ((d + 1) % 2 = 0) := by omega
    simp [h, h2]
  · have h2 : (d + 1) % 2 = 0 := by omega
    simp [h, h2]

theorem leafValue_some (env : Env) (g : SPChessGame) (P : Player) (v : Int)
    (h : leafValue env g P = some v) : v = leafNodeResult env g P ∧ intRange v := by
  unfold leafValue at h
  split_ifs at h with hr
  obtain rfl := Option.some.inj h
  exact ⟨rfl, hr⟩

theorem childValues_some (value : Move × SPChessGame → Option Int) :
    ∀ (cs : List (Move × SPChessGame)) (vs : List Int), childValues value cs = some vs →
      (∀ c ∈ cs, value c = some ((value c).getD 0))
      ∧ vs = cs.map fun c => (value c).getD 0 := by
  intro cs
  induction cs with
  | nil =>
    intro vs h
    rw [childValues] at h
    obtain rfl := Option.some.inj h
    exact ⟨fun c hc => absurd hc (List.not_mem_nil _), rfl⟩
  | cons c t ih =>
    intro vs h
    rw [childValues] at h
    cases hv : value c with
    | none => rw [hv] at h; exact absurd h (by simp)
    | some v =>
      rw [hv] at h
      simp only at h
      cases ht : childValues value t with
      | none => rw [ht] at h; exact absurd h (by simp)
      | some ws =>
        rw [ht] at h
        obtain rfl := Option.some.inj h
        obtain ⟨i1, i2⟩ := ih ws ht
        refine ⟨?_, ?_⟩
        · intro x hx
          rcases List.mem_cons.1 hx with rfl | hx
          · rw [hv]; rfl
          · exact i1 x hx
        · rw [List.map_cons, hv, i2]
          rfl

/-- What the unpruned minimax went through at an inner node where it has a value. -/
theorem plainMinimax_inner (env : Env) (P : Player) (n : Nat) (mx : Bool) (g : SPChessGame)
    (v : Int) (ht : ¬ terminalStatus g.status) (h : plainMinimax env P (n + 1) mx g = some v) :
    ∃ cs, nodeChildren env g = some cs
      ∧ (∀ c ∈ cs, plainMinimax env P n (!mx) c.2
          = some ((plainMinimax env P n (!mx) c.2).getD 0))
      ∧ v = (if mx = true then
              (cs.map fun c => (plainMinimax env P n (!mx) c.2).getD 0).foldl max INT_MIN
            else (cs.map fun c => (plainMinimax env P n (!mx) c.2).getD 0).foldl min INT_MAX) := by
  rw [plainMinimax, if_neg ht] at h
  cases hc : nodeChildren env g with
  | none => rw [hc] at h; exact absurd h (by simp)
  | some cs =>
    rw [hc] at h
    simp only at h
    cases hv : childValues (fun c => plainMinimax env P n (!mx) c.2) cs with
    | none => rw [hv] at h; exact absurd h (by simp)
    | some vs =>
      rw [hv] at h
      simp only at h
      obtain ⟨i1, i2⟩ := childValues_some _ cs vs hv
      refine ⟨cs, rfl, i1, ?_⟩
      rw [← i2]
      cases mx
      · simp only [Bool.false_eq_true, ↓reduceIte, Option.some.injEq] at h ⊢
        exact h.symm
      · simp only [↓reduceIte, Option.some.injEq] at h ⊢
        exact h.symm

/-- The value `alphaBetaPruning` returns for a node below the root, against the unpruned
value: inside the window the two are equal, outside they lie on the same side of it. -/
theorem alphaBetaPruning_window (env : Env) (maxDepth : Int) (P : Player) :
    ∀ (n : Nat) (g : SPChessGame) (mv : Move) (d a b v : Int),
      ROOT_DEPTH < d → d + n = maxDepth →
      plainMinimax env P n (decide (d % 2 = 0)) g = some v →
      INT_MIN ≤ a → a < b → b ≤ INT_MAX →
      (alphaBetaPruning env maxDepth P (n + 1) g mv d a b).2.1 = mv
      ∧ windowValue (alphaBetaPruning env maxDepth P (n + 1) g mv d a b).1 v a b
      ∧ intRange (alphaBetaPruning env maxDepth P (n + 1) g mv d a b).1
      ∧ intRange v := by
  intro n
  induction n with
  | zero =>
    intro g mv d a b v hd hn hs _ _ _
    have hleaf : d > ROOT_DEPTH ∧ (g.status = WHITE_PLAYER_WINS ∨ g.status = BLACK_PLAYER_WINS
        ∨ g.status = TIED_GAME ∨ d = maxDepth) := ⟨hd, Or.inr (Or.inr (Or.inr (by omega)))⟩
    rw [plainMinimax] at hs
    obtain ⟨rfl, hr⟩ := leafValue_some env g P v hs
    rw [alphaBetaPruning, if_pos hleaf]
    exact ⟨rfl, ⟨fun h => h, fun _ _ => rfl, fun h => h⟩, hr, hr⟩
  | succ n ih =>
    intro g mv d a b v hd hn hs ha hab hb
    by_cases ht : terminalStatus g.status
    · have hleaf : d > ROOT_DEPTH ∧ (g.status = WHITE_PLAYER_WINS
          ∨ g.status = BLACK_PLAYER_WINS ∨ g.status = TIED_GAME ∨ d = maxDepth) := by
        refine ⟨hd, ?_⟩
        rcases ht with h | h | h
        · exact Or.inl h
        · exact Or.inr (Or.inl h)
        · exact Or.inr (Or.inr (Or.inl h))
      rw [plainMinimax, if_pos ht] at hs
      obtain ⟨rfl, hr⟩ := leafValue_some env g P v hs
      rw [alphaBetaPruning, if_pos hleaf]
      exact ⟨rfl, ⟨fun h => h, fun _ _ => rfl, fun h => h⟩, hr, hr⟩
    · obtain ⟨cs, hc, hall, hv⟩ := plainMinimax_inner env P n _ g v ht hs
      have hleaf : ¬ (d > ROOT_DEPTH ∧ (g.status = WHITE_PLAYER_WINS
          ∨ g.status = BLACK_PLAYER_WINS ∨ g.status = TIED_GAME ∨ d = maxDepth)) := by
        rintro ⟨-, h | h | h | h⟩
        · exact ht (Or.inl h)
        · exact ht (Or.inr (Or.inl h))
        · exact ht (Or.inr (Or.inr h))
        · omega
      have hd0 : d ≠ ROOT_DEPTH := ne_of_gt hd
      obtain ⟨e1, e2⟩ := alphaBetaPruning_children env maxDepth P (n + 1) g mv d a b cs hleaf hc
      rw [if_neg hd0] at e1
      have hright : ∀ c ∈ cs, rightAbout (recurseAt env maxDepth P (n + 1) d) c
          ((plainMinimax env P n (!decide (d % 2 = 0)) c.2).getD 0) := by
        intro c hcm
        have hd1 : ROOT_DEPTH < d + 1 := lt_trans hd (by omega)
        have hval := hall c hcm
        rw [← parity_next] at hval
        refine ⟨?_, fun mv2 a2 b2 h1 h2 h3 => ?_⟩
        · have := (ih c.2 mv (d + 1) a b _ hd1 (by omega) hval ha hab hb).2.2.2
          rw [parity_next] at this
          exact this
        · have := ih c.2 mv2 (d + 1) a2 b2 _ hd1 (by omega) hval h1 h2 h3
          rw [parity_next] at this
          exact ⟨this.1, this.2.1, this.2.2.1⟩
      have hrange : ∀ x ∈ cs.map
          (fun c => (plainMinimax env P n (!decide (d % 2 = 0)) c.2).getD 0), intRange x := by
        intro x hx
        obtain ⟨c, hcm, rfl⟩ := List.mem_map.1 hx
        exact (hright c hcm).1
      have hLU : intRange INT_MIN ∧ intRange INT_MAX := ⟨by decide, by decide⟩
      rw [e1, e2, hv]
      by_cases hpar : d % 2 = 0
      · simp only [hpar, decide_True, ↓reduceIte, Bool.not_true] at hright hrange ⊢
        obtain ⟨i1, i2, i3, i4, i5, i6⟩ := searchChildren_max
          (recurseAt env maxDepth P (n + 1) d)
          (fun c => (plainMinimax env P n false c.2).getD 0) d hd0 cs
          { currentGame := g, alpha := a, beta := b, minimaxMove := mv, choseMove := false,
            gaveUp := false } hright ha (by simp only; omega) hb
        simp only at i1 i2 i3 i4 i5 i6
        have hbase := foldl_max_base
          (cs.map fun c => (plainMinimax env P n false c.2).getD 0) a INT_MIN ha
        have hv2 := foldl_max_range _ hrange INT_MIN hLU.1
        rw [hbase] at i5 i6
        refine ⟨i2, ⟨?_, ?_, ?_⟩, ⟨by omega, i4⟩, hv2⟩
        · intro h
          have := i5 (by rw [max_eq_left h]; exact hab)
          rw [this, max_eq_left h]
        · intro h1 h2
          have := i5 (by rw [max_eq_right (le_of_lt h1)]; exact h2)
          rw [this, max_eq_right (le_of_lt h1)]
        · intro h
          exact i6 (le_trans h (le_max_right _ _))
      · simp only [hpar, decide_False, Bool.false_eq_true, ↓reduceIte, Bool.not_false]
          at hright hrange ⊢
        obtain ⟨i1, i2, i3, i4, i5, i6⟩ := searchChildren_min
          (recurseAt env maxDepth P (n + 1) d)
          (fun c => (plainMinimax env P n true c.2).getD 0) d cs
          { currentGame := g, alpha := a, beta := b, minimaxMove := mv, choseMove := false,
            gaveUp := false } hright ha (by simp only; omega) hb
        simp only at i1 i2 i3 i4 i5 i6
        have hbase := foldl_min_base
          (cs.map fun c => (plainMinimax env P n true c.2).getD 0) b INT_MAX hb
        have hv2 := foldl_min_range _ hrange INT_MAX hLU.2
        rw [hbase] at i5 i6
        refine ⟨i2, ⟨?_, ?_, ?_⟩, ⟨i4, by omega⟩, hv2⟩
        · intro h
          exact i6 (le_trans (min_le_right _ _) h)
        · intro h1 h2
          have := i5 (by rw [min_eq_right (le_of_lt h2)]; exact h1)
          rw [this, min_eq_right (le_of_lt h2)]
        · intro h
          have := i5 (by rw [min_eq_left h]; exact hab)
          rw [this, min_eq_left h]

theorem updateBounds_rootStep (mv : Move) (st : SearchState) (v : Int) :
    updateBoundsAndMove mv st true v ROOT_DEPTH
      = if v > st.alpha ∨ st.choseMove = false then
          { st with alpha := v, minimaxMove := mv, choseMove := true }
        else st := by
  unfold updateBoundsAndMove
  by_cases h1 : v > st.alpha
  · simp [h1]
  · cases h2 : st.choseMove <;> simp [h1, h2]

theorem keepFirstBest_some (xs : List (Move × Int)) :
    ∀ b : Move × Int, ∃ b2, xs.foldl keepFirstBest (some b) = some b2 := by
  induction xs with
  | nil => intro b; exact ⟨b, rfl⟩
  | cons x t ih =>
    intro b
    rw [List.foldl_cons]
    unfold keepFirstBest
    simp only
    split_ifs
    · exact ih x
    · exact ih b

/-- The loop over the children of the root against the choice of the unpruned minimax. -/
theorem searchChildren_root (recurse : SPChessGame → Move → Int → Int → Int × Move)
    (val : Move × SPChessGame → Int) :
    ∀ (cs : List (Move × SPChessGame)) (st : SearchState) (best : Option (Move × Int)),
      (∀ c ∈ cs, rightAbout recurse c (val c)) → st.beta = INT_MAX → rootAgrees st best →
      rootAgrees (searchChildren recurse true ROOT_DEPTH cs st)
        ((cs.map fun c => (c.1, val c)).foldl keepFirstBest best) := by
  intro cs
  induction cs with
  | nil => intro st best _ _ h; exact h
  | cons c t ih =>
    intro st best hr hbeta hag
    obtain ⟨hv, hc⟩ := hr c (List.mem_cons_self _ _)
    have hrest := fun st2 best2 h1 h2 => ih st2 best2
      (fun x hx => hr x (List.mem_cons_of_mem _ hx)) h1 h2
    rw [searchChildren_cons]
    simp only [List.map_cons, List.foldl_cons]
    have hlt : INT_MIN < INT_MAX := by decide
    unfold intRange at hv
    rcases hag with ⟨rfl, h2, h3⟩ | ⟨m, v, rfl, h2, h3, h4, h5⟩
    · -- the first child of the root
      have hab : st.alpha < st.beta := by rw [h3, hbeta]; exact hlt
      obtain ⟨r1, ⟨w1, w2, w3⟩, r3⟩ := hc st.minimaxMove st.alpha st.beta (by rw [h3])
        hab (by rw [hbeta])
      unfold intRange at r3
      have hval : (recurse c.2 st.minimaxMove st.alpha st.beta).1 = val c := by
        by_cases ha : val c ≤ INT_MIN
        · have := w1 (by omega)
          omega
        · by_cases hb : val c < INT_MAX
          · exact w2 (by omega) (by omega)
          · have := w3 (by omega)
            omega
      have hstep : searchChild recurse true ROOT_DEPTH st c
          = { st with alpha := val c, minimaxMove := c.1, choseMove := true } := by
        unfold searchChild
        rw [if_neg (by simpa using hab), updateBounds_rootStep, if_pos (Or.inr h2), hval]
      rw [hstep]
      refine hrest _ _ hbeta (Or.inr ⟨c.1, val c, rfl, rfl, rfl, rfl, hv⟩)
    · -- a later child
      unfold intRange at h5
      by_cases hab : st.alpha < st.beta
      swap
      · have hmax : v = INT_MAX := by
          rw [h3, hbeta] at hab
          omega
        rw [searchChild_stop recurse true ROOT_DEPTH st c hab]
        have hkeep : keepFirstBest (some (m, v)) (c.1, val c) = some (m, v) := by
          unfold keepFirstBest
          simp only
          rw [if_neg (by omega)]
        rw [hkeep]
        exact hrest st _ hbeta (Or.inr ⟨m, v, rfl, h2, h3, h4, h5⟩)
      obtain ⟨r1, ⟨w1, w2, w3⟩, r3⟩ := hc st.minimaxMove st.alpha st.beta (by rw [h3]; exact h5.1)
        hab (by rw [hbeta])
      unfold intRange at r3
      by_cases hbetter : val c > v
      · have hval : (recurse c.2 st.minimaxMove st.alpha st.beta).1 = val c := by
          by_cases hb : val c < INT_MAX
          · exact w2 (by omega) (by omega)
          · have := w3 (by omega)
            omega
        have hstep : searchChild recurse true ROOT_DEPTH st c
            = { st with alpha := val c, minimaxMove := c.1, choseMove := true } := by
          unfold searchChild
          rw [if_neg (by simpa using hab), updateBounds_rootStep,
            if_pos (Or.inl (by rw [hval, h3]; exact hbetter)), hval]
        have hkeep : keepFirstBest (some (m, v)) (c.1, val c) = some (c.1, val c) := by
          unfold keepFirstBest
          simp only
          rw [if_pos hbetter]
        rw [hstep, hkeep]
        exact hrest _ _ hbeta (Or.inr ⟨c.1, val c, rfl, rfl, rfl, rfl, hv⟩)
      · have hle : (recurse c.2 st.minimaxMove st.alpha st.beta).1 ≤ st.alpha := w1 (by omega)
        have hstep : searchChild recurse true ROOT_DEPTH st c
            = { st with minimaxMove := (recurse c.2 st.minimaxMove st.alpha st.beta).2 } := by
          unfold searchChild
          rw [if_neg (by simpa using hab), updateBounds_rootStep,
            if_neg (by
              rintro (h | h)
              · have h : (recurse c.2 st.minimaxMove st.alpha st.beta).1 > st.alpha := h
                omega
              · have h : st.choseMove = false := h
                rw [h2] at h; exact absurd h (by decide))]
        have hkeep : keepFirstBest (some (m, v)) (c.1, val c) = some (m, v) := by
          unfold keepFirstBest
          simp only
          rw [if_neg hbetter]
        rw [hstep, hkeep, r1]
        exact hrest _ _ hbeta (Or.inr ⟨m, v, rfl, h2, h3, h4, ⟨h5.1, h5.2⟩⟩)

/-- C3: when the unpruned minimax makes a choice at the root (nothing fails in the search
tree: every list and copy is obtained, every move of the generator is applied, every leaf
value is a C `int`; and the root has a child), then for every `maxDepth >= 1`
`spChessMinimaxMove` returns the move the unpruned minimax chooses (the first move, in the
order of the scan and of the generator, whose subtree reaches the maximum of the unpruned
values), and the root of `alphaBetaPruning`, started with the window `INT_MIN..INT_MAX`,
ends with that move stored and with `alpha` equal to the unpruned value of the root, and
returns `INT_MAX`. -/
theorem C3_alpha_beta_is_minimax (env : Env) (g : SPChessGame) (maxDepth : Int)
    (mv : Move) (v : Int) (hd : 1 ≤ maxDepth)
    (hb : plainRoot env g maxDepth = some (mv, v)) :
    (spChessMinimaxMove env g maxDepth).1 = some mv
    ∧ (rootSearch env g maxDepth).minimaxMove = mv
    ∧ (rootSearch env g maxDepth).alpha = v
    ∧ (alphaBetaPruning env maxDepth g.currentPlayer (maxDepth.toNat + 1) g
          (spCreateMove env.junk) ROOT_DEPTH INT_MIN INT_MAX).1 = INT_MAX
    ∧ (alphaBetaPruning env maxDepth g.currentPlayer (maxDepth.toNat + 1) g
          (spCreateMove env.junk) ROOT_DEPTH INT_MIN INT_MAX).2.1
        = (rootSearch env g maxDepth).minimaxMove := by
  -- the children of the root
  unfold plainRoot at hb
  cases hc : nodeChildren env g with
  | none => rw [hc] at hb; exact absurd hb (by simp)
  | some cs =>
    rw [hc] at hb
    simp only at hb
    cases hvs : childValues
        (fun c => plainMinimax env g.currentPlayer (maxDepth.toNat - 1) false c.2) cs with
    | none => rw [hvs] at hb; exact absurd hb (by simp)
    | some vs =>
    rw [hvs] at hb
    simp only at hb
    obtain ⟨hall, hvals⟩ := childValues_some _ cs vs hvs
    rw [hvals, List.zip_map'] at hb
    obtain ⟨pm, hpm, hrows⟩ := nodeChildren_some env g cs hc
    have hfuel : maxDepth.toNat = (maxDepth.toNat - 1) + 1 := by omega
    have hright : ∀ c ∈ cs,
        rightAbout (recurseAt env maxDepth g.currentPlayer maxDepth.toNat ROOT_DEPTH) c
          ((plainMinimax env g.currentPlayer (maxDepth.toNat - 1) false c.2).getD 0) := by
      intro c hcm
      have hd1 : ROOT_DEPTH < ROOT_DEPTH + 1 := by decide
      have hsum : ROOT_DEPTH + 1 + ((maxDepth.toNat - 1 : Nat) : Int) = maxDepth := by
        unfold ROOT_DEPTH
        omega
      have hpar : decide ((ROOT_DEPTH + 1) % 2 = 0) = false := by decide
      have hval := hall c hcm
      simp only at hval
      rw [← hpar] at hval
      have key := fun mv a b h1 h2 h3 => alphaBetaPruning_window env maxDepth g.currentPlayer
        (maxDepth.toNat - 1) c.2 mv (ROOT_DEPTH + 1) a b _ hd1 hsum hval h1 h2 h3
      rw [hpar] at key
      refine ⟨(key (spCreateMove env.junk) INT_MIN INT_MAX (le_refl _) (by decide)
        (le_refl _)).2.2.2, fun mv a b h1 h2 h3 => ?_⟩
      have := key mv a b h1 h2 h3
      unfold recurseAt
      rw [hfuel]
      exact ⟨this.1, this.2.1, this.2.2.1⟩
    -- the loops at the root
    have hloops := searchRowsLoop_children env
      (recurseAt env maxDepth g.currentPlayer maxDepth.toNat ROOT_DEPTH) pm true ROOT_DEPTH
      [0, 1, 2, 3, 4, 5, 6, 7]
      { currentGame := g, alpha := INT_MIN, beta := INT_MAX,
        minimaxMove := spCreateMove env.junk, choseMove := false, gaveUp := false }
      { currentGame := g, alpha := INT_MIN, beta := INT_MAX,
        minimaxMove := spCreateMove env.junk, choseMove := false, gaveUp := false }
      _ cs (sameBounds_refl _) rfl hrows
    have hroot := searchChildren_root
      (recurseAt env maxDepth g.currentPlayer maxDepth.toNat ROOT_DEPTH)
      (fun c => (plainMinimax env g.currentPlayer (maxDepth.toNat - 1) false c.2).getD 0) cs
      { currentGame := g, alpha := INT_MIN, beta := INT_MAX,
        minimaxMove := spCreateMove env.junk, choseMove := false, gaveUp := false }
      none hright rfl (Or.inl ⟨rfl, rfl, rfl⟩)
    rw [hb] at hroot
    have hstate : (rootSearch env g maxDepth).minimaxMove = mv
        ∧ (rootSearch env g maxDepth).alpha = v := by
      unfold rootSearch
      rw [hpm]
      simp only
      rw [hloops.1, hloops.2.2.1]
      rcases hroot with ⟨h, -⟩ | ⟨m, w, h1, -, h3, h4, -⟩
      · exact absurd h (by simp)
      · obtain ⟨rfl, rfl⟩ := Prod.mk.inj (Option.some.inj h1)
        exact ⟨h4, h3⟩
    have hleaf : ¬ (ROOT_DEPTH > ROOT_DEPTH ∧ (g.status = WHITE_PLAYER_WINS
        ∨ g.status = BLACK_PLAYER_WINS ∨ g.status = TIED_GAME ∨ ROOT_DEPTH = maxDepth)) :=
      fun h => absurd h.1 (by decide)
    obtain ⟨e1, e2⟩ := alphaBetaPruning_children env maxDepth g.currentPlayer maxDepth.toNat g
      (spCreateMove env.junk) ROOT_DEPTH INT_MIN INT_MAX cs hleaf hc
    rw [if_pos rfl] at e1
    have hpar0 : decide (ROOT_DEPTH % 2 = 0) = true := by decide
    rw [hpar0] at e2
    have hmove : (alphaBetaPruning env maxDepth g.currentPlayer (maxDepth.toNat + 1) g
        (spCreateMove env.junk) ROOT_DEPTH INT_MIN INT_MAX).2.1
        = (rootSearch env g maxDepth).minimaxMove := by
      rw [e2]
      unfold rootSearch
      rw [hpm]
      simp only
      rw [hloops.2.2.1]
    refine ⟨?_, hstate.1, hstate.2, e1, hmove⟩
    unfold spChessMinimaxMove
    have h0 : ¬ maxDepth ≤ 0 := by omega
    have hne : ¬ (INT_MAX = INT_MIN) := by decide
    simp only [h0, ↓reduceIte, e1, hne, decide_False, Bool.false_eq_true]
    rw [hmove, hstate.1]

set_option maxHeartbeats 4000000 in
/-- C3 at a concrete input: a search of depth 2 in `cornerGame`.  The unpruned values of the
three moves of the white king are -1 (to b1), -9 (to a2, which the pruned search leaves
after the first reply, the promotion to a queen) and 0 (the capture of the pawn), and the
capture is chosen with the value 0. -/
theorem C3_alpha_beta_is_minimax_witness :
    (1 : Int) ≤ 2
    ∧ plainRoot sampleEnv cornerGame 2 = some (cornerCapture, 0)
    ∧ (spChessMinimaxMove sampleEnv cornerGame 2).1 = some cornerCapture
    ∧ (rootSearch sampleEnv cornerGame 2).alpha = 0 :=
  have h2 : plainRoot sampleEnv cornerGame 2 = some (cornerCapture, 0) := by decide!
  ⟨by decide, h2,
    (C3_alpha_beta_is_minimax sampleEnv cornerGame 2 cornerCapture 0 (by decide) h2).1,
    (C3_alpha_beta_is_minimax sampleEnv cornerGame 2 cornerCapture 0 (by decide) h2).2.2.1⟩

end SPChess
